import Mathlib

/-!
MiniSQL storage kernel: shallow embedding and verified properties.

The C++ sources are embedded as pure, executable Lean functions over explicit
state records.  Conventions used throughout:

* `std::unordered_map<K, V>` is an association list with at most one entry per
  key (`UMap.find`, `UMap.insert`, `UMap.erase`);
* `std::list<T>` is a `List T`; an iterator into it is either a position
  (`clock_hand_`, where the length of the list stands for `end()`) or the
  address of a node (`lru_map_`);
* out-parameters become extra components of the returned value;
* unsigned 32-bit arithmetic is `Nat` arithmetic followed by `% 2^32`, signed
  32-bit values are `Int`s produced by `toInt32`.
-/

set_option maxRecDepth 100000

namespace MiniSQL

/-! ## Part I. Definitions -/

/-! ### Integer types and unordered maps -/

/-- Modelled from the spec: the typedef `frame_id_t` of the absent header
`common/config.h`; a frame is "identified by a `frame_id` in `[0, pool_size)`",
and the sources hold frame ids in signed integers. -/
abbrev frame_id_t := Int

/-- Modelled from the spec: the typedef `page_id_t` of the absent header
`common/config.h`; a page id is a "non-negative integer" or the sentinel -1,
and the sources compare page ids with 0, so the type is signed. -/
abbrev page_id_t := Int

/-- Modelled from the spec: "a sentinel `INVALID_PAGE_ID` = -1 denotes none". -/
def INVALID_PAGE_ID : page_id_t := -1

/-- Modelled from the spec: the sentinel `INVALID_FRAME_ID` of the absent header
`common/config.h`, a value outside `[0, pool_size)`; taken to be -1 like
`INVALID_PAGE_ID`. -/
def INVALID_FRAME_ID : frame_id_t := -1

/-- Wrap-around of an unsigned 32-bit value. -/
def u32 (n : Nat) : Nat := n % 2 ^ 32

/-- Conversion to a signed 32-bit `int` (two's complement wrap-around). -/
def toInt32 (n : Nat) : Int :=
  if n % 2 ^ 32 < 2 ^ 31 then ((n % 2 ^ 32 : Nat) : Int) else ((n % 2 ^ 32 : Nat) : Int) - 2 ^ 32

namespace UMap

/-- Lookup `m.find(k)`: the value stored under `k`, if any. -/
def find {K V : Type} [DecidableEq K] : List (K × V) → K → Option V
  | [], _ => none
  | (k', v) :: t, k => if k' = k then some v else find t k

/-- Removal `m.erase(k)`. -/
def erase {K V : Type} [DecidableEq K] (m : List (K × V)) (k : K) : List (K × V) :=
  m.filter (fun e => decide (e.1 ≠ k))

/-- Assignment `m[k] = v`. -/
def insert {K V : Type} [DecidableEq K] (m : List (K × V)) (k : K) (v : V) : List (K × V) :=
  (k, v) :: erase m k

/-- Membership test `m.count(k)`. -/
def count {K V : Type} [DecidableEq K] (m : List (K × V)) (k : K) : Nat :=
  if (find m k).isSome then 1 else 0

/-- The keys of the map. -/
def keys {K V : Type} (m : List (K × V)) : List K := m.map Prod.fst

end UMap

/-! ### `LRUReplacer` (src/buffer/lru_replacer.cpp) -/

/-- State of an `LRUReplacer`.  `lru_list_` lists the nodes of the `std::list`
from front (most recently unpinned) to back, each node being the pair of its
address and the frame id it stores; `lru_map_` maps a frame id to the iterator
(node address) stored for it. -/
structure LRUReplacer where
  lru_list_ : List (Nat × frame_id_t)
  lru_map_ : List (frame_id_t × Nat)
  deriving DecidableEq, Repr

namespace LRUReplacer

/-- Constructor `LRUReplacer(num_pages)`: both containers start empty (the
argument is ignored by the source). -/
def new (_num_pages : Nat) : LRUReplacer := ⟨[], []⟩

/-- An address not used by any live node of the list (what `push_front`
allocates). -/
def freshNode (l : List (Nat × frame_id_t)) : Nat :=
  (l.map Prod.fst).foldr max 0 + 1

/-- The frame ids stored in the list, front to back. -/
def frames (s : LRUReplacer) : List frame_id_t := s.lru_list_.map Prod.snd

/-- `LRUReplacer::Size`. -/
def Size (s : LRUReplacer) : Nat := s.lru_list_.length

/-- `LRUReplacer::Victim`: returns the written out-parameter (`none` when the
call returns `false`) and the new state. -/
def Victim (s : LRUReplacer) : Option frame_id_t × LRUReplacer :=
  match s.lru_list_.getLast? with
  | none => (none, s)
  | some node =>
    (some node.2,
      { lru_list_ := s.lru_list_.dropLast, lru_map_ := UMap.erase s.lru_map_ node.2 })

/-- `LRUReplacer::Pin`. -/
def Pin (s : LRUReplacer) (frame_id : frame_id_t) : LRUReplacer :=
  match UMap.find s.lru_map_ frame_id with
  | some it =>
    { lru_list_ := s.lru_list_.filter (fun node => decide (node.1 ≠ it)),
      lru_map_ := UMap.erase s.lru_map_ frame_id }
  | none => s

/-- `LRUReplacer::Unpin`. -/
def Unpin (s : LRUReplacer) (frame_id : frame_id_t) : LRUReplacer :=
  if UMap.count s.lru_map_ frame_id ≠ 0 then s
  else
    let it := freshNode s.lru_list_
    { lru_list_ := (it, frame_id) :: s.lru_list_,
      lru_map_ := UMap.insert s.lru_map_ frame_id it }

/-- The calls a client can make on a replacer. -/
inductive Op where
  | victim : Op
  | pin : frame_id_t → Op
  | unpin : frame_id_t → Op
  deriving DecidableEq, Repr

/-- Effect of one call on the state. -/
def step (s : LRUReplacer) : Op → LRUReplacer
  | .victim => (Victim s).2
  | .pin f => Pin s f
  | .unpin f => Unpin s f

/-- Effect of a sequence of calls. -/
def run (s : LRUReplacer) (ops : List Op) : LRUReplacer := ops.foldl step s

/-- Calls `Victim` `n` times, collecting the results in call order. -/
def victims : Nat → LRUReplacer → List (Option frame_id_t) × LRUReplacer
  | 0, s => ([], s)
  | n + 1, s => let r := Victim s; let rest := victims n r.2; (r.1 :: rest.1, rest.2)

/-- States reachable from a freshly constructed replacer. -/
def Reachable (s : LRUReplacer) : Prop := ∃ n ops, s = run (new n) ops

/-- Representation invariant of an `LRUReplacer`: node addresses are distinct,
no frame is stored twice, and the map sends a frame to the node storing it. -/
structure Inv (s : LRUReplacer) : Prop where
  nodes_nodup : (s.lru_list_.map Prod.fst).Nodup
  frames_nodup : (frames s).Nodup
  keys_nodup : (UMap.keys s.lru_map_).Nodup
  map_iff : ∀ f n, UMap.find s.lru_map_ f = some n ↔ (n, f) ∈ s.lru_list_

end LRUReplacer

/-! ### `CLOCKReplacer` (src/buffer/clock_replacer.cpp) -/

/-- State of a `CLOCKReplacer`.  `clock_hand_` is the position of the iterator in
`clock_list`; the value `clock_list.length` stands for `clock_list.end()`.
`clock_status` maps a member frame to its reference bit. -/
structure CLOCKReplacer where
  capacity : Nat
  clock_list : List frame_id_t
  clock_status : List (frame_id_t × Nat)
  clock_hand_ : Nat
  deriving DecidableEq, Repr

namespace CLOCKReplacer

/-- Constructor `CLOCKReplacer(num_pages)`. -/
def new (num_pages : Nat) : CLOCKReplacer := ⟨num_pages, [], [], 0⟩

/-- `CLOCKReplacer::Size`. -/
def Size (s : CLOCKReplacer) : Nat := s.clock_list.length

/-- The `while (true)` loop of `CLOCKReplacer::Victim`, one iteration per unit of
fuel; `none` means that the fuel ran out before the loop returned. -/
def VictimLoop : Nat → CLOCKReplacer → Option (frame_id_t × CLOCKReplacer)
  | 0, _ => none
  | fuel + 1, s =>
    let hand := if s.clock_hand_ = s.clock_list.length then 0 else s.clock_hand_
    let f := s.clock_list.getD hand 0
    if UMap.find s.clock_status f = some 1 then
      VictimLoop fuel
        { s with clock_status := UMap.insert s.clock_status f 0, clock_hand_ := hand + 1 }
    else
      some (f, { s with clock_status := UMap.erase s.clock_status f,
                        clock_list := s.clock_list.eraseIdx hand,
                        clock_hand_ := hand })

/-- `CLOCKReplacer::Victim` run with the given amount of fuel for its loop.  The
result is `none` if the loop did not return within the fuel; otherwise it is the
written out-parameter (`none` when the call returns `false`) and the new state. -/
def VictimFuel (fuel : Nat) (s : CLOCKReplacer) : Option (Option frame_id_t × CLOCKReplacer) :=
  if s.clock_list.isEmpty then some (none, s)
  else (VictimLoop fuel s).map (fun r => (some r.1, r.2))

/-- `CLOCKReplacer::Victim`, with one unit of fuel per member plus one. -/
def Victim (s : CLOCKReplacer) : Option (Option frame_id_t × CLOCKReplacer) :=
  VictimFuel (s.clock_list.length + 1) s

/-- `CLOCKReplacer::Pin`.  The `for` loop stops at the first node storing
`frame_id`, at position `i`; erasing it moves the hand to the following node
when the hand was on it, and otherwise leaves the hand on its node (or on
`end()`), whose position drops by one when it lies behind `i`. -/
def Pin (s : CLOCKReplacer) (frame_id : frame_id_t) : CLOCKReplacer :=
  if UMap.count s.clock_status frame_id = 0 then s
  else
    let i := s.clock_list.indexOf frame_id
    if i < s.clock_list.length then
      { s with clock_list := s.clock_list.eraseIdx i,
               clock_hand_ := if s.clock_hand_ = i then i
                              else if i < s.clock_hand_ then s.clock_hand_ - 1
                              else s.clock_hand_,
               clock_status := UMap.erase s.clock_status frame_id }
    else { s with clock_status := UMap.erase s.clock_status frame_id }

/-- `CLOCKReplacer::Unpin`.  `push_back` leaves an iterator equal to `end()` at
`end()`. -/
def Unpin (s : CLOCKReplacer) (frame_id : frame_id_t) : CLOCKReplacer :=
  if UMap.count s.clock_status frame_id ≠ 0 then
    { s with clock_status := UMap.insert s.clock_status frame_id 1 }
  else if s.clock_list.length ≥ s.capacity then s
  else
    let list := s.clock_list ++ [frame_id]
    { s with clock_list := list,
             clock_status := UMap.insert s.clock_status frame_id 1,
             clock_hand_ := if list.length = 1 then 0
                            else if s.clock_hand_ = s.clock_list.length then list.length
                            else s.clock_hand_ }

/-- The calls a client can make on a replacer. -/
inductive Op where
  | victim : Op
  | pin : frame_id_t → Op
  | unpin : frame_id_t → Op
  deriving DecidableEq, Repr

/-- Effect of one call: the value written by `Victim` (if any) and the new
state.  A `Victim` whose loop did not return leaves the state as it is and
reports nothing; by `Victim_isSome` this case does not arise. -/
def step (s : CLOCKReplacer) : Op → Option frame_id_t × CLOCKReplacer
  | .victim => (Victim s).getD (none, s)
  | .pin f => (none, Pin s f)
  | .unpin f => (none, Unpin s f)

/-- Effect of a sequence of calls: the outputs of the calls, in call order, and
the final state. -/
def run : CLOCKReplacer → List Op → List (Option frame_id_t) × CLOCKReplacer
  | s, [] => ([], s)
  | s, op :: ops =>
    let r := step s op
    let rest := run r.2 ops
    (r.1 :: rest.1, rest.2)

/-- States reachable from a freshly constructed replacer. -/
def Reachable (s : CLOCKReplacer) : Prop := ∃ n ops, s = (run (new n) ops).2

/-- Well-formed states: the hand is a valid iterator, no frame is stored twice
and the status map has exactly the members as keys. -/
structure WF (s : CLOCKReplacer) : Prop where
  hand_le : s.clock_hand_ ≤ s.clock_list.length
  nodup : s.clock_list.Nodup
  keys_nodup : (UMap.keys s.clock_status).Nodup
  keys_iff : ∀ f, f ∈ UMap.keys s.clock_status ↔ f ∈ s.clock_list

/-- Clears the reference bits of the given frames, first to last. -/
def clearBits (status : List (frame_id_t × Nat)) (fs : List frame_id_t) : List (frame_id_t × Nat) :=
  fs.foldl (fun m f => UMap.insert m f 0) status

/-- The reference bit of a frame is set. -/
def bitSet (s : CLOCKReplacer) (f : frame_id_t) : Bool :=
  decide (UMap.find s.clock_status f = some 1)

/-- The members in circular order starting at the hand (an `end()` hand starts
at the front). -/
def circular (s : CLOCKReplacer) : List frame_id_t :=
  let hand := if s.clock_hand_ = s.clock_list.length then 0 else s.clock_hand_
  s.clock_list.drop hand ++ s.clock_list.take hand

/-- The members the hand passes over in a `Victim` call: the longest run of
members with reference bit 1 in circular order from the hand. -/
def passedOver (s : CLOCKReplacer) : List frame_id_t :=
  (circular s).takeWhile (bitSet s)

/-- The first member in circular order from the hand whose reference bit is not
set, and the member at the hand when every bit is set. -/
def firstUnset (s : CLOCKReplacer) : frame_id_t :=
  ((circular s).find? (fun f => !bitSet s f)).getD ((circular s).headD 0)

end CLOCKReplacer

/-! ### `BitmapPage` (src/page/bitmap_page.cpp) -/

/-- A `BitmapPage<PageSize>`: the two 32-bit header fields and the byte array
`bytes` that fills the rest of the page. -/
structure BitmapPage (PageSize : Nat) where
  page_allocated_ : Nat
  next_free_page_ : Nat
  bytes : List Nat
  deriving DecidableEq, Repr

namespace BitmapPage

/-- Modelled from the spec: the header `page/bitmap_page.h` is not part of the
sources.  The bit array is "sized to fill the remainder of the page" after the
header `{page_allocated, next_free_hint}` of two 32-bit fields, so it has
`PageSize - 8` bytes. -/
def MAX_CHARS (PageSize : Nat) : Nat := PageSize - 8

/-- Modelled from the spec: `GetMaxSupportedSize()` is the number of bits of the
bit array, `8 * MAX_CHARS` (for the disk manager, `BITMAP_SIZE = PAGE_SIZE * 8 -
header_bits`). -/
def GetMaxSupportedSize (PageSize : Nat) : Nat := 8 * MAX_CHARS PageSize

/-- The all-zero page. -/
def zero (PageSize : Nat) : BitmapPage PageSize := ⟨0, 0, List.replicate (MAX_CHARS PageSize) 0⟩

/-- `BitmapPage::IsPageFreeLow`. -/
def IsPageFreeLow {PageSize : Nat} (b : BitmapPage PageSize) (byte_index bit_index : Nat) : Bool :=
  if bit_index ≥ 8 then false
  else decide ((b.bytes.getD byte_index 0) &&& (1 <<< bit_index) = 0)

/-- `BitmapPage::IsPageFree`. -/
def IsPageFree {PageSize : Nat} (b : BitmapPage PageSize) (page_offset : Nat) : Bool :=
  if page_offset ≥ GetMaxSupportedSize PageSize then false
  else IsPageFreeLow b (page_offset / 8) (page_offset % 8)

/-- The loop `for (i = lo; i < hi; ++i) if (IsPageFree(i)) ...`: the first
offset in `[lo, hi)` that is free, if any. -/
def findFree {PageSize : Nat} (b : BitmapPage PageSize) (lo hi : Nat) : Option Nat :=
  (List.range' lo (hi - lo)).find? (fun i => IsPageFree b i)

/-- The statement `bytes[byte_index] |= (1U << bit_index)`, stored back into an
`unsigned char`. -/
def setBit (bytes : List Nat) (page_offset : Nat) : List Nat :=
  bytes.set (page_offset / 8) ((bytes.getD (page_offset / 8) 0 ||| (1 <<< (page_offset % 8))) % 256)

/-- The statement `bytes[byte_index] &= ~(1U << bit_index)`; the complement is
taken on 32 bits and the result is stored back into an `unsigned char`. -/
def clearBit (bytes : List Nat) (page_offset : Nat) : List Nat :=
  bytes.set (page_offset / 8)
    ((bytes.getD (page_offset / 8) 0 &&& ((2 ^ 32 - 1) ^^^ (1 <<< (page_offset % 8)))) % 256)

/-- The body shared by the two search loops of `AllocatePage` once a free
offset `current_search_page` is found: mark it, count it, and move
`next_free_page_` to the next free offset (searching behind the offset first,
then before it). -/
def allocateAt {PageSize : Nat} (b : BitmapPage PageSize) (current_search_page : Nat) :
    BitmapPage PageSize :=
  let b1 : BitmapPage PageSize :=
    { b with bytes := setBit b.bytes current_search_page,
             page_allocated_ := u32 (b.page_allocated_ + 1) }
  if b1.page_allocated_ = GetMaxSupportedSize PageSize then
    { b1 with next_free_page_ := GetMaxSupportedSize PageSize }
  else
    match findFree b1 (current_search_page + 1) (GetMaxSupportedSize PageSize) with
    | some i => { b1 with next_free_page_ := i }
    | none =>
      match findFree b1 0 current_search_page with
      | some i => { b1 with next_free_page_ := i }
      | none => b1

/-- `BitmapPage::AllocatePage`: the written `page_offset` (`none` when the call
returns `false`) and the new page. -/
def AllocatePage {PageSize : Nat} (b : BitmapPage PageSize) : Option Nat × BitmapPage PageSize :=
  if b.page_allocated_ ≥ GetMaxSupportedSize PageSize then (none, b)
  else
    match findFree b b.next_free_page_ (GetMaxSupportedSize PageSize) with
    | some p => (some p, allocateAt b p)
    | none =>
      match findFree b 0 b.next_free_page_ with
      | some p => (some p, allocateAt b p)
      | none => (none, b)

/-- `BitmapPage::DeAllocatePage`: the returned flag and the new page. -/
def DeAllocatePage {PageSize : Nat} (b : BitmapPage PageSize) (page_offset : Nat) :
    Bool × BitmapPage PageSize :=
  if page_offset ≥ GetMaxSupportedSize PageSize then (false, b)
  else if IsPageFree b page_offset then (false, b)
  else
    let b1 : BitmapPage PageSize :=
      { b with bytes := clearBit b.bytes page_offset,
               page_allocated_ := u32 (b.page_allocated_ + (2 ^ 32 - 1)) }
    (true, if page_offset < b1.next_free_page_ then { b1 with next_free_page_ := page_offset }
           else b1)

/-- The calls a client can make on a bitmap page; the argument of
`DeAllocatePage` is a `uint32_t`. -/
inductive Op where
  | allocate : Op
  | deallocate : Nat → Op
  deriving DecidableEq, Repr

/-- Effect of one call on the page. -/
def step {PageSize : Nat} (b : BitmapPage PageSize) : Op → BitmapPage PageSize
  | .allocate => (AllocatePage b).2
  | .deallocate p => (DeAllocatePage b (u32 p)).2

/-- Effect of a sequence of calls. -/
def run {PageSize : Nat} (b : BitmapPage PageSize) (ops : List Op) : BitmapPage PageSize :=
  ops.foldl step b

/-- Pages reachable from the all-zero page. -/
def Reachable {PageSize : Nat} (b : BitmapPage PageSize) : Prop :=
  ∃ ops, b = run (zero PageSize) ops

/-- Bit `p` of the bit array: bit `p % 8` of byte `p / 8`. -/
def bit {PageSize : Nat} (b : BitmapPage PageSize) (p : Nat) : Bool :=
  (b.bytes.getD (p / 8) 0).testBit (p % 8)

/-- The number of 1 bits among the first `GetMaxSupportedSize()` bits. -/
def popcount {PageSize : Nat} (b : BitmapPage PageSize) : Nat :=
  (List.range (GetMaxSupportedSize PageSize)).countP (bit b)

/-- A page in which exactly the first `k` offsets are allocated and the hint
`next_free_page_` stands at `k`: the shape of a page on which only `AllocatePage`
has been called, `k` times. -/
def PrefixFull {PageSize : Nat} (b : BitmapPage PageSize) (k : Nat) : Prop :=
  b.bytes.length = MAX_CHARS PageSize ∧ b.page_allocated_ = k ∧ b.next_free_page_ = k ∧
  ∀ p, p < GetMaxSupportedSize PageSize → bit b p = decide (p < k)

end BitmapPage

/-! ### Records: `Row` (src/record/row.cpp) -/

/-- Modelled from the spec: the macro `MACH_WRITE_UINT32` of the absent header
`common/macros.h` stores a 32-bit value; "all multi-byte values" are
"little-endian fixed-width". -/
def MACH_WRITE_UINT32 (v : Nat) : List Nat :=
  [v % 256, v / 2 ^ 8 % 256, v / 2 ^ 16 % 256, v / 2 ^ 24 % 256]

/-- Modelled from the spec: the macro `MACH_READ_UINT32` of the absent header
`common/macros.h` loads the little-endian 32-bit value at the start of `buf`. -/
def MACH_READ_UINT32 (buf : List Nat) : Nat :=
  buf.getD 0 0 + 2 ^ 8 * buf.getD 1 0 + 2 ^ 16 * buf.getD 2 0 + 2 ^ 24 * buf.getD 3 0

/-- The column types `TypeId` used by the sources. -/
inductive TypeId where
  | kTypeInvalid : TypeId
  | kTypeInt : TypeId
  | kTypeFloat : TypeId
  | kTypeChar : TypeId
  deriving DecidableEq, Repr

/-- A `Column` (fields set by the constructors of src/record/column.cpp). -/
structure Column where
  name_ : List Nat
  type_ : TypeId
  len_ : Nat
  table_ind_ : Nat
  nullable_ : Bool
  unique_ : Bool
  deriving DecidableEq, Repr

/-- A `Schema`: its columns in order and the ownership flag. -/
structure Schema where
  columns_ : List Column
  is_manage_ : Bool
  deriving DecidableEq, Repr

/-- `Schema::GetColumnCount`, a `uint32_t`. -/
def Schema.GetColumnCount (schema : Schema) : Nat := u32 schema.columns_.length

/-- The interface of `Field` that `Row` relies on.  The class `Field` and the
type classes behind it are not part of the sources, so `Row` is embedded over
any implementation of these five members; `Field` below is the one described by
the spec.  `SerializeTo` gives the bytes written at the pointer (their number is
the returned count); `DeserializeFrom buf type_id is_null` gives the created
field and the returned count, or `none` when no field is created. -/
structure FieldCodec (F : Type) where
  IsNull : F → Bool
  GetTypeId : F → TypeId
  SerializeTo : F → List Nat
  GetSerializedSize : F → Nat
  DeserializeFrom : List Nat → TypeId → Bool → Option (F × Nat)

/-- What `Row` expects of a `Field` implementation on the fields satisfying
`valid`: the reported size is the number of bytes written, and reading back what
was written, with the field's type and null flag, recreates the field and
consumes exactly those bytes. -/
structure FieldCodec.Lawful {F : Type} (c : FieldCodec F) (valid : F → Prop) : Prop where
  size_eq : ∀ f, valid f → c.GetSerializedSize f = (c.SerializeTo f).length
  roundtrip : ∀ f rest, valid f →
    c.DeserializeFrom (c.SerializeTo f ++ rest) (c.GetTypeId f) (c.IsNull f)
      = some (f, (c.SerializeTo f).length)

namespace Row

/-- One iteration of the loop of `Row::SerializeTo` that fills `null_bitmap`:
bit `i` is set when field `i` is null. -/
def nullBitmapStep {F : Type} (c : FieldCodec F) (fields_ : List F) (null_bitmap : List Nat)
    (i : Nat) : List Nat :=
  match fields_[i]? with
  | some f => if c.IsNull f then BitmapPage.setBit null_bitmap i else null_bitmap
  | none => null_bitmap

/-- The `null_bitmap` vector built by `Row::SerializeTo`: `(num_columns + 7) / 8`
zero bytes, then one iteration per column. -/
def nullBitmap {F : Type} (c : FieldCodec F) (fields_ : List F) (num_columns : Nat) : List Nat :=
  (List.range num_columns).foldl (nullBitmapStep c fields_)
    (List.replicate (u32 (num_columns + 7) / 8) 0)

/-- `Row::SerializeTo`: the returned count and the bytes written at `buf`;
`none` when the assertion on the column count fails.  `fields_` holds the
pointed-to fields (the source asserts that no pointer is null). -/
def SerializeTo {F : Type} (c : FieldCodec F) (fields_ : List F) (schema : Schema) :
    Option (Nat × List Nat) :=
  if schema.GetColumnCount ≠ fields_.length then none
  else
    let num_columns := schema.GetColumnCount
    let header := MACH_WRITE_UINT32 num_columns
    let bitmap := if num_columns > 0 then nullBitmap c fields_ num_columns else []
    let data := (fields_.map c.SerializeTo).flatten
    let written := header ++ bitmap ++ data
    some (u32 written.length, written)

/-- The field loop of `Row::DeserializeFrom` from index `i` on: the fields
created and the number of bytes consumed, or `none` on the error paths. -/
def deserializeFields {F : Type} (c : FieldCodec F) (null_bitmap_data : List Nat) :
    Nat → List Column → List Nat → Option (List F × Nat)
  | _, [], _ => some ([], 0)
  | i, column :: columns, buf =>
    if i / 8 < null_bitmap_data.length then
      let is_null := decide (null_bitmap_data.getD (i / 8) 0 &&& (1 <<< (i % 8)) ≠ 0)
      match c.DeserializeFrom buf column.type_ is_null with
      | none => none
      | some (field, field_bytes_read) =>
        match deserializeFields c null_bitmap_data (i + 1) columns (buf.drop field_bytes_read) with
        | none => none
        | some (fields, n) => some (field :: fields, field_bytes_read + n)
    else none

/-- `Row::DeserializeFrom` on a row whose `fields_` is empty: the returned count
and the resulting `fields_` (count 0 and no fields on the error paths). -/
def DeserializeFrom {F : Type} (c : FieldCodec F) (buf : List Nat) (schema : Schema) :
    Nat × List F :=
  let num_columns_from_buf := MACH_READ_UINT32 buf
  if num_columns_from_buf ≠ schema.GetColumnCount then (0, [])
  else
    let null_bitmap_byte_size := u32 (num_columns_from_buf + 7) / 8
    let null_bitmap_data :=
      if num_columns_from_buf > 0 then
        ((buf.drop 4).take null_bitmap_byte_size)
          ++ List.replicate (num_columns_from_buf - null_bitmap_byte_size) 0
      else []
    let current := if num_columns_from_buf > 0 then 4 + null_bitmap_byte_size else 4
    match deserializeFields c null_bitmap_data 0 schema.columns_ (buf.drop current) with
    | none => (0, [])
    | some (fields, n) => (u32 (current + n), fields)

/-- `Row::GetSerializedSize` (all sums are `uint32_t`); `none` when the assertion
on the column count fails. -/
def GetSerializedSize {F : Type} (c : FieldCodec F) (fields_ : List F) (schema : Schema) :
    Option Nat :=
  if schema.GetColumnCount ≠ fields_.length then none
  else if fields_.isEmpty ∧ schema.GetColumnCount = 0 then some 4
  else
    let num_columns := schema.GetColumnCount
    let total_size := 4
    let total_size := if num_columns > 0 then u32 (total_size + u32 (num_columns + 7) / 8) else total_size
    some (fields_.foldl (fun total_size field => u32 (total_size + c.GetSerializedSize field)) total_size)

end Row

/-- Modelled from the spec: the class `Field` is not part of the sources.  The
spec describes "a typed value carrying a Null flag" that "serializes to a
fixed-width prefix (Int/Float) or a length-prefixed byte string (Char)".  A
float is kept as its 32-bit pattern. -/
inductive Field where
  | null : TypeId → Field
  | int : Int → Field
  | float : Nat → Field
  | chars : List Nat → Field
  deriving DecidableEq, Repr

namespace Field

/-- Modelled from the spec: the null flag of a field. -/
def IsNull : Field → Bool
  | .null _ => true
  | _ => false

/-- Modelled from the spec: the type of a field. -/
def GetTypeId : Field → TypeId
  | .null t => t
  | .int _ => .kTypeInt
  | .float _ => .kTypeFloat
  | .chars _ => .kTypeChar

/-- Modelled from the spec: a null field writes nothing, an Int or Float writes
its four bytes, a Char writes its length and its bytes. -/
def SerializeTo : Field → List Nat
  | .null _ => []
  | .int v => MACH_WRITE_UINT32 (v % 2 ^ 32).toNat
  | .float bits => MACH_WRITE_UINT32 bits
  | .chars s => MACH_WRITE_UINT32 s.length ++ s

/-- Modelled from the spec: the number of bytes `SerializeTo` writes. -/
def GetSerializedSize (f : Field) : Nat := (SerializeTo f).length

/-- Modelled from the spec: the inverse of `SerializeTo`, given the type and the
null flag. -/
def DeserializeFrom (buf : List Nat) (type_id : TypeId) (is_null : Bool) : Option (Field × Nat) :=
  if is_null then some (.null type_id, 0)
  else
    match type_id with
    | .kTypeInt => some (.int (toInt32 (MACH_READ_UINT32 buf)), 4)
    | .kTypeFloat => some (.float (MACH_READ_UINT32 buf), 4)
    | .kTypeChar =>
      some (.chars ((buf.drop 4).take (MACH_READ_UINT32 buf)), 4 + MACH_READ_UINT32 buf)
    | .kTypeInvalid => none

/-- The fields a `Field` object can hold: a 32-bit integer, a 32-bit pattern, or
at most `2^32 - 1` characters. -/
def Valid : Field → Prop
  | .null _ => True
  | .int v => -(2 ^ 31) ≤ v ∧ v < 2 ^ 31
  | .float bits => bits < 2 ^ 32
  | .chars s => s.length < 2 ^ 32 ∧ ∀ b ∈ s, b < 256

/-- The `Field` implementation described by the spec. -/
def codec : FieldCodec Field := ⟨IsNull, GetTypeId, SerializeTo, GetSerializedSize, DeserializeFrom⟩

end Field

/-! ### `DiskManager` (src/storage/disk_manager.cpp) -/

/-- The compile-time constants of the absent header `common/config.h` that the
storage layer depends on. -/
structure Config where
  PAGE_SIZE : Nat
  MAX_VALID_PAGE_ID : Nat
  deriving DecidableEq, Repr

/-- Modelled from the spec: the configuration used for concrete runs.  Pages
have 4 KiB ("typically 4 KiB"); `MAX_VALID_PAGE_ID`, whose definition is absent,
is taken to be the number of pages that a full meta page can describe,
`(PAGE_SIZE - 8) / 4` extents of `8 * (PAGE_SIZE - 8)` pages. -/
def Config.default : Config := ⟨4096, (4096 - 8) / 4 * (8 * (4096 - 8))⟩

/-- Modelled from the spec: `BITMAP_SIZE` is the number of pages one bitmap page
governs, `BitmapPage<PAGE_SIZE>::GetMaxSupportedSize()`, i.e.
`PAGE_SIZE * 8 - header_bits`. -/
def Config.BITMAP_SIZE (cfg : Config) : Nat := BitmapPage.GetMaxSupportedSize cfg.PAGE_SIZE

/-- Modelled from the spec: physical page 0 is the disk meta page. -/
def META_PAGE_ID : page_id_t := 0

/-- Wrap-around of a mathematical integer into a signed 32-bit `int`. -/
def wrapInt32 (x : Int) : Int := (x + 2 ^ 31) % 2 ^ 32 - 2 ^ 31

/-- The database file behind the stream `db_io_`: its length in bytes, its
bytes, and the fail bit of the stream (once set, every later stream operation
does nothing, since the sources never clear it). -/
structure DbFile where
  size : Nat
  data : Nat → Nat
  fail : Bool

/-- A page-sized buffer of zero bytes (`memset(page_data, 0, PAGE_SIZE)`). -/
def zeroPage (cfg : Config) : List Nat := List.replicate cfg.PAGE_SIZE 0

/-- Modelled from the spec: the typed view `DiskFileMetaPage` of the buffer
`meta_data_` (absent header `page/disk_file_meta_page.h`),
"`{num_allocated_pages, num_extents, extent_used_page[i]}`": two 32-bit
counters followed by one 32-bit counter per extent. -/
structure DiskFileMetaPage where
  num_allocated_pages_ : Nat
  num_extents_ : Nat
  extent_used_page_ : List Nat

/-- State of a `DiskManager`. -/
structure DiskManager where
  meta_data_ : DiskFileMetaPage
  db_io_ : DbFile

namespace DiskManager

/-- `DiskManager::GetFileSize`: the file length returned as an `int`. -/
def GetFileSize (file : DbFile) : Int := wrapInt32 file.size

/-- `DiskManager::ReadPhysicalPage`: the page read and the stream afterwards.
The byte offset is an `int`.  A seek to a negative offset fails and sets the
fail bit, after which `read` delivers nothing and the whole buffer is
zero-filled; a read that meets the end of the file sets the fail bit too. -/
def ReadPhysicalPage (cfg : Config) (file : DbFile) (physical_page_id : page_id_t) :
    List Nat × DbFile :=
  let offset : Int := wrapInt32 (physical_page_id * cfg.PAGE_SIZE)
  if offset ≥ GetFileSize file then (zeroPage cfg, file)
  else if file.fail then (zeroPage cfg, file)
  else if offset < 0 then (zeroPage cfg, { file with fail := true })
  else
    let off := offset.toNat
    let read_count := min cfg.PAGE_SIZE (file.size - off)
    ((List.range cfg.PAGE_SIZE).map (fun i => if i < read_count then file.data (off + i) else 0),
      { file with fail := decide (read_count < cfg.PAGE_SIZE) })

/-- `DiskManager::WritePhysicalPage`.  The byte offset is a `size_t`; a seek
beyond the largest stream offset fails and sets the fail bit, after which
nothing is written.  Writing behind the end of the file extends it, the gap
reading as zero. -/
def WritePhysicalPage (cfg : Config) (file : DbFile) (physical_page_id : page_id_t)
    (page_data : List Nat) : DbFile :=
  let offset : Nat := ((physical_page_id % 2 ^ 64).toNat * cfg.PAGE_SIZE) % 2 ^ 64
  if file.fail then file
  else if offset ≥ 2 ^ 63 then { file with fail := true }
  else
    { size := max file.size (offset + cfg.PAGE_SIZE),
      data := fun i =>
        if offset ≤ i ∧ i < offset + cfg.PAGE_SIZE then page_data.getD (i - offset) 0
        else file.data i,
      fail := false }

/-- `DiskManager::MapPageId` for a non-negative logical page id. -/
def MapPageId (cfg : Config) (logical_page_id : page_id_t) : page_id_t :=
  let extent_id := u32 (logical_page_id.toNat / cfg.BITMAP_SIZE)
  let page_offset_in_logical_extent := u32 (logical_page_id.toNat % cfg.BITMAP_SIZE)
  wrapInt32 (1 + extent_id * (1 + cfg.BITMAP_SIZE) + 1 + page_offset_in_logical_extent : Nat)

/-- `DiskManager::ReadPage`: the page read and the new state; `none` when the
assertion `logical_page_id >= 0` fails. -/
def ReadPage (cfg : Config) (s : DiskManager) (logical_page_id : page_id_t) :
    Option (List Nat × DiskManager) :=
  if logical_page_id < 0 then none
  else
    let r := ReadPhysicalPage cfg s.db_io_ (MapPageId cfg logical_page_id)
    some (r.1, { s with db_io_ := r.2 })

/-- `DiskManager::WritePage`; `none` when the assertion `logical_page_id >= 0`
fails. -/
def WritePage (cfg : Config) (s : DiskManager) (logical_page_id : page_id_t)
    (page_data : List Nat) : Option DiskManager :=
  if logical_page_id < 0 then none
  else some { s with db_io_ := WritePhysicalPage cfg s.db_io_ (MapPageId cfg logical_page_id) page_data }

/-- Modelled from the spec: the view of a page buffer as a `BitmapPage`
(`reinterpret_cast<BitmapPage<PAGE_SIZE> *>`): the header
`{page_allocated, next_free_hint}` of two little-endian 32-bit fields, then the
bit array. -/
def toBitmap (cfg : Config) (page_buffer : List Nat) : BitmapPage cfg.PAGE_SIZE :=
  ⟨MACH_READ_UINT32 page_buffer, MACH_READ_UINT32 (page_buffer.drop 4),
    (page_buffer.drop 8).take (BitmapPage.MAX_CHARS cfg.PAGE_SIZE)⟩

/-- Modelled from the spec: the page buffer holding a `BitmapPage` (inverse of
`toBitmap`). -/
def ofBitmap (cfg : Config) (bitmap : BitmapPage cfg.PAGE_SIZE) : List Nat :=
  MACH_WRITE_UINT32 bitmap.page_allocated_ ++ MACH_WRITE_UINT32 bitmap.next_free_page_
    ++ bitmap.bytes

/-- The physical page of the bitmap of extent `extent_id`,
`1 + extent_id * (1 + BITMAP_SIZE)`, as a `page_id_t`. -/
def bitmapPhysicalPageId (cfg : Config) (extent_id : Nat) : page_id_t :=
  wrapInt32 (1 + extent_id * (1 + cfg.BITMAP_SIZE) : Nat)

/-- The first loop of `DiskManager::AllocatePage` over the given extent ids:
the page id returned from inside the loop (`none` when the loop runs to its
end) and the new state. -/
def allocateInExtents (cfg : Config) : List Nat → DiskManager → Option page_id_t × DiskManager
  | [], s => (none, s)
  | extent_id :: rest, s =>
    if s.meta_data_.extent_used_page_.getD extent_id 0 < cfg.BITMAP_SIZE then
      let r := ReadPhysicalPage cfg s.db_io_ (bitmapPhysicalPageId cfg extent_id)
      match BitmapPage.AllocatePage (toBitmap cfg r.1) with
      | (some page_offset_in_bitmap, bitmap) =>
        (some (wrapInt32 (extent_id * cfg.BITMAP_SIZE + page_offset_in_bitmap : Nat)),
          { meta_data_ :=
              { s.meta_data_ with
                num_allocated_pages_ := u32 (s.meta_data_.num_allocated_pages_ + 1),
                extent_used_page_ := s.meta_data_.extent_used_page_.set extent_id
                  (u32 (s.meta_data_.extent_used_page_.getD extent_id 0 + 1)) },
            db_io_ := WritePhysicalPage cfg r.2 (bitmapPhysicalPageId cfg extent_id)
              (ofBitmap cfg bitmap) })
      | (none, _) => allocateInExtents cfg rest { s with db_io_ := r.2 }
    else allocateInExtents cfg rest s

/-- `DiskManager::AllocatePage`: the returned page id and the new state. -/
def AllocatePage (cfg : Config) (s : DiskManager) : page_id_t × DiskManager :=
  if s.meta_data_.num_allocated_pages_ ≥ cfg.MAX_VALID_PAGE_ID then (INVALID_PAGE_ID, s)
  else
    match allocateInExtents cfg (List.range s.meta_data_.num_extents_) s with
    | (some page_id, s') => (page_id, s')
    | (none, s') =>
      let current_num_extents := s'.meta_data_.num_extents_
      let max_extents_possible := u32 ((cfg.PAGE_SIZE - 8) / 4)
      if current_num_extents < max_extents_possible then
        let new_extent_id := current_num_extents
        match BitmapPage.AllocatePage (toBitmap cfg (zeroPage cfg)) with
        | (some page_offset_in_bitmap, bitmap) =>
          (wrapInt32 (new_extent_id * cfg.BITMAP_SIZE + page_offset_in_bitmap : Nat),
            { meta_data_ :=
                { num_extents_ := u32 (s'.meta_data_.num_extents_ + 1),
                  num_allocated_pages_ := u32 (s'.meta_data_.num_allocated_pages_ + 1),
                  extent_used_page_ := s'.meta_data_.extent_used_page_.set new_extent_id 1 },
              db_io_ := WritePhysicalPage cfg s'.db_io_ (bitmapPhysicalPageId cfg new_extent_id)
                (ofBitmap cfg bitmap) })
        | (none, _) => (INVALID_PAGE_ID, s')
      else (INVALID_PAGE_ID, s')

/-- `DiskManager::DeAllocatePage`. -/
def DeAllocatePage (cfg : Config) (s : DiskManager) (logical_page_id : page_id_t) : DiskManager :=
  if logical_page_id < 0 then s
  else
    let extent_id := u32 (logical_page_id.toNat / cfg.BITMAP_SIZE)
    let page_offset_in_bitmap := u32 (logical_page_id.toNat % cfg.BITMAP_SIZE)
    if extent_id ≥ s.meta_data_.num_extents_ then s
    else
      let r := ReadPhysicalPage cfg s.db_io_ (bitmapPhysicalPageId cfg extent_id)
      match BitmapPage.DeAllocatePage (toBitmap cfg r.1) page_offset_in_bitmap with
      | (true, bitmap) =>
        { meta_data_ :=
            { s.meta_data_ with
              num_allocated_pages_ := u32 (s.meta_data_.num_allocated_pages_ + (2 ^ 32 - 1)),
              extent_used_page_ := s.meta_data_.extent_used_page_.set extent_id
                (u32 (s.meta_data_.extent_used_page_.getD extent_id 0 + (2 ^ 32 - 1))) },
          db_io_ := WritePhysicalPage cfg r.2 (bitmapPhysicalPageId cfg extent_id)
            (ofBitmap cfg bitmap) }
      | (false, _) => { s with db_io_ := r.2 }

/-- `DiskManager::IsPageFree`: the answer and the new state (the call reads the
file). -/
def IsPageFree (cfg : Config) (s : DiskManager) (logical_page_id : page_id_t) :
    Bool × DiskManager :=
  if logical_page_id < 0 then (false, s)
  else
    let extent_id := u32 (logical_page_id.toNat / cfg.BITMAP_SIZE)
    let page_offset_in_bitmap := u32 (logical_page_id.toNat % cfg.BITMAP_SIZE)
    if extent_id ≥ s.meta_data_.num_extents_ then (true, s)
    else
      let r := ReadPhysicalPage cfg s.db_io_ (bitmapPhysicalPageId cfg extent_id)
      (BitmapPage.IsPageFree (toBitmap cfg r.1) page_offset_in_bitmap, { s with db_io_ := r.2 })

/-- The state of a `DiskManager` opened on an empty file: the constructor reads
the meta page, which is all zero. -/
def openEmpty (cfg : Config) : DiskManager :=
  { meta_data_ := ⟨0, 0, List.replicate ((cfg.PAGE_SIZE - 8) / 4) 0⟩,
    db_io_ := ⟨0, fun _ => 0, false⟩ }

/-- The calls on the page allocator of a `DiskManager`. -/
inductive Op where
  | allocate : Op
  | deallocate : page_id_t → Op
  deriving DecidableEq, Repr

/-- Effect of one allocator call: the page id returned by `AllocatePage` (if
that was the call) and the new state. -/
def step (cfg : Config) (s : DiskManager) : Op → Option page_id_t × DiskManager
  | .allocate => let r := AllocatePage cfg s; (some r.1, r.2)
  | .deallocate p => (none, DeAllocatePage cfg s p)

/-- Effect of a sequence of allocator calls: the results in call order and the
final state. -/
def run (cfg : Config) : DiskManager → List Op → List (Option page_id_t) × DiskManager
  | s, [] => ([], s)
  | s, op :: ops =>
    let r := step cfg s op
    let rest := run cfg r.2 ops
    (r.1 :: rest.1, rest.2)

/-- The shape of the state after `n` calls of `AllocatePage` on an empty file
with 4 KiB pages (32704 pages per extent): `n` pages allocated in
`ceil(n / 32704)` extents, all of them full but possibly the last, the stream
healthy, the file ending with the bitmap page of the last extent, and that
bitmap page holding on disk a bitmap whose first `n - 32704 * e` offsets are
allocated (`e` the last extent). -/
def Filled (n : Nat) (s : DiskManager) : Prop :=
  s.meta_data_.num_allocated_pages_ = n ∧
  s.meta_data_.num_extents_ = (n + 32703) / 32704 ∧
  s.meta_data_.extent_used_page_.length = 1022 ∧
  (∀ e, e < (n + 32703) / 32704 →
    s.meta_data_.extent_used_page_.getD e 0 = min 32704 (n - e * 32704)) ∧
  s.db_io_.fail = false ∧
  s.db_io_.size ≤ ((n + 32703) / 32704 * 32705 - 32703) * 4096 ∧
  ∀ e, e + 1 = (n + 32703) / 32704 →
    ∃ b : BitmapPage Config.default.PAGE_SIZE, BitmapPage.PrefixFull b (n - e * 32704) ∧
      ReadPhysicalPage Config.default s.db_io_ (bitmapPhysicalPageId Config.default e)
        = (ofBitmap Config.default b, s.db_io_)

end DiskManager

/-! ### `BufferPoolManager` (src/buffer/buffer_pool_manager.cpp) -/

/-- A `Page` object: the bytes of the frame and its metadata.  `pin_count_` is an
`int`. -/
structure Page where
  data_ : List Nat
  page_id_ : page_id_t
  pin_count_ : Int
  is_dirty_ : Bool
  deriving DecidableEq, Repr

/-- State of a `BufferPoolManager`: the frame array `pages_`, the page table, the
free list, the replacer (an `LRUReplacer`, as created by the constructor) and
the `DiskManager` it points to. -/
structure BufferPoolManager where
  pool_size_ : Nat
  pages_ : List Page
  page_table_ : List (page_id_t × frame_id_t)
  free_list_ : List frame_id_t
  replacer_ : LRUReplacer
  disk_manager_ : DiskManager

namespace BufferPoolManager

/-- Modelled from the spec: a `Page` as its constructor (absent header
`page/page.h`) leaves it, holding no page, unpinned, clean and zeroed. -/
def emptyPage (cfg : Config) : Page := ⟨zeroPage cfg, INVALID_PAGE_ID, 0, false⟩

/-- The constructor `BufferPoolManager(pool_size, disk_manager)`: every frame is
in the free list, in ascending order. -/
def new (cfg : Config) (pool_size : Nat) (disk_manager : DiskManager) : BufferPoolManager :=
  { pool_size_ := pool_size,
    pages_ := List.replicate pool_size (emptyPage cfg),
    page_table_ := [],
    free_list_ := (List.range pool_size).map (fun i : Nat => (i : Int)),
    replacer_ := LRUReplacer.new pool_size,
    disk_manager_ := disk_manager }

/-- The frame `pages_[frame_id]`. -/
def page (cfg : Config) (s : BufferPoolManager) (frame_id : frame_id_t) : Page :=
  s.pages_.getD frame_id.toNat (emptyPage cfg)

/-- Assignment to the frame `pages_[frame_id]`. -/
def setPage (s : BufferPoolManager) (frame_id : frame_id_t) (p : Page) : BufferPoolManager :=
  { s with pages_ := s.pages_.set frame_id.toNat p }

/-- A call `disk_manager_->WritePage(page_id, data)` for a page id that passes
the assertion `logical_page_id >= 0` of `WritePage`.  For a negative page id
the source does not return from the call; the value given here for that case
(the disk as it is) belongs to no run of the program, and no statement about a
write-back is made for such ids. -/
def diskWrite (cfg : Config) (d : DiskManager) (page_id : page_id_t) (data : List Nat) :
    DiskManager :=
  (DiskManager.WritePage cfg d page_id data).getD d

/-- A call `disk_manager_->ReadPage(page_id, data)` into a frame holding `old`,
for a page id that passes the assertion `logical_page_id >= 0` of `ReadPage`.
For a negative page id the source does not return from the call; the value
given here for that case (frame and disk as they are) belongs to no run of the
program, and the statements about the bytes a `FetchPage` delivers are made for
page ids that are not negative. -/
def diskRead (cfg : Config) (d : DiskManager) (page_id : page_id_t) (old : List Nat) :
    List Nat × DiskManager :=
  (DiskManager.ReadPage cfg d page_id).getD (old, d)

/-- `BufferPoolManager::TryToFindFreePage`: the frame found (`INVALID_FRAME_ID`
when there is none) and the new state. -/
def TryToFindFreePage (cfg : Config) (s : BufferPoolManager) : frame_id_t × BufferPoolManager :=
  match s.free_list_ with
  | frame_id :: rest => (frame_id, { s with free_list_ := rest })
  | [] =>
    match LRUReplacer.Victim s.replacer_ with
    | (some frame_id, replacer) =>
      let victim_page := page cfg s frame_id
      let old_page_id := victim_page.page_id_
      let disk :=
        if victim_page.is_dirty_ then diskWrite cfg s.disk_manager_ old_page_id victim_page.data_
        else s.disk_manager_
      (frame_id,
        { s with
          replacer_ := replacer,
          disk_manager_ := disk,
          page_table_ := UMap.erase s.page_table_ old_page_id,
          pages_ := s.pages_.set frame_id.toNat ⟨zeroPage cfg, INVALID_PAGE_ID, 0, false⟩ })
    | (none, _) => (INVALID_FRAME_ID, s)

/-- `BufferPoolManager::FetchPage`: the frame of the returned page (`none` for
`nullptr`) and the new state. -/
def FetchPage (cfg : Config) (s : BufferPoolManager) (page_id : page_id_t) :
    Option frame_id_t × BufferPoolManager :=
  if page_id = INVALID_PAGE_ID then (none, s)
  else
    match UMap.find s.page_table_ page_id with
    | some frame_id =>
      let p := page cfg s frame_id
      (some frame_id,
        { s with
          pages_ := s.pages_.set frame_id.toNat { p with pin_count_ := wrapInt32 (p.pin_count_ + 1) },
          replacer_ := LRUReplacer.Pin s.replacer_ frame_id })
    | none =>
      let r := TryToFindFreePage cfg s
      if r.1 = INVALID_FRAME_ID then (none, r.2)
      else
        let s1 := r.2
        let rd := diskRead cfg s1.disk_manager_ page_id (page cfg s1 r.1).data_
        (some r.1,
          { s1 with
            page_table_ := UMap.insert s1.page_table_ page_id r.1,
            pages_ := s1.pages_.set r.1.toNat ⟨rd.1, page_id, 1, false⟩,
            disk_manager_ := rd.2,
            replacer_ := LRUReplacer.Pin s1.replacer_ r.1 })

/-- `BufferPoolManager::NewPage`: the value written to `page_id_out`, the frame of
the returned page (`none` for `nullptr`) and the new state. -/
def NewPage (cfg : Config) (s : BufferPoolManager) :
    page_id_t × Option frame_id_t × BufferPoolManager :=
  let r := TryToFindFreePage cfg s
  if r.1 = INVALID_FRAME_ID then (INVALID_PAGE_ID, none, r.2)
  else
    let s1 := r.2
    let a := DiskManager.AllocatePage cfg s1.disk_manager_
    let new_logical_page_id := a.1
    if new_logical_page_id = INVALID_PAGE_ID then
      (INVALID_PAGE_ID, none,
        { s1 with
          pages_ := s1.pages_.set r.1.toNat
            { page cfg s1 r.1 with page_id_ := INVALID_PAGE_ID, pin_count_ := 0, is_dirty_ := false },
          free_list_ := s1.free_list_ ++ [r.1],
          disk_manager_ := a.2 })
    else
      (new_logical_page_id, some r.1,
        { s1 with
          page_table_ := UMap.insert s1.page_table_ new_logical_page_id r.1,
          pages_ := s1.pages_.set r.1.toNat ⟨zeroPage cfg, new_logical_page_id, 1, true⟩,
          disk_manager_ := a.2,
          replacer_ := LRUReplacer.Pin s1.replacer_ r.1 })

/-- `BufferPoolManager::DeletePage`. -/
def DeletePage (cfg : Config) (s : BufferPoolManager) (page_id : page_id_t) :
    Bool × BufferPoolManager :=
  if page_id = INVALID_PAGE_ID then (true, s)
  else
    match UMap.find s.page_table_ page_id with
    | none =>
      (true, { s with disk_manager_ := DiskManager.DeAllocatePage cfg s.disk_manager_ page_id })
    | some frame_id =>
      if (page cfg s frame_id).pin_count_ > 0 then (false, s)
      else
        (true,
          { s with
            page_table_ := UMap.erase s.page_table_ page_id,
            replacer_ := LRUReplacer.Pin s.replacer_ frame_id,
            pages_ := s.pages_.set frame_id.toNat ⟨zeroPage cfg, INVALID_PAGE_ID, 0, false⟩,
            free_list_ := s.free_list_ ++ [frame_id],
            disk_manager_ := DiskManager.DeAllocatePage cfg s.disk_manager_ page_id })

/-- `BufferPoolManager::UnpinPage`. -/
def UnpinPage (cfg : Config) (s : BufferPoolManager) (page_id : page_id_t) (is_dirty : Bool) :
    Bool × BufferPoolManager :=
  if page_id = INVALID_PAGE_ID then (false, s)
  else
    match UMap.find s.page_table_ page_id with
    | none => (false, s)
    | some frame_id =>
      let p := page cfg s frame_id
      if p.pin_count_ ≤ 0 then (false, s)
      else
        let p1 : Page :=
          { p with pin_count_ := wrapInt32 (p.pin_count_ - 1),
                   is_dirty_ := if is_dirty then true else p.is_dirty_ }
        (true,
          { s with
            pages_ := s.pages_.set frame_id.toNat p1,
            replacer_ := if p1.pin_count_ = 0 then LRUReplacer.Unpin s.replacer_ frame_id
                         else s.replacer_ })

/-- `BufferPoolManager::FlushPage`. -/
def FlushPage (cfg : Config) (s : BufferPoolManager) (page_id : page_id_t) :
    Bool × BufferPoolManager :=
  if page_id = INVALID_PAGE_ID then (false, s)
  else
    match UMap.find s.page_table_ page_id with
    | none => (false, s)
    | some frame_id =>
      let p := page cfg s frame_id
      (true,
        { s with
          disk_manager_ := diskWrite cfg s.disk_manager_ p.page_id_ p.data_,
          pages_ := s.pages_.set frame_id.toNat { p with is_dirty_ := false } })

/-- The public calls on a buffer pool. -/
inductive Op where
  | fetch : page_id_t → Op
  | newPage : Op
  | unpin : page_id_t → Bool → Op
  | delete : page_id_t → Op
  | flush : page_id_t → Op
  deriving DecidableEq, Repr

/-- Effect of one call on the state. -/
def step (cfg : Config) (s : BufferPoolManager) : Op → BufferPoolManager
  | .fetch p => (FetchPage cfg s p).2
  | .newPage => (NewPage cfg s).2.2
  | .unpin p d => (UnpinPage cfg s p d).2
  | .delete p => (DeletePage cfg s p).2
  | .flush p => (FlushPage cfg s p).2

/-- Effect of a sequence of calls. -/
def run (cfg : Config) (s : BufferPoolManager) (ops : List Op) : BufferPoolManager :=
  ops.foldl (step cfg) s

/-- Frame `f` holds page `p`. -/
def holds (cfg : Config) (s : BufferPoolManager) (f : Int) (p : page_id_t) : Prop :=
  0 ≤ f ∧ f < s.pool_size_ ∧ (page cfg s f).page_id_ = p

/-- The condition of C1 on a state: the page table maps distinct page ids to
distinct frames; a frame holds a page id `p` (other than `INVALID_PAGE_ID`)
exactly when `page_table_[p]` is that frame; every frame is in exactly one of
the free list, the replacer, or the pinned frames. -/
def Consistent (cfg : Config) (s : BufferPoolManager) : Prop :=
  (∀ (p q : Int) (f : Int),
    UMap.find s.page_table_ p = some f → UMap.find s.page_table_ q = some f → p = q) ∧
  (∀ (p : Int) (f : Int),
    p ≠ INVALID_PAGE_ID → (holds cfg s f p ↔ UMap.find s.page_table_ p = some f)) ∧
  (∀ f : Int, 0 ≤ f → f < s.pool_size_ →
    (f ∈ s.free_list_ ∨ f ∈ LRUReplacer.frames s.replacer_ ∨ (page cfg s f).pin_count_ > 0) ∧
    ¬ (f ∈ s.free_list_ ∧ f ∈ LRUReplacer.frames s.replacer_) ∧
    ¬ (f ∈ s.free_list_ ∧ (page cfg s f).pin_count_ > 0) ∧
    ¬ (f ∈ LRUReplacer.frames s.replacer_ ∧ (page cfg s f).pin_count_ > 0))

/-- The calls for which C1 is proved: a `NewPage` is admissible when the page id
handed out by the disk manager (after a frame has been obtained) is not
resident at that moment, and a `FetchPage` of a resident page when its pin
count is below `INT_MAX` (the increment would overflow the `int`). -/
def Admissible (cfg : Config) (s : BufferPoolManager) : Op → Prop
  | .fetch p =>
    ∀ f : Int, UMap.find s.page_table_ p = some f → (page cfg s f).pin_count_ < 2 ^ 31 - 1
  | .newPage =>
    (TryToFindFreePage cfg s).1 ≠ INVALID_FRAME_ID →
    UMap.find (TryToFindFreePage cfg s).2.page_table_
      (DiskManager.AllocatePage cfg (TryToFindFreePage cfg s).2.disk_manager_).1 = none
  | _ => True

/-- Sequences of admissible calls from a given state. -/
def AdmissibleRun (cfg : Config) : BufferPoolManager → List Op → Prop
  | _, [] => True
  | s, op :: ops => Admissible cfg s op ∧ AdmissibleRun cfg (step cfg s op) ops

/-- Representation invariant of the buffer pool.  `limbo` is the frame that
`TryToFindFreePage` has handed out and that its caller has not installed yet
(`none` between public calls). -/
structure Inv (cfg : Config) (s : BufferPoolManager) (limbo : Option Int) : Prop where
  pages_len : s.pages_.length = s.pool_size_
  table_holds : ∀ (p : Int) (f : Int), UMap.find s.page_table_ p = some f →
    0 ≤ f ∧ f < s.pool_size_ ∧ (page cfg s f).page_id_ = p ∧ p ≠ INVALID_PAGE_ID
  holds_table : ∀ f : Int, 0 ≤ f → f < s.pool_size_ →
    (page cfg s f).page_id_ ≠ INVALID_PAGE_ID →
    UMap.find s.page_table_ (page cfg s f).page_id_ = some f
  free_nodup : s.free_list_.Nodup
  free_spec : ∀ f : Int, f ∈ s.free_list_ → 0 ≤ f ∧ f < s.pool_size_ ∧
    (page cfg s f).page_id_ = INVALID_PAGE_ID ∧ (page cfg s f).pin_count_ = 0 ∧ some f ≠ limbo
  repl_inv : LRUReplacer.Inv s.replacer_
  repl_spec : ∀ f : Int, f ∈ LRUReplacer.frames s.replacer_ → 0 ≤ f ∧ f < s.pool_size_ ∧
    (page cfg s f).page_id_ ≠ INVALID_PAGE_ID ∧ (page cfg s f).pin_count_ = 0
  pin_range : ∀ f : Int, 0 ≤ f → f < s.pool_size_ →
    0 ≤ (page cfg s f).pin_count_ ∧ (page cfg s f).pin_count_ ≤ 2 ^ 31 - 1
  unpinned : ∀ f : Int, 0 ≤ f → f < s.pool_size_ → some f ≠ limbo →
    (page cfg s f).pin_count_ = 0 →
    ((page cfg s f).page_id_ = INVALID_PAGE_ID → f ∈ s.free_list_) ∧
    ((page cfg s f).page_id_ ≠ INVALID_PAGE_ID → f ∈ LRUReplacer.frames s.replacer_)
  limbo_spec : ∀ f : Int, limbo = some f → 0 ≤ f ∧ f < s.pool_size_ ∧
    (page cfg s f).page_id_ = INVALID_PAGE_ID ∧ (page cfg s f).pin_count_ = 0

end BufferPoolManager


/-! ### Recovery (src/include/recovery/log_rec.h, recovery_manager.h) -/

/-- Modelled from the spec: the typedef `lsn_t` of the absent header
`common/config.h`, a "monotonic log sequence number"; a 32-bit signed integer,
since the sources compare it with the sentinel `INVALID_LSN`. -/
abbrev lsn_t := Int

/-- Modelled from the spec: the typedef `txn_id_t` of the absent header
`common/config.h`, a 32-bit signed integer. -/
abbrev txn_id_t := Int

/-- Modelled from the spec: the sentinel `INVALID_LSN` of the absent header
`common/config.h`; taken to be -1 like `INVALID_PAGE_ID`, below every lsn that
the log creators hand out. -/
def INVALID_LSN : lsn_t := -1

/-- Modelled from the spec: the sentinel `INVALID_TXN_ID` of the absent header
`common/config.h`; taken to be -1. -/
def INVALID_TXN_ID : txn_id_t := -1

/-- `KeyType = std::string`, as its bytes. -/
abbrev KeyType := List Nat

/-- `ValType = int32_t`. -/
abbrev ValType := Int

/-- `enum class LogRecType`. -/
inductive LogRecType where
  | kInvalid : LogRecType
  | kInsert : LogRecType
  | kDelete : LogRecType
  | kUpdate : LogRecType
  | kBegin : LogRecType
  | kCommit : LogRecType
  | kAbort : LogRecType
  deriving DecidableEq, Repr

/-- `struct LogRec` (its non-static members). -/
structure LogRec where
  type_ : LogRecType
  lsn_ : lsn_t
  prev_lsn_ : lsn_t
  txn_id_ : txn_id_t
  ins_key_ : KeyType
  ins_val_ : ValType
  del_key_ : KeyType
  del_val_ : ValType
  old_key_ : KeyType
  old_val_ : ValType
  new_key_ : KeyType
  new_val_ : ValType
  deriving DecidableEq, Repr

/-- The static members of `LogRec`: `prev_lsn_map_` and `next_lsn_`. -/
structure LogRecStatics where
  prev_lsn_map_ : List (txn_id_t × lsn_t)
  next_lsn_ : lsn_t
  deriving DecidableEq, Repr

namespace LogRec

/-- A `LogRec` as `std::make_shared<LogRec>()` leaves it: the member
initialisers, empty keys and zero values.  (The value members that the
two-argument constructor leaves uninitialised are taken to be 0 as well; the
sources never read them in `kBegin`, `kCommit` and `kAbort` records.) -/
def default : LogRec :=
  ⟨.kInvalid, INVALID_LSN, INVALID_LSN, INVALID_TXN_ID, [], 0, [], 0, [], 0, [], 0⟩

/-- The initial values of the static members. -/
def initStatics : LogRecStatics := ⟨[], 0⟩

/-- The statements shared by all creators:
`lsn_ = next_lsn_++; prev_lsn_ = prev_lsn_map_[txn_id]; prev_lsn_map_[txn_id] = lsn_`.
Both branches of the `if` in the source read `prev_lsn_map_[txn_id]`, which is 0
for a transaction without an entry. -/
def link (st : LogRecStatics) (log_rec : LogRec) : LogRec × LogRecStatics :=
  let lsn := st.next_lsn_
  let prev := (UMap.find st.prev_lsn_map_ log_rec.txn_id_).getD 0
  ({ log_rec with lsn_ := lsn, prev_lsn_ := prev },
    { prev_lsn_map_ := UMap.insert st.prev_lsn_map_ log_rec.txn_id_ lsn,
      next_lsn_ := wrapInt32 (st.next_lsn_ + 1) })

end LogRec

/-- `CreateInsertLog`: the record and the new static members. -/
def CreateInsertLog (st : LogRecStatics) (txn_id : txn_id_t) (ins_key : KeyType)
    (ins_val : ValType) : LogRec × LogRecStatics :=
  LogRec.link st
    { LogRec.default with
      type_ := .kInsert, txn_id_ := txn_id, ins_key_ := ins_key, ins_val_ := ins_val }

/-- `CreateDeleteLog`. -/
def CreateDeleteLog (st : LogRecStatics) (txn_id : txn_id_t) (del_key : KeyType)
    (del_val : ValType) : LogRec × LogRecStatics :=
  LogRec.link st
    { LogRec.default with
      type_ := .kDelete, txn_id_ := txn_id, del_key_ := del_key, del_val_ := del_val }

/-- `CreateUpdateLog`. -/
def CreateUpdateLog (st : LogRecStatics) (txn_id : txn_id_t) (old_key : KeyType)
    (old_val : ValType) (new_key : KeyType) (new_val : ValType) : LogRec × LogRecStatics :=
  LogRec.link st
    { LogRec.default with
      type_ := .kUpdate, txn_id_ := txn_id, old_key_ := old_key, old_val_ := old_val,
      new_key_ := new_key, new_val_ := new_val }

/-- `CreateBeginLog`: `prev_lsn_` is `INVALID_LSN`. -/
def CreateBeginLog (st : LogRecStatics) (txn_id : txn_id_t) : LogRec × LogRecStatics :=
  ({ LogRec.default with
      type_ := .kBegin, txn_id_ := txn_id, lsn_ := st.next_lsn_, prev_lsn_ := INVALID_LSN },
    { prev_lsn_map_ := UMap.insert st.prev_lsn_map_ txn_id st.next_lsn_,
      next_lsn_ := wrapInt32 (st.next_lsn_ + 1) })

/-- `CreateCommitLog`. -/
def CreateCommitLog (st : LogRecStatics) (txn_id : txn_id_t) : LogRec × LogRecStatics :=
  LogRec.link st { LogRec.default with type_ := .kCommit, txn_id_ := txn_id }

/-- `CreateAbortLog`. -/
def CreateAbortLog (st : LogRecStatics) (txn_id : txn_id_t) : LogRec × LogRecStatics :=
  LogRec.link st { LogRec.default with type_ := .kAbort, txn_id_ := txn_id }

/-- A call of one of the six log creators. -/
inductive CreateLog where
  | begin : txn_id_t → CreateLog
  | insert : txn_id_t → KeyType → ValType → CreateLog
  | delete : txn_id_t → KeyType → ValType → CreateLog
  | update : txn_id_t → KeyType → ValType → KeyType → ValType → CreateLog
  | commit : txn_id_t → CreateLog
  | abort : txn_id_t → CreateLog
  deriving DecidableEq, Repr

namespace CreateLog

/-- The transaction a creator call is made for. -/
def txn : CreateLog → txn_id_t
  | .begin t => t
  | .insert t _ _ => t
  | .delete t _ _ => t
  | .update t _ _ _ _ => t
  | .commit t => t
  | .abort t => t

/-- The record type a creator call produces. -/
def type : CreateLog → LogRecType
  | .begin _ => .kBegin
  | .insert _ _ _ => .kInsert
  | .delete _ _ _ => .kDelete
  | .update _ _ _ _ _ => .kUpdate
  | .commit _ => .kCommit
  | .abort _ => .kAbort

/-- Effect of one creator call. -/
def call (st : LogRecStatics) : CreateLog → LogRec × LogRecStatics
  | .begin t => CreateBeginLog st t
  | .insert t k v => CreateInsertLog st t k v
  | .delete t k v => CreateDeleteLog st t k v
  | .update t ok ov nk nv => CreateUpdateLog st t ok ov nk nv
  | .commit t => CreateCommitLog st t
  | .abort t => CreateAbortLog st t

/-- Effect of a sequence of creator calls: the records in creation order and the
final static members. -/
def run : LogRecStatics → List CreateLog → List LogRec × LogRecStatics
  | st, [] => ([], st)
  | st, c :: cs =>
    let r := call st c
    let rest := run r.2 cs
    (r.1 :: rest.1, rest.2)

end CreateLog

/-- The lsn of the most recently created record of transaction `t` among
`recs` (listed in creation order), if there is one. -/
def lastLsn : List LogRec → txn_id_t → Option lsn_t
  | [], _ => none
  | r :: rest, t =>
    match lastLsn rest t with
    | some l => some l
    | none => if r.txn_id_ = t then some r.lsn_ else none

/-- `struct CheckPoint`. -/
structure CheckPoint where
  checkpoint_lsn_ : lsn_t
  active_txns_ : List (txn_id_t × lsn_t)
  persist_data_ : List (KeyType × ValType)
  deriving DecidableEq, Repr

/-- A default-constructed `CheckPoint`. -/
def CheckPoint.empty : CheckPoint := ⟨INVALID_LSN, [], []⟩

/-- State of a `RecoveryManager`.  `log_recs_` is a `std::map`: its entries are
listed in ascending key order, one per key. -/
structure RecoveryManager where
  log_recs_ : List (lsn_t × LogRec)
  persist_lsn_ : lsn_t
  active_txns_ : List (txn_id_t × lsn_t)
  data_ : List (KeyType × ValType)
  deriving DecidableEq, Repr

namespace RecoveryManager

/-- A default-constructed `RecoveryManager`. -/
def new : RecoveryManager := ⟨[], INVALID_LSN, [], []⟩

/-- `RecoveryManager::Init`. -/
def Init (s : RecoveryManager) (last_checkpoint : CheckPoint) : RecoveryManager :=
  { s with
    persist_lsn_ := last_checkpoint.checkpoint_lsn_,
    active_txns_ := last_checkpoint.active_txns_,
    data_ := last_checkpoint.persist_data_ }

/-- `std::map::emplace` on the ordered list of entries: the entry is put at its
place in key order unless the key is present. -/
def emplace : List (lsn_t × LogRec) → lsn_t → LogRec → List (lsn_t × LogRec)
  | [], k, v => [(k, v)]
  | (k', v') :: rest, k, v =>
    if k < k' then (k, v) :: (k', v') :: rest
    else if k = k' then (k', v') :: rest
    else (k', v') :: emplace rest k v

/-- `RecoveryManager::AppendLogRec`. -/
def AppendLogRec (s : RecoveryManager) (log_rec : LogRec) : RecoveryManager :=
  { s with log_recs_ := emplace s.log_recs_ log_rec.lsn_ log_rec }

/-- The effect on `data_` of one iteration of the loop of
`UndoSpecificTransaction` at a record that is not a `kBegin`. -/
def undoData (current_log : LogRec) (data : List (KeyType × ValType)) :
    List (KeyType × ValType) :=
  match current_log.type_ with
  | .kInsert => UMap.erase data current_log.ins_key_
  | .kDelete => UMap.insert data current_log.del_key_ current_log.del_val_
  | .kUpdate => UMap.insert data current_log.old_key_ current_log.old_val_
  | _ => data

/-- The `while` loop of `UndoSpecificTransaction`, one iteration per unit of
fuel; `none` means that the fuel ran out before the loop ended. -/
def undoLoop (log_recs : List (lsn_t × LogRec)) :
    Nat → List (KeyType × ValType) → lsn_t → Option (List (KeyType × ValType))
  | 0, _, _ => none
  | fuel + 1, data, current_lsn =>
    if current_lsn = INVALID_LSN then some data
    else
      match UMap.find log_recs current_lsn with
      | none => some data
      | some current_log =>
        if current_log.type_ = .kBegin then some data
        else undoLoop log_recs fuel (undoData current_log data) current_log.prev_lsn_

/-- `RecoveryManager::UndoSpecificTransaction` with the given fuel for its loop;
`none` when the loop did not end within the fuel. -/
def UndoSpecificTransactionFuel (fuel : Nat) (s : RecoveryManager) (_txn_id : txn_id_t)
    (last_lsn_of_txn : lsn_t) : Option RecoveryManager :=
  (undoLoop s.log_recs_ fuel s.data_ last_lsn_of_txn).map (fun data => { s with data_ := data })

/-- `RecoveryManager::UndoSpecificTransaction`, with one unit of fuel per log
record plus one: a walk that ends visits every record at most once. -/
def UndoSpecificTransaction (s : RecoveryManager) (txn_id : txn_id_t)
    (last_lsn_of_txn : lsn_t) : Option RecoveryManager :=
  UndoSpecificTransactionFuel (s.log_recs_.length + 1) s txn_id last_lsn_of_txn

/-- The effect on `data_` of one iteration of the loop of `RedoPhase` at an
`kInsert`, `kDelete` or `kUpdate` record. -/
def redoData (current_log : LogRec) (data : List (KeyType × ValType)) :
    List (KeyType × ValType) :=
  match current_log.type_ with
  | .kInsert => UMap.insert data current_log.ins_key_ current_log.ins_val_
  | .kDelete => UMap.erase data current_log.del_key_
  | .kUpdate => UMap.insert data current_log.new_key_ current_log.new_val_
  | _ => data

/-- One iteration of the loop of `RedoPhase`; `none` when the undo of an aborted
transaction does not end. -/
def redoStep (s : RecoveryManager) (current_log : LogRec) : Option RecoveryManager :=
  let txn_id := current_log.txn_id_
  match current_log.type_ with
  | .kInsert | .kDelete | .kUpdate =>
    some { s with
      data_ := redoData current_log s.data_,
      active_txns_ := UMap.insert s.active_txns_ txn_id current_log.lsn_ }
  | .kBegin => some { s with active_txns_ := UMap.insert s.active_txns_ txn_id current_log.lsn_ }
  | .kCommit => some { s with active_txns_ := UMap.erase s.active_txns_ txn_id }
  | .kAbort =>
    (if current_log.prev_lsn_ ≠ INVALID_LSN then
        UndoSpecificTransaction s txn_id current_log.prev_lsn_
      else some s).map
      (fun s' => { s' with active_txns_ := UMap.erase s'.active_txns_ txn_id })
  | .kInvalid => some s

/-- The loop of `RedoPhase` over the entries from `lower_bound(persist_lsn_)`
on. -/
def redoLoop : List (lsn_t × LogRec) → RecoveryManager → Option RecoveryManager
  | [], s => some s
  | e :: rest, s =>
    match redoStep s e.2 with
    | none => none
    | some s' => redoLoop rest s'

/-- `RecoveryManager::RedoPhase`; `none` when it does not return. -/
def RedoPhase (s : RecoveryManager) : Option RecoveryManager :=
  redoLoop (s.log_recs_.dropWhile (fun e => decide (e.1 < s.persist_lsn_))) s

/-- The second loop of `UndoPhase`, over the copied entries of `active_txns_`. -/
def undoAll : List (txn_id_t × lsn_t) → RecoveryManager → Option RecoveryManager
  | [], s => some s
  | pair :: rest, s =>
    match UndoSpecificTransaction s pair.1 pair.2 with
    | none => none
    | some s' => undoAll rest s'

/-- `RecoveryManager::UndoPhase`; `none` when it does not return.  The entries
of the `unordered_map` `active_txns_` are visited in the order of the list. -/
def UndoPhase (s : RecoveryManager) : Option RecoveryManager :=
  (undoAll s.active_txns_ s).map (fun s' => { s' with active_txns_ := [] })

/-- A `RecoveryManager` set up as in the tests: initialised from a checkpoint,
with the given records appended in order. -/
def ofLog (last_checkpoint : CheckPoint) (recs : List LogRec) : RecoveryManager :=
  recs.foldl AppendLogRec (Init new last_checkpoint)

/-- The log is a well-formed `std::map`: keys strictly ascending. -/
def Sorted (log_recs : List (lsn_t × LogRec)) : Prop :=
  (log_recs.map Prod.fst).Pairwise (fun a b => a < b)

/-- Every record points backwards: its `prev_lsn_` is smaller than the lsn it is
stored under, or is `INVALID_LSN`. -/
def Backward (log_recs : List (lsn_t × LogRec)) : Prop :=
  ∀ e ∈ log_recs, e.2.prev_lsn_ < e.1 ∨ e.2.prev_lsn_ = INVALID_LSN

/-- Record `r` touches key `k`: it inserts, deletes or updates (from or to)
that key. -/
def touches (r : LogRec) (k : KeyType) : Prop :=
  (r.type_ = .kInsert ∧ r.ins_key_ = k) ∨ (r.type_ = .kDelete ∧ r.del_key_ = k) ∨
  (r.type_ = .kUpdate ∧ (r.old_key_ = k ∨ r.new_key_ = k))

/-- The records of an aborted transaction `T` in creation order: a `kBegin`
record `b`, then the `kInsert` / `kDelete` / `kUpdate` records `ops`, then the
`kAbort` record `a`, with ascending lsns and each record's `prev_lsn_` being the
lsn of the record before it. -/
def AbortedTxn (T : txn_id_t) (b : LogRec) (ops : List LogRec) (a : LogRec) : Prop :=
  (b.type_ = .kBegin ∧ b.txn_id_ = T) ∧ (a.type_ = .kAbort ∧ a.txn_id_ = T) ∧
  (∀ o ∈ ops, o.txn_id_ = T ∧
    (o.type_ = .kInsert ∨ o.type_ = .kDelete ∨ o.type_ = .kUpdate)) ∧
  List.Chain' (fun x y : LogRec => y.prev_lsn_ = x.lsn_ ∧ (x.lsn_ : Int) < y.lsn_)
    (b :: ops ++ [a])

end RecoveryManager


/-! ### Catalog (src/catalog/catalog.cpp)

The classes `CatalogMeta` and `CatalogManager` are declared in the absent header
`catalog/catalog.h`; their members are taken as catalog.cpp uses them.  The
classes `TableMetadata`, `TableInfo`, `IndexMetadata`, `IndexInfo` and
`TableHeap`'s constructors are not part of the sources either: what catalog.cpp
needs of them is either a plain record of the arguments it passes, or a member
of `Collab`, over which every function of the catalog is parameterised.  A
result `none` of a catalog function stands for a run that does not return
normally: a failed `ASSERT`, an exception of `at`, or the dereference of a null
pointer or of an `end()` iterator. -/

/-- The type `table_id_t`, a `uint32_t`. -/
abbrev table_id_t := Nat

/-- The type `index_id_t`, a `uint32_t`. -/
abbrev index_id_t := Nat

/-- The values of `dberr_t` that catalog.cpp returns. -/
inductive dberr_t where
  | DB_SUCCESS : dberr_t
  | DB_FAILED : dberr_t
  | DB_TABLE_ALREADY_EXIST : dberr_t
  | DB_TABLE_NOT_EXIST : dberr_t
  | DB_INDEX_ALREADY_EXIST : dberr_t
  | DB_INDEX_NOT_FOUND : dberr_t
  | DB_COLUMN_NAME_NOT_EXIST : dberr_t
  deriving DecidableEq, Repr

/-- Modelled from the spec: the macro `MACH_WRITE_TO(page_id_t, buf, v)` of the
absent header `common/macros.h` stores the 32-bit two's complement of `v`,
little-endian. -/
def MACH_WRITE_INT32 (v : Int) : List Nat := MACH_WRITE_UINT32 (v % 2 ^ 32).toNat

namespace UMap

/-- Insertion `m.emplace(k, v)`: nothing happens when the key is present.  With
the default value for `v` this is also the effect on the map of an access
`m[k]`. -/
def emplace {K V : Type} [DecidableEq K] (m : List (K × V)) (k : K) (v : V) : List (K × V) :=
  match find m k with
  | some _ => m
  | none => (k, v) :: m

end UMap

/-- A `TableHeap` as far as the catalog is concerned: the id of its first
page. -/
structure TableHeap where
  first_page_id_ : page_id_t
  deriving DecidableEq, Repr

/-- Modelled from the spec: "Table Metadata. `{table_id, table_name,
first_page_id, schema}`", the arguments of `TableMetadata::Create`. -/
structure TableMetadata where
  table_id_ : table_id_t
  table_name_ : List Nat
  root_page_id_ : page_id_t
  schema_ : Schema
  deriving DecidableEq, Repr

/-- Modelled from the spec: `TableMetadata::Create` makes the record of its
arguments. -/
def TableMetadata.Create (table_id : table_id_t) (table_name : List Nat)
    (root_page_id : page_id_t) (schema : Schema) : TableMetadata :=
  ⟨table_id, table_name, root_page_id, schema⟩

/-- Modelled from the spec: a `TableInfo` after `Init(table_meta, table_heap)`
holds the two objects. -/
structure TableInfo where
  table_meta_ : TableMetadata
  table_heap_ : TableHeap
  deriving DecidableEq, Repr

namespace TableInfo

/-- Modelled from the spec: `TableInfo::GetSchema`. -/
def GetSchema (t : TableInfo) : Schema := t.table_meta_.schema_

/-- Modelled from the spec: `TableInfo::GetTableId`. -/
def GetTableId (t : TableInfo) : table_id_t := t.table_meta_.table_id_

/-- Modelled from the spec: `TableInfo::GetTableName`. -/
def GetTableName (t : TableInfo) : List Nat := t.table_meta_.table_name_

end TableInfo

/-- Modelled from the spec: "`{index_id, index_name, owning_table_id,
key_map[]}`", the arguments of `IndexMetadata::Create`. -/
structure IndexMetadata where
  index_id_ : index_id_t
  index_name_ : List Nat
  table_id_ : table_id_t
  key_map_ : List Nat
  deriving DecidableEq, Repr

/-- Modelled from the spec: `IndexMetadata::Create` makes the record of its
arguments; it never yields `nullptr` (`none`). -/
def IndexMetadata.Create (index_id : index_id_t) (index_name : List Nat) (table_id : table_id_t)
    (key_map : List Nat) : Option IndexMetadata :=
  some ⟨index_id, index_name, table_id, key_map⟩

/-- Modelled from the spec: an `IndexInfo` after `Init(index_meta, table_info,
buffer_pool_manager)` holds the metadata and the `TableInfo` of its table. -/
structure IndexInfo where
  meta_data_ : IndexMetadata
  table_info_ : TableInfo
  deriving DecidableEq, Repr

/-- Modelled from the spec: `IndexInfo::GetIndexName`. -/
def IndexInfo.GetIndexName (i : IndexInfo) : List Nat := i.meta_data_.index_name_

/-- The members of `CatalogMeta`: the maps from table ids and index ids to the
ids of their meta pages, iterated in ascending key order (`std::map`). -/
structure CatalogMeta where
  table_meta_pages_ : List (table_id_t × page_id_t)
  index_meta_pages_ : List (index_id_t × page_id_t)
  deriving DecidableEq, Repr

/-- The code of the absent collaborators of the catalog, and the constants of
absent headers: `CATALOG_META_PAGE_ID`, `CATALOG_METADATA_MAGIC_NUM`,
`Schema::DeepCopySchema`, `Schema::GetColumnIndex` (`none` when it does not
return `DB_SUCCESS`), the two overloads of `TableHeap::Create` (for a new heap,
and for the heap starting at a given page) and `TableHeap::FreeTableHeap` with
their effect on the buffer pool, `TableMetadata::SerializeTo` and
`IndexMetadata::SerializeTo` as functions from the bytes of the page before to
the bytes after, the two `DeserializeFrom` (`none` when the pointer stays
`nullptr`), the effect of `IndexInfo::Init` on the buffer pool, and
`CatalogMeta::GetNextTableId` / `GetNextIndexId`. -/
structure Collab where
  CATALOG_META_PAGE_ID : page_id_t
  CATALOG_METADATA_MAGIC_NUM : Nat
  DeepCopySchema : Schema → Schema
  GetColumnIndex : Schema → List Nat → Option Nat
  TableHeap_Create : BufferPoolManager → Schema → TableHeap × BufferPoolManager
  TableHeap_CreateAt : BufferPoolManager → page_id_t → Schema → TableHeap × BufferPoolManager
  FreeTableHeap : BufferPoolManager → TableHeap → BufferPoolManager
  TableMetadata_SerializeTo : TableMetadata → List Nat → List Nat
  TableMetadata_DeserializeFrom : List Nat → Option TableMetadata
  IndexMetadata_SerializeTo : IndexMetadata → List Nat → List Nat
  IndexMetadata_DeserializeFrom : List Nat → Option IndexMetadata
  IndexInfo_Init : BufferPoolManager → IndexMetadata → TableInfo → BufferPoolManager
  GetNextTableId : CatalogMeta → table_id_t
  GetNextIndexId : CatalogMeta → index_id_t

/-- Modelled from the spec: `Schema::GetColumnIndex` resolves a column name "to
its column index (fail if any is missing)": the position of the first column
with that name. -/
def Schema.GetColumnIndex (schema : Schema) (col_name : List Nat) : Option Nat :=
  let i := schema.columns_.findIdx (fun c => decide (c.name_ = col_name))
  if i < schema.columns_.length then some i else none

namespace CatalogMeta

/-- `std::map::emplace` on the ordered list of entries: the entry is put at its
place in key order unless the key is present. -/
def emplace : List (Nat × page_id_t) → Nat → page_id_t → List (Nat × page_id_t)
  | [], k, v => [(k, v)]
  | (k', v') :: rest, k, v =>
    if k < k' then (k, v) :: (k', v') :: rest
    else if k = k' then (k', v') :: rest
    else (k', v') :: emplace rest k v

/-- Modelled from the spec: the next id counter recomputed from a map of meta
pages, one more than the largest id in use (0 for an empty map). -/
def nextId (m : List (Nat × page_id_t)) : Nat :=
  match m.getLast? with
  | none => 0
  | some e => u32 (e.1 + 1)

/-- `CatalogMeta::GetSerializedSize`, a `uint32_t`. -/
def GetSerializedSize (m : CatalogMeta) : Nat :=
  u32 (4 * 3 + m.table_meta_pages_.length * (4 + 4) + m.index_meta_pages_.length * (4 + 4))

/-- The bytes that the two loops of `CatalogMeta::SerializeTo` write for a map:
per entry the id and the page id. -/
def entryBytes (m : List (Nat × page_id_t)) : List Nat :=
  (m.map (fun e => MACH_WRITE_UINT32 e.1 ++ MACH_WRITE_INT32 e.2)).flatten

/-- `CatalogMeta::SerializeTo(buf)`: the bytes at `buf` afterwards, given the
bytes `buf` before; `none` when the `ASSERT` fails. -/
def SerializeTo (cfg : Config) (x : Collab) (m : CatalogMeta) (buf : List Nat) :
    Option (List Nat) :=
  if GetSerializedSize m ≤ cfg.PAGE_SIZE then
    let bytes :=
      MACH_WRITE_UINT32 x.CATALOG_METADATA_MAGIC_NUM ++
      MACH_WRITE_UINT32 (u32 m.table_meta_pages_.length) ++
      MACH_WRITE_UINT32 (u32 m.index_meta_pages_.length) ++
      entryBytes m.table_meta_pages_ ++ entryBytes m.index_meta_pages_
    some (bytes ++ buf.drop bytes.length)
  else none

/-- One loop of `CatalogMeta::DeserializeFrom`: `n` entries read from offset
`off` of `buf` and emplaced into `m`. -/
def readEntries (buf : List Nat) : Nat → Nat → List (Nat × page_id_t) → List (Nat × page_id_t)
  | 0, _, m => m
  | n + 1, off, m =>
    readEntries buf n (off + 8)
      (emplace m (MACH_READ_UINT32 (buf.drop off)) (toInt32 (MACH_READ_UINT32 (buf.drop (off + 4)))))

/-- `CatalogMeta::DeserializeFrom(buf)`; `none` when the `ASSERT` on the magic
number fails. -/
def DeserializeFrom (x : Collab) (buf : List Nat) : Option CatalogMeta :=
  if MACH_READ_UINT32 buf = x.CATALOG_METADATA_MAGIC_NUM then
    let table_nums := MACH_READ_UINT32 (buf.drop 4)
    let index_nums := MACH_READ_UINT32 (buf.drop 8)
    some ⟨readEntries buf table_nums 12 [], readEntries buf index_nums (12 + 8 * table_nums) []⟩
  else none

end CatalogMeta

/-- Modelled from the spec: collaborators for concrete runs.  The two fixed
pages are `CATALOG_META_PAGE_ID = 0` and `INDEX_ROOTS_PAGE_ID = 1`; a table
heap starts without pages; the metadata serialisers leave the page as it is and
the deserialisers find nothing; `IndexInfo::Init` and `FreeTableHeap` leave the
buffer pool alone; the id counters are recomputed as one more than the largest
id in use. -/
def Collab.simple : Collab :=
  { CATALOG_META_PAGE_ID := 0,
    CATALOG_METADATA_MAGIC_NUM := 89849,
    DeepCopySchema := fun schema => schema,
    GetColumnIndex := Schema.GetColumnIndex,
    TableHeap_Create := fun b _ => (⟨INVALID_PAGE_ID⟩, b),
    TableHeap_CreateAt := fun b first_page_id _ => (⟨first_page_id⟩, b),
    FreeTableHeap := fun b _ => b,
    TableMetadata_SerializeTo := fun _ buf => buf,
    TableMetadata_DeserializeFrom := fun _ => none,
    IndexMetadata_SerializeTo := fun _ buf => buf,
    IndexMetadata_DeserializeFrom := fun _ => none,
    IndexInfo_Init := fun b _ _ => b,
    GetNextTableId := fun m => CatalogMeta.nextId m.table_meta_pages_,
    GetNextIndexId := fun m => CatalogMeta.nextId m.index_meta_pages_ }

/-- State of a `CatalogManager`: the buffer pool it points to, `catalog_meta_`
(never `nullptr` once the constructor has run), the two id counters
(`std::atomic` of `uint32_t`) and the four in-memory maps.  The maps hold
pointers in the source; the objects pointed to are never changed after their
creation, so the maps hold the objects here. -/
structure CatalogManager where
  buffer_pool_manager_ : BufferPoolManager
  catalog_meta_ : CatalogMeta
  next_table_id_ : table_id_t
  next_index_id_ : index_id_t
  table_names_ : List (List Nat × table_id_t)
  tables_ : List (table_id_t × TableInfo)
  index_names_ : List (List Nat × List (List Nat × index_id_t))
  indexes_ : List (index_id_t × IndexInfo)

namespace BufferPoolManager

/-- A write through `page->GetData()` into the frame `frame_id`. -/
def writeData (cfg : Config) (s : BufferPoolManager) (frame_id : frame_id_t) (data : List Nat) :
    BufferPoolManager :=
  setPage s frame_id { page cfg s frame_id with data_ := data }

end BufferPoolManager

namespace CatalogManager

/-- `CatalogManager::FlushCatalogMetaPage`: the result and the buffer pool
afterwards. -/
def FlushCatalogMetaPage (cfg : Config) (x : Collab) (s : CatalogManager) :
    Option (dberr_t × BufferPoolManager) :=
  let r := BufferPoolManager.FetchPage cfg s.buffer_pool_manager_ x.CATALOG_META_PAGE_ID
  match r.1 with
  | none => some (.DB_FAILED, r.2)
  | some frame =>
    match CatalogMeta.SerializeTo cfg x s.catalog_meta_ (BufferPoolManager.page cfg r.2 frame).data_ with
    | none => none
    | some data =>
      some (.DB_SUCCESS,
        (BufferPoolManager.UnpinPage cfg (BufferPoolManager.writeData cfg r.2 frame data)
          x.CATALOG_META_PAGE_ID true).2)

/-- `CatalogManager::CreateTable`: the result, the `TableInfo` assigned to the
output parameter (`none` when it is not assigned) and the new state. -/
def CreateTable (cfg : Config) (x : Collab) (s : CatalogManager) (table_name : List Nat)
    (schema : Schema) : Option (dberr_t × Option TableInfo × CatalogManager) :=
  if UMap.count s.table_names_ table_name ≠ 0 then some (.DB_TABLE_ALREADY_EXIST, none, s)
  else
    let r := BufferPoolManager.NewPage cfg s.buffer_pool_manager_
    let page_id := r.1
    match r.2.1 with
    | none => some (.DB_FAILED, none, { s with buffer_pool_manager_ := r.2.2 })
    | some frame =>
      let schema_copy := x.DeepCopySchema schema
      let table_id := s.next_table_id_
      let h := x.TableHeap_Create r.2.2 schema_copy
      let table_meta := TableMetadata.Create table_id table_name page_id schema_copy
      let b1 := BufferPoolManager.writeData cfg h.2 frame
        (x.TableMetadata_SerializeTo table_meta (BufferPoolManager.page cfg h.2 frame).data_)
      let b2 := (BufferPoolManager.UnpinPage cfg b1 page_id true).2
      let table_info : TableInfo := ⟨table_meta, h.1⟩
      let s1 : CatalogManager :=
        { s with
          buffer_pool_manager_ := b2,
          next_table_id_ := u32 (table_id + 1),
          tables_ := UMap.emplace s.tables_ table_id table_info,
          table_names_ := UMap.emplace s.table_names_ table_name table_id,
          catalog_meta_ :=
            { s.catalog_meta_ with
              table_meta_pages_ :=
                CatalogMeta.emplace s.catalog_meta_.table_meta_pages_ table_id page_id } }
      match FlushCatalogMetaPage cfg x s1 with
      | none => none
      | some f => some (.DB_SUCCESS, some table_info, { s1 with buffer_pool_manager_ := f.2 })

/-- `CatalogManager::GetTable(table_name, table_info)`: the result and the
pointer left in the output parameter (`none` for `nullptr`). -/
def GetTable (s : CatalogManager) (table_name : List Nat) : dberr_t × Option TableInfo :=
  match UMap.find s.table_names_ table_name with
  | none => (.DB_TABLE_NOT_EXIST, none)
  | some table_id =>
    match UMap.find s.tables_ table_id with
    | none => (.DB_FAILED, none)
    | some table_info => (.DB_SUCCESS, some table_info)

/-- `CatalogManager::GetTable(table_id, table_info)`: the result and the pointer
assigned to the output parameter (`none` when it is not assigned). -/
def GetTableById (s : CatalogManager) (table_id : table_id_t) : dberr_t × Option TableInfo :=
  match UMap.find s.tables_ table_id with
  | none => (.DB_TABLE_NOT_EXIST, none)
  | some table_info => (.DB_SUCCESS, some table_info)

/-- `CatalogManager::GetTables`: the pointers pushed to the output vector. -/
def GetTables (s : CatalogManager) : dberr_t × List TableInfo :=
  (.DB_SUCCESS, s.tables_.map Prod.snd)

/-- The loop of `CreateIndex` that resolves the key column names, appending to
`key_map`; `none` when it leaves the function with
`DB_COLUMN_NAME_NOT_EXIST`. -/
def resolveKeys (x : Collab) (table_schema : Schema) : List (List Nat) → List Nat → Option (List Nat)
  | [], key_map => some key_map
  | key_col_name :: rest, key_map =>
    match x.GetColumnIndex table_schema key_col_name with
    | some column_index => resolveKeys x table_schema rest (key_map ++ [column_index])
    | none => none

/-- `CatalogManager::CreateIndex`: the result, the `IndexInfo` assigned to the
output parameter (`none` when it is not assigned) and the new state.  The
parameter `index_type` is not used by the source. -/
def CreateIndex (cfg : Config) (x : Collab) (s : CatalogManager) (table_name index_name : List Nat)
    (index_keys : List (List Nat)) : Option (dberr_t × Option IndexInfo × CatalogManager) :=
  if UMap.count s.table_names_ table_name = 0 then some (.DB_TABLE_NOT_EXIST, none, s)
  else
    let s0 : CatalogManager := { s with index_names_ := UMap.emplace s.index_names_ table_name [] }
    if UMap.count ((UMap.find s0.index_names_ table_name).getD []) index_name ≠ 0 then
      some (.DB_INDEX_ALREADY_EXIST, none, s0)
    else
      match (UMap.find s0.table_names_ table_name).bind (UMap.find s0.tables_) with
      | none => none
      | some table_info =>
        match resolveKeys x table_info.GetSchema index_keys [] with
        | none => some (.DB_COLUMN_NAME_NOT_EXIST, none, s0)
        | some key_map =>
          if key_map = [] then some (.DB_FAILED, none, s0)
          else
            let r := BufferPoolManager.NewPage cfg s0.buffer_pool_manager_
            let page_id := r.1
            match r.2.1 with
            | none => some (.DB_FAILED, none, { s0 with buffer_pool_manager_ := r.2.2 })
            | some frame =>
              let new_index_id := s0.next_index_id_
              let s1 : CatalogManager :=
                { s0 with buffer_pool_manager_ := r.2.2, next_index_id_ := u32 (new_index_id + 1) }
              match IndexMetadata.Create new_index_id index_name table_info.GetTableId key_map with
              | none =>
                let b1 := (BufferPoolManager.UnpinPage cfg s1.buffer_pool_manager_ page_id false).2
                let b2 := (BufferPoolManager.DeletePage cfg b1 page_id).2
                some (.DB_FAILED, none, { s1 with buffer_pool_manager_ := b2 })
              | some index_meta =>
                let index_info : IndexInfo := ⟨index_meta, table_info⟩
                let b1 := x.IndexInfo_Init s1.buffer_pool_manager_ index_meta table_info
                let b2 := BufferPoolManager.writeData cfg b1 frame
                  (x.IndexMetadata_SerializeTo index_meta (BufferPoolManager.page cfg b1 frame).data_)
                let b3 := (BufferPoolManager.UnpinPage cfg b2 page_id true).2
                let s2 : CatalogManager :=
                  { s1 with
                    buffer_pool_manager_ := b3,
                    catalog_meta_ :=
                      { s1.catalog_meta_ with
                        index_meta_pages_ :=
                          CatalogMeta.emplace s1.catalog_meta_.index_meta_pages_ new_index_id
                            page_id },
                    indexes_ := UMap.emplace s1.indexes_ new_index_id index_info,
                    index_names_ :=
                      UMap.insert s1.index_names_ table_name
                        (UMap.emplace ((UMap.find s1.index_names_ table_name).getD []) index_name
                          new_index_id) }
                match FlushCatalogMetaPage cfg x s2 with
                | none => none
                | some f =>
                  some (.DB_SUCCESS, some index_info, { s2 with buffer_pool_manager_ := f.2 })

/-- `CatalogManager::GetIndex`: the result and the pointer assigned to the
output parameter (`none` when it is not assigned); the outer `none` is the
exception of `index_names_.at` or the dereference of `indexes_.end()` when the
maps disagree. -/
def GetIndex (s : CatalogManager) (table_name index_name : List Nat) :
    Option (dberr_t × Option IndexInfo) :=
  match UMap.find s.table_names_ table_name with
  | none => some (.DB_TABLE_NOT_EXIST, none)
  | some _ =>
    match UMap.find s.index_names_ table_name with
    | none => none
    | some names =>
      match UMap.find names index_name with
      | none => some (.DB_INDEX_NOT_FOUND, none)
      | some id_id =>
        match UMap.find s.indexes_ id_id with
        | none => none
        | some index_info => some (.DB_SUCCESS, some index_info)

/-- The loop of `GetTableIndexes` over the entries of the inner map. -/
def collectIndexes (indexes : List (index_id_t × IndexInfo)) :
    List (List Nat × index_id_t) → Option (List IndexInfo)
  | [] => some []
  | pair :: rest =>
    match UMap.find indexes pair.2, collectIndexes indexes rest with
    | some index_info, some out => some (index_info :: out)
    | _, _ => none

/-- `CatalogManager::GetTableIndexes`: the result and the pointers pushed to the
output vector, in the iteration order of the inner map; the outer `none` is the
dereference of `end()` when an index id is not in `indexes_`. -/
def GetTableIndexes (s : CatalogManager) (table_name : List Nat) :
    Option (dberr_t × List IndexInfo) :=
  match UMap.find s.index_names_ table_name with
  | none => some (.DB_TABLE_NOT_EXIST, [])
  | some names => (collectIndexes s.indexes_ names).map (fun out => (.DB_SUCCESS, out))

/-- `CatalogManager::DropIndex`. -/
def DropIndex (cfg : Config) (x : Collab) (s : CatalogManager) (table_name index_name : List Nat) :
    Option (dberr_t × CatalogManager) :=
  match UMap.find s.index_names_ table_name with
  | none => some (.DB_INDEX_NOT_FOUND, s)
  | some names =>
    match UMap.find names index_name with
    | none => some (.DB_INDEX_NOT_FOUND, s)
    | some index_id =>
      let index_meta_page_id := (UMap.find s.catalog_meta_.index_meta_pages_ index_id).getD 0
      let b1 := (BufferPoolManager.DeletePage cfg s.buffer_pool_manager_ index_meta_page_id).2
      let s1 : CatalogManager :=
        { s with
          buffer_pool_manager_ := b1,
          catalog_meta_ :=
            { s.catalog_meta_ with
              index_meta_pages_ := UMap.erase s.catalog_meta_.index_meta_pages_ index_id },
          indexes_ := UMap.erase s.indexes_ index_id,
          index_names_ := UMap.insert s.index_names_ table_name (UMap.erase names index_name) }
      (FlushCatalogMetaPage cfg x s1).map
        (fun f => (f.1, { s1 with buffer_pool_manager_ := f.2 }))

/-- The loop of `DropTable` over the indexes found on the table; the results of
`DropIndex` are ignored. -/
def dropIndexes (cfg : Config) (x : Collab) (table_name : List Nat) :
    List IndexInfo → CatalogManager → Option CatalogManager
  | [], s => some s
  | index_info :: rest, s =>
    match DropIndex cfg x s table_name index_info.GetIndexName with
    | none => none
    | some r => dropIndexes cfg x table_name rest r.2

/-- `CatalogManager::DropTable`. -/
def DropTable (cfg : Config) (x : Collab) (s : CatalogManager) (table_name : List Nat) :
    Option (dberr_t × CatalogManager) :=
  match UMap.find s.table_names_ table_name with
  | none => some (.DB_TABLE_NOT_EXIST, s)
  | some table_id =>
    match GetTableIndexes s table_name with
    | none => none
    | some indexes_on_table =>
      match dropIndexes cfg x table_name indexes_on_table.2 s with
      | none => none
      | some s1 =>
        let table_meta_page_id :=
          (UMap.find s1.catalog_meta_.table_meta_pages_ table_id).getD 0
        let b1 := (BufferPoolManager.DeletePage cfg s1.buffer_pool_manager_ table_meta_page_id).2
        match UMap.find s1.tables_ table_id with
        | none => none
        | some table_to_delete =>
          let b2 := x.FreeTableHeap b1 table_to_delete.table_heap_
          let s2 : CatalogManager :=
            { s1 with
              buffer_pool_manager_ := b2,
              catalog_meta_ :=
                { s1.catalog_meta_ with
                  table_meta_pages_ := UMap.erase s1.catalog_meta_.table_meta_pages_ table_id },
              tables_ := UMap.erase s1.tables_ table_id,
              table_names_ := UMap.erase s1.table_names_ table_name }
          (FlushCatalogMetaPage cfg x s2).map
            (fun f => (f.1, { s2 with buffer_pool_manager_ := f.2 }))

/-- `CatalogManager::LoadTable`. -/
def LoadTable (cfg : Config) (x : Collab) (s : CatalogManager) (table_id : table_id_t)
    (page_id : page_id_t) : dberr_t × CatalogManager :=
  if UMap.count s.tables_ table_id ≠ 0 then (.DB_TABLE_ALREADY_EXIST, s)
  else
    let r := BufferPoolManager.FetchPage cfg s.buffer_pool_manager_ page_id
    match r.1 with
    | none => (.DB_FAILED, { s with buffer_pool_manager_ := r.2 })
    | some frame =>
      let table := x.TableMetadata_DeserializeFrom (BufferPoolManager.page cfg r.2 frame).data_
      let b1 := (BufferPoolManager.UnpinPage cfg r.2 page_id false).2
      match table with
      | none => (.DB_FAILED, { s with buffer_pool_manager_ := b1 })
      | some table =>
        let h := x.TableHeap_CreateAt b1 table.root_page_id_ table.schema_
        let table_info : TableInfo := ⟨table, h.1⟩
        (.DB_SUCCESS,
          { s with
            buffer_pool_manager_ := h.2,
            tables_ := UMap.insert s.tables_ table_id table_info,
            table_names_ := UMap.insert s.table_names_ table.table_name_ table_id })

/-- `CatalogManager::LoadIndex`; `none` is the dereference of a null pointer.
The owning table is looked up under `index_meta->GetIndexId()`, as in the
source. -/
def LoadIndex (cfg : Config) (x : Collab) (s : CatalogManager) (index_id : index_id_t)
    (page_id : page_id_t) : Option (dberr_t × CatalogManager) :=
  if UMap.count s.indexes_ index_id ≠ 0 then some (.DB_TABLE_ALREADY_EXIST, s)
  else
    let r := BufferPoolManager.FetchPage cfg s.buffer_pool_manager_ page_id
    match r.1 with
    | none => some (.DB_FAILED, { s with buffer_pool_manager_ := r.2 })
    | some frame =>
      let index := x.IndexMetadata_DeserializeFrom (BufferPoolManager.page cfg r.2 frame).data_
      let b1 := (BufferPoolManager.UnpinPage cfg r.2 page_id false).2
      match index with
      | none => some (.DB_FAILED, { s with buffer_pool_manager_ := b1 })
      | some index =>
        match x.IndexMetadata_DeserializeFrom (BufferPoolManager.page cfg b1 frame).data_ with
        | none => none
        | some index_meta =>
          match UMap.find s.tables_ index_meta.index_id_ with
          | none => none
          | some table_info =>
            let index_info : IndexInfo := ⟨index, table_info⟩
            let b2 := x.IndexInfo_Init b1 index table_info
            some (.DB_SUCCESS,
              { s with
                buffer_pool_manager_ := b2,
                indexes_ := UMap.insert s.indexes_ index_id index_info,
                index_names_ :=
                  UMap.insert s.index_names_ table_info.GetTableName
                    (UMap.insert ((UMap.find s.index_names_ table_info.GetTableName).getD [])
                      index.index_name_ index_id) })

/-- The first loop of the constructor: `LoadTable` for every entry of
`table_meta_pages_`, results ignored. -/
def loadTables (cfg : Config) (x : Collab) : List (table_id_t × page_id_t) → CatalogManager →
    CatalogManager
  | [], s => s
  | pair :: rest, s => loadTables cfg x rest (LoadTable cfg x s pair.1 pair.2).2

/-- The second loop of the constructor: `LoadIndex` for every entry of
`index_meta_pages_`, results ignored. -/
def loadIndexes (cfg : Config) (x : Collab) : List (index_id_t × page_id_t) → CatalogManager →
    Option CatalogManager
  | [], s => some s
  | pair :: rest, s =>
    match LoadIndex cfg x s pair.1 pair.2 with
    | none => none
    | some r => loadIndexes cfg x rest r.2

/-- The constructor `CatalogManager(buffer_pool_manager, lock_manager,
log_manager, init)`; `none` when it does not return. -/
def new (cfg : Config) (x : Collab) (buffer_pool_manager : BufferPoolManager) (init : Bool) :
    Option CatalogManager :=
  let start : Option (CatalogMeta × BufferPoolManager) :=
    if init then some (⟨[], []⟩, buffer_pool_manager)
    else
      let r := BufferPoolManager.FetchPage cfg buffer_pool_manager x.CATALOG_META_PAGE_ID
      match r.1 with
      | none => none
      | some frame =>
        (CatalogMeta.DeserializeFrom x (BufferPoolManager.page cfg r.2 frame).data_).map
          (fun meta =>
            (meta, (BufferPoolManager.UnpinPage cfg r.2 x.CATALOG_META_PAGE_ID false).2))
  match start with
  | none => none
  | some (catalog_meta, b0) =>
    let s0 : CatalogManager := ⟨b0, catalog_meta, 0, 0, [], [], [], []⟩
    let s1 := loadTables cfg x catalog_meta.table_meta_pages_ s0
    let s2 := { s1 with next_table_id_ := x.GetNextTableId catalog_meta }
    match loadIndexes cfg x catalog_meta.index_meta_pages_ s2 with
    | none => none
    | some s3 =>
      let s4 := { s3 with next_index_id_ := x.GetNextIndexId catalog_meta }
      (FlushCatalogMetaPage cfg x s4).map (fun f => { s4 with buffer_pool_manager_ := f.2 })

/-- The ids in use are below the counters: the keys of `tables_` and the ids in
the `TableInfo` objects are below `next_table_id_`. -/
def FreshIds (s : CatalogManager) : Prop :=
  ∀ e ∈ s.tables_, e.1 < s.next_table_id_ ∧ e.2.GetTableId < s.next_table_id_

end CatalogManager

namespace CatalogManager

/-- The inner map `index_names_[table_name]` as a lookup sees it: empty when
`index_names_` has no entry for the table. -/
def indexNames (s : CatalogManager) (table_name : List Nat) : List (List Nat × index_id_t) :=
  (UMap.find s.index_names_ table_name).getD []

/-- The three views of the tables agree: `tables_` and
`catalog_meta_.table_meta_pages_` have the same keys, and these are the ids
that `table_names_` maps a name to. -/
def TableViews (s : CatalogManager) : Prop :=
  (∀ id : Nat, id ∈ UMap.keys s.tables_ ↔ id ∈ UMap.keys s.catalog_meta_.table_meta_pages_) ∧
  (∀ id : Nat, id ∈ UMap.keys s.tables_ ↔ ∃ n, UMap.find s.table_names_ n = some id)

/-- The three views of the indexes agree: `indexes_` and
`catalog_meta_.index_meta_pages_` have the same keys, and these are the ids
that `index_names_` maps a table name and an index name to. -/
def IndexViews (s : CatalogManager) : Prop :=
  (∀ id : Nat, id ∈ UMap.keys s.indexes_ ↔ id ∈ UMap.keys s.catalog_meta_.index_meta_pages_) ∧
  (∀ id : Nat, id ∈ UMap.keys s.indexes_ ↔ ∃ t n, UMap.find (indexNames s t) n = some id)

/-- No id is registered under two names, and the ids in use are below the
counters. -/
structure Distinct (s : CatalogManager) : Prop where
  table_names : ∀ (n1 n2 : List Nat) (id : Nat), UMap.find s.table_names_ n1 = some id →
    UMap.find s.table_names_ n2 = some id → n1 = n2
  index_names : ∀ (t1 n1 t2 n2 : List Nat) (id : Nat),
    UMap.find (indexNames s t1) n1 = some id → UMap.find (indexNames s t2) n2 = some id →
    t1 = t2 ∧ n1 = n2
  table_fresh : ∀ id : Nat, id ∈ UMap.keys s.tables_ → id < s.next_table_id_
  index_fresh : ∀ id : Nat, id ∈ UMap.keys s.indexes_ → id < s.next_index_id_

/-- The catalog meta page is resident and holds the serialisation of
`catalog_meta_`: its bytes are what `CatalogMeta::SerializeTo` leaves in a
buffer. -/
def MetaWritten (cfg : Config) (x : Collab) (s : CatalogManager) : Prop :=
  ∃ (f : Int) (old : List Nat),
    UMap.find s.buffer_pool_manager_.page_table_ x.CATALOG_META_PAGE_ID = some f ∧
    CatalogMeta.SerializeTo cfg x s.catalog_meta_ old
      = some (BufferPoolManager.page cfg s.buffer_pool_manager_ f).data_

/-- The buffer pool between two calls of the catalog: the representation
invariant holds and the catalog meta page, when resident, is not pinned. -/
def PoolOK (cfg : Config) (x : Collab) (b : BufferPoolManager) : Prop :=
  BufferPoolManager.Inv cfg b none ∧ x.CATALOG_META_PAGE_ID ≠ INVALID_PAGE_ID ∧
  ∀ f : Int, UMap.find b.page_table_ x.CATALOG_META_PAGE_ID = some f →
    (BufferPoolManager.page cfg b f).pin_count_ = 0

/-- Collaborators that use the buffer pool properly: `TableHeap::Create`,
`IndexInfo::Init` and `FreeTableHeap` keep the pool in order, and the first two
leave every page that is pinned when they are called resident in its frame with
the same pin count. -/
structure Friendly (cfg : Config) (x : Collab) : Prop where
  heap_create : ∀ (b : BufferPoolManager) (schema : Schema), PoolOK cfg x b →
    PoolOK cfg x (x.TableHeap_Create b schema).2 ∧
    ∀ (p f : Int), UMap.find b.page_table_ p = some f →
      0 < (BufferPoolManager.page cfg b f).pin_count_ →
      UMap.find (x.TableHeap_Create b schema).2.page_table_ p = some f ∧
      (BufferPoolManager.page cfg (x.TableHeap_Create b schema).2 f).pin_count_
        = (BufferPoolManager.page cfg b f).pin_count_
  index_init : ∀ (b : BufferPoolManager) (m : IndexMetadata) (t : TableInfo), PoolOK cfg x b →
    PoolOK cfg x (x.IndexInfo_Init b m t) ∧
    ∀ (p f : Int), UMap.find b.page_table_ p = some f →
      0 < (BufferPoolManager.page cfg b f).pin_count_ →
      UMap.find (x.IndexInfo_Init b m t).page_table_ p = some f ∧
      (BufferPoolManager.page cfg (x.IndexInfo_Init b m t) f).pin_count_
        = (BufferPoolManager.page cfg b f).pin_count_
  free_heap : ∀ (b : BufferPoolManager) (h : TableHeap), PoolOK cfg x b →
    PoolOK cfg x (x.FreeTableHeap b h)

end CatalogManager

namespace CatalogManager

/-- The effect on the catalog of dropping the indexes of the table `table_name`
registered under the index names `names`, from the state `s` to the state
`s'`: the maps of the tables and the counters stay, the inner maps of the other
tables stay, the names leave the inner map of the table, and the ids they were
registered under leave `indexes_` and `catalog_meta_.index_meta_pages_`, whose
other entries stay. -/
structure Dropped (table_name : List Nat) (names : List (List Nat)) (s s' : CatalogManager) :
    Prop where
  tables : s'.tables_ = s.tables_
  table_names : s'.table_names_ = s.table_names_
  next_table : s'.next_table_id_ = s.next_table_id_
  next_index : s'.next_index_id_ = s.next_index_id_
  table_meta : s'.catalog_meta_.table_meta_pages_ = s.catalog_meta_.table_meta_pages_
  others : ∀ t, t ≠ table_name → UMap.find s'.index_names_ t = UMap.find s.index_names_ t
  names_gone : ∀ n, n ∈ names → UMap.find (indexNames s' table_name) n = none
  names_kept : ∀ n, n ∉ names →
    UMap.find (indexNames s' table_name) n = UMap.find (indexNames s table_name) n
  ids_gone : ∀ n id, n ∈ names → UMap.find (indexNames s table_name) n = some id →
    UMap.find s'.indexes_ id = none ∧ UMap.find s'.catalog_meta_.index_meta_pages_ id = none
  ids_kept : ∀ id, (∀ n, n ∈ names → UMap.find (indexNames s table_name) n ≠ some id) →
    UMap.find s'.indexes_ id = UMap.find s.indexes_ id ∧
    UMap.find s'.catalog_meta_.index_meta_pages_ id
      = UMap.find s.catalog_meta_.index_meta_pages_ id
  meta_length :
    s'.catalog_meta_.index_meta_pages_.length ≤ s.catalog_meta_.index_meta_pages_.length

/-- A catalog for concrete runs: the tables `t` (id 0, meta page 2) and `u`
(id 1, meta page 3), each with one `int` column `a`, the index `i` on `t`
(id 0, meta page 4) and the index `j` on `u` (id 1, meta page 5), over a pool
of eight frames in which the pages 0 to 5 have been allocated and unpinned. -/
def twoTables : CatalogManager :=
  { buffer_pool_manager_ :=
      BufferPoolManager.run Config.default
        (BufferPoolManager.new Config.default 8 (DiskManager.openEmpty Config.default))
        [.newPage, .unpin 0 true, .newPage, .unpin 1 true, .newPage, .unpin 2 true,
          .newPage, .unpin 3 true, .newPage, .unpin 4 true, .newPage, .unpin 5 true],
    catalog_meta_ := ⟨[(0, 2), (1, 3)], [(0, 4), (1, 5)]⟩,
    next_table_id_ := 2,
    next_index_id_ := 2,
    table_names_ := [([116], 0), ([117], 1)],
    tables_ :=
      [(0, ⟨⟨0, [116], 2, ⟨[⟨[97], .kTypeInt, 4, 0, false, false⟩], true⟩⟩, ⟨INVALID_PAGE_ID⟩⟩),
        (1, ⟨⟨1, [117], 3, ⟨[⟨[97], .kTypeInt, 4, 0, false, false⟩], true⟩⟩, ⟨INVALID_PAGE_ID⟩⟩)],
    index_names_ := [([116], [([105], 0)]), ([117], [([106], 1)])],
    indexes_ :=
      [(0, ⟨⟨0, [105], 0, [0]⟩,
          ⟨⟨0, [116], 2, ⟨[⟨[97], .kTypeInt, 4, 0, false, false⟩], true⟩⟩, ⟨INVALID_PAGE_ID⟩⟩⟩),
        (1, ⟨⟨1, [106], 1, [0]⟩,
          ⟨⟨1, [117], 3, ⟨[⟨[97], .kTypeInt, 4, 0, false, false⟩], true⟩⟩,
            ⟨INVALID_PAGE_ID⟩⟩⟩)] }

/-- A catalog for concrete runs: no table and no index, over a pool of four
frames in which the pages 0 (catalog meta page) and 1 have been allocated and
unpinned. -/
def emptyCatalog : CatalogManager :=
  { buffer_pool_manager_ :=
      BufferPoolManager.run Config.default
        (BufferPoolManager.new Config.default 4 (DiskManager.openEmpty Config.default))
        [.newPage, .unpin 0 true, .newPage, .unpin 1 true],
    catalog_meta_ := ⟨[], []⟩,
    next_table_id_ := 0,
    next_index_id_ := 0,
    table_names_ := [],
    tables_ := [],
    index_names_ := [],
    indexes_ := [] }

end CatalogManager

/-! ### Records: `Column` and `Schema` (src/record/column.cpp, src/record/schema.cpp) -/

/-- Modelled from the spec: the numeric values of the enumeration `TypeId` of
the absent header `common/type_id.h`, which `static_cast<uint32_t>(type_)`
yields: the enumerators numbered in the order of their declaration. -/
def TypeId.toUInt32 : TypeId → Nat
  | .kTypeInvalid => 0
  | .kTypeInt => 1
  | .kTypeFloat => 2
  | .kTypeChar => 3

/-- Modelled from the spec: `static_cast<TypeId>` of a 32-bit value.  A value
that is not the value of an enumerator is taken to `kTypeInvalid`: the sources
only compare the result with `kTypeChar`, `kTypeInt` and `kTypeFloat`. -/
def TypeId.ofUInt32 (v : Nat) : TypeId :=
  if v = 1 then .kTypeInt else if v = 2 then .kTypeFloat else if v = 3 then .kTypeChar
  else .kTypeInvalid

/-- Modelled from the spec: the macro `MACH_WRITE_TO(bool, buf, b)` of the
absent header `common/macros.h` stores the one byte of a `bool`. -/
def MACH_WRITE_BOOL (b : Bool) : List Nat := [if b then 1 else 0]

/-- Modelled from the spec: the macro `MACH_READ_FROM(bool, buf)` of the absent
header `common/macros.h` loads the byte at the start of `buf` as a `bool`. -/
def MACH_READ_BOOL (buf : List Nat) : Bool := decide (buf.getD 0 0 ≠ 0)

/-- A write of `bytes` at offset `off` of a buffer of which `out` holds the
bytes written so far; bytes of the buffer that were never written read as
0. -/
def writeAt (out : List Nat) (off : Nat) (bytes : List Nat) : List Nat :=
  out.take off ++ List.replicate (off - out.length) 0 ++ bytes ++ out.drop (off + bytes.length)

namespace Column

/-- The constructor `Column(column_name, type, index, nullable, unique)` with
the assertions off; `uninit` is the indeterminate value that `len_` is left
with when the `switch` takes its default branch. -/
def new (uninit : Nat) (column_name : List Nat) (type : TypeId) (index : Nat)
    (nullable unique : Bool) : Column :=
  { name_ := column_name,
    type_ := type,
    len_ :=
      match type with
      | .kTypeInt => 4
      | .kTypeFloat => 4
      | _ => uninit,
    table_ind_ := index,
    nullable_ := nullable,
    unique_ := unique }

/-- The constructor `Column(column_name, type, length, index, nullable,
unique)` with the assertion off. -/
def newChar (column_name : List Nat) (type : TypeId) (length index : Nat)
    (nullable unique : Bool) : Column :=
  { name_ := column_name,
    type_ := type,
    len_ := length,
    table_ind_ := index,
    nullable_ := nullable,
    unique_ := unique }

/-- A column as a constructor builds it when its assertion holds: the second
constructor with the type `kTypeChar`, or the first one with the type
`kTypeInt` or `kTypeFloat`; the name is a string of bytes whose length fits
`uint32_t`, and `len_` and `table_ind_` are `uint32_t` values. -/
def Built (c : Column) : Prop :=
  (∀ b ∈ c.name_, b < 256) ∧ c.name_.length < 2 ^ 32 ∧ c.table_ind_ < 2 ^ 32 ∧
  ((c.type_ = .kTypeChar ∧ c.len_ < 2 ^ 32 ∧
      c = newChar c.name_ c.type_ c.len_ c.table_ind_ c.nullable_ c.unique_) ∨
    ((c.type_ = .kTypeInt ∨ c.type_ = .kTypeFloat) ∧
      c = new 0 c.name_ c.type_ c.table_ind_ c.nullable_ c.unique_))

instance (c : Column) : Decidable (Built c) := by
  unfold Built
  infer_instance

/-- `Column::SerializeTo`: the returned count and the bytes written at `buf`.
The pointer advances by `name_len` (a `uint32_t`) after the name has been
copied. -/
def SerializeTo (COLUMN_MAGIC_NUM : Nat) (c : Column) : Nat × List Nat :=
  let out := writeAt [] 0 (MACH_WRITE_UINT32 COLUMN_MAGIC_NUM)
  let current := 4
  let name_len := u32 c.name_.length
  let out := writeAt out current (MACH_WRITE_UINT32 name_len)
  let current := current + 4
  let out := writeAt out current c.name_
  let current := current + name_len
  let out := writeAt out current (MACH_WRITE_UINT32 (TypeId.toUInt32 c.type_))
  let current := current + 4
  let out := writeAt out current (MACH_WRITE_UINT32 c.len_)
  let current := current + 4
  let out := writeAt out current (MACH_WRITE_UINT32 c.table_ind_)
  let current := current + 4
  let out := writeAt out current (MACH_WRITE_BOOL c.nullable_)
  let current := current + 1
  let out := writeAt out current (MACH_WRITE_BOOL c.unique_)
  let current := current + 1
  (u32 current, out)

/-- `Column::GetSerializedSize` (all sums are `uint32_t`). -/
def GetSerializedSize (c : Column) : Nat :=
  let size := 0
  let size := u32 (size + 4)
  let size := u32 (size + u32 (4 + u32 c.name_.length))
  let size := u32 (size + 4)
  let size := u32 (size + 4)
  let size := u32 (size + 4)
  let size := u32 (size + 1)
  let size := u32 (size + 1)
  size

/-- `Column::DeserializeFrom(buf, column)` with the assertions off, called with
`column == nullptr`: the returned count and the column assigned to the output
parameter (`none` when it stays `nullptr`).  `uninit` is the indeterminate
value of `len_` after the first constructor has taken its default branch. -/
def DeserializeFrom (COLUMN_MAGIC_NUM uninit : Nat) (buf : List Nat) : Nat × Option Column :=
  let magic_num := MACH_READ_UINT32 buf
  let current := 4
  if magic_num ≠ COLUMN_MAGIC_NUM then (0, none)
  else
    let name_len := MACH_READ_UINT32 (buf.drop current)
    let current := current + 4
    let column_name := (buf.drop current).take name_len
    let current := current + name_len
    let type := TypeId.ofUInt32 (MACH_READ_UINT32 (buf.drop current))
    let current := current + 4
    let col_len := MACH_READ_UINT32 (buf.drop current)
    let current := current + 4
    let col_ind := MACH_READ_UINT32 (buf.drop current)
    let current := current + 4
    let nullable := MACH_READ_BOOL (buf.drop current)
    let current := current + 1
    let unique := MACH_READ_BOOL (buf.drop current)
    let current := current + 1
    let column :=
      if type = .kTypeChar then newChar column_name type col_len col_ind nullable unique
      else new uninit column_name type col_ind nullable unique
    (u32 current, some column)

end Column

namespace Schema

/-- The loop of `Schema::SerializeTo` over the columns: the offset of
`current_ptr` and the bytes written so far. -/
def serializeColumns (COLUMN_MAGIC_NUM : Nat) : List Column → Nat × List Nat → Nat × List Nat
  | [], acc => acc
  | column :: rest, acc =>
    let r := Column.SerializeTo COLUMN_MAGIC_NUM column
    serializeColumns COLUMN_MAGIC_NUM rest (acc.1 + r.1, writeAt acc.2 acc.1 r.2)

/-- `Schema::SerializeTo`: the returned count and the bytes written at `buf`. -/
def SerializeTo (SCHEMA_MAGIC_NUM COLUMN_MAGIC_NUM : Nat) (s : Schema) : Nat × List Nat :=
  let out := writeAt [] 0 (MACH_WRITE_UINT32 SCHEMA_MAGIC_NUM)
  let current := 4
  let num_columns := u32 s.columns_.length
  let out := writeAt out current (MACH_WRITE_UINT32 num_columns)
  let current := current + 4
  let r := serializeColumns COLUMN_MAGIC_NUM s.columns_ (current, out)
  let out := writeAt r.2 r.1 (MACH_WRITE_BOOL s.is_manage_)
  let current := r.1 + 1
  (u32 current, out)

/-- `Schema::GetSerializedSize` (all sums are `uint32_t`). -/
def GetSerializedSize (s : Schema) : Nat :=
  let total_size := 0
  let total_size := u32 (total_size + 4)
  let total_size := u32 (total_size + 4)
  let total_size :=
    s.columns_.foldl (fun total_size column => u32 (total_size + column.GetSerializedSize))
      total_size
  u32 (total_size + 1)

/-- The loop of `Schema::DeserializeFrom` over `num_columns` column blocks
starting at `buf`: the columns created and the number of bytes consumed, or
`none` when the function returns 0 from inside the loop. -/
def deserializeColumns (COLUMN_MAGIC_NUM uninit : Nat) : Nat → List Nat → Option (List Column × Nat)
  | 0, _ => some ([], 0)
  | n + 1, buf =>
    let r := Column.DeserializeFrom COLUMN_MAGIC_NUM uninit buf
    match r.2 with
    | none => none
    | some col =>
      if r.1 = 0 then none
      else
        match deserializeColumns COLUMN_MAGIC_NUM uninit n (buf.drop r.1) with
        | none => none
        | some (cols, m) => some (col :: cols, r.1 + m)

/-- `Schema::DeserializeFrom(buf, schema)` with the assertions off: the
returned count and the schema assigned to the output parameter (`none` when
nothing is assigned). -/
def DeserializeFrom (SCHEMA_MAGIC_NUM COLUMN_MAGIC_NUM uninit : Nat) (buf : List Nat) :
    Nat × Option Schema :=
  let magic_num := MACH_READ_UINT32 buf
  let current := 4
  if magic_num ≠ SCHEMA_MAGIC_NUM then (0, none)
  else
    let num_columns := MACH_READ_UINT32 (buf.drop current)
    let current := current + 4
    match deserializeColumns COLUMN_MAGIC_NUM uninit num_columns (buf.drop current) with
    | none => (0, none)
    | some (deserialized_columns, n) =>
      let current := current + n
      let is_managed_from_buf := MACH_READ_BOOL (buf.drop current)
      let current := current + 1
      (u32 current, some ⟨deserialized_columns, is_managed_from_buf⟩)

end Schema

/-! ### `TableHeap` (src/storage/table_heap.cpp) -/

/-- Modelled from the spec: a `RowId` of the absent header `common/rowid.h`,
"`row_id = (page_id, slot_num)`". -/
structure RowId where
  page_id_ : page_id_t
  slot_num_ : Nat
  deriving DecidableEq, Repr

/-- Modelled from the spec: `RowId::GetPageId`. -/
def RowId.GetPageId (rid : RowId) : page_id_t := rid.page_id_

/-- The members of the absent class `TablePage` that `TableHeap` calls, as
functions on the bytes of the page, and the constant `TablePage::SIZE_MAX_ROW`.
`InsertTuple` gives the returned flag, the bytes of the page afterwards and the
`rid_` of the row afterwards; `UpdateTuple` (called with the new row, its
`rid_`, and a fresh `Row` as the old row) gives the returned flag and the bytes
afterwards; `MarkDelete`, `RollbackDelete`, `Init` and `SetNextPageId` give the
bytes afterwards; `GetTuple` gives the returned flag and the fields loaded. -/
structure TablePageOps (F : Type) where
  SIZE_MAX_ROW : Nat
  Init : List Nat → page_id_t → page_id_t → List Nat
  GetTablePageId : List Nat → page_id_t
  GetNextPageId : List Nat → page_id_t
  SetNextPageId : List Nat → page_id_t → List Nat
  InsertTuple : List Nat → List F → RowId → Schema → Bool × List Nat × RowId
  MarkDelete : List Nat → RowId → List Nat
  UpdateTuple : List Nat → List F → RowId → Schema → Bool × List Nat
  RollbackDelete : List Nat → RowId → List Nat
  GetTuple : List Nat → RowId → Schema → Bool × List F

/-- Modelled from the spec: a table page for concrete runs, with the header
"`{page_id, prev_page_id, next_page_id, ...}`" in its first twelve bytes and
room for one tuple, whose state is kept in byte 12 (0 for no tuple, 1 for a
live tuple, 2 for a tuple marked as deleted); an in-place update never fits. -/
def TablePageOps.oneSlot : TablePageOps Field :=
  { SIZE_MAX_ROW := 8,
    Init := fun d page_id prev_page_id =>
      MACH_WRITE_INT32 page_id ++ MACH_WRITE_INT32 prev_page_id ++
        MACH_WRITE_INT32 INVALID_PAGE_ID ++ [0] ++ d.drop 13,
    GetTablePageId := fun d => toInt32 (MACH_READ_UINT32 d),
    GetNextPageId := fun d => toInt32 (MACH_READ_UINT32 (d.drop 8)),
    SetNextPageId := fun d next_page_id => d.take 8 ++ MACH_WRITE_INT32 next_page_id ++ d.drop 12,
    InsertTuple := fun d _ rid _ =>
      if d.getD 12 0 = 0 then (true, d.set 12 1, ⟨toInt32 (MACH_READ_UINT32 d), 0⟩)
      else (false, d, rid),
    MarkDelete := fun d rid => if rid.slot_num_ = 0 ∧ d.getD 12 0 = 1 then d.set 12 2 else d,
    UpdateTuple := fun d _ _ _ => (false, d),
    RollbackDelete := fun d rid =>
      if rid.slot_num_ = 0 ∧ d.getD 12 0 = 2 then d.set 12 1 else d,
    GetTuple := fun d rid _ => (decide (rid.slot_num_ = 0 ∧ d.getD 12 0 = 1), []) }

namespace TableHeap

/-- The first `while` loop of `TableHeap::InsertTuple`, one iteration per unit
of fuel, from the page `current_page_id` with `table_page_obj` the frame of the
page at hand (`none` for `nullptr`).  The result is `none` when the fuel runs
out; otherwise it holds `some true` or `some false` when the function returns
that value from inside the loop and `none` when the loop ends, the buffer pool
and the `rid_` of the row. -/
def insertLoop {F : Type} (cfg : Config) (x : TablePageOps F) (schema : Schema) (row : List F) :
    Nat → page_id_t → Option frame_id_t → BufferPoolManager → RowId →
    Option (Option Bool × BufferPoolManager × RowId)
  | 0, _, _, _, _ => none
  | fuel + 1, current_page_id, table_page_obj, b, row_rid =>
    if current_page_id = INVALID_PAGE_ID then some (none, b, row_rid)
    else
      let r : Option frame_id_t × BufferPoolManager :=
        match table_page_obj with
        | none => BufferPoolManager.FetchPage cfg b current_page_id
        | some f =>
          if x.GetTablePageId (BufferPoolManager.page cfg b f).data_ ≠ current_page_id then
            BufferPoolManager.FetchPage cfg b current_page_id
          else (some f, b)
      match r.1 with
      | none => some (some false, r.2, row_rid)
      | some f =>
        let a := x.InsertTuple (BufferPoolManager.page cfg r.2 f).data_ row row_rid schema
        let b1 := BufferPoolManager.writeData cfg r.2 f a.2.1
        if a.1 then
          some (some true, (BufferPoolManager.UnpinPage cfg b1 current_page_id true).2, a.2.2)
        else
          let next_page_id_in_chain := x.GetNextPageId (BufferPoolManager.page cfg b1 f).data_
          insertLoop cfg x schema row fuel next_page_id_in_chain none
            (BufferPoolManager.UnpinPage cfg b1 current_page_id false).2 a.2.2

/-- The second `while` loop of `TableHeap::InsertTuple`, which looks for the
last page of the chain, one iteration per unit of fuel.  The result is `none`
when the fuel runs out or the assertion after the loop fails; otherwise it
holds the id and the frame of the last page, left pinned (`none` when the
function returns `false` from inside the loop), and the buffer pool. -/
def findLast {F : Type} (cfg : Config) (x : TablePageOps F) :
    Nat → page_id_t → BufferPoolManager →
    Option (Option (page_id_t × frame_id_t) × BufferPoolManager)
  | 0, _, _ => none
  | fuel + 1, iter_pid, b =>
    if iter_pid = INVALID_PAGE_ID then none
    else
      let r := BufferPoolManager.FetchPage cfg b iter_pid
      match r.1 with
      | none => some (none, r.2)
      | some f =>
        let next_pid_in_chain := x.GetNextPageId (BufferPoolManager.page cfg r.2 f).data_
        if next_pid_in_chain = INVALID_PAGE_ID then some (some (iter_pid, f), r.2)
        else
          findLast cfg x fuel next_pid_in_chain
            (BufferPoolManager.UnpinPage cfg r.2 iter_pid false).2

/-- The part of `TableHeap::InsertTuple` after the first loop ("Case 3"): a new
page is appended to the chain and the row inserted there. -/
def appendPage {F : Type} (cfg : Config) (x : TablePageOps F) (schema : Schema) (fuel : Nat)
    (h : TableHeap) (b : BufferPoolManager) (row : List F) (row_rid : RowId) :
    Option (Bool × TableHeap × BufferPoolManager × RowId) :=
  if h.first_page_id_ = INVALID_PAGE_ID then some (false, h, b, row_rid)
  else
    match findLast cfg x fuel h.first_page_id_ b with
    | none => none
    | some (none, b1) => some (false, h, b1, row_rid)
    | some (some (actual_last_page_id, last_frame), b1) =>
      let r := BufferPoolManager.NewPage cfg b1
      let new_page_disk_id := r.1
      match r.2.1 with
      | none =>
        some (false, h, (BufferPoolManager.UnpinPage cfg r.2.2 actual_last_page_id false).2,
          row_rid)
      | some new_frame =>
        if new_page_disk_id = INVALID_PAGE_ID then
          some (false, h, (BufferPoolManager.UnpinPage cfg r.2.2 actual_last_page_id false).2,
            row_rid)
        else
          let b2 := BufferPoolManager.writeData cfg r.2.2 new_frame
            (x.Init (BufferPoolManager.page cfg r.2.2 new_frame).data_ new_page_disk_id
              actual_last_page_id)
          let b3 := BufferPoolManager.writeData cfg b2 last_frame
            (x.SetNextPageId (BufferPoolManager.page cfg b2 last_frame).data_ new_page_disk_id)
          let b4 := (BufferPoolManager.UnpinPage cfg b3 actual_last_page_id true).2
          let a := x.InsertTuple (BufferPoolManager.page cfg b4 new_frame).data_ row row_rid
            schema
          let b5 := BufferPoolManager.writeData cfg b4 new_frame a.2.1
          some (a.1, h, (BufferPoolManager.UnpinPage cfg b5 new_page_disk_id true).2, a.2.2)

/-- `TableHeap::InsertTuple(row, txn)`: the returned flag, the heap, the buffer
pool and the `rid_` of the row afterwards; `none` when the run does not return
(an assertion fails, or the fuel of a loop runs out). -/
def InsertTuple {F : Type} (cfg : Config) (c : FieldCodec F) (x : TablePageOps F)
    (schema : Schema) (fuel : Nat) (h : TableHeap) (b : BufferPoolManager) (row : List F)
    (row_rid : RowId) : Option (Bool × TableHeap × BufferPoolManager × RowId) :=
  match Row.GetSerializedSize c row schema with
  | none => none
  | some size =>
    if size > x.SIZE_MAX_ROW then some (false, h, b, row_rid)
    else if h.first_page_id_ = INVALID_PAGE_ID then
      let r := BufferPoolManager.NewPage cfg b
      let new_first_page_id := r.1
      match r.2.1 with
      | none => some (false, h, r.2.2, row_rid)
      | some frame =>
        if new_first_page_id = INVALID_PAGE_ID then some (false, h, r.2.2, row_rid)
        else
          let h1 : TableHeap := { h with first_page_id_ := new_first_page_id }
          let b1 := BufferPoolManager.writeData cfg r.2.2 frame
            (x.Init (BufferPoolManager.page cfg r.2.2 frame).data_ new_first_page_id
              INVALID_PAGE_ID)
          match insertLoop cfg x schema row fuel new_first_page_id (some frame) b1 row_rid with
          | none => none
          | some (some ret, b2, rid2) => some (ret, h1, b2, rid2)
          | some (none, b2, rid2) => appendPage cfg x schema fuel h1 b2 row rid2
    else
      match insertLoop cfg x schema row fuel h.first_page_id_ none b row_rid with
      | none => none
      | some (some ret, b2, rid2) => some (ret, h, b2, rid2)
      | some (none, b2, rid2) => appendPage cfg x schema fuel h b2 row rid2

/-- `TableHeap::MarkDelete(rid, txn)`: the returned flag and the buffer pool. -/
def MarkDelete {F : Type} (cfg : Config) (x : TablePageOps F) (b : BufferPoolManager)
    (rid : RowId) : Bool × BufferPoolManager :=
  let r := BufferPoolManager.FetchPage cfg b rid.GetPageId
  match r.1 with
  | none => (false, r.2)
  | some f =>
    let b1 := BufferPoolManager.writeData cfg r.2 f
      (x.MarkDelete (BufferPoolManager.page cfg r.2 f).data_ rid)
    (true,
      (BufferPoolManager.UnpinPage cfg b1
        (x.GetTablePageId (BufferPoolManager.page cfg b1 f).data_) true).2)

/-- `TableHeap::RollbackDelete(rid, txn)`: the buffer pool afterwards; `none`
when the assertion `page != nullptr` fails. -/
def RollbackDelete {F : Type} (cfg : Config) (x : TablePageOps F) (b : BufferPoolManager)
    (rid : RowId) : Option BufferPoolManager :=
  let r := BufferPoolManager.FetchPage cfg b rid.GetPageId
  match r.1 with
  | none => none
  | some f =>
    let b1 := BufferPoolManager.writeData cfg r.2 f
      (x.RollbackDelete (BufferPoolManager.page cfg r.2 f).data_ rid)
    some
      (BufferPoolManager.UnpinPage cfg b1
        (x.GetTablePageId (BufferPoolManager.page cfg b1 f).data_) true).2

/-- `TableHeap::GetTuple(row, txn)` for a non-null `row` whose `rid_` is `rid`:
the returned flag, the fields loaded into the row and the buffer pool. -/
def GetTuple {F : Type} (cfg : Config) (x : TablePageOps F) (schema : Schema)
    (b : BufferPoolManager) (rid : RowId) : Bool × List F × BufferPoolManager :=
  if rid.GetPageId = INVALID_PAGE_ID then (false, [], b)
  else
    let r := BufferPoolManager.FetchPage cfg b rid.GetPageId
    match r.1 with
    | none => (false, [], r.2)
    | some f =>
      let found := x.GetTuple (BufferPoolManager.page cfg r.2 f).data_ rid schema
      (found.1, found.2, (BufferPoolManager.UnpinPage cfg r.2 rid.GetPageId false).2)

/-- `TableHeap::UpdateTuple(new_row, rid, txn)`: the returned flag, the heap,
the buffer pool and the `rid_` of `new_row` afterwards; `none` when the run
does not return. -/
def UpdateTuple {F : Type} (cfg : Config) (c : FieldCodec F) (x : TablePageOps F)
    (schema : Schema) (fuel : Nat) (h : TableHeap) (b : BufferPoolManager) (new_row : List F)
    (new_row_rid : RowId) (rid : RowId) : Option (Bool × TableHeap × BufferPoolManager × RowId) :=
  if rid.GetPageId = INVALID_PAGE_ID then some (false, h, b, new_row_rid)
  else
    let r := BufferPoolManager.FetchPage cfg b rid.GetPageId
    match r.1 with
    | none => some (false, h, r.2, new_row_rid)
    | some f =>
      let u := x.UpdateTuple (BufferPoolManager.page cfg r.2 f).data_ new_row new_row_rid schema
      let b1 := BufferPoolManager.writeData cfg r.2 f u.2
      if u.1 then
        some (true, h, (BufferPoolManager.UnpinPage cfg b1 rid.GetPageId true).2, rid)
      else
        let b2 := (BufferPoolManager.UnpinPage cfg b1 rid.GetPageId false).2
        let g := GetTuple cfg x schema b2 rid
        if g.1 = false then some (false, h, g.2.2, new_row_rid)
        else
          match Row.GetSerializedSize c new_row schema with
          | none => none
          | some size =>
            if size > x.SIZE_MAX_ROW then some (false, h, g.2.2, new_row_rid)
            else
              let m := MarkDelete cfg x g.2.2 rid
              if m.1 = false then some (false, h, m.2, new_row_rid)
              else
                match InsertTuple cfg c x schema fuel h m.2 new_row new_row_rid with
                | none => none
                | some (true, h1, b3, rid1) => some (true, h1, b3, rid1)
                | some (false, h1, b3, rid1) =>
                  match RollbackDelete cfg x b3 rid with
                  | none => none
                  | some b4 => some (false, h1, b4, rid1)

/-- The buffer pool `b'` comes from `b` by calls of `FetchPage` and of
`UnpinPage` with `is_dirty = false` only. -/
inductive Traffic (cfg : Config) : BufferPoolManager → BufferPoolManager → Prop
  | refl (b : BufferPoolManager) : Traffic cfg b b
  | fetch (b b' : BufferPoolManager) (p : page_id_t) :
    Traffic cfg b b' → Traffic cfg b (BufferPoolManager.FetchPage cfg b' p).2
  | unpin (b b' : BufferPoolManager) (p : page_id_t) :
    Traffic cfg b b' → Traffic cfg b (BufferPoolManager.UnpinPage cfg b' p false).2

/-- The buffer pool `b'` comes from `b` by calls of `FetchPage`, `UnpinPage`
and `NewPage`, by `TablePage::Init` on the page that a `NewPage` has just
created, and by `TablePage::SetNextPageId` on a page: no step writes a tuple
or a delete flag. -/
inductive Quiet {F : Type} (cfg : Config) (x : TablePageOps F) :
    BufferPoolManager → BufferPoolManager → Prop
  | refl (b : BufferPoolManager) : Quiet cfg x b b
  | fetch (b b' : BufferPoolManager) (p : page_id_t) :
    Quiet cfg x b b' → Quiet cfg x b (BufferPoolManager.FetchPage cfg b' p).2
  | unpin (b b' : BufferPoolManager) (p : page_id_t) (is_dirty : Bool) :
    Quiet cfg x b b' → Quiet cfg x b (BufferPoolManager.UnpinPage cfg b' p is_dirty).2
  | newPage (b b' : BufferPoolManager) :
    Quiet cfg x b b' → Quiet cfg x b (BufferPoolManager.NewPage cfg b').2.2
  | init (b b' : BufferPoolManager) (f : frame_id_t) (prev : page_id_t) :
    Quiet cfg x b b' → (BufferPoolManager.NewPage cfg b').2.1 = some f →
    Quiet cfg x b
      (BufferPoolManager.writeData cfg (BufferPoolManager.NewPage cfg b').2.2 f
        (x.Init (BufferPoolManager.page cfg (BufferPoolManager.NewPage cfg b').2.2 f).data_
          (BufferPoolManager.NewPage cfg b').1 prev))
  | setNext (b b' : BufferPoolManager) (f : frame_id_t) (next : page_id_t) :
    Quiet cfg x b b' →
    Quiet cfg x b
      (BufferPoolManager.writeData cfg b' f
        (x.SetNextPageId (BufferPoolManager.page cfg b' f).data_ next))

end TableHeap

/-! ### B+ tree index (`index/b_plus_tree.cpp`, `page/b_plus_tree_internal_page.cpp`,
`index/index_iterator.cpp`)

The tree reaches its nodes through the buffer pool.  Here the pool is seen from
the tree: a table from page ids to node pages with their pin counts, large
enough that no page has to be evicted.  A pointer to a page is the page id it
was fetched under, and every access through a pointer reads or writes the table
at that moment, so two pointers to one page see each other's writes.  Keys are
natural numbers compared by their order.  A `FetchPage` of a page id that the
pool does not hold stands for a `FetchPage` that returns `nullptr`.  The copy
functions of the internal page (`CopyNFrom`, `CopyLastFrom`, `CopyFirstFrom`)
test that pointer and return early, and are described so.  Everywhere else a
result `none` means that the run leaves this description: a page is reached
that the pool does not hold (among them a page deleted while a pointer to it is
still in use), memory in front of a slot array is addressed, a leaf is treated
as an internal page or the other way round, or the fuel of a loop is used
up. -/

/-- Modelled from the spec: `IndexPageType` of the absent header
`page/b_plus_tree_page.h`; a zeroed page has the first kind. -/
inductive IndexPageType
  | INVALID_INDEX_PAGE
  | LEAF_PAGE
  | INTERNAL_PAGE
  deriving DecidableEq, Repr

/-- One page of an index.  The first six fields are the header common to both
kinds of node (spec: `{page_type, size, max_size, key_size, parent_page_id,
page_id}`), `next_page_id_` is the link of a leaf.  `pairs_` is the slot array of
an internal page as memory: slot `i` holds a key and a child page id, slots at
and beyond `size_` keep what was last written to them, and slots never written
read as zero.  `rows_` holds the entries of a leaf in slot order. -/
structure BPlusTreePage where
  page_type_ : IndexPageType
  size_ : Int
  max_size_ : Int
  key_size_ : Int
  parent_page_id_ : page_id_t
  page_id_ : page_id_t
  next_page_id_ : page_id_t
  pairs_ : List (Nat × page_id_t)
  rows_ : List (Nat × RowId)
  deriving DecidableEq, Repr

namespace BPlusTreePage

/-- The page after `Page::ResetMemory`: all bytes zero. -/
def zero : BPlusTreePage :=
  ⟨.INVALID_INDEX_PAGE, 0, 0, 0, 0, 0, 0, [], []⟩

/-- Modelled from the spec: `BPlusTreePage::IsLeafPage`. -/
def IsLeafPage (p : BPlusTreePage) : Bool := decide (p.page_type_ = .LEAF_PAGE)

/-- Modelled from the spec: `BPlusTreePage::IsRootPage`, the node without a
parent. -/
def IsRootPage (p : BPlusTreePage) : Bool := decide (p.parent_page_id_ = INVALID_PAGE_ID)

/-- Modelled from the spec: `BPlusTreePage::GetMinSize`, "Min sizes follow the
classical ⌈max/2⌉". -/
def GetMinSize (p : BPlusTreePage) : Int := Int.tdiv (p.max_size_ + 1) 2

end BPlusTreePage

/-- The node pages in the buffer pool: page id, page content, pin count. -/
abbrev Pool := List (page_id_t × (BPlusTreePage × Int))

namespace Pool

/-- The content of the page `page_id` points to. -/
def page (b : Pool) (page_id : page_id_t) : Option BPlusTreePage :=
  (UMap.find b page_id).map Prod.fst

/-- A write through a pointer to page `page_id`. -/
def write (b : Pool) (page_id : page_id_t) (p : BPlusTreePage) : Pool :=
  b.map (fun e => if e.1 = page_id then (e.1, (p, e.2.2)) else e)

/-- The effect of `FetchPage(page_id)` on a page held by the pool: one more pin. -/
def FetchPage (b : Pool) (page_id : page_id_t) : Option Pool :=
  match UMap.find b page_id with
  | none => none
  | some _ => some (b.map (fun e => if e.1 = page_id then (e.1, (e.2.1, e.2.2 + 1)) else e))

/-- The effect of `UnpinPage(page_id, _)`: one pin less, nothing for a page that
is not held or not pinned. -/
def UnpinPage (b : Pool) (page_id : page_id_t) : Pool :=
  b.map (fun e => if e.1 = page_id ∧ 0 < e.2.2 then (e.1, (e.2.1, e.2.2 - 1)) else e)

/-- The effect of `DeletePage(page_id)`: a pinned page stays, an unpinned page
is dropped and its id is free again. -/
def DeletePage (b : Pool) (page_id : page_id_t) : Pool :=
  match UMap.find b page_id with
  | none => b
  | some e => if 0 < e.2 then b else UMap.erase b page_id

/-- The id `NewPage` hands out: the least page id not in use. -/
def firstFree (b : Pool) : page_id_t :=
  match (List.range (b.length + 1)).find? (fun i => (UMap.find b (i : Int)).isNone) with
  | some i => (i : Int)
  | none => (b.length : Int)

/-- The effect of `NewPage`: a zeroed page under a fresh id, pinned once. -/
def NewPage (b : Pool) : page_id_t × Pool :=
  (firstFree b, b ++ [(firstFree b, (BPlusTreePage.zero, 1))])

end Pool

namespace InternalPage

/-- `InternalPage::Init`. -/
def Init (p : BPlusTreePage) (page_id parent_id : page_id_t) (key_size max_size : Int) :
    BPlusTreePage :=
  { p with page_type_ := .INTERNAL_PAGE, size_ := 0, page_id_ := page_id,
           parent_page_id_ := parent_id, key_size_ := key_size, max_size_ := max_size }

/-- The pair in slot `index` (`PairPtrAt`). -/
def PairAt (p : BPlusTreePage) (index : Int) : Option (Nat × page_id_t) :=
  if index < 0 then none else some (p.pairs_.getD index.toNat (0, 0))

/-- `InternalPage::KeyAt`, read. -/
def KeyAt (p : BPlusTreePage) (index : Int) : Option Nat :=
  (PairAt p index).map Prod.fst

/-- `InternalPage::ValueAt`. -/
def ValueAt (p : BPlusTreePage) (index : Int) : Option page_id_t :=
  (PairAt p index).map Prod.snd

/-- A write of the pair in slot `index`. -/
def setPair (p : BPlusTreePage) (index : Int) (e : Nat × page_id_t) : Option BPlusTreePage :=
  if index < 0 then none
  else
    some { p with pairs_ :=
      (p.pairs_ ++ List.replicate (index.toNat + 1 - p.pairs_.length) (0, 0)).set index.toNat e }

/-- `InternalPage::SetKeyAt`. -/
def SetKeyAt (p : BPlusTreePage) (index : Int) (key : Nat) : Option BPlusTreePage :=
  match PairAt p index with
  | none => none
  | some e => setPair p index (key, e.2)

/-- `InternalPage::SetValueAt`. -/
def SetValueAt (p : BPlusTreePage) (index : Int) (value : page_id_t) : Option BPlusTreePage :=
  match PairAt p index with
  | none => none
  | some e => setPair p index (e.1, value)

/-- `InternalPage::ValueIndex`: the first slot below `size_` with this child,
-1 when there is none. -/
def ValueIndex (p : BPlusTreePage) (value : page_id_t) : Int :=
  match (List.range p.size_.toNat).find? (fun i => decide ((p.pairs_.getD i (0, 0)).2 = value)) with
  | some i => (i : Int)
  | none => -1

/-- The `pair_num` pairs from slot `src` on, the source of a `PairCopy`. -/
def readPairs (p : BPlusTreePage) (src : Int) (pair_num : Nat) : Option (List (Nat × page_id_t)) :=
  if src < 0 then none
  else some ((List.range pair_num).map (fun i => p.pairs_.getD (src.toNat + i) (0, 0)))

/-- `InternalPage::PairCopy` with the source already read: the pairs are written
from slot `dest` on.  Where source and destination overlap within one page the
`memcpy` of the source is taken to copy the pairs as they were before. -/
def PairCopy (p : BPlusTreePage) (dest : Int) : List (Nat × page_id_t) → Option BPlusTreePage
  | [] => some p
  | e :: es =>
    match setPair p dest e with
    | none => none
    | some p1 => PairCopy p1 (dest + 1) es

/-- The loop of `InternalPage::Lookup`. -/
def lookupLoop (p : BPlusTreePage) (key : Nat) : Nat → Int → Int → Int → Int
  | 0, _, _, ans => ans
  | fuel + 1, low, high, ans =>
    if low ≤ high then
      let mid := low + Int.tdiv (high - low) 2
      if (p.pairs_.getD mid.toNat (0, 0)).1 ≤ key then lookupLoop p key fuel (mid + 1) high mid
      else lookupLoop p key fuel low (mid - 1) ans
    else ans

/-- `InternalPage::Lookup`: binary search over the slots 1 .. size - 1; the
interval halves in every round, so `size_` rounds are enough. -/
def Lookup (p : BPlusTreePage) (key : Nat) : Option page_id_t :=
  if p.size_ = 0 then some INVALID_PAGE_ID
  else if p.size_ = 1 then ValueAt p 0
  else ValueAt p (lookupLoop p key p.size_.toNat 1 (p.size_ - 1) 0)

/-- `InternalPage::PopulateNewRoot`. -/
def PopulateNewRoot (p : BPlusTreePage) (old_value : page_id_t) (new_key : Nat)
    (new_value : page_id_t) : Option BPlusTreePage := do
  let p1 ← SetValueAt p 0 old_value
  let p2 ← SetKeyAt p1 1 new_key
  let p3 ← SetValueAt p2 1 new_value
  some { p3 with size_ := 2 }

/-- `InternalPage::InsertNodeAfter`: the new size and the page. -/
def InsertNodeAfter (p : BPlusTreePage) (old_value : page_id_t) (new_key : Nat)
    (new_value : page_id_t) : Option (Int × BPlusTreePage) := do
  let old_value_index := ValueIndex p old_value
  let current_size := p.size_
  let insert_index := old_value_index + 1
  let num := current_size - insert_index
  let p1 ← if 0 < num then (readPairs p insert_index num.toNat).bind (PairCopy p (insert_index + 1))
           else some p
  let p2 ← SetKeyAt p1 insert_index new_key
  let p3 ← SetValueAt p2 insert_index new_value
  some (p3.size_ + 1, { p3 with size_ := p3.size_ + 1 })

/-- The adoption of a child in `CopyNFrom`, `CopyLastFrom` and `CopyFirstFrom`:
the child is fetched, its parent id is set to the page id of `self`, and it is
unpinned.  The inner `none` is a `FetchPage` that returns `nullptr` (the pool
holds no page under `child_id`): the pool is as before, and the three callers
test the pointer and return at once. -/
def adopt (b : Pool) (self child_id : page_id_t) : Option (Option Pool) :=
  match Pool.FetchPage b child_id with
  | none => some none
  | some b1 =>
    match Pool.page b1 self, Pool.page b1 child_id with
    | some p, some child =>
      some (some (Pool.UnpinPage
        (Pool.write b1 child_id { child with parent_page_id_ := p.page_id_ }) child_id))
    | _, _ => none

/-- The loop of `InternalPage::CopyNFrom` over the copied slots: whether the
loop ran to its end (`false` when a child could not be fetched and the function
returned from inside the loop), and the pool. -/
def adoptLoop (self : page_id_t) (current_size : Int) : Nat → Nat → Pool → Option (Bool × Pool)
  | 0, _, b => some (true, b)
  | n + 1, i, b =>
    match Pool.page b self with
    | none => none
    | some p =>
      match ValueAt p (current_size + i) with
      | none => none
      | some child_id =>
        match adopt b self child_id with
        | none => none
        | some none => some (false, b)
        | some (some b1) => adoptLoop self current_size n (i + 1) b1

/-- `InternalPage::CopyNFrom` on the page `self`, with the source already read.
When a child cannot be fetched the function returns without `IncreaseSize`. -/
def CopyNFrom (b : Pool) (self : page_id_t) (src : List (Nat × page_id_t)) (size : Int) :
    Option Pool :=
  if size < 0 then some b
  else
    match Pool.page b self with
    | none => none
    | some p =>
      match PairCopy p p.size_ src with
      | none => none
      | some p1 =>
        match adoptLoop self p.size_ size.toNat 0 (Pool.write b self p1) with
        | none => none
        | some (false, b1) => some b1
        | some (true, b1) =>
          match Pool.page b1 self with
          | none => none
          | some p2 => some (Pool.write b1 self { p2 with size_ := p2.size_ + size })

/-- `InternalPage::MoveHalfTo`: the first `(size + 1) / 2` pairs stay. -/
def MoveHalfTo (b : Pool) (self recipient : page_id_t) : Option Pool := do
  let p ← Pool.page b self
  let current_size := p.size_
  let num_to_move_start := Int.tdiv (current_size + 1) 2
  let num_to_move := current_size - num_to_move_start
  let b1 ← if 0 < num_to_move then
             (readPairs p num_to_move_start num_to_move.toNat).bind
               (fun src => CopyNFrom b recipient src num_to_move)
           else some b
  let p1 ← Pool.page b1 self
  some (Pool.write b1 self { p1 with size_ := num_to_move_start })

/-- `InternalPage::Remove`. -/
def Remove (p : BPlusTreePage) (index : Int) : Option BPlusTreePage := do
  let num := p.size_ - 1 - index
  let p1 ← if 0 < num then (readPairs p (index + 1) num.toNat).bind (PairCopy p index)
           else some p
  some { p1 with size_ := p1.size_ - 1 }

/-- `InternalPage::RemoveAndReturnOnlyChild`. -/
def RemoveAndReturnOnlyChild (p : BPlusTreePage) : Option (page_id_t × BPlusTreePage) :=
  if p.size_ ≠ 1 then some (INVALID_PAGE_ID, p)
  else (ValueAt p 0).map (fun child => (child, { p with size_ := 0 }))

/-- The end of `CopyLastFrom` and `CopyFirstFrom` on the page `self`, after
the slot has been written: the child `value` is adopted and the size raised by
one; when the child cannot be fetched the function returns without
`IncreaseSize`. -/
def adoptOne (b : Pool) (self value : page_id_t) : Option Pool :=
  match adopt b self value with
  | none => none
  | some none => some b
  | some (some b1) =>
    match Pool.page b1 self with
    | none => none
    | some p3 => some (Pool.write b1 self { p3 with size_ := p3.size_ + 1 })

/-- `InternalPage::CopyLastFrom` on the page `self`. -/
def CopyLastFrom (b : Pool) (self : page_id_t) (key : Nat) (value : page_id_t) : Option Pool := do
  let p ← Pool.page b self
  let index := p.size_
  let p1 ← SetKeyAt p index key
  let p2 ← SetValueAt p1 index value
  adoptOne (Pool.write b self p2) self value

/-- `InternalPage::CopyFirstFrom` on the page `self`. -/
def CopyFirstFrom (b : Pool) (self : page_id_t) (value : page_id_t) : Option Pool := do
  let p ← Pool.page b self
  let p1 ← if 0 < p.size_ then (readPairs p 0 p.size_.toNat).bind (PairCopy p 1) else some p
  let p2 ← SetValueAt p1 0 value
  adoptOne (Pool.write b self p2) self value

/-- `InternalPage::MoveAllTo`: the size of `self` is left as it is. -/
def MoveAllTo (b : Pool) (self recipient : page_id_t) (middle_key : Nat) : Option Pool := do
  let p ← Pool.page b self
  let first ← ValueAt p 0
  let b1 ← CopyLastFrom b recipient middle_key first
  let p1 ← Pool.page b1 self
  let b2 ← if 1 < p1.size_ then
             (readPairs p1 1 (p1.size_ - 1).toNat).bind
               (fun src => CopyNFrom b1 recipient src (p1.size_ - 1))
           else some b1
  let p2 ← Pool.page b2 self
  some (Pool.DeletePage b2 p2.page_id_)

/-- `InternalPage::MoveFirstToEndOf`. -/
def MoveFirstToEndOf (b : Pool) (self recipient : page_id_t) (middle_key : Nat) : Option Pool := do
  let p ← Pool.page b self
  let child ← ValueAt p 0
  let b1 ← CopyLastFrom b recipient middle_key child
  let p1 ← Pool.page b1 self
  let p2 ← Remove p1 0
  some (Pool.write b1 self p2)

/-- `InternalPage::MoveLastToFrontOf`: `Remove(last_index)` lowers the size by
one, and so does the `IncreaseSize(-1)` at the end.  `middle_key` points to slot
`middle_slot` of the page `middle_page` and is read when it is copied. -/
def MoveLastToFrontOf (b : Pool) (self recipient : page_id_t) (middle_page : page_id_t)
    (middle_slot : Int) : Option Pool := do
  let p ← Pool.page b self
  let last_index := p.size_ - 1
  let value ← ValueAt p last_index
  let b1 ← CopyFirstFrom b recipient value
  let p1 ← Pool.page b1 self
  let p2 ← Remove p1 last_index
  let b2 := Pool.write b1 self p2
  let m ← Pool.page b2 middle_page
  let middle_key ← KeyAt m middle_slot
  let r ← Pool.page b2 recipient
  let r1 ← SetKeyAt r 1 middle_key
  let b3 := Pool.write b2 recipient r1
  let p3 ← Pool.page b3 self
  some (Pool.write b3 self { p3 with size_ := p3.size_ - 1 })

end InternalPage

namespace LeafPage

/-- Modelled from the spec: `LeafPage::Init`, an empty leaf without successor. -/
def Init (p : BPlusTreePage) (page_id parent_id : page_id_t) (key_size max_size : Int) :
    BPlusTreePage :=
  { p with page_type_ := .LEAF_PAGE, size_ := 0, page_id_ := page_id,
           parent_page_id_ := parent_id, key_size_ := key_size, max_size_ := max_size,
           next_page_id_ := INVALID_PAGE_ID, rows_ := [] }

/-- Modelled from the spec: `LeafPage::KeyIndex`, the first slot whose key is
not below `key`. -/
def KeyIndex (p : BPlusTreePage) (key : Nat) : Int :=
  ((p.rows_.takeWhile (fun e => decide (e.1 < key))).length : Int)

/-- Modelled from the spec: `LeafPage::KeyAt`. -/
def KeyAt (p : BPlusTreePage) (index : Int) : Option Nat :=
  if index < 0 then none else (p.rows_.get? index.toNat).map Prod.fst

/-- Modelled from the spec: `LeafPage::Insert`, "if the key already exists ...
(unique keys). Insert sorted"; the result is the size afterwards. -/
def Insert (p : BPlusTreePage) (key : Nat) (value : RowId) : Int × BPlusTreePage :=
  if p.rows_.any (fun e => decide (e.1 = key)) then (p.size_, p)
  else
    (p.size_ + 1,
      { p with size_ := p.size_ + 1,
               rows_ := p.rows_.takeWhile (fun e => decide (e.1 < key)) ++ (key, value) ::
                        p.rows_.dropWhile (fun e => decide (e.1 < key)) })

/-- Modelled from the spec: `LeafPage::RemoveAndDeleteRecord`, "if absent,
return. Remove the entry"; the result is the size afterwards. -/
def RemoveAndDeleteRecord (p : BPlusTreePage) (key : Nat) : Int × BPlusTreePage :=
  if p.rows_.any (fun e => decide (e.1 = key)) then
    (p.size_ - 1, { p with size_ := p.size_ - 1,
                           rows_ := p.rows_.filter (fun e => decide (e.1 ≠ key)) })
  else (p.size_, p)

/-- Modelled from the spec: `LeafPage::MoveHalfTo`, "split into a right
sibling, link leaves (... `new.next → node.old_next`)"; as in the internal page
the first `(size + 1) / 2` entries stay.  The result is the donor and the
recipient. -/
def MoveHalfTo (p recipient : BPlusTreePage) : BPlusTreePage × BPlusTreePage :=
  ({ p with size_ := ((p.rows_.length + 1) / 2 : Nat),
            rows_ := p.rows_.take ((p.rows_.length + 1) / 2) },
   { recipient with size_ := recipient.size_ + (p.rows_.length - (p.rows_.length + 1) / 2 : Nat),
                    rows_ := recipient.rows_ ++ p.rows_.drop ((p.rows_.length + 1) / 2),
                    next_page_id_ := p.next_page_id_ })

/-- Modelled from the spec: `LeafPage::MoveAllTo`, "merge ..., absorb `next`
link for leaves".  The result is the donor and the recipient. -/
def MoveAllTo (p recipient : BPlusTreePage) : BPlusTreePage × BPlusTreePage :=
  ({ p with size_ := 0, rows_ := [] },
   { recipient with size_ := recipient.size_ + p.size_,
                    rows_ := recipient.rows_ ++ p.rows_,
                    next_page_id_ := p.next_page_id_ })

/-- Modelled from the spec: `LeafPage::MoveFirstToEndOf`, "move neighbor's first
entry to the end of node".  The result is the donor and the recipient. -/
def MoveFirstToEndOf (p recipient : BPlusTreePage) : BPlusTreePage × BPlusTreePage :=
  match p.rows_ with
  | [] => (p, recipient)
  | e :: es =>
    ({ p with size_ := p.size_ - 1, rows_ := es },
     { recipient with size_ := recipient.size_ + 1, rows_ := recipient.rows_ ++ [e] })

/-- Modelled from the spec: `LeafPage::MoveLastToFrontOf`, "move neighbor's last
entry to the front of node".  The result is the donor and the recipient. -/
def MoveLastToFrontOf (p recipient : BPlusTreePage) : BPlusTreePage × BPlusTreePage :=
  match p.rows_.getLast? with
  | none => (p, recipient)
  | some e =>
    ({ p with size_ := p.size_ - 1, rows_ := p.rows_.dropLast },
     { recipient with size_ := recipient.size_ + 1, rows_ := e :: recipient.rows_ })

end LeafPage

namespace IndexRootsPage

/-- Modelled from the spec: `IndexRootsPage::Insert`, "record the new root in
the Index Roots Page". -/
def Insert (roots : List (Nat × page_id_t)) (index_id : Nat) (root_id : page_id_t) :
    List (Nat × page_id_t) :=
  UMap.emplace roots index_id root_id

/-- Modelled from the spec: `IndexRootsPage::Update`, "update the Index Roots
Page". -/
def Update (roots : List (Nat × page_id_t)) (index_id : Nat) (root_id : page_id_t) :
    List (Nat × page_id_t) :=
  roots.map (fun e => if e.1 = index_id then (e.1, root_id) else e)

end IndexRootsPage

/-- The tree object of `BPlusTree` with the buffer pool it works on and the
entries of the Index Roots Page. -/
structure BPlusTree where
  index_id_ : Nat
  root_page_id_ : page_id_t
  leaf_max_size_ : Int
  internal_max_size_ : Int
  key_size_ : Int
  pool_ : Pool
  roots_ : List (Nat × page_id_t)
  deriving DecidableEq, Repr

namespace BPlusTree

/-- The constructor `BPlusTree::BPlusTree` called with explicit maximal sizes;
`key_size` is `KM.GetKeySize()`.  The root id is the one recorded in the Index
Roots Page, `INVALID_PAGE_ID` when there is none. -/
def new (index_id : Nat) (pool : Pool) (roots : List (Nat × page_id_t)) (key_size : Int)
    (leaf_max_size internal_max_size : Int) : BPlusTree :=
  { index_id_ := index_id,
    root_page_id_ := (UMap.find roots index_id).getD INVALID_PAGE_ID,
    leaf_max_size_ := if leaf_max_size ≤ 0 then 1 else leaf_max_size,
    internal_max_size_ := if internal_max_size ≤ 1 then 2 else internal_max_size,
    key_size_ := key_size,
    pool_ := pool,
    roots_ := roots }

/-- `BPlusTree::IsEmpty`. -/
def IsEmpty (t : BPlusTree) : Bool := decide (t.root_page_id_ = INVALID_PAGE_ID)

/-- `BPlusTree::UpdateRootPageId`. -/
def UpdateRootPageId (t : BPlusTree) (insert_record : Int) : BPlusTree :=
  if insert_record ≠ 0 then
    { t with roots_ := IndexRootsPage.Insert t.roots_ t.index_id_ t.root_page_id_ }
  else { t with roots_ := IndexRootsPage.Update t.roots_ t.index_id_ t.root_page_id_ }

/-- The loop of `BPlusTree::FindLeafPage`; the result is the leaf, pinned. -/
def findLeafLoop (key : Nat) (leftMost : Bool) : Nat → Pool → page_id_t → Option (page_id_t × Pool)
  | 0, _, _ => none
  | fuel + 1, b, page_id => do
    let node ← Pool.page b page_id
    if node.IsLeafPage then some (page_id, b)
    else
      let next_page_id ← if leftMost then InternalPage.ValueAt node 0
                         else InternalPage.Lookup node key
      let b1 ← Pool.FetchPage (Pool.UnpinPage b page_id) next_page_id
      findLeafLoop key leftMost fuel b1 next_page_id

/-- `BPlusTree::FindLeafPage` on a tree that is not empty. -/
def FindLeafPage (fuel : Nat) (t : BPlusTree) (key : Nat) (page_id : page_id_t)
    (leftMost : Bool) : Option (page_id_t × Pool) :=
  if t.IsEmpty then none
  else
    let page_id := if page_id = INVALID_PAGE_ID then t.root_page_id_ else page_id
    (Pool.FetchPage t.pool_ page_id).bind (fun b => findLeafLoop key leftMost fuel b page_id)

/-- `BPlusTree::StartNewTree`. -/
def StartNewTree (t : BPlusTree) (key : Nat) (value : RowId) : BPlusTree :=
  let r := Pool.NewPage t.pool_
  let new_page_id := r.1
  let root_leaf := LeafPage.Init BPlusTreePage.zero new_page_id INVALID_PAGE_ID t.key_size_
    t.leaf_max_size_
  let t1 := UpdateRootPageId { t with root_page_id_ := new_page_id } 1
  let b := Pool.write r.2 new_page_id (LeafPage.Insert root_leaf key value).2
  { t1 with pool_ := Pool.UnpinPage b new_page_id }

/-- `BPlusTree::Split` for a leaf: the new page, and the pool. -/
def SplitLeaf (t : BPlusTree) (node : page_id_t) : Option (page_id_t × Pool) := do
  let r := Pool.NewPage t.pool_
  let new_page_id := r.1
  let p ← Pool.page r.2 node
  let new_leaf_page := LeafPage.Init BPlusTreePage.zero new_page_id p.parent_page_id_ t.key_size_
    t.leaf_max_size_
  let m := LeafPage.MoveHalfTo p new_leaf_page
  some (new_page_id, Pool.write (Pool.write r.2 node m.1) new_page_id m.2)

/-- `BPlusTree::Split` for an internal page: the new page, and the pool. -/
def SplitInternal (t : BPlusTree) (node : page_id_t) : Option (page_id_t × Pool) := do
  let r := Pool.NewPage t.pool_
  let new_page_id := r.1
  let p ← Pool.page r.2 node
  let new_internal_page := InternalPage.Init BPlusTreePage.zero new_page_id p.parent_page_id_
    t.key_size_ t.internal_max_size_
  let b ← InternalPage.MoveHalfTo (Pool.write r.2 new_page_id new_internal_page) node new_page_id
  some (new_page_id, b)

/-- `BPlusTree::InsertIntoParent`. -/
def InsertIntoParent : Nat → BPlusTree → page_id_t → Nat → page_id_t → Option BPlusTree
  | 0, _, _, _, _ => none
  | fuel + 1, t, old_node, key, new_node => do
    let old ← Pool.page t.pool_ old_node
    if old.IsRootPage then
      let r := Pool.NewPage t.pool_
      let root := r.1
      let new_nd ← Pool.page r.2 new_node
      let new_page := InternalPage.Init BPlusTreePage.zero root INVALID_PAGE_ID t.key_size_
        t.internal_max_size_
      let new_page1 ← InternalPage.PopulateNewRoot new_page old.page_id_ key new_nd.page_id_
      let t1 := UpdateRootPageId { t with root_page_id_ := root, pool_ := Pool.write r.2 root new_page1 } 0
      let old1 ← Pool.page t1.pool_ old_node
      let b1 := Pool.write t1.pool_ old_node { old1 with parent_page_id_ := root }
      let new1 ← Pool.page b1 new_node
      let b2 := Pool.write b1 new_node { new1 with parent_page_id_ := root }
      some { t1 with pool_ := Pool.UnpinPage b2 root }
    else
      let parent_root_id := old.parent_page_id_
      let b ← Pool.FetchPage t.pool_ parent_root_id
      let parent ← Pool.page b parent_root_id
      let new_nd ← Pool.page b new_node
      let r ← InternalPage.InsertNodeAfter parent old.page_id_ key new_nd.page_id_
      let b1 := Pool.write b parent_root_id r.2
      let t1 ← if r.2.max_size_ < r.1 then do
                 let s ← SplitInternal { t with pool_ := b1 } parent_root_id
                 let sibling ← Pool.page s.2 s.1
                 let up ← InternalPage.KeyAt sibling 0
                 let t2 ← InsertIntoParent fuel { t with pool_ := s.2 } parent_root_id up s.1
                 let sibling1 ← Pool.page t2.pool_ s.1
                 some { t2 with pool_ := Pool.UnpinPage t2.pool_ sibling1.page_id_ }
               else some { t with pool_ := b1 }
      let parent1 ← Pool.page t1.pool_ parent_root_id
      some { t1 with pool_ := Pool.UnpinPage t1.pool_ parent1.page_id_ }

/-- `BPlusTree::InsertIntoLeaf`. -/
def InsertIntoLeaf (fuel : Nat) (t : BPlusTree) (key : Nat) (value : RowId) :
    Option (Bool × BPlusTree) := do
  let f ← FindLeafPage fuel t key t.root_page_id_ false
  let leaf ← Pool.page f.2 f.1
  let leaf_page_id := leaf.page_id_
  let old_key_size := leaf.key_size_
  let r := LeafPage.Insert leaf key value
  let b := Pool.write f.2 f.1 r.2
  if r.1 = old_key_size then some (false, { t with pool_ := Pool.UnpinPage b leaf_page_id })
  else
    let t1 ← if r.2.max_size_ - 1 < r.2.size_ then do
               let s ← SplitLeaf { t with pool_ := b } f.1
               let new_page ← Pool.page s.2 s.1
               let leaf1 ← Pool.page s.2 f.1
               let b1 := Pool.write s.2 f.1 { leaf1 with next_page_id_ := new_page.page_id_ }
               let up ← LeafPage.KeyAt new_page 0
               let t2 ← InsertIntoParent fuel { t with pool_ := b1 } f.1 up s.1
               let new_page1 ← Pool.page t2.pool_ s.1
               some { t2 with pool_ := Pool.UnpinPage t2.pool_ new_page1.page_id_ }
             else some { t with pool_ := b }
    some (true, { t1 with pool_ := Pool.UnpinPage t1.pool_ leaf_page_id })

/-- `BPlusTree::Insert`. -/
def Insert (fuel : Nat) (t : BPlusTree) (key : Nat) (value : RowId) : Option (Bool × BPlusTree) :=
  if t.IsEmpty then some (true, StartNewTree t key value)
  else InsertIntoLeaf fuel t key value

/-- `BPlusTree::AdjustRoot`. -/
def AdjustRoot (t : BPlusTree) (old_root_node : page_id_t) : Option (Bool × BPlusTree) := do
  let old_root ← Pool.page t.pool_ old_root_node
  let old_root_id := old_root.page_id_
  if !old_root.IsLeafPage then
    if old_root.size_ = 1 then
      let r ← InternalPage.RemoveAndReturnOnlyChild old_root
      let t1 := UpdateRootPageId
        { t with root_page_id_ := r.1, pool_ := Pool.write t.pool_ old_root_node r.2 } 0
      let b ← Pool.FetchPage t1.pool_ t1.root_page_id_
      let new_root ← Pool.page b t1.root_page_id_
      let b1 := Pool.write b t1.root_page_id_ { new_root with parent_page_id_ := INVALID_PAGE_ID }
      let b2 := Pool.UnpinPage (Pool.UnpinPage b1 t1.root_page_id_) old_root_id
      some (true, { t1 with pool_ := Pool.DeletePage b2 old_root_id })
    else some (false, t)
  else if old_root.size_ = 0 then
    let t1 := UpdateRootPageId { t with root_page_id_ := INVALID_PAGE_ID } 0
    some (true,
      { t1 with pool_ := Pool.DeletePage (Pool.UnpinPage t1.pool_ t1.root_page_id_) old_root_id })
  else some (false, t)

/-- `BPlusTree::Redistribute` for leaves. -/
def RedistributeLeaf (t : BPlusTree) (neighbor_node node : page_id_t) (index : Int) :
    Option BPlusTree := do
  let nd ← Pool.page t.pool_ node
  let b ← Pool.FetchPage t.pool_ nd.parent_page_id_
  let parent_node := nd.parent_page_id_
  let nb ← Pool.page b neighbor_node
  let nd ← Pool.page b node
  if index ≠ 0 then
    let m := LeafPage.MoveLastToFrontOf nb nd
    let b1 := Pool.write (Pool.write b neighbor_node m.1) node m.2
    let parent ← Pool.page b1 parent_node
    let nd1 ← Pool.page b1 node
    let key ← LeafPage.KeyAt nd1 0
    let parent1 ← InternalPage.SetKeyAt parent (InternalPage.ValueIndex parent nd1.page_id_) key
    some { t with pool_ := Pool.write b1 parent_node parent1 }
  else
    let m := LeafPage.MoveFirstToEndOf nb nd
    let b1 := Pool.write (Pool.write b neighbor_node m.1) node m.2
    let parent ← Pool.page b1 parent_node
    let nb1 ← Pool.page b1 neighbor_node
    let key ← LeafPage.KeyAt nb1 0
    let parent1 ← InternalPage.SetKeyAt parent (InternalPage.ValueIndex parent nb1.page_id_) key
    some { t with pool_ := Pool.write b1 parent_node parent1 }

/-- `BPlusTree::Redistribute` for internal pages.  `new_key` points into the
neighbour and is read when the parent's key is set, after the move. -/
def RedistributeInternal (t : BPlusTree) (neighbor_node node : page_id_t) (index : Int) :
    Option BPlusTree := do
  let nd ← Pool.page t.pool_ node
  let b ← Pool.FetchPage t.pool_ nd.parent_page_id_
  let parent_node := nd.parent_page_id_
  let nb ← Pool.page b neighbor_node
  let parent ← Pool.page b parent_node
  if index ≠ 0 then
    let new_key_slot := nb.size_ - 1
    let b1 ← InternalPage.MoveLastToFrontOf b neighbor_node node parent_node
      (InternalPage.ValueIndex parent nb.page_id_)
    let nb1 ← Pool.page b1 neighbor_node
    let new_key ← InternalPage.KeyAt nb1 new_key_slot
    let parent1 ← Pool.page b1 parent_node
    let parent2 ← InternalPage.SetKeyAt parent1 (InternalPage.ValueIndex parent1 nb1.page_id_) new_key
    let b2 := Pool.write b1 parent_node parent2
    some { t with pool_ := Pool.UnpinPage b2 parent2.page_id_ }
  else
    let middle_key ← InternalPage.KeyAt parent (InternalPage.ValueIndex parent nb.page_id_)
    let b1 ← InternalPage.MoveFirstToEndOf b neighbor_node node middle_key
    let nb1 ← Pool.page b1 neighbor_node
    let new_key ← InternalPage.KeyAt nb1 1
    let parent1 ← Pool.page b1 parent_node
    let parent2 ← InternalPage.SetKeyAt parent1 (InternalPage.ValueIndex parent1 nb1.page_id_) new_key
    let b2 := Pool.write b1 parent_node parent2
    some { t with pool_ := Pool.UnpinPage b2 parent2.page_id_ }

/-- `BPlusTree::Coalesce` for leaves; `cor` is the call of
`CoalesceOrRedistribute<InternalPage>`. -/
def CoalesceLeaf (cor : BPlusTree → page_id_t → Option (Bool × BPlusTree)) (t : BPlusTree)
    (neighbor_node node parent : page_id_t) (index : Int) : Option (Bool × BPlusTree) := do
  let nb ← Pool.page t.pool_ neighbor_node
  let nd ← Pool.page t.pool_ node
  let b1 ←
    if index ≠ 0 then do
      let m := LeafPage.MoveAllTo nd nb
      let b0 := Pool.write (Pool.write t.pool_ node m.1) neighbor_node m.2
      let nd1 ← Pool.page b0 node
      let nb1 ← Pool.page b0 neighbor_node
      let b1 := Pool.write b0 neighbor_node { nb1 with next_page_id_ := nd1.next_page_id_ }
      let p ← Pool.page b1 parent
      let p1 ← InternalPage.Remove p index
      some (Pool.write b1 parent p1)
    else do
      let m := LeafPage.MoveAllTo nb nd
      let b0 := Pool.write (Pool.write t.pool_ neighbor_node m.1) node m.2
      let nd1 ← Pool.page b0 node
      let nb1 ← Pool.page b0 neighbor_node
      let b1 := Pool.write b0 node { nd1 with next_page_id_ := nb1.next_page_id_ }
      let p ← Pool.page b1 parent
      let p1 ← InternalPage.Remove p 1
      some (Pool.write b1 parent p1)
  let p ← Pool.page b1 parent
  if p.GetMinSize ≤ p.size_ then
    let nd2 ← Pool.page b1 node
    some (false, { t with pool_ := Pool.DeletePage b1 nd2.page_id_ })
  else cor { t with pool_ := b1 } parent

/-- `BPlusTree::Coalesce` for internal pages; `cor` is the call of
`CoalesceOrRedistribute<InternalPage>`. -/
def CoalesceInternal (cor : BPlusTree → page_id_t → Option (Bool × BPlusTree)) (t : BPlusTree)
    (neighbor_node node parent : page_id_t) (index : Int) : Option (Bool × BPlusTree) := do
  let p ← Pool.page t.pool_ parent
  let middle_key ← InternalPage.KeyAt p index
  let b ← InternalPage.MoveAllTo t.pool_ node neighbor_node middle_key
  let p1 ← Pool.page b parent
  let p2 ← InternalPage.Remove p1 index
  let b1 := Pool.write b parent p2
  if p2.GetMinSize ≤ p2.size_ then some (false, { t with pool_ := b1 })
  else cor { t with pool_ := b1 } parent

/-- `BPlusTree::CoalesceOrRedistribute<N>`; `leaf` tells whether `N` is the
leaf page type. -/
def CoalesceOrRedistribute : Nat → Bool → BPlusTree → page_id_t → Option (Bool × BPlusTree)
  | 0, _, _, _ => none
  | fuel + 1, leaf, t, node => do
    let nd ← Pool.page t.pool_ node
    if nd.IsLeafPage ≠ leaf then none
    else if nd.GetMinSize ≤ nd.size_ then some (false, t)
    else if nd.IsRootPage then AdjustRoot t node
    else
      let parent_page_id := nd.parent_page_id_
      let b ← Pool.FetchPage t.pool_ parent_page_id
      let parent_node ← Pool.page b parent_page_id
      if parent_node.IsLeafPage then none
      else
        let index := InternalPage.ValueIndex parent_node nd.page_id_
        let neighbor_id ← if index = 0 then InternalPage.ValueAt parent_node 1
                          else InternalPage.ValueAt parent_node (index - 1)
        let b1 ← Pool.FetchPage b neighbor_id
        let neighbor ← Pool.page b1 neighbor_id
        if neighbor.IsLeafPage ≠ leaf then none
        else
          let r ←
            if neighbor.size_ + nd.size_ ≤ neighbor.max_size_ then do
              let c ← if leaf then
                        CoalesceLeaf (CoalesceOrRedistribute fuel false) { t with pool_ := b1 }
                          neighbor_id node parent_page_id index
                      else
                        CoalesceInternal (CoalesceOrRedistribute fuel false) { t with pool_ := b1 }
                          neighbor_id node parent_page_id index
              let nd1 ← Pool.page c.2.pool_ node
              some (c.1, { c.2 with pool_ := Pool.DeletePage c.2.pool_ nd1.page_id_ })
            else
              (if leaf then RedistributeLeaf { t with pool_ := b1 } neighbor_id node index
               else RedistributeInternal { t with pool_ := b1 } neighbor_id node index).map
                (fun t1 => (false, t1))
          let b2 := Pool.UnpinPage r.2.pool_ neighbor_id
          let parent1 ← Pool.page b2 parent_page_id
          let t2 := { r.2 with pool_ := Pool.UnpinPage b2 parent1.page_id_ }
          if r.1 then CoalesceOrRedistribute fuel false t2 parent_page_id
          else some (false, t2)

/-- The loop in `BPlusTree::Remove` that climbs while the page is the first
child of a parent that is not the root; the result is the parent reached, the
page id looked for in it, and the pool. -/
def climbLoop : Nat → Pool → page_id_t → page_id_t → Option (page_id_t × page_id_t × Pool)
  | 0, _, _, _ => none
  | fuel + 1, b, parent_page, page_id => do
    let parent ← Pool.page b parent_page
    if !parent.IsRootPage ∧ InternalPage.ValueIndex parent page_id = 0 then
      let b1 := Pool.UnpinPage b parent.page_id_
      let b2 ← Pool.FetchPage b1 parent.parent_page_id_
      climbLoop fuel b2 parent.parent_page_id_ parent.page_id_
    else some (parent_page, page_id, b)

/-- `BPlusTree::Remove`. -/
def Remove (fuel : Nat) (t : BPlusTree) (key : Nat) : Option BPlusTree :=
  if t.IsEmpty then some t
  else do
    let f ← FindLeafPage fuel t key t.root_page_id_ false
    let leaf ← Pool.page f.2 f.1
    let index := LeafPage.KeyIndex leaf key
    let r := LeafPage.RemoveAndDeleteRecord leaf key
    let b := Pool.write f.2 f.1 r.2
    let c ←
      if r.1 < r.2.max_size_ then CoalesceOrRedistribute fuel true { t with pool_ := b } f.1
      else if index = 0 then do
        let new_key ← LeafPage.KeyAt r.2 0
        let b1 ← Pool.FetchPage b r.2.parent_page_id_
        let u ← climbLoop fuel b1 r.2.parent_page_id_ r.2.page_id_
        let parent ← Pool.page u.2.2 u.1
        let tmp := InternalPage.ValueIndex parent u.2.1
        if tmp ≠ 0 then do
          let k ← InternalPage.KeyAt parent tmp
          if k ≠ new_key then do
            let parent1 ← InternalPage.SetKeyAt parent tmp new_key
            some (false,
              { t with pool_ := Pool.UnpinPage (Pool.write u.2.2 u.1 parent1) parent1.page_id_ })
          else some (false, { t with pool_ := u.2.2 })
        else some (false, { t with pool_ := u.2.2 })
      else some (false, { t with pool_ := b })
    let leaf1 ← Pool.page c.2.pool_ f.1
    let b3 := Pool.UnpinPage c.2.pool_ leaf1.page_id_
    let leaf2 ← Pool.page b3 f.1
    some { c.2 with pool_ := if c.1 then Pool.DeletePage b3 leaf2.page_id_ else b3 }

/-- The loop `for (it = Begin(); it != End(); ++it)` over the iterator of
`index_iterator.cpp`, collecting the keys `(*it).first`.  The iterator stands at
slot `item_index` of the leaf `current_page_id`; the end iterator stands at
`(INVALID_PAGE_ID, 0)`. -/
def iterate : Nat → Pool → page_id_t → Int → List Nat → Option (List Nat)
  | 0, _, _, _, _ => none
  | fuel + 1, b, current_page_id, item_index, acc =>
    if current_page_id = INVALID_PAGE_ID ∧ item_index = 0 then some acc
    else do
      let page ← Pool.page b current_page_id
      let key ← LeafPage.KeyAt page item_index
      if item_index + 1 < page.size_ then
        iterate fuel b current_page_id (item_index + 1) (acc ++ [key])
      else
        let next := page.next_page_id_
        if next ≠ INVALID_PAGE_ID then
          (Pool.FetchPage (Pool.UnpinPage b page.page_id_) next).bind
            (fun b1 => iterate fuel b1 next 0 (acc ++ [key]))
        else iterate fuel b next 0 (acc ++ [key])

/-- The keys met on the walk from `Begin()` to `End()`: from the leftmost leaf
along the next pointers. -/
def leafWalk (fuel : Nat) (t : BPlusTree) : Option (List Nat) :=
  if t.IsEmpty then some []
  else do
    let f ← FindLeafPage fuel t 0 INVALID_PAGE_ID true
    let b ← Pool.FetchPage (Pool.UnpinPage f.2 f.1) f.1
    iterate fuel b f.1 0 []

/-- A call of the index: `Insert(key, value)` or `Remove(key)`. -/
inductive Call
  | insert (key : Nat) (value : RowId)
  | remove (key : Nat)
  deriving DecidableEq, Repr

/-- A sequence of calls, each with the given fuel for its loops. -/
def run (fuel : Nat) : BPlusTree → List Call → Option BPlusTree
  | t, [] => some t
  | t, .insert key value :: cs => (Insert fuel t key value).bind (fun r => run fuel r.2 cs)
  | t, .remove key :: cs => (Remove fuel t key).bind (fun t1 => run fuel t1 cs)

/-- The keys the index should hold after a sequence of calls, in increasing
order: those inserted and not removed afterwards. -/
def storedKeys (cs : List Call) : List Nat :=
  cs.foldl
    (fun s c =>
      match c with
      | .insert key _ => if key ∈ s then s else s.orderedInsert (fun a b => a ≤ b) key
      | .remove key => s.filter (fun k => decide (k ≠ key)))
    []

end BPlusTree

namespace BPlusTree

/-- An empty index with `leaf_max_size = 4`, `internal_max_size = 4` and keys
of 8 bytes; the pages 0 and 1 of the database are in use by other components,
the Index Roots Page has no entry. -/
def fresh : BPlusTree :=
  BPlusTree.new 0 [(0, (BPlusTreePage.zero, 0)), (1, (BPlusTreePage.zero, 0))] [] 8 4 4

/-- Twelve insertions that build a tree of height three: the root has two
internal children, the left one with the leaves `[10, 20]`, `[30, 40]`,
`[50, 60]`, `[70, 80]`, the right one with the leaves `[90, 100]`,
`[110, 120]`. -/
def spacedInserts : List Call :=
  [.insert 10 ⟨0, 10⟩, .insert 20 ⟨0, 20⟩, .insert 30 ⟨0, 30⟩, .insert 40 ⟨0, 40⟩,
   .insert 50 ⟨0, 50⟩, .insert 60 ⟨0, 60⟩, .insert 90 ⟨0, 90⟩, .insert 100 ⟨0, 100⟩,
   .insert 110 ⟨0, 110⟩, .insert 120 ⟨0, 120⟩, .insert 70 ⟨0, 70⟩, .insert 80 ⟨0, 80⟩]

end BPlusTree

namespace BitmapPage

/-- The hint `next_free_page_` stands at the smallest free offset of the page:
every offset below it is allocated, and it is free itself unless it equals
`GetMaxSupportedSize()`, which it does not exceed. -/
def SmallestFree {PageSize : Nat} (b : BitmapPage PageSize) : Prop :=
  b.next_free_page_ ≤ GetMaxSupportedSize PageSize ∧
  (∀ q, q < b.next_free_page_ → bit b q = true) ∧
  (b.next_free_page_ < GetMaxSupportedSize PageSize → bit b b.next_free_page_ = false)

end BitmapPage

namespace RecoveryManager

/-- The effect on `data_` of the loop of `UndoSpecificTransaction` at lsn `x`:
the undo of the record stored under `x`. -/
def undoAt (log_recs : List (lsn_t × LogRec)) (data : List (KeyType × ValType)) (x : lsn_t) :
    List (KeyType × ValType) :=
  match UMap.find log_recs x with
  | some r => undoData r data
  | none => data

/-- The walk `v` from `current_lsn` along `prev_lsn_`: it is empty when
`current_lsn` is `INVALID_LSN` or has no record in the log; otherwise it starts
with `current_lsn`, ends there if the record is a `kBegin`, and else goes on
from the record's `prev_lsn_`. -/
def Walk (log_recs : List (lsn_t × LogRec)) : lsn_t → List lsn_t → Prop
  | current_lsn, [] => current_lsn = INVALID_LSN ∨ UMap.find log_recs current_lsn = none
  | current_lsn, x :: xs =>
    current_lsn ≠ INVALID_LSN ∧ x = current_lsn ∧
    ∃ r, UMap.find log_recs current_lsn = some r ∧
      ((r.type_ = .kBegin ∧ xs = []) ∨ (r.type_ ≠ .kBegin ∧ Walk log_recs r.prev_lsn_ xs))

end RecoveryManager

namespace DiskManager

/-- The bitmap page of extent `extent_id` as the file holds it: the bytes of
physical page `1 + extent_id * (1 + BITMAP_SIZE)`, seen as a `BitmapPage`. -/
def bitmapOnDisk (cfg : Config) (s : DiskManager) (extent_id : Nat) : BitmapPage cfg.PAGE_SIZE :=
  toBitmap cfg ((List.range cfg.PAGE_SIZE).map
    (fun i => s.db_io_.data ((1 + extent_id * (1 + cfg.BITMAP_SIZE)) * cfg.PAGE_SIZE + i)))

end DiskManager

namespace InternalPage

/-- The scan of the spec for "the rightmost entry whose key ≤ target": from
slot `i` down to slot 1, the first slot whose key is at most `key`; 0 when there
is none. -/
def scanRight (p : BPlusTreePage) (key : Nat) : Nat → Nat
  | 0 => 0
  | i + 1 => if (p.pairs_.getD (i + 1) (0, 0)).1 ≤ key then i + 1 else scanRight p key i

/-- The lookup as the spec words it: the child of the rightmost entry among the
slots 1 .. size - 1 whose key is at most `key`, the child of slot 0 if there is
none. -/
def LookupLinear (p : BPlusTreePage) (key : Nat) : Option page_id_t :=
  ValueAt p (scanRight p key (p.size_.toNat - 1))

end InternalPage

namespace InternalPage

/-- The pair in slot `i` of the slot array, zero for a slot never written. -/
def slot (p : BPlusTreePage) (i : Nat) : Nat × page_id_t := p.pairs_.getD i (0, 0)

/-- The entries of an internal page: the pairs in the slots `0 .. size_ - 1`. -/
def entries (p : BPlusTreePage) : List (Nat × page_id_t) :=
  (List.range p.size_.toNat).map (slot p)

end InternalPage

namespace BPlusTreePage

/-- Modelled from the spec: `BPlusTreePage::SetParentPageId`. -/
def SetParentPageId (p : BPlusTreePage) (parent_id : page_id_t) : BPlusTreePage :=
  { p with parent_page_id_ := parent_id }

end BPlusTreePage

namespace Pool

/-- The page `x` of the pool `b` once the children `kids` have been given the
parent id `parent_id`, every other page being as it is in `b`. -/
def adopted (b : Pool) (kids : List page_id_t) (parent_id : page_id_t) (x : page_id_t) :
    Option BPlusTreePage :=
  (page b x).map (fun c => if x ∈ kids then c.SetParentPageId parent_id else c)

end Pool

namespace InternalPage

/-- A pool for a split: the internal page 2 with the entries `(0, 10)`,
`(5, 11)`, `(7, 12)`, `(9, 13)`, `(11, 14)`, the empty internal page 3, and the
leaves 10 .. 14, the children of page 2. -/
def splitPool : Pool :=
  [(2, (⟨.INTERNAL_PAGE, 5, 4, 8, 1, 2, 0, [(0, 10), (5, 11), (7, 12), (9, 13), (11, 14)], []⟩, 1)),
   (3, (⟨.INTERNAL_PAGE, 0, 4, 8, 1, 3, 0, [], []⟩, 1)),
   (10, (⟨.LEAF_PAGE, 0, 4, 8, 2, 10, 11, [], []⟩, 0)),
   (11, (⟨.LEAF_PAGE, 0, 4, 8, 2, 11, 12, [], []⟩, 0)),
   (12, (⟨.LEAF_PAGE, 0, 4, 8, 2, 12, 13, [], []⟩, 0)),
   (13, (⟨.LEAF_PAGE, 0, 4, 8, 2, 13, 14, [], []⟩, 0)),
   (14, (⟨.LEAF_PAGE, 0, 4, 8, 2, 14, -1, [], []⟩, 0))]

end InternalPage

namespace InternalPage

/-- A pool for a redistribution between internal pages: the root 1 with the
children 2 and 3 and the separator 50, page 2 with the entries `(0, 10)`,
`(10, 11)`, `(20, 12)`, `(30, 13)`, page 3 with the one entry `(0, 14)`, and the
leaves 10 .. 14. -/
def movePool : Pool :=
  [(1, (⟨.INTERNAL_PAGE, 2, 4, 8, -1, 1, 0, [(0, 2), (50, 3)], []⟩, 1)),
   (2, (⟨.INTERNAL_PAGE, 4, 4, 8, 1, 2, 0, [(0, 10), (10, 11), (20, 12), (30, 13)], []⟩, 1)),
   (3, (⟨.INTERNAL_PAGE, 1, 4, 8, 1, 3, 0, [(0, 14)], []⟩, 1)),
   (10, (⟨.LEAF_PAGE, 0, 4, 8, 2, 10, 11, [], []⟩, 0)),
   (11, (⟨.LEAF_PAGE, 0, 4, 8, 2, 11, 12, [], []⟩, 0)),
   (12, (⟨.LEAF_PAGE, 0, 4, 8, 2, 12, 13, [], []⟩, 0)),
   (13, (⟨.LEAF_PAGE, 0, 4, 8, 2, 13, 14, [], []⟩, 0)),
   (14, (⟨.LEAF_PAGE, 0, 4, 8, 3, 14, -1, [], []⟩, 0))]

end InternalPage

namespace BPlusTree

/-- A pool for a merge of internal pages of maximal size 6: the root 1 with the
children 2, 3, 4, 5 and the separators 50, 90, 120, its first child 2 with the
two entries `(0, 10)`, `(20, 11)`, one below the minimum, the second child 3
with the entries `(0, 12)`, `(70, 13)`, `(80, 14)`, and the leaves 10 .. 14. -/
def mergePool : Pool :=
  [(1, (⟨.INTERNAL_PAGE, 4, 6, 8, -1, 1, 0, [(0, 2), (50, 3), (90, 4), (120, 5)], []⟩, 0)),
   (2, (⟨.INTERNAL_PAGE, 2, 6, 8, 1, 2, 0, [(0, 10), (20, 11)], []⟩, 1)),
   (3, (⟨.INTERNAL_PAGE, 3, 6, 8, 1, 3, 0, [(0, 12), (70, 13), (80, 14)], []⟩, 0)),
   (10, (⟨.LEAF_PAGE, 0, 6, 8, 2, 10, 11, [], []⟩, 0)),
   (11, (⟨.LEAF_PAGE, 0, 6, 8, 2, 11, 12, [], []⟩, 0)),
   (12, (⟨.LEAF_PAGE, 0, 6, 8, 3, 12, 13, [], []⟩, 0)),
   (13, (⟨.LEAF_PAGE, 0, 6, 8, 3, 13, 14, [], []⟩, 0)),
   (14, (⟨.LEAF_PAGE, 0, 6, 8, 3, 14, -1, [], []⟩, 0))]

/-- The tree object over `mergePool`. -/
def mergeTree : BPlusTree :=
  ⟨0, 1, 6, 6, 8, mergePool, [(0, 1)]⟩

end BPlusTree

namespace BPlusTree

/-- The tree that the insertions of 10, 20, 30, 40, 50 build from `fresh`: the
leaves 2 with `[10, 20]` and 3 with `[30, 40, 50]` under the root 4 with the
separator 30. -/
def fiveKeys : BPlusTree :=
  { index_id_ := 0, root_page_id_ := 4, leaf_max_size_ := 4, internal_max_size_ := 4,
    key_size_ := 8,
    pool_ :=
      [(0, (BPlusTreePage.zero, 0)), (1, (BPlusTreePage.zero, 0)),
       (2, (⟨.LEAF_PAGE, 2, 4, 8, 4, 2, 3, [], [(10, ⟨0, 10⟩), (20, ⟨0, 20⟩)]⟩, 0)),
       (3, (⟨.LEAF_PAGE, 3, 4, 8, 4, 3, -1, [], [(30, ⟨0, 30⟩), (40, ⟨0, 40⟩), (50, ⟨0, 50⟩)]⟩, 0)),
       (4, (⟨.INTERNAL_PAGE, 2, 4, 8, -1, 4, 0, [(0, 2), (30, 3)], []⟩, 0))],
    roots_ := [(0, 4)] }

end BPlusTree

namespace BufferPoolManager

/-- The calls of the eviction scenario on a pool of one frame over the disk
`d`: `NewPage`, which returns a page id `p`, the holder writes the bytes `b`
into the frame, `UnpinPage(p, true)`, `FetchPage(q)`, `UnpinPage(q, false)`
and at last `FetchPage(p)`.  The result is `p`, the frame that the last call
returns, and the final state. -/
def evictionRun (cfg : Config) (d : DiskManager) (b : List Nat) (q : page_id_t) :
    page_id_t × Option frame_id_t × BufferPoolManager :=
  let n := NewPage cfg (BufferPoolManager.new cfg 1 d)
  let s2 :=
    match n.2.1 with
    | some f => writeData cfg n.2.2 f b
    | none => n.2.2
  let s3 := (UnpinPage cfg s2 n.1 true).2
  let s4 := (FetchPage cfg s3 q).2
  let s5 := (UnpinPage cfg s4 q false).2
  let r := FetchPage cfg s5 n.1
  (n.1, r.1, r.2)

end BufferPoolManager

/-! ### Page contents on disk, well-formed catalog metadata, and pages kept by the pool -/

namespace DiskManager

/-- The content of the logical page `logical_page_id` in the database file:
the `PAGE_SIZE` bytes at the byte offset `MapPageId(logical_page_id) *
PAGE_SIZE`, where `WritePage` puts the page. -/
def pageOnDisk (cfg : Config) (s : DiskManager) (logical_page_id : page_id_t) : List Nat :=
  (List.range cfg.PAGE_SIZE).map
    (fun i => s.db_io_.data ((MapPageId cfg logical_page_id).toNat * cfg.PAGE_SIZE + i))

end DiskManager

namespace CatalogManager

/-- A catalog for concrete runs: 510 tables and no index over the buffer pool
of `emptyCatalog`; table `i` has the id `i`, the name `[116, i]`, the meta page
`i + 2` and one `int` column `a`.  The serialised catalog metadata take
`12 + 8 * 510 = 4092` of the 4096 bytes of the catalog meta page. -/
def fullCatalog : CatalogManager :=
  { emptyCatalog with
    catalog_meta_ := ⟨(List.range 510).map (fun i : Nat => (i, (i : Int) + 2)), []⟩,
    next_table_id_ := 510,
    table_names_ := (List.range 510).map (fun i : Nat => ([116, i], i)),
    tables_ := (List.range 510).map (fun i : Nat =>
      (i, ⟨⟨i, [116, i], (i : Int) + 2, ⟨[⟨[97], .kTypeInt, 4, 0, false, false⟩], true⟩⟩,
        ⟨INVALID_PAGE_ID⟩⟩)) }

end CatalogManager

namespace CatalogMeta

/-- A map of meta pages as the `std::map` over 32-bit ids holds it: the keys
ascend strictly, every key is a `uint32_t` and every page id an `int`. -/
def WellFormed (m : List (Nat × page_id_t)) : Prop :=
  m.Pairwise (fun a b => a.1 < b.1) ∧
  ∀ e ∈ m, e.1 < 2 ^ 32 ∧ -(2 ^ 31) ≤ e.2 ∧ e.2 < 2 ^ 31

end CatalogMeta

namespace CatalogManager

/-- The catalog metadata are two well-formed maps whose entries, with the three
header words, take no more than a page, and the two id counters are
`uint32_t` values. -/
def MetaFits (cfg : Config) (s : CatalogManager) : Prop :=
  CatalogMeta.WellFormed s.catalog_meta_.table_meta_pages_ ∧
  CatalogMeta.WellFormed s.catalog_meta_.index_meta_pages_ ∧
  12 + 8 * (s.catalog_meta_.table_meta_pages_.length
    + s.catalog_meta_.index_meta_pages_.length) ≤ cfg.PAGE_SIZE ∧
  s.next_table_id_ < 2 ^ 32 ∧ s.next_index_id_ < 2 ^ 32

/-- The catalog meta page is resident and `CatalogMeta::DeserializeFrom` reads
`catalog_meta_` from its bytes. -/
def MetaReadable (cfg : Config) (x : Collab) (s : CatalogManager) : Prop :=
  ∃ f : Int,
    UMap.find s.buffer_pool_manager_.page_table_ x.CATALOG_META_PAGE_ID = some f ∧
    CatalogMeta.DeserializeFrom x (BufferPoolManager.page cfg s.buffer_pool_manager_ f).data_
      = some s.catalog_meta_

end CatalogManager

namespace BufferPoolManager

end BufferPoolManager

namespace TableHeap

end TableHeap
/-! ## Part II. Theorems -/

/-! ### Unordered maps -/

namespace UMap

theorem find_erase_self {K V : Type} [DecidableEq K] (m : List (K × V)) (k : K) :
    find (erase m k) k = none := by
  induction m with
  | nil => rfl
  | cons e t ih =>
    obtain ⟨k', v⟩ := e
    by_cases h : k' = k
    · simpa [erase, List.filter_cons, h] using ih
    · simpa [erase, List.filter_cons, h, find] using ih

theorem find_erase_ne {K V : Type} [DecidableEq K] (m : List (K × V)) {k k' : K} (hne : k' ≠ k) :
    find (erase m k) k' = find m k' := by
  induction m with
  | nil => rfl
  | cons e t ih =>
    obtain ⟨k₁, v⟩ := e
    by_cases h : k₁ = k
    · subst h
      have h' : k₁ ≠ k' := fun h₂ => hne h₂.symm
      simpa [erase, List.filter_cons, find, h'] using ih
    · by_cases h₂ : k₁ = k'
      · subst h₂
        simp [erase, List.filter_cons, h, find]
      · simpa [erase, List.filter_cons, h, find, h₂] using ih

theorem find_insert_self {K V : Type} [DecidableEq K] (m : List (K × V)) (k : K) (v : V) :
    find (insert m k v) k = some v := by
  simp [insert, find]

theorem find_insert_ne {K V : Type} [DecidableEq K] (m : List (K × V)) {k k' : K} (v : V)
    (hne : k' ≠ k) : find (insert m k v) k' = find m k' := by
  have h : k ≠ k' := fun h => hne h.symm
  simp [insert, find, h, find_erase_ne m hne]

theorem find_eq_none_iff {K V : Type} [DecidableEq K] (m : List (K × V)) (k : K) :
    find m k = none ↔ k ∉ keys m := by
  induction m with
  | nil => simp [find, keys]
  | cons e t ih =>
    obtain ⟨k', v⟩ := e
    by_cases h : k' = k
    · simp [find, keys, h]
    · have h' : k ≠ k' := fun h₂ => h h₂.symm
      simpa [find, keys, h, h'] using ih

theorem find_isSome_iff {K V : Type} [DecidableEq K] (m : List (K × V)) (k : K) :
    (find m k).isSome = true ↔ k ∈ keys m := by
  rw [← not_iff_not, ← find_eq_none_iff]
  cases find m k <;> simp

theorem count_ne_zero_iff {K V : Type} [DecidableEq K] (m : List (K × V)) (k : K) :
    count m k ≠ 0 ↔ k ∈ keys m := by
  rw [← find_isSome_iff]
  unfold count
  split <;> simp_all

theorem count_eq_zero_iff {K V : Type} [DecidableEq K] (m : List (K × V)) (k : K) :
    count m k = 0 ↔ k ∉ keys m := by
  rw [← count_ne_zero_iff]; simp

theorem keys_erase {K V : Type} [DecidableEq K] (m : List (K × V)) (k : K) :
    keys (erase m k) = (keys m).filter (fun x => decide (x ≠ k)) := by
  induction m with
  | nil => rfl
  | cons e t ih =>
    obtain ⟨k', v⟩ := e
    by_cases h : k' = k
    · simpa [erase, keys, List.filter_cons, h] using ih
    · simpa [erase, keys, List.filter_cons, h] using ih

theorem mem_keys_erase {K V : Type} [DecidableEq K] (m : List (K × V)) (k x : K) :
    x ∈ keys (erase m k) ↔ x ∈ keys m ∧ x ≠ k := by
  simp [keys_erase]

theorem keys_erase_nodup {K V : Type} [DecidableEq K] (m : List (K × V)) (k : K)
    (h : (keys m).Nodup) : (keys (erase m k)).Nodup := by
  rw [keys_erase]; exact h.filter _

theorem keys_insert {K V : Type} [DecidableEq K] (m : List (K × V)) (k : K) (v : V) :
    keys (insert m k v) = k :: keys (erase m k) := rfl

theorem mem_keys_insert {K V : Type} [DecidableEq K] (m : List (K × V)) (k x : K) (v : V) :
    x ∈ keys (insert m k v) ↔ x = k ∨ x ∈ keys m := by
  rw [keys_insert, List.mem_cons, mem_keys_erase]
  by_cases h : x = k <;> simp [h]

theorem keys_insert_nodup {K V : Type} [DecidableEq K] (m : List (K × V)) (k : K) (v : V)
    (h : (keys m).Nodup) : (keys (insert m k v)).Nodup := by
  rw [keys_insert, List.nodup_cons]
  exact ⟨fun hm => ((mem_keys_erase m k k).1 hm).2 rfl, keys_erase_nodup m k h⟩

theorem erase_of_not_mem {K V : Type} [DecidableEq K] (m : List (K × V)) (k : K)
    (h : k ∉ keys m) : erase m k = m := by
  unfold erase
  rw [List.filter_eq_self]
  intro e he
  have : e.1 ∈ keys m := List.mem_map_of_mem _ he
  simp only [decide_eq_true_eq]
  intro h'
  exact h (h' ▸ this)

theorem find_of_mem {K V : Type} [DecidableEq K] (m : List (K × V)) (k : K) (v : V)
    (hn : (keys m).Nodup) (h : (k, v) ∈ m) : find m k = some v := by
  induction m with
  | nil => cases h
  | cons e t ih =>
    obtain ⟨k', v'⟩ := e
    simp only [keys, List.map_cons, List.nodup_cons] at hn
    rcases List.mem_cons.1 h with h | h
    · cases h; simp [find]
    · have : k ∈ keys t := List.mem_map_of_mem Prod.fst h
      have hne : k' ≠ k := fun h₂ => hn.1 (h₂ ▸ this)
      simpa [find, hne] using ih hn.2 h

theorem mem_of_find {K V : Type} [DecidableEq K] (m : List (K × V)) (k : K) (v : V)
    (h : find m k = some v) : (k, v) ∈ m := by
  induction m with
  | nil => cases h
  | cons e t ih =>
    obtain ⟨k', v'⟩ := e
    by_cases h₂ : k' = k
    · simp [find, h₂] at h; simp [h, h₂]
    · simp [find, h₂] at h; exact List.mem_cons_of_mem _ (ih h)

end UMap

/-! ### `LRUReplacer` -/

namespace LRUReplacer

theorem lt_freshNode (l : List (Nat × frame_id_t)) (n : Nat) (h : n ∈ l.map Prod.fst) :
    n < freshNode l := by
  unfold freshNode
  induction l with
  | nil => cases h
  | cons e t ih =>
    simp only [List.map_cons, List.foldr_cons, List.mem_cons] at h ⊢
    rcases h with h | h
    · subst h; omega
    · have := ih h; omega

theorem Inv.mem_frames_iff {s : LRUReplacer} (h : Inv s) (f : frame_id_t) :
    f ∈ frames s ↔ f ∈ UMap.keys s.lru_map_ := by
  rw [← UMap.find_isSome_iff]
  constructor
  · intro hf
    obtain ⟨⟨n, f'⟩, hmem, rfl⟩ := List.mem_map.1 hf
    rw [(h.map_iff f' n).2 hmem]; rfl
  · intro hf
    obtain ⟨n, hn⟩ := Option.isSome_iff_exists.1 hf
    exact List.mem_map.2 ⟨(n, f), (h.map_iff f n).1 hn, rfl⟩

theorem Inv_new (n : Nat) : Inv (new n) :=
  ⟨List.nodup_nil, List.nodup_nil, List.nodup_nil, fun f n => by simp [new, UMap.find]⟩

theorem Unpin_of_mem {s : LRUReplacer} (h : Inv s) {f : frame_id_t} (hf : f ∈ frames s) :
    Unpin s f = s := by
  have : UMap.count s.lru_map_ f ≠ 0 :=
    (UMap.count_ne_zero_iff _ _).2 ((h.mem_frames_iff f).1 hf)
  simp [Unpin, this]

theorem Unpin_of_not_mem {s : LRUReplacer} (h : Inv s) {f : frame_id_t} (hf : f ∉ frames s) :
    Unpin s f = { lru_list_ := (freshNode s.lru_list_, f) :: s.lru_list_,
                  lru_map_ := UMap.insert s.lru_map_ f (freshNode s.lru_list_) } := by
  have : UMap.count s.lru_map_ f = 0 :=
    (UMap.count_eq_zero_iff _ _).2 (fun hk => hf ((h.mem_frames_iff f).2 hk))
  simp [Unpin, this]

theorem Inv_Unpin {s : LRUReplacer} (h : Inv s) (f : frame_id_t) : Inv (Unpin s f) := by
  by_cases hf : f ∈ frames s
  · rw [Unpin_of_mem h hf]; exact h
  · rw [Unpin_of_not_mem h hf]
    refine ⟨?_, ?_, UMap.keys_insert_nodup _ _ _ h.keys_nodup, ?_⟩
    · simp only [List.map_cons, List.nodup_cons]
      exact ⟨fun hm => Nat.lt_irrefl _ (lt_freshNode _ _ hm), h.nodes_nodup⟩
    · simp only [frames, List.map_cons, List.nodup_cons]
      exact ⟨hf, h.frames_nodup⟩
    · intro f' n
      by_cases hff : f' = f
      · subst hff
        rw [UMap.find_insert_self]
        constructor
        · intro hn; cases hn; exact List.mem_cons_self _ _
        · intro hm
          rcases List.mem_cons.1 hm with hm | hm
          · cases hm; rfl
          · exact absurd (List.mem_map.2 ⟨(n, f'), hm, rfl⟩) hf
      · rw [UMap.find_insert_ne _ _ hff, h.map_iff]
        simp [hff]

theorem Pin_of_not_mem {s : LRUReplacer} (h : Inv s) {f : frame_id_t} (hf : f ∉ frames s) :
    Pin s f = s := by
  have : UMap.find s.lru_map_ f = none :=
    (UMap.find_eq_none_iff _ _).2 (fun hk => hf ((h.mem_frames_iff f).2 hk))
  simp [Pin, this]

theorem node_ne_iff {s : LRUReplacer} (h : Inv s) {f : frame_id_t} {it : Nat}
    (hit : UMap.find s.lru_map_ f = some it) (node : Nat × frame_id_t)
    (hnode : node ∈ s.lru_list_) : node.1 ≠ it ↔ node.2 ≠ f := by
  have hmem : (it, f) ∈ s.lru_list_ := (h.map_iff f it).1 hit
  constructor
  · intro h1 h2
    apply h1
    have : UMap.find s.lru_map_ node.2 = some node.1 := (h.map_iff node.2 node.1).2 hnode
    rw [h2, hit] at this
    exact (Option.some.inj this).symm
  · intro h1 h2
    apply h1
    have := List.inj_on_of_nodup_map h.nodes_nodup hnode hmem h2
    rw [this]

theorem frames_Pin {s : LRUReplacer} (h : Inv s) (f : frame_id_t) :
    frames (Pin s f) = (frames s).filter (fun g => decide (g ≠ f)) := by
  by_cases hf : f ∈ frames s
  · obtain ⟨it, hit⟩ := Option.isSome_iff_exists.1
      ((UMap.find_isSome_iff _ _).2 ((h.mem_frames_iff f).1 hf))
    have hfilter : s.lru_list_.filter (fun node => decide (node.1 ≠ it))
        = s.lru_list_.filter (fun node => decide (node.2 ≠ f)) := by
      apply List.filter_congr
      intro node hnode
      have := node_ne_iff h hit node hnode
      by_cases h1 : node.1 = it <;> by_cases h2 : node.2 = f <;> simp_all
    simp only [Pin, hit, frames, hfilter]
    rw [List.filter_map]
    rfl
  · rw [Pin_of_not_mem h hf]
    symm
    rw [List.filter_eq_self]
    intro g hg
    have : g ≠ f := fun hgf => hf (hgf ▸ hg)
    simpa using this

theorem Inv_Pin {s : LRUReplacer} (h : Inv s) (f : frame_id_t) : Inv (Pin s f) := by
  by_cases hf : f ∈ frames s
  · obtain ⟨it, hit⟩ := Option.isSome_iff_exists.1
      ((UMap.find_isSome_iff _ _).2 ((h.mem_frames_iff f).1 hf))
    have hfr := frames_Pin h f
    refine ⟨?_, ?_, ?_, ?_⟩
    · simp only [Pin, hit]
      exact h.nodes_nodup.sublist ((List.filter_sublist _).map _)
    · rw [hfr]; exact h.frames_nodup.filter _
    · simp only [Pin, hit]; exact UMap.keys_erase_nodup _ _ h.keys_nodup
    · intro f' n
      simp only [Pin, hit]
      by_cases hff : f' = f
      · subst hff
        rw [UMap.find_erase_self]
        constructor
        · intro h0; cases h0
        · intro hm
          obtain ⟨hm1, hm2⟩ := List.mem_filter.1 hm
          have := (node_ne_iff h hit (n, f') hm1).1 (by simpa using hm2)
          exact absurd rfl this
      · rw [UMap.find_erase_ne _ hff, h.map_iff, List.mem_filter]
        constructor
        · intro hm
          exact ⟨hm, by simpa using (node_ne_iff h hit (n, f') hm).2 hff⟩
        · exact fun hm => hm.1
  · rw [Pin_of_not_mem h hf]; exact h

theorem Victim_nil {s : LRUReplacer} (h : s.lru_list_ = []) : Victim s = (none, s) := by
  simp [Victim, h]

theorem Victim_concat {s : LRUReplacer} {L : List (Nat × frame_id_t)} {node : Nat × frame_id_t}
    (h : s.lru_list_ = L ++ [node]) :
    Victim s = (some node.2, { lru_list_ := L, lru_map_ := UMap.erase s.lru_map_ node.2 }) := by
  simp [Victim, h]

theorem Inv_Victim {s : LRUReplacer} (h : Inv s) : Inv (Victim s).2 := by
  rcases List.eq_nil_or_concat s.lru_list_ with hl | ⟨L, node, hl⟩ <;> try rw [List.concat_eq_append] at hl
  · rw [Victim_nil hl]; exact h
  · rw [Victim_concat hl]
    have hn := h.nodes_nodup
    have hfn := h.frames_nodup
    simp only [frames, hl, List.map_append, List.map_cons, List.map_nil] at hn hfn
    refine ⟨(List.nodup_append.1 hn).1, (List.nodup_append.1 hfn).1,
      UMap.keys_erase_nodup _ _ h.keys_nodup, ?_⟩
    intro f n
    have hdisj : node.2 ∉ L.map Prod.snd := fun hm =>
      (List.nodup_append.1 hfn).2.2 hm (List.mem_singleton_self _)
    by_cases hff : f = node.2
    · subst hff
      simp only [UMap.find_erase_self]
      constructor
      · intro h0; cases h0
      · intro hm; exact absurd (List.mem_map.2 ⟨(n, node.2), hm, rfl⟩) hdisj
    · simp only []
      rw [UMap.find_erase_ne _ hff, h.map_iff, hl, List.mem_append, List.mem_singleton]
      constructor
      · rintro (hm | hm)
        · exact hm
        · exact absurd (congrArg Prod.snd hm) hff
      · exact fun hm => Or.inl hm

theorem Inv_step {s : LRUReplacer} (h : Inv s) (op : Op) : Inv (step s op) := by
  cases op with
  | victim => exact Inv_Victim h
  | pin f => exact Inv_Pin h f
  | unpin f => exact Inv_Unpin h f

theorem Inv_run (ops : List Op) {s : LRUReplacer} (h : Inv s) : Inv (run s ops) := by
  induction ops generalizing s with
  | nil => exact h
  | cons op ops ih => exact ih (Inv_step h op)

theorem Reachable.inv {s : LRUReplacer} (h : Reachable s) : Inv s := by
  obtain ⟨n, ops, rfl⟩ := h
  exact Inv_run ops (Inv_new n)

theorem frames_run_unpin (fs : List frame_id_t) {s : LRUReplacer} (h : Inv s) (hfs : fs.Nodup)
    (hdisj : ∀ f ∈ fs, f ∉ frames s) :
    frames (run s (fs.map Op.unpin)) = fs.reverse ++ frames s := by
  induction fs generalizing s with
  | nil => rfl
  | cons f fs ih =>
    have hf : f ∉ frames s := hdisj f (List.mem_cons_self _ _)
    have hfr : frames (Unpin s f) = f :: frames s := by
      rw [Unpin_of_not_mem h hf]; rfl
    simp only [List.map_cons, run, List.foldl_cons, step]
    have := ih (Inv_Unpin h f) (List.nodup_cons.1 hfs).2 (by
      intro g hg
      rw [hfr, List.mem_cons, not_or]
      exact ⟨fun hgf => (List.nodup_cons.1 hfs).1 (hgf ▸ hg),
        hdisj g (List.mem_cons_of_mem _ hg)⟩)
    simp only [run] at this
    rw [this, hfr]
    simp

theorem victims_frames (n : Nat) (s : LRUReplacer) (h : (frames s).length = n) :
    (victims n s).1 = (frames s).reverse.map some ∧ (victims n s).2.lru_list_ = [] := by
  induction n generalizing s with
  | zero =>
    have : s.lru_list_ = [] := by simpa [frames] using h
    simp [victims, frames, this]
  | succ n ih =>
    rcases List.eq_nil_or_concat s.lru_list_ with hl | ⟨L, node, hl⟩ <;> try rw [List.concat_eq_append] at hl
    · simp [frames, hl] at h
    · have hlen : L.length = n := by simpa [frames, hl] using h
      have := ih { lru_list_ := L, lru_map_ := UMap.erase s.lru_map_ node.2 }
        (by simpa [frames] using hlen)
      simp only [victims, Victim_concat hl, this.1, this.2]
      simp [frames, hl]

theorem victims_add (n m : Nat) (s : LRUReplacer) :
    victims (n + m) s
      = ((victims n s).1 ++ (victims m (victims n s).2).1, (victims m (victims n s).2).2) := by
  induction n generalizing s with
  | zero => simp [victims]
  | succ n ih =>
    rw [Nat.succ_add]
    simp only [victims, ih, List.cons_append]

end LRUReplacer

namespace LRUReplacer

theorem Victim_some {r r' : LRUReplacer} (h : Inv r) {f : Int} (hv : Victim r = (some f, r')) :
    f ∈ frames r ∧ Inv r' ∧ ∀ g : Int, g ∈ frames r' ↔ (g ∈ frames r ∧ g ≠ f) := by
  have hinv := Inv_Victim h
  rcases List.eq_nil_or_concat r.lru_list_ with hl | ⟨L, node, hl⟩
  · rw [Victim_nil hl] at hv; cases hv
  · rw [List.concat_eq_append] at hl
    rw [Victim_concat hl] at hv hinv
    cases hv
    have hfn := h.frames_nodup
    simp only [frames, hl, List.map_append, List.map_cons, List.map_nil] at hfn
    have hdisj : node.2 ∉ L.map Prod.snd := fun hm =>
      (List.nodup_append.1 hfn).2.2 hm (List.mem_singleton_self _)
    refine ⟨by simp [frames, hl], hinv, fun g => ?_⟩
    simp only [frames, hl, List.map_append, List.map_cons, List.map_nil, List.mem_append,
      List.mem_singleton]
    constructor
    · intro hg
      exact ⟨Or.inl hg, fun e => hdisj (e ▸ hg)⟩
    · rintro ⟨hg | hg, hne⟩
      · exact hg
      · exact absurd hg hne

theorem Victim_none {r r' : LRUReplacer} (hv : Victim r = (none, r')) : r' = r := by
  rcases List.eq_nil_or_concat r.lru_list_ with hl | ⟨L, node, hl⟩
  · rw [Victim_nil hl] at hv; cases hv; rfl
  · rw [List.concat_eq_append] at hl
    rw [Victim_concat hl] at hv; cases hv

theorem mem_frames_Pin {r : LRUReplacer} (h : Inv r) (f g : Int) :
    g ∈ frames (Pin r f) ↔ (g ∈ frames r ∧ g ≠ f) := by
  rw [frames_Pin h f, List.mem_filter]
  simp

theorem mem_frames_Unpin {r : LRUReplacer} (h : Inv r) (f g : Int) :
    g ∈ frames (Unpin r f) ↔ (g = f ∨ g ∈ frames r) := by
  by_cases hf : f ∈ frames r
  · rw [Unpin_of_mem h hf]
    constructor
    · exact fun hg => Or.inr hg
    · rintro (rfl | hg)
      · exact hf
      · exact hg
  · rw [Unpin_of_not_mem h hf]
    simp [frames]

end LRUReplacer


namespace LRUReplacer

/-- C7. When distinct frames `f1, ..., fn` are unpinned in that order into a
freshly constructed `LRUReplacer`, `Size()` is `n`; the next `n` calls of
`Victim` return `true` with `f1, ..., fn` in that order and call `n + 1` returns
`false`; `Size()` is then `0`. -/
theorem victims_in_unpin_order (num_pages : Nat) (fs : List frame_id_t) (hfs : fs.Nodup) :
    Size (run (new num_pages) (fs.map Op.unpin)) = fs.length ∧
    (victims (fs.length + 1) (run (new num_pages) (fs.map Op.unpin))).1
      = fs.map some ++ [none] ∧
    Size (victims (fs.length + 1) (run (new num_pages) (fs.map Op.unpin))).2 = 0 := by
  have hfr : frames (run (new num_pages) (fs.map Op.unpin)) = fs.reverse := by
    rw [frames_run_unpin fs (Inv_new num_pages) hfs (by simp [frames, new])]
    simp [frames, new]
  have hlen : (frames (run (new num_pages) (fs.map Op.unpin))).length = fs.length := by
    rw [hfr, List.length_reverse]
  have hv := victims_frames fs.length _ hlen
  rw [hfr, List.reverse_reverse] at hv
  refine ⟨?_, ?_, ?_⟩
  · simpa [Size, frames] using hlen
  · rw [victims_add, hv.1]
    simp [victims, Victim_nil hv.2]
  · rw [victims_add]
    simp [victims, Victim_nil hv.2, Size, hv.2]

/-- Instance of `victims_in_unpin_order` for the frames 1, 2, 3 of the test
scenario. -/
theorem victims_in_unpin_order_witness :
    Size (run (new 7) ([1, 2, 3].map Op.unpin)) = 3 ∧
    (victims 4 (run (new 7) ([1, 2, 3].map Op.unpin))).1 = [some 1, some 2, some 3, none] ∧
    Size (victims 4 (run (new 7) ([1, 2, 3].map Op.unpin))).2 = 0 :=
  victims_in_unpin_order 7 [1, 2, 3] (by decide)

/-- C10. In every reachable state of an `LRUReplacer`: `Unpin(f)` of a frame that
is already in the replacer returns the same state; `Pin(f)` leaves exactly the
other frames, in their previous order, and returns the same state when `f` is
absent; the list stores no frame twice and its elements are exactly the keys
of the map (which has one entry per key). -/
theorem pin_unpin_contract (s : LRUReplacer) (hs : Reachable s) (f : frame_id_t) :
    (f ∈ frames s → Unpin s f = s) ∧
    frames (Pin s f) = (frames s).filter (fun g => decide (g ≠ f)) ∧
    (f ∉ frames s → Pin s f = s) ∧
    (frames s).Nodup ∧ (UMap.keys s.lru_map_).Nodup ∧
    (∀ g, g ∈ frames s ↔ g ∈ UMap.keys s.lru_map_) :=
  ⟨fun hf => Unpin_of_mem hs.inv hf, frames_Pin hs.inv f, fun hf => Pin_of_not_mem hs.inv hf,
    hs.inv.frames_nodup, hs.inv.keys_nodup, hs.inv.mem_frames_iff⟩

/-- Instance of `pin_unpin_contract` at the state reached by unpinning frames 1, 2
and 3, for frame 2. -/
theorem pin_unpin_contract_witness :
    Unpin (run (new 3) [.unpin 1, .unpin 2, .unpin 3]) 2 = run (new 3) [.unpin 1, .unpin 2, .unpin 3] ∧
    frames (Pin (run (new 3) [.unpin 1, .unpin 2, .unpin 3]) 2) = [3, 1] :=
  have h := pin_unpin_contract (run (new 3) [.unpin 1, .unpin 2, .unpin 3]) ⟨3, _, rfl⟩ 2
  ⟨h.1 (by decide), h.2.1.trans (by decide)⟩

end LRUReplacer

/-! ### `CLOCKReplacer` -/

namespace CLOCKReplacer

theorem getD_append_cons (pre post : List frame_id_t) (x d : frame_id_t) :
    (pre ++ x :: post).getD pre.length d = x := by
  induction pre with
  | nil => rfl
  | cons a pre ih => simpa using ih

theorem eraseIdx_append_cons (pre post : List frame_id_t) (x : frame_id_t) :
    (pre ++ x :: post).eraseIdx pre.length = pre ++ post := by
  induction pre with
  | nil => rfl
  | cons a pre ih => simpa using ih

theorem indexOf_append_cons (pre post : List frame_id_t) (x : frame_id_t) (h : x ∉ pre) :
    (pre ++ x :: post).indexOf x = pre.length := by
  induction pre with
  | nil => simp
  | cons a pre ih =>
    have ha : a ≠ x := fun e => h (e ▸ List.mem_cons_self _ _)
    have hx : x ∉ pre := fun e => h (List.mem_cons_of_mem _ e)
    simp [List.indexOf_cons, ha, ih hx]

theorem erase_append_cons (pre post : List frame_id_t) (x : frame_id_t) (h : x ∉ pre) :
    (pre ++ x :: post).erase x = pre ++ post := by
  induction pre with
  | nil => simp
  | cons a pre ih =>
    have ha : a ≠ x := fun e => h (e ▸ List.mem_cons_self _ _)
    have hx : x ∉ pre := fun e => h (List.mem_cons_of_mem _ e)
    simp [List.erase_cons, ha, ih hx]

theorem split_first (P : frame_id_t → Bool) (l : List frame_id_t) :
    (∀ x ∈ l, P x = true) ∨
    ∃ a x b, l = a ++ x :: b ∧ (∀ y ∈ a, P y = true) ∧ P x = false := by
  induction l with
  | nil => left; simp
  | cons c l ih =>
    by_cases hc : P c = true
    · rcases ih with h | ⟨a, x, b, rfl, ha, hx⟩
      · left
        intro y hy
        rcases List.mem_cons.1 hy with rfl | hy
        · exact hc
        · exact h y hy
      · right
        refine ⟨c :: a, x, b, rfl, ?_, hx⟩
        intro y hy
        rcases List.mem_cons.1 hy with rfl | hy
        · exact hc
        · exact ha y hy
    · right
      exact ⟨[], c, l, rfl, by simp, by simpa using hc⟩

theorem takeWhile_all (P : frame_id_t → Bool) (l : List frame_id_t) (h : ∀ x ∈ l, P x = true) :
    l.takeWhile P = l := by
  induction l with
  | nil => rfl
  | cons c l ih =>
    simp [List.takeWhile_cons, h c (List.mem_cons_self _ _),
      ih (fun x hx => h x (List.mem_cons_of_mem _ hx))]

theorem takeWhile_split (P : frame_id_t → Bool) (a b : List frame_id_t) (x : frame_id_t)
    (ha : ∀ y ∈ a, P y = true) (hx : P x = false) : (a ++ x :: b).takeWhile P = a := by
  induction a with
  | nil => simp [List.takeWhile_cons, hx]
  | cons c a ih =>
    simp [List.takeWhile_cons, ha c (List.mem_cons_self _ _),
      ih (fun y hy => ha y (List.mem_cons_of_mem _ hy))]

theorem find_all (P : frame_id_t → Bool) (l : List frame_id_t) (h : ∀ x ∈ l, P x = true) :
    l.find? (fun f => !P f) = none := by
  simp only [List.find?_eq_none]
  intro x hx
  simp [h x hx]

theorem find_split (P : frame_id_t → Bool) (a b : List frame_id_t) (x : frame_id_t)
    (ha : ∀ y ∈ a, P y = true) (hx : P x = false) :
    (a ++ x :: b).find? (fun f => !P f) = some x := by
  induction a with
  | nil => simp [List.find?_cons, hx]
  | cons c a ih =>
    simp [List.find?_cons, ha c (List.mem_cons_self _ _),
      ih (fun y hy => ha y (List.mem_cons_of_mem _ hy))]

theorem clearBits_append (status : List (frame_id_t × Nat)) (a b : List frame_id_t) :
    clearBits status (a ++ b) = clearBits (clearBits status a) b := by
  simp [clearBits, List.foldl_append]

theorem find_clearBits_of_not_mem (fs : List frame_id_t) (status : List (frame_id_t × Nat))
    (x : frame_id_t) (h : x ∉ fs) : UMap.find (clearBits status fs) x = UMap.find status x := by
  induction fs generalizing status with
  | nil => rfl
  | cons f fs ih =>
    have hf : x ≠ f := fun e => h (e ▸ List.mem_cons_self _ _)
    have hx : x ∉ fs := fun e => h (List.mem_cons_of_mem _ e)
    simp only [clearBits, List.foldl_cons] at ih ⊢
    rw [ih _ hx, UMap.find_insert_ne _ _ hf]

theorem find_clearBits_of_mem (fs : List frame_id_t) (status : List (frame_id_t × Nat))
    (x : frame_id_t) (h : x ∈ fs) : UMap.find (clearBits status fs) x = some 0 := by
  induction fs generalizing status with
  | nil => cases h
  | cons f fs ih =>
    simp only [clearBits, List.foldl_cons] at ih ⊢
    by_cases hx : x ∈ fs
    · exact ih _ hx
    · have : x = f := by
        rcases List.mem_cons.1 h with h | h
        · exact h
        · exact absurd h hx
      subst this
      have := find_clearBits_of_not_mem fs (UMap.insert status x 0) x hx
      simp only [clearBits] at this
      rw [this, UMap.find_insert_self]

/-- One iteration of the loop on a member whose bit is set. -/
theorem VictimLoop_advance (fuel cap : Nat) (pre post : List frame_id_t) (x : frame_id_t)
    (status : List (frame_id_t × Nat)) (hx : UMap.find status x = some 1) :
    VictimLoop (fuel + 1) ⟨cap, pre ++ x :: post, status, pre.length⟩
      = VictimLoop fuel ⟨cap, pre ++ x :: post, UMap.insert status x 0, pre.length + 1⟩ := by
  have hne : ¬ pre.length = (pre ++ x :: post).length := by simp
  simp only [VictimLoop, hne, if_false, getD_append_cons, hx, if_true]

/-- The iteration on a member whose bit is not set returns it. -/
theorem VictimLoop_stop (fuel cap : Nat) (pre post : List frame_id_t) (x : frame_id_t)
    (status : List (frame_id_t × Nat)) (hx : UMap.find status x ≠ some 1) :
    VictimLoop (fuel + 1) ⟨cap, pre ++ x :: post, status, pre.length⟩
      = some (x, ⟨cap, pre ++ post, UMap.erase status x, pre.length⟩) := by
  have hne : ¬ pre.length = (pre ++ x :: post).length := by simp
  simp only [VictimLoop, hne, if_false, getD_append_cons, hx, eraseIdx_append_cons]

/-- A hand equal to `end()` behaves like a hand at the front. -/
theorem VictimLoop_wrap (fuel cap : Nat) (l : List frame_id_t)
    (status : List (frame_id_t × Nat)) :
    VictimLoop fuel ⟨cap, l, status, l.length⟩ = VictimLoop fuel ⟨cap, l, status, 0⟩ := by
  cases fuel with
  | zero => rfl
  | succ fuel =>
    by_cases h : 0 = l.length
    · rw [← h]
    · simp only [VictimLoop, if_true, h, if_false]

/-- Passing over a run of distinct members whose bits are set clears those bits
and moves the hand behind the run. -/
theorem VictimLoop_scan (fuel cap : Nat) (mid pre post : List frame_id_t)
    (status : List (frame_id_t × Nat)) (hnd : mid.Nodup)
    (hset : ∀ y ∈ mid, UMap.find status y = some 1) :
    VictimLoop (fuel + mid.length) ⟨cap, pre ++ mid ++ post, status, pre.length⟩
      = VictimLoop fuel ⟨cap, pre ++ mid ++ post, clearBits status mid, pre.length + mid.length⟩ := by
  induction mid generalizing pre status with
  | nil => simp [clearBits]
  | cons y mid ih =>
    have hy := hset y (List.mem_cons_self _ _)
    have hnd' := List.nodup_cons.1 hnd
    have hset' : ∀ z ∈ mid, UMap.find (UMap.insert status y 0) z = some 1 := by
      intro z hz
      have hzy : z ≠ y := fun e => hnd'.1 (e ▸ hz)
      rw [UMap.find_insert_ne _ _ hzy]
      exact hset z (List.mem_cons_of_mem _ hz)
    have ih' := ih (pre ++ [y]) (UMap.insert status y 0) hnd'.2 hset'
    have e1 : pre ++ [y] ++ mid ++ post = pre ++ y :: (mid ++ post) := by simp
    have e2 : pre ++ y :: mid ++ post = pre ++ y :: (mid ++ post) := by simp
    have e3 : (pre ++ [y]).length + mid.length = pre.length + (y :: mid).length := by
      simp; omega
    have e4 : (pre ++ [y]).length = pre.length + 1 := by simp
    rw [e1, e3, e4] at ih'
    rw [List.length_cons, ← Nat.add_assoc, e2, VictimLoop_advance _ _ _ _ _ _ hy, ih']
    rfl

theorem VictimLoop_mono (fuel k : Nat) (s : CLOCKReplacer) (r : frame_id_t × CLOCKReplacer)
    (h : VictimLoop fuel s = some r) : VictimLoop (fuel + k) s = some r := by
  induction fuel generalizing s with
  | zero => cases h
  | succ fuel ih =>
    rw [Nat.succ_add]
    simp only [VictimLoop] at h ⊢
    generalize (if s.clock_hand_ = s.clock_list.length then 0 else s.clock_hand_) = hand at h ⊢
    by_cases hb : UMap.find s.clock_status (s.clock_list.getD hand 0) = some 1
    · rw [if_pos hb] at h ⊢
      exact ih _ h
    · rw [if_neg hb] at h ⊢
      exact h

end CLOCKReplacer

namespace CLOCKReplacer

theorem bitSet_false_iff (s : CLOCKReplacer) (x : frame_id_t) :
    bitSet s x = false ↔ UMap.find s.clock_status x ≠ some 1 := by
  simp [bitSet]

theorem bitSet_true_iff (s : CLOCKReplacer) (x : frame_id_t) :
    bitSet s x = true ↔ UMap.find s.clock_status x = some 1 := by
  simp [bitSet]

theorem circular_mk (cap : Nat) (pre suf : List frame_id_t) (status : List (frame_id_t × Nat))
    (hsuf : suf ≠ []) : circular ⟨cap, pre ++ suf, status, pre.length⟩ = suf ++ pre := by
  simp [circular, hsuf]

/-- Result of the loop when the hand is on a member: the characterisation of the
victim, of the members passed over and of the final state. -/
theorem VictimLoop_spec_mk (cap k : Nat) (pre suf : List frame_id_t)
    (status : List (frame_id_t × Nat)) (hnd : (pre ++ suf).Nodup) (hsuf : suf ≠ []) :
    VictimLoop ((pre ++ suf).length + 1 + k) ⟨cap, pre ++ suf, status, pre.length⟩
      = some (firstUnset ⟨cap, pre ++ suf, status, pre.length⟩,
          ⟨cap, (pre ++ suf).erase (firstUnset ⟨cap, pre ++ suf, status, pre.length⟩),
            UMap.erase (clearBits status (passedOver ⟨cap, pre ++ suf, status, pre.length⟩))
              (firstUnset ⟨cap, pre ++ suf, status, pre.length⟩),
            (pre ++ suf).indexOf (firstUnset ⟨cap, pre ++ suf, status, pre.length⟩)⟩) := by
  have hnd' := List.nodup_append.1 hnd
  have hcirc := circular_mk cap pre suf status hsuf
  rcases split_first (bitSet ⟨cap, pre ++ suf, status, pre.length⟩) suf with hall | ⟨a, x, b, rfl, ha, hx⟩
  · rcases split_first (bitSet ⟨cap, pre ++ suf, status, pre.length⟩) pre with hall' | ⟨a, x, b, rfl, ha, hx⟩
    · -- every bit is set: a full turn, then the member at the hand
      obtain ⟨x, t, rfl⟩ := List.exists_cons_of_ne_nil hsuf
      have hallc : ∀ y ∈ (x :: t) ++ pre, bitSet ⟨cap, pre ++ x :: t, status, pre.length⟩ y = true := by
        intro y hy
        rcases List.mem_append.1 hy with hy | hy
        · exact hall y hy
        · exact hall' y hy
      have hfirst : firstUnset ⟨cap, pre ++ x :: t, status, pre.length⟩ = x := by
        simp only [firstUnset, hcirc, find_all _ _ hallc]
        rfl
      have hpassed : passedOver ⟨cap, pre ++ x :: t, status, pre.length⟩ = (x :: t) ++ pre := by
        simp only [passedOver, hcirc, takeWhile_all _ _ hallc]
      have hxpre : x ∉ pre := fun h => hnd'.2.2 h (List.mem_cons_self _ _)
      rw [hfirst, hpassed, erase_append_cons _ _ _ hxpre, indexOf_append_cons _ _ _ hxpre]
      have hfuel : (pre ++ x :: t).length + 1 + k = (k + 1 + pre.length) + (x :: t).length := by
        simp; omega
      have h1 := VictimLoop_scan (k + 1 + pre.length) cap (x :: t) pre [] status hnd'.2.1
        (fun y hy => (bitSet_true_iff _ y).1 (hall y hy))
      simp only [List.append_nil] at h1
      rw [hfuel, h1]
      have hlen : pre.length + (x :: t).length = (pre ++ x :: t).length := by simp
      rw [hlen, VictimLoop_wrap]
      have h2 := VictimLoop_scan (k + 1) cap pre [] (x :: t) (clearBits status (x :: t)) hnd'.1
        (fun y hy => by
          rw [find_clearBits_of_not_mem _ _ _ (fun h => hnd'.2.2 hy h)]
          exact (bitSet_true_iff _ y).1 (hall' y hy))
      simp only [List.nil_append, List.length_nil, Nat.zero_add] at h2
      rw [h2, VictimLoop_stop, clearBits_append]
      rw [find_clearBits_of_not_mem _ _ _ hxpre,
        find_clearBits_of_mem _ _ _ (List.mem_cons_self _ _)]
      simp
    · -- the first unset bit lies before the hand: the hand wraps around
      have hallc : ∀ y ∈ suf ++ a, bitSet ⟨cap, a ++ x :: b ++ suf, status, (a ++ x :: b).length⟩ y = true := by
        intro y hy
        rcases List.mem_append.1 hy with hy | hy
        · exact hall y hy
        · exact ha y hy
      have hcirc' : circular ⟨cap, a ++ x :: b ++ suf, status, (a ++ x :: b).length⟩
          = (suf ++ a) ++ x :: b := by rw [hcirc]; simp
      have hfirst : firstUnset ⟨cap, a ++ x :: b ++ suf, status, (a ++ x :: b).length⟩ = x := by
        simp only [firstUnset, hcirc', find_split _ _ _ _ hallc hx]
        rfl
      have hpassed : passedOver ⟨cap, a ++ x :: b ++ suf, status, (a ++ x :: b).length⟩
          = suf ++ a := by
        simp only [passedOver, hcirc', takeWhile_split _ _ _ _ hallc hx]
      have hnda := List.nodup_append.1 hnd'.1
      have hxa : x ∉ a := fun h => hnda.2.2 h (List.mem_cons_self _ _)
      have hxsuf : x ∉ suf := fun h =>
        hnd'.2.2 (List.mem_append_right _ (List.mem_cons_self _ _)) h
      have e0 : a ++ x :: b ++ suf = a ++ x :: (b ++ suf) := by simp
      rw [hfirst, hpassed]
      rw [e0, erase_append_cons _ _ _ hxa, indexOf_append_cons _ _ _ hxa, ← e0]
      have hfuel : (a ++ x :: b ++ suf).length + 1 + k
          = (k + b.length + 1 + 1 + a.length) + suf.length := by
        simp; omega
      have h1 := VictimLoop_scan (k + b.length + 1 + 1 + a.length) cap suf (a ++ x :: b) [] status
        hnd'.2.1 (fun y hy => (bitSet_true_iff _ y).1 (hall y hy))
      simp only [List.append_nil] at h1
      rw [hfuel, h1]
      have hlen : (a ++ x :: b).length + suf.length = (a ++ x :: b ++ suf).length := by
        simp only [List.length_append, List.length_cons]
      rw [hlen, VictimLoop_wrap]
      have h2 := VictimLoop_scan (k + b.length + 1 + 1) cap a [] (x :: b ++ suf)
        (clearBits status suf) hnda.1
        (fun y hy => by
          rw [find_clearBits_of_not_mem _ _ _
            (fun h => hnd'.2.2 (List.mem_append_left _ hy) h)]
          exact (bitSet_true_iff _ y).1 (ha y hy))
      simp only [List.nil_append, List.length_nil, Nat.zero_add] at h2
      have e1 : a ++ x :: b ++ suf = a ++ (x :: b ++ suf) := by simp
      rw [e1, h2]
      have e2 : a ++ (x :: b ++ suf) = a ++ x :: (b ++ suf) := by simp
      rw [e2, VictimLoop_stop, clearBits_append]
      rw [find_clearBits_of_not_mem _ _ _ hxa, find_clearBits_of_not_mem _ _ _ hxsuf]
      exact (bitSet_false_iff ⟨cap, a ++ x :: b ++ suf, status, (a ++ x :: b).length⟩ x).1 hx
  · -- the first unset bit lies at or behind the hand
    have hcirc' : circular ⟨cap, pre ++ (a ++ x :: b), status, pre.length⟩
        = a ++ x :: (b ++ pre) := by rw [hcirc]; simp
    have hfirst : firstUnset ⟨cap, pre ++ (a ++ x :: b), status, pre.length⟩ = x := by
      simp only [firstUnset, hcirc', find_split _ _ _ _ ha hx]
      rfl
    have hpassed : passedOver ⟨cap, pre ++ (a ++ x :: b), status, pre.length⟩ = a := by
      simp only [passedOver, hcirc', takeWhile_split _ _ _ _ ha hx]
    have hnda := List.nodup_append.1 hnd'.2.1
    have hxa : x ∉ a := fun h => hnda.2.2 h (List.mem_cons_self _ _)
    have hxpre : x ∉ pre := fun h =>
      hnd'.2.2 h (List.mem_append_right _ (List.mem_cons_self _ _))
    have hxpa : x ∉ pre ++ a := fun h => by
      rcases List.mem_append.1 h with h | h
      · exact hxpre h
      · exact hxa h
    have e0 : pre ++ (a ++ x :: b) = (pre ++ a) ++ x :: b := by simp
    rw [hfirst, hpassed]
    rw [e0, erase_append_cons _ _ _ hxpa, indexOf_append_cons _ _ _ hxpa, ← e0]
    have hfuel : (pre ++ (a ++ x :: b)).length + 1 + k
        = (k + pre.length + b.length + 1 + 1) + a.length := by
      simp; omega
    have h1 := VictimLoop_scan (k + pre.length + b.length + 1 + 1) cap a pre (x :: b) status
      hnda.1 (fun y hy => (bitSet_true_iff _ y).1 (ha y hy))
    have e1 : pre ++ (a ++ x :: b) = pre ++ a ++ x :: b := by simp
    rw [hfuel, e1, h1]
    have hlen : pre.length + a.length = (pre ++ a).length := by simp
    rw [hlen, VictimLoop_stop]
    rw [find_clearBits_of_not_mem _ _ _ hxa]
    exact (bitSet_false_iff ⟨cap, pre ++ (a ++ x :: b), status, pre.length⟩ x).1 hx

end CLOCKReplacer

namespace CLOCKReplacer

theorem mem_circular (s : CLOCKReplacer) (x : frame_id_t) :
    x ∈ circular s ↔ x ∈ s.clock_list := by
  unfold circular
  generalize (if s.clock_hand_ = s.clock_list.length then 0 else s.clock_hand_) = hand
  rw [List.mem_append]
  constructor
  · rintro (h | h)
    · exact List.mem_of_mem_drop h
    · exact List.mem_of_mem_take h
  · intro h
    rw [← List.take_append_drop hand s.clock_list, List.mem_append] at h
    exact h.symm

theorem circular_ne_nil (s : CLOCKReplacer) (h : s.clock_list ≠ []) : circular s ≠ [] := by
  obtain ⟨x, t, hx⟩ := List.exists_cons_of_ne_nil h
  have : x ∈ circular s := (mem_circular s x).2 (by rw [hx]; exact List.mem_cons_self _ _)
  exact List.ne_nil_of_mem this

theorem firstUnset_mem (s : CLOCKReplacer) (h : s.clock_list ≠ []) :
    firstUnset s ∈ s.clock_list := by
  rw [← mem_circular]
  unfold firstUnset
  cases hf : (circular s).find? (fun f => !bitSet s f) with
  | some x => exact List.mem_of_find?_eq_some hf
  | none =>
    obtain ⟨x, t, hx⟩ := List.exists_cons_of_ne_nil (circular_ne_nil s h)
    simp [hx]

theorem passedOver_subset (s : CLOCKReplacer) (x : frame_id_t) (h : x ∈ passedOver s) :
    x ∈ s.clock_list :=
  (mem_circular s x).1 ((List.takeWhile_sublist _).subset h)

/-- Result of `Victim` on a non-empty replacer whose hand is a valid iterator
and whose list stores no frame twice, for every amount of fuel from
`clock_list.length + 1` on. -/
theorem VictimFuel_spec (s : CLOCKReplacer) (hh : s.clock_hand_ ≤ s.clock_list.length)
    (hnd : s.clock_list.Nodup) (hne : s.clock_list ≠ []) (k : Nat) :
    VictimFuel (s.clock_list.length + 1 + k) s
      = some (some (firstUnset s),
          ⟨s.capacity, s.clock_list.erase (firstUnset s),
            UMap.erase (clearBits s.clock_status (passedOver s)) (firstUnset s),
            s.clock_list.indexOf (firstUnset s)⟩) := by
  obtain ⟨cap, list, status, hand⟩ := s
  simp only at hh hnd hne ⊢
  have hemp : list.isEmpty = false := by
    cases list with
    | nil => exact absurd rfl hne
    | cons _ _ => rfl
  simp only [VictimFuel, hemp, Bool.false_eq_true, if_false]
  by_cases hend : hand = list.length
  · subst hend
    have e : ∀ st : List (frame_id_t × Nat),
        (⟨cap, list, st, list.length⟩ : CLOCKReplacer).circular
          = (⟨cap, list, st, 0⟩ : CLOCKReplacer).circular := by
      intro st; simp [circular]
    have e1 : firstUnset ⟨cap, list, status, list.length⟩ = firstUnset ⟨cap, list, status, 0⟩ := by
      simp only [firstUnset, e, bitSet]
    have e2 : passedOver ⟨cap, list, status, list.length⟩ = passedOver ⟨cap, list, status, 0⟩ := by
      simp only [passedOver, e]; rfl
    rw [VictimLoop_wrap, e1, e2]
    have := VictimLoop_spec_mk cap k [] list status (by simpa using hnd) hne
    simp only [List.nil_append, List.length_nil] at this
    rw [this]; rfl
  · have hlt : hand < list.length := lt_of_le_of_ne hh hend
    have hsplit : list.take hand ++ list.drop hand = list := List.take_append_drop hand list
    have hlen : (list.take hand).length = hand := by
      rw [List.length_take]; omega
    have hsuf : list.drop hand ≠ [] := by
      intro h0
      have := congrArg List.length h0
      rw [List.length_drop] at this
      simp at this; omega
    have := VictimLoop_spec_mk cap k (list.take hand) (list.drop hand) status
      (by rw [hsplit]; exact hnd) hsuf
    rw [hsplit, hlen] at this
    rw [this]; rfl

theorem countP_lt_of_imp (p q : frame_id_t → Bool) (l : List frame_id_t)
    (himp : ∀ x, q x = true → p x = true) (x : frame_id_t) (hx : x ∈ l) (hp : p x = true)
    (hq : q x = false) : l.countP q < l.countP p := by
  induction l with
  | nil => cases hx
  | cons c l ih =>
    have hle : l.countP q ≤ l.countP p := List.countP_mono_left (fun y _ => himp y)
    rcases List.mem_cons.1 hx with rfl | hx'
    · simp only [List.countP_cons, hp, hq, if_true, if_false]
      simp; omega
    · have := ih hx'
      simp only [List.countP_cons]
      by_cases hqc : q c = true
      · simp [hqc, himp c hqc]; omega
      · by_cases hpc : p c = true
        · simp [hqc, hpc]; omega
        · simp [hqc, hpc]; omega

/-- The loop returns as soon as the fuel exceeds the number of members whose
bit is set, whatever the contents of the list and of the map. -/
theorem VictimLoop_isSome (fuel : Nat) (s : CLOCKReplacer) (hne : s.clock_list ≠ [])
    (hh : s.clock_hand_ ≤ s.clock_list.length)
    (hc : s.clock_list.countP (bitSet s) < fuel) : (VictimLoop fuel s).isSome = true := by
  induction fuel generalizing s with
  | zero => omega
  | succ fuel ih =>
    have hpos : 0 < s.clock_list.length := List.length_pos.2 hne
    simp only [VictimLoop]
    have hhand : (if s.clock_hand_ = s.clock_list.length then 0 else s.clock_hand_)
        < s.clock_list.length := by
      split <;> omega
    generalize (if s.clock_hand_ = s.clock_list.length then 0 else s.clock_hand_) = hand at hhand ⊢
    have hmem : s.clock_list.getD hand 0 ∈ s.clock_list := by
      rw [List.getD_eq_getElem _ _ hhand]
      exact List.getElem_mem _
    by_cases hb : UMap.find s.clock_status (s.clock_list.getD hand 0) = some 1
    · rw [if_pos hb]
      apply ih
      · exact hne
      · show hand + 1 ≤ s.clock_list.length
        omega
      · have := countP_lt_of_imp (bitSet s)
          (bitSet { s with clock_status := UMap.insert s.clock_status (s.clock_list.getD hand 0) 0,
                           clock_hand_ := hand + 1 })
          s.clock_list
          (by
            intro y hy
            simp only [bitSet, decide_eq_true_eq] at hy ⊢
            by_cases hyf : y = s.clock_list.getD hand 0
            · rw [hyf, UMap.find_insert_self] at hy; cases hy
            · rwa [UMap.find_insert_ne _ _ hyf] at hy)
          _ hmem (by simpa [bitSet] using hb)
          (by simp [bitSet, UMap.find_insert_self])
        show List.countP _ s.clock_list < fuel
        omega
    · rw [if_neg hb]; rfl

/-- `Victim` returns on every state whose hand is a valid iterator. -/
theorem Victim_isSome (s : CLOCKReplacer) (hh : s.clock_hand_ ≤ s.clock_list.length) :
    (Victim s).isSome = true := by
  unfold Victim VictimFuel
  cases hl : s.clock_list with
  | nil => rfl
  | cons x t =>
    have hne : s.clock_list ≠ [] := by rw [hl]; exact List.cons_ne_nil _ _
    have := VictimLoop_isSome (s.clock_list.length + 1) s hne hh
      (Nat.lt_succ_of_le (List.countP_le_length _))
    rw [hl] at this
    simp only [List.isEmpty_cons, Bool.false_eq_true, if_false, Option.isSome_map']
    exact this

end CLOCKReplacer

namespace CLOCKReplacer

theorem WF_new (n : Nat) : WF (new n) :=
  ⟨Nat.le_refl _, List.nodup_nil, List.nodup_nil, fun f => by simp [new, UMap.keys]⟩

theorem keys_clearBits_nodup (fs : List frame_id_t) (status : List (frame_id_t × Nat))
    (h : (UMap.keys status).Nodup) : (UMap.keys (clearBits status fs)).Nodup := by
  induction fs generalizing status with
  | nil => exact h
  | cons f fs ih => exact ih _ (UMap.keys_insert_nodup _ _ _ h)

theorem mem_keys_clearBits (fs : List frame_id_t) (status : List (frame_id_t × Nat))
    (x : frame_id_t) : x ∈ UMap.keys (clearBits status fs) ↔ x ∈ fs ∨ x ∈ UMap.keys status := by
  induction fs generalizing status with
  | nil => simp [clearBits]
  | cons f fs ih =>
    simp only [clearBits, List.foldl_cons] at ih ⊢
    rw [ih, UMap.mem_keys_insert, List.mem_cons]
    tauto

theorem Unpin_member {s : CLOCKReplacer} (hs : WF s) {f : frame_id_t} (hf : f ∈ s.clock_list) :
    Unpin s f = { s with clock_status := UMap.insert s.clock_status f 1 } := by
  have : UMap.count s.clock_status f ≠ 0 :=
    (UMap.count_ne_zero_iff _ _).2 ((hs.keys_iff f).2 hf)
  simp [Unpin, this]

theorem Unpin_full {s : CLOCKReplacer} (hs : WF s) {f : frame_id_t} (hf : f ∉ s.clock_list)
    (hcap : s.capacity ≤ s.clock_list.length) : Unpin s f = s := by
  have : UMap.count s.clock_status f = 0 :=
    (UMap.count_eq_zero_iff _ _).2 (fun hk => hf ((hs.keys_iff f).1 hk))
  simp [Unpin, this, hcap]

theorem Unpin_append {s : CLOCKReplacer} (hs : WF s) {f : frame_id_t} (hf : f ∉ s.clock_list)
    (hcap : s.clock_list.length < s.capacity) :
    Unpin s f = { s with
      clock_list := s.clock_list ++ [f],
      clock_status := UMap.insert s.clock_status f 1,
      clock_hand_ := if (s.clock_list ++ [f]).length = 1 then 0
                     else if s.clock_hand_ = s.clock_list.length then (s.clock_list ++ [f]).length
                     else s.clock_hand_ } := by
  have : UMap.count s.clock_status f = 0 :=
    (UMap.count_eq_zero_iff _ _).2 (fun hk => hf ((hs.keys_iff f).1 hk))
  have hcap' : ¬ s.capacity ≤ s.clock_list.length := by omega
  simp [Unpin, this, hcap']

theorem WF_Unpin {s : CLOCKReplacer} (hs : WF s) (f : frame_id_t) : WF (Unpin s f) := by
  by_cases hf : f ∈ s.clock_list
  · rw [Unpin_member hs hf]
    refine ⟨hs.hand_le, hs.nodup, UMap.keys_insert_nodup _ _ _ hs.keys_nodup, ?_⟩
    intro x
    simp only [UMap.mem_keys_insert, hs.keys_iff]
    constructor
    · rintro (rfl | h)
      · exact hf
      · exact h
    · exact fun h => Or.inr h
  · by_cases hcap : s.capacity ≤ s.clock_list.length
    · rw [Unpin_full hs hf hcap]; exact hs
    · rw [Unpin_append hs hf (by omega)]
      refine ⟨?_, ?_, UMap.keys_insert_nodup _ _ _ hs.keys_nodup, ?_⟩
      · have := hs.hand_le
        simp only [List.length_append, List.length_singleton]
        split
        · omega
        · split <;> omega
      · simp only
        rw [List.nodup_append]
        exact ⟨hs.nodup, List.nodup_singleton _, fun x hx hx' => by
          rw [List.mem_singleton] at hx'
          exact hf (hx' ▸ hx)⟩
      · intro x
        simp only [UMap.mem_keys_insert, hs.keys_iff, List.mem_append, List.mem_singleton]
        tauto

theorem Pin_absent {s : CLOCKReplacer} (hs : WF s) {f : frame_id_t} (hf : f ∉ s.clock_list) :
    Pin s f = s := by
  have : UMap.count s.clock_status f = 0 :=
    (UMap.count_eq_zero_iff _ _).2 (fun hk => hf ((hs.keys_iff f).1 hk))
  simp [Pin, this]

theorem Pin_member {s : CLOCKReplacer} (hs : WF s) {f : frame_id_t} (hf : f ∈ s.clock_list) :
    Pin s f = { s with
      clock_list := s.clock_list.erase f,
      clock_hand_ := if s.clock_hand_ = s.clock_list.indexOf f then s.clock_list.indexOf f
                     else if s.clock_list.indexOf f < s.clock_hand_ then s.clock_hand_ - 1
                     else s.clock_hand_,
      clock_status := UMap.erase s.clock_status f } := by
  have h1 : UMap.count s.clock_status f ≠ 0 :=
    (UMap.count_ne_zero_iff _ _).2 ((hs.keys_iff f).2 hf)
  have h2 : s.clock_list.indexOf f < s.clock_list.length := List.indexOf_lt_length.2 hf
  simp only [Pin, h1, if_false, h2, if_true, List.eraseIdx_indexOf_eq_erase]

theorem WF_Pin {s : CLOCKReplacer} (hs : WF s) (f : frame_id_t) : WF (Pin s f) := by
  by_cases hf : f ∈ s.clock_list
  · rw [Pin_member hs hf]
    have h2 : s.clock_list.indexOf f < s.clock_list.length := List.indexOf_lt_length.2 hf
    refine ⟨?_, hs.nodup.erase f, UMap.keys_erase_nodup _ _ hs.keys_nodup, ?_⟩
    · have := hs.hand_le
      simp only [List.length_erase_of_mem hf]
      split
      · omega
      · split <;> omega
    · intro x
      simp only [UMap.mem_keys_erase, hs.keys_iff, hs.nodup.mem_erase_iff]
      tauto
  · rw [Pin_absent hs hf]; exact hs

theorem Victim_nonempty {s : CLOCKReplacer} (hs : WF s) (hne : s.clock_list ≠ []) :
    Victim s = some (some (firstUnset s),
      ⟨s.capacity, s.clock_list.erase (firstUnset s),
        UMap.erase (clearBits s.clock_status (passedOver s)) (firstUnset s),
        s.clock_list.indexOf (firstUnset s)⟩) :=
  VictimFuel_spec s hs.hand_le hs.nodup hne 0

theorem Victim_empty {s : CLOCKReplacer} (h : s.clock_list = []) : Victim s = some (none, s) := by
  simp [Victim, VictimFuel, h]

theorem WF_Victim {s : CLOCKReplacer} (hs : WF s) (hne : s.clock_list ≠ []) :
    WF ⟨s.capacity, s.clock_list.erase (firstUnset s),
        UMap.erase (clearBits s.clock_status (passedOver s)) (firstUnset s),
        s.clock_list.indexOf (firstUnset s)⟩ := by
  have hv := firstUnset_mem s hne
  have h2 : s.clock_list.indexOf (firstUnset s) < s.clock_list.length :=
    List.indexOf_lt_length.2 hv
  refine ⟨?_, hs.nodup.erase _,
    UMap.keys_erase_nodup _ _ (keys_clearBits_nodup _ _ hs.keys_nodup), ?_⟩
  · simp only [List.length_erase_of_mem hv]; omega
  · intro x
    simp only [UMap.mem_keys_erase, mem_keys_clearBits, hs.keys_iff, hs.nodup.mem_erase_iff]
    constructor
    · rintro ⟨h | h, hx⟩
      · exact ⟨hx, passedOver_subset s x h⟩
      · exact ⟨hx, h⟩
    · exact fun h => ⟨Or.inr h.2, h.1⟩

/-- Joint invariant of the reachable states. -/
theorem step_invariant {s : CLOCKReplacer} (hs : WF s) (hc : Size s ≤ s.capacity) (op : Op) :
    WF (step s op).2 ∧ Size (step s op).2 ≤ (step s op).2.capacity ∧
    (step s op).2.capacity = s.capacity := by
  cases op with
  | victim =>
    by_cases hne : s.clock_list = []
    · simp only [step, Victim_empty hne, Option.getD_some]
      exact ⟨hs, hc, trivial⟩
    · simp only [step, Victim_nonempty hs hne, Option.getD_some]
      refine ⟨WF_Victim hs hne, ?_, trivial⟩
      simp only [Size, List.length_erase_of_mem (firstUnset_mem s hne)] at hc ⊢
      omega
  | pin f =>
    refine ⟨WF_Pin hs f, ?_, ?_⟩
    · by_cases hf : f ∈ s.clock_list
      · simp only [step, Pin_member hs hf, Size, List.length_erase_of_mem hf] at hc ⊢
        omega
      · simp only [step, Pin_absent hs hf]; exact hc
    · by_cases hf : f ∈ s.clock_list
      · simp only [step, Pin_member hs hf]
      · simp only [step, Pin_absent hs hf]
  | unpin f =>
    refine ⟨WF_Unpin hs f, ?_, ?_⟩
    · by_cases hf : f ∈ s.clock_list
      · simp only [step, Unpin_member hs hf]; exact hc
      · by_cases hcap : s.capacity ≤ s.clock_list.length
        · simp only [step, Unpin_full hs hf hcap]; exact hc
        · simp only [step, Unpin_append hs hf (by omega), Size, List.length_append,
            List.length_singleton]
          omega
    · by_cases hf : f ∈ s.clock_list
      · simp only [step, Unpin_member hs hf]
      · by_cases hcap : s.capacity ≤ s.clock_list.length
        · simp only [step, Unpin_full hs hf hcap]
        · simp only [step, Unpin_append hs hf (by omega)]

theorem run_invariant (ops : List Op) {s : CLOCKReplacer} (hs : WF s)
    (hc : Size s ≤ s.capacity) :
    WF (run s ops).2 ∧ Size (run s ops).2 ≤ (run s ops).2.capacity := by
  induction ops generalizing s with
  | nil => exact ⟨hs, hc⟩
  | cons op ops ih =>
    have h := step_invariant hs hc op
    exact ih h.1 h.2.1

theorem Reachable.wf {s : CLOCKReplacer} (h : Reachable s) : WF s ∧ Size s ≤ s.capacity := by
  obtain ⟨n, ops, rfl⟩ := h
  exact run_invariant ops (WF_new n) (Nat.zero_le _)

/-- A frame that is not a member is not returned by `Victim` as long as it is
not unpinned. -/
theorem not_victim_of_not_mem (f : frame_id_t) (ops : List Op) {s : CLOCKReplacer} (hs : WF s)
    (hc : Size s ≤ s.capacity) (hf : f ∉ s.clock_list) (hops : ∀ op ∈ ops, op ≠ Op.unpin f) :
    some f ∉ (run s ops).1 := by
  induction ops generalizing s with
  | nil => simp [run]
  | cons op ops ih =>
    have hinv := step_invariant hs hc op
    have hstep : (step s op).1 ≠ some f ∧ f ∉ (step s op).2.clock_list := by
      cases op with
      | victim =>
        by_cases hne : s.clock_list = []
        · simp only [step, Victim_empty hne, Option.getD_some]
          exact ⟨by simp, hf⟩
        · simp only [step, Victim_nonempty hs hne, Option.getD_some]
          refine ⟨?_, fun h => hf (List.mem_of_mem_erase h)⟩
          intro h
          have := firstUnset_mem s hne
          rw [Option.some.inj h] at this
          exact hf this
      | pin g =>
        refine ⟨by simp [step], ?_⟩
        by_cases hg : g ∈ s.clock_list
        · simp only [step, Pin_member hs hg]
          exact fun h => hf (List.mem_of_mem_erase h)
        · simp only [step, Pin_absent hs hg]; exact hf
      | unpin g =>
        have hgf : g ≠ f := fun e => hops (Op.unpin g) (List.mem_cons_self _ _) (by rw [e])
        refine ⟨by simp [step], ?_⟩
        by_cases hg : g ∈ s.clock_list
        · simp only [step, Unpin_member hs hg]; exact hf
        · by_cases hcap : s.capacity ≤ s.clock_list.length
          · simp only [step, Unpin_full hs hg hcap]; exact hf
          · simp only [step, Unpin_append hs hg (by omega), List.mem_append,
              List.mem_singleton, not_or]
            exact ⟨hf, fun e => hgf e.symm⟩
    have hrest := ih hinv.1 hinv.2.1 hstep.2 (fun o ho => hops o (List.mem_cons_of_mem _ ho))
    simp only [run, List.mem_cons, not_or]
    exact ⟨fun e => hstep.1 e.symm, hrest⟩

end CLOCKReplacer

namespace CLOCKReplacer

theorem headD_circular (s : CLOCKReplacer) (hh : s.clock_hand_ ≤ s.clock_list.length)
    (hne : s.clock_list ≠ []) :
    (circular s).headD 0
      = s.clock_list.getD (if s.clock_hand_ = s.clock_list.length then 0 else s.clock_hand_) 0 := by
  have hpos : 0 < s.clock_list.length := List.length_pos.2 hne
  have hhand : (if s.clock_hand_ = s.clock_list.length then 0 else s.clock_hand_)
      < s.clock_list.length := by
    split <;> omega
  unfold circular
  generalize (if s.clock_hand_ = s.clock_list.length then 0 else s.clock_hand_) = hand at hhand ⊢
  show (List.drop hand s.clock_list ++ List.take hand s.clock_list).headD 0 = _
  rw [List.drop_eq_getElem_cons hhand, List.getD_eq_getElem _ _ hhand]
  rfl

theorem firstUnset_of_all_set (s : CLOCKReplacer) (hh : s.clock_hand_ ≤ s.clock_list.length)
    (hne : s.clock_list ≠ []) (hall : ∀ f ∈ s.clock_list, bitSet s f = true) :
    firstUnset s
      = s.clock_list.getD (if s.clock_hand_ = s.clock_list.length then 0 else s.clock_hand_) 0 ∧
    passedOver s = circular s := by
  have hc : ∀ f ∈ circular s, bitSet s f = true := fun f hf => hall f ((mem_circular s f).1 hf)
  constructor
  · rw [← headD_circular s hh hne]
    simp only [firstUnset, find_all _ _ hc, Option.getD_none]
  · exact takeWhile_all _ _ hc

theorem firstUnset_of_some_unset (s : CLOCKReplacer)
    (hex : ∃ f ∈ s.clock_list, bitSet s f = false) :
    bitSet s (firstUnset s) = false ∧
    ∃ rest, circular s = passedOver s ++ firstUnset s :: rest := by
  rcases split_first (bitSet s) (circular s) with hall | ⟨a, x, b, hc, ha, hx⟩
  · obtain ⟨f, hf, hb⟩ := hex
    rw [hall f ((mem_circular s f).2 hf)] at hb
    cases hb
  · have h1 : firstUnset s = x := by
      simp only [firstUnset, hc, find_split _ _ _ _ ha hx, Option.getD_some]
    have h2 : passedOver s = a := by
      simp only [passedOver, hc, takeWhile_split _ _ _ _ ha hx]
    rw [h1, h2]
    exact ⟨hx, b, hc⟩

theorem passedOver_set (s : CLOCKReplacer) (f : frame_id_t) (hf : f ∈ passedOver s) :
    bitSet s f = true :=
  List.mem_takeWhile_imp hf

/-- C6. `CLOCKReplacer::Victim` returns on every state whose hand is a valid
iterator, with the same result for every amount of loop fuel from
`Size() + 1` on.  On an empty replacer it returns `false` and changes nothing.
On a non-empty well-formed replacer it returns `true` with the first member, in
circular order from the hand, whose reference bit is not set (all members
before it in that order have their bit set and get it cleared), or with the
member at the hand when every bit is set; exactly that member is removed
and `Size()` drops by one.  On the trace of the unit test the victims are
1, 2, 5, 3, 6 and the final size is 0. -/
theorem Victim_contract :
    (∀ s : CLOCKReplacer, s.clock_hand_ ≤ s.clock_list.length →
      ∃ r, Victim s = some r ∧ ∀ k, VictimFuel (s.clock_list.length + 1 + k) s = some r) ∧
    (∀ s : CLOCKReplacer, s.clock_list = [] → Victim s = some (none, s)) ∧
    (∀ s : CLOCKReplacer, WF s → s.clock_list ≠ [] →
      Victim s = some (some (firstUnset s),
        ⟨s.capacity, s.clock_list.erase (firstUnset s),
          UMap.erase (clearBits s.clock_status (passedOver s)) (firstUnset s),
          s.clock_list.indexOf (firstUnset s)⟩) ∧
      firstUnset s ∈ s.clock_list ∧
      (s.clock_list.erase (firstUnset s)).length + 1 = Size s ∧
      (∀ f ∈ passedOver s, bitSet s f = true) ∧
      ((∃ f ∈ s.clock_list, bitSet s f = false) →
        bitSet s (firstUnset s) = false ∧
        ∃ rest, circular s = passedOver s ++ firstUnset s :: rest) ∧
      ((∀ f ∈ s.clock_list, bitSet s f = true) →
        firstUnset s = s.clock_list.getD
          (if s.clock_hand_ = s.clock_list.length then 0 else s.clock_hand_) 0 ∧
        passedOver s = circular s)) ∧
    (run (new 7) [.unpin 1, .unpin 2, .unpin 3, .unpin 4, .unpin 5, .victim, .victim, .pin 4,
        .unpin 3, .unpin 6, .victim, .victim, .victim]).1
      = [none, none, none, none, none, some 1, some 2, none, none, none, some 5, some 3, some 6] ∧
    Size (run (new 7) [.unpin 1, .unpin 2, .unpin 3, .unpin 4, .unpin 5, .victim, .victim, .pin 4,
        .unpin 3, .unpin 6, .victim, .victim, .victim]).2 = 0 := by
  refine ⟨?_, fun s h => Victim_empty h, ?_, by decide, by decide⟩
  · intro s hh
    obtain ⟨r, hr⟩ := Option.isSome_iff_exists.1 (Victim_isSome s hh)
    refine ⟨r, hr, fun k => ?_⟩
    unfold Victim VictimFuel at hr
    unfold VictimFuel
    by_cases he : s.clock_list.isEmpty = true
    · rw [if_pos he] at hr ⊢; exact hr
    · rw [if_neg he] at hr ⊢
      cases hl : VictimLoop (s.clock_list.length + 1) s with
      | none => rw [hl] at hr; cases hr
      | some r' =>
        rw [hl] at hr
        rw [VictimLoop_mono _ k _ _ hl]
        exact hr
  · intro s hs hne
    have hv := firstUnset_mem s hne
    refine ⟨Victim_nonempty hs hne, hv, ?_, passedOver_set s, firstUnset_of_some_unset s,
      firstUnset_of_all_set s hs.hand_le hne⟩
    rw [List.length_erase_of_mem hv, Size]
    have := List.length_pos.2 hne
    omega

end CLOCKReplacer

namespace CLOCKReplacer

/-- Instance of `Victim_contract` at the state of the unit test after frames
1 to 5 have been unpinned: every bit is set, the hand is on frame 1, and the
victim is frame 1. -/
theorem Victim_contract_witness :
    Victim (run (new 7) [.unpin 1, .unpin 2, .unpin 3, .unpin 4, .unpin 5]).2
      = some (some 1, ⟨7, [2, 3, 4, 5], [(5, 0), (4, 0), (3, 0), (2, 0)], 0⟩) :=
  (Victim_contract.2.2.1 (run (new 7) [.unpin 1, .unpin 2, .unpin 3, .unpin 4, .unpin 5]).2
    (Reachable.wf ⟨7, _, rfl⟩).1 (by decide)).1.trans (by decide)

/-- C8. `CLOCKReplacer::Unpin(f)` in a reachable state: if `f` is a member, only
the reference bit of `f` changes, to 1 (membership, list order, hand and size
are unchanged); if `f` is absent and `Size() < capacity`, `f` is appended with
reference bit 1, the bits of the other frames are unchanged and `Size()` grows
by one; if `f` is absent and `Size() >= capacity` the state is unchanged.
`Size() <= capacity` holds in every reachable state. -/
theorem Unpin_contract (s : CLOCKReplacer) (hs : Reachable s) (f : frame_id_t) :
    (f ∈ s.clock_list →
      Unpin s f = { s with clock_status := UMap.insert s.clock_status f 1 } ∧
      (Unpin s f).clock_list = s.clock_list ∧ Size (Unpin s f) = Size s ∧
      UMap.find (Unpin s f).clock_status f = some 1 ∧
      ∀ g, g ≠ f → UMap.find (Unpin s f).clock_status g = UMap.find s.clock_status g) ∧
    (f ∉ s.clock_list → Size s < s.capacity →
      (Unpin s f).clock_list = s.clock_list ++ [f] ∧ Size (Unpin s f) = Size s + 1 ∧
      UMap.find (Unpin s f).clock_status f = some 1 ∧
      ∀ g, g ≠ f → UMap.find (Unpin s f).clock_status g = UMap.find s.clock_status g) ∧
    (f ∉ s.clock_list → Size s ≥ s.capacity → Unpin s f = s) ∧
    Size s ≤ s.capacity := by
  have hwf := hs.wf.1
  refine ⟨?_, ?_, fun hf hcap => Unpin_full hwf hf hcap, hs.wf.2⟩
  · intro hf
    rw [Unpin_member hwf hf]
    exact ⟨rfl, rfl, rfl, UMap.find_insert_self _ _ _, fun g hg => UMap.find_insert_ne _ _ hg⟩
  · intro hf hcap
    rw [Unpin_append hwf hf hcap]
    refine ⟨rfl, ?_, UMap.find_insert_self _ _ _, fun g hg => UMap.find_insert_ne _ _ hg⟩
    simp [Size]

/-- Instance of `Unpin_contract` at the state of the unit test in which frame 3
is unpinned a second time. -/
theorem Unpin_contract_witness :
    Size (Unpin (run (new 7) [.unpin 1, .unpin 2, .unpin 3, .unpin 4, .unpin 5, .victim,
      .victim, .pin 4]).2 3) = 2 ∧
    UMap.find (Unpin (run (new 7) [.unpin 1, .unpin 2, .unpin 3, .unpin 4, .unpin 5, .victim,
      .victim, .pin 4]).2 3).clock_status 3 = some 1 :=
  have h := (Unpin_contract (run (new 7) [.unpin 1, .unpin 2, .unpin 3, .unpin 4, .unpin 5,
    .victim, .victim, .pin 4]).2 ⟨7, _, rfl⟩ 3).1 (by decide)
  ⟨h.2.2.1.trans (by decide), h.2.2.2.1⟩

/-- C9. `CLOCKReplacer::Pin(f)` in a reachable state: if `f` is a member it is
removed, `Size()` drops by one, the other members keep their order and their
reference bits, a hand that was on `f` is on the member that followed `f` (or on
`end()`), and a hand that was elsewhere stays on its member (or on `end()`);
if `f` is not a member the state is unchanged.  After `Pin(f)`, no sequence of
calls without `Unpin(f)` makes `Victim` return `f`. -/
theorem Pin_contract (s : CLOCKReplacer) (hs : Reachable s) (f : frame_id_t) :
    (f ∈ s.clock_list →
      (Pin s f).clock_list = s.clock_list.filter (fun g => decide (g ≠ f)) ∧
      Size (Pin s f) + 1 = Size s ∧
      UMap.find (Pin s f).clock_status f = none ∧
      (∀ g, g ≠ f → UMap.find (Pin s f).clock_status g = UMap.find s.clock_status g) ∧
      (s.clock_hand_ = s.clock_list.indexOf f →
        (Pin s f).clock_list[(Pin s f).clock_hand_]? = s.clock_list[s.clock_hand_ + 1]?) ∧
      (s.clock_hand_ ≠ s.clock_list.indexOf f →
        (Pin s f).clock_list[(Pin s f).clock_hand_]? = s.clock_list[s.clock_hand_]?)) ∧
    (f ∉ s.clock_list → Pin s f = s) ∧
    (∀ ops : List Op, (∀ op ∈ ops, op ≠ Op.unpin f) → some f ∉ (run (Pin s f) ops).1) := by
  have hwf := hs.wf.1
  refine ⟨?_, fun hf => Pin_absent hwf hf, ?_⟩
  · intro hf
    have hlt : s.clock_list.indexOf f < s.clock_list.length := List.indexOf_lt_length.2 hf
    rw [Pin_member hwf hf]
    refine ⟨?_, ?_, UMap.find_erase_self _ _, fun g hg => UMap.find_erase_ne _ hg, ?_, ?_⟩
    · simp only [hwf.nodup.erase_eq_filter]
      apply List.filter_congr
      intro x _
      by_cases hx : x = f <;> simp [hx]
    · simp only [Size, List.length_erase_of_mem hf]; omega
    · intro hh
      simp only [hh, if_true, ← List.eraseIdx_indexOf_eq_erase]
      rw [List.getElem?_eraseIdx_of_ge _ _ _ (Nat.le_refl _)]
    · intro hh
      simp only [if_neg hh, ← List.eraseIdx_indexOf_eq_erase]
      by_cases hlt' : s.clock_list.indexOf f < s.clock_hand_
      · rw [if_pos hlt', List.getElem?_eraseIdx_of_ge _ _ _ (by omega)]
        congr 1; omega
      · rw [if_neg hlt', List.getElem?_eraseIdx_of_lt _ _ _ (by omega)]
  · intro ops hops
    have hinv := step_invariant hwf hs.wf.2 (Op.pin f)
    apply not_victim_of_not_mem f ops hinv.1 hinv.2.1 _ hops
    show f ∉ (Pin s f).clock_list
    by_cases hf : f ∈ s.clock_list
    · rw [Pin_member hwf hf]
      simp only [hwf.nodup.mem_erase_iff]
      exact fun h => h.1 rfl
    · rw [Pin_absent hwf hf]; exact hf

/-- Instance of `Pin_contract` at the state of the unit test in which frame 4 is
pinned. -/
theorem Pin_contract_witness :
    (Pin (run (new 7) [.unpin 1, .unpin 2, .unpin 3, .unpin 4, .unpin 5, .victim,
      .victim]).2 4).clock_list = [3, 5] :=
  ((Pin_contract (run (new 7) [.unpin 1, .unpin 2, .unpin 3, .unpin 4, .unpin 5, .victim,
    .victim]).2 ⟨7, _, rfl⟩ 4).1 (by decide)).1.trans (by decide)

end CLOCKReplacer

/-! ### `BitmapPage` -/

namespace BitmapPage

theorem and_two_pow_eq_zero_iff (x k : Nat) : x &&& 2 ^ k = 0 ↔ x.testBit k = false := by
  constructor
  · intro h
    have := Nat.testBit_and x (2 ^ k) k
    rw [h, Nat.zero_testBit, Nat.testBit_two_pow_self, Bool.and_true] at this
    exact this.symm
  · intro h
    apply Nat.eq_of_testBit_eq
    intro i
    rw [Nat.testBit_and, Nat.zero_testBit, Nat.testBit_two_pow]
    by_cases hki : k = i
    · subst hki; simp [h]
    · simp [hki]

theorem div_mod_eq {p q : Nat} (h1 : q / 8 = p / 8) (h2 : q % 8 = p % 8) : q = p := by
  omega

theorem IsPageFree_iff {PageSize : Nat} (b : BitmapPage PageSize) (p : Nat)
    (hp : p < GetMaxSupportedSize PageSize) : IsPageFree b p = true ↔ bit b p = false := by
  have h1 : ¬ p ≥ GetMaxSupportedSize PageSize := by omega
  have h2 : ¬ p % 8 ≥ 8 := by omega
  simp only [IsPageFree, IsPageFreeLow, h1, h2, if_false, decide_eq_true_eq, Nat.one_shiftLeft,
    bit]
  exact and_two_pow_eq_zero_iff _ _

theorem IsPageFree_lt {PageSize : Nat} (b : BitmapPage PageSize) (p : Nat)
    (h : IsPageFree b p = true) : p < GetMaxSupportedSize PageSize := by
  unfold IsPageFree at h
  by_contra hp
  rw [if_pos (by omega)] at h
  cases h

theorem testBit_setBit (bytes : List Nat) (p q : Nat) (hp : p / 8 < bytes.length) :
    ((setBit bytes p).getD (q / 8) 0).testBit (q % 8)
      = if q = p then true else (bytes.getD (q / 8) 0).testBit (q % 8) := by
  have hq8 : q % 8 < 8 := Nat.mod_lt _ (by decide)
  simp only [setBit, List.getD_eq_getElem?_getD, List.getElem?_set]
  by_cases hb : p / 8 = q / 8
  · rw [if_pos hb, if_pos hp, Option.getD_some]
    have e : (256 : Nat) = 2 ^ 8 := by norm_num
    rw [e, Nat.testBit_mod_two_pow, Nat.testBit_or, Nat.one_shiftLeft, Nat.testBit_two_pow, hb]
    by_cases hqp : q = p
    · subst hqp; simp [hq8]
    · have hne : ¬ p % 8 = q % 8 := fun e => hqp (div_mod_eq hb.symm e.symm)
      simp [hq8, hqp, hne]
  · have hne : q ≠ p := fun e => hb (by rw [e])
    rw [if_neg hb, if_neg hne]

theorem testBit_clearBit (bytes : List Nat) (p q : Nat) (hp : p / 8 < bytes.length) :
    ((clearBit bytes p).getD (q / 8) 0).testBit (q % 8)
      = if q = p then false else (bytes.getD (q / 8) 0).testBit (q % 8) := by
  have hq8 : q % 8 < 8 := Nat.mod_lt _ (by decide)
  have hq32 : q % 8 < 32 := by omega
  simp only [clearBit, List.getD_eq_getElem?_getD, List.getElem?_set]
  by_cases hb : p / 8 = q / 8
  · rw [if_pos hb, if_pos hp, Option.getD_some]
    have e : (256 : Nat) = 2 ^ 8 := by norm_num
    rw [e, Nat.testBit_mod_two_pow, Nat.testBit_and, Nat.testBit_xor,
      Nat.testBit_two_pow_sub_one, Nat.one_shiftLeft, Nat.testBit_two_pow, hb]
    by_cases hqp : q = p
    · subst hqp; simp [hq8, hq32]
    · have hne : ¬ p % 8 = q % 8 := fun e => hqp (div_mod_eq hb.symm e.symm)
      simp [hq8, hq32, hqp, hne]
  · have hne : q ≠ p := fun e => hb (by rw [e])
    rw [if_neg hb, if_neg hne]

theorem countP_flip_true (l : List Nat) (hnd : l.Nodup) (p : Nat) (hp : p ∈ l)
    (f g : Nat → Bool) (hfp : f p = false) (hgp : g p = true)
    (hne : ∀ q, q ≠ p → g q = f q) : l.countP g = l.countP f + 1 := by
  induction l with
  | nil => cases hp
  | cons c l ih =>
    have hnd' := List.nodup_cons.1 hnd
    by_cases hc : c = p
    · subst hc
      have : l.countP g = l.countP f := by
        apply List.countP_congr
        intro x hx
        have hxc : x ≠ c := fun e => hnd'.1 (e ▸ hx)
        rw [hne x hxc]
      simp [List.countP_cons, hfp, hgp, this]
    · have hp' : p ∈ l := by
        rcases List.mem_cons.1 hp with h | h
        · exact absurd h.symm hc
        · exact h
      simp only [List.countP_cons, ih hnd'.2 hp', hne c hc]
      omega

theorem popcount_setBit {PageSize : Nat} (b b' : BitmapPage PageSize) (p : Nat)
    (hlen : b.bytes.length = MAX_CHARS PageSize) (hp : p < GetMaxSupportedSize PageSize)
    (hfree : bit b p = false) (hb' : b'.bytes = setBit b.bytes p) :
    popcount b' = popcount b + 1 := by
  have hp8 : p / 8 < b.bytes.length := by
    rw [hlen]; unfold GetMaxSupportedSize at hp; omega
  apply countP_flip_true _ (List.nodup_range _) p (List.mem_range.2 hp) _ _ hfree
  · simp only [bit, hb', testBit_setBit _ _ _ hp8, if_true]
  · intro q hq
    simp only [bit, hb', testBit_setBit _ _ _ hp8, if_neg hq]

theorem popcount_clearBit {PageSize : Nat} (b b' : BitmapPage PageSize) (p : Nat)
    (hlen : b.bytes.length = MAX_CHARS PageSize) (hp : p < GetMaxSupportedSize PageSize)
    (hused : bit b p = true) (hb' : b'.bytes = clearBit b.bytes p) :
    popcount b' + 1 = popcount b := by
  have hp8 : p / 8 < b.bytes.length := by
    rw [hlen]; unfold GetMaxSupportedSize at hp; omega
  symm
  apply countP_flip_true _ (List.nodup_range _) p (List.mem_range.2 hp) _ _ _ hused
  · intro q hq
    simp only [bit, hb', testBit_clearBit _ _ _ hp8, if_neg hq]
  · simp only [bit, hb', testBit_clearBit _ _ _ hp8, if_true]

theorem popcount_le {PageSize : Nat} (b : BitmapPage PageSize) :
    popcount b ≤ GetMaxSupportedSize PageSize := by
  have := List.countP_le_length (bit b) (l := List.range (GetMaxSupportedSize PageSize))
  simpa [popcount] using this

theorem allocateAt_fields {PageSize : Nat} (b : BitmapPage PageSize) (p : Nat) :
    (allocateAt b p).bytes = setBit b.bytes p ∧
    (allocateAt b p).page_allocated_ = u32 (b.page_allocated_ + 1) := by
  unfold allocateAt
  simp only
  split
  · exact ⟨rfl, rfl⟩
  · split
    · exact ⟨rfl, rfl⟩
    · split <;> exact ⟨rfl, rfl⟩

theorem findFree_some {PageSize : Nat} (b : BitmapPage PageSize) (lo hi p : Nat)
    (h : findFree b lo hi = some p) : IsPageFree b p = true :=
  List.find?_some h

theorem allocateAt_inv {PageSize : Nat} (hsize : GetMaxSupportedSize PageSize < 2 ^ 32)
    (b : BitmapPage PageSize) (p : Nat) (hlen : b.bytes.length = MAX_CHARS PageSize)
    (hcount : b.page_allocated_ = popcount b) (hfree : IsPageFree b p = true) :
    (allocateAt b p).bytes.length = MAX_CHARS PageSize ∧
    (allocateAt b p).page_allocated_ = popcount (allocateAt b p) := by
  have hp := IsPageFree_lt b p hfree
  have hbit := (IsPageFree_iff b p hp).1 hfree
  have hf := allocateAt_fields b p
  have hpc := popcount_setBit b (allocateAt b p) p hlen hp hbit hf.1
  constructor
  · rw [hf.1, setBit, List.length_set, hlen]
  · rw [hf.2, hpc, hcount, u32]
    have := popcount_le (allocateAt b p)
    apply Nat.mod_eq_of_lt
    omega

theorem AllocatePage_inv {PageSize : Nat} (hsize : GetMaxSupportedSize PageSize < 2 ^ 32)
    (b : BitmapPage PageSize) (hlen : b.bytes.length = MAX_CHARS PageSize)
    (hcount : b.page_allocated_ = popcount b) :
    (AllocatePage b).2.bytes.length = MAX_CHARS PageSize ∧
    (AllocatePage b).2.page_allocated_ = popcount (AllocatePage b).2 := by
  unfold AllocatePage
  split
  · exact ⟨hlen, hcount⟩
  · split
    · rename_i p hfind
      exact allocateAt_inv hsize b p hlen hcount (findFree_some b _ _ p hfind)
    · split
      · rename_i p hfind
        exact allocateAt_inv hsize b p hlen hcount (findFree_some b _ _ p hfind)
      · exact ⟨hlen, hcount⟩

theorem DeAllocatePage_inv {PageSize : Nat} (hsize : GetMaxSupportedSize PageSize < 2 ^ 32)
    (b : BitmapPage PageSize) (p : Nat) (hlen : b.bytes.length = MAX_CHARS PageSize)
    (hcount : b.page_allocated_ = popcount b) :
    (DeAllocatePage b p).2.bytes.length = MAX_CHARS PageSize ∧
    (DeAllocatePage b p).2.page_allocated_ = popcount (DeAllocatePage b p).2 := by
  unfold DeAllocatePage
  split
  · exact ⟨hlen, hcount⟩
  · rename_i hp
    split
    · exact ⟨hlen, hcount⟩
    · rename_i hfree
      have hp' : p < GetMaxSupportedSize PageSize := by omega
      have hbit : bit b p = true := by
        cases hb : bit b p with
        | true => rfl
        | false => exact absurd ((IsPageFree_iff b p hp').2 hb) hfree
      have key : ∀ b' : BitmapPage PageSize, b'.bytes = clearBit b.bytes p →
          b'.page_allocated_ = u32 (b.page_allocated_ + (2 ^ 32 - 1)) →
          b'.bytes.length = MAX_CHARS PageSize ∧ b'.page_allocated_ = popcount b' := by
        intro b' h1 h2
        have hpc := popcount_clearBit b b' p hlen hp' hbit h1
        constructor
        · rw [h1, clearBit, List.length_set, hlen]
        · rw [h2, hcount, ← hpc, u32]
          have := popcount_le b
          rw [← hpc] at this
          omega
      simp only
      split
      · exact key _ rfl rfl
      · exact key _ rfl rfl

theorem zero_inv (PageSize : Nat) :
    (zero PageSize).bytes.length = MAX_CHARS PageSize ∧
    (zero PageSize).page_allocated_ = popcount (zero PageSize) := by
  constructor
  · simp [zero]
  · symm
    simp only [popcount, zero]
    rw [List.countP_eq_zero]
    intro p _
    simp only [bit, List.getD_eq_getElem?_getD]
    rw [List.getElem?_replicate]
    split <;> simp

theorem run_inv {PageSize : Nat} (hsize : GetMaxSupportedSize PageSize < 2 ^ 32) (ops : List Op)
    (b : BitmapPage PageSize) (hlen : b.bytes.length = MAX_CHARS PageSize)
    (hcount : b.page_allocated_ = popcount b) :
    (run b ops).bytes.length = MAX_CHARS PageSize ∧
    (run b ops).page_allocated_ = popcount (run b ops) := by
  induction ops generalizing b with
  | nil => exact ⟨hlen, hcount⟩
  | cons op ops ih =>
    cases op with
    | allocate =>
      have h := AllocatePage_inv hsize b hlen hcount
      exact ih _ h.1 h.2
    | deallocate p =>
      have h := DeAllocatePage_inv hsize b (u32 p) hlen hcount
      exact ih _ h.1 h.2

/-- C2. In every `BitmapPage` state reachable from the all-zero page by
`AllocatePage` and `DeAllocatePage` calls (successful or not), `page_allocated_`
is the number of 1 bits among the first `GetMaxSupportedSize()` bits of the bit
array, and for every offset `p < GetMaxSupportedSize()`, `IsPageFree(p)` holds
exactly when bit `p` is 0.  (`GetMaxSupportedSize()` fits the `uint32_t`
counters, as it does for every instantiated page size.) -/
theorem allocated_eq_popcount {PageSize : Nat} (hsize : GetMaxSupportedSize PageSize < 2 ^ 32)
    (b : BitmapPage PageSize) (hb : Reachable b) :
    b.page_allocated_ = popcount b ∧
    ∀ p, p < GetMaxSupportedSize PageSize → (IsPageFree b p = true ↔ bit b p = false) := by
  obtain ⟨ops, rfl⟩ := hb
  exact ⟨(run_inv hsize ops _ (zero_inv PageSize).1 (zero_inv PageSize).2).2,
    fun p hp => IsPageFree_iff _ p hp⟩

/-- Instance of `allocated_eq_popcount` for a 64-byte page after three
allocations and the release of offset 1. -/
theorem allocated_eq_popcount_witness :
    (run (zero 64) [.allocate, .allocate, .allocate, .deallocate 1]).page_allocated_ = 2 ∧
    popcount (run (zero 64) [.allocate, .allocate, .allocate, .deallocate 1]) = 2 :=
  have h := (@allocated_eq_popcount 64 (by decide)
    (run (zero 64) [.allocate, .allocate, .allocate, .deallocate 1]) ⟨_, rfl⟩).1
  ⟨by decide, h ▸ by decide⟩

end BitmapPage

namespace BitmapPage

theorem findFree_first {PageSize : Nat} (b : BitmapPage PageSize) (lo hi : Nat) (h : lo < hi)
    (hfree : IsPageFree b lo = true) : findFree b lo hi = some lo := by
  unfold findFree
  obtain ⟨m, hm⟩ : ∃ m, hi - lo = m + 1 := ⟨hi - lo - 1, by omega⟩
  rw [hm, List.range'_succ, List.find?_cons_of_pos _ hfree]

theorem PrefixFull_zero (PageSize : Nat) : PrefixFull (zero PageSize) 0 := by
  refine ⟨by simp [zero], rfl, rfl, ?_⟩
  intro p _
  simp only [bit, zero, List.getD_eq_getElem?_getD, List.getElem?_replicate]
  split <;> simp

/-- On a page whose first `k` offsets are allocated, `AllocatePage` hands out
offset `k` and leaves a page whose first `k + 1` offsets are allocated. -/
theorem AllocatePage_PrefixFull {PageSize : Nat} (hsize : GetMaxSupportedSize PageSize < 2 ^ 32)
    (b : BitmapPage PageSize) (k : Nat) (hb : PrefixFull b k)
    (hk : k < GetMaxSupportedSize PageSize) :
    AllocatePage b = (some k, (AllocatePage b).2) ∧ PrefixFull (AllocatePage b).2 (k + 1) := by
  obtain ⟨hlen, hcount, hnext, hbits⟩ := hb
  have hfree : IsPageFree b k = true := by
    rw [IsPageFree_iff b k hk, hbits k hk]
    simp
  have hfind : findFree b k (GetMaxSupportedSize PageSize) = some k :=
    findFree_first b _ _ hk hfree
  have hge : ¬ k ≥ GetMaxSupportedSize PageSize := by omega
  have hA : AllocatePage b = (some k, allocateAt b k) := by
    simp only [AllocatePage, hcount, hge, if_false, hnext, hfind]
  rw [hA]
  refine ⟨rfl, ?_⟩
  have hk8 : k / 8 < b.bytes.length := by
    rw [hlen]; unfold GetMaxSupportedSize at hk; omega
  have hu : u32 (k + 1) = k + 1 := by
    unfold u32
    exact Nat.mod_eq_of_lt (by omega)
  have hf := allocateAt_fields b k
  have hbit : ∀ p, p < GetMaxSupportedSize PageSize →
      ((setBit b.bytes k).getD (p / 8) 0).testBit (p % 8) = decide (p < k + 1) := by
    intro p hp
    rw [testBit_setBit _ _ _ hk8]
    by_cases hpk : p = k
    · simp [hpk]
    · have := hbits p hp
      simp only [bit] at this
      rw [if_neg hpk, this]
      simp only [decide_eq_decide]
      omega
  refine ⟨?_, ?_, ?_, ?_⟩
  · rw [hf.1]
    simp [setBit, hlen]
  · rw [hf.2, hcount, hu]
  · unfold allocateAt
    simp only [hcount, hu]
    split
    · rename_i h
      simp only
      exact h.symm
    · rename_i h
      have hk1 : k + 1 < GetMaxSupportedSize PageSize := by omega
      have hfree1 : IsPageFree
          ({ b with bytes := setBit b.bytes k, page_allocated_ := k + 1 } : BitmapPage PageSize)
          (k + 1) = true := by
        rw [IsPageFree_iff _ _ hk1]
        simp only [bit]
        rw [hbit (k + 1) hk1]
        simp
      rw [findFree_first _ _ _ hk1 hfree1]
  · intro p hp
    simp only [bit, hf.1]
    exact hbit p hp

end BitmapPage

/-! ### `Row` -/

theorem MACH_READ_WRITE_UINT32 (v : Nat) (hv : v < 2 ^ 32) (rest : List Nat) :
    MACH_READ_UINT32 (MACH_WRITE_UINT32 v ++ rest) = v := by
  simp only [MACH_READ_UINT32, MACH_WRITE_UINT32, List.cons_append, List.nil_append,
    List.getD_cons_zero, List.getD_cons_succ]
  omega

theorem MACH_WRITE_UINT32_length (v : Nat) : (MACH_WRITE_UINT32 v).length = 4 := rfl

namespace Row

/-- The mask test of the null bitmap, `byte & (1 << j)`, reads bit `j`. -/
theorem and_shift_ne_zero (x j : Nat) :
    decide (x &&& (1 <<< j) ≠ 0) = x.testBit j := by
  rw [Nat.one_shiftLeft]
  cases h : x.testBit j with
  | true =>
    have := (BitmapPage.and_two_pow_eq_zero_iff x j).not.2 (by simp [h])
    simpa using this
  | false =>
    have := (BitmapPage.and_two_pow_eq_zero_iff x j).2 h
    simp [this]

theorem nullBitmap_fold {F : Type} (c : FieldCodec F) (fields_ : List F) (L k : Nat)
    (hk : (k + 7) / 8 ≤ L) :
    ((List.range k).foldl (nullBitmapStep c fields_) (List.replicate L 0)).length = L ∧
    ∀ q, (((List.range k).foldl (nullBitmapStep c fields_) (List.replicate L 0)).getD
        (q / 8) 0).testBit (q % 8)
      = (decide (q < k) && (match fields_[q]? with
          | some f => c.IsNull f
          | none => false)) := by
  induction k with
  | zero =>
    refine ⟨by simp, fun q => ?_⟩
    simp only [List.range_zero, List.foldl_nil, List.getD_eq_getElem?_getD,
      List.getElem?_replicate]
    split <;> simp
  | succ k ih =>
    have ih' := ih (by omega)
    rw [List.range_succ, List.foldl_append]
    simp only [List.foldl_cons, List.foldl_nil]
    generalize (List.range k).foldl (nullBitmapStep c fields_) (List.replicate L 0) = bm at ih' ⊢
    have hk8 : k / 8 < bm.length := by rw [ih'.1]; omega
    have hlt : ∀ q, q ≠ k → decide (q < k + 1) = decide (q < k) := by
      intro q hq
      by_cases h : q < k
      · simp [h, Nat.lt_succ_of_lt h]
      · have : ¬ q < k + 1 := by omega
        simp [h, this]
    unfold nullBitmapStep
    cases hf : fields_[k]? with
    | none =>
      refine ⟨ih'.1, fun q => ?_⟩
      simp only []
      rw [ih'.2 q]
      by_cases hqk : q = k
      · subst hqk; simp [hf]
      · rw [hlt q hqk]
    | some f =>
      by_cases hnull : c.IsNull f = true
      · simp only [hnull, if_true]
        refine ⟨by rw [BitmapPage.setBit, List.length_set, ih'.1], fun q => ?_⟩
        rw [BitmapPage.testBit_setBit _ _ _ hk8, ih'.2 q]
        by_cases hqk : q = k
        · subst hqk; simp [hf, hnull]
        · rw [if_neg hqk, hlt q hqk]
      · have hnull' : c.IsNull f = false := by simpa using hnull
        simp only [hnull', Bool.false_eq_true, if_false]
        refine ⟨ih'.1, fun q => ?_⟩
        rw [ih'.2 q]
        by_cases hqk : q = k
        · subst hqk; simp [hf, hnull']
        · rw [hlt q hqk]

theorem nullBitmap_length {F : Type} (c : FieldCodec F) (fields_ : List F) (n : Nat)
    (hn : n + 7 < 2 ^ 32) : (nullBitmap c fields_ n).length = (n + 7) / 8 := by
  have hu : u32 (n + 7) = n + 7 := Nat.mod_eq_of_lt hn
  unfold nullBitmap
  rw [hu]
  exact (nullBitmap_fold c fields_ ((n + 7) / 8) n (Nat.le_refl _)).1

theorem nullBitmap_bit {F : Type} (c : FieldCodec F) (fields_ : List F) (n : Nat)
    (hn : n + 7 < 2 ^ 32) (q : Nat) (hq : q < n) (hqf : q < fields_.length) :
    ((nullBitmap c fields_ n).getD (q / 8) 0).testBit (q % 8) = c.IsNull fields_[q] := by
  have hu : u32 (n + 7) = n + 7 := Nat.mod_eq_of_lt hn
  unfold nullBitmap
  rw [hu, (nullBitmap_fold c fields_ ((n + 7) / 8) n (Nat.le_refl _)).2 q]
  simp [hq, List.getElem?_eq_getElem hqf]

theorem deserializeFields_flatten {F : Type} (c : FieldCodec F) (valid : F → Prop)
    (hc : c.Lawful valid) (bm : List Nat) (fs : List F) (cols : List Column) (i : Nat)
    (rest : List Nat) (htypes : fs.map c.GetTypeId = cols.map Column.type_)
    (hvalid : ∀ f ∈ fs, valid f)
    (hbits : ∀ j (hj : j < fs.length), (i + j) / 8 < bm.length ∧
      (bm.getD ((i + j) / 8) 0).testBit ((i + j) % 8) = c.IsNull fs[j]) :
    deserializeFields c bm i cols ((fs.map c.SerializeTo).flatten ++ rest)
      = some (fs, ((fs.map c.SerializeTo).flatten).length) := by
  induction fs generalizing cols i with
  | nil =>
    cases cols with
    | nil => rfl
    | cons col cols => cases htypes
  | cons f fs ih =>
    cases cols with
    | nil => cases htypes
    | cons col cols =>
      simp only [List.map_cons, List.cons.injEq] at htypes
      have h0 := hbits 0 (Nat.zero_lt_succ _)
      simp only [Nat.add_zero, List.getElem_cons_zero] at h0
      have hrt := hc.roundtrip f ((fs.map c.SerializeTo).flatten ++ rest)
        (hvalid f (List.mem_cons_self _ _))
      have ih' := ih cols (i + 1) htypes.2 (fun g hg => hvalid g (List.mem_cons_of_mem _ hg))
        (fun j hj => by
          have := hbits (j + 1) (Nat.succ_lt_succ hj)
          simp only [List.getElem_cons_succ] at this
          have e : i + 1 + j = i + (j + 1) := by omega
          rw [e]; exact this)
      simp only [deserializeFields, List.map_cons, List.flatten_cons, List.append_assoc, h0.1,
        if_true, and_shift_ne_zero, h0.2, ← htypes.1, hrt, List.drop_left, ih',
        List.length_append]

theorem foldl_size {F : Type} (c : FieldCodec F) (fs : List F) (init : Nat)
    (h : init + (fs.map c.GetSerializedSize).sum < 2 ^ 32) :
    fs.foldl (fun total_size field => u32 (total_size + c.GetSerializedSize field)) init
      = init + (fs.map c.GetSerializedSize).sum := by
  induction fs generalizing init with
  | nil => simp
  | cons f fs ih =>
    simp only [List.map_cons, List.sum_cons] at h
    have hu : u32 (init + c.GetSerializedSize f) = init + c.GetSerializedSize f :=
      Nat.mod_eq_of_lt (by omega)
    simp only [List.foldl_cons, hu, List.map_cons, List.sum_cons]
    rw [ih _ (by omega)]
    omega

theorem length_flatten_serialize {F : Type} (c : FieldCodec F) (valid : F → Prop)
    (hc : c.Lawful valid) (fs : List F) (hvalid : ∀ f ∈ fs, valid f) :
    ((fs.map c.SerializeTo).flatten).length = (fs.map c.GetSerializedSize).sum := by
  induction fs with
  | nil => rfl
  | cons f fs ih =>
    simp only [List.map_cons, List.flatten_cons, List.length_append, List.sum_cons,
      ih (fun g hg => hvalid g (List.mem_cons_of_mem _ hg)),
      hc.size_eq f (hvalid f (List.mem_cons_self _ _))]

end Row


namespace Row

/-- C3. For every row whose fields match the schema in number and type
(null fields included), `Row::DeserializeFrom` applied to the bytes written by
`Row::SerializeTo`, followed by anything, recreates the same fields with the
same null flags; both calls return the same count, the number of bytes
written, which is also `Row::GetSerializedSize`, namely
`4 + ceil(n/8) + ` the sum of the fields' serialized sizes.  `Field` is any
implementation that reports the size it writes and reads back what it wrote;
the sizes are assumed to fit the `uint32_t` results. -/
theorem serialize_deserialize {F : Type} (c : FieldCodec F) (valid : F → Prop)
    (hc : c.Lawful valid) (fields_ : List F) (schema : Schema)
    (htypes : fields_.map c.GetTypeId = schema.columns_.map Column.type_)
    (hvalid : ∀ f ∈ fields_, valid f)
    (hn : fields_.length + 7 < 2 ^ 32)
    (hsize : 4 + (fields_.length + 7) / 8 + (fields_.map c.GetSerializedSize).sum < 2 ^ 32) :
    ∃ written,
      SerializeTo c fields_ schema
        = some (4 + (fields_.length + 7) / 8 + (fields_.map c.GetSerializedSize).sum, written) ∧
      written.length = 4 + (fields_.length + 7) / 8 + (fields_.map c.GetSerializedSize).sum ∧
      GetSerializedSize c fields_ schema
        = some (4 + (fields_.length + 7) / 8 + (fields_.map c.GetSerializedSize).sum) ∧
      ∀ rest, DeserializeFrom c (written ++ rest) schema
        = (4 + (fields_.length + 7) / 8 + (fields_.map c.GetSerializedSize).sum, fields_) := by
  obtain ⟨cols, mg⟩ := schema
  simp only at htypes
  have hlen : fields_.length = cols.length := by
    have := congrArg List.length htypes
    simpa using this
  have hcnt : Schema.GetColumnCount ⟨cols, mg⟩ = fields_.length := by
    simp only [Schema.GetColumnCount, ← hlen, u32]
    exact Nat.mod_eq_of_lt (by omega)
  have hflat := length_flatten_serialize c valid hc fields_ hvalid
  have hu7 : u32 (fields_.length + 7) = fields_.length + 7 := Nat.mod_eq_of_lt hn
  have hutot : u32 (4 + (fields_.length + 7) / 8 + (fields_.map c.GetSerializedSize).sum)
      = 4 + (fields_.length + 7) / 8 + (fields_.map c.GetSerializedSize).sum :=
    Nat.mod_eq_of_lt hsize
  by_cases h0 : fields_.length = 0
  · -- no column: the header only
    have hf : fields_ = [] := List.length_eq_zero.1 h0
    have hcols : cols = [] := List.length_eq_zero.1 (by omega)
    subst hf; subst hcols
    refine ⟨MACH_WRITE_UINT32 0, ?_, ?_, ?_, fun rest => ?_⟩
    · simp [SerializeTo, Schema.GetColumnCount, u32, MACH_WRITE_UINT32]
    · simp [MACH_WRITE_UINT32]
    · simp [GetSerializedSize, Schema.GetColumnCount, u32]
    simp [DeserializeFrom, Schema.GetColumnCount, u32, MACH_READ_WRITE_UINT32, deserializeFields]
  · have hpos : 0 < fields_.length := Nat.pos_of_ne_zero h0
    have hbml := nullBitmap_length c fields_ fields_.length hn
    refine ⟨MACH_WRITE_UINT32 fields_.length ++ nullBitmap c fields_ fields_.length
      ++ (fields_.map c.SerializeTo).flatten, ?_, ?_, ?_, fun rest => ?_⟩
    · simp only [SerializeTo, hcnt, ne_eq, not_true_eq_false, if_false, gt_iff_lt, hpos, if_true,
        List.length_append, MACH_WRITE_UINT32_length, hbml, hflat, hutot]
    · simp only [List.length_append, MACH_WRITE_UINT32_length, hbml, hflat]
    · have hne : ¬ (fields_.isEmpty = true ∧ fields_.length = 0) := fun h => h0 h.2
      have hinit : u32 (4 + (fields_.length + 7) / 8) = 4 + (fields_.length + 7) / 8 :=
        Nat.mod_eq_of_lt (by omega)
      simp only [GetSerializedSize, hcnt, ne_eq, not_true_eq_false, if_false, hne, gt_iff_lt,
        hpos, if_true, hu7, hinit]
      rw [foldl_size c fields_ _ hsize]
    · have hread : MACH_READ_UINT32 (MACH_WRITE_UINT32 fields_.length
          ++ nullBitmap c fields_ fields_.length ++ (fields_.map c.SerializeTo).flatten ++ rest)
          = fields_.length := by
        rw [List.append_assoc, List.append_assoc]
        exact MACH_READ_WRITE_UINT32 _ (by omega) _
      have hdrop4 : (MACH_WRITE_UINT32 fields_.length
          ++ nullBitmap c fields_ fields_.length ++ (fields_.map c.SerializeTo).flatten ++ rest).drop 4
          = nullBitmap c fields_ fields_.length ++ ((fields_.map c.SerializeTo).flatten ++ rest) := by
        rw [List.append_assoc, List.append_assoc]
        exact List.drop_left' (MACH_WRITE_UINT32_length _)
      have htake : (nullBitmap c fields_ fields_.length
          ++ ((fields_.map c.SerializeTo).flatten ++ rest)).take ((fields_.length + 7) / 8)
          = nullBitmap c fields_ fields_.length := by
        rw [← hbml]; exact List.take_left' rfl
      have hdrop : (MACH_WRITE_UINT32 fields_.length
          ++ nullBitmap c fields_ fields_.length ++ (fields_.map c.SerializeTo).flatten ++ rest).drop
            (4 + (fields_.length + 7) / 8)
          = (fields_.map c.SerializeTo).flatten ++ rest := by
        rw [← List.drop_drop, hdrop4]
        exact List.drop_left' hbml
      have hfields := deserializeFields_flatten c valid hc
        (nullBitmap c fields_ fields_.length
          ++ List.replicate (fields_.length - (fields_.length + 7) / 8) 0)
        fields_ cols 0 rest htypes hvalid
        (fun j hj => by
          have hj8 : j / 8 < (nullBitmap c fields_ fields_.length).length := by
            rw [hbml]; omega
          simp only [Nat.zero_add, List.length_append]
          refine ⟨by omega, ?_⟩
          rw [List.getD_append _ _ _ _ hj8]
          exact nullBitmap_bit c fields_ fields_.length hn j hj hj)
      simp only [DeserializeFrom, hread, hcnt, ne_eq, not_true_eq_false, if_false, gt_iff_lt, hpos,
        if_true, hu7, hdrop4, htake, hdrop, hfields, hflat]
      rw [hutot]

end Row

namespace Field

theorem toInt32_toNat (v : Int) (h1 : -(2 ^ 31) ≤ v) (h2 : v < 2 ^ 31) :
    toInt32 (v % 2 ^ 32).toNat = v := by
  unfold toInt32
  have hnn : 0 ≤ v % 2 ^ 32 := Int.emod_nonneg _ (by norm_num)
  have hlt : v % 2 ^ 32 < 2 ^ 32 := Int.emod_lt_of_pos _ (by norm_num)
  have hmod : (v % 2 ^ 32).toNat % 2 ^ 32 = (v % 2 ^ 32).toNat := by
    apply Nat.mod_eq_of_lt
    omega
  rw [hmod]
  split <;> omega

theorem codec_lawful : codec.Lawful Valid := by
  constructor
  · intro f _; rfl
  · intro f rest hf
    cases f with
    | null t => rfl
    | int v =>
      have hnn : 0 ≤ v % 2 ^ 32 := Int.emod_nonneg _ (by norm_num)
      have hlt : v % 2 ^ 32 < 2 ^ 32 := Int.emod_lt_of_pos _ (by norm_num)
      simp only [codec, SerializeTo, GetTypeId, IsNull, DeserializeFrom, Bool.false_eq_true,
        if_false]
      rw [MACH_READ_WRITE_UINT32 _ (by omega), toInt32_toNat v hf.1 hf.2]
      rfl
    | float bits =>
      simp only [codec, SerializeTo, GetTypeId, IsNull, DeserializeFrom, Bool.false_eq_true,
        if_false]
      rw [MACH_READ_WRITE_UINT32 _ hf]
      rfl
    | chars s =>
      simp only [codec, SerializeTo, GetTypeId, IsNull, DeserializeFrom, Bool.false_eq_true,
        if_false, List.append_assoc]
      rw [MACH_READ_WRITE_UINT32 _ hf.1, List.drop_left' (MACH_WRITE_UINT32_length _),
        List.take_left' rfl]
      simp [MACH_WRITE_UINT32_length]

end Field

namespace Row

/-- Instance of `serialize_deserialize` for the `Field` class described by the
spec, on a three-column row holding an integer, a string and a null float. -/
theorem serialize_deserialize_witness :
    ∃ written,
      SerializeTo Field.codec [Field.int (-5), Field.chars [104, 105], Field.null .kTypeFloat]
        ⟨[⟨[], .kTypeInt, 4, 0, true, false⟩, ⟨[], .kTypeChar, 10, 1, true, false⟩,
          ⟨[], .kTypeFloat, 4, 2, true, false⟩], true⟩ = some (15, written) ∧
      written.length = 15 ∧
      GetSerializedSize Field.codec [Field.int (-5), Field.chars [104, 105], Field.null .kTypeFloat]
        ⟨[⟨[], .kTypeInt, 4, 0, true, false⟩, ⟨[], .kTypeChar, 10, 1, true, false⟩,
          ⟨[], .kTypeFloat, 4, 2, true, false⟩], true⟩ = some 15 ∧
      ∀ rest, DeserializeFrom Field.codec (written ++ rest)
        ⟨[⟨[], .kTypeInt, 4, 0, true, false⟩, ⟨[], .kTypeChar, 10, 1, true, false⟩,
          ⟨[], .kTypeFloat, 4, 2, true, false⟩], true⟩
        = (15, [Field.int (-5), Field.chars [104, 105], Field.null .kTypeFloat]) :=
  serialize_deserialize Field.codec Field.Valid Field.codec_lawful
    [Field.int (-5), Field.chars [104, 105], Field.null .kTypeFloat]
    ⟨[⟨[], .kTypeInt, 4, 0, true, false⟩, ⟨[], .kTypeChar, 10, 1, true, false⟩,
      ⟨[], .kTypeFloat, 4, 2, true, false⟩], true⟩
    (by decide)
    (by
      intro f hf
      simp only [List.mem_cons, List.mem_singleton, List.not_mem_nil, or_false] at hf
      rcases hf with rfl | rfl | rfl
      · exact ⟨by decide, by decide⟩
      · exact ⟨by decide, by decide⟩
      · trivial)
    (by decide) (by decide)

end Row

/-! ### `DiskManager` -/

namespace DiskManager

theorem range_map_getD (buf : List Nat) (n : Nat) (h : buf.length = n) :
    (List.range n).map (fun i => buf.getD i 0) = buf := by
  apply List.ext_getElem
  · simp [h]
  · intro i h1 h2
    simp [List.getD_eq_getElem?_getD, List.getElem?_eq_getElem h2]

theorem wrapInt32_of_lt (x : Nat) (h : x < 2 ^ 31) : wrapInt32 (x : Int) = (x : Int) := by
  unfold wrapInt32
  omega

/-- A read whose `int` offset is negative delivers a zero page and leaves the
stream failed. -/
theorem ReadPhysicalPage_negative (cfg : Config) (file : DbFile) (p : page_id_t)
    (h1 : wrapInt32 (p * cfg.PAGE_SIZE) < GetFileSize file) (h2 : file.fail = false)
    (h3 : wrapInt32 (p * cfg.PAGE_SIZE) < 0) :
    ReadPhysicalPage cfg file p = (zeroPage cfg, { file with fail := true }) := by
  simp [ReadPhysicalPage, Int.not_le.2 h1, h2, h3]

/-- A read at or behind the length reported by `GetFileSize` delivers a zero
page. -/
theorem ReadPhysicalPage_beyond (cfg : Config) (file : DbFile) (p : page_id_t)
    (h1 : GetFileSize file ≤ wrapInt32 (p * cfg.PAGE_SIZE)) :
    ReadPhysicalPage cfg file p = (zeroPage cfg, file) := by
  simp [ReadPhysicalPage, h1]

/-- Reading a page back right after writing it, while all offsets fit an
`int`. -/
theorem ReadPhysicalPage_WritePhysicalPage (cfg : Config) (file : DbFile) (p : Nat)
    (page_data : List Nat) (hfail : file.fail = false) (hsize : file.size < 2 ^ 31)
    (hp : p * cfg.PAGE_SIZE + cfg.PAGE_SIZE < 2 ^ 31) (hps : 0 < cfg.PAGE_SIZE)
    (hlen : page_data.length = cfg.PAGE_SIZE) :
    (ReadPhysicalPage cfg (WritePhysicalPage cfg file (p : Int) page_data) (p : Int)).1
      = page_data := by
  have hmod : (((p : Int) % 2 ^ 64).toNat * cfg.PAGE_SIZE) % 2 ^ 64 = p * cfg.PAGE_SIZE := by
    have hp' : p ≤ p * cfg.PAGE_SIZE := Nat.le_mul_of_pos_right _ hps
    have h1 : ((p : Int) % 2 ^ 64).toNat = p := by omega
    rw [h1]
    apply Nat.mod_eq_of_lt
    omega
  have hw : WritePhysicalPage cfg file (p : Int) page_data
      = { size := max file.size (p * cfg.PAGE_SIZE + cfg.PAGE_SIZE),
          data := fun i =>
            if p * cfg.PAGE_SIZE ≤ i ∧ i < p * cfg.PAGE_SIZE + cfg.PAGE_SIZE
            then page_data.getD (i - p * cfg.PAGE_SIZE) 0 else file.data i,
          fail := false } := by
    have h63 : ¬ p * cfg.PAGE_SIZE ≥ 2 ^ 63 := by omega
    simp only [WritePhysicalPage, hmod, hfail, Bool.false_eq_true, if_false, h63]
  rw [hw]
  have hoff : wrapInt32 ((p : Int) * (cfg.PAGE_SIZE : Int)) = ((p * cfg.PAGE_SIZE : Nat) : Int) := by
    rw [← Nat.cast_mul]
    exact wrapInt32_of_lt _ (by omega)
  have hfs : GetFileSize ⟨max file.size (p * cfg.PAGE_SIZE + cfg.PAGE_SIZE),
      fun i =>
        if p * cfg.PAGE_SIZE ≤ i ∧ i < p * cfg.PAGE_SIZE + cfg.PAGE_SIZE
        then page_data.getD (i - p * cfg.PAGE_SIZE) 0 else file.data i, false⟩
      = ((max file.size (p * cfg.PAGE_SIZE + cfg.PAGE_SIZE) : Nat) : Int) := by
    unfold GetFileSize
    exact wrapInt32_of_lt (max file.size (p * cfg.PAGE_SIZE + cfg.PAGE_SIZE)) (by omega)
  have hge : ¬ ((p * cfg.PAGE_SIZE : Nat) : Int)
      ≥ ((max file.size (p * cfg.PAGE_SIZE + cfg.PAGE_SIZE) : Nat) : Int) := by omega
  have hneg : ¬ ((p * cfg.PAGE_SIZE : Nat) : Int) < 0 := by omega
  have hcount : min cfg.PAGE_SIZE
      (max file.size (p * cfg.PAGE_SIZE + cfg.PAGE_SIZE) - p * cfg.PAGE_SIZE) = cfg.PAGE_SIZE := by
    omega
  simp only [ReadPhysicalPage, hoff, hfs, hge, if_false, Bool.false_eq_true, hneg, Int.toNat_ofNat,
    hcount]
  rw [← range_map_getD page_data cfg.PAGE_SIZE hlen]
  apply List.map_congr_left
  intro i hi
  have hi' : i < cfg.PAGE_SIZE := List.mem_range.1 hi
  have hin : p * cfg.PAGE_SIZE ≤ p * cfg.PAGE_SIZE + i ∧
      p * cfg.PAGE_SIZE + i < p * cfg.PAGE_SIZE + cfg.PAGE_SIZE := by omega
  simp only [hi', if_true, hin, and_self, Nat.add_sub_cancel_left]
  rw [range_map_getD page_data cfg.PAGE_SIZE hlen]

end DiskManager


namespace DiskManager

theorem MapPageId_4096 (M : Nat) (e off : Nat) (hoff : off < 32704) (he : e < 65000) :
    MapPageId ⟨4096, M⟩ ((e * 32704 + off : Nat) : Int) = ((2 + e * 32705 + off : Nat) : Int) := by
  have h1 : (e * 32704 + off) / 32704 = e := by omega
  have h2 : (e * 32704 + off) % 32704 = off := by omega
  have hB : Config.BITMAP_SIZE ⟨4096, M⟩ = 32704 := rfl
  simp only [MapPageId, hB, Int.toNat_ofNat, h1, h2, u32]
  rw [Nat.mod_eq_of_lt (by omega), Nat.mod_eq_of_lt (by omega)]
  have : 1 + e * (1 + 32704) + 1 + off = 2 + e * 32705 + off := by omega
  rw [this]
  exact wrapInt32_of_lt _ (by omega)

/-- C4 (failing input). With 4 KiB pages, on a database file that is empty
before the call, `WritePage(524288, buf)` followed by `ReadPage(524288, out)`
leaves `out` all zero whatever `buf` is: the page lies at byte offset
524306 * 4096 = 2147557376, which `WritePhysicalPage` computes as a `size_t` but
`ReadPhysicalPage` computes as an `int`, where it wraps around to a negative
value.  The write also changes what `ReadPage` returns for another page:
page 0, read back correctly before the write, reads as zeros after it, because
`GetFileSize` returns the new length as a negative `int`. -/
theorem ReadPage_WritePage_overflow (M : Nat) (buf : List Nat) :
    ((WritePage ⟨4096, M⟩ (openEmpty ⟨4096, M⟩) 524288 buf).bind
      (fun s => ReadPage ⟨4096, M⟩ s 524288)).map Prod.fst = some (zeroPage ⟨4096, M⟩) ∧
    ((WritePage ⟨4096, M⟩ (openEmpty ⟨4096, M⟩) 0 (List.replicate 4096 7)).bind
      (fun s => ReadPage ⟨4096, M⟩ s 0)).map Prod.fst = some (List.replicate 4096 7) ∧
    (((WritePage ⟨4096, M⟩ (openEmpty ⟨4096, M⟩) 0 (List.replicate 4096 7)).bind
      (fun s => WritePage ⟨4096, M⟩ s 524288 buf)).bind
      (fun s => ReadPage ⟨4096, M⟩ s 0)).map Prod.fst = some (zeroPage ⟨4096, M⟩) := by
  have hmap : MapPageId ⟨4096, M⟩ 524288 = 524306 := MapPageId_4096 M 16 1024 (by omega) (by omega)
  have hmap0 : MapPageId ⟨4096, M⟩ 0 = 2 := MapPageId_4096 M 0 0 (by omega) (by omega)
  have hlt : ¬ ((524288 : Int) < 0) := by decide
  have hlt0 : ¬ ((0 : Int) < 0) := by decide
  have hlen : (List.replicate 4096 7).length = 4096 := List.length_replicate _ _
  generalize List.replicate 4096 7 = buf0 at hlen ⊢
  have hw : ∀ b : List Nat, WritePhysicalPage ⟨4096, M⟩ (openEmpty ⟨4096, M⟩).db_io_ 524306 b
      = ⟨2147561472, fun i =>
          if 2147557376 ≤ i ∧ i < 2147557376 + 4096 then b.getD (i - 2147557376) 0 else 0,
          false⟩ := by
    intro b
    simp [WritePhysicalPage, openEmpty]
  have hw0 : WritePhysicalPage ⟨4096, M⟩ (openEmpty ⟨4096, M⟩).db_io_ 2 buf0
      = ⟨12288, fun i => if 8192 ≤ i ∧ i < 8192 + 4096 then buf0.getD (i - 8192) 0 else 0,
          false⟩ := by
    simp [WritePhysicalPage, openEmpty]
  refine ⟨?_, ?_, ?_⟩
  · simp only [WritePage, hlt, if_false, hmap, hw, Option.some_bind, ReadPage]
    rw [ReadPhysicalPage_negative _ _ _ (by norm_num [GetFileSize, wrapInt32]) rfl
      (by norm_num [wrapInt32])]
    rfl
  · simp only [WritePage, hlt0, if_false, hmap0, Option.some_bind, ReadPage]
    have h2 := ReadPhysicalPage_WritePhysicalPage ⟨4096, M⟩ (openEmpty ⟨4096, M⟩).db_io_ 2
      buf0 rfl (by simp [openEmpty]) (by simp) (by simp) hlen
    simp only [Nat.cast_ofNat] at h2
    rw [h2]
    rfl
  · simp only [WritePage, hlt, hlt0, if_false, hmap, hmap0, hw0, Option.some_bind, ReadPage]
    have hw2 : WritePhysicalPage ⟨4096, M⟩
        ⟨12288, fun i => if 8192 ≤ i ∧ i < 8192 + 4096 then buf0.getD (i - 8192) 0 else 0,
          false⟩ 524306 buf
        = ⟨2147561472, fun i =>
            if 2147557376 ≤ i ∧ i < 2147557376 + 4096 then buf.getD (i - 2147557376) 0
            else if 8192 ≤ i ∧ i < 8192 + 4096 then buf0.getD (i - 8192) 0
            else 0,
            false⟩ := by
      simp [WritePhysicalPage]
    rw [hw2, ReadPhysicalPage_beyond _ _ _ (by norm_num [GetFileSize, wrapInt32])]
    rfl

end DiskManager


namespace DiskManager

theorem allocateInExtents_full (cfg : Config) (l : List Nat) (s : DiskManager)
    (h : ∀ e ∈ l, ¬ s.meta_data_.extent_used_page_.getD e 0 < cfg.BITMAP_SIZE) :
    allocateInExtents cfg l s = (none, s) := by
  induction l with
  | nil => rfl
  | cons e l ih =>
    simp only [allocateInExtents, h e (List.mem_cons_self _ _), if_false]
    exact ih (fun x hx => h x (List.mem_cons_of_mem _ hx))

theorem default_BITMAP_SIZE : Config.default.BITMAP_SIZE = 32704 := by decide

theorem default_PAGE_SIZE : Config.default.PAGE_SIZE = 4096 := rfl

theorem default_MAX : Config.default.MAX_VALID_PAGE_ID = 33423488 := by decide

theorem bitmapPhysicalPageId_17 : bitmapPhysicalPageId Config.default 17 = 555986 := by
  simp only [bitmapPhysicalPageId, default_BITMAP_SIZE]
  norm_num [wrapInt32]

theorem zero_bitmap_alloc :
    (BitmapPage.AllocatePage (toBitmap Config.default (zeroPage Config.default))).1 = some 0 := by
  decide!

theorem zero_bitmap_free :
    BitmapPage.IsPageFree (toBitmap Config.default (zeroPage Config.default)) 0 = true := by
  decide!

theorem allocateInExtents_skip (cfg : Config) (l l' : List Nat) (s : DiskManager)
    (h : ∀ e ∈ l, ¬ s.meta_data_.extent_used_page_.getD e 0 < cfg.BITMAP_SIZE) :
    allocateInExtents cfg (l ++ l') s = allocateInExtents cfg l' s := by
  induction l with
  | nil => rfl
  | cons e l ih =>
    simp only [List.cons_append, allocateInExtents, h e (List.mem_cons_self _ _), if_false]
    exact ih (fun x hx => h x (List.mem_cons_of_mem _ hx))

/-- The state reached from a state with 17 full extents by one more
`AllocatePage`: extent 17 is created and its first page, 555968, returned. -/
theorem AllocatePage_extent_17 (s : DiskManager)
    (hext : s.meta_data_.num_extents_ = 17)
    (hfull : ∀ e, e < 17 → s.meta_data_.extent_used_page_.getD e 0 = 32704)
    (hnum : s.meta_data_.num_allocated_pages_ = 555968) :
    AllocatePage Config.default s
      = (555968,
          ⟨⟨555969, 18, s.meta_data_.extent_used_page_.set 17 1⟩,
            WritePhysicalPage Config.default s.db_io_ 555986
              (ofBitmap Config.default
                (BitmapPage.AllocatePage
                  (toBitmap Config.default (zeroPage Config.default))).2)⟩) := by
  have hloop : allocateInExtents Config.default (List.range 17) s = (none, s) := by
    apply allocateInExtents_full
    intro e he
    rw [default_BITMAP_SIZE, hfull e (List.mem_range.1 he)]
    omega
  have h1 : ¬ (555968 ≥ 33423488) := by omega
  have h2 : 17 < u32 ((Config.default.PAGE_SIZE - 8) / 4) := by decide
  have hA := zero_bitmap_alloc
  simp only [AllocatePage, hnum, default_MAX, h1, if_false, hext, hloop, h2, if_true,
    bitmapPhysicalPageId_17, default_BITMAP_SIZE]
  revert hA
  cases BitmapPage.AllocatePage (toBitmap Config.default (zeroPage Config.default)) with
  | mk o bm =>
    intro hA
    simp only at hA
    subst hA
    simp only [Prod.mk.injEq]
    refine ⟨by norm_num [wrapInt32], ?_⟩
    have e1 : u32 (555968 + 1) = 555969 := by decide
    have e2 : u32 (17 + 1) = 18 := by decide
    rw [e1, e2]

theorem WritePhysicalPage_555986 (file : DbFile) (buf : List Nat) (hfail : file.fail = false)
    (hsize : file.size ≤ 2277322752) :
    WritePhysicalPage Config.default file 555986 buf
      = ⟨2277322752,
          fun i => if 2277318656 ≤ i ∧ i < 2277318656 + 4096 then buf.getD (i - 2277318656) 0
            else file.data i,
          false⟩ := by
  have h63 : ¬ (2277318656 ≥ 2 ^ 63) := by norm_num
  have hoff : (((555986 : Int) % 2 ^ 64).toNat * 4096) % 2 ^ 64 = 2277318656 := by
    simp
  simp only [WritePhysicalPage, default_PAGE_SIZE, hoff, hfail, Bool.false_eq_true, if_false, h63,
    Nat.max_eq_right hsize]

end DiskManager

namespace DiskManager

theorem ReadPhysicalPage_555986 (f : Nat → Nat) :
    ReadPhysicalPage Config.default ⟨2277322752, f, false⟩ 555986
      = (zeroPage Config.default, ⟨2277322752, f, true⟩) := by
  rw [ReadPhysicalPage_negative _ _ _ (by norm_num [GetFileSize, wrapInt32, default_PAGE_SIZE]) rfl
    (by norm_num [wrapInt32, default_PAGE_SIZE])]

/-- The allocation loop stops at the first extent with room whose bitmap page,
as read from disk, has a free bit. -/
theorem allocateInExtents_cons_of_read (cfg : Config) (e : Nat) (rest : List Nat)
    (s : DiskManager) (page : List Nat) (file' : DbFile) (o : Nat)
    (hlt : s.meta_data_.extent_used_page_.getD e 0 < cfg.BITMAP_SIZE)
    (hr : ReadPhysicalPage cfg s.db_io_ (bitmapPhysicalPageId cfg e) = (page, file'))
    (ha : (BitmapPage.AllocatePage (toBitmap cfg page)).1 = some o) :
    (allocateInExtents cfg (e :: rest) s).1
      = some (wrapInt32 ((e * cfg.BITMAP_SIZE + o : Nat) : Int)) := by
  simp only [allocateInExtents, hlt, if_true, hr]
  revert ha
  cases BitmapPage.AllocatePage (toBitmap cfg page) with
  | mk o' bm =>
    intro ha
    simp only at ha
    subst ha
    rfl

theorem allocateInExtents_17 (s : DiskManager) (f : Nat → Nat)
    (hio : s.db_io_ = ⟨2277322752, f, false⟩)
    (h17 : s.meta_data_.extent_used_page_.getD 17 0 = 1) :
    (allocateInExtents Config.default [17] s).1 = some 555968 := by
  have hlt : s.meta_data_.extent_used_page_.getD 17 0 < Config.default.BITMAP_SIZE := by
    rw [default_BITMAP_SIZE, h17]; omega
  have hr : ReadPhysicalPage Config.default s.db_io_ (bitmapPhysicalPageId Config.default 17)
      = (zeroPage Config.default, ⟨2277322752, f, true⟩) := by
    rw [hio, bitmapPhysicalPageId_17, ReadPhysicalPage_555986]
  rw [allocateInExtents_cons_of_read Config.default 17 [] s _ _ 0 hlt hr zero_bitmap_alloc,
    default_BITMAP_SIZE]
  norm_num [wrapInt32]

/-- When the loop over the existing extents finds a page, `AllocatePage`
returns it. -/
theorem AllocatePage_of_loop (cfg : Config) (s : DiskManager) (p : page_id_t)
    (hn : ¬ s.meta_data_.num_allocated_pages_ ≥ cfg.MAX_VALID_PAGE_ID)
    (h : (allocateInExtents cfg (List.range s.meta_data_.num_extents_) s).1 = some p) :
    (AllocatePage cfg s).1 = p := by
  simp only [AllocatePage, hn, if_false]
  revert h
  cases allocateInExtents cfg (List.range s.meta_data_.num_extents_) s with
  | mk o s' =>
    intro h
    simp only at h
    subst h
    rfl

/-- In a state with 17 full extents, `AllocatePage` creates extent 17 and
returns page id 555968, but the bitmap page it writes lies behind byte 2^31 of
the file and is read back as all zero: `IsPageFree(555968)` is still true, and
the next `AllocatePage` returns 555968 again. -/
theorem AllocatePage_after_17_extents (s : DiskManager)
    (hext : s.meta_data_.num_extents_ = 17)
    (hnum : s.meta_data_.num_allocated_pages_ = 555968)
    (hlen : s.meta_data_.extent_used_page_.length = 1022)
    (hfull : ∀ e, e < 17 → s.meta_data_.extent_used_page_.getD e 0 = 32704)
    (hfail : s.db_io_.fail = false) (hsize : s.db_io_.size ≤ 2277322752) :
    (AllocatePage Config.default s).1 = 555968 ∧
    (IsPageFree Config.default (AllocatePage Config.default s).2 555968).1 = true ∧
    (AllocatePage Config.default (AllocatePage Config.default s).2).1 = 555968 := by
  rw [AllocatePage_extent_17 s hext hfull hnum, WritePhysicalPage_555986 _ _ hfail hsize]
  refine ⟨rfl, ?_, ?_⟩
  · have h0 : ¬ ((555968 : Int) < 0) := by decide
    have he : u32 ((555968 : Int).toNat / Config.default.BITMAP_SIZE) = 17 := by decide
    have ho : u32 ((555968 : Int).toNat % Config.default.BITMAP_SIZE) = 0 := by decide
    have h18 : ¬ (17 ≥ 18) := by decide
    simp only [IsPageFree, h0, if_false, he, ho, h18, bitmapPhysicalPageId_17,
      ReadPhysicalPage_555986]
    exact zero_bitmap_free
  · apply AllocatePage_of_loop
    · rw [default_MAX]
      show ¬ (555969 ≥ 33423488)
      omega
    · have hskip : ∀ e ∈ List.range 17,
          ¬ (s.meta_data_.extent_used_page_.set 17 1).getD e 0 < Config.default.BITMAP_SIZE := by
        intro e he
        have he' : e < 17 := List.mem_range.1 he
        have hne : ¬ 17 = e := by omega
        rw [default_BITMAP_SIZE, List.getD_eq_getElem?_getD, List.getElem?_set,
          if_neg hne, ← List.getD_eq_getElem?_getD, hfull e he']
        omega
      have h17 : (s.meta_data_.extent_used_page_.set 17 1).getD 17 0 = 1 := by
        rw [List.getD_eq_getElem?_getD, List.getElem?_set, if_pos rfl, if_pos (by omega)]
        rfl
      show (allocateInExtents Config.default (List.range (17 + 1)) _).1 = some 555968
      rw [List.range_succ, allocateInExtents_skip _ _ _ _ hskip]
      exact allocateInExtents_17 _ _ rfl h17

end DiskManager

namespace DiskManager

theorem default_Max : BitmapPage.GetMaxSupportedSize Config.default.PAGE_SIZE = 32704 := by decide

theorem ofBitmap_length (cfg : Config) (b : BitmapPage cfg.PAGE_SIZE)
    (hlen : b.bytes.length = BitmapPage.MAX_CHARS cfg.PAGE_SIZE) (h8 : 8 ≤ cfg.PAGE_SIZE) :
    (ofBitmap cfg b).length = cfg.PAGE_SIZE := by
  simp only [ofBitmap, List.length_append, MACH_WRITE_UINT32_length, hlen, BitmapPage.MAX_CHARS]
  omega

/-- A bitmap page stored into a page buffer is read back unchanged. -/
theorem toBitmap_ofBitmap (cfg : Config) (b : BitmapPage cfg.PAGE_SIZE)
    (hlen : b.bytes.length = BitmapPage.MAX_CHARS cfg.PAGE_SIZE)
    (h1 : b.page_allocated_ < 2 ^ 32) (h2 : b.next_free_page_ < 2 ^ 32) :
    toBitmap cfg (ofBitmap cfg b) = b := by
  cases b with
  | mk a n bytes =>
    simp only at hlen h1 h2
    have e1 : MACH_READ_UINT32 (MACH_WRITE_UINT32 a ++ MACH_WRITE_UINT32 n ++ bytes) = a := by
      rw [List.append_assoc]
      exact MACH_READ_WRITE_UINT32 a h1 _
    have e2 : (MACH_WRITE_UINT32 a ++ MACH_WRITE_UINT32 n ++ bytes).drop 4
        = MACH_WRITE_UINT32 n ++ bytes := by
      rw [List.append_assoc]
      exact List.drop_left' (MACH_WRITE_UINT32_length a)
    have e3 : (MACH_WRITE_UINT32 a ++ MACH_WRITE_UINT32 n ++ bytes).drop 8 = bytes :=
      List.drop_left' (by simp [MACH_WRITE_UINT32_length])
    simp only [toBitmap, ofBitmap, e1, e2, e3, MACH_READ_WRITE_UINT32 n h2]
    rw [List.take_of_length_le (Nat.le_of_eq hlen)]

theorem toBitmap_zeroPage :
    toBitmap Config.default (zeroPage Config.default) = BitmapPage.zero Config.default.PAGE_SIZE := by
  decide!

/-- The file after `WritePhysicalPage` on a healthy stream at a small offset. -/
theorem WritePhysicalPage_eq (cfg : Config) (file : DbFile) (p : Nat) (page_data : List Nat)
    (hfail : file.fail = false) (hp : p * cfg.PAGE_SIZE + cfg.PAGE_SIZE < 2 ^ 31)
    (hps : 0 < cfg.PAGE_SIZE) :
    WritePhysicalPage cfg file (p : Int) page_data
      = { size := max file.size (p * cfg.PAGE_SIZE + cfg.PAGE_SIZE),
          data := fun i =>
            if p * cfg.PAGE_SIZE ≤ i ∧ i < p * cfg.PAGE_SIZE + cfg.PAGE_SIZE
            then page_data.getD (i - p * cfg.PAGE_SIZE) 0 else file.data i,
          fail := false } := by
  have hmod : (((p : Int) % 2 ^ 64).toNat * cfg.PAGE_SIZE) % 2 ^ 64 = p * cfg.PAGE_SIZE := by
    have hp' : p ≤ p * cfg.PAGE_SIZE := Nat.le_mul_of_pos_right _ hps
    have h1 : ((p : Int) % 2 ^ 64).toNat = p := by omega
    rw [h1]
    apply Nat.mod_eq_of_lt
    omega
  have h63 : ¬ p * cfg.PAGE_SIZE ≥ 2 ^ 63 := by omega
  simp only [WritePhysicalPage, hmod, hfail, Bool.false_eq_true, if_false, h63]

/-- Reading a page back right after writing it, while all offsets fit an `int`,
leaves the stream healthy. -/
theorem ReadPhysicalPage_WritePhysicalPage_stream (cfg : Config) (file : DbFile) (p : Nat)
    (page_data : List Nat) (hfail : file.fail = false) (hsize : file.size < 2 ^ 31)
    (hp : p * cfg.PAGE_SIZE + cfg.PAGE_SIZE < 2 ^ 31) (hps : 0 < cfg.PAGE_SIZE) :
    (ReadPhysicalPage cfg (WritePhysicalPage cfg file (p : Int) page_data) (p : Int)).2
      = WritePhysicalPage cfg file (p : Int) page_data := by
  rw [WritePhysicalPage_eq cfg file p page_data hfail hp hps]
  have hoff : wrapInt32 ((p : Int) * (cfg.PAGE_SIZE : Int)) = ((p * cfg.PAGE_SIZE : Nat) : Int) := by
    rw [← Nat.cast_mul]
    exact wrapInt32_of_lt _ (by omega)
  have hfs : GetFileSize ⟨max file.size (p * cfg.PAGE_SIZE + cfg.PAGE_SIZE),
      fun i =>
        if p * cfg.PAGE_SIZE ≤ i ∧ i < p * cfg.PAGE_SIZE + cfg.PAGE_SIZE
        then page_data.getD (i - p * cfg.PAGE_SIZE) 0 else file.data i, false⟩
      = ((max file.size (p * cfg.PAGE_SIZE + cfg.PAGE_SIZE) : Nat) : Int) := by
    unfold GetFileSize
    exact wrapInt32_of_lt (max file.size (p * cfg.PAGE_SIZE + cfg.PAGE_SIZE)) (by omega)
  have hge : ¬ ((p * cfg.PAGE_SIZE : Nat) : Int)
      ≥ ((max file.size (p * cfg.PAGE_SIZE + cfg.PAGE_SIZE) : Nat) : Int) := by omega
  have hneg : ¬ ((p * cfg.PAGE_SIZE : Nat) : Int) < 0 := by omega
  have hcount : min cfg.PAGE_SIZE
      (max file.size (p * cfg.PAGE_SIZE + cfg.PAGE_SIZE) - p * cfg.PAGE_SIZE) = cfg.PAGE_SIZE := by
    omega
  simp only [ReadPhysicalPage, hoff, hfs, hge, if_false, Bool.false_eq_true, hneg, Int.toNat_ofNat,
    hcount, Nat.lt_irrefl, decide_False]

theorem bitmapPhysicalPageId_small (e : Nat) (he : e ≤ 16) :
    bitmapPhysicalPageId Config.default e = ((1 + e * 32705 : Nat) : Int) := by
  simp only [bitmapPhysicalPageId, default_BITMAP_SIZE]
  exact wrapInt32_of_lt _ (by omega)

/-- Writing the bitmap page of one of the first 17 extents and reading it back:
the stream stays healthy, the file ends no earlier than that page, and the
bitmap is read back unchanged. -/
theorem read_write_bitmap (file : DbFile) (e : Nat) (bm : BitmapPage Config.default.PAGE_SIZE)
    (he : e ≤ 16) (hfail : file.fail = false) (hsize : file.size < 2 ^ 31)
    (hlen : bm.bytes.length = BitmapPage.MAX_CHARS Config.default.PAGE_SIZE) :
    (WritePhysicalPage Config.default file (bitmapPhysicalPageId Config.default e)
        (ofBitmap Config.default bm)).fail = false ∧
    (WritePhysicalPage Config.default file (bitmapPhysicalPageId Config.default e)
        (ofBitmap Config.default bm)).size = max file.size ((2 + e * 32705) * 4096) ∧
    ReadPhysicalPage Config.default
        (WritePhysicalPage Config.default file (bitmapPhysicalPageId Config.default e)
          (ofBitmap Config.default bm)) (bitmapPhysicalPageId Config.default e)
      = (ofBitmap Config.default bm,
          WritePhysicalPage Config.default file (bitmapPhysicalPageId Config.default e)
            (ofBitmap Config.default bm)) := by
  have hps : 0 < Config.default.PAGE_SIZE := by rw [default_PAGE_SIZE]; omega
  have hp : (1 + e * 32705) * Config.default.PAGE_SIZE + Config.default.PAGE_SIZE < 2 ^ 31 := by
    rw [default_PAGE_SIZE]; omega
  have hl : (ofBitmap Config.default bm).length = Config.default.PAGE_SIZE :=
    ofBitmap_length _ _ hlen (by rw [default_PAGE_SIZE]; omega)
  rw [bitmapPhysicalPageId_small e he]
  refine ⟨?_, ?_, ?_⟩
  · rw [WritePhysicalPage_eq _ _ _ _ hfail hp hps]
  · rewrite [WritePhysicalPage_eq _ _ _ _ hfail hp hps, default_PAGE_SIZE]
    show max file.size ((1 + e * 32705) * 4096 + 4096) = max file.size ((2 + e * 32705) * 4096)
    have e1 : (1 + e * 32705) * 4096 + 4096 = (2 + e * 32705) * 4096 := by omega
    rewrite [e1]
    exact Eq.refl _
  · exact Prod.ext
      (ReadPhysicalPage_WritePhysicalPage _ _ _ _ hfail hsize hp hps hl)
      (ReadPhysicalPage_WritePhysicalPage_stream _ _ _ _ hfail hsize hp hps)

/-- The loop of `AllocatePage` at an extent with room whose bitmap page has a
free offset: the page is handed out and the bitmap written back. -/
theorem allocateInExtents_cons_hit (cfg : Config) (e : Nat) (rest : List Nat)
    (s : DiskManager) (page : List Nat) (file' : DbFile) (o : Nat)
    (bm : BitmapPage cfg.PAGE_SIZE)
    (hlt : s.meta_data_.extent_used_page_.getD e 0 < cfg.BITMAP_SIZE)
    (hr : ReadPhysicalPage cfg s.db_io_ (bitmapPhysicalPageId cfg e) = (page, file'))
    (ha : BitmapPage.AllocatePage (toBitmap cfg page) = (some o, bm)) :
    allocateInExtents cfg (e :: rest) s
      = (some (wrapInt32 ((e * cfg.BITMAP_SIZE + o : Nat) : Int)),
          { meta_data_ :=
              { s.meta_data_ with
                num_allocated_pages_ := u32 (s.meta_data_.num_allocated_pages_ + 1),
                extent_used_page_ := s.meta_data_.extent_used_page_.set e
                  (u32 (s.meta_data_.extent_used_page_.getD e 0 + 1)) },
            db_io_ := WritePhysicalPage cfg file' (bitmapPhysicalPageId cfg e)
              (ofBitmap cfg bm) }) := by
  simp only [allocateInExtents, hlt, if_true, hr, ha]

theorem AllocatePage_of_loop_eq (cfg : Config) (s s' : DiskManager) (p : page_id_t)
    (hn : ¬ s.meta_data_.num_allocated_pages_ ≥ cfg.MAX_VALID_PAGE_ID)
    (h : allocateInExtents cfg (List.range s.meta_data_.num_extents_) s = (some p, s')) :
    AllocatePage cfg s = (p, s') := by
  simp only [AllocatePage, hn, if_false, h]

/-- When no existing extent has room and the meta page can describe one more
extent, `AllocatePage` creates it and hands out its first free offset. -/
theorem AllocatePage_new_extent (cfg : Config) (s : DiskManager) (o : Nat)
    (bm : BitmapPage cfg.PAGE_SIZE)
    (hn : ¬ s.meta_data_.num_allocated_pages_ ≥ cfg.MAX_VALID_PAGE_ID)
    (hloop : allocateInExtents cfg (List.range s.meta_data_.num_extents_) s = (none, s))
    (hE : s.meta_data_.num_extents_ < u32 ((cfg.PAGE_SIZE - 8) / 4))
    (ha : BitmapPage.AllocatePage (toBitmap cfg (zeroPage cfg)) = (some o, bm)) :
    AllocatePage cfg s
      = (wrapInt32 ((s.meta_data_.num_extents_ * cfg.BITMAP_SIZE + o : Nat) : Int),
          { meta_data_ :=
              { num_extents_ := u32 (s.meta_data_.num_extents_ + 1),
                num_allocated_pages_ := u32 (s.meta_data_.num_allocated_pages_ + 1),
                extent_used_page_ :=
                  s.meta_data_.extent_used_page_.set s.meta_data_.num_extents_ 1 },
            db_io_ := WritePhysicalPage cfg s.db_io_
              (bitmapPhysicalPageId cfg s.meta_data_.num_extents_) (ofBitmap cfg bm) }) := by
  simp only [AllocatePage, hn, if_false, hloop, hE, if_true, ha]

end DiskManager

namespace DiskManager

theorem run_append (cfg : Config) (s : DiskManager) (l1 l2 : List Op) :
    run cfg s (l1 ++ l2)
      = ((run cfg s l1).1 ++ (run cfg (run cfg s l1).2 l2).1, (run cfg (run cfg s l1).2 l2).2) := by
  induction l1 generalizing s with
  | nil => rfl
  | cons op l1 ih =>
    rw [List.cons_append]
    simp only [run, ih, List.cons_append]

theorem getD_set_self (l : List Nat) (i v : Nat) (h : i < l.length) :
    (l.set i v).getD i 0 = v := by
  rw [List.getD_eq_getElem?_getD, List.getElem?_set, if_pos rfl, if_pos h]
  rfl

theorem getD_set_other (l : List Nat) (i j v : Nat) (h : i ≠ j) :
    (l.set i v).getD j 0 = l.getD j 0 := by
  rw [List.getD_eq_getElem?_getD, List.getElem?_set, if_neg h, ← List.getD_eq_getElem?_getD]

theorem Filled_openEmpty : Filled 0 (openEmpty Config.default) := by
  refine ⟨rfl, by decide, ?_, ?_, rfl, Nat.zero_le _, ?_⟩
  · show (List.replicate ((Config.default.PAGE_SIZE - 8) / 4) 0).length = 1022
    rw [List.length_replicate]
    decide
  · intro e he
    omega
  · intro e he
    omega

/-- One more `AllocatePage` on the state after `n < 555968` allocations on an
empty file returns page id `n` and leads to the state after `n + 1`
allocations. -/
theorem Filled_AllocatePage (n : Nat) (s : DiskManager) (hn : n < 555968) (h : Filled n s) :
    (AllocatePage Config.default s).1 = (n : Int) ∧
    Filled (n + 1) (AllocatePage Config.default s).2 := by
  obtain ⟨hnum, hext, hlen, hused, hfail, hsize, hread⟩ := h
  have hmax : ¬ s.meta_data_.num_allocated_pages_ ≥ Config.default.MAX_VALID_PAGE_ID := by
    rw [hnum, default_MAX]; omega
  have hsz : BitmapPage.GetMaxSupportedSize Config.default.PAGE_SIZE < 2 ^ 32 := by
    rw [default_Max]; omega
  have hun : u32 (n + 1) = n + 1 := by
    unfold u32
    exact Nat.mod_eq_of_lt (by omega)
  have hs31 : s.db_io_.size < 2 ^ 31 := by omega
  by_cases hfull : n % 32704 = 0
  · have hE : (n + 32703) / 32704 = n / 32704 := by omega
    have hE16 : n / 32704 ≤ 16 := by omega
    have hE' : (n + 1 + 32703) / 32704 = n / 32704 + 1 := by omega
    have hloop : allocateInExtents Config.default (List.range s.meta_data_.num_extents_) s
        = (none, s) := by
      apply allocateInExtents_full
      intro e he
      rw [hext] at he
      rw [default_BITMAP_SIZE, hused e (List.mem_range.1 he)]
      have := List.mem_range.1 he
      omega
    have hlt : s.meta_data_.num_extents_ < u32 ((Config.default.PAGE_SIZE - 8) / 4) := by
      have h1022 : u32 ((Config.default.PAGE_SIZE - 8) / 4) = 1022 := by decide
      rw [h1022, hext]
      omega
    obtain ⟨hA, hP⟩ := BitmapPage.AllocatePage_PrefixFull hsz _ 0
      (BitmapPage.PrefixFull_zero Config.default.PAGE_SIZE) (by rw [default_Max]; omega)
    rw [← toBitmap_zeroPage] at hA hP
    generalize (BitmapPage.AllocatePage (toBitmap Config.default (zeroPage Config.default))).2
      = bm at hA hP
    have hA2 := AllocatePage_new_extent Config.default s 0 bm hmax hloop hlt hA
    rw [hnum, hext, hE, default_BITMAP_SIZE, hun] at hA2
    rw [hA2]
    obtain ⟨hf', hs', hr'⟩ := read_write_bitmap s.db_io_ (n / 32704) bm hE16 hfail hs31 hP.1
    refine ⟨?_, rfl, ?_, ?_, ?_, hf', ?_, ?_⟩
    · show wrapInt32 (((n / 32704 * 32704 + 0 : Nat)) : Int) = (n : Int)
      have e1 : n / 32704 * 32704 + 0 = n := by omega
      rw [e1]
      exact wrapInt32_of_lt n (by omega)
    · show u32 (n / 32704 + 1) = (n + 1 + 32703) / 32704
      unfold u32
      omega
    · show (s.meta_data_.extent_used_page_.set (n / 32704) 1).length = 1022
      rw [List.length_set]
      exact hlen
    · intro e he
      show (s.meta_data_.extent_used_page_.set (n / 32704) 1).getD e 0
        = min 32704 (n + 1 - e * 32704)
      by_cases hee : n / 32704 = e
      · subst hee
        rw [getD_set_self _ _ _ (by omega)]
        omega
      · rw [getD_set_other _ _ _ _ hee, hused e (by omega)]
        omega
    · show (WritePhysicalPage Config.default s.db_io_
          (bitmapPhysicalPageId Config.default (n / 32704)) (ofBitmap Config.default bm)).size
        ≤ ((n + 1 + 32703) / 32704 * 32705 - 32703) * 4096
      rw [hs']
      omega
    · intro e he
      obtain rfl : e = n / 32704 := by omega
      refine ⟨bm, ?_, ?_⟩
      · have e1 : n + 1 - n / 32704 * 32704 = 0 + 1 := by omega
        rw [e1]
        exact hP
      · exact hr'
  · have hE : (n + 32703) / 32704 = n / 32704 + 1 := by omega
    have hE16 : n / 32704 ≤ 16 := by omega
    have hE' : (n + 1 + 32703) / 32704 = n / 32704 + 1 := by omega
    obtain ⟨b, hPb, hR⟩ := hread (n / 32704) (by omega)
    have hk : n - n / 32704 * 32704 = n % 32704 := by omega
    rw [hk] at hPb
    have hklt : n % 32704 < 32704 := Nat.mod_lt _ (by omega)
    obtain ⟨hA, hP⟩ := BitmapPage.AllocatePage_PrefixFull hsz b (n % 32704) hPb
      (by rw [default_Max]; omega)
    generalize (BitmapPage.AllocatePage b).2 = bm at hA hP
    have htb : toBitmap Config.default (ofBitmap Config.default b) = b :=
      toBitmap_ofBitmap _ b hPb.1 (by rw [hPb.2.1]; omega) (by rw [hPb.2.2.1]; omega)
    have hue : s.meta_data_.extent_used_page_.getD (n / 32704) 0 = n % 32704 := by
      rw [hused _ (by omega)]
      omega
    have hlt : s.meta_data_.extent_used_page_.getD (n / 32704) 0 < Config.default.BITMAP_SIZE := by
      rw [default_BITMAP_SIZE, hue]
      exact hklt
    have hhit := allocateInExtents_cons_hit Config.default (n / 32704) [] s _ _ (n % 32704) bm hlt
      hR (by rw [htb]; exact hA)
    have huk : u32 (n % 32704 + 1) = n % 32704 + 1 := by
      unfold u32
      exact Nat.mod_eq_of_lt (by omega)
    rw [hnum, hue, default_BITMAP_SIZE, hun, huk] at hhit
    have hskip : ∀ e ∈ List.range (n / 32704),
        ¬ s.meta_data_.extent_used_page_.getD e 0 < Config.default.BITMAP_SIZE := by
      intro e he
      have he' := List.mem_range.1 he
      rw [default_BITMAP_SIZE, hused e (by omega)]
      omega
    have hloop : allocateInExtents Config.default (List.range s.meta_data_.num_extents_) s
        = allocateInExtents Config.default [n / 32704] s := by
      rw [hext, hE, List.range_succ, allocateInExtents_skip _ _ _ _ hskip]
    rw [hhit] at hloop
    rw [AllocatePage_of_loop_eq _ _ _ _ hmax hloop]
    obtain ⟨hf', hs', hr'⟩ := read_write_bitmap s.db_io_ (n / 32704) bm hE16 hfail hs31 hP.1
    refine ⟨?_, rfl, ?_, ?_, ?_, hf', ?_, ?_⟩
    · show wrapInt32 (((n / 32704 * 32704 + n % 32704 : Nat)) : Int) = (n : Int)
      have e1 : n / 32704 * 32704 + n % 32704 = n := by omega
      rw [e1]
      exact wrapInt32_of_lt n (by omega)
    · show s.meta_data_.num_extents_ = (n + 1 + 32703) / 32704
      rw [hext]
      omega
    · show (s.meta_data_.extent_used_page_.set (n / 32704) (n % 32704 + 1)).length = 1022
      rw [List.length_set]
      exact hlen
    · intro e he
      show (s.meta_data_.extent_used_page_.set (n / 32704) (n % 32704 + 1)).getD e 0
        = min 32704 (n + 1 - e * 32704)
      by_cases hee : n / 32704 = e
      · subst hee
        rw [getD_set_self _ _ _ (by omega)]
        omega
      · rw [getD_set_other _ _ _ _ hee, hused e (by omega)]
        omega
    · show (WritePhysicalPage Config.default s.db_io_
          (bitmapPhysicalPageId Config.default (n / 32704)) (ofBitmap Config.default bm)).size
        ≤ ((n + 1 + 32703) / 32704 * 32705 - 32703) * 4096
      rw [hs']
      omega
    · intro e he
      obtain rfl : e = n / 32704 := by omega
      refine ⟨bm, ?_, ?_⟩
      · have e1 : n + 1 - n / 32704 * 32704 = n % 32704 + 1 := by omega
        rw [e1]
        exact hP
      · exact hr'

/-- The first 555968 calls of `AllocatePage` on an empty file return the page
ids 0, 1, 2, ... in turn and fill one extent after the other. -/
theorem Filled_run (n : Nat) (hn : n ≤ 555968) :
    (run Config.default (openEmpty Config.default) (List.replicate n .allocate)).1
      = (List.range n).map (fun i : Nat => some (i : Int)) ∧
    Filled n (run Config.default (openEmpty Config.default) (List.replicate n .allocate)).2 := by
  induction n with
  | zero => exact ⟨rfl, Filled_openEmpty⟩
  | succ n ih =>
    obtain ⟨h1, h2⟩ := ih (by omega)
    obtain ⟨h3, h4⟩ := Filled_AllocatePage n _ (by omega) h2
    rw [List.replicate_succ', run_append]
    refine ⟨?_, h4⟩
    show _ ++ [some (AllocatePage Config.default _).1] = _
    rw [h1, h3, List.range_succ, List.map_append]
    rfl

end DiskManager

namespace DiskManager

/-- C5 (failing input).  On an empty file with 4 KiB pages the scenario of the
spec runs as described: three allocations return 0, 1, 2; after
`DeAllocatePage(1)` page 1 is free and page 0 is not; the next allocation
returns 1 and three pages are allocated.  The first 555968 calls of
`AllocatePage` on an empty file return 0, 1, ..., 555967.  The next call
returns 555968, but `IsPageFree(555968)` is still true immediately after it,
and the call after that returns 555968 a second time: the bitmap page of
extent 17 lies at byte offset 555986 * 4096, which `ReadPhysicalPage` computes
as an `int` that wraps around to a negative value, so the bitmap just written
is read back as all zero. -/
theorem AllocatePage_overflow :
    ((run Config.default (openEmpty Config.default) [.allocate, .allocate, .allocate]).1
        = [some 0, some 1, some 2] ∧
      (IsPageFree Config.default (run Config.default (openEmpty Config.default)
        [.allocate, .allocate, .allocate, .deallocate 1]).2 1).1 = true ∧
      (IsPageFree Config.default (run Config.default (openEmpty Config.default)
        [.allocate, .allocate, .allocate, .deallocate 1]).2 0).1 = false ∧
      (run Config.default (openEmpty Config.default)
        [.allocate, .allocate, .allocate, .deallocate 1, .allocate]).1
        = [some 0, some 1, some 2, none, some 1] ∧
      (run Config.default (openEmpty Config.default)
        [.allocate, .allocate, .allocate, .deallocate 1, .allocate]).2.meta_data_.num_allocated_pages_
        = 3) ∧
    (run Config.default (openEmpty Config.default) (List.replicate 555968 .allocate)).1
      = (List.range 555968).map (fun i : Nat => some (i : Int)) ∧
    (AllocatePage Config.default
      (run Config.default (openEmpty Config.default) (List.replicate 555968 .allocate)).2).1
      = 555968 ∧
    (IsPageFree Config.default (AllocatePage Config.default
      (run Config.default (openEmpty Config.default) (List.replicate 555968 .allocate)).2).2
      555968).1 = true ∧
    (AllocatePage Config.default (AllocatePage Config.default
      (run Config.default (openEmpty Config.default) (List.replicate 555968 .allocate)).2).2).1
      = 555968 := by
  obtain ⟨h1, hF⟩ := Filled_run 555968 (Nat.le_refl _)
  refine ⟨⟨by decide!, by decide!, by decide!, by decide!, by decide!⟩, h1, ?_⟩
  generalize (run Config.default (openEmpty Config.default)
    (List.replicate 555968 .allocate)).2 = s at hF ⊢
  obtain ⟨hnum, hext, hlen, hused, hfail, hsize, _⟩ := hF
  have h17 : (555968 + 32703) / 32704 = 17 := by norm_num
  rw [h17] at hext hused hsize
  exact AllocatePage_after_17_extents s hext hnum hlen
    (fun e he => by rw [hused e he]; omega) hfail (by omega)

end DiskManager

/-! ### `BufferPoolManager` -/

namespace BufferPoolManager

theorem getD_set_frame (l : List Page) (f g : Int) (p d : Page) (hf0 : 0 ≤ f)
    (hf : f.toNat < l.length) (hg0 : 0 ≤ g) :
    (l.set f.toNat p).getD g.toNat d = if g = f then p else l.getD g.toNat d := by
  simp only [List.getD_eq_getElem?_getD, List.getElem?_set]
  by_cases h : g = f
  · subst h; simp [hf]
  · have e1 := Int.toNat_of_nonneg hf0
    have e2 := Int.toNat_of_nonneg hg0
    have : ¬ f.toNat = g.toNat := fun e => h (by rw [← e2, ← e1, e])
    simp [h, this]

theorem toNat_lt {f : Int} {n : Nat} (h0 : 0 ≤ f) (h : f < (n : Int)) : f.toNat < n := by
  have e1 := Int.toNat_of_nonneg h0
  omega

theorem Inv.consistent {cfg : Config} {s : BufferPoolManager} (h : Inv cfg s none) :
    Consistent cfg s := by
  refine ⟨?_, ?_, ?_⟩
  · intro p q f hp hq
    rw [← (h.table_holds p f hp).2.2.1, ← (h.table_holds q f hq).2.2.1]
  · intro p f hp
    constructor
    · rintro ⟨h0, h1, h2⟩
      have := h.holds_table f h0 h1 (by rw [h2]; exact hp)
      rwa [h2] at this
    · intro hf
      have := h.table_holds p f hf
      exact ⟨this.1, this.2.1, this.2.2.1⟩
  · intro f h0 h1
    have hr := h.pin_range f h0 h1
    refine ⟨?_, ?_, ?_, ?_⟩
    · by_cases hz : (page cfg s f).pin_count_ = 0
      · have hu := h.unpinned f h0 h1 (by simp) hz
        by_cases hid : (page cfg s f).page_id_ = INVALID_PAGE_ID
        · exact Or.inl (hu.1 hid)
        · exact Or.inr (Or.inl (hu.2 hid))
      · right; right; omega
    · rintro ⟨ha, hb⟩
      exact (h.repl_spec f hb).2.2.1 (h.free_spec f ha).2.2.1
    · rintro ⟨ha, hb⟩
      have := (h.free_spec f ha).2.2.2.1
      omega
    · rintro ⟨ha, hb⟩
      have := (h.repl_spec f ha).2.2.2
      omega

theorem Inv_new_pool (cfg : Config) (pool_size : Nat) (disk_manager : DiskManager) :
    Inv cfg (new cfg pool_size disk_manager) none := by
  have hpage : ∀ f : Int, page cfg (new cfg pool_size disk_manager) f = emptyPage cfg := by
    intro f
    simp only [page, new, List.getD_eq_getElem?_getD, List.getElem?_replicate]
    split <;> rfl
  refine ⟨by simp [new], ?_, ?_, ?_, ?_, LRUReplacer.Inv_new pool_size, ?_, ?_, ?_, ?_⟩
  · intro p f hf; simp [new, UMap.find] at hf
  · intro f _ _ hid; rw [hpage] at hid; exact absurd rfl hid
  · simp only [new]
    exact (List.nodup_range _).map (fun a b hab => Int.ofNat.inj hab)
  · intro f hf
    simp only [new, List.mem_map, List.mem_range] at hf
    obtain ⟨i, hi, rfl⟩ := hf
    rw [hpage]
    exact ⟨by omega, by simp only [new]; omega, rfl, rfl, by simp⟩
  · intro f hf; simp [new, LRUReplacer.new, LRUReplacer.frames] at hf
  · intro f _ _; rw [hpage]; exact ⟨by simp [emptyPage], by simp [emptyPage]⟩
  · intro f h0 h1 _ _
    rw [hpage]
    refine ⟨fun _ => ?_, fun hid => absurd rfl hid⟩
    simp only [new, List.mem_map, List.mem_range] at h1 ⊢
    have e1 := Int.toNat_of_nonneg h0
    exact ⟨f.toNat, by omega, e1⟩
  · intro f hf; cases hf

end BufferPoolManager


namespace BufferPoolManager

theorem page_mk (cfg : Config) (n : Nat) (pages : List Page) (pt : List (page_id_t × frame_id_t))
    (free : List frame_id_t) (repl : LRUReplacer) (d : DiskManager) (f g : Int) (p : Page)
    (hf0 : 0 ≤ f) (hf : f < (pages.length : Int)) (hg0 : 0 ≤ g) :
    page cfg ⟨n, pages.set f.toNat p, pt, free, repl, d⟩ g
      = if g = f then p else pages.getD g.toNat (emptyPage cfg) :=
  getD_set_frame pages f g p (emptyPage cfg) hf0 (toNat_lt hf0 hf) hg0

theorem ne_invalid_frame {f : Int} (h : 0 ≤ f) : f ≠ INVALID_FRAME_ID := by
  intro e
  rw [e] at h
  exact absurd h (by decide)

/-- A frame handed out by `TryToFindFreePage` is in limbo: it holds no page, is
unpinned, and is neither in the free list nor in the replacer. -/
theorem TryToFindFreePage_inv {cfg : Config} {s : BufferPoolManager} (h : Inv cfg s none) :
    ((TryToFindFreePage cfg s).1 = INVALID_FRAME_ID ∧ (TryToFindFreePage cfg s).2 = s) ∨
    ((TryToFindFreePage cfg s).1 ≠ INVALID_FRAME_ID ∧
      Inv cfg (TryToFindFreePage cfg s).2 (some (TryToFindFreePage cfg s).1) ∧
      (∀ p : Int, UMap.find s.page_table_ p = none →
        UMap.find (TryToFindFreePage cfg s).2.page_table_ p = none)) := by
  obtain ⟨n, pages, pt, free, repl, d⟩ := s
  have hlen : pages.length = n := h.pages_len
  cases free with
  | cons f rest =>
    right
    have hfs := h.free_spec f (List.mem_cons_self _ _)
    have hnd := List.nodup_cons.1 h.free_nodup
    refine ⟨ne_invalid_frame hfs.1, ?_, fun p hp => hp⟩
    simp only [TryToFindFreePage]
    refine ⟨hlen, h.table_holds, h.holds_table, hnd.2, ?_, h.repl_inv, h.repl_spec, h.pin_range,
      ?_, ?_⟩
    · intro g hg
      have := h.free_spec g (List.mem_cons_of_mem _ hg)
      refine ⟨this.1, this.2.1, this.2.2.1, this.2.2.2.1, ?_⟩
      intro e
      exact hnd.1 (Option.some.inj e ▸ hg)
    · intro g h0 h1 hne hz
      have := h.unpinned g h0 h1 (by simp) hz
      refine ⟨fun hid => ?_, this.2⟩
      rcases List.mem_cons.1 (this.1 hid) with e | e
      · exact absurd (congrArg some e) hne
      · exact e
    · intro g hg
      cases hg
      exact ⟨hfs.1, hfs.2.1, hfs.2.2.1, hfs.2.2.2.1⟩
  | nil =>
    cases hv : LRUReplacer.Victim repl with
    | mk o repl' =>
      cases o with
      | none =>
        left
        simp only [TryToFindFreePage, hv]
        exact ⟨trivial, trivial⟩
      | some f =>
        right
        have hV := LRUReplacer.Victim_some h.repl_inv hv
        have hfr := h.repl_spec f hV.1
        have hf0 := hfr.1
        have hf1 : f < (pages.length : Int) := by rw [hlen]; exact hfr.2.1
        have hpg : ∀ g : Int, 0 ≤ g →
            page cfg ⟨n, pages.set f.toNat ⟨zeroPage cfg, INVALID_PAGE_ID, 0, false⟩,
              UMap.erase pt (page cfg ⟨n, pages, pt, [], repl, d⟩ f).page_id_, [], repl',
              if (page cfg ⟨n, pages, pt, [], repl, d⟩ f).is_dirty_ = true then
                diskWrite cfg d (page cfg ⟨n, pages, pt, [], repl, d⟩ f).page_id_
                  (page cfg ⟨n, pages, pt, [], repl, d⟩ f).data_
              else d⟩ g
            = if g = f then ⟨zeroPage cfg, INVALID_PAGE_ID, 0, false⟩
              else page cfg ⟨n, pages, pt, [], repl, d⟩ g := by
          intro g hg0
          exact page_mk cfg n pages _ _ _ _ f g _ hf0 hf1 hg0
        have hold : UMap.find pt (page cfg ⟨n, pages, pt, [], repl, d⟩ f).page_id_ = some f :=
          h.holds_table f hf0 hfr.2.1 hfr.2.2.1
        simp only [TryToFindFreePage, hv]
        refine ⟨ne_invalid_frame hf0, ?_, ?_⟩
        · refine ⟨by simpa using hlen, ?_, ?_, List.nodup_nil, ?_, hV.2.1, ?_, ?_, ?_, ?_⟩
          · intro p g hg
            by_cases hpe : p = (page cfg ⟨n, pages, pt, [], repl, d⟩ f).page_id_
            · rw [hpe, UMap.find_erase_self] at hg; cases hg
            · rw [UMap.find_erase_ne _ hpe] at hg
              have ht := h.table_holds p g hg
              have hgf : g ≠ f := by
                intro e
                rw [e] at ht
                exact hpe ht.2.2.1.symm
              rw [hpg g ht.1, if_neg hgf]
              exact ht
          · intro g h0 h1 hid
            rw [hpg g h0] at hid ⊢
            by_cases hgf : g = f
            · rw [if_pos hgf] at hid; exact absurd rfl hid
            · rw [if_neg hgf] at hid ⊢
              have := h.holds_table g h0 h1 hid
              rw [UMap.find_erase_ne _ _]
              · exact this
              · intro e
                rw [e, hold] at this
                exact hgf (Option.some.inj this).symm
          · intro g hg; cases hg
          · intro g hg
            have hg' := (hV.2.2 g).1 hg
            have := h.repl_spec g hg'.1
            rw [hpg g this.1, if_neg hg'.2]
            exact this
          · intro g h0 h1
            rw [hpg g h0]
            by_cases hgf : g = f
            · rw [if_pos hgf]; exact ⟨by simp, by simp⟩
            · rw [if_neg hgf]; exact h.pin_range g h0 h1
          · intro g h0 h1 hne hz
            have hgf : g ≠ f := fun e => hne (by rw [e])
            rw [hpg g h0, if_neg hgf] at hz ⊢
            have := h.unpinned g h0 h1 (by simp) hz
            exact ⟨this.1, fun hid => (hV.2.2 g).2 ⟨this.2 hid, hgf⟩⟩
          · intro g hg
            cases hg
            rw [hpg f hf0, if_pos rfl]
            exact ⟨hf0, hfr.2.1, rfl, rfl⟩
        · intro p hp
          by_cases hpe : p = (page cfg ⟨n, pages, pt, [], repl, d⟩ f).page_id_
          · rw [hpe]; exact UMap.find_erase_self _ _
          · rw [UMap.find_erase_ne _ hpe]; exact hp

end BufferPoolManager


namespace BufferPoolManager

theorem wrapInt32_of_range (x : Int) (h0 : -(2 ^ 31) ≤ x) (h1 : x < 2 ^ 31) : wrapInt32 x = x := by
  unfold wrapInt32
  omega

/-- Installing a page that is not resident in the frame in limbo. -/
theorem install_inv {cfg : Config} {n : Nat} {pages : List Page}
    {pt : List (page_id_t × frame_id_t)} {free : List frame_id_t} {repl : LRUReplacer}
    {d : DiskManager} {f0 : Int} (h : Inv cfg ⟨n, pages, pt, free, repl, d⟩ (some f0))
    (p : Int) (hp : p ≠ INVALID_PAGE_ID) (hnr : UMap.find pt p = none) (data : List Nat)
    (dirty : Bool) (d' : DiskManager) :
    Inv cfg ⟨n, pages.set f0.toNat ⟨data, p, 1, dirty⟩, UMap.insert pt p f0, free,
      LRUReplacer.Pin repl f0, d'⟩ none := by
  have hlen : pages.length = n := h.pages_len
  have hl := h.limbo_spec f0 rfl
  have hf0 := hl.1
  have hf1 : f0 < (pages.length : Int) := by rw [hlen]; exact hl.2.1
  have hpg : ∀ g : Int, 0 ≤ g →
      page cfg ⟨n, pages.set f0.toNat ⟨data, p, 1, dirty⟩, UMap.insert pt p f0, free,
        LRUReplacer.Pin repl f0, d'⟩ g
      = if g = f0 then ⟨data, p, 1, dirty⟩ else page cfg ⟨n, pages, pt, free, repl, d⟩ g := by
    intro g hg0
    exact page_mk cfg n pages _ _ _ _ f0 g _ hf0 hf1 hg0
  have hnrepl : f0 ∉ LRUReplacer.frames repl := fun hm => (h.repl_spec f0 hm).2.2.1 hl.2.2.1
  have hpin : LRUReplacer.Pin repl f0 = repl := LRUReplacer.Pin_of_not_mem h.repl_inv hnrepl
  refine ⟨by simpa using hlen, ?_, ?_, h.free_nodup, ?_, by rw [hpin]; exact h.repl_inv, ?_, ?_,
    ?_, ?_⟩
  · intro q g hg
    by_cases hq : q = p
    · subst hq
      rw [UMap.find_insert_self] at hg
      cases hg
      rw [hpg f0 hf0, if_pos rfl]
      exact ⟨hf0, hl.2.1, rfl, hp⟩
    · rw [UMap.find_insert_ne _ _ hq] at hg
      have ht := h.table_holds q g hg
      have hgf : g ≠ f0 := by
        intro e
        rw [e, hl.2.2.1] at ht
        exact ht.2.2.2 ht.2.2.1.symm
      rw [hpg g ht.1, if_neg hgf]
      exact ht
  · intro g h0 h1 hid
    rw [hpg g h0] at hid ⊢
    by_cases hgf : g = f0
    · rw [if_pos hgf]
      simp only [hgf]
      exact UMap.find_insert_self _ _ _
    · rw [if_neg hgf] at hid ⊢
      have := h.holds_table g h0 h1 hid
      rw [UMap.find_insert_ne _ _ _]
      · exact this
      · intro e
        rw [e, hnr] at this
        cases this
  · intro g hg
    have := h.free_spec g hg
    have hgf : g ≠ f0 := fun e => this.2.2.2.2 (by rw [e])
    rw [hpg g this.1, if_neg hgf]
    exact ⟨this.1, this.2.1, this.2.2.1, this.2.2.2.1, by simp⟩
  · intro g hg
    rw [hpin] at hg
    have := h.repl_spec g hg
    have hgf : g ≠ f0 := fun e => hnrepl (e ▸ hg)
    rw [hpg g this.1, if_neg hgf]
    exact this
  · intro g h0 h1
    rw [hpg g h0]
    by_cases hgf : g = f0
    · rw [if_pos hgf]; exact ⟨by simp, by simp⟩
    · rw [if_neg hgf]; exact h.pin_range g h0 h1
  · intro g h0 h1 _ hz
    rw [hpg g h0] at hz ⊢
    by_cases hgf : g = f0
    · rw [if_pos hgf] at hz; simp at hz
    · rw [if_neg hgf] at hz ⊢
      rw [hpin]
      exact h.unpinned g h0 h1 (fun e => hgf (Option.some.inj e)) hz
  · intro g hg; cases hg

/-- Returning the frame in limbo to the free list. -/
theorem release_inv {cfg : Config} {n : Nat} {pages : List Page}
    {pt : List (page_id_t × frame_id_t)} {free : List frame_id_t} {repl : LRUReplacer}
    {d : DiskManager} {f0 : Int} (h : Inv cfg ⟨n, pages, pt, free, repl, d⟩ (some f0))
    (data : List Nat) (d' : DiskManager) :
    Inv cfg ⟨n, pages.set f0.toNat ⟨data, INVALID_PAGE_ID, 0, false⟩, pt, free ++ [f0], repl,
      d'⟩ none := by
  have hlen : pages.length = n := h.pages_len
  have hl := h.limbo_spec f0 rfl
  have hf0 := hl.1
  have hf1 : f0 < (pages.length : Int) := by rw [hlen]; exact hl.2.1
  have hpg : ∀ g : Int, 0 ≤ g →
      page cfg ⟨n, pages.set f0.toNat ⟨data, INVALID_PAGE_ID, 0, false⟩, pt, free ++ [f0], repl,
        d'⟩ g
      = if g = f0 then ⟨data, INVALID_PAGE_ID, 0, false⟩
        else page cfg ⟨n, pages, pt, free, repl, d⟩ g := by
    intro g hg0
    exact page_mk cfg n pages _ _ _ _ f0 g _ hf0 hf1 hg0
  have hnrepl : f0 ∉ LRUReplacer.frames repl := fun hm => (h.repl_spec f0 hm).2.2.1 hl.2.2.1
  have hnfree : f0 ∉ free := fun hm => (h.free_spec f0 hm).2.2.2.2 rfl
  refine ⟨by simpa using hlen, ?_, ?_, ?_, ?_, h.repl_inv, ?_, ?_, ?_, ?_⟩
  · intro q g hg
    have ht := h.table_holds q g hg
    have hgf : g ≠ f0 := by
      intro e
      rw [e, hl.2.2.1] at ht
      exact ht.2.2.2 ht.2.2.1.symm
    rw [hpg g ht.1, if_neg hgf]
    exact ht
  · intro g h0 h1 hid
    rw [hpg g h0] at hid ⊢
    by_cases hgf : g = f0
    · rw [if_pos hgf] at hid; exact absurd rfl hid
    · rw [if_neg hgf] at hid ⊢
      exact h.holds_table g h0 h1 hid
  · rw [List.nodup_append]
    exact ⟨h.free_nodup, List.nodup_singleton _, fun x hx hx' => by
      rw [List.mem_singleton] at hx'
      exact hnfree (hx' ▸ hx)⟩
  · intro g hg
    rw [List.mem_append, List.mem_singleton] at hg
    rcases hg with hg | hg
    · have := h.free_spec g hg
      have hgf : g ≠ f0 := fun e => this.2.2.2.2 (by rw [e])
      rw [hpg g this.1, if_neg hgf]
      exact ⟨this.1, this.2.1, this.2.2.1, this.2.2.2.1, by simp⟩
    · rw [hpg g (hg ▸ hf0), if_pos hg]
      exact ⟨hg ▸ hf0, hg ▸ hl.2.1, rfl, rfl, by simp⟩
  · intro g hg
    have := h.repl_spec g hg
    have hgf : g ≠ f0 := fun e => hnrepl (e ▸ hg)
    rw [hpg g this.1, if_neg hgf]
    exact this
  · intro g h0 h1
    rw [hpg g h0]
    by_cases hgf : g = f0
    · rw [if_pos hgf]; exact ⟨by simp, by simp⟩
    · rw [if_neg hgf]; exact h.pin_range g h0 h1
  · intro g h0 h1 _ hz
    rw [hpg g h0] at hz ⊢
    by_cases hgf : g = f0
    · rw [if_pos hgf]
      exact ⟨fun _ => by rw [hgf]; simp, fun hid => absurd rfl hid⟩
    · rw [if_neg hgf] at hz ⊢
      have := h.unpinned g h0 h1 (fun e => hgf (Option.some.inj e)) hz
      exact ⟨fun hid => List.mem_append_left _ (this.1 hid), this.2⟩
  · intro g hg; cases hg

end BufferPoolManager


namespace BufferPoolManager

theorem FetchPage_inv {cfg : Config} {s : BufferPoolManager} (h : Inv cfg s none) (p : Int)
    (hadm : Admissible cfg s (.fetch p)) : Inv cfg (FetchPage cfg s p).2 none := by
  unfold FetchPage
  by_cases hp : p = INVALID_PAGE_ID
  · rw [if_pos hp]; exact h
  · rw [if_neg hp]
    cases hfind : UMap.find s.page_table_ p with
    | some f =>
      simp only []
      have hpin := hadm f hfind
      obtain ⟨n, pages, pt, free, repl, d⟩ := s
      have hlen : pages.length = n := h.pages_len
      have ht := h.table_holds p f hfind
      have hf0 := ht.1
      have hf1 : f < (pages.length : Int) := by rw [hlen]; exact ht.2.1
      have hr := h.pin_range f hf0 ht.2.1
      have hw : wrapInt32 ((page cfg ⟨n, pages, pt, free, repl, d⟩ f).pin_count_ + 1)
          = (page cfg ⟨n, pages, pt, free, repl, d⟩ f).pin_count_ + 1 :=
        wrapInt32_of_range _ (by omega) (by omega)
      rw [hw]
      have hpg : ∀ g : Int, 0 ≤ g →
          page cfg ⟨n, pages.set f.toNat
              { page cfg ⟨n, pages, pt, free, repl, d⟩ f with
                pin_count_ := (page cfg ⟨n, pages, pt, free, repl, d⟩ f).pin_count_ + 1 },
            pt, free, LRUReplacer.Pin repl f, d⟩ g
          = if g = f then
              { page cfg ⟨n, pages, pt, free, repl, d⟩ f with
                pin_count_ := (page cfg ⟨n, pages, pt, free, repl, d⟩ f).pin_count_ + 1 }
            else page cfg ⟨n, pages, pt, free, repl, d⟩ g := by
        intro g hg0
        exact page_mk cfg n pages _ _ _ _ f g _ hf0 hf1 hg0
      refine ⟨by simpa using hlen, ?_, ?_, h.free_nodup, ?_, LRUReplacer.Inv_Pin h.repl_inv f, ?_,
        ?_, ?_, ?_⟩
      · intro q g hg
        have htq := h.table_holds q g hg
        rw [hpg g htq.1]
        by_cases hgf : g = f
        · rw [if_pos hgf]
          subst hgf
          exact htq
        · rw [if_neg hgf]; exact htq
      · intro g h0 h1 hid
        rw [hpg g h0] at hid ⊢
        by_cases hgf : g = f
        · rw [if_pos hgf] at hid ⊢
          subst hgf
          exact h.holds_table g h0 h1 hid
        · rw [if_neg hgf] at hid ⊢
          exact h.holds_table g h0 h1 hid
      · intro g hg
        have := h.free_spec g hg
        have hgf : g ≠ f := by
          intro e
          rw [e, ht.2.2.1] at this
          exact ht.2.2.2 this.2.2.1
        rw [hpg g this.1, if_neg hgf]
        exact this
      · intro g hg
        have hg' := (LRUReplacer.mem_frames_Pin h.repl_inv f g).1 hg
        have := h.repl_spec g hg'.1
        rw [hpg g this.1, if_neg hg'.2]
        exact this
      · intro g h0 h1
        rw [hpg g h0]
        by_cases hgf : g = f
        · rw [if_pos hgf]
          show 0 ≤ _ + 1 ∧ _ + 1 ≤ 2 ^ 31 - 1
          omega
        · rw [if_neg hgf]; exact h.pin_range g h0 h1
      · intro g h0 h1 hne hz
        rw [hpg g h0] at hz ⊢
        by_cases hgf : g = f
        · rw [if_pos hgf] at hz
          have hz' : (page cfg ⟨n, pages, pt, free, repl, d⟩ f).pin_count_ + 1 = 0 := hz
          omega
        · rw [if_neg hgf] at hz ⊢
          have := h.unpinned g h0 h1 hne hz
          exact ⟨this.1, fun hid => (LRUReplacer.mem_frames_Pin h.repl_inv f g).2 ⟨this.2 hid, hgf⟩⟩
      · intro g hg; cases hg
    | none =>
      simp only []
      have hT := TryToFindFreePage_inv h
      revert hT
      generalize TryToFindFreePage cfg s = r
      intro hT
      rcases hT with ⟨h1, h2⟩ | ⟨h1, h2, h3⟩
      · rw [if_pos h1, h2]; exact h
      · rw [if_neg h1]
        obtain ⟨f0, ⟨n, pages, pt, free, repl, d⟩⟩ := r
        exact install_inv h2 p hp (h3 p hfind) _ _ _

theorem NewPage_inv {cfg : Config} {s : BufferPoolManager} (h : Inv cfg s none)
    (hadm : Admissible cfg s .newPage) : Inv cfg (NewPage cfg s).2.2 none := by
  unfold NewPage
  have hT := TryToFindFreePage_inv h
  simp only [Admissible] at hadm
  revert hT hadm
  generalize TryToFindFreePage cfg s = r
  intro hadm hT
  rcases hT with ⟨h1, h2⟩ | ⟨h1, h2, _⟩
  · simp only [h1, if_true, h2]; exact h
  · simp only [h1, if_false]
    have hnr := hadm h1
    obtain ⟨f0, ⟨n, pages, pt, free, repl, d⟩⟩ := r
    by_cases ha : (DiskManager.AllocatePage cfg d).1 = INVALID_PAGE_ID
    · simp only [ha, if_true]
      exact release_inv h2 _ _
    · simp only [ha, if_false]
      exact install_inv h2 _ ha hnr _ _ _

theorem FlushPage_inv {cfg : Config} {s : BufferPoolManager} (h : Inv cfg s none) (p : Int) :
    Inv cfg (FlushPage cfg s p).2 none := by
  unfold FlushPage
  by_cases hp : p = INVALID_PAGE_ID
  · rw [if_pos hp]; exact h
  · rw [if_neg hp]
    cases hfind : UMap.find s.page_table_ p with
    | none => exact h
    | some f =>
      simp only []
      obtain ⟨n, pages, pt, free, repl, d⟩ := s
      have hlen : pages.length = n := h.pages_len
      have ht := h.table_holds p f hfind
      have hf0 := ht.1
      have hf1 : f < (pages.length : Int) := by rw [hlen]; exact ht.2.1
      have hpg : ∀ g : Int, 0 ≤ g →
          page cfg ⟨n, pages.set f.toNat
              { page cfg ⟨n, pages, pt, free, repl, d⟩ f with is_dirty_ := false },
            pt, free, repl,
            diskWrite cfg d (page cfg ⟨n, pages, pt, free, repl, d⟩ f).page_id_
              (page cfg ⟨n, pages, pt, free, repl, d⟩ f).data_⟩ g
          = if g = f then
              { page cfg ⟨n, pages, pt, free, repl, d⟩ f with is_dirty_ := false }
            else page cfg ⟨n, pages, pt, free, repl, d⟩ g := by
        intro g hg0
        exact page_mk cfg n pages _ _ _ _ f g _ hf0 hf1 hg0
      have hsame : ∀ g : Int, 0 ≤ g →
          (page cfg ⟨n, pages.set f.toNat
              { page cfg ⟨n, pages, pt, free, repl, d⟩ f with is_dirty_ := false },
            pt, free, repl,
            diskWrite cfg d (page cfg ⟨n, pages, pt, free, repl, d⟩ f).page_id_
              (page cfg ⟨n, pages, pt, free, repl, d⟩ f).data_⟩ g).page_id_
            = (page cfg ⟨n, pages, pt, free, repl, d⟩ g).page_id_ ∧
          (page cfg ⟨n, pages.set f.toNat
              { page cfg ⟨n, pages, pt, free, repl, d⟩ f with is_dirty_ := false },
            pt, free, repl,
            diskWrite cfg d (page cfg ⟨n, pages, pt, free, repl, d⟩ f).page_id_
              (page cfg ⟨n, pages, pt, free, repl, d⟩ f).data_⟩ g).pin_count_
            = (page cfg ⟨n, pages, pt, free, repl, d⟩ g).pin_count_ := by
        intro g hg0
        rw [hpg g hg0]
        by_cases hgf : g = f
        · rw [if_pos hgf, hgf]; exact ⟨rfl, rfl⟩
        · rw [if_neg hgf]; exact ⟨rfl, rfl⟩
      refine ⟨by simpa using hlen, ?_, ?_, h.free_nodup, ?_, h.repl_inv, ?_, ?_, ?_, ?_⟩
      · intro q g hg
        have := h.table_holds q g hg
        rw [(hsame g this.1).1]; exact this
      · intro g h0 h1 hid
        rw [(hsame g h0).1] at hid ⊢
        exact h.holds_table g h0 h1 hid
      · intro g hg
        have := h.free_spec g hg
        rw [(hsame g this.1).1, (hsame g this.1).2]; exact this
      · intro g hg
        have := h.repl_spec g hg
        rw [(hsame g this.1).1, (hsame g this.1).2]; exact this
      · intro g h0 h1
        rw [(hsame g h0).2]; exact h.pin_range g h0 h1
      · intro g h0 h1 hne hz
        rw [(hsame g h0).2] at hz
        rw [(hsame g h0).1]
        exact h.unpinned g h0 h1 hne hz
      · intro g hg; cases hg

end BufferPoolManager


namespace BufferPoolManager

theorem UnpinPage_inv {cfg : Config} {s : BufferPoolManager} (h : Inv cfg s none) (p : Int)
    (is_dirty : Bool) : Inv cfg (UnpinPage cfg s p is_dirty).2 none := by
  unfold UnpinPage
  by_cases hp : p = INVALID_PAGE_ID
  · rw [if_pos hp]; exact h
  · rw [if_neg hp]
    cases hfind : UMap.find s.page_table_ p with
    | none => exact h
    | some f =>
      simp only []
      by_cases hpc : (page cfg s f).pin_count_ ≤ 0
      · rw [if_pos hpc]; exact h
      · rw [if_neg hpc]
        obtain ⟨n, pages, pt, free, repl, d⟩ := s
        have hlen : pages.length = n := h.pages_len
        have ht := h.table_holds p f hfind
        have hf0 := ht.1
        have hf1 : f < (pages.length : Int) := by rw [hlen]; exact ht.2.1
        have hr := h.pin_range f hf0 ht.2.1
        have hw : wrapInt32 ((page cfg ⟨n, pages, pt, free, repl, d⟩ f).pin_count_ - 1)
            = (page cfg ⟨n, pages, pt, free, repl, d⟩ f).pin_count_ - 1 :=
          wrapInt32_of_range _ (by omega) (by omega)
        simp only [hw]
        have hnrepl : f ∉ LRUReplacer.frames repl := by
          intro hm
          have := (h.repl_spec f hm).2.2.2
          omega
        have hpg : ∀ (r' : LRUReplacer) (g : Int), 0 ≤ g →
            page cfg ⟨n, pages.set f.toNat
                { page cfg ⟨n, pages, pt, free, repl, d⟩ f with
                  pin_count_ := (page cfg ⟨n, pages, pt, free, repl, d⟩ f).pin_count_ - 1,
                  is_dirty_ := if is_dirty = true then true
                    else (page cfg ⟨n, pages, pt, free, repl, d⟩ f).is_dirty_ },
              pt, free, r', d⟩ g
            = if g = f then
                { page cfg ⟨n, pages, pt, free, repl, d⟩ f with
                  pin_count_ := (page cfg ⟨n, pages, pt, free, repl, d⟩ f).pin_count_ - 1,
                  is_dirty_ := if is_dirty = true then true
                    else (page cfg ⟨n, pages, pt, free, repl, d⟩ f).is_dirty_ }
              else page cfg ⟨n, pages, pt, free, repl, d⟩ g := by
          intro r' g hg0
          exact page_mk cfg n pages _ _ _ _ f g _ hf0 hf1 hg0
        have hfree : f ∉ free := by
          intro hm
          have := (h.free_spec f hm).2.2.2.1
          omega
        refine ⟨by simpa using hlen, ?_, ?_, h.free_nodup, ?_, ?_, ?_, ?_, ?_, ?_⟩
        · intro q g hg
          have htq := h.table_holds q g hg
          rw [hpg _ g htq.1]
          by_cases hgf : g = f
          · rw [if_pos hgf]; subst hgf; exact htq
          · rw [if_neg hgf]; exact htq
        · intro g h0 h1 hid
          rw [hpg _ g h0] at hid ⊢
          by_cases hgf : g = f
          · rw [if_pos hgf] at hid ⊢
            subst hgf
            exact h.holds_table g h0 h1 hid
          · rw [if_neg hgf] at hid ⊢
            exact h.holds_table g h0 h1 hid
        · intro g hg
          have := h.free_spec g hg
          have hgf : g ≠ f := fun e => hfree (e ▸ hg)
          rw [hpg _ g this.1, if_neg hgf]
          exact this
        · show LRUReplacer.Inv (if _ then _ else _)
          split
          · exact LRUReplacer.Inv_Unpin h.repl_inv f
          · exact h.repl_inv
        · intro g hg
          have hg' : g = f ∧ (page cfg ⟨n, pages, pt, free, repl, d⟩ f).pin_count_ - 1 = 0 ∨
              g ∈ LRUReplacer.frames repl := by
            have hg2 : g ∈ LRUReplacer.frames
                (if (page cfg ⟨n, pages, pt, free, repl, d⟩ f).pin_count_ - 1 = 0
                 then LRUReplacer.Unpin repl f else repl) := hg
            by_cases hz : (page cfg ⟨n, pages, pt, free, repl, d⟩ f).pin_count_ - 1 = 0
            · rw [if_pos hz] at hg2
              rcases (LRUReplacer.mem_frames_Unpin h.repl_inv f g).1 hg2 with e | e
              · exact Or.inl ⟨e, hz⟩
              · exact Or.inr e
            · rw [if_neg hz] at hg2; exact Or.inr hg2
          rcases hg' with ⟨e, hz⟩ | hm
          · rw [hpg _ g (e ▸ hf0), if_pos e]
            exact ⟨e ▸ hf0, e ▸ ht.2.1, by rw [ht.2.2.1]; exact hp, hz⟩
          · have := h.repl_spec g hm
            have hgf : g ≠ f := fun e => hnrepl (e ▸ hm)
            rw [hpg _ g this.1, if_neg hgf]
            exact this
        · intro g h0 h1
          rw [hpg _ g h0]
          by_cases hgf : g = f
          · rw [if_pos hgf]
            show 0 ≤ _ - 1 ∧ _ - 1 ≤ 2 ^ 31 - 1
            omega
          · rw [if_neg hgf]; exact h.pin_range g h0 h1
        · intro g h0 h1 hne hz
          rw [hpg _ g h0] at hz ⊢
          by_cases hgf : g = f
          · rw [if_pos hgf] at hz ⊢
            have hz' : (page cfg ⟨n, pages, pt, free, repl, d⟩ f).pin_count_ - 1 = 0 := hz
            refine ⟨fun hid => absurd (hid.symm ▸ ht.2.2.1 : INVALID_PAGE_ID = p).symm hp,
              fun _ => ?_⟩
            show g ∈ LRUReplacer.frames (if _ then _ else _)
            rw [if_pos hz']
            exact (LRUReplacer.mem_frames_Unpin h.repl_inv f g).2 (Or.inl hgf)
          · rw [if_neg hgf] at hz ⊢
            have := h.unpinned g h0 h1 hne hz
            refine ⟨this.1, fun hid => ?_⟩
            show g ∈ LRUReplacer.frames (if _ then _ else _)
            split
            · exact (LRUReplacer.mem_frames_Unpin h.repl_inv f g).2 (Or.inr (this.2 hid))
            · exact this.2 hid
        · intro g hg; cases hg

theorem DeletePage_inv {cfg : Config} {s : BufferPoolManager} (h : Inv cfg s none) (p : Int) :
    Inv cfg (DeletePage cfg s p).2 none := by
  unfold DeletePage
  by_cases hp : p = INVALID_PAGE_ID
  · rw [if_pos hp]; exact h
  · rw [if_neg hp]
    cases hfind : UMap.find s.page_table_ p with
    | none =>
      simp only []
      obtain ⟨n, pages, pt, free, repl, d⟩ := s
      exact ⟨h.pages_len, h.table_holds, h.holds_table, h.free_nodup, h.free_spec, h.repl_inv,
        h.repl_spec, h.pin_range, h.unpinned, h.limbo_spec⟩
    | some f =>
      simp only []
      by_cases hpc : (page cfg s f).pin_count_ > 0
      · rw [if_pos hpc]; exact h
      · rw [if_neg hpc]
        obtain ⟨n, pages, pt, free, repl, d⟩ := s
        have hlen : pages.length = n := h.pages_len
        have ht := h.table_holds p f hfind
        have hf0 := ht.1
        have hf1 : f < (pages.length : Int) := by rw [hlen]; exact ht.2.1
        have hpg : ∀ g : Int, 0 ≤ g →
            page cfg ⟨n, pages.set f.toNat ⟨zeroPage cfg, INVALID_PAGE_ID, 0, false⟩,
              UMap.erase pt p, free ++ [f], LRUReplacer.Pin repl f,
              DiskManager.DeAllocatePage cfg d p⟩ g
            = if g = f then ⟨zeroPage cfg, INVALID_PAGE_ID, 0, false⟩
              else page cfg ⟨n, pages, pt, free, repl, d⟩ g := by
          intro g hg0
          exact page_mk cfg n pages _ _ _ _ f g _ hf0 hf1 hg0
        have hfree : f ∉ free := by
          intro hm
          have := (h.free_spec f hm).2.2.1
          rw [ht.2.2.1] at this
          exact hp this
        refine ⟨by simpa using hlen, ?_, ?_, ?_, ?_, LRUReplacer.Inv_Pin h.repl_inv f, ?_, ?_, ?_,
          ?_⟩
        · intro q g hg
          by_cases hq : q = p
          · rw [hq, UMap.find_erase_self] at hg; cases hg
          · rw [UMap.find_erase_ne _ hq] at hg
            have htq := h.table_holds q g hg
            have hgf : g ≠ f := by
              intro e
              rw [e, ht.2.2.1] at htq
              exact hq htq.2.2.1.symm
            rw [hpg g htq.1, if_neg hgf]
            exact htq
        · intro g h0 h1 hid
          rw [hpg g h0] at hid ⊢
          by_cases hgf : g = f
          · rw [if_pos hgf] at hid; exact absurd rfl hid
          · rw [if_neg hgf] at hid ⊢
            have := h.holds_table g h0 h1 hid
            rw [UMap.find_erase_ne _ _]
            · exact this
            · intro e
              rw [e, hfind] at this
              exact hgf (Option.some.inj this).symm
        · rw [List.nodup_append]
          exact ⟨h.free_nodup, List.nodup_singleton _, fun x hx hx' => by
            rw [List.mem_singleton] at hx'
            exact hfree (hx' ▸ hx)⟩
        · intro g hg
          rw [List.mem_append, List.mem_singleton] at hg
          rcases hg with hg | hg
          · have := h.free_spec g hg
            have hgf : g ≠ f := fun e => hfree (e ▸ hg)
            rw [hpg g this.1, if_neg hgf]
            exact this
          · rw [hpg g (hg ▸ hf0), if_pos hg]
            exact ⟨hg ▸ hf0, hg ▸ ht.2.1, rfl, rfl, by simp⟩
        · intro g hg
          have hg' := (LRUReplacer.mem_frames_Pin h.repl_inv f g).1 hg
          have := h.repl_spec g hg'.1
          rw [hpg g this.1, if_neg hg'.2]
          exact this
        · intro g h0 h1
          rw [hpg g h0]
          by_cases hgf : g = f
          · rw [if_pos hgf]; exact ⟨by simp, by simp⟩
          · rw [if_neg hgf]; exact h.pin_range g h0 h1
        · intro g h0 h1 hne hz
          rw [hpg g h0] at hz ⊢
          by_cases hgf : g = f
          · rw [if_pos hgf]
            exact ⟨fun _ => by rw [hgf]; simp, fun hid => absurd rfl hid⟩
          · rw [if_neg hgf] at hz ⊢
            have := h.unpinned g h0 h1 hne hz
            exact ⟨fun hid => List.mem_append_left _ (this.1 hid),
              fun hid => (LRUReplacer.mem_frames_Pin h.repl_inv f g).2 ⟨this.2 hid, hgf⟩⟩
        · intro g hg; cases hg

theorem step_inv {cfg : Config} {s : BufferPoolManager} (h : Inv cfg s none) (op : Op)
    (hadm : Admissible cfg s op) : Inv cfg (step cfg s op) none := by
  cases op with
  | fetch p => exact FetchPage_inv h p hadm
  | newPage => exact NewPage_inv h hadm
  | unpin p d => exact UnpinPage_inv h p d
  | delete p => exact DeletePage_inv h p
  | flush p => exact FlushPage_inv h p

theorem run_inv_pool {cfg : Config} (ops : List Op) {s : BufferPoolManager} (h : Inv cfg s none)
    (hadm : AdmissibleRun cfg s ops) : Inv cfg (run cfg s ops) none := by
  induction ops generalizing s with
  | nil => exact h
  | cons op ops ih => exact ih (step_inv h op hadm.1) hadm.2

end BufferPoolManager


namespace BufferPoolManager

/-- C1, amended.  For every state reached from a freshly constructed
`BufferPoolManager` by `FetchPage` / `NewPage` / `UnpinPage` / `DeletePage` /
`FlushPage` calls such that the page id the disk manager hands out in a
`NewPage` is never resident at that moment, and no resident page is fetched
while its pin count is `INT_MAX`: the page table maps distinct page ids to
distinct frames, a frame holds page id `p` exactly when `page_table_[p]` is that
frame, and every frame is in exactly one of the free list, the replacer and
the pinned frames. -/
theorem pool_consistency (cfg : Config) (pool_size : Nat) (disk_manager : DiskManager)
    (ops : List Op) (hadm : AdmissibleRun cfg (new cfg pool_size disk_manager) ops) :
    Consistent cfg (run cfg (new cfg pool_size disk_manager) ops) :=
  (run_inv_pool ops (Inv_new_pool cfg pool_size disk_manager) hadm).consistent

/-- Instance of `pool_consistency`: a pool of two frames over an empty database
file, after `NewPage()` (page 0), `UnpinPage(0, true)` and `FetchPage(0)`. -/
theorem pool_consistency_witness :
    Consistent Config.default
      (run Config.default (new Config.default 2 (DiskManager.openEmpty Config.default))
        [.newPage, .unpin 0 true, .fetch 0]) :=
  pool_consistency Config.default 2 (DiskManager.openEmpty Config.default)
    [.newPage, .unpin 0 true, .fetch 0]
    ⟨by
      intro _
      decide!,
     trivial,
     by
      intro f hf
      have h0 : UMap.find (step Config.default (step Config.default
          (new Config.default 2 (DiskManager.openEmpty Config.default)) .newPage)
          (.unpin 0 true)).page_table_ 0 = some 0 := by decide!
      rw [h0] at hf
      cases hf
      decide!,
     trivial⟩

end BufferPoolManager

namespace BufferPoolManager

/-- C11. On every state satisfying the pool invariant, `UnpinPage(pid, is_dirty)`
returns `false` exactly when `pid` is `INVALID_PAGE_ID`, `pid` is not resident,
or the resident page has pin count 0, and then the whole state is unchanged;
otherwise it returns `true`, the pin count of the page's frame drops by exactly
1, its dirty flag becomes `dirty_before || is_dirty`, its page id and bytes stay,
the frame is in the replacer afterwards exactly when the new pin count is 0,
and the other frames, their replacer membership, the page table, the free list
and the disk manager are unchanged. -/
theorem UnpinPage_contract (cfg : Config) (s : BufferPoolManager) (hs : Inv cfg s none)
    (page_id : Int) (is_dirty : Bool) :
    ((UnpinPage cfg s page_id is_dirty).1 = false ↔
      (page_id = INVALID_PAGE_ID ∨ UMap.find s.page_table_ page_id = none ∨
        ∃ f : Int, UMap.find s.page_table_ page_id = some f ∧ (page cfg s f).pin_count_ = 0)) ∧
    ((UnpinPage cfg s page_id is_dirty).1 = false → (UnpinPage cfg s page_id is_dirty).2 = s) ∧
    (∀ f : Int, page_id ≠ INVALID_PAGE_ID → UMap.find s.page_table_ page_id = some f →
      (page cfg s f).pin_count_ ≠ 0 →
      (UnpinPage cfg s page_id is_dirty).1 = true ∧
      (page cfg (UnpinPage cfg s page_id is_dirty).2 f).pin_count_
        = (page cfg s f).pin_count_ - 1 ∧
      (page cfg (UnpinPage cfg s page_id is_dirty).2 f).is_dirty_
        = ((page cfg s f).is_dirty_ || is_dirty) ∧
      (page cfg (UnpinPage cfg s page_id is_dirty).2 f).page_id_ = page_id ∧
      (page cfg (UnpinPage cfg s page_id is_dirty).2 f).data_ = (page cfg s f).data_ ∧
      (f ∈ LRUReplacer.frames (UnpinPage cfg s page_id is_dirty).2.replacer_ ↔
        (page cfg (UnpinPage cfg s page_id is_dirty).2 f).pin_count_ = 0) ∧
      (∀ g : Int, 0 ≤ g → g ≠ f →
        page cfg (UnpinPage cfg s page_id is_dirty).2 g = page cfg s g ∧
        (g ∈ LRUReplacer.frames (UnpinPage cfg s page_id is_dirty).2.replacer_ ↔
          g ∈ LRUReplacer.frames s.replacer_)) ∧
      (UnpinPage cfg s page_id is_dirty).2.page_table_ = s.page_table_ ∧
      (UnpinPage cfg s page_id is_dirty).2.free_list_ = s.free_list_ ∧
      (UnpinPage cfg s page_id is_dirty).2.disk_manager_ = s.disk_manager_ ∧
      (UnpinPage cfg s page_id is_dirty).2.pool_size_ = s.pool_size_) := by
  by_cases hinv : page_id = INVALID_PAGE_ID
  · have h : UnpinPage cfg s page_id is_dirty = (false, s) := by
      simp only [UnpinPage, hinv, if_true]
    rw [h]
    exact ⟨⟨fun _ => Or.inl hinv, fun _ => rfl⟩, fun _ => rfl, fun f hne => absurd hinv hne⟩
  cases hfind : UMap.find s.page_table_ page_id with
  | none =>
    have h : UnpinPage cfg s page_id is_dirty = (false, s) := by
      simp only [UnpinPage, hinv, if_false, hfind]
    rw [h]
    exact ⟨⟨fun _ => Or.inr (Or.inl rfl), fun _ => rfl⟩, fun _ => rfl,
      fun f _ hf => by cases hf⟩
  | some f0 =>
    obtain ⟨hf0, hf1, hpid, _⟩ := hs.table_holds page_id f0 hfind
    obtain ⟨hp0, hp1⟩ := hs.pin_range f0 hf0 hf1
    have hlen : f0 < (s.pages_.length : Int) := by rw [hs.pages_len]; exact hf1
    by_cases hpin : (page cfg s f0).pin_count_ = 0
    · have hle : (page cfg s f0).pin_count_ ≤ 0 := by omega
      have h : UnpinPage cfg s page_id is_dirty = (false, s) := by
        simp only [UnpinPage, hinv, if_false, hfind, hle, if_true]
      rw [h]
      refine ⟨⟨fun _ => Or.inr (Or.inr ⟨f0, rfl, hpin⟩), fun _ => rfl⟩, fun _ => rfl, ?_⟩
      intro f _ hf hne
      cases hf
      exact absurd hpin hne
    · have hle : ¬ (page cfg s f0).pin_count_ ≤ 0 := by omega
      have hw : wrapInt32 ((page cfg s f0).pin_count_ - 1) = (page cfg s f0).pin_count_ - 1 :=
        wrapInt32_of_range _ (by omega) (by omega)
      have h : UnpinPage cfg s page_id is_dirty
          = (true,
              { s with
                pages_ := s.pages_.set f0.toNat
                  { page cfg s f0 with
                    pin_count_ := (page cfg s f0).pin_count_ - 1,
                    is_dirty_ := if is_dirty then true else (page cfg s f0).is_dirty_ },
                replacer_ :=
                  if (page cfg s f0).pin_count_ - 1 = 0 then LRUReplacer.Unpin s.replacer_ f0
                  else s.replacer_ }) := by
        simp only [UnpinPage, hinv, if_false, hfind, hle, hw]
      rw [h]
      refine ⟨⟨fun hf => (by cases hf), ?_⟩, fun hf => (by cases hf), ?_⟩
      · rintro (h1 | h1 | ⟨f, h1, h2⟩)
        · exact absurd h1 hinv
        · cases h1
        · cases h1
          exact absurd h2 hpin
      · intro f _ hf _
        cases hf
        have hpg : page cfg
            { s with
              pages_ := s.pages_.set f0.toNat
                { page cfg s f0 with
                  pin_count_ := (page cfg s f0).pin_count_ - 1,
                  is_dirty_ := if is_dirty then true else (page cfg s f0).is_dirty_ },
              replacer_ :=
                if (page cfg s f0).pin_count_ - 1 = 0 then LRUReplacer.Unpin s.replacer_ f0
                else s.replacer_ } f0
            = { page cfg s f0 with
                  pin_count_ := (page cfg s f0).pin_count_ - 1,
                  is_dirty_ := if is_dirty then true else (page cfg s f0).is_dirty_ } := by
          simp only [page]
          rw [getD_set_frame _ _ _ _ _ hf0 (toNat_lt hf0 hlen) hf0, if_pos rfl]
        refine ⟨rfl, ?_, ?_, ?_, ?_, ?_, ?_, rfl, rfl, rfl, rfl⟩
        · rw [hpg]
        · rw [hpg]
          cases is_dirty <;> simp
        · rw [hpg]; exact hpid
        · rw [hpg]
        · rw [hpg]
          show f0 ∈ LRUReplacer.frames
            (if (page cfg s f0).pin_count_ - 1 = 0 then LRUReplacer.Unpin s.replacer_ f0
              else s.replacer_) ↔ (page cfg s f0).pin_count_ - 1 = 0
          by_cases h1 : (page cfg s f0).pin_count_ - 1 = 0
          · rw [if_pos h1, LRUReplacer.mem_frames_Unpin hs.repl_inv]
            exact ⟨fun _ => h1, fun _ => Or.inl rfl⟩
          · rw [if_neg h1]
            refine ⟨fun hm => ?_, fun h2 => absurd h2 h1⟩
            have := (hs.repl_spec f0 hm).2.2.2
            exact absurd this hpin
        · intro g hg0 hne
          refine ⟨?_, ?_⟩
          · simp only [page]
            rw [getD_set_frame _ _ _ _ _ hf0 (toNat_lt hf0 hlen) hg0, if_neg hne]
          · show g ∈ LRUReplacer.frames
              (if (page cfg s f0).pin_count_ - 1 = 0 then LRUReplacer.Unpin s.replacer_ f0
                else s.replacer_) ↔ _
            by_cases h1 : (page cfg s f0).pin_count_ - 1 = 0
            · rw [if_pos h1, LRUReplacer.mem_frames_Unpin hs.repl_inv]
              exact ⟨fun h2 => h2.resolve_left hne, Or.inr⟩
            · rw [if_neg h1]

/-- Instance of `UnpinPage_contract`: on a pool of two frames over an empty
database file, after `NewPage()` (page 0, pinned once), `UnpinPage(0, true)`
returns `true` and leaves pin count 0. -/
theorem UnpinPage_contract_witness :
    (UnpinPage Config.default
      (run Config.default (new Config.default 2 (DiskManager.openEmpty Config.default))
        [.newPage]) 0 true).1 = true ∧
    (page Config.default (UnpinPage Config.default
      (run Config.default (new Config.default 2 (DiskManager.openEmpty Config.default))
        [.newPage]) 0 true).2 0).pin_count_
      = (page Config.default
          (run Config.default (new Config.default 2 (DiskManager.openEmpty Config.default))
            [.newPage]) 0).pin_count_ - 1 :=
  have h := (UnpinPage_contract Config.default
    (run Config.default (new Config.default 2 (DiskManager.openEmpty Config.default)) [.newPage])
    (run_inv_pool [.newPage] (Inv_new_pool Config.default 2 (DiskManager.openEmpty Config.default))
      ⟨by intro _; decide!, trivial⟩) 0 true).2.2 0 (by decide) (by decide!) (by decide!)
  ⟨h.1, h.2.1⟩

theorem DeAllocatePage_invalid (cfg : Config) (d : DiskManager) :
    DiskManager.DeAllocatePage cfg d INVALID_PAGE_ID = d := by
  have h : INVALID_PAGE_ID < 0 := by decide
  simp only [DiskManager.DeAllocatePage, h, if_true]

/-- The branches of `DeletePage`.  On every state satisfying the pool invariant: `DeletePage(pid)` of a
resident page with pin count > 0 returns `false` and changes nothing (pool and
disk manager); of a resident page with pin count 0 it returns `true`, `pid`
leaves the page table (other entries stay), its frame leaves the replacer, is
reset (page id `INVALID_PAGE_ID`, pin count 0, clean, zeroed) and is appended to
the free list, the other frames are untouched, and the disk manager is the one
left by `DeAllocatePage(pid)`; when `pid` is not resident it returns `true` and
the only change is that the disk manager is the one left by
`DeAllocatePage(pid)`. -/
theorem DeletePage_contract (cfg : Config) (s : BufferPoolManager) (hs : Inv cfg s none)
    (page_id : Int) :
    (∀ f : Int, UMap.find s.page_table_ page_id = some f → (page cfg s f).pin_count_ > 0 →
      DeletePage cfg s page_id = (false, s)) ∧
    (∀ f : Int, UMap.find s.page_table_ page_id = some f → (page cfg s f).pin_count_ = 0 →
      (DeletePage cfg s page_id).1 = true ∧
      UMap.find (DeletePage cfg s page_id).2.page_table_ page_id = none ∧
      (∀ q : Int, q ≠ page_id →
        UMap.find (DeletePage cfg s page_id).2.page_table_ q = UMap.find s.page_table_ q) ∧
      f ∉ LRUReplacer.frames (DeletePage cfg s page_id).2.replacer_ ∧
      (∀ g : Int, g ≠ f → (g ∈ LRUReplacer.frames (DeletePage cfg s page_id).2.replacer_ ↔
        g ∈ LRUReplacer.frames s.replacer_)) ∧
      page cfg (DeletePage cfg s page_id).2 f = ⟨zeroPage cfg, INVALID_PAGE_ID, 0, false⟩ ∧
      (∀ g : Int, 0 ≤ g → g ≠ f → page cfg (DeletePage cfg s page_id).2 g = page cfg s g) ∧
      (DeletePage cfg s page_id).2.free_list_ = s.free_list_ ++ [f] ∧
      (DeletePage cfg s page_id).2.disk_manager_
        = DiskManager.DeAllocatePage cfg s.disk_manager_ page_id) ∧
    (UMap.find s.page_table_ page_id = none →
      DeletePage cfg s page_id
        = (true, { s with
            disk_manager_ := DiskManager.DeAllocatePage cfg s.disk_manager_ page_id })) := by
  refine ⟨?_, ?_, ?_⟩
  · intro f hfind hpin
    have hne : page_id ≠ INVALID_PAGE_ID := (hs.table_holds page_id f hfind).2.2.2
    simp only [DeletePage, hne, if_false, hfind, hpin, if_true]
  · intro f hfind hpin
    obtain ⟨hf0, hf1, _, hne⟩ := hs.table_holds page_id f hfind
    have hlen : f < (s.pages_.length : Int) := by rw [hs.pages_len]; exact hf1
    have hgt : ¬ (page cfg s f).pin_count_ > 0 := by omega
    have h : DeletePage cfg s page_id
        = (true,
            { s with
              page_table_ := UMap.erase s.page_table_ page_id,
              replacer_ := LRUReplacer.Pin s.replacer_ f,
              pages_ := s.pages_.set f.toNat ⟨zeroPage cfg, INVALID_PAGE_ID, 0, false⟩,
              free_list_ := s.free_list_ ++ [f],
              disk_manager_ := DiskManager.DeAllocatePage cfg s.disk_manager_ page_id }) := by
      simp only [DeletePage, hne, if_false, hfind, hgt]
    rw [h]
    refine ⟨rfl, UMap.find_erase_self _ _, fun q hq => UMap.find_erase_ne _ hq, ?_, ?_, ?_, ?_,
      rfl, rfl⟩
    · show f ∉ LRUReplacer.frames (LRUReplacer.Pin s.replacer_ f)
      rw [LRUReplacer.mem_frames_Pin hs.repl_inv]
      exact fun h => h.2 rfl
    · intro g hg
      show g ∈ LRUReplacer.frames (LRUReplacer.Pin s.replacer_ f) ↔ _
      rw [LRUReplacer.mem_frames_Pin hs.repl_inv]
      exact ⟨fun h => h.1, fun h => ⟨h, hg⟩⟩
    · simp only [page]
      rw [getD_set_frame _ _ _ _ _ hf0 (toNat_lt hf0 hlen) hf0, if_pos rfl]
    · intro g hg0 hg
      simp only [page]
      rw [getD_set_frame _ _ _ _ _ hf0 (toNat_lt hf0 hlen) hg0, if_neg hg]
  · intro hfind
    by_cases hne : page_id = INVALID_PAGE_ID
    · subst hne
      rw [DeAllocatePage_invalid]
      simp only [DeletePage, if_true]
    · simp only [DeletePage, hne, if_false, hfind]

/-- Instance of `DeletePage_contract`: on a pool of two frames over an empty
database file, after `NewPage()` (page 0, pinned once), `DeletePage(0)` returns
`false` and changes nothing. -/
theorem DeletePage_contract_witness :
    DeletePage Config.default
      (run Config.default (new Config.default 2 (DiskManager.openEmpty Config.default))
        [.newPage]) 0
      = (false,
          run Config.default (new Config.default 2 (DiskManager.openEmpty Config.default))
            [.newPage]) :=
  (DeletePage_contract Config.default
    (run Config.default (new Config.default 2 (DiskManager.openEmpty Config.default)) [.newPage])
    (run_inv_pool [.newPage] (Inv_new_pool Config.default 2 (DiskManager.openEmpty Config.default))
      ⟨by intro _; decide!, trivial⟩) 0).1 0 (by decide!) (by decide!)

theorem Victim_none_frames {r r' : LRUReplacer} (hv : LRUReplacer.Victim r = (none, r')) :
    LRUReplacer.frames r = [] := by
  rcases List.eq_nil_or_concat r.lru_list_ with hl | ⟨L, node, hl⟩
  · simp [LRUReplacer.frames, hl]
  · rw [List.concat_eq_append] at hl
    rw [LRUReplacer.Victim_concat hl] at hv
    cases hv

/-- `TryToFindFreePage` finds no frame exactly when the free list is empty and
the replacer holds no frame. -/
theorem TryToFindFreePage_invalid_iff {cfg : Config} {s : BufferPoolManager}
    (h : Inv cfg s none) :
    (TryToFindFreePage cfg s).1 = INVALID_FRAME_ID ↔
      (s.free_list_ = [] ∧ LRUReplacer.frames s.replacer_ = []) := by
  obtain ⟨n, pages, pt, free, repl, d⟩ := s
  cases free with
  | cons f rest =>
    have hfs := h.free_spec f (List.mem_cons_self _ _)
    simp only [TryToFindFreePage]
    constructor
    · intro e
      exact absurd e (ne_invalid_frame hfs.1)
    · intro e
      cases e.1
  | nil =>
    cases hv : LRUReplacer.Victim repl with
    | mk o repl' =>
      cases o with
      | none =>
        have hfr := Victim_none_frames hv
        simp only [TryToFindFreePage, hv, hfr, and_self]
      | some f =>
        have hV := LRUReplacer.Victim_some h.repl_inv hv
        have hfr := h.repl_spec f hV.1
        simp only [TryToFindFreePage, hv]
        constructor
        · intro e
          exact absurd e (ne_invalid_frame hfr.1)
        · intro e
          have := hV.1
          rw [e.2] at this
          cases this

/-- When the free list and the replacer are both empty, every frame is
pinned. -/
theorem all_pinned {cfg : Config} {s : BufferPoolManager} (h : Inv cfg s none)
    (hfree : s.free_list_ = []) (hrepl : LRUReplacer.frames s.replacer_ = []) (g : Int)
    (hg0 : 0 ≤ g) (hg1 : g < s.pool_size_) : (page cfg s g).pin_count_ > 0 := by
  have hr := (h.pin_range g hg0 hg1).1
  by_contra hc
  have hz : (page cfg s g).pin_count_ = 0 := by omega
  have hu := h.unpinned g hg0 hg1 (by simp) hz
  by_cases hid : (page cfg s g).page_id_ = INVALID_PAGE_ID
  · have := hu.1 hid
    rw [hfree] at this
    cases this
  · have := hu.2 hid
    rw [hrepl] at this
    cases this

theorem FetchPage_hit (cfg : Config) (s : BufferPoolManager) (page_id : Int) (f : Int)
    (hne : page_id ≠ INVALID_PAGE_ID) (hfind : UMap.find s.page_table_ page_id = some f) :
    FetchPage cfg s page_id
      = (some f,
          { s with
            pages_ := s.pages_.set f.toNat
              { page cfg s f with pin_count_ := wrapInt32 ((page cfg s f).pin_count_ + 1) },
            replacer_ := LRUReplacer.Pin s.replacer_ f }) := by
  simp only [FetchPage, hne, if_false, hfind]

theorem FetchPage_miss (cfg : Config) (s : BufferPoolManager) (page_id : Int)
    (hne : page_id ≠ INVALID_PAGE_ID) (hfind : UMap.find s.page_table_ page_id = none) :
    FetchPage cfg s page_id
      = if (TryToFindFreePage cfg s).1 = INVALID_FRAME_ID then (none, (TryToFindFreePage cfg s).2)
        else
          (some (TryToFindFreePage cfg s).1,
            { (TryToFindFreePage cfg s).2 with
              page_table_ := UMap.insert (TryToFindFreePage cfg s).2.page_table_ page_id
                (TryToFindFreePage cfg s).1,
              pages_ := (TryToFindFreePage cfg s).2.pages_.set (TryToFindFreePage cfg s).1.toNat
                ⟨(diskRead cfg (TryToFindFreePage cfg s).2.disk_manager_ page_id
                    (page cfg (TryToFindFreePage cfg s).2 (TryToFindFreePage cfg s).1).data_).1,
                  page_id, 1, false⟩,
              disk_manager_ := (diskRead cfg (TryToFindFreePage cfg s).2.disk_manager_ page_id
                (page cfg (TryToFindFreePage cfg s).2 (TryToFindFreePage cfg s).1).data_).2,
              replacer_ := LRUReplacer.Pin (TryToFindFreePage cfg s).2.replacer_
                (TryToFindFreePage cfg s).1 }) := by
  simp only [FetchPage, hne, if_false, hfind]

theorem ReadPage_of_nonneg (cfg : Config) (d : DiskManager) (page_id : Int) (h : 0 ≤ page_id) :
    DiskManager.ReadPage cfg d page_id
      = some ((DiskManager.ReadPhysicalPage cfg d.db_io_ (DiskManager.MapPageId cfg page_id)).1,
          { d with db_io_ :=
            (DiskManager.ReadPhysicalPage cfg d.db_io_ (DiskManager.MapPageId cfg page_id)).2 }) := by
  have hlt : ¬ page_id < 0 := by omega
  simp only [DiskManager.ReadPage, hlt, if_false]

theorem diskRead_of_some (cfg : Config) (d : DiskManager) (page_id : Int) (old : List Nat)
    (x : List Nat × DiskManager) (hr : DiskManager.ReadPage cfg d page_id = some x) :
    DiskManager.ReadPage cfg d page_id
      = some ((diskRead cfg d page_id old).1, (diskRead cfg d page_id old).2) := by
  have h2 : diskRead cfg d page_id old = x := by
    unfold diskRead
    rw [hr]
    exact Option.getD_some
  rw [h2, hr]

theorem diskRead_of_nonneg (cfg : Config) (d : DiskManager) (page_id : Int) (old : List Nat)
    (h : 0 ≤ page_id) :
    DiskManager.ReadPage cfg d page_id
      = some ((diskRead cfg d page_id old).1, (diskRead cfg d page_id old).2) :=
  diskRead_of_some cfg d page_id old _ (ReadPage_of_nonneg cfg d page_id h)

/-- The branches of `FetchPage`.  On every state satisfying the pool invariant and for
`pid != INVALID_PAGE_ID`: if `pid` is resident (with pin count below `INT_MAX`),
`FetchPage(pid)` returns its frame with the pin count increased by exactly 1,
dirty flag, bytes and page id unchanged, and the frame not in the replacer; if
`pid` is not resident, it returns `nullptr` exactly when the free list is empty
and the replacer has no victim, in which case every frame is pinned and the
state is unchanged; otherwise it returns a frame holding `pid` with pin count 1,
clean, installed in the page table, not in the replacer, and (for `pid >= 0`)
with the bytes that `DiskManager::ReadPage(pid)` delivers on the disk manager
as `TryToFindFreePage` left it. -/
theorem FetchPage_contract (cfg : Config) (s : BufferPoolManager) (hs : Inv cfg s none)
    (page_id : Int) (hne : page_id ≠ INVALID_PAGE_ID) :
    (∀ f : Int, UMap.find s.page_table_ page_id = some f →
      (page cfg s f).pin_count_ < 2 ^ 31 - 1 →
      (FetchPage cfg s page_id).1 = some f ∧
      (page cfg (FetchPage cfg s page_id).2 f).pin_count_ = (page cfg s f).pin_count_ + 1 ∧
      (page cfg (FetchPage cfg s page_id).2 f).is_dirty_ = (page cfg s f).is_dirty_ ∧
      (page cfg (FetchPage cfg s page_id).2 f).data_ = (page cfg s f).data_ ∧
      (page cfg (FetchPage cfg s page_id).2 f).page_id_ = page_id ∧
      f ∉ LRUReplacer.frames (FetchPage cfg s page_id).2.replacer_) ∧
    (UMap.find s.page_table_ page_id = none →
      ((FetchPage cfg s page_id).1 = none ↔
        (s.free_list_ = [] ∧ LRUReplacer.frames s.replacer_ = [])) ∧
      ((FetchPage cfg s page_id).1 = none →
        (FetchPage cfg s page_id).2 = s ∧
        ∀ g : Int, 0 ≤ g → g < s.pool_size_ → (page cfg s g).pin_count_ > 0) ∧
      (∀ f : Int, (FetchPage cfg s page_id).1 = some f →
        f = (TryToFindFreePage cfg s).1 ∧
        (page cfg (FetchPage cfg s page_id).2 f).page_id_ = page_id ∧
        (page cfg (FetchPage cfg s page_id).2 f).pin_count_ = 1 ∧
        (page cfg (FetchPage cfg s page_id).2 f).is_dirty_ = false ∧
        UMap.find (FetchPage cfg s page_id).2.page_table_ page_id = some f ∧
        f ∉ LRUReplacer.frames (FetchPage cfg s page_id).2.replacer_ ∧
        (0 ≤ page_id →
          DiskManager.ReadPage cfg (TryToFindFreePage cfg s).2.disk_manager_ page_id
            = some ((page cfg (FetchPage cfg s page_id).2 f).data_,
                (FetchPage cfg s page_id).2.disk_manager_)))) := by
  refine ⟨?_, ?_⟩
  · intro f hfind hpin
    obtain ⟨hf0, hf1, hpid, _⟩ := hs.table_holds page_id f hfind
    obtain ⟨hp0, _⟩ := hs.pin_range f hf0 hf1
    have hlen : f < (s.pages_.length : Int) := by rw [hs.pages_len]; exact hf1
    have hw : wrapInt32 ((page cfg s f).pin_count_ + 1) = (page cfg s f).pin_count_ + 1 :=
      wrapInt32_of_range _ (by omega) (by omega)
    rw [FetchPage_hit cfg s page_id f hne hfind, hw]
    have hpg : page cfg
        { s with
          pages_ := s.pages_.set f.toNat
            { page cfg s f with pin_count_ := (page cfg s f).pin_count_ + 1 },
          replacer_ := LRUReplacer.Pin s.replacer_ f } f
        = { page cfg s f with pin_count_ := (page cfg s f).pin_count_ + 1 } := by
      simp only [page]
      rw [getD_set_frame _ _ _ _ _ hf0 (toNat_lt hf0 hlen) hf0, if_pos rfl]
    refine ⟨rfl, ?_, ?_, ?_, ?_, ?_⟩
    · rw [hpg]
    · rw [hpg]
    · rw [hpg]
    · rw [hpg]; exact hpid
    · show f ∉ LRUReplacer.frames (LRUReplacer.Pin s.replacer_ f)
      rw [LRUReplacer.mem_frames_Pin hs.repl_inv]
      exact fun h => h.2 rfl
  · intro hfind
    have hiff := TryToFindFreePage_invalid_iff hs
    rw [FetchPage_miss cfg s page_id hne hfind]
    rcases TryToFindFreePage_inv hs with ⟨h1, h2⟩ | ⟨h1, h2, _⟩
    · rw [if_pos h1, h2]
      refine ⟨⟨fun _ => hiff.1 h1, fun _ => rfl⟩, fun _ => ⟨rfl, ?_⟩, fun f hf => (by cases hf)⟩
      intro g hg0 hg1
      exact all_pinned hs (hiff.1 h1).1 (hiff.1 h1).2 g hg0 hg1
    · rw [if_neg h1]
      refine ⟨⟨fun hf => (by cases hf), fun hf => absurd (hiff.2 hf) h1⟩, fun hf => (by cases hf), ?_⟩
      intro f hf
      have hf' : (TryToFindFreePage cfg s).1 = f := Option.some.inj hf
      obtain ⟨hl0, hl1, _, _⟩ := h2.limbo_spec _ rfl
      have hlen : (TryToFindFreePage cfg s).1 < ((TryToFindFreePage cfg s).2.pages_.length : Int) := by
        rw [h2.pages_len]; exact hl1
      rw [← hf']
      generalize TryToFindFreePage cfg s = T at h1 h2 hl0 hl1 hlen hf hf'
      obtain ⟨f0, s1⟩ := T
      simp only at h1 h2 hl0 hl1 hlen
      have hpg : page cfg
          { s1 with
            page_table_ := UMap.insert s1.page_table_ page_id f0,
            pages_ := s1.pages_.set f0.toNat
              ⟨(diskRead cfg s1.disk_manager_ page_id (page cfg s1 f0).data_).1, page_id, 1, false⟩,
            disk_manager_ := (diskRead cfg s1.disk_manager_ page_id (page cfg s1 f0).data_).2,
            replacer_ := LRUReplacer.Pin s1.replacer_ f0 } f0
          = ⟨(diskRead cfg s1.disk_manager_ page_id (page cfg s1 f0).data_).1, page_id, 1, false⟩ := by
        simp only [page]
        rw [getD_set_frame _ _ _ _ _ hl0 (toNat_lt hl0 hlen) hl0, if_pos rfl]
      refine ⟨rfl, ?_, ?_, ?_, UMap.find_insert_self _ _ _, ?_, ?_⟩
      · simp only [hpg]
      · simp only [hpg]
      · simp only [hpg]
      · show f0 ∉ LRUReplacer.frames (LRUReplacer.Pin s1.replacer_ f0)
        rw [LRUReplacer.mem_frames_Pin h2.repl_inv]
        exact fun h => h.2 rfl
      · intro hp0
        simp only [hpg]
        exact diskRead_of_nonneg cfg s1.disk_manager_ page_id _ hp0

/-- Instance of `FetchPage_contract`: on a pool of two frames over an empty
database file, after `NewPage()` (page 0) and `UnpinPage(0, true)`,
`FetchPage(0)` returns frame 0 with the pin count raised by 1. -/
theorem FetchPage_contract_witness :
    (FetchPage Config.default
      (run Config.default (new Config.default 2 (DiskManager.openEmpty Config.default))
        [.newPage, .unpin 0 true]) 0).1 = some 0 ∧
    (page Config.default (FetchPage Config.default
      (run Config.default (new Config.default 2 (DiskManager.openEmpty Config.default))
        [.newPage, .unpin 0 true]) 0).2 0).pin_count_
      = (page Config.default
          (run Config.default (new Config.default 2 (DiskManager.openEmpty Config.default))
            [.newPage, .unpin 0 true]) 0).pin_count_ + 1 :=
  have h := (FetchPage_contract Config.default
    (run Config.default (new Config.default 2 (DiskManager.openEmpty Config.default))
      [.newPage, .unpin 0 true])
    (run_inv_pool [.newPage, .unpin 0 true]
      (Inv_new_pool Config.default 2 (DiskManager.openEmpty Config.default))
      ⟨by intro _; decide!, trivial, trivial⟩) 0 (by decide)).1 0 (by decide!) (by decide!)
  ⟨h.1, h.2.1⟩

theorem NewPage_eq (cfg : Config) (s : BufferPoolManager) :
    NewPage cfg s
      = if (TryToFindFreePage cfg s).1 = INVALID_FRAME_ID then
          (INVALID_PAGE_ID, none, (TryToFindFreePage cfg s).2)
        else if (DiskManager.AllocatePage cfg (TryToFindFreePage cfg s).2.disk_manager_).1
            = INVALID_PAGE_ID then
          (INVALID_PAGE_ID, none,
            { (TryToFindFreePage cfg s).2 with
              pages_ := (TryToFindFreePage cfg s).2.pages_.set (TryToFindFreePage cfg s).1.toNat
                { page cfg (TryToFindFreePage cfg s).2 (TryToFindFreePage cfg s).1 with
                  page_id_ := INVALID_PAGE_ID, pin_count_ := 0, is_dirty_ := false },
              free_list_ := (TryToFindFreePage cfg s).2.free_list_ ++ [(TryToFindFreePage cfg s).1],
              disk_manager_ :=
                (DiskManager.AllocatePage cfg (TryToFindFreePage cfg s).2.disk_manager_).2 })
        else
          ((DiskManager.AllocatePage cfg (TryToFindFreePage cfg s).2.disk_manager_).1,
            some (TryToFindFreePage cfg s).1,
            { (TryToFindFreePage cfg s).2 with
              page_table_ := UMap.insert (TryToFindFreePage cfg s).2.page_table_
                (DiskManager.AllocatePage cfg (TryToFindFreePage cfg s).2.disk_manager_).1
                (TryToFindFreePage cfg s).1,
              pages_ := (TryToFindFreePage cfg s).2.pages_.set (TryToFindFreePage cfg s).1.toNat
                ⟨zeroPage cfg,
                  (DiskManager.AllocatePage cfg (TryToFindFreePage cfg s).2.disk_manager_).1,
                  1, true⟩,
              disk_manager_ :=
                (DiskManager.AllocatePage cfg (TryToFindFreePage cfg s).2.disk_manager_).2,
              replacer_ := LRUReplacer.Pin (TryToFindFreePage cfg s).2.replacer_
                (TryToFindFreePage cfg s).1 }) := by
  simp only [NewPage]

/-- C14. On every state satisfying the pool invariant: when no frame is available
(the free list is empty and the replacer holds no frame), `NewPage` returns
`nullptr`, outputs `INVALID_PAGE_ID` and leaves the whole state, disk manager
included, unchanged; when `TryToFindFreePage` yields frame `f` and the disk
manager allocates id `p`, it outputs `p` and returns frame `f`, which then
holds page id `p` with pin count 1, dirty, all bytes zero, `page_table_[p] = f`,
and `f` is not in the replacer; when a frame `f` is available but the disk
manager returns `INVALID_PAGE_ID`, it returns `nullptr`, outputs
`INVALID_PAGE_ID`, and `f` is at the end of the free list with page id
`INVALID_PAGE_ID` and pin count 0. -/
theorem NewPage_contract (cfg : Config) (s : BufferPoolManager) (hs : Inv cfg s none) :
    (((TryToFindFreePage cfg s).1 = INVALID_FRAME_ID ↔
        (s.free_list_ = [] ∧ LRUReplacer.frames s.replacer_ = [])) ∧
      ((TryToFindFreePage cfg s).1 = INVALID_FRAME_ID →
        NewPage cfg s = (INVALID_PAGE_ID, none, s))) ∧
    ((TryToFindFreePage cfg s).1 ≠ INVALID_FRAME_ID →
      (DiskManager.AllocatePage cfg (TryToFindFreePage cfg s).2.disk_manager_).1
        ≠ INVALID_PAGE_ID →
      (NewPage cfg s).1
        = (DiskManager.AllocatePage cfg (TryToFindFreePage cfg s).2.disk_manager_).1 ∧
      (NewPage cfg s).2.1 = some (TryToFindFreePage cfg s).1 ∧
      page cfg (NewPage cfg s).2.2 (TryToFindFreePage cfg s).1
        = ⟨zeroPage cfg,
            (DiskManager.AllocatePage cfg (TryToFindFreePage cfg s).2.disk_manager_).1,
            1, true⟩ ∧
      UMap.find (NewPage cfg s).2.2.page_table_
          (DiskManager.AllocatePage cfg (TryToFindFreePage cfg s).2.disk_manager_).1
        = some (TryToFindFreePage cfg s).1 ∧
      (TryToFindFreePage cfg s).1 ∉ LRUReplacer.frames (NewPage cfg s).2.2.replacer_ ∧
      (NewPage cfg s).2.2.disk_manager_
        = (DiskManager.AllocatePage cfg (TryToFindFreePage cfg s).2.disk_manager_).2) ∧
    ((TryToFindFreePage cfg s).1 ≠ INVALID_FRAME_ID →
      (DiskManager.AllocatePage cfg (TryToFindFreePage cfg s).2.disk_manager_).1
        = INVALID_PAGE_ID →
      (NewPage cfg s).1 = INVALID_PAGE_ID ∧
      (NewPage cfg s).2.1 = none ∧
      (NewPage cfg s).2.2.free_list_
        = (TryToFindFreePage cfg s).2.free_list_ ++ [(TryToFindFreePage cfg s).1] ∧
      (page cfg (NewPage cfg s).2.2 (TryToFindFreePage cfg s).1).page_id_ = INVALID_PAGE_ID ∧
      (page cfg (NewPage cfg s).2.2 (TryToFindFreePage cfg s).1).pin_count_ = 0) := by
  have hiff := TryToFindFreePage_invalid_iff hs
  refine ⟨⟨hiff, ?_⟩, ?_, ?_⟩
  · intro h1
    rcases TryToFindFreePage_inv hs with ⟨_, h2⟩ | ⟨h3, _, _⟩
    · rw [NewPage_eq, if_pos h1, h2]
    · exact absurd h1 h3
  · intro h1 hA
    rcases TryToFindFreePage_inv hs with ⟨h3, _⟩ | ⟨_, h2, _⟩
    · exact absurd h3 h1
    · obtain ⟨hl0, hl1, _, _⟩ := h2.limbo_spec _ rfl
      have hlen : (TryToFindFreePage cfg s).1
          < ((TryToFindFreePage cfg s).2.pages_.length : Int) := by
        rw [h2.pages_len]; exact hl1
      rw [NewPage_eq, if_neg h1, if_neg hA]
      generalize TryToFindFreePage cfg s = T at h1 h2 hl0 hl1 hlen hA
      obtain ⟨f0, s1⟩ := T
      simp only at h1 h2 hl0 hl1 hlen hA
      refine ⟨rfl, rfl, ?_, UMap.find_insert_self _ _ _, ?_, rfl⟩
      · simp only [page]
        rw [getD_set_frame _ _ _ _ _ hl0 (toNat_lt hl0 hlen) hl0, if_pos rfl]
      · show f0 ∉ LRUReplacer.frames (LRUReplacer.Pin s1.replacer_ f0)
        rw [LRUReplacer.mem_frames_Pin h2.repl_inv]
        exact fun h => h.2 rfl
  · intro h1 hA
    rcases TryToFindFreePage_inv hs with ⟨h3, _⟩ | ⟨_, h2, _⟩
    · exact absurd h3 h1
    · obtain ⟨hl0, hl1, _, _⟩ := h2.limbo_spec _ rfl
      have hlen : (TryToFindFreePage cfg s).1
          < ((TryToFindFreePage cfg s).2.pages_.length : Int) := by
        rw [h2.pages_len]; exact hl1
      rw [NewPage_eq, if_neg h1, if_pos hA]
      generalize TryToFindFreePage cfg s = T at h1 h2 hl0 hl1 hlen hA
      obtain ⟨f0, s1⟩ := T
      simp only at h1 h2 hl0 hl1 hlen hA
      refine ⟨rfl, rfl, rfl, ?_, ?_⟩
      · simp only [page]
        rw [getD_set_frame _ _ _ _ _ hl0 (toNat_lt hl0 hlen) hl0, if_pos rfl]
      · simp only [page]
        rw [getD_set_frame _ _ _ _ _ hl0 (toNat_lt hl0 hlen) hl0, if_pos rfl]

/-- Instance of `NewPage_contract`: on a fresh pool of two frames over an empty
database file, `NewPage()` outputs page id 0 and returns frame 0. -/
theorem NewPage_contract_witness :
    (NewPage Config.default
      (new Config.default 2 (DiskManager.openEmpty Config.default))).1 = 0 ∧
    (NewPage Config.default
      (new Config.default 2 (DiskManager.openEmpty Config.default))).2.1 = some 0 :=
  have h := (NewPage_contract Config.default
    (new Config.default 2 (DiskManager.openEmpty Config.default))
    (Inv_new_pool Config.default 2 (DiskManager.openEmpty Config.default))).2.1
    (by decide!) (by decide!)
  ⟨h.1.trans (by decide!), h.2.1.trans (by decide!)⟩

end BufferPoolManager

/-! ### Recovery -/

namespace RecoveryManager

/-- C17 (failing input).  Undoing a redone `kInsert` of an absent key gives back
the map itself, and undoing a redone `kDelete` of a present entry, or a redone
`kUpdate` that keeps the key, gives back a map with the same contents.  But a
`kUpdate` that changes the key is not undone: redo stores `new_key -> new_val`
without erasing `old_key`, undo stores `old_key -> old_val` without erasing
`new_key`, so `new_key` is still mapped to `new_val` afterwards whatever the
map was; from `{a: 1}`, `Update(a, 1 -> b, 2)` redone and undone gives
`{a: 1, b: 2}`. -/
theorem undo_redo_update_key :
    (∀ (d : List (KeyType × ValType)) (r : LogRec), r.type_ = .kInsert →
      UMap.find d r.ins_key_ = none → undoData r (redoData r d) = d) ∧
    (∀ (d : List (KeyType × ValType)) (r : LogRec), r.type_ = .kDelete →
      UMap.find d r.del_key_ = some r.del_val_ →
      ∀ q, UMap.find (undoData r (redoData r d)) q = UMap.find d q) ∧
    (∀ (d : List (KeyType × ValType)) (r : LogRec), r.type_ = .kUpdate →
      r.new_key_ = r.old_key_ → UMap.find d r.old_key_ = some r.old_val_ →
      ∀ q, UMap.find (undoData r (redoData r d)) q = UMap.find d q) ∧
    (∀ (d : List (KeyType × ValType)) (r : LogRec), r.type_ = .kUpdate →
      r.new_key_ ≠ r.old_key_ → UMap.find d r.new_key_ = none →
      UMap.find (undoData r (redoData r d)) r.new_key_ = some r.new_val_ ∧
      UMap.find (undoData r (redoData r d)) r.new_key_ ≠ UMap.find d r.new_key_) ∧
    undoData { LogRec.default with
        type_ := .kUpdate, old_key_ := [97], old_val_ := 1, new_key_ := [98], new_val_ := 2 }
      (redoData { LogRec.default with
        type_ := .kUpdate, old_key_ := [97], old_val_ := 1, new_key_ := [98], new_val_ := 2 }
        [([97], 1)])
      = [([97], 1), ([98], 2)] := by
  refine ⟨?_, ?_, ?_, ?_, by decide⟩
  · intro d r ht hk
    simp only [undoData, redoData, ht]
    have hnot : r.ins_key_ ∉ UMap.keys d := (UMap.find_eq_none_iff d _).1 hk
    have h1 : UMap.erase (UMap.insert d r.ins_key_ r.ins_val_) r.ins_key_
        = UMap.erase (UMap.erase d r.ins_key_) r.ins_key_ := by
      simp [UMap.insert, UMap.erase]
    rw [h1, UMap.erase_of_not_mem d _ hnot, UMap.erase_of_not_mem d _ hnot]
  · intro d r ht hk q
    simp only [undoData, redoData, ht]
    by_cases hq : q = r.del_key_
    · rw [hq, UMap.find_insert_self, hk]
    · rw [UMap.find_insert_ne _ _ hq, UMap.find_erase_ne _ hq]
  · intro d r ht hkey hk q
    simp only [undoData, redoData, ht, hkey]
    by_cases hq : q = r.old_key_
    · rw [hq, UMap.find_insert_self, hk]
    · rw [UMap.find_insert_ne _ _ hq, UMap.find_insert_ne _ _ hq]
  · intro d r ht hkey hk
    have h : UMap.find (undoData r (redoData r d)) r.new_key_ = some r.new_val_ := by
      simp only [undoData, redoData, ht]
      rw [UMap.find_insert_ne _ _ hkey, UMap.find_insert_self]
    refine ⟨h, ?_⟩
    rw [h, hk]
    exact fun e => by cases e

/-- Instance of `undo_redo_update_key` for the map `{a: 1}` and the record
`Update(a, 1 -> b, 2)`. -/
theorem undo_redo_update_key_witness :
    UMap.find
      (undoData { LogRec.default with
          type_ := .kUpdate, old_key_ := [97], old_val_ := 1, new_key_ := [98], new_val_ := 2 }
        (redoData { LogRec.default with
          type_ := .kUpdate, old_key_ := [97], old_val_ := 1, new_key_ := [98], new_val_ := 2 }
          [([97], 1)])) [98] = some 2 :=
  (undo_redo_update_key.2.2.2.1 [([97], 1)]
    { LogRec.default with
      type_ := .kUpdate, old_key_ := [97], old_val_ := 1, new_key_ := [98], new_val_ := 2 }
    rfl (by decide) (by decide)).1

end RecoveryManager

theorem wrapInt32_in_range (x : Int) (h0 : -(2 ^ 31) ≤ x) (h1 : x < 2 ^ 31) : wrapInt32 x = x := by
  unfold wrapInt32
  omega

namespace CreateLog

theorem lastLsn_of_last (recs : List LogRec) (t : Int) (j : Nat) (rj : LogRec)
    (hj : recs[j]? = some rj) (ht : rj.txn_id_ = t)
    (hlast : ∀ m rm, j < m → recs[m]? = some rm → rm.txn_id_ ≠ t) :
    lastLsn recs t = some rj.lsn_ := by
  induction recs generalizing j with
  | nil => simp at hj
  | cons r rest ih =>
    cases j with
    | zero =>
      simp only [List.getElem?_cons_zero, Option.some.injEq] at hj
      subst hj
      have hnone : lastLsn rest t = none := by
        cases h : lastLsn rest t with
        | none => rfl
        | some l =>
          exfalso
          clear ih
          induction rest with
          | nil => simp [lastLsn] at h
          | cons a tl ih2 =>
            by_cases ha : a.txn_id_ = t
            · exact hlast 1 a (by omega) (by simp) ha
            · have h' : lastLsn tl t = some l := by
                simp only [lastLsn] at h
                cases h2 : lastLsn tl t with
                | none => simp [h2, ha] at h
                | some l2 => simp [h2] at h; rw [h]
              apply ih2 _ h'
              intro m rm hm hrm
              cases m with
              | zero => omega
              | succ m =>
                simp only [List.getElem?_cons_succ] at hrm
                exact hlast (m + 2) rm (by omega) (by simpa using hrm)
      simp only [lastLsn, hnone, ht, if_true]
    | succ j =>
      simp only [List.getElem?_cons_succ] at hj
      have := ih j hj (fun m rm hm hrm => hlast (m + 1) rm (by omega) (by simpa using hrm))
      simp only [lastLsn, this]

/-- What one creator call does: the record gets the next lsn, the type and
transaction of the call, `prev_lsn_ = INVALID_LSN` for a `kBegin` and otherwise
the entry of `prev_lsn_map_` (0 when there is none); the map then points at the
new record. -/
theorem call_spec (st : LogRecStatics) (c : CreateLog) :
    (call st c).1.lsn_ = st.next_lsn_ ∧ (call st c).1.txn_id_ = c.txn ∧
    (call st c).1.type_ = c.type ∧
    (c.type = .kBegin → (call st c).1.prev_lsn_ = INVALID_LSN) ∧
    (c.type ≠ .kBegin →
      (call st c).1.prev_lsn_ = (UMap.find st.prev_lsn_map_ c.txn).getD 0) ∧
    (call st c).2.next_lsn_ = wrapInt32 (st.next_lsn_ + 1) ∧
    (call st c).2.prev_lsn_map_ = UMap.insert st.prev_lsn_map_ c.txn st.next_lsn_ := by
  cases c <;>
    simp [call, CreateBeginLog, CreateInsertLog, CreateDeleteLog, CreateUpdateLog,
      CreateCommitLog, CreateAbortLog, LogRec.link, LogRec.default, type, txn]

theorem run_length (cs : List CreateLog) (st : LogRecStatics) :
    (run st cs).1.length = cs.length := by
  induction cs generalizing st with
  | nil => rfl
  | cons c cs ih => simp only [run, List.length_cons, ih]

theorem run_spec (cs : List CreateLog) (st : LogRecStatics)
    (h0 : (-(2 ^ 31) : Int) ≤ st.next_lsn_) (h1 : (st.next_lsn_ : Int) + cs.length < 2 ^ 31) :
    ∀ (i : Nat) (r : LogRec) (c : CreateLog), (run st cs).1[i]? = some r → cs[i]? = some c →
      r.lsn_ = st.next_lsn_ + i ∧ r.txn_id_ = c.txn ∧ r.type_ = c.type ∧
      (c.type = .kBegin → r.prev_lsn_ = INVALID_LSN) ∧
      (c.type ≠ .kBegin →
        r.prev_lsn_ = (lastLsn ((run st cs).1.take i) c.txn).getD
          ((UMap.find st.prev_lsn_map_ c.txn).getD 0)) := by
  induction cs generalizing st with
  | nil =>
    intro i r c hr
    simp [run] at hr
  | cons c0 cs ih =>
    intro i r c hr hc
    obtain ⟨e1, e2, e3, e4, e5, e6, e7⟩ := call_spec st c0
    simp only [List.length_cons, Nat.cast_add, Nat.cast_one] at h1
    have hw : wrapInt32 (st.next_lsn_ + 1) = st.next_lsn_ + 1 := by
      have hl : (0 : Int) ≤ (cs.length : Int) := Int.natCast_nonneg _
      apply wrapInt32_in_range
      · unfold lsn_t at *
        omega
      · unfold lsn_t at *
        omega
    cases i with
    | zero =>
      simp only [run, List.getElem?_cons_zero, Option.some.injEq] at hr hc
      subst hr
      subst hc
      refine ⟨by simpa using e1, e2, e3, e4, ?_⟩
      intro hnb
      simp only [run, List.take_zero, lastLsn, Option.getD_none]
      exact e5 hnb
    | succ i =>
      simp only [run, List.getElem?_cons_succ] at hr hc
      have h0' : (-(2 ^ 31) : Int) ≤ (call st c0).2.next_lsn_ := by
        rw [e6, hw]
        unfold lsn_t at *
        omega
      have h1' : ((call st c0).2.next_lsn_ : Int) + (cs.length : Int) < 2 ^ 31 := by
        rw [e6, hw]
        unfold lsn_t at *
        omega
      obtain ⟨i1, i2, i3, i4, i5⟩ := ih (call st c0).2 h0' h1' i r c hr hc
      refine ⟨?_, i2, i3, i4, ?_⟩
      · rw [i1, e6, hw]
        unfold lsn_t at *
        push_cast
        omega
      · intro hnb
        rw [i5 hnb, e7]
        simp only [run, List.take_succ_cons, lastLsn]
        cases hl : lastLsn (List.take i (run (call st c0).2 cs).1) c.txn with
        | some l => simp
        | none =>
          simp only [Option.getD_none]
          by_cases ht : c0.txn = c.txn
          · rw [ht, UMap.find_insert_self, e2, if_pos ht, e1]
            simp
          · rw [UMap.find_insert_ne _ _ (fun e => ht e.symm), e2, if_neg ht]
            simp

/-- C18. Records created by a sequence of creator calls, while the lsn counter
stays within the 32-bit range, get the consecutive lsn values `next_lsn_`,
`next_lsn_ + 1`, ... in creation order, with the type and transaction of their
call; a `kBegin` record has `prev_lsn_ = INVALID_LSN`; every other record has as
`prev_lsn_` the lsn of the most recently created earlier record of the same
transaction, whenever there is one (in particular when the transaction has a
`kBegin` record already), and then `prev_lsn_ < lsn_`. -/
theorem CreateLog_lsn_chain (st : LogRecStatics) (cs : List CreateLog)
    (h0 : (-(2 ^ 31) : Int) ≤ st.next_lsn_) (h1 : (st.next_lsn_ : Int) + cs.length < 2 ^ 31) :
    (run st cs).1.length = cs.length ∧
    ∀ (i : Nat) (r : LogRec) (c : CreateLog), (run st cs).1[i]? = some r → cs[i]? = some c →
      r.lsn_ = st.next_lsn_ + i ∧ r.type_ = c.type ∧ r.txn_id_ = c.txn ∧
      (r.type_ = .kBegin → r.prev_lsn_ = INVALID_LSN) ∧
      (r.type_ ≠ .kBegin → ∀ (j : Nat) (rj : LogRec), j < i → (run st cs).1[j]? = some rj →
        rj.txn_id_ = r.txn_id_ →
        (∀ (m : Nat) (rm : LogRec), j < m → m < i → (run st cs).1[m]? = some rm →
          rm.txn_id_ ≠ r.txn_id_) →
        r.prev_lsn_ = rj.lsn_ ∧ r.prev_lsn_ < r.lsn_) := by
  refine ⟨run_length cs st, ?_⟩
  intro i r c hr hc
  obtain ⟨i1, i2, i3, i4, i5⟩ := run_spec cs st h0 h1 i r c hr hc
  refine ⟨i1, i3, i2, fun hb => i4 (i3 ▸ hb), ?_⟩
  intro hnb j rj hji hrj htxn hbetween
  have hcj : ∃ cj, cs[j]? = some cj := by
    have hlt : j < cs.length := by
      have := (List.getElem?_eq_some_iff.1 hrj).1
      rwa [run_length] at this
    exact ⟨cs[j], List.getElem?_eq_getElem hlt⟩
  obtain ⟨cj, hcj⟩ := hcj
  have hjl := (run_spec cs st h0 h1 j rj cj hrj hcj).1
  have hlast : lastLsn ((run st cs).1.take i) c.txn = some rj.lsn_ := by
    apply lastLsn_of_last _ _ j rj
    · rw [List.getElem?_take_of_lt hji]
      exact hrj
    · rw [htxn, i2]
    · intro m rm hjm hrm
      by_cases hmi : m < i
      · rw [List.getElem?_take_of_lt hmi] at hrm
        rw [← i2]
        exact hbetween m rm hjm hmi hrm
      · rw [List.getElem?_eq_none (by simp; omega)] at hrm
        cases hrm
  have hprev : r.prev_lsn_ = rj.lsn_ := by
    rw [i5 (fun hb => hnb (i3.trans hb)), hlast]
    rfl
  refine ⟨hprev, ?_⟩
  rw [hprev, hjl, i1]
  unfold lsn_t at *
  omega

/-- Instance of `CreateLog_lsn_chain` for the trace `Begin(1); Insert(1, a, 1);
Begin(2); Update(2, a, 1, a, 2); Commit(1)` from the initial static members. -/
theorem CreateLog_lsn_chain_witness :
    (run LogRec.initStatics
      [.begin 1, .insert 1 [97] 1, .begin 2, .update 2 [97] 1 [97] 2, .commit 1]).1.length = 5 :=
  (CreateLog_lsn_chain LogRec.initStatics
    [.begin 1, .insert 1 [97] 1, .begin 2, .update 2 [97] 1 [97] 2, .commit 1]
    (by decide) (by decide)).1

end CreateLog

namespace RecoveryManager

theorem trace_recs (st : LogRecStatics) (T1 T2 : Int) (k : KeyType) (v1 v2 : Int)
    (hT : T1 ≠ T2) (h0 : (0 : Int) ≤ st.next_lsn_) (h1 : (st.next_lsn_ : Int) + 5 < 2 ^ 31) :
    (CreateLog.run st
      [.begin T1, .insert T1 k v1, .begin T2, .update T2 k v1 k v2, .commit T1]).1
      = [{ LogRec.default with
            type_ := .kBegin, txn_id_ := T1, lsn_ := st.next_lsn_, prev_lsn_ := INVALID_LSN },
          { LogRec.default with
            type_ := .kInsert, txn_id_ := T1, lsn_ := st.next_lsn_ + 1, prev_lsn_ := st.next_lsn_,
            ins_key_ := k, ins_val_ := v1 },
          { LogRec.default with
            type_ := .kBegin, txn_id_ := T2, lsn_ := st.next_lsn_ + 2, prev_lsn_ := INVALID_LSN },
          { LogRec.default with
            type_ := .kUpdate, txn_id_ := T2, lsn_ := st.next_lsn_ + 3,
            prev_lsn_ := st.next_lsn_ + 2,
            old_key_ := k, old_val_ := v1, new_key_ := k, new_val_ := v2 },
          { LogRec.default with
            type_ := .kCommit, txn_id_ := T1, lsn_ := st.next_lsn_ + 4,
            prev_lsn_ := st.next_lsn_ + 1 }] := by
  obtain ⟨m, n⟩ := st
  simp only at h0 h1
  unfold lsn_t at *
  have hw1 : wrapInt32 (n + 1) = n + 1 := wrapInt32_in_range _ (by omega) (by omega)
  have hw2 : wrapInt32 (n + 1 + 1) = n + 2 := by
    rw [wrapInt32_in_range _ (by omega) (by omega)]; omega
  have hw3 : wrapInt32 (n + 2 + 1) = n + 3 := by
    rw [wrapInt32_in_range _ (by omega) (by omega)]; omega
  have hw4 : wrapInt32 (n + 3 + 1) = n + 4 := by
    rw [wrapInt32_in_range _ (by omega) (by omega)]; omega
  have hT' : ¬ T2 = T1 := fun e => hT e.symm
  simp only [CreateLog.run, CreateLog.call, CreateBeginLog, CreateInsertLog, CreateUpdateLog,
    CreateCommitLog, LogRec.link, LogRec.default, hw1, hw2, hw3, hw4, UMap.find, UMap.insert,
    UMap.erase, List.filter, if_true, hT, hT', if_false, Option.getD_some, ne_eq,
    not_true_eq_false, decide_False, decide_True, not_false_eq_true]

theorem trace_log (n : Int) (r0 r1 r2 r3 r4 : LogRec) (h0 : r0.lsn_ = n) (h1 : r1.lsn_ = n + 1)
    (h2 : r2.lsn_ = n + 2) (h3 : r3.lsn_ = n + 3) (h4 : r4.lsn_ = n + 4) :
    ofLog CheckPoint.empty [r0, r1, r2, r3, r4]
      = ⟨[(n, r0), (n + 1, r1), (n + 2, r2), (n + 3, r3), (n + 4, r4)], INVALID_LSN, [], []⟩ := by
  have a1 : ¬ (n + 1 < n) := by omega
  have a2 : ¬ (n + 1 = n) := by omega
  have b1 : ¬ (n + 2 < n) := by omega
  have b2 : ¬ (n + 2 = n) := by omega
  have b3 : ¬ (n + 2 < n + 1) := by omega
  have b4 : ¬ (n + 2 = n + 1) := by omega
  have c1 : ¬ (n + 3 < n) := by omega
  have c2 : ¬ (n + 3 = n) := by omega
  have c3 : ¬ (n + 3 < n + 1) := by omega
  have c4 : ¬ (n + 3 = n + 1) := by omega
  have c5 : ¬ (n + 3 < n + 2) := by omega
  have c6 : ¬ (n + 3 = n + 2) := by omega
  have d1 : ¬ (n + 4 < n) := by omega
  have d2 : ¬ (n + 4 = n) := by omega
  have d3 : ¬ (n + 4 < n + 1) := by omega
  have d4 : ¬ (n + 4 = n + 1) := by omega
  have d5 : ¬ (n + 4 < n + 2) := by omega
  have d6 : ¬ (n + 4 = n + 2) := by omega
  have d7 : ¬ (n + 4 < n + 3) := by omega
  have d8 : ¬ (n + 4 = n + 3) := by omega
  simp only [ofLog, List.foldl, AppendLogRec, Init, new, CheckPoint.empty, emplace, h0, h1, h2,
    h3, h4, a1, a2, b1, b2, b3, b4, c1, c2, c3, c4, c5, c6, d1, d2, d3, d4, d5, d6, d7, d8,
    if_false]

theorem trace_redo (n T1 T2 : Int) (k : KeyType) (v1 v2 : Int) (hT : T1 ≠ T2) (hn : 0 ≤ n)
    (r0 r1 r2 r3 r4 : LogRec)
    (e0 : r0.type_ = .kBegin ∧ r0.txn_id_ = T1 ∧ r0.lsn_ = n)
    (e1 : r1.type_ = .kInsert ∧ r1.txn_id_ = T1 ∧ r1.lsn_ = n + 1 ∧ r1.ins_key_ = k ∧
      r1.ins_val_ = v1)
    (e2 : r2.type_ = .kBegin ∧ r2.txn_id_ = T2 ∧ r2.lsn_ = n + 2)
    (e3 : r3.type_ = .kUpdate ∧ r3.txn_id_ = T2 ∧ r3.lsn_ = n + 3 ∧ r3.new_key_ = k ∧
      r3.new_val_ = v2)
    (e4 : r4.type_ = .kCommit ∧ r4.txn_id_ = T1) :
    RedoPhase ⟨[(n, r0), (n + 1, r1), (n + 2, r2), (n + 3, r3), (n + 4, r4)], INVALID_LSN, [], []⟩
      = some ⟨[(n, r0), (n + 1, r1), (n + 2, r2), (n + 3, r3), (n + 4, r4)], INVALID_LSN,
          [(T2, n + 3)], [(k, v2)]⟩ := by
  have hd : ¬ (n < INVALID_LSN) := by
    unfold INVALID_LSN
    omega
  have hT' : ¬ T2 = T1 := fun e => hT e.symm
  simp only [RedoPhase, List.dropWhile, hd, decide_False, redoLoop, redoStep, e0.1, e0.2.1,
    e0.2.2, e1.1, e1.2.1, e1.2.2.1, e1.2.2.2.1, e1.2.2.2.2, e2.1, e2.2.1, e2.2.2, e3.1, e3.2.1,
    e3.2.2.1, e3.2.2.2.1, e3.2.2.2.2, e4.1, e4.2, redoData, UMap.insert, UMap.erase, List.filter,
    ne_eq, not_true_eq_false, decide_True, hT, hT', not_false_eq_true]

theorem trace_undo (n T2 : Int) (k : KeyType) (v1 v2 : Int) (hn : 0 ≤ n)
    (r0 r1 r2 r3 r4 : LogRec)
    (e2 : r2.type_ = .kBegin)
    (e3 : r3.type_ = .kUpdate ∧ r3.prev_lsn_ = n + 2 ∧ r3.old_key_ = k ∧ r3.old_val_ = v1) :
    UndoPhase ⟨[(n, r0), (n + 1, r1), (n + 2, r2), (n + 3, r3), (n + 4, r4)], INVALID_LSN,
        [(T2, n + 3)], [(k, v2)]⟩
      = some ⟨[(n, r0), (n + 1, r1), (n + 2, r2), (n + 3, r3), (n + 4, r4)], INVALID_LSN,
          [], [(k, v1)]⟩ := by
  have a1 : ¬ (n + 3 = INVALID_LSN) := by
    unfold INVALID_LSN
    omega
  have a2 : ¬ (n + 2 = INVALID_LSN) := by
    unfold INVALID_LSN
    omega
  have c2 : ¬ (n = n + 3) := by omega
  have c4 : ¬ (n + 1 = n + 3) := by omega
  have c6 : ¬ (n + 2 = n + 3) := by omega
  have b2 : ¬ (n = n + 2) := by omega
  have b4 : ¬ (n + 1 = n + 2) := by omega
  simp only [UndoPhase, undoAll, UndoSpecificTransaction, UndoSpecificTransactionFuel,
    List.length_cons, List.length_nil, undoLoop, a1, a2, if_false, UMap.find, c2, c4, c6, b2, b4,
    if_true, e3.1, e3.2.1, e3.2.2.1, e3.2.2.2, e2, undoData, UMap.insert, UMap.erase, List.filter,
    ne_eq, not_true_eq_false, decide_False, Option.map_some', reduceCtorEq]

end RecoveryManager

namespace RecoveryManager

theorem countP_lt_generic {α : Type} (p q : α → Bool) (l : List α)
    (himp : ∀ x, q x = true → p x = true) (x : α) (hx : x ∈ l) (hp : p x = true)
    (hq : q x = false) : l.countP q < l.countP p := by
  induction l with
  | nil => cases hx
  | cons c l ih =>
    have hle : l.countP q ≤ l.countP p := List.countP_mono_left (fun y _ => himp y)
    rcases List.mem_cons.1 hx with rfl | hx'
    · simp only [List.countP_cons, hp, hq, if_true, if_false]
      simp; omega
    · have := ih hx'
      simp only [List.countP_cons]
      by_cases hqc : q c = true
      · simp [hqc, himp c hqc]; omega
      · by_cases hpc : p c = true
        · simp [hqc, hpc]; omega
        · simp [hqc, hpc]; omega

/-- More fuel does not change the result of a walk that ended. -/
theorem undoLoop_mono (log_recs : List (lsn_t × LogRec)) (fuel : Nat)
    (data : List (KeyType × ValType)) (current_lsn : Int) (r : List (KeyType × ValType))
    (h : undoLoop log_recs fuel data current_lsn = some r) (k : Nat) :
    undoLoop log_recs (fuel + k) data current_lsn = some r := by
  induction fuel generalizing data current_lsn with
  | zero => simp [undoLoop] at h
  | succ fuel ih =>
    have e : fuel + 1 + k = (fuel + k) + 1 := by omega
    rw [e]
    simp only [undoLoop] at h ⊢
    by_cases h1 : current_lsn = INVALID_LSN
    · simpa [h1] using h
    · simp only [h1, if_false] at h ⊢
      cases hf : UMap.find log_recs current_lsn with
      | none => simpa [hf] using h
      | some current_log =>
        simp only [hf] at h ⊢
        by_cases hb : current_log.type_ = .kBegin
        · simpa [hb] using h
        · simp only [hb, if_false] at h ⊢
          exact ih _ _ h

/-- The walk of `UndoSpecificTransaction` ends when every record points
backwards: each step moves to a smaller lsn, so the number of log entries at or
below the current lsn bounds the remaining steps. -/
theorem undoLoop_terminates (log_recs : List (lsn_t × LogRec)) (hb : Backward log_recs)
    (fuel : Nat) (data : List (KeyType × ValType)) (current_lsn : Int)
    (hfuel : log_recs.countP (fun e => decide (e.1 ≤ current_lsn)) < fuel) :
    ∃ r, undoLoop log_recs fuel data current_lsn = some r := by
  induction fuel generalizing data current_lsn with
  | zero => omega
  | succ fuel ih =>
    simp only [undoLoop]
    by_cases h1 : current_lsn = INVALID_LSN
    · exact ⟨data, by simp [h1]⟩
    · simp only [h1, if_false]
      cases hf : UMap.find log_recs current_lsn with
      | none => exact ⟨data, rfl⟩
      | some current_log =>
        simp only []
        by_cases hbeg : current_log.type_ = .kBegin
        · exact ⟨data, by simp [hbeg]⟩
        · simp only [hbeg, if_false]
          have hmem : (current_lsn, current_log) ∈ log_recs := UMap.mem_of_find _ _ _ hf
          rcases hb _ hmem with hlt | hinv
          · apply ih
            have := countP_lt_generic (fun e : lsn_t × LogRec => decide (e.1 ≤ current_lsn))
              (fun e : lsn_t × LogRec => decide (e.1 ≤ current_log.prev_lsn_)) log_recs
              (by
                intro x hx
                simp only [decide_eq_true_eq] at hx ⊢
                simp only at hlt
                unfold lsn_t at *
                omega)
              (current_lsn, current_log) hmem (by simp)
              (by
                simp only [decide_eq_false_iff_not]
                simp only at hlt
                unfold lsn_t at *
                omega)
            omega
          · simp only at hinv
            rw [hinv]
            have hpos : 0 < log_recs.countP (fun e => decide (e.1 ≤ current_lsn)) :=
              List.countP_pos_iff.2 ⟨(current_lsn, current_log), hmem, by simp⟩
            obtain ⟨f, rfl⟩ : ∃ f, fuel = f + 1 := ⟨fuel - 1, by omega⟩
            exact ⟨undoData current_log data, by simp [undoLoop]⟩

theorem UndoSpecificTransaction_some (s : RecoveryManager) (hb : Backward s.log_recs_)
    (txn_id last_lsn : Int) :
    ∃ data, UndoSpecificTransaction s txn_id last_lsn = some { s with data_ := data } := by
  obtain ⟨r, hr⟩ := undoLoop_terminates s.log_recs_ hb (s.log_recs_.length + 1) s.data_ last_lsn
    (Nat.lt_succ_of_le (List.countP_le_length _))
  exact ⟨r, by simp only [UndoSpecificTransaction, UndoSpecificTransactionFuel, hr, Option.map_some']⟩

theorem UndoSpecificTransaction_frame (s s' : RecoveryManager) (txn_id last_lsn : Int)
    (h : UndoSpecificTransaction s txn_id last_lsn = some s') :
    s'.log_recs_ = s.log_recs_ ∧ s'.active_txns_ = s.active_txns_ ∧
    s'.persist_lsn_ = s.persist_lsn_ := by
  simp only [UndoSpecificTransaction, UndoSpecificTransactionFuel] at h
  cases hu : undoLoop s.log_recs_ (s.log_recs_.length + 1) s.data_ last_lsn with
  | none => simp [hu] at h
  | some d =>
    simp only [hu, Option.map_some', Option.some.injEq] at h
    subst h
    exact ⟨rfl, rfl, rfl⟩

theorem undoAll_some (txns : List (txn_id_t × lsn_t)) (s : RecoveryManager)
    (hb : Backward s.log_recs_) : ∃ s', undoAll txns s = some s' := by
  induction txns generalizing s with
  | nil => exact ⟨s, rfl⟩
  | cons pair rest ih =>
    obtain ⟨d, hd⟩ := UndoSpecificTransaction_some s hb pair.1 pair.2
    simp only [undoAll, hd]
    exact ih _ hb

/-- C15. For transactions `T1 != T2`, every key `k` and values `v1`, `v2`, and
static members whose lsn counter is non-negative and stays within the 32-bit
range: with an empty checkpoint and the log `Begin(T1); Insert(T1, k, v1);
Begin(T2); Update(T2, k -> k, v1 -> v2); Commit(T1)` built by the creators,
`RedoPhase` returns with database `{k: v2}` and `active_txns_` holding exactly
`T2`, mapped to the lsn of its `kUpdate` record, and the following `UndoPhase`
returns with database `{k: v1}` and empty `active_txns_`.  In general
`active_txns_` is empty whenever `UndoPhase` returns, and it returns on every
log whose records point backwards; a walk of `UndoSpecificTransaction` that
ends gives the same result with any larger fuel. -/
theorem recovery_trace (st : LogRecStatics) (T1 T2 : Int) (k : KeyType) (v1 v2 : Int)
    (hT : T1 ≠ T2) (h0 : (0 : Int) ≤ st.next_lsn_) (h1 : (st.next_lsn_ : Int) + 5 < 2 ^ 31) :
    (∃ s1 s2 r3,
      RedoPhase (ofLog CheckPoint.empty (CreateLog.run st
        [.begin T1, .insert T1 k v1, .begin T2, .update T2 k v1 k v2, .commit T1]).1) = some s1 ∧
      s1.data_ = [(k, v2)] ∧
      (CreateLog.run st
        [.begin T1, .insert T1 k v1, .begin T2, .update T2 k v1 k v2, .commit T1]).1[3]?
        = some r3 ∧
      r3.type_ = .kUpdate ∧
      s1.active_txns_ = [(T2, r3.lsn_)] ∧
      UndoPhase s1 = some s2 ∧ s2.data_ = [(k, v1)] ∧ s2.active_txns_ = []) ∧
    (∀ s s' : RecoveryManager, UndoPhase s = some s' → s'.active_txns_ = []) ∧
    (∀ s : RecoveryManager, Backward s.log_recs_ →
      ∃ s', UndoPhase s = some s' ∧ s'.active_txns_ = []) ∧
    (∀ (s r : RecoveryManager) (txn_id last_lsn : Int),
      UndoSpecificTransaction s txn_id last_lsn = some r →
      ∀ n, UndoSpecificTransactionFuel (s.log_recs_.length + 1 + n) s txn_id last_lsn
        = some r) := by
  refine ⟨?_, ?_, ?_, ?_⟩
  · obtain ⟨r0, r1, r2, r3, r4, hrun, e0, e1, e2, e3, e4⟩ :
        ∃ r0 r1 r2 r3 r4 : LogRec,
          (CreateLog.run st
            [.begin T1, .insert T1 k v1, .begin T2, .update T2 k v1 k v2, .commit T1]).1
            = [r0, r1, r2, r3, r4] ∧
          (r0.type_ = .kBegin ∧ r0.txn_id_ = T1 ∧ r0.lsn_ = st.next_lsn_) ∧
          (r1.type_ = .kInsert ∧ r1.txn_id_ = T1 ∧ r1.lsn_ = st.next_lsn_ + 1 ∧ r1.ins_key_ = k ∧
            r1.ins_val_ = v1) ∧
          (r2.type_ = .kBegin ∧ r2.txn_id_ = T2 ∧ r2.lsn_ = st.next_lsn_ + 2) ∧
          ((r3.type_ = .kUpdate ∧ r3.txn_id_ = T2 ∧ r3.lsn_ = st.next_lsn_ + 3 ∧ r3.new_key_ = k ∧
            r3.new_val_ = v2) ∧ r3.prev_lsn_ = st.next_lsn_ + 2 ∧ r3.old_key_ = k ∧
            r3.old_val_ = v1) ∧
          (r4.type_ = .kCommit ∧ r4.txn_id_ = T1 ∧ r4.lsn_ = st.next_lsn_ + 4) :=
      ⟨_, _, _, _, _, trace_recs st T1 T2 k v1 v2 hT h0 h1, ⟨rfl, rfl, rfl⟩,
        ⟨rfl, rfl, rfl, rfl, rfl⟩, ⟨rfl, rfl, rfl⟩, ⟨⟨rfl, rfl, rfl, rfl, rfl⟩, rfl, rfl, rfl⟩,
        ⟨rfl, rfl, rfl⟩⟩
    rw [hrun, trace_log st.next_lsn_ r0 r1 r2 r3 r4 e0.2.2 e1.2.2.1 e2.2.2 e3.1.2.2.1 e4.2.2,
      trace_redo st.next_lsn_ T1 T2 k v1 v2 hT h0 r0 r1 r2 r3 r4 e0 e1 e2 e3.1 ⟨e4.1, e4.2.1⟩]
    refine ⟨_, ⟨[(st.next_lsn_, r0), (st.next_lsn_ + 1, r1), (st.next_lsn_ + 2, r2),
      (st.next_lsn_ + 3, r3), (st.next_lsn_ + 4, r4)], INVALID_LSN, [], [(k, v1)]⟩, r3,
      rfl, rfl, rfl, e3.1.1, ?_, ?_, rfl, rfl⟩
    · rw [e3.1.2.2.1]
    · exact trace_undo st.next_lsn_ T2 k v1 v2 h0 r0 r1 r2 r3 r4 e2.1
        ⟨e3.1.1, e3.2.1, e3.2.2.1, e3.2.2.2⟩
  · intro s s' h
    simp only [UndoPhase] at h
    cases hu : undoAll s.active_txns_ s with
    | none => simp [hu] at h
    | some s1 =>
      simp only [hu, Option.map_some', Option.some.injEq] at h
      subst h
      rfl
  · intro s hb
    obtain ⟨s1, hs1⟩ := undoAll_some s.active_txns_ s hb
    exact ⟨{ s1 with active_txns_ := [] }, by simp only [UndoPhase, hs1, Option.map_some'], rfl⟩
  · intro s r txn_id last_lsn h n
    simp only [UndoSpecificTransaction, UndoSpecificTransactionFuel] at h ⊢
    cases hu : undoLoop s.log_recs_ (s.log_recs_.length + 1) s.data_ last_lsn with
    | none => simp [hu] at h
    | some d =>
      rw [undoLoop_mono _ _ _ _ _ hu n]
      simpa [hu] using h

/-- Instance of `recovery_trace` for the trace of the spec: transactions 1 and
2, key `a`, values 1 and 2, from the initial static members. -/
theorem recovery_trace_witness :
    ∃ s1 s2 r3,
      RedoPhase (ofLog CheckPoint.empty (CreateLog.run LogRec.initStatics
        [.begin 1, .insert 1 [97] 1, .begin 2, .update 2 [97] 1 [97] 2, .commit 1]).1) = some s1 ∧
      s1.data_ = [([97], 2)] ∧
      (CreateLog.run LogRec.initStatics
        [.begin 1, .insert 1 [97] 1, .begin 2, .update 2 [97] 1 [97] 2, .commit 1]).1[3]?
        = some r3 ∧
      r3.type_ = .kUpdate ∧
      s1.active_txns_ = [(2, r3.lsn_)] ∧
      UndoPhase s1 = some s2 ∧ s2.data_ = [([97], 1)] ∧ s2.active_txns_ = [] :=
  (recovery_trace LogRec.initStatics 1 2 [97] 1 2 (by decide) (by decide) (by decide)).1

end RecoveryManager

namespace RecoveryManager

theorem Sorted.nodup {log_recs : List (lsn_t × LogRec)} (h : Sorted log_recs) :
    (UMap.keys log_recs).Nodup :=
  List.Pairwise.imp (fun hab => ne_of_lt hab) h

theorem find_of_sorted {log_recs : List (lsn_t × LogRec)} (h : Sorted log_recs) (r : LogRec)
    (hm : (r.lsn_, r) ∈ log_recs) : UMap.find log_recs r.lsn_ = some r :=
  UMap.find_of_mem _ _ _ h.nodup hm

/-- The walk of `UndoSpecificTransaction` down a chain of records: started at
the lsn that `top` points to, it undoes the records `rops` (listed from the
newest to the oldest) in that order and stops at the `kBegin` record `b`. -/
theorem undoLoop_chain (log_recs : List (lsn_t × LogRec)) (hs : Sorted log_recs) (b : LogRec)
    (hb : b.type_ = .kBegin) (hb0 : (0 : Int) ≤ b.lsn_) (rops : List LogRec) :
    ∀ (top : LogRec) (data : List (KeyType × ValType)) (fuel : Nat),
      List.Chain' (fun y x : LogRec => y.prev_lsn_ = x.lsn_ ∧ (x.lsn_ : Int) < y.lsn_)
        (top :: rops ++ [b]) →
      (∀ r ∈ rops ++ [b], (r.lsn_, r) ∈ log_recs) →
      (∀ o ∈ rops, o.type_ = .kInsert ∨ o.type_ = .kDelete ∨ o.type_ = .kUpdate) →
      log_recs.countP (fun e => decide (e.1 ≤ top.prev_lsn_)) < fuel →
      (b.lsn_ : Int) ≤ top.prev_lsn_ ∧
      undoLoop log_recs fuel data top.prev_lsn_
        = some (rops.foldl (fun d r => undoData r d) data) := by
  induction rops with
  | nil =>
    intro top data fuel hc hm _ hfuel
    simp only [List.cons_append, List.nil_append, List.chain'_cons, List.chain'_singleton, and_true] at hc
    have hbm : (b.lsn_, b) ∈ log_recs := hm b (by simp)
    rw [hc.1] at hfuel ⊢
    have hpos : 0 < log_recs.countP (fun e => decide (e.1 ≤ b.lsn_)) :=
      List.countP_pos_iff.2 ⟨(b.lsn_, b), hbm, by simp⟩
    obtain ⟨f, rfl⟩ : ∃ f, fuel = f + 1 := ⟨fuel - 1, by omega⟩
    refine ⟨le_refl _, ?_⟩
    have hne : ¬ b.lsn_ = INVALID_LSN := by
      unfold INVALID_LSN
      unfold lsn_t at *
      omega
    simp only [undoLoop, hne, if_false, find_of_sorted hs b hbm, hb, if_true, List.foldl_nil]
  | cons o rops ih =>
    intro top data fuel hc hm hops hfuel
    simp only [List.cons_append, List.chain'_cons] at hc
    obtain ⟨⟨hprev, _⟩, hrest⟩ := hc
    have hom : (o.lsn_, o) ∈ log_recs := hm o (by simp)
    have hc' : List.Chain' (fun y x : LogRec => y.prev_lsn_ = x.lsn_ ∧ (x.lsn_ : Int) < y.lsn_)
        (o :: rops ++ [b]) := by
      simpa using hrest
    have hlt : (o.prev_lsn_ : Int) < o.lsn_ := by
      cases rops with
      | nil =>
        simp only [List.cons_append, List.nil_append, List.chain'_cons, List.chain'_singleton, and_true] at hrest
        rw [hrest.1]; exact hrest.2
      | cons x xs =>
        simp only [List.cons_append, List.chain'_cons] at hrest
        rw [hrest.1.1]; exact hrest.1.2
    rw [hprev] at hfuel ⊢
    have hpos : 0 < log_recs.countP (fun e => decide (e.1 ≤ o.lsn_)) :=
      List.countP_pos_iff.2 ⟨(o.lsn_, o), hom, by simp⟩
    obtain ⟨f, rfl⟩ : ∃ f, fuel = f + 1 := ⟨fuel - 1, by omega⟩
    have hcount : log_recs.countP (fun e => decide (e.1 ≤ o.prev_lsn_)) < f := by
      have := countP_lt_generic (fun e : lsn_t × LogRec => decide (e.1 ≤ o.lsn_))
        (fun e : lsn_t × LogRec => decide (e.1 ≤ o.prev_lsn_)) log_recs
        (by
          intro x hx
          simp only [decide_eq_true_eq] at hx ⊢
          unfold lsn_t at *
          omega)
        (o.lsn_, o) hom (by simp)
        (by
          simp only [decide_eq_false_iff_not]
          unfold lsn_t at *
          omega)
      omega
    obtain ⟨hge, hwalk⟩ := ih o (undoData o data) f hc'
      (fun r hr => hm r (by simp at hr ⊢; tauto))
      (fun r hr => hops r (List.mem_cons_of_mem _ hr)) hcount
    have hge' : (b.lsn_ : Int) ≤ o.lsn_ := by
      unfold lsn_t at *
      omega
    refine ⟨hge', ?_⟩
    have hne : ¬ o.lsn_ = INVALID_LSN := by
      unfold INVALID_LSN
      unfold lsn_t at *
      omega
    have hnb : ¬ o.type_ = .kBegin := by
      rcases hops o (List.mem_cons_self _ _) with h | h | h <;> rw [h] <;> decide
    simp only [undoLoop, hne, if_false, find_of_sorted hs o hom, hnb, List.foldl_cons]
    exact hwalk

/-- `RedoPhase` at the `kAbort` record of a transaction whose records are
chained through `prev_lsn_`: the operations are undone from the newest to the
oldest and the transaction leaves `active_txns_`. -/
theorem redoStep_abort (s : RecoveryManager) (hs : Sorted s.log_recs_) (T : Int)
    (b a : LogRec) (ops : List LogRec) (hT : AbortedTxn T b ops a)
    (hmem : ∀ r ∈ b :: ops, (r.lsn_, r) ∈ s.log_recs_) (hb0 : (0 : Int) ≤ b.lsn_) :
    redoStep s a
      = some { s with
          data_ := ops.reverse.foldl (fun d r => undoData r d) s.data_,
          active_txns_ := UMap.erase s.active_txns_ T } := by
  obtain ⟨⟨hb, _⟩, ⟨ha, haT⟩, hops, hchain⟩ := hT
  have hrev : List.Chain' (fun y x : LogRec => y.prev_lsn_ = x.lsn_ ∧ (x.lsn_ : Int) < y.lsn_)
      (a :: ops.reverse ++ [b]) := by
    have := List.chain'_reverse.2 (show List.Chain'
      (flip (fun y x : LogRec => y.prev_lsn_ = x.lsn_ ∧ (x.lsn_ : Int) < y.lsn_))
      (b :: ops ++ [a]) from hchain)
    simpa using this
  obtain ⟨hge, hwalk⟩ := undoLoop_chain s.log_recs_ hs b hb hb0 ops.reverse a s.data_
    (s.log_recs_.length + 1) hrev
    (fun r hr => hmem r (by simp at hr ⊢; tauto))
    (fun o ho => (hops o (List.mem_reverse.1 ho)).2)
    (Nat.lt_succ_of_le (List.countP_le_length _))
  have hne : a.prev_lsn_ ≠ INVALID_LSN := by
    unfold INVALID_LSN
    unfold lsn_t at *
    omega
  simp only [redoStep, ha, haT, hne, ne_eq, not_false_eq_true, if_true, UndoSpecificTransaction,
    UndoSpecificTransactionFuel, hwalk, Option.map_some']

end RecoveryManager

namespace RecoveryManager

theorem find_erase_absent (d : List (KeyType × ValType)) (k k' : KeyType)
    (h : UMap.find d k = none) : UMap.find (UMap.erase d k') k = none := by
  by_cases hk : k = k'
  · rw [hk]; exact UMap.find_erase_self d k'
  · rw [UMap.find_erase_ne d hk]; exact h

theorem undoData_absent (r : LogRec) (d : List (KeyType × ValType)) (k : KeyType)
    (hd : r.type_ = .kDelete → r.del_key_ ≠ k) (hu : r.type_ = .kUpdate → r.old_key_ ≠ k)
    (h : UMap.find d k = none) : UMap.find (undoData r d) k = none := by
  unfold undoData
  split
  · exact find_erase_absent d k _ h
  · next ht => rw [UMap.find_insert_ne d _ (Ne.symm (hd ht))]; exact h
  · next ht => rw [UMap.find_insert_ne d _ (Ne.symm (hu ht))]; exact h
  · exact h

theorem redoData_absent (r : LogRec) (d : List (KeyType × ValType)) (k : KeyType)
    (hi : r.type_ = .kInsert → r.ins_key_ ≠ k) (hu : r.type_ = .kUpdate → r.new_key_ ≠ k)
    (h : UMap.find d k = none) : UMap.find (redoData r d) k = none := by
  unfold redoData
  split
  · next ht => rw [UMap.find_insert_ne d _ (Ne.symm (hi ht))]; exact h
  · exact find_erase_absent d k _ h
  · next ht => rw [UMap.find_insert_ne d _ (Ne.symm (hu ht))]; exact h
  · exact h

/-- A walk of `UndoSpecificTransaction` over a log none of whose `kDelete` and
`kUpdate` records restores a key of `K` leaves the keys of `K` absent. -/
theorem undoLoop_absent (log_recs : List (lsn_t × LogRec)) (K : List KeyType)
    (hsafe : ∀ e ∈ log_recs, ∀ k ∈ K,
      (e.2.type_ = .kDelete → e.2.del_key_ ≠ k) ∧ (e.2.type_ = .kUpdate → e.2.old_key_ ≠ k))
    (fuel : Nat) : ∀ (data : List (KeyType × ValType)) (current_lsn : Int)
      (data' : List (KeyType × ValType)),
      (∀ k ∈ K, UMap.find data k = none) →
      undoLoop log_recs fuel data current_lsn = some data' →
      ∀ k ∈ K, UMap.find data' k = none := by
  induction fuel with
  | zero => intro data current_lsn data' _ h; simp [undoLoop] at h
  | succ f ih =>
    intro data current_lsn data' hd h
    simp only [undoLoop] at h
    split at h
    · simp only [Option.some.injEq] at h; subst h; exact hd
    · cases hf : UMap.find log_recs current_lsn with
      | none =>
        simp only [hf, Option.some.injEq] at h; subst h; exact hd
      | some current_log =>
        simp only [hf] at h
        split at h
        · simp only [Option.some.injEq] at h; subst h; exact hd
        · have hm := UMap.mem_of_find _ _ _ hf
          exact ih _ _ _ (fun k hk => undoData_absent current_log data k
            (hsafe _ hm k hk).1 (hsafe _ hm k hk).2 (hd k hk)) h

theorem undo_inserts_keep_absent (l : List LogRec) (hl : ∀ r ∈ l, r.type_ = .kInsert)
    (k : KeyType) : ∀ d : List (KeyType × ValType), UMap.find d k = none →
      UMap.find (l.foldl (fun d r => undoData r d) d) k = none := by
  induction l with
  | nil => intro d h; exact h
  | cons x xs ih =>
    intro d h
    simp only [List.foldl_cons]
    have hx := hl x (List.mem_cons_self _ _)
    exact ih (fun r hr => hl r (List.mem_cons_of_mem _ hr)) _
      (undoData_absent x d k (by rw [hx]; intro h; cases h) (by rw [hx]; intro h; cases h) h)

/-- After the undo of a list of `kInsert` records the inserted keys are absent,
whatever the database held before. -/
theorem undo_inserts_absent (l : List LogRec) (hl : ∀ r ∈ l, r.type_ = .kInsert) :
    ∀ (d : List (KeyType × ValType)), ∀ o ∈ l,
      UMap.find (l.foldl (fun d r => undoData r d) d) o.ins_key_ = none := by
  induction l with
  | nil => intro d o ho; cases ho
  | cons x xs ih =>
    intro d o ho
    simp only [List.foldl_cons]
    rcases List.mem_cons.1 ho with rfl | ho
    · refine undo_inserts_keep_absent xs (fun r hr => hl r (List.mem_cons_of_mem _ hr)) _ _ ?_
      have hx := hl o (List.mem_cons_self _ _)
      simp only [undoData, hx]
      exact UMap.find_erase_self d _
    · exact ih (fun r hr => hl r (List.mem_cons_of_mem _ hr)) _ o ho

theorem redoStep_some (s : RecoveryManager) (hb : Backward s.log_recs_) (r : LogRec) :
    ∃ s', redoStep s r = some s' ∧ s'.log_recs_ = s.log_recs_ := by
  cases ht : r.type_ with
  | kAbort =>
    by_cases hp : r.prev_lsn_ ≠ INVALID_LSN
    · obtain ⟨d, hd⟩ := UndoSpecificTransaction_some s hb r.txn_id_ r.prev_lsn_
      exact ⟨{ s with data_ := d, active_txns_ := UMap.erase s.active_txns_ r.txn_id_ },
        by simp only [redoStep, ht, hp, if_true, hd, Option.map_some', ne_eq, not_false_eq_true],
        rfl⟩
    · exact ⟨{ s with active_txns_ := UMap.erase s.active_txns_ r.txn_id_ },
        by simp only [redoStep, ht, hp, if_false, Option.map_some'], rfl⟩
  | kInvalid => exact ⟨s, by simp only [redoStep, ht], rfl⟩
  | kInsert =>
    exact ⟨{ s with data_ := redoData r s.data_,
                    active_txns_ := UMap.insert s.active_txns_ r.txn_id_ r.lsn_ },
      by simp only [redoStep, ht], rfl⟩
  | kDelete =>
    exact ⟨{ s with data_ := redoData r s.data_,
                    active_txns_ := UMap.insert s.active_txns_ r.txn_id_ r.lsn_ },
      by simp only [redoStep, ht], rfl⟩
  | kUpdate =>
    exact ⟨{ s with data_ := redoData r s.data_,
                    active_txns_ := UMap.insert s.active_txns_ r.txn_id_ r.lsn_ },
      by simp only [redoStep, ht], rfl⟩
  | kBegin =>
    exact ⟨{ s with active_txns_ := UMap.insert s.active_txns_ r.txn_id_ r.lsn_ },
      by simp only [redoStep, ht], rfl⟩
  | kCommit =>
    exact ⟨{ s with active_txns_ := UMap.erase s.active_txns_ r.txn_id_ },
      by simp only [redoStep, ht], rfl⟩

theorem redoLoop_some (l : List (lsn_t × LogRec)) : ∀ (s : RecoveryManager),
    Backward s.log_recs_ → ∃ s', redoLoop l s = some s' ∧ s'.log_recs_ = s.log_recs_ := by
  induction l with
  | nil => intro s _; exact ⟨s, rfl, rfl⟩
  | cons e rest ih =>
    intro s hb
    obtain ⟨s1, h1, hl1⟩ := redoStep_some s hb e.2
    obtain ⟨s2, h2, hl2⟩ := ih s1 (by rw [hl1]; exact hb)
    exact ⟨s2, by simp only [redoLoop, h1, h2], by rw [hl2, hl1]⟩

theorem redoLoop_append (l1 l2 : List (lsn_t × LogRec)) : ∀ (s : RecoveryManager),
    redoLoop (l1 ++ l2) s = (redoLoop l1 s).bind (redoLoop l2) := by
  induction l1 with
  | nil => intro s; rfl
  | cons e rest ih =>
    intro s
    simp only [List.cons_append, redoLoop]
    cases redoStep s e.2 with
    | none => rfl
    | some s' => exact ih s'

/-- One iteration of `RedoPhase` at a record of another transaction that does
not touch the keys of `K` keeps those keys absent and `T` out of
`active_txns_`. -/
theorem redoStep_absent (s : RecoveryManager) (hb : Backward s.log_recs_) (K : List KeyType)
    (T : Int) (r : LogRec) (hr : r.txn_id_ ≠ T)
    (hredo : ∀ k ∈ K, (r.type_ = .kInsert → r.ins_key_ ≠ k) ∧ (r.type_ = .kUpdate → r.new_key_ ≠ k))
    (hsafe : ∀ e ∈ s.log_recs_, ∀ k ∈ K,
      (e.2.type_ = .kDelete → e.2.del_key_ ≠ k) ∧ (e.2.type_ = .kUpdate → e.2.old_key_ ≠ k))
    (hd : ∀ k ∈ K, UMap.find s.data_ k = none) (ha : UMap.find s.active_txns_ T = none) :
    ∃ s', redoStep s r = some s' ∧ s'.log_recs_ = s.log_recs_ ∧
      (∀ k ∈ K, UMap.find s'.data_ k = none) ∧ UMap.find s'.active_txns_ T = none := by
  have hins : ∀ v : Int, UMap.find (UMap.insert s.active_txns_ r.txn_id_ v) T = none := by
    intro v; rw [UMap.find_insert_ne _ _ (Ne.symm hr)]; exact ha
  have hers : UMap.find (UMap.erase s.active_txns_ r.txn_id_) T = none := by
    rw [UMap.find_erase_ne _ (Ne.symm hr)]; exact ha
  have hdata : ∀ k ∈ K, UMap.find (redoData r s.data_) k = none := fun k hk =>
    redoData_absent r s.data_ k (hredo k hk).1 (hredo k hk).2 (hd k hk)
  cases ht : r.type_ with
  | kInvalid => exact ⟨s, by simp only [redoStep, ht], rfl, hd, ha⟩
  | kInsert =>
    exact ⟨{ s with data_ := redoData r s.data_,
                    active_txns_ := UMap.insert s.active_txns_ r.txn_id_ r.lsn_ },
      by simp only [redoStep, ht], rfl, hdata, hins _⟩
  | kDelete =>
    exact ⟨{ s with data_ := redoData r s.data_,
                    active_txns_ := UMap.insert s.active_txns_ r.txn_id_ r.lsn_ },
      by simp only [redoStep, ht], rfl, hdata, hins _⟩
  | kUpdate =>
    exact ⟨{ s with data_ := redoData r s.data_,
                    active_txns_ := UMap.insert s.active_txns_ r.txn_id_ r.lsn_ },
      by simp only [redoStep, ht], rfl, hdata, hins _⟩
  | kBegin =>
    exact ⟨{ s with active_txns_ := UMap.insert s.active_txns_ r.txn_id_ r.lsn_ },
      by simp only [redoStep, ht], rfl, hd, hins _⟩
  | kCommit =>
    exact ⟨{ s with active_txns_ := UMap.erase s.active_txns_ r.txn_id_ },
      by simp only [redoStep, ht], rfl, hd, hers⟩
  | kAbort =>
    by_cases hp : r.prev_lsn_ ≠ INVALID_LSN
    · obtain ⟨d, hu⟩ := UndoSpecificTransaction_some s hb r.txn_id_ r.prev_lsn_
      have hu' := hu
      simp only [UndoSpecificTransaction, UndoSpecificTransactionFuel] at hu'
      cases hl : undoLoop s.log_recs_ (s.log_recs_.length + 1) s.data_ r.prev_lsn_ with
      | none => simp [hl] at hu'
      | some d' =>
        simp only [hl, Option.map_some', Option.some.injEq] at hu'
        have hdd : d' = d := congrArg RecoveryManager.data_ hu'
        have habs := undoLoop_absent s.log_recs_ K hsafe _ _ _ _ hd hl
        refine ⟨{ s with data_ := d, active_txns_ := UMap.erase s.active_txns_ r.txn_id_ },
          by simp only [redoStep, ht, hp, if_true, hu, Option.map_some', ne_eq, not_false_eq_true],
          rfl, ?_, hers⟩
        rw [← hdd]; exact habs
    · exact ⟨{ s with active_txns_ := UMap.erase s.active_txns_ r.txn_id_ },
        by simp only [redoStep, ht, hp, if_false, Option.map_some'], rfl, hd, hers⟩

theorem redoLoop_absent (K : List KeyType) (T : Int) (l : List (lsn_t × LogRec)) :
    ∀ (s : RecoveryManager), Backward s.log_recs_ →
    (∀ e ∈ l, e.2.txn_id_ ≠ T ∧ ∀ k ∈ K,
      (e.2.type_ = .kInsert → e.2.ins_key_ ≠ k) ∧ (e.2.type_ = .kUpdate → e.2.new_key_ ≠ k)) →
    (∀ e ∈ s.log_recs_, ∀ k ∈ K,
      (e.2.type_ = .kDelete → e.2.del_key_ ≠ k) ∧ (e.2.type_ = .kUpdate → e.2.old_key_ ≠ k)) →
    (∀ k ∈ K, UMap.find s.data_ k = none) → UMap.find s.active_txns_ T = none →
    ∃ s', redoLoop l s = some s' ∧ s'.log_recs_ = s.log_recs_ ∧
      (∀ k ∈ K, UMap.find s'.data_ k = none) ∧ UMap.find s'.active_txns_ T = none := by
  induction l with
  | nil => intro s _ _ _ hd ha; exact ⟨s, rfl, rfl, hd, ha⟩
  | cons e rest ih =>
    intro s hb hl hsafe hd ha
    obtain ⟨s1, h1, hl1, hd1, ha1⟩ := redoStep_absent s hb K T e.2
      (hl e (List.mem_cons_self _ _)).1 (hl e (List.mem_cons_self _ _)).2 hsafe hd ha
    obtain ⟨s2, h2, hl2, hd2, ha2⟩ := ih s1 (by rw [hl1]; exact hb)
      (fun x hx => hl x (List.mem_cons_of_mem _ hx)) (by rw [hl1]; exact hsafe) hd1 ha1
    exact ⟨s2, by simp only [redoLoop, h1, h2], by rw [hl2, hl1], hd2, ha2⟩

theorem mem_dropWhile_of_not {α : Type} (p : α → Bool) (l : List α) (x : α) (hx : x ∈ l)
    (hp : p x = false) : x ∈ l.dropWhile p := by
  induction l with
  | nil => cases hx
  | cons y ys ih =>
    rw [List.dropWhile_cons]
    split
    · rcases List.mem_cons.1 hx with rfl | h
      · simp_all
      · exact ih h
    · exact hx

theorem AbortedTxn.lsn_lt {T : Int} {b a : LogRec} {ops : List LogRec}
    (hT : AbortedTxn T b ops a) : ∀ r ∈ b :: ops, (r.lsn_ : Int) < a.lsn_ := by
  have hc : List.Chain' (fun x y : LogRec => (x.lsn_ : Int) < y.lsn_) (b :: ops ++ [a]) :=
    List.Chain'.imp (fun _ _ h => h.2) hT.2.2.2
  haveI : IsTrans LogRec (fun x y : LogRec => (x.lsn_ : Int) < y.lsn_) :=
    ⟨fun x y z hxy hyz => lt_trans hxy hyz⟩
  have hp := List.chain'_iff_pairwise.1 hc
  rw [List.pairwise_append] at hp
  intro r hr
  exact hp.2.2 r hr a (List.mem_singleton_self a)

end RecoveryManager

namespace RecoveryManager

/-- `RedoPhase` over a log holding an aborted transaction `T` and no further
record of `T`: it returns, `T` is not active at the end, and every key of `K`
is absent from the database provided that the undo of `T` removes it and that
no other record can bring it back. -/
theorem RedoPhase_after_abort (s : RecoveryManager) (T : Int) (b a : LogRec)
    (ops : List LogRec) (hs : Sorted s.log_recs_) (hk : ∀ e ∈ s.log_recs_, e.1 = e.2.lsn_)
    (hT : AbortedTxn T b ops a) (hmem : ∀ r ∈ b :: ops ++ [a], (r.lsn_, r) ∈ s.log_recs_)
    (hb0 : (0 : Int) ≤ b.lsn_) (hp : (s.persist_lsn_ : Int) ≤ b.lsn_)
    (hB : Backward s.log_recs_)
    (hex : ∀ e ∈ s.log_recs_, e.2.txn_id_ = T → e.2 ∈ b :: ops ++ [a])
    (K : List KeyType)
    (hundo : ∀ d : List (KeyType × ValType), ∀ k ∈ K,
      UMap.find (ops.reverse.foldl (fun d r => undoData r d) d) k = none)
    (hredo : ∀ e ∈ s.log_recs_, e.2.txn_id_ ≠ T → ∀ k ∈ K,
      (e.2.type_ = .kInsert → e.2.ins_key_ ≠ k) ∧ (e.2.type_ = .kUpdate → e.2.new_key_ ≠ k))
    (hsafe : ∀ e ∈ s.log_recs_, ∀ k ∈ K,
      (e.2.type_ = .kDelete → e.2.del_key_ ≠ k) ∧ (e.2.type_ = .kUpdate → e.2.old_key_ ≠ k)) :
    ∃ s', RedoPhase s = some s' ∧ UMap.find s'.active_txns_ T = none ∧
      ∀ k ∈ K, UMap.find s'.data_ k = none := by
  have hlt := hT.lsn_lt
  have hba : (b.lsn_ : Int) < a.lsn_ := hlt b (List.mem_cons_self _ _)
  have ham : (a.lsn_, a) ∈ s.log_recs_ := hmem a (by simp)
  have hin : (a.lsn_, a) ∈ s.log_recs_.dropWhile (fun e => decide (e.1 < s.persist_lsn_)) := by
    refine mem_dropWhile_of_not _ _ _ ham ?_
    simp only [decide_eq_false_iff_not]
    unfold lsn_t at *
    omega
  obtain ⟨L1, L2, hL⟩ := List.append_of_mem hin
  have hsub : (L1 ++ (a.lsn_, a) :: L2).Sublist s.log_recs_ := by
    rw [← hL]; exact (List.dropWhile_suffix _).sublist
  have hsorted : ((L1 ++ (a.lsn_, a) :: L2).map Prod.fst).Pairwise (fun x y => x < y) :=
    List.Pairwise.sublist (hsub.map Prod.fst) hs
  have hL2 : ∀ e ∈ L2, (a.lsn_ : Int) < e.1 ∧ e ∈ s.log_recs_ := by
    intro e he
    rw [List.map_append, List.map_cons, List.pairwise_append, List.pairwise_cons] at hsorted
    exact ⟨hsorted.2.1.1 e.1 (List.mem_map_of_mem _ he),
      hsub.subset (List.mem_append_right _ (List.mem_cons_of_mem _ he))⟩
  have hother : ∀ e ∈ L2, e.2.txn_id_ ≠ T := by
    intro e he heT
    obtain ⟨hgt, hel⟩ := hL2 e he
    have hkey := hk e hel
    have hr := hex e hel heT
    rw [List.mem_append, List.mem_singleton] at hr
    rcases hr with hr | hr
    · have := hlt _ hr
      unfold lsn_t at *
      omega
    · rw [hr] at hkey
      unfold lsn_t at *
      omega
  obtain ⟨s1, h1, hl1⟩ := redoLoop_some L1 s hB
  have hstep := redoStep_abort s1 (by rw [hl1]; exact hs) T b a ops hT
    (fun r hr => by rw [hl1]; exact hmem r (List.mem_append_left _ hr)) hb0
  obtain ⟨s', h2, _, hd', ha'⟩ := redoLoop_absent K T L2
    { s1 with
      data_ := ops.reverse.foldl (fun d r => undoData r d) s1.data_,
      active_txns_ := UMap.erase s1.active_txns_ T }
    (by show Backward s1.log_recs_; rw [hl1]; exact hB)
    (fun e he => ⟨hother e he, hredo e (hL2 e he).2 (hother e he)⟩)
    (by show ∀ e ∈ s1.log_recs_, _; rw [hl1]; exact hsafe)
    (hundo s1.data_) (UMap.find_erase_self _ _)
  refine ⟨s', ?_, ha', hd'⟩
  unfold RedoPhase
  rw [hL, redoLoop_append, h1]
  show redoLoop ((a.lsn_, a) :: L2) s1 = some s'
  simp only [redoLoop, hstep]
  exact h2

/-- C16. For a log that is a well-formed map storing every record under its own
lsn and that holds the records of a transaction `T` as a chain: a `kBegin`
record `b` with lsn at least `0` and at least the checkpoint lsn, then
`kInsert` / `kDelete` / `kUpdate` records `ops`, then a `kAbort` record `a`,
each pointing through `prev_lsn_` to the one before it.  The iteration of
`RedoPhase` at `a` returns, the database then is the one before with the
operations of `ops` undone from the newest to the oldest, and `T` is not in
`active_txns_`.  If moreover every record of the log points backwards and the
log holds no other record of `T`, then `RedoPhase` returns with `T` not in
`active_txns_`; and if `T` only inserted, and no record of another transaction
touches a key that `T` inserted, none of these keys is in the database after
`RedoPhase`. -/
theorem abort_undoes_transaction (s : RecoveryManager) (T : Int) (b a : LogRec)
    (ops : List LogRec) (hs : Sorted s.log_recs_) (hk : ∀ e ∈ s.log_recs_, e.1 = e.2.lsn_)
    (hT : AbortedTxn T b ops a) (hmem : ∀ r ∈ b :: ops ++ [a], (r.lsn_, r) ∈ s.log_recs_)
    (hb0 : (0 : Int) ≤ b.lsn_) (hp : (s.persist_lsn_ : Int) ≤ b.lsn_) :
    (∀ s1 : RecoveryManager, s1.log_recs_ = s.log_recs_ →
      redoStep s1 a
        = some { s1 with
            data_ := ops.reverse.foldl (fun d r => undoData r d) s1.data_,
            active_txns_ := UMap.erase s1.active_txns_ T } ∧
      UMap.find (UMap.erase s1.active_txns_ T) T = none) ∧
    (Backward s.log_recs_ →
      (∀ e ∈ s.log_recs_, e.2.txn_id_ = T → e.2 ∈ b :: ops ++ [a]) →
      ∃ s', RedoPhase s = some s' ∧ UMap.find s'.active_txns_ T = none ∧
        ((∀ o ∈ ops, o.type_ = .kInsert) →
          (∀ e ∈ s.log_recs_, e.2.txn_id_ ≠ T → ∀ o ∈ ops, ¬ touches e.2 o.ins_key_) →
          ∀ o ∈ ops, UMap.find s'.data_ o.ins_key_ = none)) := by
  refine ⟨fun s1 h1 => ⟨redoStep_abort s1 (by rw [h1]; exact hs) T b a ops hT
    (fun r hr => by rw [h1]; exact hmem r (List.mem_append_left _ hr)) hb0,
    UMap.find_erase_self _ _⟩, ?_⟩
  intro hB hex
  obtain ⟨s', hr, ha, _⟩ := RedoPhase_after_abort s T b a ops hs hk hT hmem hb0 hp hB hex []
    (fun _ _ hk => by cases hk) (fun _ _ _ _ hk => by cases hk) (fun _ _ _ hk => by cases hk)
  refine ⟨s', hr, ha, ?_⟩
  intro hins hun
  have hrec : ∀ e ∈ s.log_recs_, e.2.txn_id_ = T →
      e.2.type_ = .kBegin ∨ e.2.type_ = .kInsert ∨ e.2.type_ = .kAbort := by
    intro e he heT
    have := hex e he heT
    simp only [List.cons_append, List.mem_cons, List.mem_append, List.mem_singleton,
      List.not_mem_nil, or_false] at this
    rcases this with h | h | h
    · rw [h]; exact Or.inl hT.1.1
    · exact Or.inr (Or.inl (hins _ h))
    · rw [h]; exact Or.inr (Or.inr hT.2.1.1)
  obtain ⟨s2, hr2, _, hd2⟩ := RedoPhase_after_abort s T b a ops hs hk hT hmem hb0 hp hB hex
    (ops.map (fun o => o.ins_key_))
    (by
      intro d k hk
      obtain ⟨o, ho, rfl⟩ := List.mem_map.1 hk
      exact undo_inserts_absent ops.reverse (fun r hr => hins r (List.mem_reverse.1 hr)) d o
        (List.mem_reverse.2 ho))
    (by
      intro e he hne k hk
      obtain ⟨o, ho, rfl⟩ := List.mem_map.1 hk
      have := hun e he hne o ho
      unfold touches at this
      exact ⟨fun h1 h2 => this (Or.inl ⟨h1, h2⟩),
        fun h1 h2 => this (Or.inr (Or.inr ⟨h1, Or.inr h2⟩))⟩)
    (by
      intro e he k hk
      obtain ⟨o, ho, rfl⟩ := List.mem_map.1 hk
      by_cases heT : e.2.txn_id_ = T
      · rcases hrec e he heT with h | h | h <;>
          exact ⟨fun h1 => (by rw [h] at h1; cases h1), fun h1 => (by rw [h] at h1; cases h1)⟩
      · have := hun e he heT o ho
        unfold touches at this
        exact ⟨fun h1 h2 => this (Or.inr (Or.inl ⟨h1, h2⟩)),
          fun h1 h2 => this (Or.inr (Or.inr ⟨h1, Or.inl h2⟩))⟩)
  have : s2 = s' := by
    rw [hr] at hr2
    exact (Option.some.inj hr2).symm
  intro o ho
  rw [← this]
  exact hd2 _ (List.mem_map_of_mem _ ho)

end RecoveryManager

namespace RecoveryManager

/-- Instance of `abort_undoes_transaction` for the log `Begin(1);
Insert(1, a, 5); Begin(2); Insert(2, b, 6); Abort(1)` built by the creators from
the initial static members, with an empty checkpoint: `RedoPhase` returns,
transaction 1 is not active and key `a` is absent. -/
theorem abort_undoes_transaction_witness :
    ∃ s', RedoPhase (ofLog CheckPoint.empty (CreateLog.run LogRec.initStatics
        [.begin 1, .insert 1 [97] 5, .begin 2, .insert 2 [98] 6, .abort 1]).1) = some s' ∧
      UMap.find s'.active_txns_ 1 = none ∧ UMap.find s'.data_ [97] = none := by
  obtain ⟨s', h1, h2, h3⟩ := (abort_undoes_transaction
    (ofLog CheckPoint.empty (CreateLog.run LogRec.initStatics
        [.begin 1, .insert 1 [97] 5, .begin 2, .insert 2 [98] 6, .abort 1]).1) 1
    { LogRec.default with type_ := .kBegin, lsn_ := 0, prev_lsn_ := -1, txn_id_ := 1 }
    { LogRec.default with type_ := .kAbort, lsn_ := 4, prev_lsn_ := 1, txn_id_ := 1 }
    [{ LogRec.default with type_ := .kInsert, lsn_ := 1, prev_lsn_ := 0, txn_id_ := 1,
                           ins_key_ := [97], ins_val_ := 5 }]
    (by unfold Sorted; decide) (by decide) (by unfold AbortedTxn; exact ⟨⟨rfl, rfl⟩, ⟨rfl, rfl⟩, by decide, by simp⟩) (by decide)
    (by decide) (by decide)).2 (by unfold Backward; decide) (by decide)
  exact ⟨s', h1, h2, h3 (by decide) (by unfold touches; decide) _ (List.mem_singleton_self _)⟩

end RecoveryManager

namespace UMap

theorem emplace_of_none {K V : Type} [DecidableEq K] (m : List (K × V)) (k : K) (v : V)
    (h : find m k = none) : emplace m k v = (k, v) :: m := by
  simp only [emplace, h]

theorem emplace_of_some {K V : Type} [DecidableEq K] (m : List (K × V)) (k : K) (v w : V)
    (h : find m k = some w) : emplace m k v = m := by
  simp only [emplace, h]

theorem find_emplace_ne {K V : Type} [DecidableEq K] (m : List (K × V)) {k k' : K} (v : V)
    (hne : k' ≠ k) : find (emplace m k v) k' = find m k' := by
  unfold emplace
  split
  · rfl
  · simp only [find, if_neg (Ne.symm hne)]

theorem find_emplace_default {K V : Type} [DecidableEq K] (m : List (K × V)) (k : K) (v : V) :
    (find (emplace m k v) k).getD v = (find m k).getD v := by
  unfold emplace
  cases h : find m k with
  | none => simp [find]
  | some w => simp [h]

theorem count_eq_zero_iff_find {K V : Type} [DecidableEq K] (m : List (K × V)) (k : K) :
    count m k = 0 ↔ find m k = none := by
  rw [count_eq_zero_iff, find_eq_none_iff]

end UMap

namespace CatalogMeta

theorem emplace_length_le (m : List (Nat × page_id_t)) (k : Nat) (v : page_id_t) :
    (emplace m k v).length ≤ m.length + 1 := by
  induction m with
  | nil => simp [emplace]
  | cons e rest ih =>
    obtain ⟨k', v'⟩ := e
    simp only [emplace]
    split
    · simp
    · split
      · simp
      · simp only [List.length_cons]; omega

end CatalogMeta

namespace CatalogManager

/-- `FlushCatalogMetaPage` returns whenever the serialised catalog metadata fit
into a page. -/
theorem FlushCatalogMetaPage_ne_none (cfg : Config) (x : Collab) (s : CatalogManager)
    (hfit : CatalogMeta.GetSerializedSize s.catalog_meta_ ≤ cfg.PAGE_SIZE) :
    FlushCatalogMetaPage cfg x s ≠ none := by
  unfold FlushCatalogMetaPage
  cases h : (BufferPoolManager.FetchPage cfg s.buffer_pool_manager_ x.CATALOG_META_PAGE_ID).1 with
  | none => simp only [h]; exact fun e => Option.noConfusion e
  | some frame =>
    simp only [h, CatalogMeta.SerializeTo, hfit, if_true]
    exact fun e => Option.noConfusion e

theorem GetSerializedSize_le (m : CatalogMeta) :
    CatalogMeta.GetSerializedSize m
      ≤ 12 + 8 * (m.table_meta_pages_.length + m.index_meta_pages_.length) := by
  unfold CatalogMeta.GetSerializedSize u32
  refine le_trans (Nat.mod_le _ _) ?_
  omega

/-- C19. `CreateTable` with a name that `table_names_` holds returns
`DB_TABLE_ALREADY_EXIST`, assigns nothing to the output parameter and leaves
the whole state, buffer pool and disk included, as it is.  With a name that
`table_names_` does not hold, when `NewPage` yields a page and the catalog
metadata with one more entry still fit into a page, it returns `DB_SUCCESS`
with a `TableInfo` carrying the name and the id `next_table_id_`, and the
counter advances; if moreover the ids in use are below `next_table_id_`, then
`GetTable` with the name returns this `TableInfo`, every other `TableInfo` of
`tables_` is stored under, and carries, another id, and the ids in use stay
below the counter unless it wraps. -/
theorem CreateTable_contract (cfg : Config) (x : Collab) (s : CatalogManager)
    (table_name : List Nat) (schema : Schema) :
    (UMap.count s.table_names_ table_name ≠ 0 →
      CreateTable cfg x s table_name schema = some (.DB_TABLE_ALREADY_EXIST, none, s)) ∧
    (UMap.count s.table_names_ table_name = 0 →
      (BufferPoolManager.NewPage cfg s.buffer_pool_manager_).2.1 ≠ none →
      12 + 8 * (s.catalog_meta_.table_meta_pages_.length + 1
          + s.catalog_meta_.index_meta_pages_.length) ≤ cfg.PAGE_SIZE →
      ∃ table_info s',
        CreateTable cfg x s table_name schema = some (.DB_SUCCESS, some table_info, s') ∧
        table_info.GetTableId = s.next_table_id_ ∧
        table_info.GetTableName = table_name ∧
        s'.next_table_id_ = u32 (s.next_table_id_ + 1) ∧
        (FreshIds s →
          GetTable s' table_name = (.DB_SUCCESS, some table_info) ∧
          (∀ e ∈ s'.tables_, e.2 ≠ table_info →
            e.1 ≠ table_info.GetTableId ∧ e.2.GetTableId ≠ table_info.GetTableId) ∧
          (s.next_table_id_ + 1 < 2 ^ 32 → FreshIds s'))) := by
  refine ⟨fun h => by unfold CreateTable; rw [if_pos h], ?_⟩
  intro hc hnew hfit
  have h0 : ¬ UMap.count s.table_names_ table_name ≠ 0 := by simp [hc]
  have hname : UMap.find s.table_names_ table_name = none :=
    (UMap.count_eq_zero_iff_find _ _).1 hc
  obtain ⟨frame, hframe⟩ := Option.ne_none_iff_exists'.1 hnew
  unfold CreateTable
  rw [if_neg h0]
  simp only [hframe]
  split
  · next heq =>
    refine absurd heq (FlushCatalogMetaPage_ne_none cfg x _ ?_)
    refine le_trans (GetSerializedSize_le _) ?_
    have := CatalogMeta.emplace_length_le s.catalog_meta_.table_meta_pages_ s.next_table_id_
      (BufferPoolManager.NewPage cfg s.buffer_pool_manager_).1
    simp only
    omega
  · next f heq =>
    refine ⟨_, _, rfl, rfl, rfl, rfl, ?_⟩
    intro hfresh
    have hid : UMap.find s.tables_ s.next_table_id_ = none := by
      rw [UMap.find_eq_none_iff]
      intro hmem
      obtain ⟨e, he, hk⟩ := List.mem_map.1 hmem
      have := (hfresh e he).1
      unfold table_id_t at *
      omega
    refine ⟨?_, ?_, ?_⟩
    · simp only [GetTable, UMap.emplace_of_none _ _ _ hname, UMap.emplace_of_none _ _ _ hid,
        UMap.find, if_true]
    · intro e he hne
      simp only [UMap.emplace_of_none _ _ _ hid, List.mem_cons] at he
      rcases he with rfl | he
      · exact absurd rfl hne
      · have := hfresh e he
        simp only [TableInfo.GetTableId, TableMetadata.Create] at this ⊢
        unfold table_id_t at *
        omega
    · intro hwrap e he
      simp only [UMap.emplace_of_none _ _ _ hid, List.mem_cons] at he
      have hu : u32 (s.next_table_id_ + 1) = s.next_table_id_ + 1 := by
        unfold u32; exact Nat.mod_eq_of_lt hwrap
      simp only [hu]
      rcases he with rfl | he
      · simp only [TableInfo.GetTableId, TableMetadata.Create]
        unfold table_id_t at *
        omega
      · have := hfresh e he
        unfold table_id_t at *
        omega

end CatalogManager

namespace CatalogManager

/-- Instance of `CreateTable_contract`: a pool of four frames over a database
file in which the two fixed pages 0 and 1 have been allocated, an empty
catalog, and the creation of a table named `t` with one `int` column `a`. -/
theorem CreateTable_contract_witness :
    ∃ table_info s',
      CreateTable Config.default Collab.simple
        ⟨BufferPoolManager.run Config.default
            (BufferPoolManager.new Config.default 4 (DiskManager.openEmpty Config.default))
            [.newPage, .unpin 0 true, .newPage, .unpin 1 true],
          ⟨[], []⟩, 0, 0, [], [], [], []⟩
        [116] ⟨[⟨[97], .kTypeInt, 4, 0, false, false⟩], true⟩
        = some (.DB_SUCCESS, some table_info, s') ∧
      table_info.GetTableId = 0 ∧
      GetTable s' [116] = (.DB_SUCCESS, some table_info) := by
  obtain ⟨table_info, s', h1, h2, _, _, h3⟩ := (CreateTable_contract Config.default Collab.simple
    ⟨BufferPoolManager.run Config.default
        (BufferPoolManager.new Config.default 4 (DiskManager.openEmpty Config.default))
        [.newPage, .unpin 0 true, .newPage, .unpin 1 true],
      ⟨[], []⟩, 0, 0, [], [], [], []⟩
    [116] ⟨[⟨[97], .kTypeInt, 4, 0, false, false⟩], true⟩).2 (by decide) (by decide!) (by decide)
  exact ⟨table_info, s', h1, h2, (h3 (fun e he => by cases he)).1⟩

end CatalogManager

namespace CatalogManager

theorem resolveKeys_spec (x : Collab) (table_schema : Schema) (keys : List (List Nat)) :
    ∀ (acc key_map : List Nat), resolveKeys x table_schema keys acc = some key_map →
      ∃ idxs, key_map = acc ++ idxs ∧
        List.Forall₂ (fun n c => x.GetColumnIndex table_schema n = some c) keys idxs := by
  induction keys with
  | nil =>
    intro acc key_map h
    simp only [resolveKeys, Option.some.injEq] at h
    exact ⟨[], by rw [← h, List.append_nil], List.Forall₂.nil⟩
  | cons n rest ih =>
    intro acc key_map h
    simp only [resolveKeys] at h
    cases hg : x.GetColumnIndex table_schema n with
    | none => simp [hg] at h
    | some c =>
      simp only [hg] at h
      obtain ⟨idxs, h1, h2⟩ := ih _ _ h
      exact ⟨c :: idxs, by rw [h1, List.append_assoc, List.singleton_append],
        List.Forall₂.cons hg h2⟩

theorem resolveKeys_none (x : Collab) (table_schema : Schema) (keys : List (List Nat)) :
    ∀ (acc : List Nat), resolveKeys x table_schema keys acc = none ↔
      ∃ n ∈ keys, x.GetColumnIndex table_schema n = none := by
  induction keys with
  | nil => intro acc; simp [resolveKeys]
  | cons n rest ih =>
    intro acc
    simp only [resolveKeys]
    cases hg : x.GetColumnIndex table_schema n with
    | none => simp [hg]
    | some c => simp [hg, ih]

theorem forall₂_getD {α β : Type} (R : α → β → Prop) (a : α) (b : β) (l1 : List α)
    (l2 : List β) (h : List.Forall₂ R l1 l2) :
    ∀ i, i < l1.length → R (l1.getD i a) (l2.getD i b) := by
  induction h with
  | nil => intro i hi; cases hi
  | cons hab _ ih =>
    intro i hi
    cases i with
    | zero => simpa using hab
    | succ j => simpa using ih j (by simpa using hi)

/-- What `CreateIndex` does once the table and its `TableInfo` are found and
the table has no index of that name. -/
theorem CreateIndex_found (cfg : Config) (x : Collab) (s : CatalogManager)
    (table_name index_name : List Nat) (index_keys : List (List Nat)) (table_id : Nat)
    (table_info : TableInfo) (ht : UMap.find s.table_names_ table_name = some table_id)
    (hi : UMap.find s.tables_ table_id = some table_info)
    (hidx : UMap.count ((UMap.find s.index_names_ table_name).getD []) index_name = 0) :
    CreateIndex cfg x s table_name index_name index_keys =
      match resolveKeys x table_info.GetSchema index_keys [] with
      | none =>
        some (.DB_COLUMN_NAME_NOT_EXIST, none,
          { s with index_names_ := UMap.emplace s.index_names_ table_name [] })
      | some key_map =>
        if key_map = [] then
          some (.DB_FAILED, none,
            { s with index_names_ := UMap.emplace s.index_names_ table_name [] })
        else
          match (BufferPoolManager.NewPage cfg s.buffer_pool_manager_).2.1 with
          | none =>
            some (.DB_FAILED, none,
              { s with
                index_names_ := UMap.emplace s.index_names_ table_name [],
                buffer_pool_manager_ := (BufferPoolManager.NewPage cfg s.buffer_pool_manager_).2.2 })
          | some frame =>
            let index_info : IndexInfo :=
              ⟨⟨s.next_index_id_, index_name, table_info.GetTableId, key_map⟩, table_info⟩
            let b1 := x.IndexInfo_Init (BufferPoolManager.NewPage cfg s.buffer_pool_manager_).2.2
              index_info.meta_data_ table_info
            let b2 := BufferPoolManager.writeData cfg b1 frame
              (x.IndexMetadata_SerializeTo index_info.meta_data_
                (BufferPoolManager.page cfg b1 frame).data_)
            let b3 := (BufferPoolManager.UnpinPage cfg b2
              (BufferPoolManager.NewPage cfg s.buffer_pool_manager_).1 true).2
            let s2 : CatalogManager :=
              { s with
                buffer_pool_manager_ := b3,
                next_index_id_ := u32 (s.next_index_id_ + 1),
                catalog_meta_ :=
                  { s.catalog_meta_ with
                    index_meta_pages_ :=
                      CatalogMeta.emplace s.catalog_meta_.index_meta_pages_ s.next_index_id_
                        (BufferPoolManager.NewPage cfg s.buffer_pool_manager_).1 },
                indexes_ := UMap.emplace s.indexes_ s.next_index_id_ index_info,
                index_names_ :=
                  UMap.insert (UMap.emplace s.index_names_ table_name []) table_name
                    (UMap.emplace
                      ((UMap.find (UMap.emplace s.index_names_ table_name []) table_name).getD [])
                      index_name s.next_index_id_) }
            match FlushCatalogMetaPage cfg x s2 with
            | none => none
            | some f => some (.DB_SUCCESS, some index_info, { s2 with buffer_pool_manager_ := f.2 }) := by
  have hc : ¬ UMap.count s.table_names_ table_name = 0 := by
    rw [UMap.count_eq_zero_iff_find, ht]; exact fun e => Option.noConfusion e
  have hidx' : ¬ UMap.count
      ((UMap.find (UMap.emplace s.index_names_ table_name []) table_name).getD []) index_name
        ≠ 0 := by
    rw [UMap.find_emplace_default]; simp [hidx]
  unfold CreateIndex
  rw [if_neg hc]
  simp only [hidx', if_false, ht, Option.some_bind, hi, IndexMetadata.Create]

end CatalogManager

namespace CatalogManager

/-- C20. `CreateIndex` returns `DB_TABLE_NOT_EXIST` when `table_names_` does not
hold the table name; else `DB_INDEX_ALREADY_EXIST` when the table's entry of
`index_names_` holds the index name; in both cases the state is unchanged.
Else, with the `TableInfo` of the table at hand, it returns
`DB_COLUMN_NAME_NOT_EXIST` exactly when `GetColumnIndex` fails for one of the
key column names, and then the buffer pool, the disk, `catalog_meta_`,
`indexes_`, the counters and the index names of every table are unchanged.
When all key columns are found, there is at least one, `NewPage` yields a page
and the catalog metadata with one more entry fit into a page, it returns
`DB_SUCCESS` with an `IndexInfo` carrying the id `next_index_id_`, which is the
one `index_names_` then holds for the table and the index name.  Whenever it
returns `DB_SUCCESS`, the `key_map` of the `IndexInfo` has the length of the
list of key columns and its `i`-th member is what `GetColumnIndex` gives for
the `i`-th key column in the schema of the table. -/
theorem CreateIndex_contract (cfg : Config) (x : Collab) (s : CatalogManager)
    (table_name index_name : List Nat) (index_keys : List (List Nat)) :
    (UMap.count s.table_names_ table_name = 0 →
      CreateIndex cfg x s table_name index_name index_keys = some (.DB_TABLE_NOT_EXIST, none, s)) ∧
    (UMap.count s.table_names_ table_name ≠ 0 →
      UMap.count ((UMap.find s.index_names_ table_name).getD []) index_name ≠ 0 →
      CreateIndex cfg x s table_name index_name index_keys
        = some (.DB_INDEX_ALREADY_EXIST, none, s)) ∧
    (∀ (table_id : Nat) (table_info : TableInfo),
      UMap.find s.table_names_ table_name = some table_id →
      UMap.find s.tables_ table_id = some table_info →
      UMap.count ((UMap.find s.index_names_ table_name).getD []) index_name = 0 →
      ((∃ r, CreateIndex cfg x s table_name index_name index_keys = some r ∧
            r.1 = .DB_COLUMN_NAME_NOT_EXIST) ↔
        ∃ n ∈ index_keys, x.GetColumnIndex table_info.GetSchema n = none) ∧
      (∀ r, CreateIndex cfg x s table_name index_name index_keys = some r →
        r.1 = .DB_COLUMN_NAME_NOT_EXIST →
        r.2.1 = none ∧
        r.2.2.buffer_pool_manager_ = s.buffer_pool_manager_ ∧
        r.2.2.catalog_meta_ = s.catalog_meta_ ∧
        r.2.2.indexes_ = s.indexes_ ∧
        r.2.2.next_index_id_ = s.next_index_id_ ∧
        r.2.2.next_table_id_ = s.next_table_id_ ∧
        r.2.2.tables_ = s.tables_ ∧
        r.2.2.table_names_ = s.table_names_ ∧
        ∀ t, (UMap.find r.2.2.index_names_ t).getD [] = (UMap.find s.index_names_ t).getD []) ∧
      ((∀ n ∈ index_keys, x.GetColumnIndex table_info.GetSchema n ≠ none) →
        index_keys ≠ [] →
        (BufferPoolManager.NewPage cfg s.buffer_pool_manager_).2.1 ≠ none →
        12 + 8 * (s.catalog_meta_.table_meta_pages_.length
            + (s.catalog_meta_.index_meta_pages_.length + 1)) ≤ cfg.PAGE_SIZE →
        ∃ index_info s',
          CreateIndex cfg x s table_name index_name index_keys
            = some (.DB_SUCCESS, some index_info, s') ∧
          index_info.meta_data_.index_id_ = s.next_index_id_ ∧
          index_info.meta_data_.table_id_ = table_info.GetTableId ∧
          index_info.meta_data_.index_name_ = index_name ∧
          s'.next_index_id_ = u32 (s.next_index_id_ + 1) ∧
          UMap.find ((UMap.find s'.index_names_ table_name).getD []) index_name
            = some s.next_index_id_ ∧
          (UMap.find s.indexes_ s.next_index_id_ = none →
            UMap.find s'.indexes_ s.next_index_id_ = some index_info)) ∧
      (∀ r, CreateIndex cfg x s table_name index_name index_keys = some r →
        r.1 = .DB_SUCCESS →
        ∃ index_info, r.2.1 = some index_info ∧
          index_info.table_info_ = table_info ∧
          index_info.meta_data_.key_map_.length = index_keys.length ∧
          ∀ i, i < index_keys.length →
            x.GetColumnIndex table_info.GetSchema (index_keys.getD i [])
              = some (index_info.meta_data_.key_map_.getD i 0))) := by
  refine ⟨fun h => by unfold CreateIndex; rw [if_pos h], ?_, ?_⟩
  · intro hc hidx
    have hsome : ∃ m, UMap.find s.index_names_ table_name = some m := by
      cases hf : UMap.find s.index_names_ table_name with
      | none => rw [hf] at hidx; exact absurd rfl hidx
      | some m => exact ⟨m, rfl⟩
    obtain ⟨m, hm⟩ := hsome
    have he : UMap.emplace s.index_names_ table_name [] = s.index_names_ :=
      UMap.emplace_of_some _ _ _ m hm
    unfold CreateIndex
    rw [if_neg (fun h => hc h)]
    simp only [he]
    rw [if_pos hidx]
  · intro table_id table_info ht hi hidx
    have heq := CreateIndex_found cfg x s table_name index_name index_keys table_id table_info
      ht hi hidx
    refine ⟨?_, ?_, ?_, ?_⟩
    · rw [← resolveKeys_none x table_info.GetSchema index_keys []]
      constructor
      · rintro ⟨r, hr, hr1⟩
        rw [heq] at hr
        cases hk : resolveKeys x table_info.GetSchema index_keys [] with
        | none => rfl
        | some key_map =>
          exfalso
          simp only [hk] at hr
          split at hr
          · simp only [Option.some.injEq] at hr; rw [← hr] at hr1; cases hr1
          · split at hr
            · simp only [Option.some.injEq] at hr; rw [← hr] at hr1; cases hr1
            · split at hr
              · cases hr
              · simp only [Option.some.injEq] at hr; rw [← hr] at hr1; cases hr1
      · intro hk
        rw [heq]
        simp only [hk]
        exact ⟨_, rfl, rfl⟩
    · intro r hr hr1
      rw [heq] at hr
      cases hk : resolveKeys x table_info.GetSchema index_keys [] with
      | none =>
        simp only [hk, Option.some.injEq] at hr
        subst hr
        refine ⟨rfl, rfl, rfl, rfl, rfl, rfl, rfl, rfl, ?_⟩
        intro t
        by_cases htn : t = table_name
        · rw [htn]; exact UMap.find_emplace_default _ _ _
        · show (UMap.find (UMap.emplace s.index_names_ table_name []) t).getD [] = _
          rw [UMap.find_emplace_ne _ _ htn]
      | some key_map =>
        exfalso
        simp only [hk] at hr
        split at hr
        · simp only [Option.some.injEq] at hr; rw [← hr] at hr1; cases hr1
        · split at hr
          · simp only [Option.some.injEq] at hr; rw [← hr] at hr1; cases hr1
          · split at hr
            · cases hr
            · simp only [Option.some.injEq] at hr; rw [← hr] at hr1; cases hr1
    · intro hall hne hnew hfit
      cases hk : resolveKeys x table_info.GetSchema index_keys [] with
      | none =>
        obtain ⟨n, hn, hnone⟩ := (resolveKeys_none x table_info.GetSchema index_keys []).1 hk
        exact absurd hnone (hall n hn)
      | some key_map =>
        obtain ⟨idxs, hkm, hf2⟩ := resolveKeys_spec x table_info.GetSchema index_keys [] key_map hk
        have hlen : key_map.length = index_keys.length := by
          rw [hkm, List.nil_append]; exact hf2.length_eq.symm
        have hkne : ¬ key_map = [] := by
          intro h0
          rw [h0] at hlen
          exact hne (List.length_eq_zero.1 hlen.symm)
        obtain ⟨frame, hframe⟩ := Option.ne_none_iff_exists'.1 hnew
        rw [heq]
        simp only [hk, if_neg hkne, hframe]
        split
        · next hfl =>
          refine absurd hfl (FlushCatalogMetaPage_ne_none cfg x _ ?_)
          refine le_trans (GetSerializedSize_le _) ?_
          have := CatalogMeta.emplace_length_le s.catalog_meta_.index_meta_pages_
            s.next_index_id_ (BufferPoolManager.NewPage cfg s.buffer_pool_manager_).1
          simp only
          omega
        · next f hfl =>
          refine ⟨_, _, rfl, rfl, rfl, rfl, rfl, ?_, ?_⟩
          · simp only [UMap.find_insert_self, Option.getD_some]
            have hnone : UMap.find
                ((UMap.find (UMap.emplace s.index_names_ table_name []) table_name).getD [])
                index_name = none := by
              rw [UMap.find_emplace_default]
              exact (UMap.count_eq_zero_iff_find _ _).1 hidx
            rw [UMap.emplace_of_none _ _ _ hnone]
            simp only [UMap.find, if_true]
          · intro hfree
            simp only [UMap.emplace_of_none _ _ _ hfree, UMap.find, if_true]
    · intro r hr hr1
      rw [heq] at hr
      cases hk : resolveKeys x table_info.GetSchema index_keys [] with
      | none =>
        simp only [hk, Option.some.injEq] at hr
        rw [← hr] at hr1; cases hr1
      | some key_map =>
        obtain ⟨idxs, hkm, hf2⟩ := resolveKeys_spec x table_info.GetSchema index_keys [] key_map hk
        rw [List.nil_append] at hkm
        subst hkm
        simp only [hk] at hr
        split at hr
        · simp only [Option.some.injEq] at hr; rw [← hr] at hr1; cases hr1
        · split at hr
          · simp only [Option.some.injEq] at hr; rw [← hr] at hr1; cases hr1
          · split at hr
            · cases hr
            · simp only [Option.some.injEq] at hr
              subst hr
              exact ⟨_, rfl, rfl, hf2.length_eq.symm,
                forall₂_getD _ [] 0 index_keys key_map hf2⟩

end CatalogManager

namespace CatalogManager

/-- Instance of `CreateIndex_contract`: a catalog holding the table `t` with the
`int` columns `a` and `b`, over a pool of four frames in which pages 0, 1 and 2
have been allocated; the creation of the index `i` on the key columns `b`, `a`
succeeds with the key map `[1, 0]`. -/
theorem CreateIndex_contract_witness :
    ∃ index_info s',
      CreateIndex Config.default Collab.simple
        ⟨BufferPoolManager.run Config.default
            (BufferPoolManager.new Config.default 4 (DiskManager.openEmpty Config.default))
            [.newPage, .unpin 0 true, .newPage, .unpin 1 true, .newPage, .unpin 2 true],
          ⟨[(0, 2)], []⟩, 1, 0, [([116], 0)],
          [(0, ⟨⟨0, [116], 2, ⟨[⟨[97], .kTypeInt, 4, 0, false, false⟩,
            ⟨[98], .kTypeInt, 4, 1, false, false⟩], true⟩⟩, ⟨INVALID_PAGE_ID⟩⟩)], [], []⟩
        [116] [105] [[98], [97]]
        = some (.DB_SUCCESS, some index_info, s') ∧
      index_info.meta_data_.key_map_.length = 2 ∧
      some 1 = some (index_info.meta_data_.key_map_.getD 0 0) ∧
      some 0 = some (index_info.meta_data_.key_map_.getD 1 0) := by
  have h := (CreateIndex_contract Config.default Collab.simple
    ⟨BufferPoolManager.run Config.default
        (BufferPoolManager.new Config.default 4 (DiskManager.openEmpty Config.default))
        [.newPage, .unpin 0 true, .newPage, .unpin 1 true, .newPage, .unpin 2 true],
      ⟨[(0, 2)], []⟩, 1, 0, [([116], 0)],
      [(0, ⟨⟨0, [116], 2, ⟨[⟨[97], .kTypeInt, 4, 0, false, false⟩,
        ⟨[98], .kTypeInt, 4, 1, false, false⟩], true⟩⟩, ⟨INVALID_PAGE_ID⟩⟩)], [], []⟩
    [116] [105] [[98], [97]]).2.2 0
    ⟨⟨0, [116], 2, ⟨[⟨[97], .kTypeInt, 4, 0, false, false⟩,
        ⟨[98], .kTypeInt, 4, 1, false, false⟩], true⟩⟩, ⟨INVALID_PAGE_ID⟩⟩
    (by decide) (by decide) (by decide)
  obtain ⟨index_info, s', h1, _⟩ := h.2.2.1 (by decide) (by decide) (by decide!) (by decide)
  obtain ⟨info, h2, _, h3, h4⟩ := h.2.2.2 _ h1 rfl
  cases h2
  exact ⟨index_info, s', h1, h3, h4 0 (by decide), h4 1 (by decide)⟩

end CatalogManager

namespace BitmapPage

theorem reachable_inv {PageSize : Nat} (hsize : GetMaxSupportedSize PageSize < 2 ^ 32)
    {b : BitmapPage PageSize} (hb : Reachable b) :
    b.bytes.length = MAX_CHARS PageSize ∧ b.page_allocated_ = popcount b := by
  obtain ⟨ops, rfl⟩ := hb
  exact run_inv hsize ops _ (zero_inv PageSize).1 (zero_inv PageSize).2

theorem bit_clearBit {PageSize : Nat} (b b' : BitmapPage PageSize) (p q : Nat)
    (hlen : b.bytes.length = MAX_CHARS PageSize) (hp : p < GetMaxSupportedSize PageSize)
    (hb' : b'.bytes = clearBit b.bytes p) :
    bit b' q = if q = p then false else bit b q := by
  have hp8 : p / 8 < b.bytes.length := by
    rw [hlen]; unfold GetMaxSupportedSize at hp; omega
  simp only [bit, hb', testBit_clearBit _ _ _ hp8]

theorem bit_setBit {PageSize : Nat} (b b' : BitmapPage PageSize) (p q : Nat)
    (hlen : b.bytes.length = MAX_CHARS PageSize) (hp : p < GetMaxSupportedSize PageSize)
    (hb' : b'.bytes = setBit b.bytes p) :
    bit b' q = if q = p then true else bit b q := by
  have hp8 : p / 8 < b.bytes.length := by
    rw [hlen]; unfold GetMaxSupportedSize at hp; omega
  simp only [bit, hb', testBit_setBit _ _ _ hp8]

theorem popcount_pos_of_bit {PageSize : Nat} (b : BitmapPage PageSize) (p : Nat)
    (hp : p < GetMaxSupportedSize PageSize) (h : bit b p = true) : 0 < popcount b :=
  List.countP_pos_iff.2 ⟨p, List.mem_range.2 hp, h⟩

theorem exists_free_of_popcount_lt {PageSize : Nat} (b : BitmapPage PageSize)
    (h : popcount b < GetMaxSupportedSize PageSize) :
    ∃ q, q < GetMaxSupportedSize PageSize ∧ bit b q = false := by
  by_contra hne
  have hall : ∀ q ∈ List.range (GetMaxSupportedSize PageSize), bit b q = true := by
    intro q hq
    cases hb : bit b q with
    | true => rfl
    | false => exact absurd ⟨q, List.mem_range.1 hq, hb⟩ hne
  have := List.countP_eq_length.2 hall
  unfold popcount at h
  rw [this, List.length_range] at h
  omega

theorem find_range_first (f : Nat → Bool) (n : Nat) : ∀ (lo p : Nat),
    (List.range' lo n).find? f = some p →
      f p = true ∧ lo ≤ p ∧ p < lo + n ∧ ∀ q, lo ≤ q → q < p → f q = false := by
  induction n with
  | zero => intro lo p h; simp at h
  | succ m ih =>
    intro lo p h
    rw [List.range'_succ] at h
    cases hf : f lo with
    | true =>
      rw [List.find?_cons_of_pos _ hf, Option.some.injEq] at h
      subst h
      exact ⟨hf, le_refl _, by omega, fun q h1 h2 => by omega⟩
    | false =>
      rw [List.find?_cons_of_neg _ (by rw [hf]; exact Bool.false_ne_true)] at h
      obtain ⟨h1, h2, h3, h4⟩ := ih (lo + 1) p h
      refine ⟨h1, by omega, by omega, ?_⟩
      intro q hq1 hq2
      by_cases hq : q = lo
      · rw [hq]; exact hf
      · exact h4 q (by omega) hq2

/-- C26. On every `BitmapPage` reachable from the all-zero page (with
`GetMaxSupportedSize()` fitting the `uint32_t` counters): `DeAllocatePage(p)`
returns `false` exactly when `p >= GetMaxSupportedSize()` or bit `p` is 0, and
then the page (bits, `page_allocated_`, `next_free_page_`) is unchanged;
otherwise it returns `true`, bit `p` is cleared and every other bit is as
before, `page_allocated_` has dropped by exactly 1, and `next_free_page_` is
the minimum of its old value and `p`. -/
theorem DeAllocatePage_contract {PageSize : Nat} (hsize : GetMaxSupportedSize PageSize < 2 ^ 32)
    (b : BitmapPage PageSize) (hb : Reachable b) (p : Nat) :
    ((DeAllocatePage b p).1 = false ↔
      (p ≥ GetMaxSupportedSize PageSize ∨ bit b p = false)) ∧
    ((DeAllocatePage b p).1 = false → (DeAllocatePage b p).2 = b) ∧
    ((DeAllocatePage b p).1 = true →
      bit (DeAllocatePage b p).2 p = false ∧
      (∀ q, q ≠ p → bit (DeAllocatePage b p).2 q = bit b q) ∧
      (DeAllocatePage b p).2.bytes = clearBit b.bytes p ∧
      (DeAllocatePage b p).2.page_allocated_ + 1 = b.page_allocated_ ∧
      (DeAllocatePage b p).2.next_free_page_ = min b.next_free_page_ p) := by
  obtain ⟨hlen, hcount⟩ := reachable_inv hsize hb
  by_cases hp : p ≥ GetMaxSupportedSize PageSize
  · have e : DeAllocatePage b p = (false, b) := by simp only [DeAllocatePage, hp, if_true]
    rw [e]
    exact ⟨⟨fun _ => Or.inl hp, fun _ => rfl⟩, fun _ => rfl, fun h => (by cases h)⟩
  · have hp' : p < GetMaxSupportedSize PageSize := by omega
    by_cases hfree : IsPageFree b p = true
    · have e : DeAllocatePage b p = (false, b) := by
        simp only [DeAllocatePage, hp, hfree, if_true, if_false]
      rw [e]
      exact ⟨⟨fun _ => Or.inr ((IsPageFree_iff b p hp').1 hfree), fun _ => rfl⟩, fun _ => rfl,
        fun h => (by cases h)⟩
    · have hbit : bit b p = true := by
        cases hb' : bit b p with
        | true => rfl
        | false => exact absurd ((IsPageFree_iff b p hp').2 hb') hfree
      have hpos := popcount_pos_of_bit b p hp' hbit
      have hle := popcount_le b
      have hu : u32 (b.page_allocated_ + (2 ^ 32 - 1)) + 1 = b.page_allocated_ := by
        rw [hcount]; unfold u32; omega
      have hfree' : IsPageFree b p = false := by
        cases hf : IsPageFree b p with
        | true => exact absurd hf hfree
        | false => rfl
      have e : DeAllocatePage b p
          = (true, if p < b.next_free_page_ then
              { b with bytes := clearBit b.bytes p,
                       page_allocated_ := u32 (b.page_allocated_ + (2 ^ 32 - 1)),
                       next_free_page_ := p }
            else
              { b with bytes := clearBit b.bytes p,
                       page_allocated_ := u32 (b.page_allocated_ + (2 ^ 32 - 1)) }) := by
        unfold DeAllocatePage
        rw [if_neg hp, hfree']
        rfl
      have e1 : (DeAllocatePage b p).1 = true := by rw [e]
      have e2 : (DeAllocatePage b p).2.bytes = clearBit b.bytes p := by
        rw [e]; simp only; split <;> rfl
      have e3 : (DeAllocatePage b p).2.page_allocated_ = u32 (b.page_allocated_ + (2 ^ 32 - 1)) := by
        rw [e]; simp only; split <;> rfl
      have e4 : (DeAllocatePage b p).2.next_free_page_ = min b.next_free_page_ p := by
        rw [e]; simp only
        split
        · next h => simp only; omega
        · next h => simp only; omega
      refine ⟨⟨fun h => ?_, fun h => ?_⟩, fun h => ?_, fun _ => ⟨?_, ?_, e2, ?_, e4⟩⟩
      · rw [e1] at h; cases h
      · rcases h with h | h
        · exact absurd h hp
        · rw [hbit] at h; cases h
      · rw [e1] at h; cases h
      · rw [bit_clearBit b _ p p hlen hp' e2, if_pos rfl]
      · intro q hq
        rw [bit_clearBit b _ p q hlen hp' e2, if_neg hq]
      · rw [e3]; exact hu

/-- Instance of `DeAllocatePage_contract` on a 64-byte page after three
allocations: `DeAllocatePage(1)` returns `true` and moves the hint from 3 to
1. -/
theorem DeAllocatePage_contract_witness :
    (DeAllocatePage (run (zero 64) [.allocate, .allocate, .allocate]) 1).1 = true ∧
    (DeAllocatePage (run (zero 64) [.allocate, .allocate, .allocate]) 1).2.next_free_page_
      = min (run (zero 64) [.allocate, .allocate, .allocate]).next_free_page_ 1 :=
  have h := @DeAllocatePage_contract 64 (by decide)
    (run (zero 64) [.allocate, .allocate, .allocate]) ⟨_, rfl⟩ 1
  ⟨by decide, (h.2.2 (by decide)).2.2.2.2⟩

/-- C30. On every `BitmapPage` reachable from the all-zero page (with
`GetMaxSupportedSize()` fitting the `uint32_t` counters): `AllocatePage`
succeeds exactly when `page_allocated_ < GetMaxSupportedSize()`; on success the
offset it returns is the first free one in the order `next_free_page_, ...,
max - 1, 0, ..., next_free_page_ - 1`, that bit was 0 and is 1 afterwards,
every other bit is as before, and `page_allocated_` has grown by exactly 1; on
failure the page is unchanged. -/
theorem AllocatePage_contract {PageSize : Nat} (hsize : GetMaxSupportedSize PageSize < 2 ^ 32)
    (b : BitmapPage PageSize) (hb : Reachable b) :
    ((AllocatePage b).1 ≠ none ↔ b.page_allocated_ < GetMaxSupportedSize PageSize) ∧
    (∀ p, (AllocatePage b).1 = some p →
      (List.range' b.next_free_page_ (GetMaxSupportedSize PageSize - b.next_free_page_)
          ++ List.range' 0 b.next_free_page_).find? (fun i => IsPageFree b i) = some p ∧
      p < GetMaxSupportedSize PageSize ∧ bit b p = false ∧
      (b.next_free_page_ ≤ p → ∀ q, b.next_free_page_ ≤ q → q < p → bit b q = true) ∧
      (p < b.next_free_page_ →
        (∀ q, b.next_free_page_ ≤ q → q < GetMaxSupportedSize PageSize → bit b q = true) ∧
        ∀ q, q < p → bit b q = true) ∧
      bit (AllocatePage b).2 p = true ∧
      (∀ q, q ≠ p → bit (AllocatePage b).2 q = bit b q) ∧
      (AllocatePage b).2.bytes = setBit b.bytes p ∧
      (AllocatePage b).2.page_allocated_ = b.page_allocated_ + 1) ∧
    ((AllocatePage b).1 = none → (AllocatePage b).2 = b) := by
  obtain ⟨hlen, hcount⟩ := reachable_inv hsize hb
  have hfa : ∀ (lo n q : Nat), (List.range' lo n).find? (fun i => IsPageFree b i) = none →
      lo ≤ q → q < lo + n → q < GetMaxSupportedSize PageSize → bit b q = true := by
    intro lo n q hnone h1 h2 h3
    have := List.find?_eq_none.1 hnone q (List.mem_range'_1.2 ⟨h1, h2⟩)
    cases hbq : bit b q with
    | true => rfl
    | false => exact absurd ((IsPageFree_iff b q h3).2 hbq) this
  have hfs : ∀ (lo n p : Nat), (List.range' lo n).find? (fun i => IsPageFree b i) = some p →
      IsPageFree b p = true ∧ lo ≤ p ∧ p < lo + n ∧
      ∀ q, lo ≤ q → q < p → q < GetMaxSupportedSize PageSize → bit b q = true := by
    intro lo n p hsome
    have hfree := List.find?_some hsome
    have hmem := List.mem_range'_1.1 (List.mem_of_find?_eq_some hsome)
    refine ⟨hfree, hmem.1, hmem.2, ?_⟩
    intro q h1 h2 h3
    have := (find_range_first _ n lo p hsome).2.2.2 q h1 h2
    cases hbq : bit b q with
    | true => rfl
    | false =>
      rw [(IsPageFree_iff b q h3).2 hbq] at this
      cases this
  have hresult : ∀ p, IsPageFree b p = true →
      bit (allocateAt b p) p = true ∧ (∀ q, q ≠ p → bit (allocateAt b p) q = bit b q) ∧
      (allocateAt b p).bytes = setBit b.bytes p ∧
      (allocateAt b p).page_allocated_ = b.page_allocated_ + 1 := by
    intro p hfree
    have hp := IsPageFree_lt b p hfree
    have hbit := (IsPageFree_iff b p hp).1 hfree
    have hf := allocateAt_fields b p
    have hpc := popcount_setBit b (allocateAt b p) p hlen hp hbit hf.1
    have hle := popcount_le (allocateAt b p)
    refine ⟨?_, ?_, hf.1, ?_⟩
    · rw [bit_setBit b _ p p hlen hp hf.1, if_pos rfl]
    · intro q hq
      rw [bit_setBit b _ p q hlen hp hf.1, if_neg hq]
    · rw [hf.2, hcount]; unfold u32
      apply Nat.mod_eq_of_lt
      omega
  by_cases hfull : b.page_allocated_ ≥ GetMaxSupportedSize PageSize
  · have e : AllocatePage b = (none, b) := by simp only [AllocatePage, hfull, if_true]
    rw [e]
    refine ⟨⟨fun h => absurd rfl h, fun h => (by omega)⟩, fun p h => (by cases h), fun _ => rfl⟩
  · have hlt : b.page_allocated_ < GetMaxSupportedSize PageSize := by omega
    obtain ⟨q0, hq0, hq0b⟩ := exists_free_of_popcount_lt b (by rw [← hcount]; exact hlt)
    cases h1 : findFree b b.next_free_page_ (GetMaxSupportedSize PageSize) with
    | some p =>
      have e : AllocatePage b = (some p, allocateAt b p) := by
        simp only [AllocatePage, hfull, if_false, h1]
      rw [e]
      obtain ⟨hfree, hlo, hhi, hfirst⟩ := hfs _ _ p h1
      have hp := IsPageFree_lt b p hfree
      refine ⟨⟨fun _ => hlt, fun _ h => (by cases h)⟩, ?_, fun h => (by cases h)⟩
      intro p' hp'
      simp only [Option.some.injEq] at hp'
      subst hp'
      obtain ⟨r1, r2, r3, r4⟩ := hresult p hfree
      refine ⟨?_, hp, (IsPageFree_iff b p hp).1 hfree, ?_, ?_, r1, r2, r3, r4⟩
      · rw [List.find?_append]
        unfold findFree at h1
        rw [h1]; rfl
      · intro _ q hq1 hq2
        exact hfirst q hq1 hq2 (by omega)
      · intro hcontra
        omega
    | none =>
      have h1' : (List.range' b.next_free_page_
          (GetMaxSupportedSize PageSize - b.next_free_page_)).find? (fun i => IsPageFree b i)
            = none := h1
      cases h2 : findFree b 0 b.next_free_page_ with
      | some p =>
        have e : AllocatePage b = (some p, allocateAt b p) := by
          simp only [AllocatePage, hfull, if_false, h1, h2]
        rw [e]
        have h2' : (List.range' 0 b.next_free_page_).find? (fun i => IsPageFree b i)
            = some p := by
          unfold findFree at h2
          simpa using h2
        obtain ⟨hfree, hlo, hhi, hfirst⟩ := hfs _ _ p h2'
        have hp := IsPageFree_lt b p hfree
        refine ⟨⟨fun _ => hlt, fun _ h => (by cases h)⟩, ?_, fun h => (by cases h)⟩
        intro p' hp'
        simp only [Option.some.injEq] at hp'
        subst hp'
        obtain ⟨r1, r2, r3, r4⟩ := hresult p hfree
        refine ⟨?_, hp, (IsPageFree_iff b p hp).1 hfree, ?_, ?_, r1, r2, r3, r4⟩
        · rw [List.find?_append, h1', h2']; rfl
        · intro hcontra
          omega
        · intro _
          refine ⟨fun q hq1 hq2 => hfa _ _ q h1' hq1 (by omega) hq2, ?_⟩
          intro q hq
          exact hfirst q (Nat.zero_le _) hq (by omega)
      | none =>
        exfalso
        have h2' : (List.range' 0 b.next_free_page_).find? (fun i => IsPageFree b i)
            = none := by
          unfold findFree at h2
          simpa using h2
        by_cases hq : b.next_free_page_ ≤ q0
        · have := hfa _ _ q0 h1' hq (by omega) hq0
          rw [hq0b] at this; cases this
        · have := hfa _ _ q0 h2' (Nat.zero_le _) (by omega) hq0
          rw [hq0b] at this; cases this

/-- Instance of `AllocatePage_contract` on a 64-byte page after three
allocations and the release of offset 1: the next allocation returns offset
1. -/
theorem AllocatePage_contract_witness :
    (AllocatePage (run (zero 64) [.allocate, .allocate, .allocate, .deallocate 1])).1 = some 1 ∧
    bit (AllocatePage (run (zero 64) [.allocate, .allocate, .allocate, .deallocate 1])).2 1
      = true :=
  have h := @AllocatePage_contract 64 (by decide)
    (run (zero 64) [.allocate, .allocate, .allocate, .deallocate 1]) ⟨_, rfl⟩
  ⟨by decide, (h.2.1 1 (by decide)).2.2.2.2.2.1⟩

end BitmapPage

namespace BufferPoolManager

theorem getD_set_data (l : List Page) (i j : Nat) (p d : Page)
    (h : p.data_ = (l.getD i d).data_) :
    ((l.set i p).getD j d).data_ = (l.getD j d).data_ := by
  rw [List.getD_eq_getElem?_getD, List.getD_eq_getElem?_getD, List.getElem?_set]
  by_cases hij : i = j
  · subst hij
    rw [if_pos rfl]
    by_cases hlt : i < l.length
    · rw [if_pos hlt, Option.getD_some, h, List.getD_eq_getElem?_getD]
    · rw [if_neg hlt, List.getElem?_eq_none (by omega)]
  · rw [if_neg hij]

theorem page_UnpinPage_data (cfg : Config) (s : BufferPoolManager) (page_id : Int)
    (is_dirty : Bool) (f : Int) :
    (page cfg (UnpinPage cfg s page_id is_dirty).2 f).data_ = (page cfg s f).data_ := by
  by_cases h1 : page_id = INVALID_PAGE_ID
  · simp only [UnpinPage, h1, if_true]
  · cases h2 : UMap.find s.page_table_ page_id with
    | none => simp only [UnpinPage, h1, if_false, h2]
    | some frame_id =>
      by_cases h3 : (page cfg s frame_id).pin_count_ ≤ 0
      · simp only [UnpinPage, h1, if_false, h2, h3, if_true]
      · simp only [UnpinPage, h1, if_false, h2, h3]
        exact getD_set_data _ _ _ _ _ rfl

end BufferPoolManager

namespace CatalogManager

/-- What `CreateTable` does with a name that `table_names_` does not hold, once
`NewPage` has returned the frame `frame`. -/
theorem CreateTable_found (cfg : Config) (x : Collab) (s : CatalogManager)
    (table_name : List Nat) (schema : Schema) (frame : Int)
    (hc : UMap.count s.table_names_ table_name = 0)
    (hframe : (BufferPoolManager.NewPage cfg s.buffer_pool_manager_).2.1 = some frame) :
    CreateTable cfg x s table_name schema =
      let page_id := (BufferPoolManager.NewPage cfg s.buffer_pool_manager_).1
      let h := x.TableHeap_Create (BufferPoolManager.NewPage cfg s.buffer_pool_manager_).2.2
        (x.DeepCopySchema schema)
      let table_info : TableInfo :=
        ⟨⟨s.next_table_id_, table_name, page_id, x.DeepCopySchema schema⟩, h.1⟩
      let b1 := BufferPoolManager.writeData cfg h.2 frame
        (x.TableMetadata_SerializeTo table_info.table_meta_
          (BufferPoolManager.page cfg h.2 frame).data_)
      let s1 : CatalogManager :=
        { s with
          buffer_pool_manager_ := (BufferPoolManager.UnpinPage cfg b1 page_id true).2,
          next_table_id_ := u32 (s.next_table_id_ + 1),
          tables_ := UMap.emplace s.tables_ s.next_table_id_ table_info,
          table_names_ := UMap.emplace s.table_names_ table_name s.next_table_id_,
          catalog_meta_ :=
            { s.catalog_meta_ with
              table_meta_pages_ :=
                CatalogMeta.emplace s.catalog_meta_.table_meta_pages_ s.next_table_id_ page_id } }
      match FlushCatalogMetaPage cfg x s1 with
      | none => none
      | some f => some (.DB_SUCCESS, some table_info, { s1 with buffer_pool_manager_ := f.2 }) := by
  have h0 : ¬ UMap.count s.table_names_ table_name ≠ 0 := by simp [hc]
  unfold CreateTable
  rw [if_neg h0]
  simp only [hframe, TableMetadata.Create]

theorem GetTableIndexes_not_exist_iff (s : CatalogManager) (table_name : List Nat) :
    (∃ r, GetTableIndexes s table_name = some r ∧ r.1 = .DB_TABLE_NOT_EXIST) ↔
      UMap.find s.index_names_ table_name = none := by
  unfold GetTableIndexes
  cases h : UMap.find s.index_names_ table_name with
  | none => simp
  | some names =>
    simp only [Option.map_eq_some']
    constructor
    · rintro ⟨r, ⟨out, _, rfl⟩, h2⟩
      cases h2
    · intro e
      cases e

/-- C21 (failing input).  `GetTableIndexes` returns `DB_TABLE_NOT_EXIST` exactly
when `index_names_` has no entry for the name, whether or not the table
exists, and `GetIndex` on an existing table without such an entry does not
return (`index_names_.at` throws).  `CreateTable` makes no entry in
`index_names_`: after a successful `CreateTable` of a name unknown to
`table_names_` and `index_names_`, `GetTable` finds the table, but
`GetTableIndexes` returns `DB_TABLE_NOT_EXIST` with nothing appended and
`GetIndex` does not return, for every index name. -/
theorem index_lookup_on_new_table (cfg : Config) (x : Collab) (s : CatalogManager)
    (table_name : List Nat) (schema : Schema)
    (hc : UMap.count s.table_names_ table_name = 0)
    (hn : UMap.find s.index_names_ table_name = none)
    (hid : UMap.find s.tables_ s.next_table_id_ = none)
    (hnew : (BufferPoolManager.NewPage cfg s.buffer_pool_manager_).2.1 ≠ none)
    (hfit : 12 + 8 * (s.catalog_meta_.table_meta_pages_.length + 1
          + s.catalog_meta_.index_meta_pages_.length) ≤ cfg.PAGE_SIZE) :
    (∀ (s0 : CatalogManager) (t : List Nat),
      (∃ r, GetTableIndexes s0 t = some r ∧ r.1 = .DB_TABLE_NOT_EXIST) ↔
        UMap.find s0.index_names_ t = none) ∧
    (∀ (s0 : CatalogManager) (t i : List Nat), UMap.find s0.table_names_ t ≠ none →
      UMap.find s0.index_names_ t = none → GetIndex s0 t i = none) ∧
    ∃ table_info s',
      CreateTable cfg x s table_name schema = some (.DB_SUCCESS, some table_info, s') ∧
      GetTable s' table_name = (.DB_SUCCESS, some table_info) ∧
      GetTableIndexes s' table_name = some (.DB_TABLE_NOT_EXIST, []) ∧
      ∀ index_name, GetIndex s' table_name index_name = none := by
  have hgi : ∀ (s0 : CatalogManager) (t i : List Nat), UMap.find s0.table_names_ t ≠ none →
      UMap.find s0.index_names_ t = none → GetIndex s0 t i = none := by
    intro s0 t i h1 h2
    unfold GetIndex
    cases h : UMap.find s0.table_names_ t with
    | none => exact absurd h h1
    | some id => simp only [h2]
  refine ⟨GetTableIndexes_not_exist_iff, hgi, ?_⟩
  obtain ⟨frame, hframe⟩ := Option.ne_none_iff_exists'.1 hnew
  have hname : UMap.find s.table_names_ table_name = none :=
    (UMap.count_eq_zero_iff_find _ _).1 hc
  rw [CreateTable_found cfg x s table_name schema frame hc hframe]
  simp only
  split
  · next heq =>
    refine absurd heq (FlushCatalogMetaPage_ne_none cfg x _ ?_)
    refine le_trans (GetSerializedSize_le _) ?_
    have := CatalogMeta.emplace_length_le s.catalog_meta_.table_meta_pages_ s.next_table_id_
      (BufferPoolManager.NewPage cfg s.buffer_pool_manager_).1
    simp only
    omega
  · next f heq =>
    refine ⟨_, _, rfl, ?_, ?_, ?_⟩
    · simp only [GetTable, UMap.emplace_of_none _ _ _ hname, UMap.emplace_of_none _ _ _ hid,
        UMap.find, if_true]
    · simp only [GetTableIndexes, hn]
    · intro index_name
      refine hgi _ _ _ ?_ hn
      simp only [UMap.emplace_of_none _ _ _ hname, UMap.find, if_true]
      exact fun e => Option.noConfusion e

/-- Instance of `index_lookup_on_new_table`: an empty catalog over a pool of four
frames in which the two fixed pages have been allocated, and the creation of a
table named `t`; `GetTableIndexes` then returns `DB_TABLE_NOT_EXIST` for it. -/
theorem index_lookup_on_new_table_witness :
    ∃ table_info s',
      CreateTable Config.default Collab.simple
        ⟨BufferPoolManager.run Config.default
            (BufferPoolManager.new Config.default 4 (DiskManager.openEmpty Config.default))
            [.newPage, .unpin 0 true, .newPage, .unpin 1 true],
          ⟨[], []⟩, 0, 0, [], [], [], []⟩
        [116] ⟨[⟨[97], .kTypeInt, 4, 0, false, false⟩], true⟩
        = some (.DB_SUCCESS, some table_info, s') ∧
      GetTable s' [116] = (.DB_SUCCESS, some table_info) ∧
      GetTableIndexes s' [116] = some (.DB_TABLE_NOT_EXIST, []) ∧
      GetIndex s' [116] [105] = none := by
  obtain ⟨table_info, s', h1, h2, h3, h4⟩ := (index_lookup_on_new_table Config.default
    Collab.simple
    ⟨BufferPoolManager.run Config.default
        (BufferPoolManager.new Config.default 4 (DiskManager.openEmpty Config.default))
        [.newPage, .unpin 0 true, .newPage, .unpin 1 true],
      ⟨[], []⟩, 0, 0, [], [], [], []⟩
    [116] ⟨[⟨[97], .kTypeInt, 4, 0, false, false⟩], true⟩
    (by decide) (by decide) (by decide) (by decide!) (by decide)).2.2
  exact ⟨table_info, s', h1, h2, h3, h4 [105]⟩

end CatalogManager

namespace CatalogManager

/-- What `LoadIndex` does for an index id not yet loaded whose meta page is
fetched into `frame` and deserialises to `index_meta`: the table is looked up
in `tables_` under the id of the index. -/
theorem LoadIndex_found (cfg : Config) (x : Collab) (s : CatalogManager) (index_id : Nat)
    (page_id : Int) (frame : Int) (index_meta : IndexMetadata)
    (hc : UMap.count s.indexes_ index_id = 0)
    (hframe : (BufferPoolManager.FetchPage cfg s.buffer_pool_manager_ page_id).1 = some frame)
    (hmeta : x.IndexMetadata_DeserializeFrom
      (BufferPoolManager.page cfg
        (BufferPoolManager.FetchPage cfg s.buffer_pool_manager_ page_id).2 frame).data_
        = some index_meta) :
    LoadIndex cfg x s index_id page_id =
      match UMap.find s.tables_ index_meta.index_id_ with
      | none => none
      | some table_info =>
        some (.DB_SUCCESS,
          { s with
            buffer_pool_manager_ :=
              x.IndexInfo_Init
                (BufferPoolManager.UnpinPage cfg
                  (BufferPoolManager.FetchPage cfg s.buffer_pool_manager_ page_id).2
                  page_id false).2 index_meta table_info,
            indexes_ := UMap.insert s.indexes_ index_id ⟨index_meta, table_info⟩,
            index_names_ :=
              UMap.insert s.index_names_ table_info.GetTableName
                (UMap.insert ((UMap.find s.index_names_ table_info.GetTableName).getD [])
                  index_meta.index_name_ index_id) }) := by
  have h0 : ¬ UMap.count s.indexes_ index_id ≠ 0 := by simp [hc]
  unfold LoadIndex
  rw [if_neg h0]
  simp only [hframe, hmeta, BufferPoolManager.page_UnpinPage_data]

/-- C23 (failing input).  `LoadIndex(index_id, page)` looks the owning table up
under `index_meta->GetIndexId()`: whenever the meta page deserialises to
`index_meta` and `tables_` holds a table `t` under the id
`index_meta.index_id_`, the index is registered under the name of `t` and its
`IndexInfo` is initialised with `t`, whatever `index_meta.table_id_` is; when
`tables_` holds nothing under that id, `LoadIndex` does not return.  So with
tables `t0` (id 0) and `t1` (id 1), an index with id 0 recorded as owned by
table 1 is registered under `t0`. -/
theorem LoadIndex_wrong_table (cfg : Config) (x : Collab) (s : CatalogManager) (index_id : Nat)
    (page_id : Int) (frame : Int) (index_meta : IndexMetadata)
    (hc : UMap.count s.indexes_ index_id = 0)
    (hframe : (BufferPoolManager.FetchPage cfg s.buffer_pool_manager_ page_id).1 = some frame)
    (hmeta : x.IndexMetadata_DeserializeFrom
      (BufferPoolManager.page cfg
        (BufferPoolManager.FetchPage cfg s.buffer_pool_manager_ page_id).2 frame).data_
        = some index_meta) :
    (UMap.find s.tables_ index_meta.index_id_ = none →
      LoadIndex cfg x s index_id page_id = none) ∧
    (∀ t : TableInfo, UMap.find s.tables_ index_meta.index_id_ = some t →
      ∃ s', LoadIndex cfg x s index_id page_id = some (.DB_SUCCESS, s') ∧
        UMap.find s'.indexes_ index_id = some ⟨index_meta, t⟩ ∧
        UMap.find ((UMap.find s'.index_names_ t.GetTableName).getD []) index_meta.index_name_
          = some index_id ∧
        (∀ owner : TableInfo, UMap.find s.tables_ index_meta.table_id_ = some owner →
          owner.GetTableName ≠ t.GetTableName →
          UMap.find s'.index_names_ owner.GetTableName
            = UMap.find s.index_names_ owner.GetTableName)) := by
  have heq := LoadIndex_found cfg x s index_id page_id frame index_meta hc hframe hmeta
  refine ⟨fun h => by rw [heq, h], ?_⟩
  intro t ht
  rw [heq, ht]
  refine ⟨_, rfl, UMap.find_insert_self _ _ _, ?_, ?_⟩
  · simp only [UMap.find_insert_self, Option.getD_some]
  · intro owner _ hne
    exact UMap.find_insert_ne _ _ hne

/-- Instance of `LoadIndex_wrong_table`: tables `t0` (id 0) and `t1` (id 1), and a
meta page that deserialises to the index `i` with id 0 owned by table 1;
`LoadIndex(0, 2)` registers `i` under `t0` and leaves `t1` without index. -/
theorem LoadIndex_wrong_table_witness :
    ∃ s', LoadIndex Config.default
        { Collab.simple with IndexMetadata_DeserializeFrom := fun _ => some ⟨0, [105], 1, [0]⟩ }
        ⟨BufferPoolManager.run Config.default
            (BufferPoolManager.new Config.default 4 (DiskManager.openEmpty Config.default))
            [.newPage, .unpin 0 true, .newPage, .unpin 1 true, .newPage, .unpin 2 true],
          ⟨[(0, 3), (1, 4)], [(0, 2)]⟩, 2, 0, [([116, 48], 0), ([116, 49], 1)],
          [(0, ⟨⟨0, [116, 48], 3, ⟨[⟨[97], .kTypeInt, 4, 0, false, false⟩], true⟩⟩,
              ⟨INVALID_PAGE_ID⟩⟩),
           (1, ⟨⟨1, [116, 49], 4, ⟨[⟨[97], .kTypeInt, 4, 0, false, false⟩], true⟩⟩,
              ⟨INVALID_PAGE_ID⟩⟩)], [], []⟩
        0 2 = some (.DB_SUCCESS, s') ∧
      UMap.find ((UMap.find s'.index_names_ [116, 48]).getD []) [105] = some 0 ∧
      UMap.find s'.index_names_ [116, 49] = none := by
  obtain ⟨s', h1, _, h2, h3⟩ := (LoadIndex_wrong_table Config.default
    { Collab.simple with IndexMetadata_DeserializeFrom := fun _ => some ⟨0, [105], 1, [0]⟩ }
    ⟨BufferPoolManager.run Config.default
        (BufferPoolManager.new Config.default 4 (DiskManager.openEmpty Config.default))
        [.newPage, .unpin 0 true, .newPage, .unpin 1 true, .newPage, .unpin 2 true],
      ⟨[(0, 3), (1, 4)], [(0, 2)]⟩, 2, 0, [([116, 48], 0), ([116, 49], 1)],
      [(0, ⟨⟨0, [116, 48], 3, ⟨[⟨[97], .kTypeInt, 4, 0, false, false⟩], true⟩⟩,
          ⟨INVALID_PAGE_ID⟩⟩),
       (1, ⟨⟨1, [116, 49], 4, ⟨[⟨[97], .kTypeInt, 4, 0, false, false⟩], true⟩⟩,
          ⟨INVALID_PAGE_ID⟩⟩)], [], []⟩
    0 2 2 ⟨0, [105], 1, [0]⟩ (by decide) (by decide!) rfl).2
    ⟨⟨0, [116, 48], 3, ⟨[⟨[97], .kTypeInt, 4, 0, false, false⟩], true⟩⟩, ⟨INVALID_PAGE_ID⟩⟩
    (by decide)
  exact ⟨s', h1, h2, (h3
    ⟨⟨1, [116, 49], 4, ⟨[⟨[97], .kTypeInt, 4, 0, false, false⟩], true⟩⟩, ⟨INVALID_PAGE_ID⟩⟩
    (by decide) (by decide)).trans (by decide)⟩

end CatalogManager

namespace UMap

theorem mem_keys_emplace {K V : Type} [DecidableEq K] (m : List (K × V)) (k x : K) (v : V) :
    x ∈ keys (emplace m k v) ↔ x = k ∨ x ∈ keys m := by
  unfold emplace
  cases h : find m k with
  | none => simp [keys]
  | some w =>
    simp only
    constructor
    · exact Or.inr
    · rintro (rfl | h')
      · rw [← find_isSome_iff, h]; rfl
      · exact h'

theorem find_ne_none_iff {K V : Type} [DecidableEq K] (m : List (K × V)) (k : K) :
    find m k ≠ none ↔ k ∈ keys m := by
  rw [Ne, find_eq_none_iff, not_not]

theorem mem_keys_of_find {K V : Type} [DecidableEq K] (m : List (K × V)) (k : K) (v : V)
    (h : find m k = some v) : k ∈ keys m := by
  rw [← find_ne_none_iff, h]
  exact fun e => Option.noConfusion e

theorem find_erase {K V : Type} [DecidableEq K] (m : List (K × V)) (k k' : K) :
    find (erase m k) k' = if k' = k then none else find m k' := by
  by_cases h : k' = k
  · rw [if_pos h, h]; exact find_erase_self m k
  · rw [if_neg h]; exact find_erase_ne m h

theorem find_insert {K V : Type} [DecidableEq K] (m : List (K × V)) (k k' : K) (v : V) :
    find (insert m k v) k' = if k' = k then some v else find m k' := by
  by_cases h : k' = k
  · rw [if_pos h, h]; exact find_insert_self m k v
  · rw [if_neg h]; exact find_insert_ne m v h

end UMap

namespace CatalogMeta

theorem mem_keys_emplace_sorted (m : List (Nat × page_id_t)) (k x : Nat) (v : page_id_t) :
    x ∈ UMap.keys (emplace m k v) ↔ x = k ∨ x ∈ UMap.keys m := by
  induction m with
  | nil => simp [emplace, UMap.keys]
  | cons e rest ih =>
    obtain ⟨k', v'⟩ := e
    simp only [emplace]
    split
    · simp [UMap.keys]
    · split
      · next _ hk =>
        simp only [UMap.keys, List.map_cons, List.mem_cons]
        constructor
        · exact Or.inr
        · rintro (h | h)
          · exact Or.inl (h.trans hk)
          · exact h
      · simp only [UMap.keys, List.map_cons, List.mem_cons] at ih ⊢
        rw [ih]
        tauto

theorem erase_length_le (m : List (Nat × page_id_t)) (k : Nat) :
    (UMap.erase m k).length ≤ m.length :=
  List.length_filter_le _ _

end CatalogMeta

namespace CatalogManager

theorem FlushCatalogMetaPage_some (cfg : Config) (x : Collab) (s : CatalogManager)
    (hfit : CatalogMeta.GetSerializedSize s.catalog_meta_ ≤ cfg.PAGE_SIZE) :
    ∃ f, FlushCatalogMetaPage cfg x s = some f := by
  cases h : FlushCatalogMetaPage cfg x s with
  | none => exact absurd h (FlushCatalogMetaPage_ne_none cfg x s hfit)
  | some f => exact ⟨f, rfl⟩

/-- The state that `DropIndex` reaches before its `FlushCatalogMetaPage`, when
the inner map `names` of the table maps the index name to `index_id`. -/
theorem DropIndex_found (cfg : Config) (x : Collab) (s : CatalogManager)
    (table_name index_name : List Nat) (names : List (List Nat × index_id_t)) (index_id : Nat)
    (h1 : UMap.find s.index_names_ table_name = some names)
    (h2 : UMap.find names index_name = some index_id) :
    DropIndex cfg x s table_name index_name =
      (FlushCatalogMetaPage cfg x
        { s with
          buffer_pool_manager_ :=
            (BufferPoolManager.DeletePage cfg s.buffer_pool_manager_
              ((UMap.find s.catalog_meta_.index_meta_pages_ index_id).getD 0)).2,
          catalog_meta_ :=
            { s.catalog_meta_ with
              index_meta_pages_ := UMap.erase s.catalog_meta_.index_meta_pages_ index_id },
          indexes_ := UMap.erase s.indexes_ index_id,
          index_names_ := UMap.insert s.index_names_ table_name
            (UMap.erase names index_name) }).map
        (fun f =>
          (f.1,
            { s with
              buffer_pool_manager_ := f.2,
              catalog_meta_ :=
                { s.catalog_meta_ with
                  index_meta_pages_ := UMap.erase s.catalog_meta_.index_meta_pages_ index_id },
              indexes_ := UMap.erase s.indexes_ index_id,
              index_names_ := UMap.insert s.index_names_ table_name
                (UMap.erase names index_name) })) := by
  simp only [DropIndex, h1, h2]

/-- The two ways in which `DropIndex` returns: without a change when the index
is not found, or with the index erased from the three index maps. -/
theorem DropIndex_cases (cfg : Config) (x : Collab) (s : CatalogManager)
    (table_name index_name : List Nat) (r : dberr_t × CatalogManager)
    (h : DropIndex cfg x s table_name index_name = some r) :
    (UMap.find (indexNames s table_name) index_name = none ∧ r = (.DB_INDEX_NOT_FOUND, s)) ∨
    (∃ (names : List (List Nat × index_id_t)) (index_id : Nat),
      UMap.find s.index_names_ table_name = some names ∧
      UMap.find names index_name = some index_id ∧
      r.2.tables_ = s.tables_ ∧ r.2.table_names_ = s.table_names_ ∧
      r.2.next_table_id_ = s.next_table_id_ ∧ r.2.next_index_id_ = s.next_index_id_ ∧
      r.2.catalog_meta_.table_meta_pages_ = s.catalog_meta_.table_meta_pages_ ∧
      r.2.catalog_meta_.index_meta_pages_
        = UMap.erase s.catalog_meta_.index_meta_pages_ index_id ∧
      r.2.indexes_ = UMap.erase s.indexes_ index_id ∧
      r.2.index_names_ = UMap.insert s.index_names_ table_name (UMap.erase names index_name)) := by
  cases h1 : UMap.find s.index_names_ table_name with
  | none =>
    left
    simp only [DropIndex, h1, Option.some.injEq] at h
    exact ⟨by simp only [indexNames, h1, Option.getD_none, UMap.find], h.symm⟩
  | some names =>
    cases h2 : UMap.find names index_name with
    | none =>
      left
      simp only [DropIndex, h1, h2, Option.some.injEq] at h
      exact ⟨by simp only [indexNames, h1, Option.getD_some, h2], h.symm⟩
    | some index_id =>
      right
      rw [DropIndex_found cfg x s table_name index_name names index_id h1 h2] at h
      obtain ⟨f, _, hf⟩ := Option.map_eq_some'.1 h
      subst hf
      exact ⟨names, index_id, rfl, h2, rfl, rfl, rfl, rfl, rfl, rfl, rfl, rfl⟩

theorem indexNames_of_insert (s s' : CatalogManager) (t : List Nat)
    (m : List (List Nat × index_id_t))
    (h : s'.index_names_ = UMap.insert s.index_names_ t m) (t' : List Nat) :
    indexNames s' t' = if t' = t then m else indexNames s t' := by
  unfold indexNames
  rw [h, UMap.find_insert]
  split <;> rfl

/-- `DropIndex` keeps the views in agreement, whatever it returns. -/
theorem DropIndex_views (cfg : Config) (x : Collab) (s : CatalogManager)
    (table_name index_name : List Nat) (r : dberr_t × CatalogManager)
    (h : DropIndex cfg x s table_name index_name = some r)
    (hg : TableViews s ∧ IndexViews s ∧ Distinct s) :
    TableViews r.2 ∧ IndexViews r.2 ∧ Distinct r.2 := by
  rcases DropIndex_cases cfg x s table_name index_name r h with ⟨_, rfl⟩ | h'
  · exact hg
  · obtain ⟨names, id, h1, h2, e1, e2, e3, e4, e5, e6, e7, e8⟩ := h'
    obtain ⟨hT, hI, hD⟩ := hg
    have hnm : indexNames s table_name = names := by
      simp only [indexNames, h1, Option.getD_some]
    have hin := indexNames_of_insert s r.2 table_name _ e8
    have hsub : ∀ t' n' id', UMap.find (indexNames r.2 t') n' = some id' →
        UMap.find (indexNames s t') n' = some id' ∧ ¬ (t' = table_name ∧ n' = index_name) := by
      intro t' n' id' hf
      rw [hin] at hf
      by_cases ht : t' = table_name
      · rw [if_pos ht, UMap.find_erase] at hf
        by_cases hn : n' = index_name
        · rw [if_pos hn] at hf; cases hf
        · rw [if_neg hn] at hf
          exact ⟨by rw [ht, hnm]; exact hf, fun c => hn c.2⟩
      · rw [if_neg ht] at hf
        exact ⟨hf, fun c => ht c.1⟩
    have hsup : ∀ t' n' id', UMap.find (indexNames s t') n' = some id' →
        ¬ (t' = table_name ∧ n' = index_name) →
        UMap.find (indexNames r.2 t') n' = some id' := by
      intro t' n' id' hf hne
      rw [hin]
      by_cases ht : t' = table_name
      · rw [if_pos ht, UMap.find_erase]
        have hn : ¬ n' = index_name := fun c => hne ⟨ht, c⟩
        rw [if_neg hn, ← hnm, ← ht]
        exact hf
      · rw [if_neg ht]; exact hf
    have hid : UMap.find (indexNames s table_name) index_name = some id := by
      rw [hnm]; exact h2
    refine ⟨⟨?_, ?_⟩, ⟨?_, ?_⟩, ⟨?_, ?_, ?_, ?_⟩⟩
    · intro i; rw [e1, e5]; exact hT.1 i
    · intro i; rw [e1, e2]; exact hT.2 i
    · intro i
      rw [e7, e6, UMap.mem_keys_erase, UMap.mem_keys_erase, hI.1 i]
    · intro i
      rw [e7, UMap.mem_keys_erase, hI.2 i]
      constructor
      · rintro ⟨⟨t', n', hf⟩, hne⟩
        refine ⟨t', n', hsup t' n' i hf ?_⟩
        rintro ⟨rfl, rfl⟩
        rw [hid] at hf
        exact hne (Option.some.inj hf).symm
      · rintro ⟨t', n', hf⟩
        obtain ⟨hf', hne⟩ := hsub t' n' i hf
        refine ⟨⟨t', n', hf'⟩, ?_⟩
        rintro rfl
        exact hne (hD.index_names t' n' table_name index_name i hf' hid)
    · intro n1 n2 i; rw [e2]; exact hD.table_names n1 n2 i
    · intro t1 n1 t2 n2 i hf1 hf2
      exact hD.index_names t1 n1 t2 n2 i (hsub _ _ _ hf1).1 (hsub _ _ _ hf2).1
    · intro i; rw [e1, e3]; exact hD.table_fresh i
    · intro i; rw [e7, e4, UMap.mem_keys_erase]
      exact fun hi => hD.index_fresh i hi.1

theorem dropIndexes_views (cfg : Config) (x : Collab) (table_name : List Nat)
    (infos : List IndexInfo) : ∀ (s s' : CatalogManager),
    dropIndexes cfg x table_name infos s = some s' →
    TableViews s ∧ IndexViews s ∧ Distinct s →
    TableViews s' ∧ IndexViews s' ∧ Distinct s' := by
  induction infos with
  | nil =>
    intro s s' h hg
    simp only [dropIndexes, Option.some.injEq] at h
    rw [← h]; exact hg
  | cons info rest ih =>
    intro s s' h hg
    simp only [dropIndexes] at h
    cases hd : DropIndex cfg x s table_name info.GetIndexName with
    | none => simp [hd] at h
    | some r =>
      simp only [hd] at h
      exact ih r.2 s' h (DropIndex_views cfg x s table_name _ r hd hg)

end CatalogManager

namespace BufferPoolManager

theorem page_set_frame (cfg : Config) (s : BufferPoolManager) (f g : Int) (p : Page)
    (hf0 : 0 ≤ f) (hf : f < (s.pages_.length : Int)) (hg0 : 0 ≤ g) :
    page cfg { s with pages_ := s.pages_.set f.toNat p } g = if g = f then p else page cfg s g :=
  getD_set_frame s.pages_ f g p (emptyPage cfg) hf0 (toNat_lt hf0 hf) hg0

/-- The frame handed out by `TryToFindFreePage` is the only one that changes,
and the page table afterwards is a part of the one before. -/
theorem TryToFindFreePage_frame {cfg : Config} {s : BufferPoolManager} (h : Inv cfg s none)
    (hne : (TryToFindFreePage cfg s).1 ≠ INVALID_FRAME_ID) :
    (∀ (p g : Int), UMap.find (TryToFindFreePage cfg s).2.page_table_ p = some g →
      UMap.find s.page_table_ p = some g) ∧
    (∀ g : Int, 0 ≤ g → g ≠ (TryToFindFreePage cfg s).1 →
      page cfg (TryToFindFreePage cfg s).2 g = page cfg s g) := by
  obtain ⟨n, pages, pt, free, repl, d⟩ := s
  cases free with
  | cons f rest =>
    simp only [TryToFindFreePage]
    exact ⟨fun _ _ hf => hf, fun _ _ _ => rfl⟩
  | nil =>
    cases hv : LRUReplacer.Victim repl with
    | mk o repl' =>
      cases o with
      | none =>
        simp only [TryToFindFreePage, hv] at hne
        exact absurd rfl hne
      | some f =>
        have hV := LRUReplacer.Victim_some h.repl_inv hv
        have hs := h.repl_spec f hV.1
        have hlen : pages.length = n := h.pages_len
        simp only [TryToFindFreePage, hv]
        refine ⟨?_, ?_⟩
        · intro p g hf
          rw [UMap.find_erase] at hf
          split at hf
          · cases hf
          · exact hf
        · intro g hg0 hgf
          rw [page_mk cfg n pages _ _ _ _ f g _ hs.1 (by rw [hlen]; exact hs.2.1) hg0, if_neg hgf]
          rfl

/-- A successful `NewPage`: the new page is in the table at the returned frame,
pinned once, and every other resident page was resident before, in the same
frame with the same content. -/
theorem NewPage_frame {cfg : Config} {s : BufferPoolManager} (h : Inv cfg s none)
    (hadm : Admissible cfg s .newPage) (f0 : Int) (hf : (NewPage cfg s).2.1 = some f0) :
    UMap.find (NewPage cfg s).2.2.page_table_ (NewPage cfg s).1 = some f0 ∧
    (page cfg (NewPage cfg s).2.2 f0).pin_count_ = 1 ∧
    (∀ (p g : Int), p ≠ (NewPage cfg s).1 →
      UMap.find (NewPage cfg s).2.2.page_table_ p = some g →
      UMap.find s.page_table_ p = some g ∧ page cfg (NewPage cfg s).2.2 g = page cfg s g) := by
  have hinv := NewPage_inv h hadm
  have hT := TryToFindFreePage_inv h
  revert hinv hf
  rw [NewPage_eq]
  by_cases h1 : (TryToFindFreePage cfg s).1 = INVALID_FRAME_ID
  · rw [if_pos h1]
    intro hf
    cases hf
  · rw [if_neg h1]
    have hF := TryToFindFreePage_frame h h1
    rcases hT with ⟨c, _⟩ | ⟨_, h2, _⟩
    · exact absurd c h1
    · by_cases ha : (DiskManager.AllocatePage cfg (TryToFindFreePage cfg s).2.disk_manager_).1
          = INVALID_PAGE_ID
      · rw [if_pos ha]
        intro hf
        cases hf
      · rw [if_neg ha]
        intro hf hinv
        simp only [Option.some.injEq] at hf
        have hl := h2.limbo_spec _ rfl
        have hlen := h2.pages_len
        have hpg : ∀ g : Int, 0 ≤ g →
            page cfg
              { (TryToFindFreePage cfg s).2 with
                page_table_ := UMap.insert (TryToFindFreePage cfg s).2.page_table_
                  (DiskManager.AllocatePage cfg (TryToFindFreePage cfg s).2.disk_manager_).1
                  (TryToFindFreePage cfg s).1,
                pages_ := (TryToFindFreePage cfg s).2.pages_.set (TryToFindFreePage cfg s).1.toNat
                  ⟨zeroPage cfg,
                    (DiskManager.AllocatePage cfg (TryToFindFreePage cfg s).2.disk_manager_).1, 1,
                    true⟩,
                disk_manager_ :=
                  (DiskManager.AllocatePage cfg (TryToFindFreePage cfg s).2.disk_manager_).2,
                replacer_ := LRUReplacer.Pin (TryToFindFreePage cfg s).2.replacer_
                  (TryToFindFreePage cfg s).1 } g
              = if g = (TryToFindFreePage cfg s).1 then
                  ⟨zeroPage cfg,
                    (DiskManager.AllocatePage cfg (TryToFindFreePage cfg s).2.disk_manager_).1, 1,
                    true⟩
                else page cfg (TryToFindFreePage cfg s).2 g := by
          intro g hg0
          exact getD_set_frame _ _ g _ (emptyPage cfg) hl.1
            (toNat_lt hl.1 (by rw [hlen]; exact hl.2.1)) hg0
        refine ⟨?_, ?_, ?_⟩
        · rw [← hf]; exact UMap.find_insert_self _ _ _
        · rw [← hf, hpg _ hl.1, if_pos rfl]
        · intro p g hp hfind
          have ht := hinv.table_holds p g hfind
          have hgf : g ≠ (TryToFindFreePage cfg s).1 := by
            intro c
            have e := ht.2.2.1
            rw [hpg g ht.1, if_pos c] at e
            exact hp e.symm
          have hfind' : UMap.find (TryToFindFreePage cfg s).2.page_table_ p = some g := by
            have e := hfind
            simp only [] at e
            rw [UMap.find_insert_ne _ _ hp] at e
            exact e
          refine ⟨hF.1 p g hfind', ?_⟩
          rw [hpg g ht.1, if_neg hgf]
          exact hF.2 g ht.1 hgf

/-- A successful `UnpinPage` changes the pin count and the dirty flag of the
frame of the page, and nothing else of the frames and the page table. -/
theorem UnpinPage_frame {cfg : Config} {s : BufferPoolManager} (h : Inv cfg s none)
    (p f : Int) (is_dirty : Bool) (hfind : UMap.find s.page_table_ p = some f)
    (hpin : 0 < (page cfg s f).pin_count_) :
    (UnpinPage cfg s p is_dirty).2.page_table_ = s.page_table_ ∧
    ∀ g : Int, 0 ≤ g →
      page cfg (UnpinPage cfg s p is_dirty).2 g
        = if g = f then
            { page cfg s f with
              pin_count_ := (page cfg s f).pin_count_ - 1,
              is_dirty_ := if is_dirty then true else (page cfg s f).is_dirty_ }
          else page cfg s g := by
  have ht := h.table_holds p f hfind
  have hr := h.pin_range f ht.1 ht.2.1
  have hw : wrapInt32 ((page cfg s f).pin_count_ - 1) = (page cfg s f).pin_count_ - 1 :=
    wrapInt32_of_range _ (by omega) (by omega)
  have hlen := h.pages_len
  unfold UnpinPage
  rw [if_neg ht.2.2.2]
  simp only [hfind]
  rw [if_neg (by omega), hw]
  refine ⟨rfl, ?_⟩
  intro g hg0
  exact getD_set_frame _ _ g _ (emptyPage cfg) ht.1 (toNat_lt ht.1 (by rw [hlen]; exact ht.2.1)) hg0

theorem writeData_frame (cfg : Config) (s : BufferPoolManager) (f : Int) (data : List Nat)
    (hf0 : 0 ≤ f) (hf : f < (s.pages_.length : Int)) (g : Int) (hg0 : 0 ≤ g) :
    page cfg (writeData cfg s f data) g
      = if g = f then { page cfg s f with data_ := data } else page cfg s g :=
  getD_set_frame _ _ g _ (emptyPage cfg) hf0 (toNat_lt hf0 hf) hg0

/-- A write into the bytes of a frame keeps the representation invariant. -/
theorem writeData_inv {cfg : Config} {s : BufferPoolManager} (h : Inv cfg s none) (f : Int)
    (data : List Nat) (hf0 : 0 ≤ f) (hf : f < s.pool_size_) :
    Inv cfg (writeData cfg s f data) none := by
  have hlen := h.pages_len
  have hpg : ∀ g : Int, 0 ≤ g →
      (page cfg (writeData cfg s f data) g).page_id_ = (page cfg s g).page_id_ ∧
      (page cfg (writeData cfg s f data) g).pin_count_ = (page cfg s g).pin_count_ := by
    intro g hg0
    rw [writeData_frame cfg s f data hf0 (by rw [hlen]; exact hf) g hg0]
    split
    · next e => rw [e]; exact ⟨rfl, rfl⟩
    · exact ⟨rfl, rfl⟩
  refine ⟨?_, ?_, ?_, h.free_nodup, ?_, h.repl_inv, ?_, ?_, ?_, ?_⟩
  · show (s.pages_.set f.toNat _).length = s.pool_size_
    rw [List.length_set]; exact hlen
  · intro p g hg
    have ht := h.table_holds p g hg
    exact ⟨ht.1, ht.2.1, by rw [(hpg g ht.1).1]; exact ht.2.2.1, ht.2.2.2⟩
  · intro g h0 h1 hid
    rw [(hpg g h0).1] at hid ⊢
    exact h.holds_table g h0 h1 hid
  · intro g hg
    have hs := h.free_spec g hg
    exact ⟨hs.1, hs.2.1, by rw [(hpg g hs.1).1]; exact hs.2.2.1,
      by rw [(hpg g hs.1).2]; exact hs.2.2.2.1, hs.2.2.2.2⟩
  · intro g hg
    have hs := h.repl_spec g hg
    exact ⟨hs.1, hs.2.1, by rw [(hpg g hs.1).1]; exact hs.2.2.1,
      by rw [(hpg g hs.1).2]; exact hs.2.2.2⟩
  · intro g h0 h1
    rw [(hpg g h0).2]
    exact h.pin_range g h0 h1
  · intro g h0 h1 hl hz
    rw [(hpg g h0).2] at hz
    rw [(hpg g h0).1]
    exact h.unpinned g h0 h1 hl hz
  · intro g hl
    cases hl

/-- `FetchPage` of a page that is not pinned: it fails only when no frame is
free or evictable, and then changes nothing; otherwise the page is in the
table at the returned frame, pinned once. -/
theorem FetchPage_frame {cfg : Config} {s : BufferPoolManager} (h : Inv cfg s none) (p : Int)
    (hp : p ≠ INVALID_PAGE_ID)
    (hpin : ∀ f : Int, UMap.find s.page_table_ p = some f → (page cfg s f).pin_count_ = 0) :
    Inv cfg (FetchPage cfg s p).2 none ∧
    (((FetchPage cfg s p).1 = none ∧ (FetchPage cfg s p).2 = s ∧
        s.free_list_ = [] ∧ LRUReplacer.frames s.replacer_ = []) ∨
      ∃ f : Int, (FetchPage cfg s p).1 = some f ∧
        UMap.find (FetchPage cfg s p).2.page_table_ p = some f ∧
        (page cfg (FetchPage cfg s p).2 f).pin_count_ = 1) := by
  have hinv : Inv cfg (FetchPage cfg s p).2 none := by
    refine FetchPage_inv h p ?_
    intro f hf
    rw [hpin f hf]
    decide
  refine ⟨hinv, ?_⟩
  revert hinv
  cases hfind : UMap.find s.page_table_ p with
  | some f =>
    rw [FetchPage_hit cfg s p f hp hfind]
    intro _
    right
    have ht := h.table_holds p f hfind
    have hlen := h.pages_len
    refine ⟨f, rfl, hfind, ?_⟩
    have e := getD_set_frame s.pages_ f f
      { page cfg s f with pin_count_ := wrapInt32 ((page cfg s f).pin_count_ + 1) }
      (emptyPage cfg) ht.1 (toNat_lt ht.1 (by rw [hlen]; exact ht.2.1)) ht.1
    rw [if_pos rfl] at e
    show (@List.getD Page _ _ _).pin_count_ = 1
    rw [e, hpin f hfind]
    show wrapInt32 (0 + 1) = 1
    exact wrapInt32_of_range _ (by omega) (by omega)
  | none =>
    rw [FetchPage_miss cfg s p hp hfind]
    by_cases h1 : (TryToFindFreePage cfg s).1 = INVALID_FRAME_ID
    · rw [if_pos h1]
      intro _
      left
      have hT := TryToFindFreePage_inv h
      rcases hT with ⟨_, c⟩ | ⟨c, _⟩
      · exact ⟨rfl, c, (TryToFindFreePage_invalid_iff h).1 h1⟩
      · exact absurd h1 c
    · rw [if_neg h1]
      intro hinv
      right
      refine ⟨_, rfl, UMap.find_insert_self _ _ _, ?_⟩
      have ht := hinv.table_holds p (TryToFindFreePage cfg s).1 (UMap.find_insert_self _ _ _)
      have hT := TryToFindFreePage_inv h
      rcases hT with ⟨c, _⟩ | ⟨_, h2, _⟩
      · exact absurd c h1
      · have hl := h2.limbo_spec _ rfl
        have hlen := h2.pages_len
        have e := getD_set_frame (TryToFindFreePage cfg s).2.pages_ (TryToFindFreePage cfg s).1
          (TryToFindFreePage cfg s).1
          ⟨(diskRead cfg (TryToFindFreePage cfg s).2.disk_manager_ p
              (page cfg (TryToFindFreePage cfg s).2 (TryToFindFreePage cfg s).1).data_).1,
            p, 1, false⟩
          (emptyPage cfg) hl.1 (toNat_lt hl.1 (by rw [hlen]; exact hl.2.1)) hl.1
        rw [if_pos rfl] at e
        show (@List.getD Page _ _ _).pin_count_ = 1
        rw [e]

end BufferPoolManager

namespace CatalogManager

theorem Dropped_nil (table_name : List Nat) (s : CatalogManager) : Dropped table_name [] s s :=
  { tables := rfl, table_names := rfl, next_table := rfl, next_index := rfl, table_meta := rfl,
    others := fun _ _ => rfl,
    names_gone := fun _ h => absurd h (List.not_mem_nil _),
    names_kept := fun _ _ => rfl,
    ids_gone := fun _ _ h => absurd h (List.not_mem_nil _),
    ids_kept := fun _ _ => ⟨rfl, rfl⟩,
    meta_length := le_refl _ }

theorem DropIndex_dropped (cfg : Config) (x : Collab) (s : CatalogManager)
    (table_name index_name : List Nat) (r : dberr_t × CatalogManager)
    (h : DropIndex cfg x s table_name index_name = some r) :
    Dropped table_name [index_name] s r.2 := by
  rcases DropIndex_cases cfg x s table_name index_name r h with ⟨hn, rfl⟩ | h'
  · exact
      { tables := rfl, table_names := rfl, next_table := rfl, next_index := rfl,
        table_meta := rfl,
        others := fun _ _ => rfl,
        names_gone := fun n hm => (by rw [List.mem_singleton.1 hm]; exact hn),
        names_kept := fun _ _ => rfl,
        ids_gone := fun n id hm hf => (by
          rw [List.mem_singleton.1 hm, hn] at hf; cases hf),
        ids_kept := fun _ _ => ⟨rfl, rfl⟩,
        meta_length := le_refl _ }
  · obtain ⟨names, id, h1, h2, e1, e2, e3, e4, e5, e6, e7, e8⟩ := h'
    have hnm : indexNames s table_name = names := by
      simp only [indexNames, h1, Option.getD_some]
    have hin := indexNames_of_insert s r.2 table_name _ e8
    refine
      { tables := e1, table_names := e2, next_table := e3, next_index := e4, table_meta := e5,
        others := ?_, names_gone := ?_, names_kept := ?_, ids_gone := ?_, ids_kept := ?_,
        meta_length := ?_ }
    · intro t ht
      rw [e8, UMap.find_insert, if_neg ht]
    · intro n hm
      rw [List.mem_singleton.1 hm, hin, if_pos rfl, UMap.find_erase, if_pos rfl]
    · intro n hm
      have hne : n ≠ index_name := fun c => hm (List.mem_singleton.2 c)
      rw [hin, if_pos rfl, UMap.find_erase, if_neg hne, hnm]
    · intro n i hm hf
      rw [List.mem_singleton.1 hm, hnm, h2] at hf
      cases hf
      rw [e7, e6, UMap.find_erase, UMap.find_erase, if_pos rfl, if_pos rfl]
      exact ⟨rfl, rfl⟩
    · intro i hi
      have hne : i ≠ id := by
        intro c
        refine hi index_name (List.mem_singleton.2 rfl) ?_
        rw [hnm, h2, c]
      rw [e7, e6, UMap.find_erase, UMap.find_erase, if_neg hne, if_neg hne]
      exact ⟨rfl, rfl⟩
    · rw [e6]; exact CatalogMeta.erase_length_le _ _

theorem Dropped_cons (table_name n : List Nat) (names : List (List Nat))
    (s s1 s' : CatalogManager) (h1 : Dropped table_name [n] s s1)
    (h2 : Dropped table_name names s1 s') : Dropped table_name (n :: names) s s' := by
  have hs1 : ∀ k id, UMap.find (indexNames s1 table_name) k = some id →
      UMap.find (indexNames s table_name) k = some id ∧ k ≠ n := by
    intro k id hk
    by_cases hkn : k = n
    · rw [hkn, h1.names_gone n (List.mem_singleton.2 rfl)] at hk; cases hk
    · rw [h1.names_kept k (fun c => hkn (List.mem_singleton.1 c))] at hk
      exact ⟨hk, hkn⟩
  refine
    { tables := h2.tables.trans h1.tables, table_names := h2.table_names.trans h1.table_names,
      next_table := h2.next_table.trans h1.next_table,
      next_index := h2.next_index.trans h1.next_index,
      table_meta := h2.table_meta.trans h1.table_meta,
      others := fun t ht => (h2.others t ht).trans (h1.others t ht),
      names_gone := ?_, names_kept := ?_, ids_gone := ?_, ids_kept := ?_,
      meta_length := le_trans h2.meta_length h1.meta_length }
  · intro k hk
    by_cases hkN : k ∈ names
    · exact h2.names_gone k hkN
    · rw [h2.names_kept k hkN]
      rcases List.mem_cons.1 hk with rfl | hk'
      · exact h1.names_gone k (List.mem_singleton.2 rfl)
      · exact absurd hk' hkN
  · intro k hk
    have hk1 : k ∉ [n] := fun c => hk (List.mem_cons.2 (Or.inl (List.mem_singleton.1 c)))
    have hk2 : k ∉ names := fun c => hk (List.mem_cons.2 (Or.inr c))
    rw [h2.names_kept k hk2, h1.names_kept k hk1]
  · intro k id hk hf
    have key : UMap.find s1.indexes_ id = none ∧
        UMap.find s1.catalog_meta_.index_meta_pages_ id = none →
        UMap.find s'.indexes_ id = none ∧
        UMap.find s'.catalog_meta_.index_meta_pages_ id = none := by
      intro hnone
      by_cases hall : ∀ j, j ∈ names → UMap.find (indexNames s1 table_name) j ≠ some id
      · rw [(h2.ids_kept id hall).1, (h2.ids_kept id hall).2]
        exact hnone
      · push_neg at hall
        obtain ⟨j, hj, hjf⟩ := hall
        exact h2.ids_gone j id hj hjf
    by_cases hkn : k = n
    · rw [hkn] at hf
      exact key (h1.ids_gone n id (List.mem_singleton.2 rfl) hf)
    · have hkN : k ∈ names := by
        rcases List.mem_cons.1 hk with c | c
        · exact absurd c hkn
        · exact c
      refine h2.ids_gone k id hkN ?_
      rw [h1.names_kept k (fun c => hkn (List.mem_singleton.1 c))]
      exact hf
  · intro id hall
    have hA : ∀ j, j ∈ [n] → UMap.find (indexNames s table_name) j ≠ some id :=
      fun j hj => hall j (List.mem_cons.2 (Or.inl (List.mem_singleton.1 hj)))
    have hB : ∀ j, j ∈ names → UMap.find (indexNames s1 table_name) j ≠ some id := by
      intro j hj c
      exact hall j (List.mem_cons.2 (Or.inr hj)) (hs1 j id c).1
    rw [(h2.ids_kept id hB).1, (h2.ids_kept id hB).2]
    exact h1.ids_kept id hA

theorem dropIndexes_dropped (cfg : Config) (x : Collab) (table_name : List Nat)
    (infos : List IndexInfo) : ∀ (s s' : CatalogManager),
    dropIndexes cfg x table_name infos s = some s' →
    Dropped table_name (infos.map IndexInfo.GetIndexName) s s' := by
  induction infos with
  | nil =>
    intro s s' h
    simp only [dropIndexes, Option.some.injEq] at h
    rw [← h]; exact Dropped_nil table_name s
  | cons info rest ih =>
    intro s s' h
    simp only [dropIndexes] at h
    cases hd : DropIndex cfg x s table_name info.GetIndexName with
    | none => simp [hd] at h
    | some r =>
      simp only [hd] at h
      exact Dropped_cons table_name _ _ s r.2 s'
        (DropIndex_dropped cfg x s table_name _ r hd) (ih r.2 s' h)

theorem DropIndex_some (cfg : Config) (x : Collab) (s : CatalogManager)
    (table_name index_name : List Nat)
    (hfit : 12 + 8 * (s.catalog_meta_.table_meta_pages_.length
      + s.catalog_meta_.index_meta_pages_.length) ≤ cfg.PAGE_SIZE) :
    ∃ r, DropIndex cfg x s table_name index_name = some r := by
  cases h1 : UMap.find s.index_names_ table_name with
  | none => exact ⟨(.DB_INDEX_NOT_FOUND, s), by simp only [DropIndex, h1]⟩
  | some names =>
    cases h2 : UMap.find names index_name with
    | none => exact ⟨(.DB_INDEX_NOT_FOUND, s), by simp only [DropIndex, h1, h2]⟩
    | some index_id =>
      rw [DropIndex_found cfg x s table_name index_name names index_id h1 h2]
      obtain ⟨f, hf⟩ := FlushCatalogMetaPage_some cfg x
        { s with
          buffer_pool_manager_ :=
            (BufferPoolManager.DeletePage cfg s.buffer_pool_manager_
              ((UMap.find s.catalog_meta_.index_meta_pages_ index_id).getD 0)).2,
          catalog_meta_ :=
            { s.catalog_meta_ with
              index_meta_pages_ := UMap.erase s.catalog_meta_.index_meta_pages_ index_id },
          indexes_ := UMap.erase s.indexes_ index_id,
          index_names_ := UMap.insert s.index_names_ table_name
            (UMap.erase names index_name) }
        (by
          refine le_trans (GetSerializedSize_le _) (le_trans ?_ hfit)
          have := CatalogMeta.erase_length_le s.catalog_meta_.index_meta_pages_ index_id
          simp only
          omega)
      rw [hf]
      exact ⟨_, rfl⟩

theorem dropIndexes_some (cfg : Config) (x : Collab) (table_name : List Nat)
    (infos : List IndexInfo) : ∀ (s : CatalogManager),
    12 + 8 * (s.catalog_meta_.table_meta_pages_.length
      + s.catalog_meta_.index_meta_pages_.length) ≤ cfg.PAGE_SIZE →
    ∃ s', dropIndexes cfg x table_name infos s = some s' := by
  induction infos with
  | nil => intro s _; exact ⟨s, rfl⟩
  | cons info rest ih =>
    intro s hfit
    obtain ⟨r, hr⟩ := DropIndex_some cfg x s table_name info.GetIndexName hfit
    have hd := DropIndex_dropped cfg x s table_name _ r hr
    obtain ⟨s', hs'⟩ := ih r.2 (by
      have h1 := hd.table_meta
      have h2 := hd.meta_length
      rw [h1]
      omega)
    exact ⟨s', by simp only [dropIndexes, hr]; exact hs'⟩

theorem collectIndexes_some (indexes : List (index_id_t × IndexInfo)) :
    ∀ (m : List (List Nat × index_id_t)),
    (∀ e, e ∈ m → ∃ info, UMap.find indexes e.2 = some info) →
    ∃ infos, collectIndexes indexes m = some infos ∧
      ∀ e, e ∈ m → ∃ info, info ∈ infos ∧ UMap.find indexes e.2 = some info := by
  intro m
  induction m with
  | nil => intro _; exact ⟨[], rfl, fun e he => absurd he (List.not_mem_nil _)⟩
  | cons pair rest ih =>
    intro h
    obtain ⟨info, hinfo⟩ := h pair (List.mem_cons_self _ _)
    obtain ⟨infos, hc, hm⟩ := ih (fun e he => h e (List.mem_cons_of_mem _ he))
    refine ⟨info :: infos, by simp only [collectIndexes, hinfo, hc], ?_⟩
    intro e he
    rcases List.mem_cons.1 he with rfl | he'
    · exact ⟨info, List.mem_cons_self _ _, hinfo⟩
    · obtain ⟨i, hi, hf⟩ := hm e he'
      exact ⟨i, List.mem_cons_of_mem _ hi, hf⟩

end CatalogManager

namespace CatalogManager

theorem GetTableIndexes_some (s : CatalogManager) (table_name : List Nat)
    (h : ∀ e, e ∈ indexNames s table_name → ∃ info, UMap.find s.indexes_ e.2 = some info) :
    ∃ out, GetTableIndexes s table_name = some out ∧
      ∀ e, e ∈ indexNames s table_name →
        ∃ info, info ∈ out.2 ∧ UMap.find s.indexes_ e.2 = some info := by
  unfold indexNames at h ⊢
  unfold GetTableIndexes
  cases hf : UMap.find s.index_names_ table_name with
  | none =>
    refine ⟨(.DB_TABLE_NOT_EXIST, []), rfl, ?_⟩
    intro e he
    simp only [Option.getD_none] at he
    exact absurd he (List.not_mem_nil _)
  | some m =>
    rw [hf] at h
    simp only [Option.getD_some] at h ⊢
    obtain ⟨infos, hc, hm⟩ := collectIndexes_some s.indexes_ m h
    exact ⟨(.DB_SUCCESS, infos), by rw [hc]; rfl, hm⟩

/-- The run of `DropTable` on a table that `table_names_` and `tables_` hold:
the indexes found on the table are dropped, then the table is erased from the
maps of the tables. -/
theorem DropTable_found (cfg : Config) (x : Collab) (s : CatalogManager)
    (table_name : List Nat) (table_id : Nat) (t : TableInfo)
    (hn : UMap.find s.table_names_ table_name = some table_id)
    (ht : UMap.find s.tables_ table_id = some t)
    (hm : ∀ e, e ∈ indexNames s table_name →
      ∃ info, UMap.find s.indexes_ e.2 = some info ∧ info.GetIndexName = e.1)
    (hfit : 12 + 8 * (s.catalog_meta_.table_meta_pages_.length
      + s.catalog_meta_.index_meta_pages_.length) ≤ cfg.PAGE_SIZE) :
    ∃ (names : List (List Nat)) (s1 : CatalogManager) (f : dberr_t × BufferPoolManager),
      (∀ e, e ∈ indexNames s table_name → e.1 ∈ names) ∧
      Dropped table_name names s s1 ∧
      DropTable cfg x s table_name = some (f.1,
        { s1 with
          buffer_pool_manager_ := f.2,
          catalog_meta_ :=
            { s1.catalog_meta_ with
              table_meta_pages_ := UMap.erase s1.catalog_meta_.table_meta_pages_ table_id },
          tables_ := UMap.erase s1.tables_ table_id,
          table_names_ := UMap.erase s1.table_names_ table_name }) := by
  obtain ⟨out, hout, hmem⟩ := GetTableIndexes_some s table_name
    (fun e he => (hm e he).imp (fun _ h => h.1))
  obtain ⟨s1, hs1⟩ := dropIndexes_some cfg x table_name out.2 s hfit
  have hd := dropIndexes_dropped cfg x table_name out.2 s s1 hs1
  have ht1 : UMap.find s1.tables_ table_id = some t := by rw [hd.tables]; exact ht
  obtain ⟨f, hf⟩ := FlushCatalogMetaPage_some cfg x
    { s1 with
      buffer_pool_manager_ := x.FreeTableHeap
        (BufferPoolManager.DeletePage cfg s1.buffer_pool_manager_
          ((UMap.find s1.catalog_meta_.table_meta_pages_ table_id).getD 0)).2 t.table_heap_,
      catalog_meta_ :=
        { s1.catalog_meta_ with
          table_meta_pages_ := UMap.erase s1.catalog_meta_.table_meta_pages_ table_id },
      tables_ := UMap.erase s1.tables_ table_id,
      table_names_ := UMap.erase s1.table_names_ table_name }
    (by
      refine le_trans (GetSerializedSize_le _) (le_trans ?_ hfit)
      have h1 := CatalogMeta.erase_length_le s1.catalog_meta_.table_meta_pages_ table_id
      have h2 := hd.meta_length
      have h3 := congrArg List.length hd.table_meta
      simp only
      omega)
  refine ⟨out.2.map IndexInfo.GetIndexName, s1, f, ?_, hd, ?_⟩
  · intro e he
    obtain ⟨info, hin, hfi⟩ := hmem e he
    obtain ⟨info', hfi', hname⟩ := hm e he
    rw [hfi] at hfi'
    cases hfi'
    rw [← hname]
    exact List.mem_map_of_mem _ hin
  · unfold DropTable
    simp only [hn, hout, hs1, ht1, hf, Option.map_some']

/-- C22. `DropTable` with a name that `table_names_` does not hold returns
`DB_TABLE_NOT_EXIST` and leaves the whole state as it is.  With the name of a
table that `tables_` holds, whose inner map of `index_names_` registers every
index under the name its `IndexInfo` carries, and with catalog metadata that
fit into a page, `DropTable` returns, and afterwards: `GetTable` with the name
returns `DB_TABLE_NOT_EXIST`; every id registered in the inner map of the table
is absent from `indexes_` and from `catalog_meta_.index_meta_pages_`; the id of
the table is absent from `tables_` and from `catalog_meta_.table_meta_pages_`;
the entries of `tables_` and `table_meta_pages_` under another id, the entries
of `table_names_` and `index_names_` under another table name, and the entries
of `indexes_` and `index_meta_pages_` under an id that the table did not
register, are what they were. -/
theorem DropTable_contract (cfg : Config) (x : Collab) (s : CatalogManager)
    (table_name : List Nat) :
    (UMap.find s.table_names_ table_name = none →
      DropTable cfg x s table_name = some (.DB_TABLE_NOT_EXIST, s)) ∧
    ∀ (table_id : Nat) (t : TableInfo),
      UMap.find s.table_names_ table_name = some table_id →
      UMap.find s.tables_ table_id = some t →
      (∀ e, e ∈ indexNames s table_name →
        ∃ info, UMap.find s.indexes_ e.2 = some info ∧ info.GetIndexName = e.1) →
      12 + 8 * (s.catalog_meta_.table_meta_pages_.length
        + s.catalog_meta_.index_meta_pages_.length) ≤ cfg.PAGE_SIZE →
      ∃ r s', DropTable cfg x s table_name = some (r, s') ∧
        GetTable s' table_name = (.DB_TABLE_NOT_EXIST, none) ∧
        (∀ n id, UMap.find (indexNames s table_name) n = some id →
          UMap.find s'.indexes_ id = none ∧
          UMap.find s'.catalog_meta_.index_meta_pages_ id = none) ∧
        UMap.find s'.tables_ table_id = none ∧
        UMap.find s'.catalog_meta_.table_meta_pages_ table_id = none ∧
        (∀ id, id ≠ table_id →
          UMap.find s'.tables_ id = UMap.find s.tables_ id ∧
          UMap.find s'.catalog_meta_.table_meta_pages_ id
            = UMap.find s.catalog_meta_.table_meta_pages_ id) ∧
        (∀ n, n ≠ table_name →
          UMap.find s'.table_names_ n = UMap.find s.table_names_ n ∧
          UMap.find s'.index_names_ n = UMap.find s.index_names_ n) ∧
        (∀ id, (∀ n, UMap.find (indexNames s table_name) n ≠ some id) →
          UMap.find s'.indexes_ id = UMap.find s.indexes_ id ∧
          UMap.find s'.catalog_meta_.index_meta_pages_ id
            = UMap.find s.catalog_meta_.index_meta_pages_ id) := by
  refine ⟨fun hn => by simp only [DropTable, hn], ?_⟩
  intro table_id t hn ht hm hfit
  obtain ⟨names, s1, f, hnames, hd, hrun⟩ :=
    DropTable_found cfg x s table_name table_id t hn ht hm hfit
  refine ⟨_, _, hrun, ?_, ?_, ?_, ?_, ?_, ?_, ?_⟩
  · simp only [GetTable, UMap.find_erase_self]
  · intro n id hf
    exact hd.ids_gone n id (hnames (n, id) (UMap.mem_of_find _ n id hf)) hf
  · exact UMap.find_erase_self _ _
  · exact UMap.find_erase_self _ _
  · intro id hne
    refine ⟨?_, ?_⟩
    · show UMap.find (UMap.erase s1.tables_ table_id) id = _
      rw [UMap.find_erase_ne _ hne, hd.tables]
    · show UMap.find (UMap.erase s1.catalog_meta_.table_meta_pages_ table_id) id = _
      rw [UMap.find_erase_ne _ hne, hd.table_meta]
  · intro n hne
    refine ⟨?_, hd.others n hne⟩
    show UMap.find (UMap.erase s1.table_names_ table_name) n = _
    rw [UMap.find_erase_ne _ hne, hd.table_names]
  · intro id hall
    exact hd.ids_kept id (fun n _ => hall n)

end CatalogManager

namespace CatalogManager

/-- Instance of `DropTable_contract`: in the catalog `twoTables`, dropping the
table `t` makes `GetTable` fail for `t`, removes its index (id 0) and its id,
and leaves the table `u` and its index (id 1) as they were. -/
theorem DropTable_contract_witness :
    ∃ r s', DropTable Config.default Collab.simple twoTables [116] = some (r, s') ∧
      GetTable s' [116] = (.DB_TABLE_NOT_EXIST, none) ∧
      UMap.find s'.indexes_ 0 = none ∧
      UMap.find s'.tables_ 0 = none ∧
      UMap.find s'.tables_ 1 = UMap.find twoTables.tables_ 1 ∧
      UMap.find s'.indexes_ 1 = UMap.find twoTables.indexes_ 1 := by
  obtain ⟨r, s', h, h1, h2, h3, _, h5, _, h7⟩ :=
    (DropTable_contract Config.default Collab.simple twoTables [116]).2 0
      ⟨⟨0, [116], 2, ⟨[⟨[97], .kTypeInt, 4, 0, false, false⟩], true⟩⟩, ⟨INVALID_PAGE_ID⟩⟩
      (by decide) (by decide)
      (by
        intro e he
        have he' : e = ([105], 0) := by
          simpa [indexNames, twoTables, UMap.find] using he
        subst he'
        exact ⟨_, rfl, rfl⟩)
      (by decide)
  refine ⟨r, s', h, h1, (h2 [105] 0 (by decide)).1, h3, (h5 1 (by decide)).1, (h7 1 ?_).1⟩
  intro n
  have hsub : ∀ v : Option Nat, v = none ∨ v = some 0 → v ≠ some 1 := by
    rintro v (rfl | rfl) <;> decide
  apply hsub
  by_cases hn : n = [105]
  · right; subst hn; decide
  · left
    simp [indexNames, twoTables, UMap.find, hn]
    exact fun c => hn c.symm

end CatalogManager

namespace CatalogManager

/-- `FlushCatalogMetaPage` on a pool in order: the pool stays in order; when the
result is `DB_SUCCESS` the catalog meta page holds the serialisation of
`catalog_meta_`; and the result is `DB_SUCCESS` as soon as some resident page
is not pinned. -/
theorem FlushCatalogMetaPage_pool (cfg : Config) (x : Collab) (s : CatalogManager)
    (hp : PoolOK cfg x s.buffer_pool_manager_) (f : dberr_t × BufferPoolManager)
    (hf : FlushCatalogMetaPage cfg x s = some f) :
    PoolOK cfg x f.2 ∧
    (f.1 = .DB_SUCCESS → MetaWritten cfg x { s with buffer_pool_manager_ := f.2 }) ∧
    ((∃ (q g : Int), UMap.find s.buffer_pool_manager_.page_table_ q = some g ∧
        (BufferPoolManager.page cfg s.buffer_pool_manager_ g).pin_count_ = 0) →
      f.1 = .DB_SUCCESS) := by
  obtain ⟨hinv, hcat, hpin⟩ := hp
  obtain ⟨hinv1, hcase⟩ :=
    BufferPoolManager.FetchPage_frame hinv x.CATALOG_META_PAGE_ID hcat hpin
  unfold FlushCatalogMetaPage at hf
  rcases hcase with ⟨h1, h2, _, h4⟩ | ⟨fr, h1, h2, h3⟩
  · simp only [h1, Option.some.injEq] at hf
    subst hf
    refine ⟨?_, (fun c => by cases c), ?_⟩
    · simp only [h2]; exact ⟨hinv, hcat, hpin⟩
    · rintro ⟨q, g, hq, hz⟩
      have ht := hinv.table_holds q g hq
      have hm := (hinv.unpinned g ht.1 ht.2.1 (by simp) hz).2 (by rw [ht.2.2.1]; exact ht.2.2.2)
      rw [h4] at hm
      cases hm
  · simp only [h1] at hf
    cases hser : CatalogMeta.SerializeTo cfg x s.catalog_meta_
        (BufferPoolManager.page cfg
          (BufferPoolManager.FetchPage cfg s.buffer_pool_manager_ x.CATALOG_META_PAGE_ID).2
          fr).data_ with
    | none => simp only [hser] at hf; cases hf
    | some data =>
      simp only [hser, Option.some.injEq] at hf
      subst hf
      have ht := hinv1.table_holds _ fr h2
      have hlen := hinv1.pages_len
      have hinv2 := BufferPoolManager.writeData_inv hinv1 fr data ht.1 ht.2.1
      have hpg2 := BufferPoolManager.writeData_frame cfg
        (BufferPoolManager.FetchPage cfg s.buffer_pool_manager_ x.CATALOG_META_PAGE_ID).2 fr data
        ht.1 (by rw [hlen]; exact ht.2.1) fr ht.1
      rw [if_pos rfl] at hpg2
      have hU := BufferPoolManager.UnpinPage_frame hinv2 x.CATALOG_META_PAGE_ID fr true h2
        (by rw [hpg2]; show 0 < (BufferPoolManager.page cfg _ fr).pin_count_; rw [h3]; decide)
      have hpg3 := hU.2 fr ht.1
      rw [if_pos rfl, hpg2] at hpg3
      have hfind3 : UMap.find
          (BufferPoolManager.UnpinPage cfg
            (BufferPoolManager.writeData cfg
              (BufferPoolManager.FetchPage cfg s.buffer_pool_manager_ x.CATALOG_META_PAGE_ID).2
              fr data) x.CATALOG_META_PAGE_ID true).2.page_table_ x.CATALOG_META_PAGE_ID
          = some fr := by
        rw [hU.1]; exact h2
      refine ⟨⟨BufferPoolManager.UnpinPage_inv hinv2 _ _, hcat, ?_⟩, fun _ => ?_, fun _ => rfl⟩
      · intro g hg
        rw [hfind3] at hg
        cases hg
        rw [hpg3]
        show (BufferPoolManager.page cfg _ fr).pin_count_ - 1 = 0
        rw [h3]
        decide
      · refine ⟨fr, (BufferPoolManager.page cfg
          (BufferPoolManager.FetchPage cfg s.buffer_pool_manager_ x.CATALOG_META_PAGE_ID).2
          fr).data_, hfind3, ?_⟩
        show CatalogMeta.SerializeTo cfg x s.catalog_meta_ _ = _
        rw [hser]
        show some data = some (BufferPoolManager.page cfg _ fr).data_
        rw [hpg3]

/-- `DeletePage` keeps the pool in order. -/
theorem DeletePage_pool (cfg : Config) (x : Collab) (b : BufferPoolManager) (p : Int)
    (hp : PoolOK cfg x b) : PoolOK cfg x (BufferPoolManager.DeletePage cfg b p).2 := by
  obtain ⟨hinv, hcat, hpin⟩ := hp
  refine ⟨BufferPoolManager.DeletePage_inv hinv p, hcat, ?_⟩
  unfold BufferPoolManager.DeletePage
  by_cases hpi : p = INVALID_PAGE_ID
  · rw [if_pos hpi]; exact hpin
  · rw [if_neg hpi]
    cases hfind : UMap.find b.page_table_ p with
    | none => exact hpin
    | some f =>
      simp only []
      by_cases hpc : (BufferPoolManager.page cfg b f).pin_count_ > 0
      · rw [if_pos hpc]; exact hpin
      · rw [if_neg hpc]
        intro g hg
        simp only [] at hg
        rw [UMap.find_erase] at hg
        split at hg
        · cases hg
        · have ht := hinv.table_holds p f hfind
          have htg := hinv.table_holds _ g hg
          have hlen := hinv.pages_len
          have e := BufferPoolManager.getD_set_frame b.pages_ f g
            ⟨zeroPage cfg, INVALID_PAGE_ID, 0, false⟩ (BufferPoolManager.emptyPage cfg) ht.1
            (BufferPoolManager.toNat_lt ht.1 (by rw [hlen]; exact ht.2.1)) htg.1
          show (@List.getD Page _ _ _).pin_count_ = 0
          rw [e]
          split
          · rfl
          · exact hpin g hg

/-- A successful `NewPage` of a page other than the catalog meta page keeps the
pool in order. -/
theorem NewPage_pool (cfg : Config) (x : Collab) (b : BufferPoolManager)
    (hp : PoolOK cfg x b) (hadm : BufferPoolManager.Admissible cfg b .newPage) (f0 : Int)
    (hf : (BufferPoolManager.NewPage cfg b).2.1 = some f0)
    (hne : (BufferPoolManager.NewPage cfg b).1 ≠ x.CATALOG_META_PAGE_ID) :
    PoolOK cfg x (BufferPoolManager.NewPage cfg b).2.2 := by
  obtain ⟨hinv, hcat, hpin⟩ := hp
  refine ⟨BufferPoolManager.NewPage_inv hinv hadm, hcat, ?_⟩
  intro g hg
  obtain ⟨h1, h2⟩ := (BufferPoolManager.NewPage_frame hinv hadm f0 hf).2.2
    x.CATALOG_META_PAGE_ID g (fun c => hne c.symm) hg
  rw [h2]
  exact hpin g h1

/-- The write of a metadata page and its `UnpinPage`, for a page other than the
catalog meta page that is pinned once: the pool stays in order and the page
stays resident, not pinned. -/
theorem register_pool (cfg : Config) (x : Collab) (b : BufferPoolManager) (p f0 : Int)
    (data : List Nat) (hp : PoolOK cfg x b) (hfind : UMap.find b.page_table_ p = some f0)
    (hpin1 : (BufferPoolManager.page cfg b f0).pin_count_ = 1)
    (hne : p ≠ x.CATALOG_META_PAGE_ID) :
    PoolOK cfg x
      (BufferPoolManager.UnpinPage cfg (BufferPoolManager.writeData cfg b f0 data) p true).2 ∧
    UMap.find
      (BufferPoolManager.UnpinPage cfg (BufferPoolManager.writeData cfg b f0 data) p
        true).2.page_table_ p = some f0 ∧
    (BufferPoolManager.page cfg
      (BufferPoolManager.UnpinPage cfg (BufferPoolManager.writeData cfg b f0 data) p true).2
      f0).pin_count_ = 0 := by
  obtain ⟨hinv, hcat, hpin⟩ := hp
  have ht := hinv.table_holds p f0 hfind
  have hlen := hinv.pages_len
  have hinv2 := BufferPoolManager.writeData_inv hinv f0 data ht.1 ht.2.1
  have hpg2 := BufferPoolManager.writeData_frame cfg b f0 data ht.1 (by rw [hlen]; exact ht.2.1)
  have hpg2' := hpg2 f0 ht.1
  rw [if_pos rfl] at hpg2'
  have hfind2 : UMap.find (BufferPoolManager.writeData cfg b f0 data).page_table_ p = some f0 :=
    hfind
  have hU := BufferPoolManager.UnpinPage_frame hinv2 p f0 true hfind2
    (by rw [hpg2']; show 0 < (BufferPoolManager.page cfg b f0).pin_count_; rw [hpin1]; decide)
  have hpg3 := hU.2 f0 ht.1
  rw [if_pos rfl, hpg2'] at hpg3
  refine ⟨⟨BufferPoolManager.UnpinPage_inv hinv2 _ _, hcat, ?_⟩, ?_, ?_⟩
  · intro g hg
    rw [hU.1] at hg
    have hg' : UMap.find b.page_table_ x.CATALOG_META_PAGE_ID = some g := hg
    have htg := hinv.table_holds _ g hg'
    have hgf : g ≠ f0 := by
      intro c
      rw [c, ht.2.2.1] at htg
      exact hne htg.2.2.1
    rw [hU.2 g htg.1, if_neg hgf, hpg2 g htg.1, if_neg hgf]
    exact hpin g hg'
  · rw [hU.1]; exact hfind
  · rw [hpg3]
    show (BufferPoolManager.page cfg b f0).pin_count_ - 1 = 0
    rw [hpin1]
    decide

end CatalogManager

namespace UMap

theorem find_emplace_fresh {K V : Type} [DecidableEq K] (m : List (K × V)) (k k' : K) (v : V)
    (h : find m k = none) : find (emplace m k v) k' = if k' = k then some v else find m k' := by
  rw [emplace_of_none m k v h]
  by_cases hk : k' = k
  · rw [if_pos hk, hk]; simp only [find, if_true]
  · rw [if_neg hk]; simp only [find, if_neg (Ne.symm hk)]

end UMap

namespace CatalogManager

theorem CreateTable_success_inv (cfg : Config) (x : Collab) (s : CatalogManager)
    (table_name : List Nat) (schema : Schema) (info : Option TableInfo) (s' : CatalogManager)
    (h : CreateTable cfg x s table_name schema = some (.DB_SUCCESS, info, s')) :
    UMap.count s.table_names_ table_name = 0 ∧
    ∃ frame, (BufferPoolManager.NewPage cfg s.buffer_pool_manager_).2.1 = some frame := by
  unfold CreateTable at h
  by_cases hc : UMap.count s.table_names_ table_name ≠ 0
  · rw [if_pos hc] at h
    cases h
  · rw [if_neg hc] at h
    refine ⟨not_not.1 hc, ?_⟩
    cases hf : (BufferPoolManager.NewPage cfg s.buffer_pool_manager_).2.1 with
    | none => simp only [hf] at h; cases h
    | some frame => exact ⟨frame, rfl⟩

/-- A successful `CreateTable` keeps the views of the tables and of the indexes
in agreement, unless the table id counter wraps. -/
theorem CreateTable_views (cfg : Config) (x : Collab) (s : CatalogManager)
    (table_name : List Nat) (schema : Schema) (info : Option TableInfo) (s' : CatalogManager)
    (h : CreateTable cfg x s table_name schema = some (.DB_SUCCESS, info, s'))
    (hwrap : s.next_table_id_ + 1 < 2 ^ 32)
    (hg : TableViews s ∧ IndexViews s ∧ Distinct s) :
    TableViews s' ∧ IndexViews s' ∧ Distinct s' := by
  obtain ⟨hc, frame, hframe⟩ := CreateTable_success_inv cfg x s table_name schema info s' h
  rw [CreateTable_found cfg x s table_name schema frame hc hframe] at h
  simp only [] at h
  split at h
  · cases h
  next f hf =>
  simp only [Option.some.injEq, Prod.mk.injEq, true_and] at h
  obtain ⟨_, hs'⟩ := h
  subst hs'
  obtain ⟨hT, hI, hD⟩ := hg
  have hnone : UMap.find s.table_names_ table_name = none :=
    (UMap.count_eq_zero_iff_find _ _).1 hc
  have hu : u32 (s.next_table_id_ + 1) = s.next_table_id_ + 1 := by
    unfold u32 table_id_t at *
    exact Nat.mod_eq_of_lt hwrap
  have hnew : ∀ n id, UMap.find (UMap.emplace s.table_names_ table_name s.next_table_id_) n
      = some id ↔ (n = table_name ∧ id = s.next_table_id_) ∨
        (n ≠ table_name ∧ UMap.find s.table_names_ n = some id) := by
    intro n id
    rw [UMap.find_emplace_fresh _ _ _ _ hnone]
    by_cases hn : n = table_name
    · rw [if_pos hn]
      constructor
      · intro e; exact Or.inl ⟨hn, (Option.some.inj e).symm⟩
      · rintro (⟨_, e⟩ | ⟨c, _⟩)
        · rw [e]
        · exact absurd hn c
    · rw [if_neg hn]
      constructor
      · intro e; exact Or.inr ⟨hn, e⟩
      · rintro (⟨c, _⟩ | ⟨_, e⟩)
        · exact absurd c hn
        · exact e
  have hold : ∀ n id, UMap.find s.table_names_ n = some id → id < s.next_table_id_ :=
    fun n id e => hD.table_fresh id ((hT.2 id).2 ⟨n, e⟩)
  refine ⟨⟨?_, ?_⟩, hI, ⟨?_, hD.index_names, ?_, hD.index_fresh⟩⟩
  · intro id
    show id ∈ UMap.keys (UMap.emplace s.tables_ _ _) ↔
      id ∈ UMap.keys (CatalogMeta.emplace s.catalog_meta_.table_meta_pages_ _ _)
    rw [UMap.mem_keys_emplace, CatalogMeta.mem_keys_emplace_sorted, hT.1 id]
  · intro id
    show id ∈ UMap.keys (UMap.emplace s.tables_ _ _) ↔
      ∃ n, UMap.find (UMap.emplace s.table_names_ table_name s.next_table_id_) n = some id
    rw [UMap.mem_keys_emplace, hT.2 id]
    constructor
    · rintro (e | ⟨n, hn⟩)
      · exact ⟨table_name, (hnew _ _).2 (Or.inl ⟨rfl, e⟩)⟩
      · refine ⟨n, (hnew _ _).2 (Or.inr ⟨?_, hn⟩)⟩
        rintro rfl
        rw [hnone] at hn
        cases hn
    · rintro ⟨n, hn⟩
      rcases (hnew _ _).1 hn with ⟨_, e⟩ | ⟨_, e⟩
      · exact Or.inl e
      · exact Or.inr ⟨n, e⟩
  · intro n1 n2 id h1 h2
    have h1' : UMap.find (UMap.emplace s.table_names_ table_name s.next_table_id_) n1
        = some id := h1
    have h2' : UMap.find (UMap.emplace s.table_names_ table_name s.next_table_id_) n2
        = some id := h2
    rcases (hnew _ _).1 h1' with ⟨e1, i1⟩ | ⟨_, e1⟩ <;>
      rcases (hnew _ _).1 h2' with ⟨e2, i2⟩ | ⟨_, e2⟩
    · rw [e1, e2]
    · have := hold n2 id e2
      rw [i1] at this
      exact absurd this (lt_irrefl _)
    · have := hold n1 id e1
      rw [i2] at this
      exact absurd this (lt_irrefl _)
    · exact hD.table_names n1 n2 id e1 e2
  · intro id hid
    have hid' : id ∈ UMap.keys (UMap.emplace s.tables_ s.next_table_id_ _) := hid
    show id < u32 (s.next_table_id_ + 1)
    rw [hu]
    rcases (UMap.mem_keys_emplace _ _ _ _).1 hid' with e | e
    · rw [e]; exact Nat.lt_succ_self _
    · exact Nat.lt_succ_of_lt (hD.table_fresh id e)

end CatalogManager

namespace CatalogManager

theorem CreateIndex_success_inv (cfg : Config) (x : Collab) (s : CatalogManager)
    (table_name index_name : List Nat) (index_keys : List (List Nat))
    (info : Option IndexInfo) (s' : CatalogManager)
    (h : CreateIndex cfg x s table_name index_name index_keys = some (.DB_SUCCESS, info, s')) :
    ∃ (table_id : Nat) (table_info : TableInfo) (key_map : List Nat) (frame : Int),
      UMap.find s.table_names_ table_name = some table_id ∧
      UMap.find s.tables_ table_id = some table_info ∧
      UMap.count ((UMap.find s.index_names_ table_name).getD []) index_name = 0 ∧
      resolveKeys x table_info.GetSchema index_keys [] = some key_map ∧
      key_map ≠ [] ∧
      (BufferPoolManager.NewPage cfg s.buffer_pool_manager_).2.1 = some frame := by
  cases ht : UMap.find s.table_names_ table_name with
  | none =>
    have hc : UMap.count s.table_names_ table_name = 0 := (UMap.count_eq_zero_iff_find _ _).2 ht
    unfold CreateIndex at h
    rw [if_pos hc] at h
    cases h
  | some table_id =>
    have hc : ¬ UMap.count s.table_names_ table_name = 0 := by
      rw [UMap.count_eq_zero_iff_find, ht]; exact fun e => Option.noConfusion e
    by_cases hidx : UMap.count ((UMap.find s.index_names_ table_name).getD []) index_name = 0
    · cases hi : UMap.find s.tables_ table_id with
      | none =>
        have hidx' : ¬ UMap.count
            ((UMap.find (UMap.emplace s.index_names_ table_name []) table_name).getD [])
            index_name ≠ 0 := by
          rw [UMap.find_emplace_default]; simp [hidx]
        unfold CreateIndex at h
        rw [if_neg hc] at h
        simp only [hidx', if_false, ht, Option.some_bind, hi] at h
        cases h
      | some table_info =>
        rw [CreateIndex_found cfg x s table_name index_name index_keys table_id table_info ht hi
          hidx] at h
        cases hr : resolveKeys x table_info.GetSchema index_keys [] with
        | none => simp only [hr] at h; cases h
        | some key_map =>
          simp only [hr] at h
          by_cases hk : key_map = []
          · rw [if_pos hk] at h; cases h
          · rw [if_neg hk] at h
            cases hf : (BufferPoolManager.NewPage cfg s.buffer_pool_manager_).2.1 with
            | none => simp only [hf] at h; cases h
            | some frame => exact ⟨table_id, table_info, key_map, frame, rfl, hi, hidx, hr, hk, rfl⟩
    · have hidx' : UMap.count
          ((UMap.find (UMap.emplace s.index_names_ table_name []) table_name).getD [])
          index_name ≠ 0 := by
        rw [UMap.find_emplace_default]; exact hidx
      unfold CreateIndex at h
      rw [if_neg hc, if_pos hidx'] at h
      cases h

/-- A successful `CreateIndex` keeps the views of the tables and of the indexes
in agreement, unless the index id counter wraps. -/
theorem CreateIndex_views (cfg : Config) (x : Collab) (s : CatalogManager)
    (table_name index_name : List Nat) (index_keys : List (List Nat))
    (info : Option IndexInfo) (s' : CatalogManager)
    (h : CreateIndex cfg x s table_name index_name index_keys = some (.DB_SUCCESS, info, s'))
    (hwrap : s.next_index_id_ + 1 < 2 ^ 32)
    (hg : TableViews s ∧ IndexViews s ∧ Distinct s) :
    TableViews s' ∧ IndexViews s' ∧ Distinct s' := by
  obtain ⟨table_id, table_info, key_map, frame, ht, hi, hidx, hr, hk, hframe⟩ :=
    CreateIndex_success_inv cfg x s table_name index_name index_keys info s' h
  rw [CreateIndex_found cfg x s table_name index_name index_keys table_id table_info ht hi
    hidx] at h
  simp only [hr, if_neg hk, hframe] at h
  split at h
  · cases h
  next f hf =>
  simp only [Option.some.injEq, Prod.mk.injEq, true_and] at h
  obtain ⟨_, hs'⟩ := h
  subst hs'
  obtain ⟨hT, hI, hD⟩ := hg
  have hnone : UMap.find (indexNames s table_name) index_name = none :=
    (UMap.count_eq_zero_iff_find _ _).1 hidx
  have hu : u32 (s.next_index_id_ + 1) = s.next_index_id_ + 1 := by
    unfold u32 index_id_t at *
    exact Nat.mod_eq_of_lt hwrap
  have hdef : (UMap.find (UMap.emplace s.index_names_ table_name []) table_name).getD []
      = indexNames s table_name := UMap.find_emplace_default _ _ _
  have hnew : ∀ t n id,
      UMap.find
        ((UMap.find
          (UMap.insert (UMap.emplace s.index_names_ table_name []) table_name
            (UMap.emplace
              ((UMap.find (UMap.emplace s.index_names_ table_name []) table_name).getD [])
              index_name s.next_index_id_)) t).getD []) n = some id ↔
      (t = table_name ∧ n = index_name ∧ id = s.next_index_id_) ∨
        (¬ (t = table_name ∧ n = index_name) ∧ UMap.find (indexNames s t) n = some id) := by
    intro t n id
    rw [UMap.find_insert, hdef]
    by_cases htn : t = table_name
    · rw [if_pos htn, Option.getD_some, UMap.find_emplace_fresh _ _ _ _ hnone]
      by_cases hn : n = index_name
      · rw [if_pos hn]
        constructor
        · intro e; exact Or.inl ⟨htn, hn, (Option.some.inj e).symm⟩
        · rintro (⟨_, _, e⟩ | ⟨c, _⟩)
          · rw [e]
          · exact absurd ⟨htn, hn⟩ c
      · rw [if_neg hn, htn]
        constructor
        · intro e; exact Or.inr ⟨fun c => hn c.2, e⟩
        · rintro (⟨_, c, _⟩ | ⟨_, e⟩)
          · exact absurd c hn
          · exact e
    · rw [if_neg htn, UMap.find_emplace_ne _ _ htn]
      constructor
      · intro e; exact Or.inr ⟨fun c => htn c.1, e⟩
      · rintro (⟨c, _, _⟩ | ⟨_, e⟩)
        · exact absurd c htn
        · exact e
  have hold : ∀ t n id, UMap.find (indexNames s t) n = some id → id < s.next_index_id_ :=
    fun t n id e => hD.index_fresh id ((hI.2 id).2 ⟨t, n, e⟩)
  refine ⟨hT, ⟨?_, ?_⟩, ⟨hD.table_names, ?_, hD.table_fresh, ?_⟩⟩
  · intro id
    show id ∈ UMap.keys (UMap.emplace s.indexes_ _ _) ↔
      id ∈ UMap.keys (CatalogMeta.emplace s.catalog_meta_.index_meta_pages_ _ _)
    rw [UMap.mem_keys_emplace, CatalogMeta.mem_keys_emplace_sorted, hI.1 id]
  · intro id
    show id ∈ UMap.keys (UMap.emplace s.indexes_ _ _) ↔ ∃ t n, _
    rw [UMap.mem_keys_emplace, hI.2 id]
    constructor
    · rintro (e | ⟨t, n, hn⟩)
      · exact ⟨table_name, index_name, (hnew _ _ _).2 (Or.inl ⟨rfl, rfl, e⟩)⟩
      · refine ⟨t, n, (hnew _ _ _).2 (Or.inr ⟨?_, hn⟩)⟩
        rintro ⟨rfl, rfl⟩
        rw [hnone] at hn
        cases hn
    · rintro ⟨t, n, hn⟩
      rcases (hnew _ _ _).1 hn with ⟨_, _, e⟩ | ⟨_, e⟩
      · exact Or.inl e
      · exact Or.inr ⟨t, n, e⟩
  · intro t1 n1 t2 n2 id h1 h2
    rcases (hnew _ _ _).1 h1 with ⟨e1, m1, i1⟩ | ⟨_, e1⟩ <;>
      rcases (hnew _ _ _).1 h2 with ⟨e2, m2, i2⟩ | ⟨_, e2⟩
    · exact ⟨by rw [e1, e2], by rw [m1, m2]⟩
    · have := hold t2 n2 id e2
      rw [i1] at this
      exact absurd this (lt_irrefl _)
    · have := hold t1 n1 id e1
      rw [i2] at this
      exact absurd this (lt_irrefl _)
    · exact hD.index_names t1 n1 t2 n2 id e1 e2
  · intro id hid
    have hid' : id ∈ UMap.keys (UMap.emplace s.indexes_ s.next_index_id_ _) := hid
    show id < u32 (s.next_index_id_ + 1)
    rw [hu]
    rcases (UMap.mem_keys_emplace _ _ _ _).1 hid' with e | e
    · rw [e]; exact Nat.lt_succ_self _
    · exact Nat.lt_succ_of_lt (hD.index_fresh id e)

end CatalogManager

namespace CatalogManager

/-- The two ways in which `DropTable` returns: without a change when the table
is not found, or after the indexes found on the table have been dropped and
the table erased. -/
theorem DropTable_cases (cfg : Config) (x : Collab) (s : CatalogManager)
    (table_name : List Nat) (res : dberr_t × CatalogManager)
    (h : DropTable cfg x s table_name = some res) :
    (UMap.find s.table_names_ table_name = none ∧ res = (.DB_TABLE_NOT_EXIST, s)) ∨
    ∃ (table_id : Nat) (out : dberr_t × List IndexInfo) (s1 : CatalogManager) (t : TableInfo)
        (f : dberr_t × BufferPoolManager),
      UMap.find s.table_names_ table_name = some table_id ∧
      dropIndexes cfg x table_name out.2 s = some s1 ∧
      UMap.find s1.tables_ table_id = some t ∧
      FlushCatalogMetaPage cfg x
        { s1 with
          buffer_pool_manager_ := x.FreeTableHeap
            (BufferPoolManager.DeletePage cfg s1.buffer_pool_manager_
              ((UMap.find s1.catalog_meta_.table_meta_pages_ table_id).getD 0)).2 t.table_heap_,
          catalog_meta_ :=
            { s1.catalog_meta_ with
              table_meta_pages_ := UMap.erase s1.catalog_meta_.table_meta_pages_ table_id },
          tables_ := UMap.erase s1.tables_ table_id,
          table_names_ := UMap.erase s1.table_names_ table_name } = some f ∧
      res = (f.1,
        { s1 with
          buffer_pool_manager_ := f.2,
          catalog_meta_ :=
            { s1.catalog_meta_ with
              table_meta_pages_ := UMap.erase s1.catalog_meta_.table_meta_pages_ table_id },
          tables_ := UMap.erase s1.tables_ table_id,
          table_names_ := UMap.erase s1.table_names_ table_name }) := by
  cases hn : UMap.find s.table_names_ table_name with
  | none =>
    left
    simp only [DropTable, hn, Option.some.injEq] at h
    exact ⟨rfl, h.symm⟩
  | some table_id =>
    right
    cases hout : GetTableIndexes s table_name with
    | none => simp only [DropTable, hn, hout] at h; cases h
    | some out =>
      cases hs1 : dropIndexes cfg x table_name out.2 s with
      | none => simp only [DropTable, hn, hout, hs1] at h; cases h
      | some s1 =>
        cases ht : UMap.find s1.tables_ table_id with
        | none => simp only [DropTable, hn, hout, hs1, ht] at h; cases h
        | some t =>
          simp only [DropTable, hn, hout, hs1, ht] at h
          obtain ⟨f, hf, hres⟩ := Option.map_eq_some'.1 h
          exact ⟨table_id, out, s1, t, f, rfl, hs1, ht, hf, hres.symm⟩

/-- `DropTable` keeps the views in agreement, whatever it returns. -/
theorem DropTable_views (cfg : Config) (x : Collab) (s : CatalogManager)
    (table_name : List Nat) (res : dberr_t × CatalogManager)
    (h : DropTable cfg x s table_name = some res)
    (hg : TableViews s ∧ IndexViews s ∧ Distinct s) :
    TableViews res.2 ∧ IndexViews res.2 ∧ Distinct res.2 := by
  rcases DropTable_cases cfg x s table_name res h with ⟨_, rfl⟩ |
    ⟨table_id, out, s1, t, f, hn, hs1, _, _, rfl⟩
  · exact hg
  · obtain ⟨hT, hI, hD⟩ := dropIndexes_views cfg x table_name out.2 s s1 hs1 hg
    have hd := dropIndexes_dropped cfg x table_name out.2 s s1 hs1
    have hn1 : UMap.find s1.table_names_ table_name = some table_id := by
      rw [hd.table_names]; exact hn
    refine ⟨⟨?_, ?_⟩, hI, ⟨?_, hD.index_names, ?_, hD.index_fresh⟩⟩
    · intro id
      show id ∈ UMap.keys (UMap.erase s1.tables_ table_id) ↔
        id ∈ UMap.keys (UMap.erase s1.catalog_meta_.table_meta_pages_ table_id)
      rw [UMap.mem_keys_erase, UMap.mem_keys_erase, hT.1 id]
    · intro id
      show id ∈ UMap.keys (UMap.erase s1.tables_ table_id) ↔
        ∃ n, UMap.find (UMap.erase s1.table_names_ table_name) n = some id
      rw [UMap.mem_keys_erase, hT.2 id]
      constructor
      · rintro ⟨⟨n, hf⟩, hne⟩
        refine ⟨n, ?_⟩
        rw [UMap.find_erase, if_neg, hf]
        rintro rfl
        rw [hn1] at hf
        exact hne (Option.some.inj hf).symm
      · rintro ⟨n, hf⟩
        rw [UMap.find_erase] at hf
        split at hf
        · cases hf
        next hnn =>
        refine ⟨⟨n, hf⟩, ?_⟩
        rintro rfl
        exact hnn (hD.table_names n table_name id hf hn1)
    · intro n1 n2 id h1 h2
      have h1' : UMap.find (UMap.erase s1.table_names_ table_name) n1 = some id := h1
      have h2' : UMap.find (UMap.erase s1.table_names_ table_name) n2 = some id := h2
      rw [UMap.find_erase] at h1' h2'
      split at h1'
      · cases h1'
      split at h2'
      · cases h2'
      exact hD.table_names n1 n2 id h1' h2'
    · intro id hid
      have hid' : id ∈ UMap.keys (UMap.erase s1.tables_ table_id) := hid
      rw [UMap.mem_keys_erase] at hid'
      exact hD.table_fresh id hid'.1

/-- `DropIndex` keeps the pool in order, and after the result `DB_SUCCESS` the
catalog meta page holds the serialisation of `catalog_meta_`. -/
theorem DropIndex_pool (cfg : Config) (x : Collab) (s : CatalogManager)
    (table_name index_name : List Nat) (r : dberr_t × CatalogManager)
    (hp : PoolOK cfg x s.buffer_pool_manager_)
    (h : DropIndex cfg x s table_name index_name = some r) :
    PoolOK cfg x r.2.buffer_pool_manager_ ∧ (r.1 = .DB_SUCCESS → MetaWritten cfg x r.2) := by
  cases h1 : UMap.find s.index_names_ table_name with
  | none =>
    simp only [DropIndex, h1, Option.some.injEq] at h
    subst h
    exact ⟨hp, fun c => by cases c⟩
  | some names =>
    cases h2 : UMap.find names index_name with
    | none =>
      simp only [DropIndex, h1, h2, Option.some.injEq] at h
      subst h
      exact ⟨hp, fun c => by cases c⟩
    | some index_id =>
      rw [DropIndex_found cfg x s table_name index_name names index_id h1 h2] at h
      obtain ⟨f, hf, hres⟩ := Option.map_eq_some'.1 h
      subst hres
      have hF := FlushCatalogMetaPage_pool cfg x _ (DeletePage_pool cfg x _ _ hp) f hf
      exact ⟨hF.1, hF.2.1⟩

theorem dropIndexes_pool (cfg : Config) (x : Collab) (table_name : List Nat)
    (infos : List IndexInfo) : ∀ (s s' : CatalogManager),
    dropIndexes cfg x table_name infos s = some s' →
    PoolOK cfg x s.buffer_pool_manager_ → PoolOK cfg x s'.buffer_pool_manager_ := by
  induction infos with
  | nil =>
    intro s s' h hp
    simp only [dropIndexes, Option.some.injEq] at h
    rw [← h]; exact hp
  | cons info rest ih =>
    intro s s' h hp
    simp only [dropIndexes] at h
    cases hd : DropIndex cfg x s table_name info.GetIndexName with
    | none => simp [hd] at h
    | some r =>
      simp only [hd] at h
      exact ih r.2 s' h (DropIndex_pool cfg x s table_name _ r hp hd).1

/-- `DropTable` keeps the pool in order, and after the result `DB_SUCCESS` the
catalog meta page holds the serialisation of `catalog_meta_`. -/
theorem DropTable_pool (cfg : Config) (x : Collab) (s : CatalogManager)
    (table_name : List Nat) (res : dberr_t × CatalogManager)
    (hp : PoolOK cfg x s.buffer_pool_manager_) (hx : Friendly cfg x)
    (h : DropTable cfg x s table_name = some res) :
    PoolOK cfg x res.2.buffer_pool_manager_ ∧
    (res.1 = .DB_SUCCESS → MetaWritten cfg x res.2) := by
  rcases DropTable_cases cfg x s table_name res h with ⟨_, rfl⟩ |
    ⟨table_id, out, s1, t, f, hn, hs1, _, hf, rfl⟩
  · exact ⟨hp, fun c => by cases c⟩
  · have hp1 := dropIndexes_pool cfg x table_name out.2 s s1 hs1 hp
    have hF := FlushCatalogMetaPage_pool cfg x _
      (hx.free_heap _ t.table_heap_ (DeletePage_pool cfg x _ _ hp1)) f hf
    exact ⟨hF.1, hF.2.1⟩

/-- A successful `CreateTable` on a pool in order, when the page that `NewPage`
hands out is not the catalog meta page: the pool stays in order and the
catalog meta page holds the serialisation of `catalog_meta_` (the flush at the
end cannot fail, since the page of the table metadata has just been
unpinned). -/
theorem CreateTable_pool (cfg : Config) (x : Collab) (s : CatalogManager)
    (table_name : List Nat) (schema : Schema) (info : Option TableInfo) (s' : CatalogManager)
    (hp : PoolOK cfg x s.buffer_pool_manager_) (hx : Friendly cfg x)
    (hadm : BufferPoolManager.Admissible cfg s.buffer_pool_manager_ .newPage)
    (hne : (BufferPoolManager.NewPage cfg s.buffer_pool_manager_).1 ≠ x.CATALOG_META_PAGE_ID)
    (h : CreateTable cfg x s table_name schema = some (.DB_SUCCESS, info, s')) :
    PoolOK cfg x s'.buffer_pool_manager_ ∧ MetaWritten cfg x s' := by
  obtain ⟨hc, frame, hframe⟩ := CreateTable_success_inv cfg x s table_name schema info s' h
  rw [CreateTable_found cfg x s table_name schema frame hc hframe] at h
  simp only [] at h
  split at h
  · cases h
  next f hf =>
  simp only [Option.some.injEq, Prod.mk.injEq, true_and] at h
  obtain ⟨_, hs'⟩ := h
  subst hs'
  have hN := BufferPoolManager.NewPage_frame hp.1 hadm frame hframe
  have hp1 := NewPage_pool cfg x _ hp hadm frame hframe hne
  have hH := hx.heap_create _ (x.DeepCopySchema schema) hp1
  have hH2 := hH.2 _ frame hN.1 (by rw [hN.2.1]; decide)
  have hR := register_pool cfg x _ _ frame
    (x.TableMetadata_SerializeTo
      ⟨s.next_table_id_, table_name, (BufferPoolManager.NewPage cfg s.buffer_pool_manager_).1,
        x.DeepCopySchema schema⟩
      (BufferPoolManager.page cfg
        (x.TableHeap_Create (BufferPoolManager.NewPage cfg s.buffer_pool_manager_).2.2
          (x.DeepCopySchema schema)).2 frame).data_)
    hH.1 hH2.1 (by rw [hH2.2]; exact hN.2.1) hne
  have hF := FlushCatalogMetaPage_pool cfg x _ hR.1 f hf
  exact ⟨hF.1, hF.2.1 (hF.2.2 ⟨_, frame, hR.2.1, hR.2.2⟩)⟩

/-- A successful `CreateIndex` on a pool in order, when the page that `NewPage`
hands out is not the catalog meta page: the pool stays in order and the
catalog meta page holds the serialisation of `catalog_meta_`. -/
theorem CreateIndex_pool (cfg : Config) (x : Collab) (s : CatalogManager)
    (table_name index_name : List Nat) (index_keys : List (List Nat))
    (info : Option IndexInfo) (s' : CatalogManager)
    (hp : PoolOK cfg x s.buffer_pool_manager_) (hx : Friendly cfg x)
    (hadm : BufferPoolManager.Admissible cfg s.buffer_pool_manager_ .newPage)
    (hne : (BufferPoolManager.NewPage cfg s.buffer_pool_manager_).1 ≠ x.CATALOG_META_PAGE_ID)
    (h : CreateIndex cfg x s table_name index_name index_keys = some (.DB_SUCCESS, info, s')) :
    PoolOK cfg x s'.buffer_pool_manager_ ∧ MetaWritten cfg x s' := by
  obtain ⟨table_id, table_info, key_map, frame, ht, hi, hidx, hr, hk, hframe⟩ :=
    CreateIndex_success_inv cfg x s table_name index_name index_keys info s' h
  rw [CreateIndex_found cfg x s table_name index_name index_keys table_id table_info ht hi
    hidx] at h
  simp only [hr, if_neg hk, hframe] at h
  split at h
  · cases h
  next f hf =>
  simp only [Option.some.injEq, Prod.mk.injEq, true_and] at h
  obtain ⟨_, hs'⟩ := h
  subst hs'
  have hN := BufferPoolManager.NewPage_frame hp.1 hadm frame hframe
  have hp1 := NewPage_pool cfg x _ hp hadm frame hframe hne
  have hH := hx.index_init _ ⟨s.next_index_id_, index_name, table_info.GetTableId, key_map⟩
    table_info hp1
  have hH2 := hH.2 _ frame hN.1 (by rw [hN.2.1]; decide)
  have hR := register_pool cfg x _ _ frame
    (x.IndexMetadata_SerializeTo
      ⟨s.next_index_id_, index_name, table_info.GetTableId, key_map⟩
      (BufferPoolManager.page cfg
        (x.IndexInfo_Init (BufferPoolManager.NewPage cfg s.buffer_pool_manager_).2.2
          ⟨s.next_index_id_, index_name, table_info.GetTableId, key_map⟩ table_info)
        frame).data_)
    hH.1 hH2.1 (by rw [hH2.2]; exact hN.2.1) hne
  have hF := FlushCatalogMetaPage_pool cfg x _ hR.1 f hf
  exact ⟨hF.1, hF.2.1 (hF.2.2 ⟨_, frame, hR.2.1, hR.2.2⟩)⟩

end CatalogManager

namespace CatalogManager

theorem new_views (cfg : Config) (x : Collab) (b : BufferPoolManager) (s0 : CatalogManager)
    (h : CatalogManager.new cfg x b true = some s0) :
    TableViews s0 ∧ IndexViews s0 ∧ Distinct s0 := by
  simp only [CatalogManager.new, if_true, loadTables, loadIndexes] at h
  obtain ⟨f, _, hs⟩ := Option.map_eq_some'.1 h
  subst hs
  refine ⟨⟨fun id => Iff.rfl, ?_⟩, ⟨fun id => Iff.rfl, ?_⟩, ⟨?_, ?_, ?_, ?_⟩⟩
  · intro id
    constructor
    · intro hm; cases hm
    · rintro ⟨n, hn⟩; cases hn
  · intro id
    constructor
    · intro hm; cases hm
    · rintro ⟨t, n, hn⟩; cases hn
  · intro n1 n2 id h1; cases h1
  · intro t1 n1 t2 n2 id h1; cases h1
  · intro id hm; cases hm
  · intro id hm; cases hm

theorem Friendly_simple (cfg : Config) : Friendly cfg Collab.simple :=
  { heap_create := fun _ _ h => ⟨h, fun _ _ hf _ => ⟨hf, rfl⟩⟩,
    index_init := fun _ _ _ h => ⟨h, fun _ _ hf _ => ⟨hf, rfl⟩⟩,
    free_heap := fun _ _ h => h }

theorem emptyCatalog_pool : PoolOK Config.default Collab.simple emptyCatalog.buffer_pool_manager_ := by
  refine ⟨?_, by decide, ?_⟩
  · exact BufferPoolManager.run_inv_pool [.newPage, .unpin 0 true, .newPage, .unpin 1 true]
      (BufferPoolManager.Inv_new_pool Config.default 4 (DiskManager.openEmpty Config.default))
      ⟨by intro _; decide!, trivial, by intro _; decide!, trivial, trivial⟩
  · intro f hf
    have e : UMap.find emptyCatalog.buffer_pool_manager_.page_table_
        Collab.simple.CATALOG_META_PAGE_ID = some 0 := by decide!
    rw [e] at hf
    cases hf
    decide!

theorem emptyCatalog_views :
    TableViews emptyCatalog ∧ IndexViews emptyCatalog ∧ Distinct emptyCatalog := by
  refine ⟨⟨fun id => Iff.rfl, ?_⟩, ⟨fun id => Iff.rfl, ?_⟩, ⟨?_, ?_, ?_, ?_⟩⟩
  · intro id
    constructor
    · intro hm; cases hm
    · rintro ⟨n, hn⟩; cases hn
  · intro id
    constructor
    · intro hm; cases hm
    · rintro ⟨t, n, hn⟩; cases hn
  · intro n1 n2 id h1; cases h1
  · intro t1 n1 t2 n2 id h1; cases h1
  · intro id hm; cases hm
  · intro id hm; cases hm

end CatalogManager

/-! ### `Column` and `Schema` -/

theorem writeAt_of_length (out : List Nat) (off : Nat) (bytes : List Nat)
    (h : out.length = off) : writeAt out off bytes = out ++ bytes := by
  subst h
  simp [writeAt]

theorem drop_MACH_WRITE_UINT32 (v : Nat) (rest : List Nat) :
    (MACH_WRITE_UINT32 v ++ rest).drop 4 = rest := rfl

theorem drop_MACH_WRITE_UINT32_add (v k : Nat) (rest : List Nat) :
    (MACH_WRITE_UINT32 v ++ rest).drop (4 + k) = rest.drop k := by
  rw [← List.drop_drop]
  rfl

theorem MACH_READ_WRITE_BOOL (b : Bool) (rest : List Nat) :
    MACH_READ_BOOL (MACH_WRITE_BOOL b ++ rest) = b := by
  cases b <;> simp [MACH_READ_BOOL, MACH_WRITE_BOOL]

theorem drop_MACH_WRITE_BOOL (b : Bool) (rest : List Nat) :
    (MACH_WRITE_BOOL b ++ rest).drop 1 = rest := rfl

theorem TypeId.ofUInt32_toUInt32 (t : TypeId) : TypeId.ofUInt32 (TypeId.toUInt32 t) = t := by
  cases t <;> rfl

theorem TypeId.toUInt32_lt (t : TypeId) : TypeId.toUInt32 t < 2 ^ 32 := by
  cases t <;> decide

theorem u32_of_lt (n : Nat) (h : n < 2 ^ 32) : u32 n = n := Nat.mod_eq_of_lt h

namespace Column

theorem SerializeTo_eq (COLUMN_MAGIC_NUM : Nat) (c : Column) (hn : c.name_.length < 2 ^ 32)
    (hs : 22 + c.name_.length < 2 ^ 32) :
    SerializeTo COLUMN_MAGIC_NUM c =
      (22 + c.name_.length,
        MACH_WRITE_UINT32 COLUMN_MAGIC_NUM ++ (MACH_WRITE_UINT32 c.name_.length ++ (c.name_ ++
          (MACH_WRITE_UINT32 (TypeId.toUInt32 c.type_) ++ (MACH_WRITE_UINT32 c.len_ ++
            (MACH_WRITE_UINT32 c.table_ind_ ++
              (MACH_WRITE_BOOL c.nullable_ ++ MACH_WRITE_BOOL c.unique_))))))) := by
  unfold SerializeTo
  simp only [u32_of_lt _ hn]
  rw [writeAt_of_length [] 0 _ rfl]
  rw [writeAt_of_length _ 4 _ (by simp [MACH_WRITE_UINT32_length])]
  rw [writeAt_of_length _ (4 + 4) _ (by simp [MACH_WRITE_UINT32_length])]
  rw [writeAt_of_length _ (4 + 4 + c.name_.length) _ (by simp [MACH_WRITE_UINT32_length]; omega)]
  rw [writeAt_of_length _ (4 + 4 + c.name_.length + 4) _ (by simp [MACH_WRITE_UINT32_length]; omega)]
  rw [writeAt_of_length _ (4 + 4 + c.name_.length + 4 + 4) _
    (by simp [MACH_WRITE_UINT32_length]; omega)]
  rw [writeAt_of_length _ (4 + 4 + c.name_.length + 4 + 4 + 4) _
    (by simp [MACH_WRITE_UINT32_length]; omega)]
  rw [writeAt_of_length _ (4 + 4 + c.name_.length + 4 + 4 + 4 + 1) _
    (by simp [MACH_WRITE_UINT32_length, MACH_WRITE_BOOL]; omega)]
  refine Prod.ext ?_ ?_
  · show u32 _ = _
    rw [u32_of_lt _ (by omega)]
    omega
  · simp only [List.nil_append, List.append_assoc]

theorem SerializeTo_length (COLUMN_MAGIC_NUM : Nat) (c : Column) (hn : c.name_.length < 2 ^ 32)
    (hs : 22 + c.name_.length < 2 ^ 32) :
    (SerializeTo COLUMN_MAGIC_NUM c).2.length = 22 + c.name_.length := by
  rw [SerializeTo_eq COLUMN_MAGIC_NUM c hn hs]
  simp only [List.length_append, MACH_WRITE_UINT32_length, MACH_WRITE_BOOL, List.length_cons,
    List.length_nil]
  omega

theorem GetSerializedSize_eq (c : Column) (hs : 22 + c.name_.length < 2 ^ 32) :
    GetSerializedSize c = 22 + c.name_.length := by
  unfold GetSerializedSize u32
  simp only []
  omega

/-- `Column::DeserializeFrom` reads back a column built by a constructor. -/
theorem DeserializeFrom_SerializeTo (COLUMN_MAGIC_NUM uninit : Nat) (c : Column)
    (hm : COLUMN_MAGIC_NUM < 2 ^ 32) (hb : Built c) (hs : 22 + c.name_.length < 2 ^ 32)
    (rest : List Nat) :
    DeserializeFrom COLUMN_MAGIC_NUM uninit ((SerializeTo COLUMN_MAGIC_NUM c).2 ++ rest)
      = (22 + c.name_.length, some c) := by
  obtain ⟨_, hn, hi, hty⟩ := hb
  rw [SerializeTo_eq COLUMN_MAGIC_NUM c hn hs]
  have hl : c.len_ < 2 ^ 32 := by
    rcases hty with ⟨_, h, _⟩ | ⟨_, h⟩
    · exact h
    · rw [h]
      rcases c with ⟨n, t, l, i, a, b⟩
      cases t <;> simp [new]
  unfold DeserializeFrom
  simp only [List.append_assoc, Nat.add_assoc]
  simp only [MACH_READ_WRITE_UINT32 _ hm, ne_eq, not_true_eq_false, if_false,
    drop_MACH_WRITE_UINT32, drop_MACH_WRITE_UINT32_add, MACH_READ_WRITE_UINT32 _ hn,
    List.take_left, List.drop_append, MACH_READ_WRITE_UINT32 _ (TypeId.toUInt32_lt _),
    MACH_READ_WRITE_UINT32 _ hl, MACH_READ_WRITE_UINT32 _ hi, List.drop_left,
    TypeId.ofUInt32_toUInt32, MACH_READ_WRITE_BOOL, drop_MACH_WRITE_BOOL]
  refine Prod.ext ?_ ?_
  · show u32 _ = _
    rw [u32_of_lt _ (by omega)]
    omega
  · show some _ = some c
    rcases hty with ⟨ht, _, h⟩ | ⟨ht, h⟩
    · rw [if_pos ht]
      exact congrArg some h.symm
    · have hne : ¬ c.type_ = .kTypeChar := by
        rcases ht with e | e <;> rw [e] <;> decide
      rw [if_neg hne]
      refine congrArg some ?_
      rw [h]
      rcases ht with e | e <;> simp [new, e]

end Column

namespace Schema

theorem serializeColumns_eq (COLUMN_MAGIC_NUM : Nat) (cols : List Column) :
    ∀ (acc : Nat × List Nat), (∀ c ∈ cols, 22 + c.name_.length < 2 ^ 32) →
    acc.2.length = acc.1 →
    serializeColumns COLUMN_MAGIC_NUM cols acc =
      (acc.1 + (cols.map (fun c => 22 + c.name_.length)).sum,
        acc.2 ++ (cols.map (fun c => (Column.SerializeTo COLUMN_MAGIC_NUM c).2)).flatten) := by
  induction cols with
  | nil => intro acc _ _; simp [serializeColumns]
  | cons c rest ih =>
    intro acc hs hlen
    have hc := hs c (List.mem_cons_self _ _)
    have hn : c.name_.length < 2 ^ 32 := by omega
    have e1 : (Column.SerializeTo COLUMN_MAGIC_NUM c).1 = 22 + c.name_.length := by
      rw [Column.SerializeTo_eq COLUMN_MAGIC_NUM c hn hc]
    simp only [serializeColumns]
    rw [ih _ (fun d hd => hs d (List.mem_cons_of_mem _ hd))
      (by
        show (writeAt acc.2 acc.1 _).length = acc.1 + _
        rw [writeAt_of_length _ _ _ hlen, List.length_append,
          Column.SerializeTo_length COLUMN_MAGIC_NUM c hn hc, e1, hlen])]
    refine Prod.ext ?_ ?_
    · show acc.1 + _ + _ = _
      rw [e1, List.map_cons, List.sum_cons]
      omega
    · show writeAt acc.2 acc.1 _ ++ _ = acc.2 ++ _
      rw [writeAt_of_length _ _ _ hlen]
      simp only [List.map_cons, List.flatten_cons, List.append_assoc]

theorem deserializeColumns_succ (COLUMN_MAGIC_NUM uninit n : Nat) (buf : List Nat) :
    deserializeColumns COLUMN_MAGIC_NUM uninit (n + 1) buf =
      match (Column.DeserializeFrom COLUMN_MAGIC_NUM uninit buf).2 with
      | none => none
      | some col =>
        if (Column.DeserializeFrom COLUMN_MAGIC_NUM uninit buf).1 = 0 then none
        else
          match deserializeColumns COLUMN_MAGIC_NUM uninit n
              (buf.drop (Column.DeserializeFrom COLUMN_MAGIC_NUM uninit buf).1) with
          | none => none
          | some (cols, m) =>
            some (col :: cols, (Column.DeserializeFrom COLUMN_MAGIC_NUM uninit buf).1 + m) := rfl

theorem deserializeColumns_eq (COLUMN_MAGIC_NUM uninit : Nat) (hm : COLUMN_MAGIC_NUM < 2 ^ 32)
    (cols : List Column) : ∀ (rest : List Nat),
    (∀ c ∈ cols, Column.Built c ∧ 22 + c.name_.length < 2 ^ 32) →
    deserializeColumns COLUMN_MAGIC_NUM uninit cols.length
      ((cols.map (fun c => (Column.SerializeTo COLUMN_MAGIC_NUM c).2)).flatten ++ rest)
      = some (cols, (cols.map (fun c => 22 + c.name_.length)).sum) := by
  induction cols with
  | nil => intro rest _; rfl
  | cons c cs ih =>
    intro rest hs
    obtain ⟨hb, hc⟩ := hs c (List.mem_cons_self _ _)
    have hn : c.name_.length < 2 ^ 32 := by omega
    have hd := Column.DeserializeFrom_SerializeTo COLUMN_MAGIC_NUM uninit c hm hb hc
      ((cs.map (fun c => (Column.SerializeTo COLUMN_MAGIC_NUM c).2)).flatten ++ rest)
    have hlen := Column.SerializeTo_length COLUMN_MAGIC_NUM c hn hc
    rw [List.length_cons, deserializeColumns_succ]
    simp only [List.map_cons, List.flatten_cons, List.append_assoc, hd]
    have hz : ¬ 22 + c.name_.length = 0 := by omega
    rw [if_neg hz, ← hlen, List.drop_left,
      ih rest (fun d hd => hs d (List.mem_cons_of_mem _ hd))]
    simp only [List.sum_cons, hlen]

theorem deserializeColumns_bad (COLUMN_MAGIC_NUM uninit : Nat) (hm : COLUMN_MAGIC_NUM < 2 ^ 32)
    (cols : List Column) (k : Nat) (bad : List Nat)
    (hbad : MACH_READ_UINT32 bad ≠ COLUMN_MAGIC_NUM) :
    (∀ c ∈ cols, Column.Built c ∧ 22 + c.name_.length < 2 ^ 32) →
    deserializeColumns COLUMN_MAGIC_NUM uninit (cols.length + (k + 1))
      ((cols.map (fun c => (Column.SerializeTo COLUMN_MAGIC_NUM c).2)).flatten ++ bad)
      = none := by
  induction cols with
  | nil =>
    intro _
    have hd : Column.DeserializeFrom COLUMN_MAGIC_NUM uninit bad = (0, none) := by
      unfold Column.DeserializeFrom
      exact if_pos hbad
    show deserializeColumns COLUMN_MAGIC_NUM uninit (0 + (k + 1)) bad = none
    rw [Nat.zero_add, deserializeColumns_succ, hd]
  | cons c cs ih =>
    intro hs
    obtain ⟨hb, hc⟩ := hs c (List.mem_cons_self _ _)
    have hn : c.name_.length < 2 ^ 32 := by omega
    have hd := Column.DeserializeFrom_SerializeTo COLUMN_MAGIC_NUM uninit c hm hb hc
      ((cs.map (fun c => (Column.SerializeTo COLUMN_MAGIC_NUM c).2)).flatten ++ bad)
    have hlen := Column.SerializeTo_length COLUMN_MAGIC_NUM c hn hc
    have e : (c :: cs).length + (k + 1) = (cs.length + (k + 1)) + 1 := by
      simp only [List.length_cons]; omega
    have hbuf : ((c :: cs).map (fun c => (Column.SerializeTo COLUMN_MAGIC_NUM c).2)).flatten
        ++ bad = (Column.SerializeTo COLUMN_MAGIC_NUM c).2 ++
          ((cs.map (fun c => (Column.SerializeTo COLUMN_MAGIC_NUM c).2)).flatten ++ bad) := by
      simp only [List.map_cons, List.flatten_cons, List.append_assoc]
    have hz : ¬ 22 + c.name_.length = 0 := by omega
    rw [e, deserializeColumns_succ, hbuf, hd]
    dsimp only
    rw [if_neg hz, ← hlen, List.drop_left, ih (fun d hd => hs d (List.mem_cons_of_mem _ hd))]

theorem foldl_GetSerializedSize (cols : List Column) : ∀ (init : Nat),
    init + (cols.map (fun c => 22 + c.name_.length)).sum < 2 ^ 32 →
    cols.foldl (fun total_size column => u32 (total_size + column.GetSerializedSize)) init
      = init + (cols.map (fun c => 22 + c.name_.length)).sum := by
  induction cols with
  | nil => intro init _; simp
  | cons c cs ih =>
    intro init h
    simp only [List.map_cons, List.sum_cons] at h
    have hc : 22 + c.name_.length < 2 ^ 32 := by omega
    simp only [List.foldl_cons, List.map_cons, List.sum_cons]
    rw [Column.GetSerializedSize_eq c hc, u32_of_lt _ (by omega), ih _ (by omega)]
    omega

theorem sum_ge_length (cols : List Column) :
    cols.length ≤ (cols.map (fun c => 22 + c.name_.length)).sum := by
  induction cols with
  | nil => simp
  | cons c cs ih => simp only [List.length_cons, List.map_cons, List.sum_cons]; omega

theorem size_of_mem (cols : List Column) (c : Column) (hc : c ∈ cols) :
    22 + c.name_.length ≤ (cols.map (fun c => 22 + c.name_.length)).sum := by
  induction cols with
  | nil => cases hc
  | cons d ds ih =>
    simp only [List.map_cons, List.sum_cons]
    rcases List.mem_cons.1 hc with rfl | h
    · omega
    · have := ih h
      omega

theorem flatten_SerializeTo_length (COLUMN_MAGIC_NUM : Nat) (l : List Column) :
    (∀ c ∈ l, 22 + c.name_.length < 2 ^ 32) →
    ((l.map (fun c => (Column.SerializeTo COLUMN_MAGIC_NUM c).2)).flatten).length
      = (l.map (fun c => 22 + c.name_.length)).sum := by
  induction l with
  | nil => intro _; rfl
  | cons c cs ih =>
    intro h
    have hc := h c (List.mem_cons_self _ _)
    simp only [List.map_cons, List.flatten_cons, List.length_append, List.sum_cons,
      Column.SerializeTo_length COLUMN_MAGIC_NUM c (by omega) hc,
      ih (fun d hd => h d (List.mem_cons_of_mem _ hd))]

/-- C25. For a schema whose columns were built by the `Column` constructors
and whose serialised size fits `uint32_t`: `Schema::DeserializeFrom` applied to
the bytes written by `Schema::SerializeTo` (followed by any bytes) returns the
same schema, that is the same columns in the same order and the same
`is_manage_` flag; the counts returned by `SerializeTo` and `DeserializeFrom`
and the number of bytes written all equal `GetSerializedSize()`.  With the
assertions off, `DeserializeFrom` returns 0 and assigns no schema when the
buffer does not start with `SCHEMA_MAGIC_NUM`, and when, after the blocks of
some columns, the next column block that the count announces does not start
with `COLUMN_MAGIC_NUM`. -/
theorem schema_roundtrip (SCHEMA_MAGIC_NUM COLUMN_MAGIC_NUM uninit : Nat)
    (hS : SCHEMA_MAGIC_NUM < 2 ^ 32) (hC : COLUMN_MAGIC_NUM < 2 ^ 32) (s : Schema)
    (hb : ∀ c ∈ s.columns_, Column.Built c)
    (hsize : 9 + (s.columns_.map (fun c => 22 + c.name_.length)).sum < 2 ^ 32) :
    (∀ rest : List Nat,
      DeserializeFrom SCHEMA_MAGIC_NUM COLUMN_MAGIC_NUM uninit
        ((SerializeTo SCHEMA_MAGIC_NUM COLUMN_MAGIC_NUM s).2 ++ rest)
        = (GetSerializedSize s, some s)) ∧
    (SerializeTo SCHEMA_MAGIC_NUM COLUMN_MAGIC_NUM s).1 = GetSerializedSize s ∧
    (SerializeTo SCHEMA_MAGIC_NUM COLUMN_MAGIC_NUM s).2.length = GetSerializedSize s ∧
    (∀ buf : List Nat, MACH_READ_UINT32 buf ≠ SCHEMA_MAGIC_NUM →
      DeserializeFrom SCHEMA_MAGIC_NUM COLUMN_MAGIC_NUM uninit buf = (0, none)) ∧
    (∀ (k : Nat) (bad : List Nat), s.columns_.length + (k + 1) < 2 ^ 32 →
      MACH_READ_UINT32 bad ≠ COLUMN_MAGIC_NUM →
      DeserializeFrom SCHEMA_MAGIC_NUM COLUMN_MAGIC_NUM uninit
        (MACH_WRITE_UINT32 SCHEMA_MAGIC_NUM ++
          (MACH_WRITE_UINT32 (s.columns_.length + (k + 1)) ++
            ((s.columns_.map (fun c => (Column.SerializeTo COLUMN_MAGIC_NUM c).2)).flatten
              ++ bad)))
        = (0, none)) := by
  have hcols : ∀ c ∈ s.columns_, Column.Built c ∧ 22 + c.name_.length < 2 ^ 32 := by
    intro c hc
    have := size_of_mem s.columns_ c hc
    exact ⟨hb c hc, by omega⟩
  have hlen := sum_ge_length s.columns_
  have hn : s.columns_.length < 2 ^ 32 := by omega
  have hsz : GetSerializedSize s = 9 + (s.columns_.map (fun c => 22 + c.name_.length)).sum := by
    unfold GetSerializedSize
    simp only []
    rw [u32_of_lt (0 + 4) (by decide), u32_of_lt (0 + 4 + 4) (by decide),
      foldl_GetSerializedSize _ _ (by omega), u32_of_lt _ (by omega)]
    omega
  have hfl := flatten_SerializeTo_length COLUMN_MAGIC_NUM s.columns_
    (fun c hc => (hcols c hc).2)
  have hser : SerializeTo SCHEMA_MAGIC_NUM COLUMN_MAGIC_NUM s =
      (9 + (s.columns_.map (fun c => 22 + c.name_.length)).sum,
        MACH_WRITE_UINT32 SCHEMA_MAGIC_NUM ++ (MACH_WRITE_UINT32 s.columns_.length ++
          ((s.columns_.map (fun c => (Column.SerializeTo COLUMN_MAGIC_NUM c).2)).flatten ++
            MACH_WRITE_BOOL s.is_manage_))) := by
    unfold SerializeTo
    simp only [u32_of_lt _ hn]
    rw [writeAt_of_length [] 0 _ rfl, writeAt_of_length _ 4 _ (by simp [MACH_WRITE_UINT32_length]),
      serializeColumns_eq COLUMN_MAGIC_NUM s.columns_ _ (fun c hc => (hcols c hc).2)
        (by simp [MACH_WRITE_UINT32_length])]
    rw [writeAt_of_length _ _ _ (by
      simp only [List.nil_append, List.length_append, MACH_WRITE_UINT32_length, hfl])]
    refine Prod.ext ?_ ?_
    · show u32 _ = _
      rw [u32_of_lt _ (by omega)]
      omega
    · simp only [List.nil_append, List.append_assoc]
  refine ⟨?_, ?_, ?_, ?_, ?_⟩
  · intro rest
    rw [hser, hsz]
    unfold DeserializeFrom
    simp only [List.append_assoc, MACH_READ_WRITE_UINT32 _ hS, ne_eq, not_true_eq_false,
      if_false, drop_MACH_WRITE_UINT32, drop_MACH_WRITE_UINT32_add, MACH_READ_WRITE_UINT32 _ hn,
      List.drop_zero]
    rw [deserializeColumns_eq COLUMN_MAGIC_NUM uninit hC s.columns_ _ hcols]
    dsimp only
    rw [Nat.add_assoc 4 4, drop_MACH_WRITE_UINT32_add, drop_MACH_WRITE_UINT32_add, ← hfl,
      List.drop_left, MACH_READ_WRITE_BOOL, hfl]
    refine Prod.ext ?_ rfl
    show u32 _ = _
    rw [u32_of_lt _ (by omega)]
    omega
  · rw [hser, hsz]
  · rw [hser, hsz]
    simp only [List.length_append, MACH_WRITE_UINT32_length, hfl, MACH_WRITE_BOOL,
      List.length_singleton]
    omega
  · intro buf hbuf
    simp only [DeserializeFrom, hbuf, ne_eq, not_false_eq_true, if_true]
  · intro k bad hk hbad
    unfold DeserializeFrom
    simp only [MACH_READ_WRITE_UINT32 _ hS, ne_eq, not_true_eq_false, if_false,
      drop_MACH_WRITE_UINT32, drop_MACH_WRITE_UINT32_add, MACH_READ_WRITE_UINT32 _ hk,
      List.drop_zero]
    rw [deserializeColumns_bad COLUMN_MAGIC_NUM uninit hC s.columns_ k bad hbad hcols]

end Schema

namespace Schema

/-- Instance of `schema_roundtrip`: the schema with the `int` column `a`
(unique) and the `char(8)` column `n` (nullable), with the magic numbers 200715
and 210928, is read back from its 55 bytes followed by one more byte. -/
theorem schema_roundtrip_witness :
    DeserializeFrom 200715 210928 0
      ((SerializeTo 200715 210928
        ⟨[Column.new 0 [97] .kTypeInt 0 false true,
          Column.newChar [110] .kTypeChar 8 1 true false], true⟩).2 ++ [7])
      = (55, some ⟨[Column.new 0 [97] .kTypeInt 0 false true,
          Column.newChar [110] .kTypeChar 8 1 true false], true⟩) ∧
    (SerializeTo 200715 210928
      ⟨[Column.new 0 [97] .kTypeInt 0 false true,
        Column.newChar [110] .kTypeChar 8 1 true false], true⟩).1 = 55 :=
  have h := schema_roundtrip 200715 210928 0 (by decide) (by decide)
    ⟨[Column.new 0 [97] .kTypeInt 0 false true,
      Column.newChar [110] .kTypeChar 8 1 true false], true⟩
    (by decide) (by decide)
  ⟨(h.1 [7]).trans (by decide), h.2.1.trans (by decide)⟩

end Schema

/-! ### `TableHeap` -/

namespace BufferPoolManager

theorem set_getD_self {α : Type} (l : List α) (i : Nat) (d : α) : l.set i (l.getD i d) = l := by
  induction l generalizing i with
  | nil => rfl
  | cons a t ih =>
    cases i with
    | zero => rfl
    | succ j =>
      show a :: t.set j (t.getD j d) = a :: t
      rw [ih]

theorem writeData_same (cfg : Config) (b : BufferPoolManager) (f : Int) :
    writeData cfg b f (page cfg b f).data_ = b := by
  have e : b.pages_.set f.toNat
      { page cfg b f with data_ := (page cfg b f).data_ } = b.pages_ :=
    set_getD_self b.pages_ f.toNat (emptyPage cfg)
  unfold writeData setPage
  rw [e]

/-- A successful `FetchPage` of a page whose pin count is below `INT_MAX`: the
page is in the table at the returned frame, pinned, and the pool is in
order. -/
theorem FetchPage_pinned {cfg : Config} {s : BufferPoolManager} (h : Inv cfg s none) (p f : Int)
    (hadm : Admissible cfg s (.fetch p)) (hf : (FetchPage cfg s p).1 = some f) :
    Inv cfg (FetchPage cfg s p).2 none ∧
    UMap.find (FetchPage cfg s p).2.page_table_ p = some f ∧
    0 < (page cfg (FetchPage cfg s p).2 f).pin_count_ := by
  have hinv := FetchPage_inv h p hadm
  refine ⟨hinv, ?_⟩
  by_cases hp : p = INVALID_PAGE_ID
  · simp only [FetchPage, hp, if_true] at hf
    cases hf
  revert hinv hf
  cases hfind : UMap.find s.page_table_ p with
  | some g =>
    rw [FetchPage_hit cfg s p g hp hfind]
    intro hf _
    simp only [Option.some.injEq] at hf
    subst hf
    have ht := h.table_holds p g hfind
    have hlen := h.pages_len
    have hr := h.pin_range g ht.1 ht.2.1
    have hlt := hadm g hfind
    refine ⟨hfind, ?_⟩
    have e := getD_set_frame s.pages_ g g
      { page cfg s g with pin_count_ := wrapInt32 ((page cfg s g).pin_count_ + 1) }
      (emptyPage cfg) ht.1 (toNat_lt ht.1 (by rw [hlen]; exact ht.2.1)) ht.1
    rw [if_pos rfl] at e
    show 0 < (@List.getD Page _ _ _).pin_count_
    rw [e]
    show 0 < wrapInt32 ((page cfg s g).pin_count_ + 1)
    rw [wrapInt32_of_range _ (by omega) (by omega)]
    omega
  | none =>
    rw [FetchPage_miss cfg s p hp hfind]
    by_cases h1 : (TryToFindFreePage cfg s).1 = INVALID_FRAME_ID
    · rw [if_pos h1]
      intro hf
      cases hf
    · rw [if_neg h1]
      intro hf hinv
      simp only [Option.some.injEq] at hf
      subst hf
      refine ⟨UMap.find_insert_self _ _ _, ?_⟩
      have hT := TryToFindFreePage_inv h
      rcases hT with ⟨c, _⟩ | ⟨_, h2, _⟩
      · exact absurd c h1
      · have hl := h2.limbo_spec _ rfl
        have hlen := h2.pages_len
        have e := getD_set_frame (TryToFindFreePage cfg s).2.pages_ (TryToFindFreePage cfg s).1
          (TryToFindFreePage cfg s).1
          ⟨(diskRead cfg (TryToFindFreePage cfg s).2.disk_manager_ p
              (page cfg (TryToFindFreePage cfg s).2 (TryToFindFreePage cfg s).1).data_).1,
            p, 1, false⟩
          (emptyPage cfg) hl.1 (toNat_lt hl.1 (by rw [hlen]; exact hl.2.1)) hl.1
        rw [if_pos rfl] at e
        show 0 < (@List.getD Page _ _ _).pin_count_
        rw [e]
        exact Int.one_pos

/-- After a successful `FetchPage` and the `UnpinPage`, a second `FetchPage` of
the page returns the same frame with the same bytes. -/
theorem FetchPage_again {cfg : Config} {s : BufferPoolManager} (h : Inv cfg s none) (p f : Int)
    (hadm : Admissible cfg s (.fetch p)) (hf : (FetchPage cfg s p).1 = some f)
    (is_dirty : Bool) :
    (FetchPage cfg (UnpinPage cfg (FetchPage cfg s p).2 p is_dirty).2 p).1 = some f ∧
    (page cfg (FetchPage cfg (UnpinPage cfg (FetchPage cfg s p).2 p is_dirty).2 p).2 f).data_
      = (page cfg (FetchPage cfg s p).2 f).data_ := by
  obtain ⟨hinv, hfind, hpin⟩ := FetchPage_pinned h p f hadm hf
  have ht := hinv.table_holds p f hfind
  obtain ⟨hU1, hU2⟩ := UnpinPage_frame hinv p f is_dirty hfind hpin
  have hinv2 := UnpinPage_inv hinv p is_dirty
  have hfind2 : UMap.find (UnpinPage cfg (FetchPage cfg s p).2 p is_dirty).2.page_table_ p
      = some f := by rw [hU1]; exact hfind
  rw [FetchPage_hit cfg _ p f ht.2.2.2 hfind2]
  refine ⟨rfl, ?_⟩
  have hlen := hinv2.pages_len
  have e := getD_set_frame (UnpinPage cfg (FetchPage cfg s p).2 p is_dirty).2.pages_ f f
    { page cfg (UnpinPage cfg (FetchPage cfg s p).2 p is_dirty).2 f with
      pin_count_ := wrapInt32
        ((page cfg (UnpinPage cfg (FetchPage cfg s p).2 p is_dirty).2 f).pin_count_ + 1) }
    (emptyPage cfg) ht.1
    (toNat_lt ht.1 (by
      rw [hlen]
      exact (hinv2.table_holds p f hfind2).2.1)) ht.1
  rw [if_pos rfl] at e
  show (@List.getD Page _ _ _).data_ = _
  rw [e]
  show (page cfg (UnpinPage cfg (FetchPage cfg s p).2 p is_dirty).2 f).data_ = _
  rw [hU2 f ht.1, if_pos rfl]

end BufferPoolManager

namespace TableHeap

theorem Quiet_trans {F : Type} {cfg : Config} {x : TablePageOps F}
    {b1 b2 b3 : BufferPoolManager} (h12 : Quiet cfg x b1 b2) (h23 : Quiet cfg x b2 b3) :
    Quiet cfg x b1 b3 := by
  induction h23 with
  | refl => exact h12
  | fetch b' p _ ih => exact Quiet.fetch _ _ p ih
  | unpin b' p d _ ih => exact Quiet.unpin _ _ p d ih
  | newPage b' _ ih => exact Quiet.newPage _ _ ih
  | init b' f prev _ hf ih => exact Quiet.init _ _ f prev ih hf
  | setNext b' f next _ ih => exact Quiet.setNext _ _ f next ih

theorem Traffic_trans {cfg : Config} {b1 b2 b3 : BufferPoolManager} (h12 : Traffic cfg b1 b2)
    (h23 : Traffic cfg b2 b3) : Traffic cfg b1 b3 := by
  induction h23 with
  | refl => exact h12
  | fetch b' p _ ih => exact Traffic.fetch _ _ p ih
  | unpin b' p _ ih => exact Traffic.unpin _ _ p ih

theorem Traffic_quiet {F : Type} {cfg : Config} (x : TablePageOps F) {b1 b2 : BufferPoolManager}
    (h : Traffic cfg b1 b2) : Quiet cfg x b1 b2 := by
  induction h with
  | refl => exact Quiet.refl _
  | fetch b' p _ ih => exact Quiet.fetch _ _ p ih
  | unpin b' p _ ih => exact Quiet.unpin _ _ p false ih

/-- The first loop of `InsertTuple`, when it does not return `true`: the pool
has only been fetched from and unpinned, and the `rid_` of the row is what it
was. -/
theorem insertLoop_quiet {F : Type} (cfg : Config) (x : TablePageOps F) (schema : Schema)
    (row : List F)
    (hins : ∀ d r, (x.InsertTuple d row r schema).1 = false →
      (x.InsertTuple d row r schema).2 = (d, r)) :
    ∀ (fuel : Nat) (current_page_id : Int) (table_page_obj : Option Int)
      (b : BufferPoolManager) (row_rid : RowId)
      (res : Option Bool × BufferPoolManager × RowId),
    insertLoop cfg x schema row fuel current_page_id table_page_obj b row_rid = some res →
    res.1 ≠ some true → Quiet cfg x b res.2.1 ∧ res.2.2 = row_rid := by
  intro fuel
  induction fuel with
  | zero => intro _ _ _ _ _ h; cases h
  | succ fuel ih =>
    intro cur obj b rid res h hne
    unfold insertLoop at h
    by_cases hc : cur = INVALID_PAGE_ID
    · rw [if_pos hc] at h
      cases h
      exact ⟨Quiet.refl _, rfl⟩
    · rw [if_neg hc] at h
      have key : ∀ (r : Option Int × BufferPoolManager), Quiet cfg x b r.2 →
          (match r.1 with
            | none => some (some false, r.2, rid)
            | some f =>
              if (x.InsertTuple (BufferPoolManager.page cfg r.2 f).data_ row rid schema).1 then
                some (some true,
                  (BufferPoolManager.UnpinPage cfg
                    (BufferPoolManager.writeData cfg r.2 f
                      (x.InsertTuple (BufferPoolManager.page cfg r.2 f).data_ row rid
                        schema).2.1) cur true).2,
                  (x.InsertTuple (BufferPoolManager.page cfg r.2 f).data_ row rid schema).2.2)
              else
                insertLoop cfg x schema row fuel
                  (x.GetNextPageId
                    (BufferPoolManager.page cfg
                      (BufferPoolManager.writeData cfg r.2 f
                        (x.InsertTuple (BufferPoolManager.page cfg r.2 f).data_ row rid
                          schema).2.1) f).data_)
                  none
                  (BufferPoolManager.UnpinPage cfg
                    (BufferPoolManager.writeData cfg r.2 f
                      (x.InsertTuple (BufferPoolManager.page cfg r.2 f).data_ row rid
                        schema).2.1) cur false).2
                  (x.InsertTuple (BufferPoolManager.page cfg r.2 f).data_ row rid
                    schema).2.2) = some res →
          Quiet cfg x b res.2.1 ∧ res.2.2 = rid := by
        intro r hq hr
        cases hr1 : r.1 with
        | none =>
          simp only [hr1] at hr
          cases hr
          exact ⟨hq, rfl⟩
        | some f =>
          simp only [hr1] at hr
          by_cases ha : (x.InsertTuple (BufferPoolManager.page cfg r.2 f).data_ row rid
              schema).1 = true
          · rw [if_pos ha] at hr
            cases hr
            exact absurd rfl hne
          · rw [if_neg ha] at hr
            have ha' := hins _ _ (Bool.eq_false_iff.2 ha)
            rw [ha'] at hr
            simp only [BufferPoolManager.writeData_same] at hr
            obtain ⟨hq2, hrid⟩ := ih _ _ _ _ res hr hne
            exact ⟨Quiet_trans (Quiet.unpin _ _ cur false hq) hq2, hrid⟩
      cases obj with
      | none => exact key _ (Quiet.fetch _ _ cur (Quiet.refl _)) h
      | some f0 =>
        simp only [] at h
        by_cases hg : x.GetTablePageId (BufferPoolManager.page cfg b f0).data_ ≠ cur
        · rw [if_pos hg] at h
          exact key _ (Quiet.fetch _ _ cur (Quiet.refl _)) h
        · rw [if_neg hg] at h
          exact key (some f0, b) (Quiet.refl _) h

theorem findLast_quiet {F : Type} (cfg : Config) (x : TablePageOps F) :
    ∀ (fuel : Nat) (iter_pid : Int) (b : BufferPoolManager)
      (res : Option (Int × Int) × BufferPoolManager),
    findLast cfg x fuel iter_pid b = some res → Quiet cfg x b res.2 := by
  intro fuel
  induction fuel with
  | zero => intro _ _ _ h; cases h
  | succ fuel ih =>
    intro pid b res h
    unfold findLast at h
    by_cases hc : pid = INVALID_PAGE_ID
    · rw [if_pos hc] at h; cases h
    · rw [if_neg hc] at h
      cases hr1 : (BufferPoolManager.FetchPage cfg b pid).1 with
      | none =>
        simp only [hr1] at h
        cases h
        exact Quiet.fetch _ _ pid (Quiet.refl _)
      | some f =>
        simp only [hr1] at h
        by_cases hn : x.GetNextPageId
            (BufferPoolManager.page cfg (BufferPoolManager.FetchPage cfg b pid).2 f).data_
            = INVALID_PAGE_ID
        · rw [if_pos hn] at h
          cases h
          exact Quiet.fetch _ _ pid (Quiet.refl _)
        · rw [if_neg hn] at h
          exact Quiet_trans (Quiet.unpin _ _ pid false (Quiet.fetch _ _ pid (Quiet.refl _)))
            (ih _ _ res h)

end TableHeap

namespace TableHeap

theorem appendPage_quiet {F : Type} (cfg : Config) (x : TablePageOps F) (schema : Schema)
    (row : List F)
    (hins : ∀ d r, (x.InsertTuple d row r schema).1 = false →
      (x.InsertTuple d row r schema).2 = (d, r))
    (fuel : Nat) (h : TableHeap) (b : BufferPoolManager) (row_rid : RowId) (h' : TableHeap)
    (b' : BufferPoolManager) (rid' : RowId)
    (hrun : appendPage cfg x schema fuel h b row row_rid = some (false, h', b', rid')) :
    Quiet cfg x b b' ∧ h' = h ∧ rid' = row_rid := by
  unfold appendPage at hrun
  by_cases hc : h.first_page_id_ = INVALID_PAGE_ID
  · rw [if_pos hc] at hrun
    cases hrun
    exact ⟨Quiet.refl _, rfl, rfl⟩
  · rw [if_neg hc] at hrun
    cases hfl : findLast cfg x fuel h.first_page_id_ b with
    | none => simp only [hfl] at hrun; cases hrun
    | some res =>
      have hq := findLast_quiet cfg x fuel _ b res hfl
      obtain ⟨o, b1⟩ := res
      cases o with
      | none =>
        simp only [hfl] at hrun
        cases hrun
        exact ⟨hq, rfl, rfl⟩
      | some lp =>
        obtain ⟨last_id, last_f⟩ := lp
        simp only [hfl] at hrun
        cases hnp : (BufferPoolManager.NewPage cfg b1).2.1 with
        | none =>
          simp only [hnp] at hrun
          cases hrun
          exact ⟨Quiet.unpin _ _ last_id false (Quiet.newPage _ _ hq), rfl, rfl⟩
        | some nf =>
          simp only [hnp] at hrun
          by_cases hid : (BufferPoolManager.NewPage cfg b1).1 = INVALID_PAGE_ID
          · rw [if_pos hid] at hrun
            cases hrun
            exact ⟨Quiet.unpin _ _ last_id false (Quiet.newPage _ _ hq), rfl, rfl⟩
          · rw [if_neg hid] at hrun
            simp only [Option.some.injEq, Prod.mk.injEq] at hrun
            obtain ⟨ha, hh, hb, hr⟩ := hrun
            have ha' := hins _ _ ha
            rw [ha'] at hb hr
            simp only [BufferPoolManager.writeData_same] at hb
            refine ⟨?_, hh.symm, hr.symm⟩
            rw [← hb]
            exact Quiet.unpin _ _ _ true
              (Quiet.unpin _ _ last_id true
                (Quiet.setNext _ _ last_f _ (Quiet.init _ _ nf last_id hq hnp)))

/-- A call of `InsertTuple` that returns `false`, with a `TablePage::InsertTuple`
that leaves the page and the row as they are when it fails: the pool has only
been fetched from and unpinned, new pages have been created and initialised
and next-page ids set; the `rid_` of the row is what it was. -/
theorem InsertTuple_quiet {F : Type} (cfg : Config) (c : FieldCodec F) (x : TablePageOps F)
    (schema : Schema) (row : List F)
    (hins : ∀ d r, (x.InsertTuple d row r schema).1 = false →
      (x.InsertTuple d row r schema).2 = (d, r))
    (fuel : Nat) (h : TableHeap) (b : BufferPoolManager) (row_rid : RowId) (h' : TableHeap)
    (b' : BufferPoolManager) (rid' : RowId)
    (hrun : InsertTuple cfg c x schema fuel h b row row_rid = some (false, h', b', rid')) :
    Quiet cfg x b b' ∧ rid' = row_rid := by
  unfold InsertTuple at hrun
  cases hsz : Row.GetSerializedSize c row schema with
  | none => simp only [hsz] at hrun; cases hrun
  | some size =>
    simp only [hsz] at hrun
    by_cases hbig : size > x.SIZE_MAX_ROW
    · rw [if_pos hbig] at hrun
      cases hrun
      exact ⟨Quiet.refl _, rfl⟩
    · rw [if_neg hbig] at hrun
      by_cases hc : h.first_page_id_ = INVALID_PAGE_ID
      · rw [if_pos hc] at hrun
        cases hnp : (BufferPoolManager.NewPage cfg b).2.1 with
        | none =>
          simp only [hnp] at hrun
          cases hrun
          exact ⟨Quiet.newPage _ _ (Quiet.refl _), rfl⟩
        | some frame =>
          simp only [hnp] at hrun
          by_cases hid : (BufferPoolManager.NewPage cfg b).1 = INVALID_PAGE_ID
          · rw [if_pos hid] at hrun
            cases hrun
            exact ⟨Quiet.newPage _ _ (Quiet.refl _), rfl⟩
          · rw [if_neg hid] at hrun
            have hq0 : Quiet cfg x b
                (BufferPoolManager.writeData cfg (BufferPoolManager.NewPage cfg b).2.2 frame
                  (x.Init
                    (BufferPoolManager.page cfg (BufferPoolManager.NewPage cfg b).2.2
                      frame).data_ (BufferPoolManager.NewPage cfg b).1 INVALID_PAGE_ID)) :=
              Quiet.init _ _ frame INVALID_PAGE_ID (Quiet.refl _) hnp
            cases hl : insertLoop cfg x schema row fuel (BufferPoolManager.NewPage cfg b).1
                (some frame)
                (BufferPoolManager.writeData cfg (BufferPoolManager.NewPage cfg b).2.2 frame
                  (x.Init
                    (BufferPoolManager.page cfg (BufferPoolManager.NewPage cfg b).2.2
                      frame).data_ (BufferPoolManager.NewPage cfg b).1 INVALID_PAGE_ID))
                row_rid with
            | none => simp only [hl] at hrun; cases hrun
            | some res =>
              obtain ⟨o, b2, rid2⟩ := res
              cases o with
              | some ret =>
                simp only [hl, Option.some.injEq, Prod.mk.injEq] at hrun
                obtain ⟨hret, _, hb, hr⟩ := hrun
                have hL := insertLoop_quiet cfg x schema row hins fuel _ _ _ _ _ hl
                  (by rw [hret]; exact fun e => Bool.noConfusion (Option.some.inj e))
                exact ⟨hb ▸ Quiet_trans hq0 hL.1, hr ▸ hL.2⟩
              | none =>
                simp only [hl] at hrun
                have hL := insertLoop_quiet cfg x schema row hins fuel _ _ _ _ _ hl
                  (fun e => Option.noConfusion e)
                have hA := appendPage_quiet cfg x schema row hins fuel _ b2 rid2 h' b' rid'
                  hrun
                exact ⟨Quiet_trans (Quiet_trans hq0 hL.1) hA.1, hA.2.2.trans hL.2⟩
      · rw [if_neg hc] at hrun
        cases hl : insertLoop cfg x schema row fuel h.first_page_id_ none b row_rid with
        | none => simp only [hl] at hrun; cases hrun
        | some res =>
          obtain ⟨o, b2, rid2⟩ := res
          cases o with
          | some ret =>
            simp only [hl, Option.some.injEq, Prod.mk.injEq] at hrun
            obtain ⟨hret, _, hb, hr⟩ := hrun
            have hL := insertLoop_quiet cfg x schema row hins fuel _ _ _ _ _ hl
              (by rw [hret]; exact fun e => Bool.noConfusion (Option.some.inj e))
            exact ⟨hb ▸ hL.1, hr ▸ hL.2⟩
          | none =>
            simp only [hl] at hrun
            have hL := insertLoop_quiet cfg x schema row hins fuel _ _ _ _ _ hl
              (fun e => Option.noConfusion e)
            have hA := appendPage_quiet cfg x schema row hins fuel _ b2 rid2 h' b' rid' hrun
            exact ⟨Quiet_trans hL.1 hA.1, hA.2.2.trans hL.2⟩

/-- C27. `TableHeap::InsertTuple(row)` with a row whose serialised size exceeds
`TablePage::SIZE_MAX_ROW` returns `false` and leaves everything as it is: the
buffer pool (no page is created or fetched), `first_page_id_` and the `rid_` of
the row; no loop is entered, so this holds for every amount of fuel. -/
theorem InsertTuple_too_large {F : Type} (cfg : Config) (c : FieldCodec F) (x : TablePageOps F)
    (schema : Schema) (fuel : Nat) (h : TableHeap) (b : BufferPoolManager) (row : List F)
    (row_rid : RowId) (size : Nat) (hsize : Row.GetSerializedSize c row schema = some size)
    (hbig : size > x.SIZE_MAX_ROW) :
    InsertTuple cfg c x schema fuel h b row row_rid = some (false, h, b, row_rid) := by
  unfold InsertTuple
  simp only [hsize, hbig, if_true]

end TableHeap

namespace TableHeap

theorem GetTuple_traffic {F : Type} (cfg : Config) (x : TablePageOps F) (schema : Schema)
    (b : BufferPoolManager) (rid : RowId) : Traffic cfg b (GetTuple cfg x schema b rid).2.2 := by
  unfold GetTuple
  by_cases hc : rid.GetPageId = INVALID_PAGE_ID
  · rw [if_pos hc]; exact Traffic.refl _
  · rw [if_neg hc]
    cases hr : (BufferPoolManager.FetchPage cfg b rid.GetPageId).1 with
    | none => simp only [hr]; exact Traffic.fetch _ _ _ (Traffic.refl _)
    | some f =>
      simp only [hr]
      exact Traffic.unpin _ _ _ (Traffic.fetch _ _ _ (Traffic.refl _))

theorem MarkDelete_fail {F : Type} (cfg : Config) (x : TablePageOps F) (b : BufferPoolManager)
    (rid : RowId) (h : (MarkDelete cfg x b rid).1 = false) :
    Traffic cfg b (MarkDelete cfg x b rid).2 := by
  unfold MarkDelete at h ⊢
  cases hr : (BufferPoolManager.FetchPage cfg b rid.GetPageId).1 with
  | none => simp only [hr]; exact Traffic.fetch _ _ _ (Traffic.refl _)
  | some f => simp only [hr] at h; cases h

/-- What `GetTuple` finds after a successful `FetchPage` of the page and its
`UnpinPage`: the tuple as the bytes delivered by that `FetchPage` hold it. -/
theorem GetTuple_again {F : Type} (cfg : Config) (x : TablePageOps F) (schema : Schema)
    (b : BufferPoolManager) (rid : RowId) (f : Int) (hne : rid.GetPageId ≠ INVALID_PAGE_ID)
    (hinv : BufferPoolManager.Inv cfg b none)
    (hadm : BufferPoolManager.Admissible cfg b (.fetch rid.GetPageId))
    (hf : (BufferPoolManager.FetchPage cfg b rid.GetPageId).1 = some f) (is_dirty : Bool) :
    (GetTuple cfg x schema
      (BufferPoolManager.UnpinPage cfg (BufferPoolManager.FetchPage cfg b rid.GetPageId).2
        rid.GetPageId is_dirty).2 rid).1
      = (x.GetTuple
          (BufferPoolManager.page cfg (BufferPoolManager.FetchPage cfg b rid.GetPageId).2
            f).data_ rid schema).1 := by
  obtain ⟨h1, h2⟩ := BufferPoolManager.FetchPage_again hinv rid.GetPageId f hadm hf is_dirty
  unfold GetTuple
  rw [if_neg hne]
  simp only [h1, h2]

/-- The calls that `TableHeap::UpdateTuple(new_row, rid)` makes, for a `TablePage` whose
`InsertTuple` and `UpdateTuple` leave the page (and the row) as they are when
they return `false`.  (1) With `rid`'s page id `INVALID_PAGE_ID` it returns
`false` and nothing at all is changed.  (2) On a buffer pool in order, when the
in-place update fails and either the original tuple does not exist or is
deleted (as `TablePage::GetTuple` sees it in the bytes that `FetchPage`
delivers), or the serialised size of `new_row` exceeds `SIZE_MAX_ROW`, it
returns `false`, the heap and the `rid_` of `new_row` are unchanged, and the
pool has only seen calls of `FetchPage` and of `UnpinPage` with
`is_dirty = false`: nothing was written.  (3) Whenever it returns `false`, the
`rid_` of `new_row` is unchanged, and either the heap is unchanged and the
pool has only seen such read-only calls, or `MarkDelete(rid)` succeeded, the
failed `InsertTuple` after it wrote no tuple and no delete flag (it fetched,
unpinned, created and initialised pages and set next-page ids), and
`RollbackDelete(rid)` has been applied to the pool it left. -/
theorem UpdateTuple_atomic {F : Type} (cfg : Config) (c : FieldCodec F) (x : TablePageOps F)
    (schema : Schema) (new_row : List F)
    (hins : ∀ d r, (x.InsertTuple d new_row r schema).1 = false →
      (x.InsertTuple d new_row r schema).2 = (d, r))
    (hupd : ∀ d r, (x.UpdateTuple d new_row r schema).1 = false →
      (x.UpdateTuple d new_row r schema).2 = d)
    (fuel : Nat) (h : TableHeap) (b : BufferPoolManager) (new_row_rid rid : RowId) :
    (rid.GetPageId = INVALID_PAGE_ID →
      UpdateTuple cfg c x schema fuel h b new_row new_row_rid rid
        = some (false, h, b, new_row_rid)) ∧
    (∀ f : Int, rid.GetPageId ≠ INVALID_PAGE_ID → BufferPoolManager.Inv cfg b none →
      BufferPoolManager.Admissible cfg b (.fetch rid.GetPageId) →
      (BufferPoolManager.FetchPage cfg b rid.GetPageId).1 = some f →
      (x.UpdateTuple
        (BufferPoolManager.page cfg (BufferPoolManager.FetchPage cfg b rid.GetPageId).2
          f).data_ new_row new_row_rid schema).1 = false →
      ((x.GetTuple
          (BufferPoolManager.page cfg (BufferPoolManager.FetchPage cfg b rid.GetPageId).2
            f).data_ rid schema).1 = false ∨
        ∃ size, Row.GetSerializedSize c new_row schema = some size ∧
          size > x.SIZE_MAX_ROW) →
      ∃ b', UpdateTuple cfg c x schema fuel h b new_row new_row_rid rid
          = some (false, h, b', new_row_rid) ∧ Traffic cfg b b') ∧
    (∀ (h' : TableHeap) (b' : BufferPoolManager) (rid' : RowId),
      UpdateTuple cfg c x schema fuel h b new_row new_row_rid rid = some (false, h', b', rid') →
      rid' = new_row_rid ∧
      ((h' = h ∧ Traffic cfg b b') ∨
        ∃ b0 b1 b2, Traffic cfg b b0 ∧ MarkDelete cfg x b0 rid = (true, b1) ∧
          Quiet cfg x b1 b2 ∧ RollbackDelete cfg x b2 rid = some b')) := by
  refine ⟨?_, ?_, ?_⟩
  · intro hc
    unfold UpdateTuple
    rw [if_pos hc]
  · intro f hne hinv hadm hf hu hcase
    have hu2 := hupd _ _ hu
    have hg := GetTuple_again cfg x schema b rid f hne hinv hadm hf false
    refine ⟨(GetTuple cfg x schema
      (BufferPoolManager.UnpinPage cfg (BufferPoolManager.FetchPage cfg b rid.GetPageId).2
        rid.GetPageId false).2 rid).2.2, ?_,
      Traffic_trans (Traffic.unpin _ _ _ (Traffic.fetch _ _ _ (Traffic.refl _)))
        (GetTuple_traffic cfg x schema _ rid)⟩
    unfold UpdateTuple
    rw [if_neg hne]
    simp only [hf, hu, hu2, BufferPoolManager.writeData_same, Bool.false_eq_true, if_false]
    by_cases hfound : (GetTuple cfg x schema
        (BufferPoolManager.UnpinPage cfg (BufferPoolManager.FetchPage cfg b rid.GetPageId).2
          rid.GetPageId false).2 rid).1 = false
    · rw [if_pos hfound]
    · rw [if_neg hfound]
      rcases hcase with hmiss | ⟨size, hsz, hbig⟩
      · rw [hg] at hfound
        exact absurd hmiss hfound
      · simp only [hsz, hbig, if_true]
  · intro h' b' rid' hrun
    unfold UpdateTuple at hrun
    by_cases hc : rid.GetPageId = INVALID_PAGE_ID
    · rw [if_pos hc] at hrun
      cases hrun
      exact ⟨rfl, Or.inl ⟨rfl, Traffic.refl _⟩⟩
    · rw [if_neg hc] at hrun
      cases hf : (BufferPoolManager.FetchPage cfg b rid.GetPageId).1 with
      | none =>
        simp only [hf] at hrun
        cases hrun
        exact ⟨rfl, Or.inl ⟨rfl, Traffic.fetch _ _ _ (Traffic.refl _)⟩⟩
      | some f =>
        simp only [hf] at hrun
        by_cases hu : (x.UpdateTuple
            (BufferPoolManager.page cfg (BufferPoolManager.FetchPage cfg b rid.GetPageId).2
              f).data_ new_row new_row_rid schema).1 = true
        · rw [if_pos hu] at hrun
          cases hrun
        · rw [if_neg hu] at hrun
          have hu2 := hupd _ _ (Bool.eq_false_iff.2 hu)
          rw [hu2] at hrun
          simp only [BufferPoolManager.writeData_same] at hrun
          have hT0 : Traffic cfg b
              (GetTuple cfg x schema
                (BufferPoolManager.UnpinPage cfg
                  (BufferPoolManager.FetchPage cfg b rid.GetPageId).2 rid.GetPageId false).2
                rid).2.2 :=
            Traffic_trans (Traffic.unpin _ _ _ (Traffic.fetch _ _ _ (Traffic.refl _)))
              (GetTuple_traffic cfg x schema _ rid)
          by_cases hfound : (GetTuple cfg x schema
              (BufferPoolManager.UnpinPage cfg
                (BufferPoolManager.FetchPage cfg b rid.GetPageId).2 rid.GetPageId false).2
              rid).1 = false
          · rw [if_pos hfound] at hrun
            cases hrun
            exact ⟨rfl, Or.inl ⟨rfl, hT0⟩⟩
          · rw [if_neg hfound] at hrun
            cases hsz : Row.GetSerializedSize c new_row schema with
            | none => simp only [hsz] at hrun; cases hrun
            | some size =>
              simp only [hsz] at hrun
              by_cases hbig : size > x.SIZE_MAX_ROW
              · rw [if_pos hbig] at hrun
                cases hrun
                exact ⟨rfl, Or.inl ⟨rfl, hT0⟩⟩
              · rw [if_neg hbig] at hrun
                by_cases hm : (MarkDelete cfg x
                    (GetTuple cfg x schema
                      (BufferPoolManager.UnpinPage cfg
                        (BufferPoolManager.FetchPage cfg b rid.GetPageId).2 rid.GetPageId
                        false).2 rid).2.2 rid).1 = false
                · rw [if_pos hm] at hrun
                  cases hrun
                  exact ⟨rfl, Or.inl ⟨rfl, Traffic_trans hT0 (MarkDelete_fail cfg x _ rid hm)⟩⟩
                · rw [if_neg hm] at hrun
                  cases hi : InsertTuple cfg c x schema fuel h
                      (MarkDelete cfg x
                        (GetTuple cfg x schema
                          (BufferPoolManager.UnpinPage cfg
                            (BufferPoolManager.FetchPage cfg b rid.GetPageId).2 rid.GetPageId
                            false).2 rid).2.2 rid).2 new_row new_row_rid with
                  | none => simp only [hi] at hrun; cases hrun
                  | some res =>
                    obtain ⟨ret, h1, b3, rid1⟩ := res
                    cases ret with
                    | true => simp only [hi] at hrun; cases hrun
                    | false =>
                      simp only [hi] at hrun
                      cases hrb : RollbackDelete cfg x b3 rid with
                      | none => simp only [hrb] at hrun; cases hrun
                      | some b4 =>
                        simp only [hrb, Option.some.injEq, Prod.mk.injEq, true_and] at hrun
                        obtain ⟨_, hb, hr⟩ := hrun
                        have hQ := InsertTuple_quiet cfg c x schema new_row hins fuel h _
                          new_row_rid h1 b3 rid1 hi
                        refine ⟨hr ▸ hQ.2, Or.inr ⟨_, _, b3, hT0, ?_, hQ.1, hb ▸ hrb⟩⟩
                        have hm' : (MarkDelete cfg x
                            (GetTuple cfg x schema
                              (BufferPoolManager.UnpinPage cfg
                                (BufferPoolManager.FetchPage cfg b rid.GetPageId).2
                                rid.GetPageId false).2 rid).2.2 rid).1 = true := by
                          simpa using hm
                        exact Prod.ext hm' rfl

end TableHeap

namespace TableHeap

/-- Instance of `InsertTuple_too_large`: with `SIZE_MAX_ROW = 8`, a row holding
a string of nine bytes (18 bytes serialised) is refused, on an empty heap over
a fresh pool, without fuel. -/
theorem InsertTuple_too_large_witness :
    InsertTuple Config.default Field.codec TablePageOps.oneSlot
      ⟨[⟨[110], .kTypeChar, 16, 0, false, false⟩], true⟩ 0 ⟨INVALID_PAGE_ID⟩
      (BufferPoolManager.new Config.default 2 (DiskManager.openEmpty Config.default))
      [Field.chars [1, 2, 3, 4, 5, 6, 7, 8, 9]] ⟨INVALID_PAGE_ID, 0⟩
      = some (false, ⟨INVALID_PAGE_ID⟩,
          BufferPoolManager.new Config.default 2 (DiskManager.openEmpty Config.default),
          ⟨INVALID_PAGE_ID, 0⟩) :=
  InsertTuple_too_large Config.default Field.codec TablePageOps.oneSlot
    ⟨[⟨[110], .kTypeChar, 16, 0, false, false⟩], true⟩ 0 ⟨INVALID_PAGE_ID⟩
    (BufferPoolManager.new Config.default 2 (DiskManager.openEmpty Config.default))
    [Field.chars [1, 2, 3, 4, 5, 6, 7, 8, 9]] ⟨INVALID_PAGE_ID, 0⟩ 18 (by decide) (by decide)

theorem oneSlot_insert_fail (d : List Nat) (row : List Field) (r : RowId) (schema : Schema)
    (h : (TablePageOps.oneSlot.InsertTuple d row r schema).1 = false) :
    (TablePageOps.oneSlot.InsertTuple d row r schema).2 = (d, r) := by
  unfold TablePageOps.oneSlot at h ⊢
  simp only [] at h ⊢
  split at h
  · cases h
  · next hc => rw [if_neg hc]

/-- Instance of `UpdateTuple_atomic`: over a pool of two frames holding the
zeroed page 0, which has no tuple, `UpdateTuple` of the row id `(0, 0)` returns
`false` and leaves the heap and the `rid_` of the new row as they are, the pool
having only been fetched from and unpinned. -/
theorem UpdateTuple_atomic_witness :
    ∃ b', UpdateTuple Config.default Field.codec TablePageOps.oneSlot
        ⟨[⟨[97], .kTypeInt, 4, 0, false, false⟩], true⟩ 1 ⟨0⟩
        (BufferPoolManager.run Config.default
          (BufferPoolManager.new Config.default 2 (DiskManager.openEmpty Config.default))
          [.newPage, .unpin 0 true])
        [Field.int 7] ⟨INVALID_PAGE_ID, 0⟩ ⟨0, 0⟩
        = some (false, ⟨0⟩, b', ⟨INVALID_PAGE_ID, 0⟩) ∧
      Traffic Config.default
        (BufferPoolManager.run Config.default
          (BufferPoolManager.new Config.default 2 (DiskManager.openEmpty Config.default))
          [.newPage, .unpin 0 true]) b' :=
  (UpdateTuple_atomic Config.default Field.codec TablePageOps.oneSlot
    ⟨[⟨[97], .kTypeInt, 4, 0, false, false⟩], true⟩ [Field.int 7]
    (fun d r h => oneSlot_insert_fail d _ r _ h) (fun _ _ _ => rfl) 1 ⟨0⟩
    (BufferPoolManager.run Config.default
      (BufferPoolManager.new Config.default 2 (DiskManager.openEmpty Config.default))
      [.newPage, .unpin 0 true])
    ⟨INVALID_PAGE_ID, 0⟩ ⟨0, 0⟩).2.1 0 (by decide)
    (BufferPoolManager.run_inv_pool [.newPage, .unpin 0 true]
      (BufferPoolManager.Inv_new_pool Config.default 2 (DiskManager.openEmpty Config.default))
      ⟨by intro _; decide!, trivial, trivial⟩)
    (by
      intro f hf
      have e : UMap.find
          (BufferPoolManager.run Config.default
            (BufferPoolManager.new Config.default 2 (DiskManager.openEmpty Config.default))
            [.newPage, .unpin 0 true]).page_table_ (RowId.GetPageId ⟨0, 0⟩) = some 0 := by
        decide!
      rw [e] at hf
      cases hf
      decide!)
    (by decide!) rfl (Or.inl (by decide!))

end TableHeap

namespace BPlusTree

/-- C29 (failing input).  On an empty index with `leaf_max_size = 4` and
`internal_max_size = 4` the twelve insertions of `spacedInserts` leave a tree
whose leaf walk yields the stored keys in increasing order, and whose left
internal node (page 4) has four children, the third being the leaf `[50, 60]`
(page 5).  `Remove(120)` makes the right internal node underflow, and the
redistribution from its left neighbour lowers the neighbour's size from 4 to 2
while one child is moved: the leaf `[50, 60]` stays in the chain of leaves but
is no child of any node.  A following `Insert(55)` therefore puts 55 into the
leaf `[30, 40]`, and the leaf walk yields 55 before 50; a following
`Remove(50)` instead finds no entry, and the leaf walk still yields 50. -/
theorem redistribute_loses_leaf :
    (run 8 fresh spacedInserts).bind (leafWalk 16) = some (storedKeys spacedInserts) ∧
    (run 8 fresh spacedInserts).bind
        (fun t => (Pool.page t.pool_ 4).map (fun p => (p.size_, InternalPage.ValueIndex p 5)))
      = some (4, 2) ∧
    (run 8 fresh (spacedInserts ++ [.remove 120])).bind
        (fun t => (Pool.page t.pool_ 4).map (fun p => (p.size_, InternalPage.ValueIndex p 5)))
      = some (2, -1) ∧
    (run 8 fresh (spacedInserts ++ [.remove 120, .insert 55 ⟨0, 55⟩])).bind (leafWalk 16)
      = some [10, 20, 30, 40, 55, 50, 60, 70, 80, 90, 100, 110] ∧
    storedKeys (spacedInserts ++ [.remove 120, .insert 55 ⟨0, 55⟩])
      = [10, 20, 30, 40, 50, 55, 60, 70, 80, 90, 100, 110] ∧
    (run 8 fresh (spacedInserts ++ [.remove 120, .remove 50])).bind (leafWalk 16)
      = some [10, 20, 30, 40, 50, 60, 70, 80, 90, 100, 110] ∧
    storedKeys (spacedInserts ++ [.remove 120, .remove 50])
      = [10, 20, 30, 40, 60, 70, 80, 90, 100, 110] := by
  decide!

end BPlusTree

namespace BitmapPage

theorem popcount_lt_of_free {PageSize : Nat} (b : BitmapPage PageSize) (q : Nat)
    (hq : q < GetMaxSupportedSize PageSize) (h : bit b q = false) :
    popcount b < GetMaxSupportedSize PageSize := by
  have hle := popcount_le b
  rcases Nat.lt_or_ge (popcount b) (GetMaxSupportedSize PageSize) with h1 | h1
  · exact h1
  · have heq : (List.range (GetMaxSupportedSize PageSize)).countP (bit b)
        = (List.range (GetMaxSupportedSize PageSize)).length := by
      rw [List.length_range]
      unfold popcount at hle h1
      omega
    have := List.countP_eq_length.1 heq q (List.mem_range.2 hq)
    rw [h] at this
    cases this

theorem findFree_none {PageSize : Nat} (b : BitmapPage PageSize) (lo hi : Nat)
    (h : findFree b lo hi = none) (q : Nat) (h1 : lo ≤ q) (h2 : q < hi) :
    IsPageFree b q = false := by
  unfold findFree at h
  have := List.find?_eq_none.1 h q (List.mem_range'_1.2 ⟨h1, by omega⟩)
  simpa using this

theorem bit_of_not_free {PageSize : Nat} (b : BitmapPage PageSize) (q : Nat)
    (hq : q < GetMaxSupportedSize PageSize) (h : IsPageFree b q = false) : bit b q = true := by
  cases hb : bit b q with
  | true => rfl
  | false =>
    rw [(IsPageFree_iff b q hq).2 hb] at h
    cases h

theorem SmallestFree_zero (PageSize : Nat) : SmallestFree (zero PageSize) := by
  refine ⟨Nat.zero_le _, fun q hq => absurd hq (Nat.not_lt_zero q), fun h => ?_⟩
  have := (PrefixFull_zero PageSize).2.2.2 0 h
  simpa using this

/-- On a page that is not full and whose hint stands at the smallest free
offset, the hint is a free offset of the page, and after marking it the search
of `AllocatePage` moves the hint to the smallest free offset again. -/
theorem allocateAt_smallest {PageSize : Nat} (hsize : GetMaxSupportedSize PageSize < 2 ^ 32)
    (b : BitmapPage PageSize) (hlen : b.bytes.length = MAX_CHARS PageSize)
    (hcount : b.page_allocated_ = popcount b) (hs : SmallestFree b)
    (hlt : b.page_allocated_ < GetMaxSupportedSize PageSize) :
    b.next_free_page_ < GetMaxSupportedSize PageSize ∧ bit b b.next_free_page_ = false ∧
    SmallestFree (allocateAt b b.next_free_page_) := by
  obtain ⟨h1, h2, h3⟩ := hs
  have hnf : b.next_free_page_ < GetMaxSupportedSize PageSize := by
    obtain ⟨q, hq, hfree⟩ := exists_free_of_popcount_lt b (by omega)
    by_contra hge
    have := h2 q (by omega)
    rw [hfree] at this
    cases this
  have hbit := h3 hnf
  refine ⟨hnf, hbit, ?_⟩
  have hfree : IsPageFree b b.next_free_page_ = true := (IsPageFree_iff b _ hnf).2 hbit
  have hinv := allocateAt_inv hsize b b.next_free_page_ hlen hcount hfree
  have hf := allocateAt_fields b b.next_free_page_
  have hbits : ∀ q, bit (allocateAt b b.next_free_page_) q
      = if q = b.next_free_page_ then true else bit b q :=
    fun q => bit_setBit b _ _ q hlen hnf hf.1
  have hlow : ∀ q, q ≤ b.next_free_page_ → bit (allocateAt b b.next_free_page_) q = true := by
    intro q hq
    rw [hbits q]
    by_cases e : q = b.next_free_page_
    · rw [if_pos e]
    · rw [if_neg e]
      exact h2 q (by omega)
  have hb1 : ∀ q, bit (⟨u32 (b.page_allocated_ + 1), b.next_free_page_,
      setBit b.bytes b.next_free_page_⟩ : BitmapPage PageSize) q
      = bit (allocateAt b b.next_free_page_) q := by
    intro q
    rw [hbits q]
    exact bit_setBit b _ _ q hlen hnf rfl
  by_cases he : u32 (b.page_allocated_ + 1) = GetMaxSupportedSize PageSize
  · have hnext : (allocateAt b b.next_free_page_).next_free_page_
        = GetMaxSupportedSize PageSize := by
      unfold allocateAt
      simp only [he, if_true]
    refine ⟨by rw [hnext], ?_, fun h => absurd h (by rw [hnext]; exact Nat.lt_irrefl _)⟩
    intro q hq
    rw [hnext] at hq
    cases hb : bit (allocateAt b b.next_free_page_) q with
    | true => rfl
    | false =>
      have := popcount_lt_of_free _ q hq hb
      rw [← hinv.2, hf.2, he] at this
      exact absurd this (Nat.lt_irrefl _)
  · cases hfind : findFree (⟨u32 (b.page_allocated_ + 1), b.next_free_page_,
        setBit b.bytes b.next_free_page_⟩ : BitmapPage PageSize) (b.next_free_page_ + 1)
        (GetMaxSupportedSize PageSize) with
    | some i =>
      have hnext : (allocateAt b b.next_free_page_).next_free_page_ = i := by
        unfold allocateAt
        simp only [he, if_false, hfind]
      obtain ⟨hfi, hlo, _, hbelow⟩ := find_range_first _ _ _ _ hfind
      have hilt := IsPageFree_lt _ i hfi
      refine ⟨by rw [hnext]; omega, ?_, fun _ => ?_⟩
      · intro q hq
        rw [hnext] at hq
        by_cases hqn : q ≤ b.next_free_page_
        · exact hlow q hqn
        · rw [← hb1 q]
          exact bit_of_not_free _ q (by omega) (hbelow q (by omega) hq)
      · rw [hnext, ← hb1 i]
        exact (IsPageFree_iff _ i hilt).1 hfi
    | none =>
      exfalso
      have hall : ∀ q, q < GetMaxSupportedSize PageSize →
          bit (allocateAt b b.next_free_page_) q = true := by
        intro q hq
        by_cases hqn : q ≤ b.next_free_page_
        · exact hlow q hqn
        · rw [← hb1 q]
          exact bit_of_not_free _ q hq (findFree_none _ _ _ hfind q (by omega) hq)
      have hpc : popcount (allocateAt b b.next_free_page_) = GetMaxSupportedSize PageSize := by
        unfold popcount
        have := List.countP_eq_length.2
          (fun q (hq : q ∈ List.range (GetMaxSupportedSize PageSize)) =>
            hall q (List.mem_range.1 hq))
        rw [this, List.length_range]
      exact he (by rw [← hf.2, hinv.2, hpc])

theorem AllocatePage_smallest {PageSize : Nat} (hsize : GetMaxSupportedSize PageSize < 2 ^ 32)
    (b : BitmapPage PageSize) (hlen : b.bytes.length = MAX_CHARS PageSize)
    (hcount : b.page_allocated_ = popcount b) (hs : SmallestFree b) :
    SmallestFree (AllocatePage b).2 ∧
    ∀ p, (AllocatePage b).1 = some p → p = b.next_free_page_ := by
  by_cases hge : b.page_allocated_ ≥ GetMaxSupportedSize PageSize
  · have e : AllocatePage b = (none, b) := by simp only [AllocatePage, hge, if_true]
    rw [e]
    exact ⟨hs, fun p hp => by cases hp⟩
  · obtain ⟨hnf, hbit, hres⟩ := allocateAt_smallest hsize b hlen hcount hs (by omega)
    have hfind : findFree b b.next_free_page_ (GetMaxSupportedSize PageSize)
        = some b.next_free_page_ :=
      findFree_first b _ _ hnf ((IsPageFree_iff b _ hnf).2 hbit)
    have e : AllocatePage b = (some b.next_free_page_, allocateAt b b.next_free_page_) := by
      simp only [AllocatePage, hge, if_false, hfind]
    rw [e]
    exact ⟨hres, fun p hp => (Option.some.inj hp).symm⟩

theorem DeAllocatePage_smallest {PageSize : Nat} (b : BitmapPage PageSize) (p : Nat)
    (hlen : b.bytes.length = MAX_CHARS PageSize) (hs : SmallestFree b) :
    SmallestFree (DeAllocatePage b p).2 := by
  obtain ⟨h1, h2, h3⟩ := hs
  unfold DeAllocatePage
  split
  · exact ⟨h1, h2, h3⟩
  · rename_i hp
    split
    · exact ⟨h1, h2, h3⟩
    · rename_i hfree
      have hp' : p < GetMaxSupportedSize PageSize := by omega
      have hused : bit b p = true := by
        cases hb : bit b p with
        | true => rfl
        | false => exact absurd ((IsPageFree_iff b p hp').2 hb) hfree
      have key : ∀ b' : BitmapPage PageSize, b'.bytes = clearBit b.bytes p →
          b'.next_free_page_ = min b.next_free_page_ p → SmallestFree b' := by
        intro b' hb' hn
        have hbits : ∀ q, bit b' q = if q = p then false else bit b q :=
          fun q => bit_clearBit b b' p q hlen hp' hb'
        refine ⟨by rw [hn]; omega, ?_, ?_⟩
        · intro q hq
          rw [hn] at hq
          rw [hbits q, if_neg (by omega)]
          exact h2 q (by omega)
        · intro _
          rw [hn, hbits]
          by_cases hlt : p < b.next_free_page_
          · rw [Nat.min_eq_right (by omega), if_pos rfl]
          · have hne : b.next_free_page_ ≠ p := by
              intro e
              have := h3 (by omega)
              rw [e, hused] at this
              cases this
            rw [Nat.min_eq_left (by omega), if_neg hne]
            exact h3 (by omega)
      simp only
      split
      · rename_i hlt
        exact key _ rfl (by show p = min b.next_free_page_ p; omega)
      · rename_i hlt
        exact key _ rfl (by show b.next_free_page_ = min b.next_free_page_ p; omega)

theorem run_smallest {PageSize : Nat} (hsize : GetMaxSupportedSize PageSize < 2 ^ 32)
    (ops : List Op) (b : BitmapPage PageSize) (hlen : b.bytes.length = MAX_CHARS PageSize)
    (hcount : b.page_allocated_ = popcount b) (hs : SmallestFree b) :
    SmallestFree (run b ops) := by
  induction ops generalizing b with
  | nil => exact hs
  | cons op ops ih =>
    cases op with
    | allocate =>
      have h := AllocatePage_inv hsize b hlen hcount
      exact ih _ h.1 h.2 (AllocatePage_smallest hsize b hlen hcount hs).1
    | deallocate p =>
      have h := DeAllocatePage_inv hsize b (u32 p) hlen hcount
      exact ih _ h.1 h.2 (DeAllocatePage_smallest b (u32 p) hlen hs)

/-- C37. On every `BitmapPage` reachable from the all-zero page by
`AllocatePage` and `DeAllocatePage` calls (with `GetMaxSupportedSize()` fitting
the `uint32_t` counters): `next_free_page_` is at most `GetMaxSupportedSize()`,
every offset below it is allocated, and it is free itself when it is below
`GetMaxSupportedSize()`; so it is the smallest free offset, and it equals
`GetMaxSupportedSize()` exactly when no offset is free.  Every successful
`AllocatePage` returns `next_free_page_`, which then is free and has no free
offset below it. -/
theorem next_free_is_smallest {PageSize : Nat} (hsize : GetMaxSupportedSize PageSize < 2 ^ 32)
    (b : BitmapPage PageSize) (hb : Reachable b) :
    b.next_free_page_ ≤ GetMaxSupportedSize PageSize ∧
    (∀ q, q < b.next_free_page_ → bit b q = true) ∧
    (b.next_free_page_ < GetMaxSupportedSize PageSize → bit b b.next_free_page_ = false) ∧
    (b.next_free_page_ = GetMaxSupportedSize PageSize ↔
      ∀ q, q < GetMaxSupportedSize PageSize → bit b q = true) ∧
    (∀ p, (AllocatePage b).1 = some p →
      p = b.next_free_page_ ∧ p < GetMaxSupportedSize PageSize ∧ bit b p = false ∧
      ∀ q, q < p → bit b q = true) := by
  have hinv := reachable_inv hsize hb
  obtain ⟨ops, rfl⟩ := hb
  have hs := run_smallest hsize ops _ (zero_inv PageSize).1 (zero_inv PageSize).2
    (SmallestFree_zero PageSize)
  obtain ⟨h1, h2, h3⟩ := hs
  refine ⟨h1, h2, h3, ⟨fun e q hq => h2 q (by omega), fun hall => ?_⟩, ?_⟩
  · by_contra hne
    have := h3 (by omega)
    rw [hall _ (by omega)] at this
    cases this
  · intro p hp
    have e := (AllocatePage_smallest hsize _ hinv.1 hinv.2 ⟨h1, h2, h3⟩).2 p hp
    have hlt : ¬ (run (zero PageSize) ops).page_allocated_ ≥ GetMaxSupportedSize PageSize := by
      intro hge
      have : AllocatePage (run (zero PageSize) ops) = (none, run (zero PageSize) ops) := by
        simp only [AllocatePage, hge, if_true]
      rw [this] at hp
      cases hp
    obtain ⟨hnf, hbit, _⟩ := allocateAt_smallest hsize _ hinv.1 hinv.2 ⟨h1, h2, h3⟩ (by omega)
    subst e
    exact ⟨rfl, hnf, hbit, h2⟩

/-- Instance of `next_free_is_smallest` on a 64-byte page after three
allocations and the release of offset 1: the hint stands at 1, and the next
`AllocatePage` returns 1. -/
theorem next_free_is_smallest_witness :
    (run (zero 64) [.allocate, .allocate, .allocate, .deallocate 1]).next_free_page_ = 1 ∧
    (AllocatePage (run (zero 64) [.allocate, .allocate, .allocate, .deallocate 1])).1
      = some 1 ∧
    bit (run (zero 64) [.allocate, .allocate, .allocate, .deallocate 1]) 0 = true :=
  have h := @next_free_is_smallest 64 (by decide)
    (run (zero 64) [.allocate, .allocate, .allocate, .deallocate 1]) ⟨_, rfl⟩
  have e : (run (zero 64) [.allocate, .allocate, .allocate, .deallocate 1]).next_free_page_ = 1 :=
    by decide
  ⟨e, by decide, h.2.1 0 (by rw [e]; decide)⟩

end BitmapPage

namespace DiskManager

theorem extent_split (B e o e' o' : Nat) (ho : o < B) (ho' : o' < B)
    (h : e * (1 + B) + o = e' * (1 + B) + o') : e = e' ∧ o = o' := by
  rcases Nat.lt_trichotomy e e' with hlt | heq | hgt
  · have := Nat.mul_le_mul_right (1 + B) (Nat.succ_le_of_lt hlt)
    rw [Nat.succ_mul] at this
    omega
  · subst heq
    omega
  · have := Nat.mul_le_mul_right (1 + B) (Nat.succ_le_of_lt hgt)
    rw [Nat.succ_mul] at this
    omega

theorem data_ne_bitmap (B e o k : Nat) (ho : o < B) :
    2 + e * (1 + B) + o ≠ 1 + k * (1 + B) := by
  intro h
  rcases Nat.lt_or_ge e k with hlt | hge
  · have := Nat.mul_le_mul_right (1 + B) (Nat.succ_le_of_lt hlt)
    rw [Nat.succ_mul] at this
    omega
  · have := Nat.mul_le_mul_right (1 + B) hge
    omega

theorem MapPageId_eq (cfg : Config) (pid : Nat)
    (hr : 2 + pid / cfg.BITMAP_SIZE * (1 + cfg.BITMAP_SIZE) + pid % cfg.BITMAP_SIZE < 2 ^ 31) :
    MapPageId cfg (pid : Int)
      = ((2 + pid / cfg.BITMAP_SIZE * (1 + cfg.BITMAP_SIZE) + pid % cfg.BITMAP_SIZE : Nat) : Int) := by
  have h1 : pid / cfg.BITMAP_SIZE ≤ pid / cfg.BITMAP_SIZE * (1 + cfg.BITMAP_SIZE) :=
    Nat.le_mul_of_pos_right _ (by omega)
  simp only [MapPageId, Int.toNat_ofNat, u32]
  rw [Nat.mod_eq_of_lt (a := pid / cfg.BITMAP_SIZE) (by omega),
    Nat.mod_eq_of_lt (a := pid % cfg.BITMAP_SIZE) (by omega)]
  have : 1 + pid / cfg.BITMAP_SIZE * (1 + cfg.BITMAP_SIZE) + 1 + pid % cfg.BITMAP_SIZE
      = 2 + pid / cfg.BITMAP_SIZE * (1 + cfg.BITMAP_SIZE) + pid % cfg.BITMAP_SIZE := by omega
  rw [this]
  exact wrapInt32_of_lt _ hr

theorem block_disjoint (P a b i : Nat) (hne : a ≠ b) (h1 : a * P ≤ i) (h2 : i < a * P + P) :
    ¬ (b * P ≤ i ∧ i < b * P + P) := by
  rintro ⟨h3, h4⟩
  rcases Nat.lt_or_ge a b with hlt | hge
  · have := Nat.mul_le_mul_right P (Nat.succ_le_of_lt hlt)
    rw [Nat.succ_mul] at this
    omega
  · have hlt : b < a := by omega
    have := Nat.mul_le_mul_right P (Nat.succ_le_of_lt hlt)
    rw [Nat.succ_mul] at this
    omega

/-- The bytes that `WritePhysicalPage` leaves alone: all those outside the page
written, when the byte offset fits the stream. -/
theorem WritePhysicalPage_other (cfg : Config) (file : DbFile) (p : Nat) (page_data : List Nat)
    (hp : p * cfg.PAGE_SIZE < 2 ^ 63) (i : Nat)
    (hi : ¬ (p * cfg.PAGE_SIZE ≤ i ∧ i < p * cfg.PAGE_SIZE + cfg.PAGE_SIZE)) :
    (WritePhysicalPage cfg file (p : Int) page_data).data i = file.data i := by
  by_cases hps : cfg.PAGE_SIZE = 0
  · have : ¬ (p * cfg.PAGE_SIZE ≤ i ∧ i < p * cfg.PAGE_SIZE + cfg.PAGE_SIZE) := hi
    unfold WritePhysicalPage
    simp only [hps, Nat.mul_zero, Nat.zero_mod, Nat.add_zero]
    split
    · rfl
    · split
      · rfl
      · simp only
        rw [if_neg (by omega)]
  · have hp' : p ≤ p * cfg.PAGE_SIZE := Nat.le_mul_of_pos_right _ (by omega)
    have h1 : ((p : Int) % 2 ^ 64).toNat = p := by omega
    have hmod : (((p : Int) % 2 ^ 64).toNat * cfg.PAGE_SIZE) % 2 ^ 64 = p * cfg.PAGE_SIZE := by
      rw [h1]
      exact Nat.mod_eq_of_lt (by omega)
    unfold WritePhysicalPage
    simp only [hmod]
    split
    · rfl
    · split
      · rfl
      · simp only
        rw [if_neg hi]

/-- C38. For a logical page id `pid >= 0` in the range where the 32-bit
arithmetic does not overflow (the physical page id is below 2^31):
`MapPageId(pid)` is `2 + (pid / BITMAP_SIZE) * (1 + BITMAP_SIZE) + pid mod
BITMAP_SIZE`; it is not the meta page 0 and not a bitmap page
`1 + k * (1 + BITMAP_SIZE)`; two page ids of that range with the same image are
equal; and `WritePage(pid, _)` leaves every byte of the meta page and of every
bitmap page as it is (the byte offset of the page fitting the stream). -/
theorem MapPageId_spec (cfg : Config) (hB : 0 < cfg.BITMAP_SIZE) (pid : Nat)
    (hr : 2 + pid / cfg.BITMAP_SIZE * (1 + cfg.BITMAP_SIZE) + pid % cfg.BITMAP_SIZE < 2 ^ 31) :
    MapPageId cfg (pid : Int)
      = ((2 + pid / cfg.BITMAP_SIZE * (1 + cfg.BITMAP_SIZE) + pid % cfg.BITMAP_SIZE : Nat) : Int) ∧
    MapPageId cfg (pid : Int) ≠ META_PAGE_ID ∧
    (∀ k : Nat, MapPageId cfg (pid : Int) ≠ ((1 + k * (1 + cfg.BITMAP_SIZE) : Nat) : Int)) ∧
    (∀ pid' : Nat,
      2 + pid' / cfg.BITMAP_SIZE * (1 + cfg.BITMAP_SIZE) + pid' % cfg.BITMAP_SIZE < 2 ^ 31 →
      MapPageId cfg (pid' : Int) = MapPageId cfg (pid : Int) → pid' = pid) ∧
    (∀ (s s' : DiskManager) (page_data : List Nat),
      (2 + pid / cfg.BITMAP_SIZE * (1 + cfg.BITMAP_SIZE) + pid % cfg.BITMAP_SIZE) * cfg.PAGE_SIZE
        < 2 ^ 63 →
      WritePage cfg s (pid : Int) page_data = some s' →
      s'.meta_data_ = s.meta_data_ ∧
      ∀ i : Nat, (i < cfg.PAGE_SIZE ∨
          ∃ k : Nat, (1 + k * (1 + cfg.BITMAP_SIZE)) * cfg.PAGE_SIZE ≤ i ∧
            i < (1 + k * (1 + cfg.BITMAP_SIZE)) * cfg.PAGE_SIZE + cfg.PAGE_SIZE) →
        s'.db_io_.data i = s.db_io_.data i) := by
  have he := MapPageId_eq cfg pid hr
  have ho : pid % cfg.BITMAP_SIZE < cfg.BITMAP_SIZE := Nat.mod_lt _ hB
  refine ⟨he, ?_, ?_, ?_, ?_⟩
  · rw [he]
    intro h
    have h0 : 2 + pid / cfg.BITMAP_SIZE * (1 + cfg.BITMAP_SIZE) + pid % cfg.BITMAP_SIZE = 0 := by
      unfold META_PAGE_ID at h
      exact_mod_cast h
    omega
  · intro k
    rw [he]
    intro h
    exact data_ne_bitmap _ _ _ k ho (Int.ofNat_inj.1 h)
  · intro pid' hr' h
    rw [he, MapPageId_eq cfg pid' hr'] at h
    have h' := Int.ofNat_inj.1 h
    have ho' : pid' % cfg.BITMAP_SIZE < cfg.BITMAP_SIZE := Nat.mod_lt _ hB
    obtain ⟨e1, e2⟩ := extent_split cfg.BITMAP_SIZE (pid' / cfg.BITMAP_SIZE)
      (pid' % cfg.BITMAP_SIZE) (pid / cfg.BITMAP_SIZE) (pid % cfg.BITMAP_SIZE) ho' ho (by omega)
    rw [← Nat.div_add_mod pid' cfg.BITMAP_SIZE, ← Nat.div_add_mod pid cfg.BITMAP_SIZE, e1, e2]
  · intro s s' page_data hfit hw
    have hnn : ¬ ((pid : Int) < 0) := by omega
    simp only [WritePage, hnn, if_false, Option.some.injEq] at hw
    subst hw
    refine ⟨rfl, ?_⟩
    intro i hi
    show (WritePhysicalPage cfg s.db_io_ (MapPageId cfg (pid : Int)) page_data).data i = _
    rw [he]
    apply WritePhysicalPage_other cfg _ _ _ hfit
    rcases hi with hi | ⟨k, hk1, hk2⟩
    · have := block_disjoint cfg.PAGE_SIZE 0 _ i
        (by omega : (0 : Nat) ≠ 2 + pid / cfg.BITMAP_SIZE * (1 + cfg.BITMAP_SIZE)
          + pid % cfg.BITMAP_SIZE) (by omega) (by omega)
      exact this
    · exact block_disjoint cfg.PAGE_SIZE _ _ i
        (fun e => data_ne_bitmap _ _ _ k ho e.symm) hk1 hk2

/-- Instance of `MapPageId_spec` with 4 KiB pages: logical page 32704, the
first page of extent 1, is physical page 32707. -/
theorem MapPageId_spec_witness :
    MapPageId Config.default 32704 = 32707 ∧ MapPageId Config.default 32704 ≠ META_PAGE_ID :=
  have h := MapPageId_spec Config.default (by decide) 32704 (by decide)
  ⟨by rw [show ((32704 : Int)) = ((32704 : Nat) : Int) from rfl, h.1]; decide, h.2.1⟩

end DiskManager

namespace RecoveryManager

theorem emplace_keyed (l : List (lsn_t × LogRec)) (r : LogRec)
    (h : ∀ e ∈ l, e.1 = e.2.lsn_) : ∀ e ∈ emplace l r.lsn_ r, e.1 = e.2.lsn_ := by
  induction l with
  | nil =>
    intro e he
    simp only [emplace, List.mem_singleton] at he
    subst he
    rfl
  | cons c rest ih =>
    intro e he
    simp only [emplace] at he
    split at he
    · rcases List.mem_cons.1 he with rfl | he'
      · rfl
      · exact h e he'
    · split at he
      · exact h e he
      · rcases List.mem_cons.1 he with rfl | he'
        · exact h _ (List.mem_cons_self _ _)
        · exact ih (fun x hx => h x (List.mem_cons_of_mem _ hx)) e he'

/-- A log filled through `AppendLogRec` stores every record under its own
`lsn_`. -/
theorem ofLog_keyed (last_checkpoint : CheckPoint) (recs : List LogRec) :
    ∀ e ∈ (ofLog last_checkpoint recs).log_recs_, e.1 = e.2.lsn_ := by
  have key : ∀ (recs : List LogRec) (s : RecoveryManager),
      (∀ e ∈ s.log_recs_, e.1 = e.2.lsn_) →
      ∀ e ∈ (recs.foldl AppendLogRec s).log_recs_, e.1 = e.2.lsn_ := by
    intro recs
    induction recs with
    | nil => intro s hs; exact hs
    | cons r rest ih =>
      intro s hs
      exact ih (AppendLogRec s r) (emplace_keyed s.log_recs_ r hs)
  exact key recs _ (fun e he => by cases he)

/-- The loop of `UndoSpecificTransaction` on a log whose records point
backwards: it ends, the lsns it finds a record at form the walk from
`current_lsn`, each below the one before, and the data it returns are the data
with these records undone in turn. -/
theorem undoLoop_walk (log_recs : List (lsn_t × LogRec)) (hb : Backward log_recs)
    (fuel : Nat) (data : List (KeyType × ValType)) (current_lsn : Int)
    (hfuel : log_recs.countP (fun e => decide (e.1 ≤ current_lsn)) < fuel) :
    ∃ v : List Int, Walk log_recs current_lsn v ∧ (∀ x ∈ v, x ≤ current_lsn) ∧
      v.Pairwise (fun a b => b < a) ∧
      undoLoop log_recs fuel data current_lsn = some (v.foldl (undoAt log_recs) data) := by
  induction fuel generalizing data current_lsn with
  | zero => omega
  | succ fuel ih =>
    simp only [undoLoop]
    by_cases h1 : current_lsn = INVALID_LSN
    · exact ⟨[], Or.inl h1, (fun x hx => by cases hx), List.Pairwise.nil, by simp [h1]⟩
    · simp only [h1, if_false]
      cases hf : UMap.find log_recs current_lsn with
      | none => exact ⟨[], Or.inr hf, (fun x hx => by cases hx), List.Pairwise.nil, rfl⟩
      | some current_log =>
        simp only []
        by_cases hbeg : current_log.type_ = .kBegin
        · refine ⟨[current_lsn], ⟨h1, rfl, current_log, hf, Or.inl ⟨hbeg, rfl⟩⟩, ?_,
            List.pairwise_singleton _ _, ?_⟩
          · intro x hx
            rw [List.mem_singleton.1 hx]
          · simp only [hbeg, if_true, List.foldl_cons, List.foldl_nil, undoAt, hf, undoData]
        · simp only [hbeg, if_false]
          have hmem : (current_lsn, current_log) ∈ log_recs := UMap.mem_of_find _ _ _ hf
          have hstep : undoAt log_recs data current_lsn = undoData current_log data := by
            simp only [undoAt, hf]
          rcases hb _ hmem with hlt | hinv
          · simp only at hlt
            have hc := countP_lt_generic (fun e : lsn_t × LogRec => decide (e.1 ≤ current_lsn))
              (fun e : lsn_t × LogRec => decide (e.1 ≤ current_log.prev_lsn_)) log_recs
              (by
                intro x hx
                simp only [decide_eq_true_eq] at hx ⊢
                unfold lsn_t at *
                omega)
              (current_lsn, current_log) hmem (by simp)
              (by
                simp only [decide_eq_false_iff_not]
                unfold lsn_t at *
                omega)
            obtain ⟨v, hw, hle, hp, hu⟩ := ih (undoData current_log data) current_log.prev_lsn_
              (by omega)
            refine ⟨current_lsn :: v, ⟨h1, rfl, current_log, hf, Or.inr ⟨hbeg, hw⟩⟩, ?_, ?_, ?_⟩
            · intro x hx
              rcases List.mem_cons.1 hx with rfl | hx'
              · exact le_refl _
              · have := hle x hx'
                unfold lsn_t at *
                omega
            · refine List.Pairwise.cons ?_ hp
              intro x hx
              have := hle x hx
              unfold lsn_t at *
              omega
            · rw [hu, List.foldl_cons, hstep]
          · simp only at hinv
            have hpos : 0 < log_recs.countP (fun e => decide (e.1 ≤ current_lsn)) :=
              List.countP_pos_iff.2 ⟨(current_lsn, current_log), hmem, by simp⟩
            obtain ⟨f, rfl⟩ : ∃ f, fuel = f + 1 := ⟨fuel - 1, by omega⟩
            refine ⟨[current_lsn],
              ⟨h1, rfl, current_log, hf, Or.inr ⟨hbeg, by rw [hinv]; exact Or.inl rfl⟩⟩, ?_,
              List.pairwise_singleton _ _, ?_⟩
            · intro x hx
              rw [List.mem_singleton.1 hx]
            · rw [hinv]
              simp only [undoLoop, if_true, List.foldl_cons, List.foldl_nil, hstep]

/-- C40. On a log that stores every record under its `lsn_` and in which every
record has `prev_lsn_ < lsn_` or `prev_lsn_ = INVALID_LSN`:
`UndoSpecificTransaction` returns; the lsns at which it finds a record are the
walk from `last_lsn_of_txn` along `prev_lsn_`, which stops at the first `kBegin`
record, at `INVALID_LSN`, or at the first lsn without a record; each lsn of the
walk is below the one before it; and the database it leaves is the one before
with the records of the walk undone in turn, so nothing is changed once an lsn
without a record is reached (when the walk starts at such an lsn or at
`INVALID_LSN` the state is unchanged).  `RedoPhase` and `UndoPhase` return as
well. -/
theorem undo_walk_terminates (s : RecoveryManager)
    (hk : ∀ e ∈ s.log_recs_, e.1 = e.2.lsn_)
    (hp : ∀ e ∈ s.log_recs_, e.2.prev_lsn_ < e.2.lsn_ ∨ e.2.prev_lsn_ = INVALID_LSN) :
    (∀ (txn_id last_lsn_of_txn : Int), ∃ v : List Int,
      Walk s.log_recs_ last_lsn_of_txn v ∧ v.Pairwise (fun a b => b < a) ∧
      UndoSpecificTransaction s txn_id last_lsn_of_txn
        = some { s with data_ := v.foldl (undoAt s.log_recs_) s.data_ }) ∧
    (∀ (txn_id last_lsn_of_txn : Int),
      (last_lsn_of_txn = INVALID_LSN ∨ UMap.find s.log_recs_ last_lsn_of_txn = none) →
      UndoSpecificTransaction s txn_id last_lsn_of_txn = some s) ∧
    (∃ s', RedoPhase s = some s') ∧ (∃ s', UndoPhase s = some s') := by
  have hb : Backward s.log_recs_ := by
    intro e he
    rw [hk e he]
    exact hp e he
  refine ⟨?_, ?_, ?_, ?_⟩
  · intro txn_id l
    obtain ⟨v, hw, _, hpw, hu⟩ := undoLoop_walk s.log_recs_ hb (s.log_recs_.length + 1) s.data_ l
      (Nat.lt_succ_of_le (List.countP_le_length _))
    exact ⟨v, hw, hpw, by
      simp only [UndoSpecificTransaction, UndoSpecificTransactionFuel, hu, Option.map_some']⟩
  · intro txn_id l h
    simp only [UndoSpecificTransaction, UndoSpecificTransactionFuel, undoLoop]
    rcases h with h | h
    · simp [h]
    · by_cases h1 : l = INVALID_LSN
      · simp [h1]
      · simp [h1, h]
  · obtain ⟨s', h, _⟩ := redoLoop_some
      (s.log_recs_.dropWhile (fun e => decide (e.1 < s.persist_lsn_))) s hb
    exact ⟨s', h⟩
  · obtain ⟨s', h⟩ := undoAll_some s.active_txns_ s hb
    exact ⟨{ s' with active_txns_ := [] }, by simp only [UndoPhase, h, Option.map_some']⟩

/-- Instance of `undo_walk_terminates`: on the log `Begin(T)` at lsn 0,
`Insert(T, a, 1)` at lsn 1 over the database `{a: 1}`, the walk from lsn 1
returns, and `UndoPhase` returns. -/
theorem undo_walk_terminates_witness :
    (∃ v : List Int,
      Walk [(0, { LogRec.default with type_ := .kBegin, lsn_ := 0, txn_id_ := 7 }),
            (1, { LogRec.default with type_ := .kInsert, lsn_ := 1, prev_lsn_ := 0, txn_id_ := 7,
                                      ins_key_ := [97], ins_val_ := 1 })] 1 v ∧
      v.Pairwise (fun a b => b < a) ∧
      UndoSpecificTransaction
        ⟨[(0, { LogRec.default with type_ := .kBegin, lsn_ := 0, txn_id_ := 7 }),
          (1, { LogRec.default with type_ := .kInsert, lsn_ := 1, prev_lsn_ := 0, txn_id_ := 7,
                                    ins_key_ := [97], ins_val_ := 1 })], INVALID_LSN, [(7, 1)],
          [([97], 1)]⟩ 7 1
        = some { (⟨[(0, { LogRec.default with type_ := .kBegin, lsn_ := 0, txn_id_ := 7 }),
          (1, { LogRec.default with type_ := .kInsert, lsn_ := 1, prev_lsn_ := 0, txn_id_ := 7,
                                    ins_key_ := [97], ins_val_ := 1 })], INVALID_LSN, [(7, 1)],
          [([97], 1)]⟩ : RecoveryManager) with
          data_ := v.foldl
            (undoAt [(0, { LogRec.default with type_ := .kBegin, lsn_ := 0, txn_id_ := 7 }),
              (1, { LogRec.default with type_ := .kInsert, lsn_ := 1, prev_lsn_ := 0,
                                        txn_id_ := 7, ins_key_ := [97], ins_val_ := 1 })])
            [([97], 1)] }) :=
  (undo_walk_terminates
    ⟨[(0, { LogRec.default with type_ := .kBegin, lsn_ := 0, txn_id_ := 7 }),
      (1, { LogRec.default with type_ := .kInsert, lsn_ := 1, prev_lsn_ := 0, txn_id_ := 7,
                                ins_key_ := [97], ins_val_ := 1 })], INVALID_LSN, [(7, 1)],
      [([97], 1)]⟩ (by decide) (by decide)).1 7 1

end RecoveryManager

namespace DiskManager

theorem WritePhysicalPage_failed (cfg : Config) (file : DbFile) (p : page_id_t)
    (page_data : List Nat) (h : file.fail = true) :
    WritePhysicalPage cfg file p page_data = file := by
  simp only [WritePhysicalPage, h, if_true]

/-- Two more calls of `AllocatePage` on the state after 555968 calls on an
empty file: 18 extents, two pages counted in extent 17, the stream failed, and
the file holding what the first of the two calls left. -/
theorem two_more_allocations (s : DiskManager) (hF : Filled 555968 s) :
    ∃ (used : List Nat) (f : Nat → Nat), used.length = 1022 ∧
      (AllocatePage Config.default (AllocatePage Config.default s).2).2
        = ⟨⟨555970, 18, (used.set 17 1).set 17 2⟩,
            ⟨2277322752,
              fun i => if 2277318656 ≤ i ∧ i < 2277318656 + 4096 then
                  (ofBitmap Config.default
                    (BitmapPage.AllocatePage
                      (toBitmap Config.default (zeroPage Config.default))).2).getD
                    (i - 2277318656) 0
                else f i,
              true⟩⟩ := by
  obtain ⟨hnum, hext, hlen, hused, hfail, hsize, _⟩ := hF
  have h17 : (555968 + 32703) / 32704 = 17 := by norm_num
  rw [h17] at hext hused hsize
  have hfull : ∀ e, e < 17 → s.meta_data_.extent_used_page_.getD e 0 = 32704 := by
    intro e he
    rw [hused e he]
    omega
  have hsize' : s.db_io_.size ≤ 2277322752 := by omega
  refine ⟨s.meta_data_.extent_used_page_, s.db_io_.data, hlen, ?_⟩
  rw [AllocatePage_extent_17 s hext hfull hnum, WritePhysicalPage_555986 _ _ hfail hsize']
  have hskip : ∀ e ∈ List.range 17,
      ¬ (s.meta_data_.extent_used_page_.set 17 1).getD e 0 < Config.default.BITMAP_SIZE := by
    intro e he
    have he' : e < 17 := List.mem_range.1 he
    rw [default_BITMAP_SIZE, getD_set_other _ 17 e 1 (by omega), hfull e he']
    omega
  have h17' : (s.meta_data_.extent_used_page_.set 17 1).getD 17 0 = 1 :=
    getD_set_self _ 17 1 (by omega)
  have hsz : BitmapPage.GetMaxSupportedSize Config.default.PAGE_SIZE < 2 ^ 32 := by
    rw [default_Max]; omega
  have ha := (BitmapPage.AllocatePage_PrefixFull hsz _ 0
    (BitmapPage.PrefixFull_zero Config.default.PAGE_SIZE) (by rw [default_Max]; omega)).1
  rw [← toBitmap_zeroPage] at ha
  have hmax : ¬ (555969 : Nat) ≥ Config.default.MAX_VALID_PAGE_ID := by
    rw [default_MAX]
    omega
  generalize (BitmapPage.AllocatePage (toBitmap Config.default (zeroPage Config.default))).2
    = bm at ha ⊢
  rw [AllocatePage_of_loop_eq Config.default _ _ _ hmax
    (by
      show allocateInExtents Config.default (List.range (17 + 1)) _ = _
      rw [List.range_succ, allocateInExtents_skip _ _ _ _ hskip]
      exact allocateInExtents_cons_hit Config.default 17 [] _ _ _ 0 bm
        (by rw [h17', default_BITMAP_SIZE]; omega)
        (by rw [bitmapPhysicalPageId_17]; exact ReadPhysicalPage_555986 _) ha)]
  simp only [h17']
  rw [WritePhysicalPage_failed _ _ _ _ rfl]
  rfl

/-- C39 (failing input).  After 555970 calls of `AllocatePage` on an empty
file with 4 KiB pages (555968 calls and two more) there are 18 extents and
`extent_used_page[17]` is 2,
while the bitmap page of extent 17 in the file has `page_allocated_ = 1` and
reads back through `ReadPhysicalPage` as a zero page with `page_allocated_ = 0`:
the counter of the extent is not the count kept in its bitmap page. -/
theorem extent_counter_overflow :
    (AllocatePage Config.default (AllocatePage Config.default
      (run Config.default (openEmpty Config.default)
        (List.replicate 555968 .allocate)).2).2).2.meta_data_.num_extents_ = 18 ∧
    (AllocatePage Config.default (AllocatePage Config.default
      (run Config.default (openEmpty Config.default)
        (List.replicate 555968 .allocate)).2).2).2.meta_data_.num_allocated_pages_ = 555970 ∧
    (AllocatePage Config.default (AllocatePage Config.default
      (run Config.default (openEmpty Config.default)
        (List.replicate 555968 .allocate)).2).2).2.meta_data_.extent_used_page_.getD 17 0
      = 2 ∧
    (bitmapOnDisk Config.default
      (AllocatePage Config.default (AllocatePage Config.default
        (run Config.default (openEmpty Config.default)
          (List.replicate 555968 .allocate)).2).2).2 17).page_allocated_ = 1 ∧
    (toBitmap Config.default
      (ReadPhysicalPage Config.default
        (AllocatePage Config.default (AllocatePage Config.default
          (run Config.default (openEmpty Config.default)
            (List.replicate 555968 .allocate)).2).2).2.db_io_
        (bitmapPhysicalPageId Config.default 17)).1).page_allocated_ = 0 := by
  have hF := (Filled_run 555968 (le_refl _)).2
  generalize (run Config.default (openEmpty Config.default)
    (List.replicate 555968 .allocate)).2 = s at hF ⊢
  obtain ⟨used, f, hlen, he⟩ := two_more_allocations s hF
  rw [he]
  have hsz : BitmapPage.GetMaxSupportedSize Config.default.PAGE_SIZE < 2 ^ 32 := by
    rw [default_Max]; omega
  have hP := (BitmapPage.AllocatePage_PrefixFull hsz _ 0
    (BitmapPage.PrefixFull_zero Config.default.PAGE_SIZE) (by rw [default_Max]; omega)).2
  rw [← toBitmap_zeroPage] at hP
  obtain ⟨hblen, hbcount, hbnext, _⟩ := hP
  refine ⟨rfl, rfl, ?_, ?_, ?_⟩
  · show ((used.set 17 1).set 17 2).getD 17 0 = 2
    exact getD_set_self _ 17 2 (by rw [List.length_set]; omega)
  · have hbuf : (ofBitmap Config.default (BitmapPage.AllocatePage
        (toBitmap Config.default (zeroPage Config.default))).2).length
        = Config.default.PAGE_SIZE :=
      ofBitmap_length Config.default _ hblen (by decide)
    have hback := toBitmap_ofBitmap Config.default _ hblen (by rw [hbcount]; omega)
      (by rw [hbnext]; omega)
    generalize (BitmapPage.AllocatePage (toBitmap Config.default (zeroPage Config.default))).2
      = bm at hbuf hback hbcount ⊢
    have hmap : (List.range Config.default.PAGE_SIZE).map
        (fun i => (fun j : Nat => if 2277318656 ≤ j ∧ j < 2277318656 + 4096 then
            (ofBitmap Config.default bm).getD (j - 2277318656) 0 else f j)
          ((1 + 17 * (1 + Config.default.BITMAP_SIZE)) * Config.default.PAGE_SIZE + i))
        = ofBitmap Config.default bm := by
      have e : (List.range Config.default.PAGE_SIZE).map
          (fun i => (ofBitmap Config.default bm).getD i 0) = ofBitmap Config.default bm :=
        range_map_getD _ _ hbuf
      refine Eq.trans (List.map_congr_left ?_) e
      intro i hi
      have hi' : i < 4096 := List.mem_range.1 hi
      have hoff : (1 + 17 * (1 + Config.default.BITMAP_SIZE)) * Config.default.PAGE_SIZE + i
          = 2277318656 + i := by
        rw [default_BITMAP_SIZE, default_PAGE_SIZE]
      simp only [hoff]
      rw [if_pos ⟨by omega, by omega⟩, Nat.add_sub_cancel_left]
    show (toBitmap Config.default ((List.range Config.default.PAGE_SIZE).map
        (fun i => (fun j : Nat => if 2277318656 ≤ j ∧ j < 2277318656 + 4096 then
            (ofBitmap Config.default bm).getD (j - 2277318656) 0 else f j)
          ((1 + 17 * (1 + Config.default.BITMAP_SIZE)) * Config.default.PAGE_SIZE + i)))).page_allocated_
        = 1
    rw [hmap, hback, hbcount]
  · have hr : ∀ g : Nat → Nat, ReadPhysicalPage Config.default ⟨2277322752, g, true⟩
        (bitmapPhysicalPageId Config.default 17) = (zeroPage Config.default, ⟨2277322752, g, true⟩) := by
      intro g
      rw [bitmapPhysicalPageId_17]
      have h1 : ¬ (wrapInt32 ((555986 : Int) * (Config.default.PAGE_SIZE : Int))
          ≥ GetFileSize ⟨2277322752, g, true⟩) := by
        norm_num [GetFileSize, wrapInt32, default_PAGE_SIZE]
      simp only [ReadPhysicalPage, h1, if_false, if_true]
    show (toBitmap Config.default (ReadPhysicalPage Config.default ⟨2277322752, _, true⟩
      (bitmapPhysicalPageId Config.default 17)).1).page_allocated_ = 0
    rw [hr, toBitmap_zeroPage]
    rfl

end DiskManager

namespace InternalPage

theorem scanRight_eq (p : BPlusTreePage) (key : Nat) (m r : Nat) (hr : r ≤ m)
    (h1 : r = 0 ∨ (p.pairs_.getD r (0, 0)).1 ≤ key)
    (h2 : ∀ i, r < i → i ≤ m → key < (p.pairs_.getD i (0, 0)).1) :
    scanRight p key m = r := by
  induction m with
  | zero =>
    have : r = 0 := by omega
    rw [this]
    rfl
  | succ m ih =>
    by_cases e : r = m + 1
    · subst e
      have hk : (p.pairs_.getD (m + 1) (0, 0)).1 ≤ key := by
        rcases h1 with h | h
        · omega
        · exact h
      simp only [scanRight, hk, if_true]
    · have hlt := h2 (m + 1) (by omega) (le_refl _)
      have hk : ¬ (p.pairs_.getD (m + 1) (0, 0)).1 ≤ key := by omega
      simp only [scanRight, hk, if_false]
      exact ih (by omega) (fun i hi1 hi2 => h2 i hi1 (by omega))

/-- The loop of `Lookup` on the interval `[lo, hi]` of slots with sorted keys:
within `hi + 1 - lo` rounds it ends, at the largest slot whose key is at most
`key`, or at `lo - 1`. -/
theorem lookupLoop_spec (p : BPlusTreePage) (key n : Nat)
    (hs : ∀ i j : Nat, 1 ≤ i → i ≤ j → j < n →
      (p.pairs_.getD i (0, 0)).1 ≤ (p.pairs_.getD j (0, 0)).1) :
    ∀ (fuel lo hi : Nat), 1 ≤ lo → lo ≤ hi + 1 → hi < n → hi + 1 - lo ≤ fuel →
      (lo = 1 ∨ (p.pairs_.getD (lo - 1) (0, 0)).1 ≤ key) →
      (∀ i, hi < i → i < n → key < (p.pairs_.getD i (0, 0)).1) →
      ∃ r : Nat, lookupLoop p key fuel (lo : Int) (hi : Int) ((lo : Int) - 1) = (r : Int) ∧
        r < n ∧ (r = 0 ∨ (p.pairs_.getD r (0, 0)).1 ≤ key) ∧
        ∀ i, r < i → i < n → key < (p.pairs_.getD i (0, 0)).1 := by
  intro fuel
  have hdone : ∀ (f lo hi : Nat), 1 ≤ lo → lo = hi + 1 → hi < n →
      (lo = 1 ∨ (p.pairs_.getD (lo - 1) (0, 0)).1 ≤ key) →
      (∀ i, hi < i → i < n → key < (p.pairs_.getD i (0, 0)).1) →
      ∃ r : Nat, lookupLoop p key f (lo : Int) (hi : Int) ((lo : Int) - 1) = (r : Int) ∧
        r < n ∧ (r = 0 ∨ (p.pairs_.getD r (0, 0)).1 ≤ key) ∧
        ∀ i, r < i → i < n → key < (p.pairs_.getD i (0, 0)).1 := by
    intro f lo hi h1 h2 h3 h5 h6
    have e : lookupLoop p key f (lo : Int) (hi : Int) ((lo : Int) - 1) = ((hi : Nat) : Int) := by
      cases f with
      | zero =>
        simp only [lookupLoop]
        omega
      | succ f =>
        have hn : ¬ ((lo : Int) ≤ (hi : Int)) := by omega
        simp only [lookupLoop, hn, if_false]
        omega
    refine ⟨hi, e, h3, ?_, h6⟩
    rcases h5 with h5 | h5
    · left; omega
    · right
      have : lo - 1 = hi := by omega
      rw [← this]
      exact h5
  induction fuel with
  | zero =>
    intro lo hi h1 h2 h3 h4 h5 h6
    exact hdone 0 lo hi h1 (by omega) h3 h5 h6
  | succ fuel ih =>
    intro lo hi h1 h2 h3 h4 h5 h6
    by_cases hle : lo ≤ hi
    · have hle' : (lo : Int) ≤ (hi : Int) := by omega
      have hsub : (hi : Int) - (lo : Int) = ((hi - lo : Nat) : Int) := by omega
      have hmid : (lo : Int) + Int.tdiv ((hi : Int) - (lo : Int)) 2
          = ((lo + (hi - lo) / 2 : Nat) : Int) := by
        rw [hsub, Int.tdiv_eq_ediv (by omega) (by omega)]
        omega
      have hm1 : lo ≤ lo + (hi - lo) / 2 := by omega
      have hm2 : lo + (hi - lo) / 2 ≤ hi := by omega
      simp only [lookupLoop, hle', if_true, hmid, Int.toNat_ofNat]
      by_cases hk : (p.pairs_.getD (lo + (hi - lo) / 2) (0, 0)).1 ≤ key
      · simp only [hk, if_true]
        have := ih (lo + (hi - lo) / 2 + 1) hi (by omega) (by omega) h3 (by omega)
          (Or.inr (by rw [Nat.add_sub_cancel]; exact hk)) h6
        have e : (((lo + (hi - lo) / 2 + 1 : Nat) : Int)) - 1
            = ((lo + (hi - lo) / 2 : Nat) : Int) := by omega
        rw [e] at this
        have e2 : (((lo + (hi - lo) / 2 + 1 : Nat) : Int))
            = ((lo + (hi - lo) / 2 : Nat) : Int) + 1 := by omega
        rw [e2] at this
        exact this
      · simp only [hk, if_false]
        have hgt : key < (p.pairs_.getD (lo + (hi - lo) / 2) (0, 0)).1 := by omega
        have := ih lo (lo + (hi - lo) / 2 - 1) h1 (by omega) (by omega) (by omega) h5
          (by
            intro i hi1 hi2
            have := hs (lo + (hi - lo) / 2) i (by omega) (by omega) hi2
            omega)
        have e : (((lo + (hi - lo) / 2 - 1 : Nat) : Int))
            = ((lo + (hi - lo) / 2 : Nat) : Int) - 1 := by omega
        rw [e] at this
        exact this
    · exact hdone (fuel + 1) lo hi h1 (by omega) h3 h5 h6

theorem getD_setPair (p p' : BPlusTreePage) (index : Int) (e : Nat × page_id_t)
    (h : setPair p index e = some p') (i : Nat) :
    p'.pairs_.getD i (0, 0) = if i = index.toNat then e else p.pairs_.getD i (0, 0) := by
  unfold setPair at h
  split at h
  · cases h
  · simp only [Option.some.injEq] at h
    subst h
    simp only [List.getD_eq_getElem?_getD, List.getElem?_set, List.length_append,
      List.length_replicate]
    by_cases hi : index.toNat = i
    · subst hi
      rw [if_pos rfl, if_pos rfl, if_pos (by omega)]
      rfl
    · rw [if_neg hi, if_neg (fun e => hi e.symm)]
      by_cases hl : i < p.pairs_.length
      · rw [List.getElem?_append_left hl]
      · rw [List.getElem?_append_right (by omega), List.getElem?_replicate,
          List.getElem?_eq_none (show p.pairs_.length ≤ i by omega)]
        split <;> rfl

theorem size_setPair (p p' : BPlusTreePage) (index : Int) (e : Nat × page_id_t)
    (h : setPair p index e = some p') : p'.size_ = p.size_ := by
  unfold setPair at h
  split at h
  · cases h
  · simp only [Option.some.injEq] at h
    subst h
    rfl

/-- C31. For an internal page of size `n >= 2` whose keys at the slots
`1 .. n - 1` are in ascending order, `Lookup(key)` is the lookup of the spec:
it returns `ValueAt(i)` for the largest slot `i` in `1 .. n - 1` with
`KeyAt(i) <= key`, and `ValueAt(0)` when there is no such slot (the slot found
by the scan from the right, characterised in the second part).  The binary
search ends within `n` rounds, more rounds giving the same slot; and the result
does not depend on the key of slot 0.  For `n = 1` it returns `ValueAt(0)`. -/
theorem Lookup_is_rightmost (p : BPlusTreePage) (key : Nat) (h2 : 2 ≤ p.size_)
    (hs : ∀ i j : Nat, 1 ≤ i → i ≤ j → (j : Int) < p.size_ →
      (p.pairs_.getD i (0, 0)).1 ≤ (p.pairs_.getD j (0, 0)).1) :
    Lookup p key = LookupLinear p key ∧
    ((scanRight p key (p.size_.toNat - 1) : Int) < p.size_ ∧
      (scanRight p key (p.size_.toNat - 1) = 0 ∨
        (p.pairs_.getD (scanRight p key (p.size_.toNat - 1)) (0, 0)).1 ≤ key) ∧
      ∀ i : Nat, scanRight p key (p.size_.toNat - 1) < i → (i : Int) < p.size_ →
        key < (p.pairs_.getD i (0, 0)).1) ∧
    (∀ k : Nat, lookupLoop p key (p.size_.toNat + k) 1 (p.size_ - 1) 0
      = lookupLoop p key p.size_.toNat 1 (p.size_ - 1) 0) ∧
    (∀ (key0 : Nat) (p' : BPlusTreePage), SetKeyAt p 0 key0 = some p' →
      Lookup p' key = Lookup p key) ∧
    (∀ q : BPlusTreePage, q.size_ = 1 → Lookup q key = ValueAt q 0) := by
  obtain ⟨n, hn⟩ : ∃ n : Nat, p.size_ = (n : Int) := ⟨p.size_.toNat, by omega⟩
  have hn2 : 2 ≤ n := by omega
  have hnat : p.size_.toNat = n := by omega
  have hs' : ∀ i j : Nat, 1 ≤ i → i ≤ j → j < n →
      (p.pairs_.getD i (0, 0)).1 ≤ (p.pairs_.getD j (0, 0)).1 :=
    fun i j h1 h2 h3 => hs i j h1 h2 (by omega)
  have hloop : ∀ fuel, n - 1 ≤ fuel →
      ∃ r : Nat, lookupLoop p key fuel 1 (p.size_ - 1) 0 = (r : Int) ∧ r < n ∧
        (r = 0 ∨ (p.pairs_.getD r (0, 0)).1 ≤ key) ∧
        ∀ i, r < i → i < n → key < (p.pairs_.getD i (0, 0)).1 := by
    intro fuel hf
    have := lookupLoop_spec p key n hs' fuel 1 (n - 1) (le_refl _) (by omega) (by omega)
      (by omega) (Or.inl rfl) (fun i h1 h2 => by omega)
    have e1 : (((n - 1 : Nat)) : Int) = p.size_ - 1 := by omega
    rw [e1] at this
    exact this
  have huniq : ∀ r r' : Nat, r < n → r' < n →
      (r = 0 ∨ (p.pairs_.getD r (0, 0)).1 ≤ key) →
      (∀ i, r < i → i < n → key < (p.pairs_.getD i (0, 0)).1) →
      (r' = 0 ∨ (p.pairs_.getD r' (0, 0)).1 ≤ key) →
      (∀ i, r' < i → i < n → key < (p.pairs_.getD i (0, 0)).1) → r = r' := by
    intro r r' h1 h1' h3 h4 h3' h4'
    rcases Nat.lt_trichotomy r r' with h | h | h
    · have := h4 r' h h1'
      rcases h3' with e | e <;> omega
    · exact h
    · have := h4' r h h1
      rcases h3 with e | e <;> omega
  obtain ⟨r, hr, hrn, hr1, hr2⟩ := hloop n (by omega)
  have hscan : scanRight p key (n - 1) = r :=
    scanRight_eq p key (n - 1) r (by omega) hr1 (fun i h1 h2 => hr2 i h1 (by omega))
  have hne0 : ¬ p.size_ = 0 := by omega
  have hne1 : ¬ p.size_ = 1 := by omega
  have hL : Lookup p key = ValueAt p (r : Int) := by
    simp only [Lookup, hne0, hne1, if_false, hnat, hr]
  refine ⟨?_, ?_, ?_, ?_, ?_⟩
  · rw [hL]
    simp only [LookupLinear, hnat, hscan]
  · rw [hnat, hscan]
    exact ⟨by omega, hr1, fun i h1 h2 => hr2 i h1 (by omega)⟩
  · intro k
    obtain ⟨r', hr', hrn', hr1', hr2'⟩ := hloop (n + k) (by omega)
    rw [hnat, hr, hr', huniq r' r hrn' hrn hr1' hr2' hr1 hr2]
  · intro key0 p' hp'
    have hset : ∃ e, setPair p 0 e = some p' ∧ e.2 = (p.pairs_.getD 0 (0, 0)).2 := by
      unfold SetKeyAt at hp'
      simp only [PairAt, show ¬ ((0 : Int) < 0) by omega, if_false] at hp'
      exact ⟨_, hp', rfl⟩
    obtain ⟨e, he, he2⟩ := hset
    have hg := getD_setPair p p' 0 e he
    have hsz := size_setPair p p' 0 e he
    have hkeys : ∀ i : Nat, 1 ≤ i → (p'.pairs_.getD i (0, 0)).1 = (p.pairs_.getD i (0, 0)).1 := by
      intro i hi
      rw [hg i, if_neg (by simp only [Int.toNat_zero]; omega)]
    have hvals : ∀ i : Nat, (p'.pairs_.getD i (0, 0)).2 = (p.pairs_.getD i (0, 0)).2 := by
      intro i
      rw [hg i]
      by_cases hi : i = (0 : Int).toNat
      · rw [if_pos hi, he2, hi]
        rfl
      · rw [if_neg hi]
    have hloop' := lookupLoop_spec p' key n
      (fun i j h1 h2 h3 => by rw [hkeys i h1, hkeys j (by omega)]; exact hs' i j h1 h2 h3)
      n 1 (n - 1) (le_refl _) (by omega) (by omega) (by omega) (Or.inl rfl)
      (fun i h1 h2 => by omega)
    obtain ⟨r', hr', hrn', hr1', hr2'⟩ := hloop'
    have e1 : (((n - 1 : Nat)) : Int) = p'.size_ - 1 := by omega
    rw [e1] at hr'
    have hrl : lookupLoop p' key n 1 (p'.size_ - 1) 0 = (r' : Int) := hr'
    have hrr : r' = r := by
      apply huniq r' r hrn' hrn _ _ hr1 hr2
      · rcases hr1' with h | h
        · exact Or.inl h
        · by_cases h0 : r' = 0
          · exact Or.inl h0
          · right
            rw [← hkeys r' (by omega)]
            exact h
      · intro i h1 h2
        rw [← hkeys i (by omega)]
        exact hr2' i h1 h2
    have hne0' : ¬ p'.size_ = 0 := by omega
    have hne1' : ¬ p'.size_ = 1 := by omega
    have hnat' : p'.size_.toNat = n := by omega
    rw [hL]
    simp only [Lookup, hne0', hne1', if_false, hnat', hrl, hrr, ValueAt, PairAt,
      show ¬ ((r : Int) < 0) by omega, Option.map_some', Int.toNat_ofNat, hvals]
  · intro q hq
    simp only [Lookup, hq, show ¬ ((1 : Int) = 0) by omega, if_false, if_true]

/-- Instance of `Lookup_is_rightmost`: on a page with the children 7, 8, 9 and
the keys 10, 20 in the slots 1 and 2, the key 15 leads to child 8. -/
theorem Lookup_is_rightmost_witness :
    Lookup ⟨.INTERNAL_PAGE, 3, 4, 8, -1, 3, 0, [(0, 7), (10, 8), (20, 9)], []⟩ 15 = some 8 ∧
    LookupLinear ⟨.INTERNAL_PAGE, 3, 4, 8, -1, 3, 0, [(0, 7), (10, 8), (20, 9)], []⟩ 15
      = some 8 :=
  have h := (Lookup_is_rightmost
    ⟨.INTERNAL_PAGE, 3, 4, 8, -1, 3, 0, [(0, 7), (10, 8), (20, 9)], []⟩ 15 (by decide)
    (by
      intro i j h1 h2 h3
      have h3' : j < 3 := by
        have : (j : Int) < 3 := h3
        omega
      have hi : i = 1 ∨ i = 2 := by omega
      have hj : j = 1 ∨ j = 2 := by omega
      rcases hi with rfl | rfl <;> rcases hj with rfl | rfl <;> first | decide | omega)).1
  ⟨h.trans (by decide), by decide⟩

end InternalPage

namespace Pool

theorem page_write (b : Pool) (page_id : page_id_t) (p : BPlusTreePage) (x : page_id_t) :
    page (write b page_id p) x
      = if x = page_id then (page b x).map (fun _ => p) else page b x := by
  induction b with
  | nil => simp [page, write, UMap.find]
  | cons e rest ih =>
    obtain ⟨k, v, n⟩ := e
    simp only [page, write, List.map_cons] at ih ⊢
    by_cases h1 : k = page_id
    · rw [if_pos h1]
      by_cases h2 : x = page_id
      · have h3 : k = x := h1.trans h2.symm
        rw [if_pos h2]
        simp only [UMap.find, h3, if_true, Option.map_some']
      · have h4 : ¬ k = x := fun h => h2 (h ▸ h1)
        rw [if_neg h2] at ih ⊢
        simp only [UMap.find, h4, if_false]
        exact ih
    · rw [if_neg h1]
      by_cases h2 : k = x
      · have h3 : ¬ x = page_id := fun h => h1 (h2.trans h)
        rw [if_neg h3]
        simp only [UMap.find, h2, if_true, Option.map_some']
      · simp only [UMap.find, h2, if_false]
        exact ih

theorem page_write_self (b : Pool) (page_id : page_id_t) (p q : BPlusTreePage)
    (h : page b page_id = some q) : page (write b page_id p) page_id = some p := by
  rw [page_write, if_pos rfl, h]
  rfl

theorem page_write_other (b : Pool) (page_id : page_id_t) (p : BPlusTreePage) (x : page_id_t)
    (h : x ≠ page_id) : page (write b page_id p) x = page b x := by
  rw [page_write, if_neg h]

theorem page_map_pin (b : Pool) (g : page_id_t × (BPlusTreePage × Int) → Int)
    (c : page_id_t × (BPlusTreePage × Int) → Prop) [DecidablePred c] (x : page_id_t) :
    page (b.map (fun e => if c e then (e.1, (e.2.1, g e)) else e)) x = page b x := by
  induction b with
  | nil => rfl
  | cons e rest ih =>
    obtain ⟨k, v, n⟩ := e
    simp only [page, List.map_cons] at ih ⊢
    by_cases hc : c (k, v, n)
    · rw [if_pos hc]
      by_cases h2 : k = x
      · simp only [UMap.find, h2, if_true, Option.map_some']
      · simp only [UMap.find, h2, if_false]
        exact ih
    · rw [if_neg hc]
      by_cases h2 : k = x
      · simp only [UMap.find, h2, if_true, Option.map_some']
      · simp only [UMap.find, h2, if_false]
        exact ih

theorem page_UnpinPage (b : Pool) (page_id x : page_id_t) :
    page (UnpinPage b page_id) x = page b x :=
  page_map_pin b (fun e => e.2.2 - 1) (fun e => e.1 = page_id ∧ 0 < e.2.2) x

theorem FetchPage_of_page (b : Pool) (page_id : page_id_t) (p : BPlusTreePage)
    (h : page b page_id = some p) :
    ∃ b1, FetchPage b page_id = some b1 ∧ ∀ x, page b1 x = page b x := by
  unfold page at h
  cases hf : UMap.find b page_id with
  | none => rw [hf] at h; cases h
  | some e =>
    refine ⟨b.map (fun e => if e.1 = page_id then (e.1, (e.2.1, e.2.2 + 1)) else e), ?_, ?_⟩
    · simp only [FetchPage, hf]
    · intro x
      exact page_map_pin b (fun e => e.2.2 + 1) (fun e => e.1 = page_id) x

theorem page_of_FetchPage (b b1 : Pool) (page_id : page_id_t) (h : FetchPage b page_id = some b1)
    (x : page_id_t) : page b1 x = page b x := by
  unfold FetchPage at h
  split at h
  · cases h
  · simp only [Option.some.injEq] at h
    subst h
    exact page_map_pin b (fun e => e.2.2 + 1) (fun e => e.1 = page_id) x

end Pool

namespace InternalPage

/-- The adoption of a child that the pool holds: the child gets the page id of
`self` as parent id, and no other page changes. -/
theorem adopt_spec (b : Pool) (self child_id : page_id_t) (p child : BPlusTreePage)
    (hp : Pool.page b self = some p) (hc : Pool.page b child_id = some child) :
    ∃ b', adopt b self child_id = some (some b') ∧
      Pool.page b' child_id = some { child with parent_page_id_ := p.page_id_ } ∧
      ∀ x, x ≠ child_id → Pool.page b' x = Pool.page b x := by
  obtain ⟨b1, hf, hpg⟩ := Pool.FetchPage_of_page b child_id child hc
  refine ⟨Pool.UnpinPage (Pool.write b1 child_id { child with parent_page_id_ := p.page_id_ })
    child_id, ?_, ?_, ?_⟩
  · simp only [adopt, hf, hpg, hp, hc]
  · rw [Pool.page_UnpinPage, Pool.page_write_self _ _ _ child (by rw [hpg]; exact hc)]
  · intro x hx
    rw [Pool.page_UnpinPage, Pool.page_write_other _ _ _ _ hx, hpg]

/-- The adoption of a child that the pool does not hold: `FetchPage` returns
`nullptr` and nothing changes. -/
theorem adopt_missing (b : Pool) (self child_id : page_id_t)
    (hc : Pool.page b child_id = none) : adopt b self child_id = some none := by
  have hf : Pool.FetchPage b child_id = none := by
    unfold Pool.page at hc
    unfold Pool.FetchPage
    cases h : UMap.find b child_id with
    | none => rfl
    | some e => rw [h] at hc; cases hc
  simp only [adopt, hf]

end InternalPage

namespace InternalPage

theorem setPair_eq (p : BPlusTreePage) (index : Int) (e : Nat × page_id_t) (h : 0 ≤ index) :
    ∃ l, setPair p index e = some { p with pairs_ := l } ∧
      ∀ i, l.getD i (0, 0) = if i = index.toNat then e else p.pairs_.getD i (0, 0) := by
  have h1 : setPair p index e = some { p with pairs_ :=
      (p.pairs_ ++ List.replicate (index.toNat + 1 - p.pairs_.length) (0, 0)).set index.toNat e } := by
    unfold setPair
    rw [if_neg (not_lt.mpr h)]
  exact ⟨_, h1, fun i => getD_setPair p _ index e h1 i⟩

theorem PairCopy_spec (src : List (Nat × page_id_t)) :
    ∀ (p : BPlusTreePage) (dest : Int), 0 ≤ dest →
      ∃ l, PairCopy p dest src = some { p with pairs_ := l } ∧
        ∀ i, l.getD i (0, 0)
          = if dest.toNat ≤ i ∧ i < dest.toNat + src.length then src.getD (i - dest.toNat) (0, 0)
            else p.pairs_.getD i (0, 0) := by
  induction src with
  | nil =>
    intro p dest _
    refine ⟨p.pairs_, rfl, fun i => ?_⟩
    rw [if_neg (by simp only [List.length_nil]; omega)]
  | cons e es ih =>
    intro p dest h
    obtain ⟨l1, h1, g1⟩ := setPair_eq p dest e h
    obtain ⟨l2, h2, g2⟩ := ih { p with pairs_ := l1 } (dest + 1) (by omega)
    refine ⟨l2, ?_, fun i => ?_⟩
    · simp only [PairCopy, h1]
      exact h2
    · have hd : (dest + 1).toNat = dest.toNat + 1 := by omega
      rw [g2 i, hd]
      simp only [List.length_cons]
      by_cases ha : dest.toNat + 1 ≤ i ∧ i < dest.toNat + 1 + es.length
      · rw [if_pos ha, if_pos (by omega)]
        have hi : i - dest.toNat = (i - (dest.toNat + 1)) + 1 := by omega
        rw [hi, List.getD_cons_succ]
      · rw [if_neg ha]
        show l1.getD i (0, 0) = _
        rw [g1 i]
        by_cases hb : i = dest.toNat
        · rw [if_pos hb, if_pos (by omega)]
          have hi : i - dest.toNat = 0 := by omega
          rw [hi, List.getD_cons_zero]
        · rw [if_neg hb, if_neg (by omega)]

theorem SetKeyAt_eq (p : BPlusTreePage) (index : Int) (key : Nat) (h : 0 ≤ index) :
    ∃ l, SetKeyAt p index key = some { p with pairs_ := l } ∧
      ∀ i, l.getD i (0, 0)
        = if i = index.toNat then (key, (p.pairs_.getD i (0, 0)).2) else p.pairs_.getD i (0, 0) := by
  obtain ⟨l, h1, g1⟩ := setPair_eq p index (key, (p.pairs_.getD index.toNat (0, 0)).2) h
  refine ⟨l, ?_, fun i => ?_⟩
  · simp only [SetKeyAt, PairAt, if_neg (not_lt.mpr h)]
    exact h1
  · rw [g1 i]
    by_cases hi : i = index.toNat
    · rw [if_pos hi, if_pos hi, hi]
    · rw [if_neg hi, if_neg hi]

theorem SetValueAt_eq (p : BPlusTreePage) (index : Int) (value : page_id_t) (h : 0 ≤ index) :
    ∃ l, SetValueAt p index value = some { p with pairs_ := l } ∧
      ∀ i, l.getD i (0, 0)
        = if i = index.toNat then ((p.pairs_.getD i (0, 0)).1, value)
          else p.pairs_.getD i (0, 0) := by
  obtain ⟨l, h1, g1⟩ := setPair_eq p index ((p.pairs_.getD index.toNat (0, 0)).1, value) h
  refine ⟨l, ?_, fun i => ?_⟩
  · simp only [SetValueAt, PairAt, if_neg (not_lt.mpr h)]
    exact h1
  · rw [g1 i]
    by_cases hi : i = index.toNat
    · rw [if_pos hi, if_pos hi, hi]
    · rw [if_neg hi, if_neg hi]

theorem readPairs_eq (p : BPlusTreePage) (src : Int) (pair_num : Nat) (h : 0 ≤ src) :
    readPairs p src pair_num
      = some ((List.range pair_num).map (fun i => p.pairs_.getD (src.toNat + i) (0, 0))) := by
  unfold readPairs
  rw [if_neg (not_lt.mpr h)]

theorem getD_map_range (f : Nat → Nat × page_id_t) (n i : Nat) (h : i < n) :
    ((List.range n).map f).getD i (0, 0) = f i := by
  rw [List.getD_eq_getElem?_getD, List.getElem?_map, List.getElem?_range h]
  rfl

end InternalPage

namespace Pool

theorem adopted_nil (b : Pool) (q x : page_id_t) : adopted b [] q x = page b x := by
  unfold adopted
  simp only [List.not_mem_nil, if_false]
  cases page b x <;> rfl

theorem adopted_of_not_mem (b : Pool) (kids : List page_id_t) (q x : page_id_t) (h : x ∉ kids) :
    adopted b kids q x = page b x := by
  unfold adopted
  simp only [h, if_false]
  cases page b x <;> rfl

theorem adopted_of_mem (b : Pool) (kids : List page_id_t) (q x : page_id_t) (h : x ∈ kids) :
    adopted b kids q x = (page b x).map (fun c => c.SetParentPageId q) := by
  unfold adopted
  simp only [h, if_true]

theorem adopted_congr (b b0 : Pool) (kids : List page_id_t) (q x : page_id_t)
    (h : page b0 x = page b x) : adopted b0 kids q x = adopted b kids q x := by
  unfold adopted
  rw [h]

end Pool

namespace InternalPage

theorem adopt_adopted (b : Pool) (self child_id : page_id_t) (p : BPlusTreePage)
    (hp : Pool.page b self = some p) (hc : (Pool.page b child_id).isSome) :
    ∃ b', adopt b self child_id = some (some b') ∧
      ∀ x, Pool.page b' x = Pool.adopted b [child_id] p.page_id_ x := by
  obtain ⟨child, hc'⟩ := Option.isSome_iff_exists.mp hc
  obtain ⟨b', h1, h2, h3⟩ := adopt_spec b self child_id p child hp hc'
  refine ⟨b', h1, fun x => ?_⟩
  by_cases hx : x = child_id
  · subst hx
    rw [h2, Pool.adopted_of_mem _ _ _ _ (List.mem_singleton.mpr rfl), hc']
    rfl
  · rw [h3 x hx, Pool.adopted_of_not_mem _ _ _ _ (fun h => hx (List.mem_singleton.mp h))]

/-- Adoption of `k` followed by adoption of `ks` is adoption of `k :: ks`. -/
theorem adopted_step (b b1 b' : Pool) (k : page_id_t) (ks : List page_id_t) (q : page_id_t)
    (hb1 : ∀ x, Pool.page b1 x = Pool.adopted b [k] q x)
    (hb' : ∀ x, Pool.page b' x = Pool.adopted b1 ks q x) (x : page_id_t) :
    Pool.page b' x = Pool.adopted b (k :: ks) q x := by
  rw [hb' x]
  unfold Pool.adopted
  rw [hb1 x]
  unfold Pool.adopted
  cases Pool.page b x with
  | none => rfl
  | some c =>
    simp only [Option.map_some', List.mem_singleton, List.mem_cons]
    by_cases h1 : x = k
    · by_cases h2 : x ∈ ks
      · simp only [h1, h2, true_or, or_true, if_true]
        rw [if_pos (h1 ▸ h2)]
        rfl
      · simp only [h1, true_or, if_true]
        rw [if_neg (h1 ▸ h2)]
    · by_cases h2 : x ∈ ks
      · simp only [h1, h2, or_true, if_true, if_false, false_or, List.not_mem_nil]
      · simp only [h1, h2, or_false, if_false, false_or, List.not_mem_nil]

theorem adoptLoop_spec (self : page_id_t) (current_size : Int) (p : BPlusTreePage)
    (h0 : 0 ≤ current_size) (ks : List page_id_t) :
    ∀ (i : Nat) (b : Pool), Pool.page b self = some p →
      (∀ j, j < ks.length → (slot p (current_size.toNat + i + j)).2 = ks.getD j 0) →
      (∀ k ∈ ks, k ≠ self ∧ (Pool.page b k).isSome) →
      ∃ b', adoptLoop self current_size ks.length i b = some (true, b') ∧
        ∀ x, Pool.page b' x = Pool.adopted b ks p.page_id_ x := by
  induction ks with
  | nil =>
    intro i b _ _ _
    exact ⟨b, rfl, fun x => (Pool.adopted_nil b _ x).symm⟩
  | cons k ks ih =>
    intro i b hp hs hk
    have hk0 : k ≠ self ∧ (Pool.page b k).isSome := hk k (List.mem_cons_self _ _)
    have hv : ValueAt p (current_size + i) = some k := by
      have := hs 0 (by simp only [List.length_cons]; omega)
      simp only [Nat.add_zero, List.getD_cons_zero] at this
      unfold ValueAt PairAt
      rw [if_neg (by omega)]
      have e : (current_size + (i : Int)).toNat = current_size.toNat + i := by omega
      rw [e]
      exact congrArg some this
    obtain ⟨b1, ha, hb1⟩ := adopt_adopted b self k p hp hk0.2
    have hp1 : Pool.page b1 self = some p := by
      rw [hb1 self, Pool.adopted_of_not_mem _ _ _ _
        (fun h => hk0.1 (List.mem_singleton.mp h).symm), hp]
    obtain ⟨b', hl, hb'⟩ := ih (i + 1) b1 hp1
      (fun j hj => by
        have := hs (j + 1) (by simp only [List.length_cons]; omega)
        rw [List.getD_cons_succ] at this
        rw [← this]
        congr 2
        omega)
      (fun k' hk' => by
        refine ⟨(hk k' (List.mem_cons_of_mem _ hk')).1, ?_⟩
        rw [hb1 k']
        unfold Pool.adopted
        rw [Option.isSome_map']
        exact (hk k' (List.mem_cons_of_mem _ hk')).2)
    refine ⟨b', ?_, fun x => ?_⟩
    · simp only [List.length_cons, adoptLoop, hp, hv, ha]
      exact hl
    · exact adopted_step b b1 b' k ks p.page_id_ hb1 hb' x

/-- The loop of `CopyNFrom` when one of the children cannot be fetched: the
loop is left at the first such child, the children in front of it have been
adopted, and the page `self` is as before. -/
theorem adoptLoop_missing (self : page_id_t) (current_size : Int) (p : BPlusTreePage)
    (h0 : 0 ≤ current_size) (ks : List page_id_t) :
    ∀ (i : Nat) (b : Pool), Pool.page b self = some p →
      (∀ j, j < ks.length → (slot p (current_size.toNat + i + j)).2 = ks.getD j 0) →
      (∀ k ∈ ks, k ≠ self) →
      (∃ k ∈ ks, Pool.page b k = none) →
      ∃ b', adoptLoop self current_size ks.length i b = some (false, b') ∧
        ∀ x, Pool.page b' x
          = Pool.adopted b (ks.takeWhile (fun k => (Pool.page b k).isSome)) p.page_id_ x := by
  induction ks with
  | nil =>
    intro i b _ _ _ hm
    obtain ⟨k, hk, _⟩ := hm
    cases hk
  | cons k ks ih =>
    intro i b hp hs hk hm
    have hv : ValueAt p (current_size + i) = some k := by
      have := hs 0 (by simp only [List.length_cons]; omega)
      simp only [Nat.add_zero, List.getD_cons_zero] at this
      unfold ValueAt PairAt
      rw [if_neg (by omega)]
      have e : (current_size + (i : Int)).toNat = current_size.toNat + i := by omega
      rw [e]
      exact congrArg some this
    cases hck : Pool.page b k with
    | none =>
      refine ⟨b, ?_, fun x => ?_⟩
      · simp only [List.length_cons, adoptLoop, hp, hv, adopt_missing b self k hck]
      · have e : (k :: ks).takeWhile (fun k => (Pool.page b k).isSome) = [] := by
          rw [List.takeWhile_cons, hck]
          rfl
        rw [e]
        exact (Pool.adopted_nil b _ x).symm
    | some c =>
      have hks : k ≠ self := hk k (List.mem_cons_self _ _)
      obtain ⟨b1, ha, hb1⟩ := adopt_adopted b self k p hp (by rw [hck]; rfl)
      have hp1 : Pool.page b1 self = some p := by
        rw [hb1 self, Pool.adopted_of_not_mem _ _ _ _
          (fun h => hks (List.mem_singleton.mp h).symm), hp]
      have hsame : ∀ y, (Pool.page b1 y).isSome = (Pool.page b y).isSome := by
        intro y
        rw [hb1 y]
        unfold Pool.adopted
        rw [Option.isSome_map']
      have hm1 : ∃ k' ∈ ks, Pool.page b1 k' = none := by
        obtain ⟨k', hk', hn⟩ := hm
        rcases List.mem_cons.mp hk' with rfl | hin
        · rw [hck] at hn
          cases hn
        · refine ⟨k', hin, ?_⟩
          have := hsame k'
          rw [hn] at this
          exact Option.not_isSome_iff_eq_none.mp (by rw [this]; simp)
      obtain ⟨b', hl, hb'⟩ := ih (i + 1) b1 hp1
        (fun j hj => by
          have := hs (j + 1) (by simp only [List.length_cons]; omega)
          rw [List.getD_cons_succ] at this
          rw [← this]
          congr 2
          omega)
        (fun k' hk' => hk k' (List.mem_cons_of_mem _ hk')) hm1
      have hfun : (fun k => (Pool.page b1 k).isSome) = (fun k => (Pool.page b k).isSome) :=
        funext hsame
      rw [hfun] at hb'
      refine ⟨b', ?_, fun x => ?_⟩
      · simp only [List.length_cons, adoptLoop, hp, hv, ha]
        exact hl
      · have e : (k :: ks).takeWhile (fun k => (Pool.page b k).isSome)
            = k :: ks.takeWhile (fun k => (Pool.page b k).isSome) := by
          rw [List.takeWhile_cons, hck]
          rfl
        rw [e]
        exact adopted_step b b1 b' k _ p.page_id_ hb1 hb' x

end InternalPage

namespace InternalPage

theorem snd_getD (src : List (Nat × page_id_t)) (j : Nat) :
    (src.getD j (0, 0)).2 = (src.map Prod.snd).getD j 0 := by
  induction src generalizing j with
  | nil => rfl
  | cons e es ih =>
    cases j with
    | zero => rfl
    | succ j => simp only [List.map_cons, List.getD_cons_succ]; exact ih j

/-- `CopyNFrom` on a recipient whose new children are held by the pool: the
pairs are appended from slot `size_` on, the size grows by their number, and the
children are adopted. -/
theorem CopyNFrom_spec (b : Pool) (self : page_id_t) (src : List (Nat × page_id_t)) (size : Int)
    (r : BPlusTreePage) (hsize : size = src.length) (hr : Pool.page b self = some r)
    (h0 : 0 ≤ r.size_)
    (hk : ∀ k ∈ src.map Prod.snd, k ≠ self ∧ (Pool.page b k).isSome) :
    ∃ b' l, CopyNFrom b self src size = some b' ∧
      Pool.page b' self = some { r with size_ := r.size_ + size, pairs_ := l } ∧
      (∀ i, l.getD i (0, 0)
        = if r.size_.toNat ≤ i ∧ i < r.size_.toNat + src.length
          then src.getD (i - r.size_.toNat) (0, 0) else r.pairs_.getD i (0, 0)) ∧
      ∀ x, x ≠ self → Pool.page b' x = Pool.adopted b (src.map Prod.snd) r.page_id_ x := by
  obtain ⟨l, hl, gl⟩ := PairCopy_spec src r r.size_ h0
  have hw : Pool.page (Pool.write b self { r with pairs_ := l }) self
      = some { r with pairs_ := l } := Pool.page_write_self b self _ r hr
  have hlen : size.toNat = (src.map Prod.snd).length := by
    rw [List.length_map]; omega
  obtain ⟨b1, ha, hb1⟩ := adoptLoop_spec self r.size_ { r with pairs_ := l } h0
    (src.map Prod.snd) 0 (Pool.write b self { r with pairs_ := l }) hw
    (fun j hj => by
      rw [List.length_map] at hj
      show (l.getD (r.size_.toNat + 0 + j) (0, 0)).2 = _
      rw [gl, if_pos (by omega)]
      have e : r.size_.toNat + 0 + j - r.size_.toNat = j := by omega
      rw [e]
      exact snd_getD src j)
    (fun k hk' => by
      refine ⟨(hk k hk').1, ?_⟩
      rw [Pool.page_write_other _ _ _ _ (hk k hk').1]
      exact (hk k hk').2)
  have hs1 : Pool.page b1 self = some { r with pairs_ := l } := by
    rw [hb1 self, Pool.adopted_of_not_mem _ _ _ _ (fun h => (hk self h).1 rfl), hw]
  refine ⟨Pool.write b1 self { r with size_ := r.size_ + size, pairs_ := l }, l, ?_, ?_, gl, ?_⟩
  · unfold CopyNFrom
    rw [if_neg (by omega)]
    simp only [hr, hl, hlen, ha, hs1]
  · exact Pool.page_write_self b1 self _ _ hs1
  · intro x hx
    rw [Pool.page_write_other _ _ _ _ hx, hb1 x]
    exact Pool.adopted_congr _ _ _ _ _ (Pool.page_write_other _ _ _ _ hx)

/-- `CopyLastFrom` on a recipient whose new child is held by the pool. -/
theorem CopyLastFrom_spec (b : Pool) (self : page_id_t) (key : Nat) (value : page_id_t)
    (r : BPlusTreePage) (hr : Pool.page b self = some r) (h0 : 0 ≤ r.size_)
    (hv : value ≠ self) (hc : (Pool.page b value).isSome) :
    ∃ b' l, CopyLastFrom b self key value = some b' ∧
      Pool.page b' self = some { r with size_ := r.size_ + 1, pairs_ := l } ∧
      (∀ i, l.getD i (0, 0) = if i = r.size_.toNat then (key, value) else r.pairs_.getD i (0, 0)) ∧
      ∀ x, x ≠ self → Pool.page b' x = Pool.adopted b [value] r.page_id_ x := by
  obtain ⟨l1, hl1, g1⟩ := SetKeyAt_eq r r.size_ key h0
  obtain ⟨l2, hl2, g2⟩ := SetValueAt_eq { r with pairs_ := l1 } r.size_ value h0
  have hw : Pool.page (Pool.write b self { r with pairs_ := l2 }) self
      = some { r with pairs_ := l2 } := Pool.page_write_self b self _ r hr
  obtain ⟨b1, ha, hb1⟩ := adopt_adopted (Pool.write b self { r with pairs_ := l2 }) self value
    { r with pairs_ := l2 } hw (by rw [Pool.page_write_other _ _ _ _ hv]; exact hc)
  have hs1 : Pool.page b1 self = some { r with pairs_ := l2 } := by
    rw [hb1 self, Pool.adopted_of_not_mem _ _ _ _
      (fun h => hv (List.mem_singleton.mp h).symm), hw]
  refine ⟨Pool.write b1 self { r with size_ := r.size_ + 1, pairs_ := l2 }, l2, ?_, ?_, ?_, ?_⟩
  · unfold CopyLastFrom
    simp only [hr, Option.bind_eq_bind, Option.some_bind, hl1, hl2, adoptOne, ha, hs1]
  · exact Pool.page_write_self b1 self _ _ hs1
  · intro i
    rw [g2 i]
    show (if i = r.size_.toNat then ((l1.getD i (0, 0)).1, value) else l1.getD i (0, 0)) = _
    rw [g1 i]
    by_cases hi : i = r.size_.toNat
    · simp only [hi, if_true]
    · simp only [hi, if_false]
  · intro x hx
    rw [Pool.page_write_other _ _ _ _ hx, hb1 x]
    exact Pool.adopted_congr _ _ _ _ _ (Pool.page_write_other _ _ _ _ hx)

theorem CopyFirstFrom_unfold (b : Pool) (self value : page_id_t) (r q : BPlusTreePage)
    (hr : Pool.page b self = some r)
    (hq : (if 0 < r.size_ then (readPairs r 0 r.size_.toNat).bind (PairCopy r 1) else some r)
      = some q) :
    CopyFirstFrom b self value
      = (SetValueAt q 0 value).bind (fun p2 => adoptOne (Pool.write b self p2) self value) := by
  unfold CopyFirstFrom
  simp only [hr, Option.bind_eq_bind, Option.some_bind]
  by_cases hpos : 0 < r.size_
  · rw [if_pos hpos] at hq ⊢
    rw [hq]
    rfl
  · rw [if_neg hpos] at hq ⊢
    cases hq
    rfl

/-- `CopyFirstFrom` on a recipient whose new child is held by the pool: the
pairs move up by one slot, slot 0 keeps its key and gets the new child. -/
theorem CopyFirstFrom_spec (b : Pool) (self : page_id_t) (value : page_id_t)
    (r : BPlusTreePage) (hr : Pool.page b self = some r) (h0 : 0 ≤ r.size_)
    (hv : value ≠ self) (hc : (Pool.page b value).isSome) :
    ∃ b' l, CopyFirstFrom b self value = some b' ∧
      Pool.page b' self = some { r with size_ := r.size_ + 1, pairs_ := l } ∧
      (∀ i, l.getD i (0, 0)
        = if i = 0 then ((r.pairs_.getD 0 (0, 0)).1, value)
          else if i ≤ r.size_.toNat then r.pairs_.getD (i - 1) (0, 0)
          else r.pairs_.getD i (0, 0)) ∧
      ∀ x, x ≠ self → Pool.page b' x = Pool.adopted b [value] r.page_id_ x := by
  have hshift : ∃ l1, (if 0 < r.size_ then (readPairs r 0 r.size_.toNat).bind (PairCopy r 1)
        else some r) = some { r with pairs_ := l1 } ∧
      ∀ i, l1.getD i (0, 0)
        = if 1 ≤ i ∧ i ≤ r.size_.toNat then r.pairs_.getD (i - 1) (0, 0)
          else r.pairs_.getD i (0, 0) := by
    by_cases hpos : 0 < r.size_
    · obtain ⟨l1, hl1, g1⟩ := PairCopy_spec
        ((List.range r.size_.toNat).map (fun i => r.pairs_.getD ((0 : Int).toNat + i) (0, 0)))
        r 1 (by omega)
      refine ⟨l1, ?_, fun i => ?_⟩
      · rw [if_pos hpos, readPairs_eq r 0 _ (le_refl _)]
        exact hl1
      · rw [g1 i]
        simp only [List.length_map, List.length_range]
        have e1 : (1 : Int).toNat = 1 := rfl
        rw [e1]
        by_cases hi : 1 ≤ i ∧ i ≤ r.size_.toNat
        · rw [if_pos (by omega), if_pos hi, getD_map_range _ _ _ (by omega)]
          simp only [Int.toNat_zero, Nat.zero_add]
        · rw [if_neg (by omega), if_neg hi]
    · refine ⟨r.pairs_, by rw [if_neg hpos], fun i => ?_⟩
      rw [if_neg (by omega)]
  obtain ⟨l1, hl1, g1⟩ := hshift
  obtain ⟨l2, hl2, g2⟩ := SetValueAt_eq { r with pairs_ := l1 } 0 value (le_refl _)
  have hl2' : SetValueAt { r with pairs_ := l1 } 0 value = some { r with pairs_ := l2 } := hl2
  have hw : Pool.page (Pool.write b self { r with pairs_ := l2 }) self
      = some { r with pairs_ := l2 } := Pool.page_write_self b self _ r hr
  obtain ⟨b1, ha, hb1⟩ := adopt_adopted (Pool.write b self { r with pairs_ := l2 }) self value
    { r with pairs_ := l2 } hw (by rw [Pool.page_write_other _ _ _ _ hv]; exact hc)
  have hs1 : Pool.page b1 self = some { r with pairs_ := l2 } := by
    rw [hb1 self, Pool.adopted_of_not_mem _ _ _ _
      (fun h => hv (List.mem_singleton.mp h).symm), hw]
  refine ⟨Pool.write b1 self { r with size_ := r.size_ + 1, pairs_ := l2 }, l2, ?_, ?_, ?_, ?_⟩
  · rw [CopyFirstFrom_unfold b self value r _ hr hl1, hl2']
    simp only [Option.some_bind, adoptOne, ha, hs1]
  · exact Pool.page_write_self b1 self _ _ hs1
  · intro i
    rw [g2 i]
    show (if i = (0 : Int).toNat then ((l1.getD i (0, 0)).1, value) else l1.getD i (0, 0)) = _
    rw [g1 i]
    simp only [Int.toNat_zero]
    by_cases hi : i = 0
    · subst hi
      simp only [if_true]
      rw [if_neg (by omega)]
    · rw [if_neg hi, if_neg hi]
      by_cases h2 : i ≤ r.size_.toNat
      · rw [if_pos ⟨by omega, h2⟩, if_pos h2]
      · rw [if_neg (fun h => h2 h.2), if_neg h2]
  · intro x hx
    rw [Pool.page_write_other _ _ _ _ hx, hb1 x]
    exact Pool.adopted_congr _ _ _ _ _ (Pool.page_write_other _ _ _ _ hx)

/-- `CopyNFrom` on a recipient one of whose new children cannot be fetched: the
pairs are written from slot `size_` on, but the function returns from inside
the loop, so the size stays as it is, and only the children in front of the
first one that cannot be fetched are adopted. -/
theorem CopyNFrom_missing (b : Pool) (self : page_id_t) (src : List (Nat × page_id_t))
    (size : Int) (r : BPlusTreePage) (hsize : size = src.length)
    (hr : Pool.page b self = some r) (h0 : 0 ≤ r.size_)
    (hk : ∀ k ∈ src.map Prod.snd, k ≠ self)
    (hm : ∃ k ∈ src.map Prod.snd, Pool.page b k = none) :
    ∃ b' l, CopyNFrom b self src size = some b' ∧
      Pool.page b' self = some { r with pairs_ := l } ∧
      (∀ i, l.getD i (0, 0)
        = if r.size_.toNat ≤ i ∧ i < r.size_.toNat + src.length
          then src.getD (i - r.size_.toNat) (0, 0) else r.pairs_.getD i (0, 0)) ∧
      ∀ x, x ≠ self →
        Pool.page b' x
          = Pool.adopted b ((src.map Prod.snd).takeWhile (fun k => (Pool.page b k).isSome))
              r.page_id_ x := by
  obtain ⟨l, hl, gl⟩ := PairCopy_spec src r r.size_ h0
  have hw : Pool.page (Pool.write b self { r with pairs_ := l }) self
      = some { r with pairs_ := l } := Pool.page_write_self b self _ r hr
  have hlen : size.toNat = (src.map Prod.snd).length := by
    rw [List.length_map]; omega
  have hfun : (fun k => (Pool.page (Pool.write b self { r with pairs_ := l }) k).isSome)
      = (fun k => (Pool.page b k).isSome) := by
    funext k
    by_cases hks : k = self
    · subst hks
      rw [hw, hr]
      rfl
    · rw [Pool.page_write_other _ _ _ _ hks]
  obtain ⟨b1, ha, hb1⟩ := adoptLoop_missing self r.size_ { r with pairs_ := l } h0
    (src.map Prod.snd) 0 (Pool.write b self { r with pairs_ := l }) hw
    (fun j hj => by
      rw [List.length_map] at hj
      show (l.getD (r.size_.toNat + 0 + j) (0, 0)).2 = _
      rw [gl, if_pos (by omega)]
      have e : r.size_.toNat + 0 + j - r.size_.toNat = j := by omega
      rw [e]
      exact snd_getD src j)
    hk
    (by
      obtain ⟨k, hk1, hk2⟩ := hm
      refine ⟨k, hk1, ?_⟩
      rw [Pool.page_write_other _ _ _ _ (hk k hk1)]
      exact hk2)
  rw [hfun] at hb1
  have hnot : self ∉ (src.map Prod.snd).takeWhile (fun k => (Pool.page b k).isSome) :=
    fun h => hk self ((List.takeWhile_sublist _).subset h) rfl
  refine ⟨b1, l, ?_, ?_, gl, ?_⟩
  · unfold CopyNFrom
    rw [if_neg (by omega)]
    simp only [hr, hl, hlen, ha]
  · rw [hb1 self, Pool.adopted_of_not_mem _ _ _ _ hnot, hw]
  · intro x hx
    rw [hb1 x]
    exact Pool.adopted_congr _ _ _ _ _ (Pool.page_write_other _ _ _ _ hx)

end InternalPage

namespace InternalPage

theorem entries_length (p : BPlusTreePage) : (entries p).length = p.size_.toNat := by
  unfold entries
  rw [List.length_map, List.length_range]

theorem entries_getElem? (p : BPlusTreePage) (i : Nat) :
    (entries p)[i]? = if i < p.size_.toNat then some (slot p i) else none := by
  unfold entries
  rw [List.getElem?_map]
  by_cases h : i < p.size_.toNat
  · rw [List.getElem?_range h, if_pos h]
    rfl
  · rw [List.getElem?_eq_none (by rw [List.length_range]; omega), if_neg h]
    rfl

theorem entries_eq_of_slots (p : BPlusTreePage) (src : List (Nat × page_id_t))
    (hlen : p.size_.toNat = src.length) (h : ∀ i, i < src.length → slot p i = src.getD i (0, 0)) :
    entries p = src := by
  apply List.ext_getElem?
  intro i
  rw [entries_getElem?]
  by_cases hi : i < src.length
  · rw [if_pos (by omega), h i hi, List.getD_eq_getElem?_getD, List.getElem?_eq_getElem hi]
    rfl
  · rw [if_neg (by omega), List.getElem?_eq_none (by omega)]

theorem entries_take (p : BPlusTreePage) (S : Nat) (h : S ≤ p.size_.toNat) :
    entries { p with size_ := (S : Int) } = (entries p).take S := by
  apply List.ext_getElem?
  intro i
  rw [entries_getElem?, List.getElem?_take, entries_getElem?]
  show (if i < ((S : Int)).toNat then some (slot p i) else none) = _
  rw [Int.toNat_ofNat]
  by_cases hi : i < S
  · rw [if_pos hi, if_pos hi, if_pos (by omega)]
  · rw [if_neg hi, if_neg hi]

theorem entries_drop (p : BPlusTreePage) (S : Nat) :
    (entries p).drop S
      = (List.range (p.size_.toNat - S)).map (fun i => p.pairs_.getD (S + i) (0, 0)) := by
  apply List.ext_getElem?
  intro i
  rw [List.getElem?_drop, entries_getElem?, List.getElem?_map]
  by_cases hi : S + i < p.size_.toNat
  · rw [if_pos hi, List.getElem?_range (by omega)]
    rfl
  · rw [if_neg hi, List.getElem?_eq_none (by rw [List.length_range]; omega)]
    rfl

theorem MoveHalfTo_unfold (b b1 : Pool) (self recipient : page_id_t) (p : BPlusTreePage)
    (hp : Pool.page b self = some p)
    (h1 : (if 0 < p.size_ - Int.tdiv (p.size_ + 1) 2 then
        (readPairs p (Int.tdiv (p.size_ + 1) 2) (p.size_ - Int.tdiv (p.size_ + 1) 2).toNat).bind
          (fun src => CopyNFrom b recipient src (p.size_ - Int.tdiv (p.size_ + 1) 2))
      else some b) = some b1) :
    MoveHalfTo b self recipient
      = (Pool.page b1 self).bind (fun p1 =>
          some (Pool.write b1 self { p1 with size_ := Int.tdiv (p.size_ + 1) 2 })) := by
  unfold MoveHalfTo
  simp only [hp, Option.bind_eq_bind, Option.some_bind]
  by_cases hpos : 0 < p.size_ - Int.tdiv (p.size_ + 1) 2
  · rw [if_pos hpos] at h1 ⊢
    rw [h1]
    rfl
  · rw [if_neg hpos] at h1 ⊢
    cases h1
    rw [hp]
    rfl

/-- `InternalPage::MoveHalfTo` with every moved child held by the pool: an
internal page of size `n` is split into an empty recipient; the call returns, the donor keeps its first `(n + 1) / 2`
entries (only its size field changes), the recipient gets the last `n / 2`
entries in the same order, so the donor's entries followed by the recipient's
are the original sequence and the sizes add up to `n`; every page other than
donor and recipient is as before except that the moved children have the page
id of the recipient as parent id.  The moved children are taken to be held by
the pool and to differ from both pages. -/
theorem MoveHalfTo_split (b : Pool) (self recipient : page_id_t) (p r : BPlusTreePage)
    (hp : Pool.page b self = some p) (hr : Pool.page b recipient = some r)
    (hne : self ≠ recipient) (hn : 0 ≤ p.size_) (hempty : r.size_ = 0)
    (hk : ∀ k ∈ ((entries p).drop ((p.size_.toNat + 1) / 2)).map Prod.snd,
      k ≠ self ∧ k ≠ recipient ∧ (Pool.page b k).isSome) :
    ∃ b' p' r',
      MoveHalfTo b self recipient = some b' ∧
      Pool.page b' self = some p' ∧ Pool.page b' recipient = some r' ∧
      p' = { p with size_ := (((p.size_.toNat + 1) / 2 : Nat) : Int) } ∧
      { r' with size_ := r.size_, pairs_ := r.pairs_ } = r ∧
      entries p' = (entries p).take ((p.size_.toNat + 1) / 2) ∧
      entries r' = (entries p).drop ((p.size_.toNat + 1) / 2) ∧
      entries p' ++ entries r' = entries p ∧
      p'.size_.toNat = (p.size_.toNat + 1) / 2 ∧ r'.size_.toNat = p.size_.toNat / 2 ∧
      p'.size_ + r'.size_ = p.size_ ∧
      ∀ x, x ≠ self → x ≠ recipient →
        Pool.page b' x
          = Pool.adopted b (((entries p).drop ((p.size_.toNat + 1) / 2)).map Prod.snd)
              r.page_id_ x := by
  have hstart : Int.tdiv (p.size_ + 1) 2 = (((p.size_.toNat + 1) / 2 : Nat) : Int) := by
    rw [Int.tdiv_eq_ediv (by omega) (by omega)]
    omega
  have hS : (p.size_.toNat + 1) / 2 ≤ p.size_.toNat := by omega
  have hself : self ∉ ((entries p).drop ((p.size_.toNat + 1) / 2)).map Prod.snd :=
    fun h => (hk self h).1 rfl
  -- the copy into the recipient
  have hcopy : ∃ b1 r', (if 0 < p.size_ - Int.tdiv (p.size_ + 1) 2 then
        (readPairs p (Int.tdiv (p.size_ + 1) 2) (p.size_ - Int.tdiv (p.size_ + 1) 2).toNat).bind
          (fun src => CopyNFrom b recipient src (p.size_ - Int.tdiv (p.size_ + 1) 2))
      else some b) = some b1 ∧
      Pool.page b1 recipient = some r' ∧
      { r' with size_ := r.size_, pairs_ := r.pairs_ } = r ∧
      r'.size_ = p.size_ - (((p.size_.toNat + 1) / 2 : Nat) : Int) ∧
      entries r' = (entries p).drop ((p.size_.toNat + 1) / 2) ∧
      ∀ x, x ≠ recipient →
        Pool.page b1 x
          = Pool.adopted b (((entries p).drop ((p.size_.toNat + 1) / 2)).map Prod.snd)
              r.page_id_ x := by
    rw [hstart]
    by_cases hpos : 0 < p.size_ - (((p.size_.toNat + 1) / 2 : Nat) : Int)
    · rw [if_pos hpos, readPairs_eq _ _ _ (by omega)]
      have hnum : (p.size_ - (((p.size_.toNat + 1) / 2 : Nat) : Int)).toNat
          = p.size_.toNat - (p.size_.toNat + 1) / 2 := by omega
      rw [hnum, Int.toNat_ofNat, ← entries_drop]
      have hlen : ((entries p).drop ((p.size_.toNat + 1) / 2)).length
          = p.size_.toNat - (p.size_.toNat + 1) / 2 := by
        rw [List.length_drop, entries_length]
      obtain ⟨b1, l, h1, h2, h3, h4⟩ := CopyNFrom_spec b recipient
        ((entries p).drop ((p.size_.toNat + 1) / 2))
        (p.size_ - (((p.size_.toNat + 1) / 2 : Nat) : Int)) r (by rw [hlen]; omega) hr
        (by omega) (fun k hk' => ⟨(hk k hk').2.1, (hk k hk').2.2⟩)
      refine ⟨b1, _, h1, h2, rfl, ?_, ?_, h4⟩
      · show r.size_ + _ = _
        omega
      · apply entries_eq_of_slots
        · show (r.size_ + _).toNat = _
          rw [hlen]
          omega
        · intro i hi
          show l.getD i (0, 0) = _
          rw [h3 i, if_pos (by omega)]
          congr 1
          omega
    · rw [if_neg hpos]
      have hnil : (entries p).drop ((p.size_.toNat + 1) / 2) = [] := by
        apply List.drop_eq_nil_of_le
        rw [entries_length]
        omega
      refine ⟨b, r, rfl, hr, rfl, by omega, ?_, fun x _ => ?_⟩
      · rw [hnil]
        unfold entries
        rw [hempty]
        rfl
      · rw [hnil]
        exact (Pool.adopted_nil b _ x).symm
  obtain ⟨b1, r', h1, h2, h3, h4, h5, h6⟩ := hcopy
  have hp1 : Pool.page b1 self = some p := by
    rw [h6 self hne, Pool.adopted_of_not_mem _ _ _ _ hself, hp]
  have hp' : entries { p with size_ := (((p.size_.toNat + 1) / 2 : Nat) : Int) }
      = (entries p).take ((p.size_.toNat + 1) / 2) := entries_take p _ hS
  refine ⟨Pool.write b1 self { p with size_ := (((p.size_.toNat + 1) / 2 : Nat) : Int) },
    { p with size_ := (((p.size_.toNat + 1) / 2 : Nat) : Int) }, r', ?_, ?_, ?_, rfl, h3, hp', h5,
    ?_, ?_, ?_, ?_, ?_⟩
  · rw [MoveHalfTo_unfold b b1 self recipient p hp h1, hp1, hstart]
    rfl
  · exact Pool.page_write_self b1 self _ _ hp1
  · rw [Pool.page_write_other _ _ _ _ (fun h => hne h.symm)]
    exact h2
  · rw [hp', h5, List.take_append_drop]
  · show ((((p.size_.toNat + 1) / 2 : Nat) : Int)).toNat = _
    rw [Int.toNat_ofNat]
  · rw [h4]
    omega
  · show (((p.size_.toNat + 1) / 2 : Nat) : Int) + r'.size_ = _
    rw [h4]
    omega
  · intro x hx1 hx2
    rw [Pool.page_write_other _ _ _ _ hx1]
    exact h6 x hx2

/-- Instance of `MoveHalfTo_split`: the page 2 of `splitPool` with five entries
is split into the empty page 3; three entries stay, two move, and the moved
children 13 and 14 get the parent id 3 while child 10 keeps the parent id 2. -/
theorem MoveHalfTo_split_witness :
    ∃ b', MoveHalfTo splitPool 2 3 = some b' ∧
      (Pool.page b' 2).map entries = some [(0, 10), (5, 11), (7, 12)] ∧
      (Pool.page b' 3).map entries = some [(9, 13), (11, 14)] ∧
      (Pool.page b' 13).map (fun c => c.parent_page_id_) = some 3 ∧
      (Pool.page b' 14).map (fun c => c.parent_page_id_) = some 3 ∧
      (Pool.page b' 10).map (fun c => c.parent_page_id_) = some 2 := by
  obtain ⟨b', p', r', h1, h2, h3, _, _, h6, h7, _, _, _, _, h12⟩ :=
    MoveHalfTo_split splitPool 2 3
      ⟨.INTERNAL_PAGE, 5, 4, 8, 1, 2, 0, [(0, 10), (5, 11), (7, 12), (9, 13), (11, 14)], []⟩
      ⟨.INTERNAL_PAGE, 0, 4, 8, 1, 3, 0, [], []⟩
      (by decide) (by decide) (by decide) (by decide) (by decide) (by decide)
  refine ⟨b', h1, ?_, ?_, ?_, ?_, ?_⟩
  · rw [h2, Option.map_some', h6]
    decide
  · rw [h3, Option.map_some', h7]
    decide
  · rw [h12 13 (by decide) (by decide)]
    decide
  · rw [h12 14 (by decide) (by decide)]
    decide
  · rw [h12 10 (by decide) (by decide)]
    decide

/-- `MoveHalfTo` when one of the moved children cannot be fetched: the donor is
cut to its first `(n + 1) / 2` entries all the same, the recipient has the
pairs in its slots but its size is still 0, and only the children in front of
the first one that cannot be fetched have the new parent id. -/
theorem MoveHalfTo_missing (b : Pool) (self recipient : page_id_t) (p r : BPlusTreePage)
    (hp : Pool.page b self = some p) (hr : Pool.page b recipient = some r)
    (hne : self ≠ recipient) (hn : 0 ≤ p.size_) (hempty : r.size_ = 0)
    (hd : ∀ k ∈ ((entries p).drop ((p.size_.toNat + 1) / 2)).map Prod.snd,
      k ≠ self ∧ k ≠ recipient)
    (hm : ∃ k ∈ ((entries p).drop ((p.size_.toNat + 1) / 2)).map Prod.snd,
      Pool.page b k = none) :
    ∃ b' p' r',
      MoveHalfTo b self recipient = some b' ∧
      Pool.page b' self = some p' ∧ Pool.page b' recipient = some r' ∧
      p' = { p with size_ := (((p.size_.toNat + 1) / 2 : Nat) : Int) } ∧
      { r' with pairs_ := r.pairs_ } = r ∧
      entries p' = (entries p).take ((p.size_.toNat + 1) / 2) ∧
      entries r' = [] ∧
      p'.size_ + r'.size_ < p.size_ ∧
      ∀ x, x ≠ self → x ≠ recipient →
        Pool.page b' x
          = Pool.adopted b
              ((((entries p).drop ((p.size_.toNat + 1) / 2)).map Prod.snd).takeWhile
                (fun k => (Pool.page b k).isSome))
              r.page_id_ x := by
  have hstart : Int.tdiv (p.size_ + 1) 2 = (((p.size_.toNat + 1) / 2 : Nat) : Int) := by
    rw [Int.tdiv_eq_ediv (by omega) (by omega)]
    omega
  have hS : (p.size_.toNat + 1) / 2 ≤ p.size_.toNat := by omega
  have hlen : ((entries p).drop ((p.size_.toNat + 1) / 2)).length
      = p.size_.toNat - (p.size_.toNat + 1) / 2 := by
    rw [List.length_drop, entries_length]
  have hmoved : 0 < p.size_.toNat - (p.size_.toNat + 1) / 2 := by
    obtain ⟨k, hk, _⟩ := hm
    rw [← hlen]
    have := List.length_pos_of_mem hk
    rw [List.length_map] at this
    exact this
  have hpos : 0 < p.size_ - (((p.size_.toNat + 1) / 2 : Nat) : Int) := by omega
  have hnum : (p.size_ - (((p.size_.toNat + 1) / 2 : Nat) : Int)).toNat
      = p.size_.toNat - (p.size_.toNat + 1) / 2 := by omega
  obtain ⟨b1, l, h1, h2, _, h4⟩ := CopyNFrom_missing b recipient
    ((entries p).drop ((p.size_.toNat + 1) / 2))
    (p.size_ - (((p.size_.toNat + 1) / 2 : Nat) : Int)) r (by rw [hlen]; omega) hr
    (by omega) (fun k hk' => (hd k hk').2) hm
  have hif : (if 0 < p.size_ - Int.tdiv (p.size_ + 1) 2 then
        (readPairs p (Int.tdiv (p.size_ + 1) 2) (p.size_ - Int.tdiv (p.size_ + 1) 2).toNat).bind
          (fun src => CopyNFrom b recipient src (p.size_ - Int.tdiv (p.size_ + 1) 2))
      else some b) = some b1 := by
    rw [hstart, if_pos hpos, readPairs_eq _ _ _ (by omega), hnum, Int.toNat_ofNat, ← entries_drop]
    exact h1
  have hself : self ∉ (((entries p).drop ((p.size_.toNat + 1) / 2)).map Prod.snd).takeWhile
      (fun k => (Pool.page b k).isSome) :=
    fun h => (hd self ((List.takeWhile_sublist _).subset h)).1 rfl
  have hp1 : Pool.page b1 self = some p := by
    rw [h4 self hne, Pool.adopted_of_not_mem _ _ _ _ hself, hp]
  have hp' : entries { p with size_ := (((p.size_.toNat + 1) / 2 : Nat) : Int) }
      = (entries p).take ((p.size_.toNat + 1) / 2) := entries_take p _ hS
  refine ⟨Pool.write b1 self { p with size_ := (((p.size_.toNat + 1) / 2 : Nat) : Int) },
    { p with size_ := (((p.size_.toNat + 1) / 2 : Nat) : Int) }, { r with pairs_ := l }, ?_, ?_, ?_,
    rfl, rfl, hp', ?_, ?_, ?_⟩
  · rw [MoveHalfTo_unfold b b1 self recipient p hp hif, hp1, hstart]
    rfl
  · exact Pool.page_write_self b1 self _ _ hp1
  · rw [Pool.page_write_other _ _ _ _ (fun h => hne h.symm)]
    exact h2
  · unfold entries
    show (List.range r.size_.toNat).map _ = []
    rw [hempty]
    rfl
  · show (((p.size_.toNat + 1) / 2 : Nat) : Int) + r.size_ < p.size_
    rw [hempty]
    omega
  · intro x hx1 hx2
    rw [Pool.page_write_other _ _ _ _ hx1]
    exact h4 x hx2

/-- C35 (failing input).  `InternalPage::MoveHalfTo` on a donor of size `n` and
an empty recipient, different pages, the children to be moved different from
both.  (1) When the pool holds every child to be moved, the call returns, the
donor keeps its first `(n + 1) / 2` entries, the recipient gets the last `n / 2`
in the same order, donor entries followed by recipient entries are the original
entries, the sizes add up to `n`, and of the other pages exactly the moved
children change: their parent id is the page id of the recipient.
(2) When one of the children to be moved cannot be fetched, the call returns
too: `CopyNFrom` has written the pairs into the slots of the recipient but
leaves its loop without `IncreaseSize`, and `MoveHalfTo` cuts the donor to
`(n + 1) / 2` entries all the same.  The recipient has no entry, the sizes add
up to less than `n` (the last `n / 2` entries are lost), and the children in
front of the one that could not be fetched have the new parent id although
the recipient does not list them. -/
theorem MoveHalfTo_loses_entries (b : Pool) (self recipient : page_id_t) (p r : BPlusTreePage)
    (hp : Pool.page b self = some p) (hr : Pool.page b recipient = some r)
    (hne : self ≠ recipient) (hn : 0 ≤ p.size_) (hempty : r.size_ = 0)
    (hd : ∀ k ∈ ((entries p).drop ((p.size_.toNat + 1) / 2)).map Prod.snd,
      k ≠ self ∧ k ≠ recipient) :
    ((∀ k ∈ ((entries p).drop ((p.size_.toNat + 1) / 2)).map Prod.snd,
        (Pool.page b k).isSome) →
      ∃ b' p' r',
        MoveHalfTo b self recipient = some b' ∧
        Pool.page b' self = some p' ∧ Pool.page b' recipient = some r' ∧
        p' = { p with size_ := (((p.size_.toNat + 1) / 2 : Nat) : Int) } ∧
        { r' with size_ := r.size_, pairs_ := r.pairs_ } = r ∧
        entries p' = (entries p).take ((p.size_.toNat + 1) / 2) ∧
        entries r' = (entries p).drop ((p.size_.toNat + 1) / 2) ∧
        entries p' ++ entries r' = entries p ∧
        p'.size_ + r'.size_ = p.size_ ∧
        ∀ x, x ≠ self → x ≠ recipient →
          Pool.page b' x
            = Pool.adopted b (((entries p).drop ((p.size_.toNat + 1) / 2)).map Prod.snd)
                r.page_id_ x) ∧
    ((∃ k ∈ ((entries p).drop ((p.size_.toNat + 1) / 2)).map Prod.snd,
        Pool.page b k = none) →
      ∃ b' p' r',
        MoveHalfTo b self recipient = some b' ∧
        Pool.page b' self = some p' ∧ Pool.page b' recipient = some r' ∧
        p' = { p with size_ := (((p.size_.toNat + 1) / 2 : Nat) : Int) } ∧
        { r' with pairs_ := r.pairs_ } = r ∧
        entries p' = (entries p).take ((p.size_.toNat + 1) / 2) ∧
        entries r' = [] ∧
        p'.size_ + r'.size_ < p.size_ ∧
        ∀ x, x ≠ self → x ≠ recipient →
          Pool.page b' x
            = Pool.adopted b
                ((((entries p).drop ((p.size_.toNat + 1) / 2)).map Prod.snd).takeWhile
                  (fun k => (Pool.page b k).isSome))
                r.page_id_ x) := by
  refine ⟨fun hk => ?_, fun hm => MoveHalfTo_missing b self recipient p r hp hr hne hn hempty hd hm⟩
  obtain ⟨b', p', r', h1, h2, h3, h4, h5, h6, h7, h8, _, _, h11, h12⟩ :=
    MoveHalfTo_split b self recipient p r hp hr hne hn hempty
      (fun k hk' => ⟨(hd k hk').1, (hd k hk').2, hk k hk'⟩)
  exact ⟨b', p', r', h1, h2, h3, h4, h5, h6, h7, h8, h11, h12⟩

/-- Instance of `MoveHalfTo_loses_entries`: the page 2 of `splitPool` with five
entries is split into the empty page 3.  With all pages at hand three entries
stay and two move.  When page 13, the first child to be moved, cannot be
fetched, three entries stay and the recipient has none: the entries `(9, 13)`
and `(11, 14)` are in no page.  When page 14 cannot be fetched the same
happens, and page 13 names page 3 as its parent although page 3 has no
entry. -/
theorem MoveHalfTo_loses_entries_witness :
    (∃ b', MoveHalfTo splitPool 2 3 = some b' ∧
      (Pool.page b' 2).map entries = some [(0, 10), (5, 11), (7, 12)] ∧
      (Pool.page b' 3).map entries = some [(9, 13), (11, 14)]) ∧
    (∃ b', MoveHalfTo (UMap.erase splitPool 13) 2 3 = some b' ∧
      (Pool.page b' 2).map entries = some [(0, 10), (5, 11), (7, 12)] ∧
      (Pool.page b' 3).map entries = some [] ∧
      (Pool.page b' 14).map (fun c => c.parent_page_id_) = some 2) ∧
    (∃ b', MoveHalfTo (UMap.erase splitPool 14) 2 3 = some b' ∧
      (Pool.page b' 2).map entries = some [(0, 10), (5, 11), (7, 12)] ∧
      (Pool.page b' 3).map entries = some [] ∧
      (Pool.page b' 13).map (fun c => c.parent_page_id_) = some 3) := by
  refine ⟨?_, ?_, ?_⟩
  · obtain ⟨b', p', r', h1, h2, h3, _, _, h6, h7, _⟩ :=
      (MoveHalfTo_loses_entries splitPool 2 3
        ⟨.INTERNAL_PAGE, 5, 4, 8, 1, 2, 0, [(0, 10), (5, 11), (7, 12), (9, 13), (11, 14)], []⟩
        ⟨.INTERNAL_PAGE, 0, 4, 8, 1, 3, 0, [], []⟩
        (by decide) (by decide) (by decide) (by decide) (by decide) (by decide)).1 (by decide)
    refine ⟨b', h1, ?_, ?_⟩
    · rw [h2, Option.map_some', h6]
      decide
    · rw [h3, Option.map_some', h7]
      decide
  · obtain ⟨b', p', r', h1, h2, h3, _, _, h6, h7, _, h9⟩ :=
      (MoveHalfTo_loses_entries (UMap.erase splitPool 13) 2 3
        ⟨.INTERNAL_PAGE, 5, 4, 8, 1, 2, 0, [(0, 10), (5, 11), (7, 12), (9, 13), (11, 14)], []⟩
        ⟨.INTERNAL_PAGE, 0, 4, 8, 1, 3, 0, [], []⟩
        (by decide) (by decide) (by decide) (by decide) (by decide) (by decide)).2 (by decide)
    refine ⟨b', h1, ?_, ?_, ?_⟩
    · rw [h2, Option.map_some', h6]
      decide
    · rw [h3, Option.map_some', h7]
    · rw [h9 14 (by decide) (by decide)]
      decide
  · obtain ⟨b', p', r', h1, h2, h3, _, _, h6, h7, _, h9⟩ :=
      (MoveHalfTo_loses_entries (UMap.erase splitPool 14) 2 3
        ⟨.INTERNAL_PAGE, 5, 4, 8, 1, 2, 0, [(0, 10), (5, 11), (7, 12), (9, 13), (11, 14)], []⟩
        ⟨.INTERNAL_PAGE, 0, 4, 8, 1, 3, 0, [], []⟩
        (by decide) (by decide) (by decide) (by decide) (by decide) (by decide)).2 (by decide)
    refine ⟨b', h1, ?_, ?_, ?_⟩
    · rw [h2, Option.map_some', h6]
      decide
    · rw [h3, Option.map_some', h7]
    · rw [h9 13 (by decide) (by decide)]
      decide

end InternalPage

namespace InternalPage

theorem Remove_last (p : BPlusTreePage) :
    Remove p (p.size_ - 1) = some { p with size_ := p.size_ - 1 } := by
  unfold Remove
  simp only [Option.bind_eq_bind]
  rw [if_neg (by omega)]
  rfl

theorem Remove_first (p : BPlusTreePage) (h : 1 ≤ p.size_) :
    ∃ l, Remove p 0 = some { p with size_ := p.size_ - 1, pairs_ := l } ∧
      ∀ i, l.getD i (0, 0)
        = if i < p.size_.toNat - 1 then p.pairs_.getD (i + 1) (0, 0) else p.pairs_.getD i (0, 0) := by
  by_cases hpos : 0 < p.size_ - 1 - 0
  · obtain ⟨l, hl, gl⟩ := PairCopy_spec
      ((List.range (p.size_ - 1 - 0).toNat).map
        (fun i => p.pairs_.getD (((0 : Int) + 1).toNat + i) (0, 0))) p 0 (le_refl _)
    refine ⟨l, ?_, fun i => ?_⟩
    · unfold Remove
      simp only [Option.bind_eq_bind]
      rw [if_pos hpos, readPairs_eq _ _ _ (by omega)]
      simp only [Option.some_bind, hl]
    · rw [gl i]
      simp only [List.length_map, List.length_range, Int.toNat_zero, Nat.zero_add]
      have e : (p.size_ - 1 - 0).toNat = p.size_.toNat - 1 := by omega
      rw [e]
      by_cases hi : i < p.size_.toNat - 1
      · rw [if_pos ⟨Nat.zero_le _, hi⟩, if_pos hi, Nat.sub_zero, getD_map_range _ _ _ hi]
        have e1 : ((0 : Int) + 1).toNat = 1 := rfl
        rw [e1, Nat.add_comm]
      · rw [if_neg (fun h => hi h.2), if_neg hi]
  · refine ⟨p.pairs_, ?_, fun i => ?_⟩
    · unfold Remove
      simp only [Option.bind_eq_bind]
      rw [if_neg hpos]
      rfl
    · rw [if_neg (by omega)]

theorem entries_tail (p : BPlusTreePage) (l : List (Nat × page_id_t)) (h : 1 ≤ p.size_)
    (gl : ∀ i, l.getD i (0, 0)
      = if i < p.size_.toNat - 1 then p.pairs_.getD (i + 1) (0, 0) else p.pairs_.getD i (0, 0)) :
    entries { p with size_ := p.size_ - 1, pairs_ := l } = (entries p).tail := by
  apply List.ext_getElem?
  intro i
  rw [List.getElem?_tail, entries_getElem?, entries_getElem?]
  show (if i < (p.size_ - 1).toNat then some (l.getD i (0, 0)) else none) = _
  by_cases hi : i < (p.size_ - 1).toNat
  · rw [if_pos hi, if_pos (by omega), gl i, if_pos (by omega)]
    rfl
  · rw [if_neg hi, if_neg (by omega)]

theorem entries_append_one (r : BPlusTreePage) (l : List (Nat × page_id_t)) (e : Nat × page_id_t)
    (h0 : 0 ≤ r.size_)
    (gl : ∀ i, l.getD i (0, 0) = if i = r.size_.toNat then e else r.pairs_.getD i (0, 0)) :
    entries { r with size_ := r.size_ + 1, pairs_ := l } = entries r ++ [e] := by
  apply entries_eq_of_slots
  · show (r.size_ + 1).toNat = _
    rw [List.length_append, entries_length, List.length_singleton]
    omega
  · intro i hi
    rw [List.length_append, entries_length, List.length_singleton] at hi
    show l.getD i (0, 0) = _
    have hR : (entries r ++ [e]).getD i (0, 0) = ((entries r ++ [e])[i]?).getD (0, 0) :=
      List.getD_eq_getElem?_getD _ _ _
    rw [gl i, hR]
    by_cases h : i = r.size_.toNat
    · rw [if_pos h, List.getElem?_append_right (by rw [entries_length]; omega), entries_length, h,
        Nat.sub_self]
      rfl
    · rw [if_neg h, List.getElem?_append_left (by rw [entries_length]; omega), entries_getElem?,
        if_pos (by omega)]
      rfl

/-- C33. `InternalPage::MoveLastToFrontOf` on a donor of size `d >= 2` returns
and fills the recipient as described (size `r + 1`, the donor's last child in
slot 0, the former entries one slot up, the middle key in slot 1), but the donor
is left with size `d - 2`, not `d - 1`: `Remove(last_index)` lowers the size and
the `IncreaseSize(-1)` after it lowers it again, so the donor keeps only its
first `d - 2` entries and an entry is lost.  `MoveFirstToEndOf` does leave the
donor with `d - 1` and the recipient with `r + 1` entries.  The pages and the
moved child are taken to be held by the pool and to be different pages. -/
theorem MoveLastToFrontOf_shrinks_twice (b : Pool) (self recipient middle_page : page_id_t)
    (middle_slot : Int) (p r m : BPlusTreePage)
    (hp : Pool.page b self = some p) (hr : Pool.page b recipient = some r)
    (hm : Pool.page b middle_page = some m)
    (hne : self ≠ recipient) (hms : middle_page ≠ self) (hmr : middle_page ≠ recipient)
    (hd : 2 ≤ p.size_) (h0 : 0 ≤ r.size_) (hslot : 0 ≤ middle_slot) :
    (∀ child, child = (slot p (p.size_.toNat - 1)).2 →
      child ≠ self → child ≠ recipient → child ≠ middle_page → (Pool.page b child).isSome →
      ∃ b' p' r',
        MoveLastToFrontOf b self recipient middle_page middle_slot = some b' ∧
        Pool.page b' self = some p' ∧ Pool.page b' recipient = some r' ∧
        p' = { p with size_ := p.size_ - 2 } ∧
        entries p' = (entries p).take (p.size_.toNat - 2) ∧
        r'.size_ = r.size_ + 1 ∧
        (slot r' 0).2 = child ∧
        (∀ i, 1 ≤ i → i ≤ r.size_.toNat → (slot r' i).2 = (slot r (i - 1)).2) ∧
        (∀ i, 2 ≤ i → i ≤ r.size_.toNat → slot r' i = slot r (i - 1)) ∧
        (slot r' 1).1 = (slot m middle_slot.toNat).1 ∧
        (entries p').length + (entries r').length + 1 = (entries p).length + (entries r).length ∧
        ∀ x, x ≠ self → x ≠ recipient →
          Pool.page b' x = Pool.adopted b [child] r.page_id_ x) ∧
    (∀ child middle_key, child = (slot p 0).2 →
      child ≠ self → child ≠ recipient → (Pool.page b child).isSome →
      ∃ b' p' r',
        MoveFirstToEndOf b self recipient middle_key = some b' ∧
        Pool.page b' self = some p' ∧ Pool.page b' recipient = some r' ∧
        p'.size_ = p.size_ - 1 ∧ r'.size_ = r.size_ + 1 ∧
        entries p' = (entries p).tail ∧
        entries r' = entries r ++ [(middle_key, child)] ∧
        ∀ x, x ≠ self → x ≠ recipient →
          Pool.page b' x = Pool.adopted b [child] r.page_id_ x) := by
  constructor
  · intro child hchild hcs hcr hcm hc
    obtain ⟨b1, l, h1, h2, h3, h4⟩ := CopyFirstFrom_spec b recipient child r hr h0 hcr hc
    have hnot : ∀ x, x ≠ child → x ∉ [child] := fun x hx h => hx (List.mem_singleton.mp h)
    have hp1 : Pool.page b1 self = some p := by
      rw [h4 self hne, Pool.adopted_of_not_mem _ _ _ _ (hnot self (fun h => hcs h.symm)), hp]
    have hm1 : Pool.page b1 middle_page = some m := by
      rw [h4 middle_page hmr, Pool.adopted_of_not_mem _ _ _ _ (hnot _ (fun h => hcm h.symm)), hm]
    have hv : ValueAt p (p.size_ - 1) = some child := by
      unfold ValueAt PairAt
      rw [if_neg (by omega), hchild]
      have e : (p.size_ - 1).toNat = p.size_.toNat - 1 := by omega
      rw [e]
      rfl
    have hkey : KeyAt m middle_slot = some (slot m middle_slot.toNat).1 := by
      unfold KeyAt PairAt
      rw [if_neg (by omega)]
      rfl
    obtain ⟨l', hl', gl'⟩ := SetKeyAt_eq { r with size_ := r.size_ + 1, pairs_ := l } 1
      (slot m middle_slot.toNat).1 (by omega)
    have hl'' : SetKeyAt { r with size_ := r.size_ + 1, pairs_ := l } 1 (slot m middle_slot.toNat).1
        = some { r with size_ := r.size_ + 1, pairs_ := l' } := hl'
    have gl'' : ∀ i, l'.getD i (0, 0)
        = if i = 1 then ((slot m middle_slot.toNat).1, (l.getD i (0, 0)).2) else l.getD i (0, 0) :=
      gl'
    have hb2s : Pool.page (Pool.write b1 self { p with size_ := p.size_ - 1 }) self
        = some { p with size_ := p.size_ - 1 } := Pool.page_write_self _ _ _ _ hp1
    have hb2m : Pool.page (Pool.write b1 self { p with size_ := p.size_ - 1 }) middle_page
        = some m := by
      rw [Pool.page_write_other _ _ _ _ hms, hm1]
    have hb2r : Pool.page (Pool.write b1 self { p with size_ := p.size_ - 1 }) recipient
        = some { r with size_ := r.size_ + 1, pairs_ := l } := by
      rw [Pool.page_write_other _ _ _ _ (fun h => hne h.symm), h2]
    have hb3s : Pool.page (Pool.write (Pool.write b1 self { p with size_ := p.size_ - 1 })
        recipient { r with size_ := r.size_ + 1, pairs_ := l' }) self
        = some { p with size_ := p.size_ - 1 } := by
      rw [Pool.page_write_other _ _ _ _ hne, hb2s]
    have hb3r : Pool.page (Pool.write (Pool.write b1 self { p with size_ := p.size_ - 1 })
        recipient { r with size_ := r.size_ + 1, pairs_ := l' }) recipient
        = some { r with size_ := r.size_ + 1, pairs_ := l' } :=
      Pool.page_write_self _ _ _ _ hb2r
    have hsize : p.size_ - 1 - 1 = p.size_ - 2 := by omega
    have hent : entries { p with size_ := p.size_ - 2 } = (entries p).take (p.size_.toNat - 2) := by
      have := entries_take p (p.size_.toNat - 2) (by omega)
      have e : ((p.size_.toNat - 2 : Nat) : Int) = p.size_ - 2 := by omega
      rw [e] at this
      exact this
    refine ⟨Pool.write (Pool.write (Pool.write b1 self { p with size_ := p.size_ - 1 })
        recipient { r with size_ := r.size_ + 1, pairs_ := l' }) self
        { p with size_ := p.size_ - 2 },
      { p with size_ := p.size_ - 2 }, { r with size_ := r.size_ + 1, pairs_ := l' },
      ?_, ?_, ?_, rfl, hent, rfl, ?_, ?_, ?_, ?_, ?_, ?_⟩
    · unfold MoveLastToFrontOf
      simp only [hp, Option.bind_eq_bind, Option.some_bind, hv, h1, hp1, Remove_last, hb2m, hkey,
        hb2r, hl'', hb3s, hsize]
    · exact Pool.page_write_self _ _ _ _ hb3s
    · rw [Pool.page_write_other _ _ _ _ (fun h => hne h.symm)]
      exact hb3r
    · show (l'.getD 0 (0, 0)).2 = child
      rw [gl'' 0, if_neg (by omega), h3 0, if_pos rfl]
    · intro i hi1 hi2
      show (l'.getD i (0, 0)).2 = (r.pairs_.getD (i - 1) (0, 0)).2
      rw [gl'' i]
      have hli : l.getD i (0, 0) = r.pairs_.getD (i - 1) (0, 0) := by
        rw [h3 i, if_neg (by omega), if_pos hi2]
      by_cases h1' : i = 1
      · rw [if_pos h1', hli]
      · rw [if_neg h1', hli]
    · intro i hi1 hi2
      show l'.getD i (0, 0) = r.pairs_.getD (i - 1) (0, 0)
      rw [gl'' i, if_neg (by omega), h3 i, if_neg (by omega), if_pos hi2]
    · show (l'.getD 1 (0, 0)).1 = _
      rw [gl'' 1, if_pos rfl]
    · rw [hent, List.length_take, entries_length, entries_length, entries_length]
      show min (p.size_.toNat - 2) p.size_.toNat + (r.size_ + 1).toNat + 1 = _
      omega
    · intro x hx1 hx2
      rw [Pool.page_write_other _ _ _ _ hx1, Pool.page_write_other _ _ _ _ hx2,
        Pool.page_write_other _ _ _ _ hx1]
      exact h4 x hx2
  · intro child middle_key hchild hcs hcr hc
    obtain ⟨b1, l, h1, h2, h3, h4⟩ := CopyLastFrom_spec b recipient middle_key child r hr h0 hcr hc
    have hnot : ∀ x, x ≠ child → x ∉ [child] := fun x hx h => hx (List.mem_singleton.mp h)
    have hp1 : Pool.page b1 self = some p := by
      rw [h4 self hne, Pool.adopted_of_not_mem _ _ _ _ (hnot self (fun h => hcs h.symm)), hp]
    have hv : ValueAt p 0 = some child := by
      unfold ValueAt PairAt
      rw [if_neg (by omega), hchild]
      rfl
    obtain ⟨l', hl', gl'⟩ := Remove_first p (by omega)
    refine ⟨Pool.write b1 self { p with size_ := p.size_ - 1, pairs_ := l' },
      { p with size_ := p.size_ - 1, pairs_ := l' }, { r with size_ := r.size_ + 1, pairs_ := l },
      ?_, ?_, ?_, rfl, rfl, entries_tail p l' (by omega) gl',
      entries_append_one r l _ h0 h3, ?_⟩
    · unfold MoveFirstToEndOf
      simp only [hp, Option.bind_eq_bind, Option.some_bind, hv, h1, hp1, hl']
    · exact Pool.page_write_self _ _ _ _ hp1
    · rw [Pool.page_write_other _ _ _ _ (fun h => hne h.symm)]
      exact h2
    · intro x hx1 hx2
      rw [Pool.page_write_other _ _ _ _ hx1]
      exact h4 x hx2

/-- Instance of `MoveLastToFrontOf_shrinks_twice`: in `movePool` the page 2 with
four entries gives its last child 13 to page 3; afterwards page 2 has the two
entries `(0, 10)`, `(10, 11)` and page 3 has two entries, so of the five
children only four are left: child 12 is in no page any more. -/
theorem MoveLastToFrontOf_shrinks_twice_witness :
    ∃ b', MoveLastToFrontOf movePool 2 3 1 1 = some b' ∧
      (Pool.page b' 2).map entries = some [(0, 10), (10, 11)] ∧
      (Pool.page b' 3).map (fun q => q.size_) = some 2 ∧
      (Pool.page b' 3).map (fun q => (slot q 0).2) = some 13 ∧
      (Pool.page b' 3).map (fun q => (slot q 1).2) = some 14 ∧
      (Pool.page b' 3).map (fun q => (slot q 1).1) = some 50 := by
  obtain ⟨b', p', r', h1, h2, h3, _, h5, h6, h7, h8, _, h10, _, _⟩ :=
    (MoveLastToFrontOf_shrinks_twice movePool 2 3 1 1
      ⟨.INTERNAL_PAGE, 4, 4, 8, 1, 2, 0, [(0, 10), (10, 11), (20, 12), (30, 13)], []⟩
      ⟨.INTERNAL_PAGE, 1, 4, 8, 1, 3, 0, [(0, 14)], []⟩
      ⟨.INTERNAL_PAGE, 2, 4, 8, -1, 1, 0, [(0, 2), (50, 3)], []⟩
      (by decide) (by decide) (by decide) (by decide) (by decide) (by decide) (by decide)
      (by decide) (by decide)).1 13 (by decide) (by decide) (by decide) (by decide) (by decide)
  refine ⟨b', h1, ?_, ?_, ?_, ?_, ?_⟩
  · rw [h2, Option.map_some', h5]
    decide
  · rw [h3, Option.map_some', h6]
    decide
  · rw [h3, Option.map_some', h7]
  · rw [h3, Option.map_some', h8 1 (le_refl _) (by decide)]
    decide
  · rw [h3, Option.map_some', h10]
    decide

end InternalPage

namespace Pool

theorem page_DeletePage_other (b : Pool) (page_id x : page_id_t) (h : x ≠ page_id) :
    page (DeletePage b page_id) x = page b x := by
  unfold DeletePage
  split
  · rfl
  · split
    · rfl
    · unfold page
      rw [UMap.find_erase_ne _ h]

theorem adopted_adopted (b b1 : Pool) (ks1 ks2 : List page_id_t) (q x : page_id_t)
    (h : page b1 x = adopted b ks1 q x) :
    adopted b1 ks2 q x = adopted b (ks1 ++ ks2) q x := by
  unfold adopted at h ⊢
  rw [h]
  cases page b x with
  | none => rfl
  | some c =>
    simp only [Option.map_some', List.mem_append]
    by_cases h1 : x ∈ ks1
    · by_cases h2 : x ∈ ks2
      · simp only [h1, h2, if_true, or_self]
        rfl
      · simp only [h1, h2, if_true, if_false, or_false]
    · by_cases h2 : x ∈ ks2
      · simp only [h1, h2, if_true, if_false, false_or]
      · simp only [h1, h2, if_false, or_self]

end Pool

namespace InternalPage

theorem entries_eq_cons (p : BPlusTreePage) (h : 1 ≤ p.size_) :
    entries p = slot p 0 :: (entries p).tail := by
  have hl : (entries p).length = p.size_.toNat := entries_length p
  cases he : entries p with
  | nil => rw [he] at hl; simp only [List.length_nil] at hl; omega
  | cons e es =>
    have h0 := entries_getElem? p 0
    rw [he, if_pos (by omega)] at h0
    simp only [List.getElem?_cons_zero, Option.some.injEq] at h0
    rw [h0]
    rfl

theorem entries_append_list (r : BPlusTreePage) (l : List (Nat × page_id_t))
    (src : List (Nat × page_id_t)) (n : Int) (hn : n = src.length) (h0 : 0 ≤ r.size_)
    (gl : ∀ i, l.getD i (0, 0)
      = if r.size_.toNat ≤ i ∧ i < r.size_.toNat + src.length
        then src.getD (i - r.size_.toNat) (0, 0) else r.pairs_.getD i (0, 0)) :
    entries { r with size_ := r.size_ + n, pairs_ := l } = entries r ++ src := by
  apply entries_eq_of_slots
  · show (r.size_ + n).toNat = _
    rw [List.length_append, entries_length]
    omega
  · intro i hi
    rw [List.length_append, entries_length] at hi
    show l.getD i (0, 0) = _
    have hR : (entries r ++ src).getD i (0, 0) = ((entries r ++ src)[i]?).getD (0, 0) :=
      List.getD_eq_getElem?_getD _ _ _
    rw [gl i, hR]
    by_cases h : r.size_.toNat ≤ i
    · rw [if_pos ⟨h, hi⟩, List.getElem?_append_right (by rw [entries_length]; exact h),
        entries_length, List.getD_eq_getElem?_getD]
    · rw [if_neg (fun h' => h h'.1), List.getElem?_append_left (by rw [entries_length]; omega),
        entries_getElem?, if_pos (by omega)]
      rfl

theorem Remove_spec (p : BPlusTreePage) (index : Int) (h0 : 0 ≤ index) (h1 : index < p.size_) :
    ∃ l, Remove p index = some { p with size_ := p.size_ - 1, pairs_ := l } ∧
      entries { p with size_ := p.size_ - 1, pairs_ := l } = (entries p).eraseIdx index.toNat := by
  have hshift : ∃ l, (if 0 < p.size_ - 1 - index then
        (readPairs p (index + 1) (p.size_ - 1 - index).toNat).bind (PairCopy p index)
      else some p) = some { p with pairs_ := l } ∧
      ∀ i, l.getD i (0, 0)
        = if index.toNat ≤ i ∧ i < p.size_.toNat - 1 then p.pairs_.getD (i + 1) (0, 0)
          else p.pairs_.getD i (0, 0) := by
    by_cases hpos : 0 < p.size_ - 1 - index
    · obtain ⟨l, hl, gl⟩ := PairCopy_spec
        ((List.range (p.size_ - 1 - index).toNat).map
          (fun i => p.pairs_.getD ((index + 1).toNat + i) (0, 0))) p index h0
      refine ⟨l, ?_, fun i => ?_⟩
      · rw [if_pos hpos, readPairs_eq _ _ _ (by omega)]
        exact hl
      · rw [gl i]
        simp only [List.length_map, List.length_range]
        by_cases hi : index.toNat ≤ i ∧ i < p.size_.toNat - 1
        · rw [if_pos ⟨hi.1, by omega⟩, if_pos hi, getD_map_range _ _ _ (by omega)]
          congr 1
          omega
        · rw [if_neg (by omega), if_neg hi]
    · refine ⟨p.pairs_, by rw [if_neg hpos], fun i => ?_⟩
      rw [if_neg (by omega)]
  obtain ⟨l, hl, gl⟩ := hshift
  refine ⟨l, ?_, ?_⟩
  · unfold Remove
    simp only [Option.bind_eq_bind]
    by_cases hpos : 0 < p.size_ - 1 - index
    · rw [if_pos hpos] at hl ⊢
      rw [hl]
      rfl
    · rw [if_neg hpos] at hl ⊢
      have hl' : p.pairs_ = l := congrArg BPlusTreePage.pairs_ (Option.some.inj hl)
      subst hl'
      rfl
  · apply List.ext_getElem?
    intro i
    rw [List.getElem?_eraseIdx, entries_getElem?, entries_getElem?, entries_getElem?]
    show (if i < (p.size_ - 1).toNat then some (l.getD i (0, 0)) else none) = _
    by_cases hi : i < (p.size_ - 1).toNat
    · rw [if_pos hi, gl i]
      by_cases h2 : i < index.toNat
      · have a1 : i < p.size_.toNat := by omega
        have a2 : ¬ (index.toNat ≤ i ∧ i < p.size_.toNat - 1) := by omega
        rw [if_pos h2, if_pos a1, if_neg a2]
        rfl
      · have a1 : i + 1 < p.size_.toNat := by omega
        have a2 : index.toNat ≤ i ∧ i < p.size_.toNat - 1 := ⟨by omega, by omega⟩
        rw [if_neg h2, if_pos a1, if_pos a2]
        rfl
    · rw [if_neg hi]
      by_cases h2 : i < index.toNat
      · omega
      · have a1 : ¬ i + 1 < p.size_.toNat := by omega
        rw [if_neg h2, if_neg a1]

theorem MoveAllTo_unfold (b b1 b2 : Pool) (self recipient : page_id_t) (middle_key : Nat)
    (p : BPlusTreePage) (hp : Pool.page b self = some p)
    (h1 : CopyLastFrom b recipient middle_key (slot p 0).2 = some b1)
    (hp1 : Pool.page b1 self = some p)
    (h2 : (if 1 < p.size_ then
        (readPairs p 1 (p.size_ - 1).toNat).bind
          (fun src => CopyNFrom b1 recipient src (p.size_ - 1))
      else some b1) = some b2)
    (hp2 : Pool.page b2 self = some p) :
    MoveAllTo b self recipient middle_key = some (Pool.DeletePage b2 p.page_id_) := by
  have hv : ValueAt p 0 = some (slot p 0).2 := by
    unfold ValueAt PairAt
    rw [if_neg (by omega)]
    rfl
  unfold MoveAllTo
  simp only [hp, Option.bind_eq_bind, Option.some_bind, hv, h1, hp1]
  by_cases hpos : 1 < p.size_
  · rw [if_pos hpos] at h2 ⊢
    rw [h2]
    simp only [Option.some_bind, hp2]
  · rw [if_neg hpos] at h2 ⊢
    cases h2
    simp only [Option.some_bind, hp2]

/-- `MoveAllTo` appends the middle key with the first child of `self` and then
the remaining entries of `self` to the recipient, and adopts the children. -/
theorem MoveAllTo_spec (b : Pool) (self recipient : page_id_t) (middle_key : Nat)
    (p r : BPlusTreePage) (hp : Pool.page b self = some p) (hr : Pool.page b recipient = some r)
    (hne : self ≠ recipient) (hid : p.page_id_ ≠ recipient) (hd : 1 ≤ p.size_) (h0 : 0 ≤ r.size_)
    (hk : ∀ k ∈ (entries p).map Prod.snd, k ≠ self ∧ k ≠ recipient ∧ (Pool.page b k).isSome) :
    ∃ b' r', MoveAllTo b self recipient middle_key = some b' ∧
      Pool.page b' recipient = some r' ∧
      { r' with size_ := r.size_, pairs_ := r.pairs_ } = r ∧
      r'.size_ = r.size_ + p.size_ ∧
      entries r' = entries r ++ (middle_key, (slot p 0).2) :: (entries p).tail ∧
      ∀ x, x ≠ recipient → x ≠ p.page_id_ →
        Pool.page b' x = Pool.adopted b ((entries p).map Prod.snd) r.page_id_ x := by
  have hcons := entries_eq_cons p hd
  have hkids : (entries p).map Prod.snd = [(slot p 0).2] ++ ((entries p).tail).map Prod.snd := by
    conv => lhs; rw [hcons]
    rfl
  have hfirst : (slot p 0).2 ∈ (entries p).map Prod.snd := by
    rw [hkids]
    exact List.mem_append_left _ (List.mem_singleton.mpr rfl)
  have hself : self ∉ (entries p).map Prod.snd := fun h => (hk self h).1 rfl
  obtain ⟨b1, l1, h1, h2, h3, h4⟩ := CopyLastFrom_spec b recipient middle_key (slot p 0).2 r hr h0
    (hk _ hfirst).2.1 (hk _ hfirst).2.2
  have hp1 : Pool.page b1 self = some p := by
    rw [h4 self hne, Pool.adopted_of_not_mem _ _ _ _
      (fun h => hself (hkids ▸ List.mem_append_left _ h)), hp]
  have hR1 : entries { r with size_ := r.size_ + 1, pairs_ := l1 }
      = entries r ++ [(middle_key, (slot p 0).2)] := entries_append_one r l1 _ h0 h3
  have hrest : ∃ b2 r', (if 1 < p.size_ then
        (readPairs p 1 (p.size_ - 1).toNat).bind
          (fun src => CopyNFrom b1 recipient src (p.size_ - 1))
      else some b1) = some b2 ∧
      Pool.page b2 recipient = some r' ∧
      { r' with size_ := r.size_, pairs_ := r.pairs_ } = r ∧
      r'.size_ = r.size_ + p.size_ ∧
      entries r' = entries r ++ (middle_key, (slot p 0).2) :: (entries p).tail ∧
      ∀ x, x ≠ recipient →
        Pool.page b2 x = Pool.adopted b ((entries p).map Prod.snd) r.page_id_ x := by
    have htail : (entries p).tail
        = (List.range (p.size_.toNat - 1)).map (fun i => p.pairs_.getD (1 + i) (0, 0)) := by
      rw [← entries_drop p 1, List.drop_one]
    by_cases hpos : 1 < p.size_
    · rw [if_pos hpos, readPairs_eq _ _ _ (by omega)]
      have e1 : (p.size_ - 1).toNat = p.size_.toNat - 1 := by omega
      have e2 : (1 : Int).toNat = 1 := rfl
      rw [e1, e2, ← htail]
      have hlen : ((entries p).tail).length = p.size_.toNat - 1 := by
        rw [List.length_tail, entries_length]
      obtain ⟨b2, l2, g1, g2, g3, g4⟩ := CopyNFrom_spec b1 recipient (entries p).tail
        (p.size_ - 1) { r with size_ := r.size_ + 1, pairs_ := l1 } (by rw [hlen]; omega) h2
        (show (0 : Int) ≤ r.size_ + 1 by omega)
        (fun k hk' => by
          have hm : k ∈ (entries p).map Prod.snd := hkids ▸ List.mem_append_right _ hk'
          refine ⟨(hk k hm).2.1, ?_⟩
          rw [h4 k (hk k hm).2.1]
          unfold Pool.adopted
          rw [Option.isSome_map']
          exact (hk k hm).2.2)
      refine ⟨b2, _, g1, g2, rfl, ?_, ?_, fun x hx => ?_⟩
      · show r.size_ + 1 + (p.size_ - 1) = _
        omega
      · have := entries_append_list { r with size_ := r.size_ + 1, pairs_ := l1 } l2
          (entries p).tail (p.size_ - 1) (by rw [hlen]; omega)
          (show (0 : Int) ≤ r.size_ + 1 by omega) g3
        rw [hR1, List.append_assoc] at this
        exact this
      · rw [g4 x hx, hkids]
        exact Pool.adopted_adopted b b1 _ _ _ x (h4 x hx)
    · rw [if_neg hpos]
      have hnil : (entries p).tail = [] := by
        apply List.eq_nil_of_length_eq_zero
        rw [List.length_tail, entries_length]
        omega
      refine ⟨b1, _, rfl, h2, rfl, ?_, ?_, fun x hx => ?_⟩
      · show r.size_ + 1 = _
        omega
      · rw [hnil]
        exact hR1
      · rw [h4 x hx, hkids, hnil]
        rfl
  obtain ⟨b2, r', g1, g2, g3, g4, g5, g6⟩ := hrest
  have hp2 : Pool.page b2 self = some p := by
    rw [g6 self hne, Pool.adopted_of_not_mem _ _ _ _ hself, hp]
  refine ⟨Pool.DeletePage b2 p.page_id_, r',
    MoveAllTo_unfold b b1 b2 self recipient middle_key p hp h1 hp1 g1 hp2, ?_, g3, g4, g5,
    fun x hx1 hx2 => ?_⟩
  · rw [Pool.page_DeletePage_other _ _ _ (fun h => hid h.symm)]
    exact g2
  · rw [Pool.page_DeletePage_other _ _ _ hx2]
    exact g6 x hx1

end InternalPage

namespace BPlusTree

/-- C34. `BPlusTree::Coalesce` for internal pages treats both cases alike: the
entries of `node` are appended to `neighbor_node` (the parent's key at `index`
with the first child of `node`, then the other entries of `node`), and the
parent's entry at `index`, the one of `node`, is removed.  For `index > 0` the
neighbour is the left sibling and this is the merge into the left node.  For
`index = 0` the neighbour is the right sibling (`CoalesceOrRedistribute` takes
`ValueAt(1)`), so the surviving page is the right one, its entries are the right
node's followed by the parent's unused slot-0 key with the left node's first
child and the left node's other entries, and the parent entry removed is the
left node's.  The parent is taken to keep at least its minimal size, and the
pages and the children of `node` to be held by the pool and to be different
pages. -/
theorem CoalesceInternal_appends_to_neighbor
    (cor : BPlusTree → page_id_t → Option (Bool × BPlusTree)) (t : BPlusTree)
    (neighbor_node node parent : page_id_t) (index : Int) (P nd nb : BPlusTreePage)
    (hP : Pool.page t.pool_ parent = some P) (hnd : Pool.page t.pool_ node = some nd)
    (hnb : Pool.page t.pool_ neighbor_node = some nb)
    (h1 : node ≠ neighbor_node) (h2 : parent ≠ node) (h3 : parent ≠ neighbor_node)
    (hid : nd.page_id_ = node) (hd : 1 ≤ nd.size_) (h0 : 0 ≤ nb.size_)
    (hi0 : 0 ≤ index) (hi1 : index < P.size_) (hmin : P.GetMinSize ≤ P.size_ - 1)
    (hk : ∀ k ∈ (InternalPage.entries nd).map Prod.snd,
      k ≠ node ∧ k ≠ neighbor_node ∧ k ≠ parent ∧ (Pool.page t.pool_ k).isSome) :
    ∃ t' nb' P',
      CoalesceInternal cor t neighbor_node node parent index = some (false, t') ∧
      Pool.page t'.pool_ neighbor_node = some nb' ∧ Pool.page t'.pool_ parent = some P' ∧
      { nb' with size_ := nb.size_, pairs_ := nb.pairs_ } = nb ∧
      nb'.size_ = nb.size_ + nd.size_ ∧
      InternalPage.entries nb'
        = InternalPage.entries nb
            ++ ((InternalPage.slot P index.toNat).1, (InternalPage.slot nd 0).2)
              :: (InternalPage.entries nd).tail ∧
      InternalPage.entries P' = (InternalPage.entries P).eraseIdx index.toNat ∧
      ∀ k ∈ (InternalPage.entries nd).map Prod.snd,
        (Pool.page t'.pool_ k).map (fun c => c.parent_page_id_) = some nb.page_id_ := by
  obtain ⟨b, nb', g1, g2, g3, g4, g5, g6⟩ := InternalPage.MoveAllTo_spec t.pool_ node
    neighbor_node (InternalPage.slot P index.toNat).1 nd nb hnd hnb h1 (hid ▸ h1) hd h0
    (fun k hk' => ⟨(hk k hk').1, (hk k hk').2.1, (hk k hk').2.2.2⟩)
  have hPb : Pool.page b parent = some P := by
    rw [g6 parent h3 (hid ▸ h2), Pool.adopted_of_not_mem _ _ _ _ (fun h => (hk parent h).2.2.1 rfl),
      hP]
  have hkey : InternalPage.KeyAt P index = some (InternalPage.slot P index.toNat).1 := by
    unfold InternalPage.KeyAt InternalPage.PairAt
    rw [if_neg (by omega)]
    rfl
  obtain ⟨l, hl, gl⟩ := InternalPage.Remove_spec P index hi0 hi1
  have hmin' : BPlusTreePage.GetMinSize { P with size_ := P.size_ - 1, pairs_ := l }
      ≤ P.size_ - 1 := hmin
  refine ⟨{ t with pool_ := Pool.write b parent { P with size_ := P.size_ - 1, pairs_ := l } },
    nb', { P with size_ := P.size_ - 1, pairs_ := l }, ?_, ?_, ?_, g3, g4, g5, gl, ?_⟩
  · unfold CoalesceInternal
    simp only [hP, Option.bind_eq_bind, Option.some_bind, hkey, g1, hPb, hl]
    rw [if_pos hmin']
  · show Pool.page (Pool.write b parent _) neighbor_node = _
    rw [Pool.page_write_other _ _ _ _ (fun h => h3 h.symm)]
    exact g2
  · exact Pool.page_write_self _ _ _ _ hPb
  · intro k hk'
    show (Pool.page (Pool.write b parent _) k).map _ = _
    rw [Pool.page_write_other _ _ _ _ (hk k hk').2.2.1, g6 k (hk k hk').2.1 (hid ▸ (hk k hk').1),
      Pool.adopted_of_mem _ _ _ _ hk']
    obtain ⟨c, hc⟩ := Option.isSome_iff_exists.mp (hk k hk').2.2.2
    rw [hc]
    rfl

/-- Instance of `CoalesceInternal_appends_to_neighbor` at index 0: in
`mergeTree` the first child 2 of the root is merged with its right sibling 3.
Page 3 survives with the keys 70, 80, 0, 20 in the slots 1 to 4, which are not
in ascending order, and the child 10 of the left node stands behind the
children of the right node; the root loses its entry of page 2.  The same is
the result of `CoalesceOrRedistribute` on page 2. -/
theorem CoalesceInternal_appends_to_neighbor_witness :
    (∃ t', CoalesceInternal (fun _ _ => none) mergeTree 3 2 1 0 = some (false, t') ∧
      (Pool.page t'.pool_ 3).map InternalPage.entries
        = some [(0, 12), (70, 13), (80, 14), (0, 10), (20, 11)] ∧
      (Pool.page t'.pool_ 1).map InternalPage.entries = some [(50, 3), (90, 4), (120, 5)] ∧
      (Pool.page t'.pool_ 10).map (fun c => c.parent_page_id_) = some 3) ∧
    (CoalesceOrRedistribute 2 false mergeTree 2).map
        (fun r => ((Pool.page r.2.pool_ 3).map InternalPage.entries,
          (Pool.page r.2.pool_ 1).map InternalPage.entries))
      = some (some [(0, 12), (70, 13), (80, 14), (0, 10), (20, 11)],
          some [(50, 3), (90, 4), (120, 5)]) := by
  constructor
  · obtain ⟨t', nb', P', h1, h2, h3, _, _, h6, h7, h8⟩ :=
      CoalesceInternal_appends_to_neighbor (fun _ _ => none) mergeTree 3 2 1 0
        ⟨.INTERNAL_PAGE, 4, 6, 8, -1, 1, 0, [(0, 2), (50, 3), (90, 4), (120, 5)], []⟩
        ⟨.INTERNAL_PAGE, 2, 6, 8, 1, 2, 0, [(0, 10), (20, 11)], []⟩
        ⟨.INTERNAL_PAGE, 3, 6, 8, 1, 3, 0, [(0, 12), (70, 13), (80, 14)], []⟩
        (by decide) (by decide) (by decide) (by decide) (by decide) (by decide) (by decide)
        (by decide) (by decide) (by decide) (by decide) (by decide) (by decide)
    refine ⟨t', h1, ?_, ?_, ?_⟩
    · rw [h2, Option.map_some', h6]
      decide
    · rw [h3, Option.map_some', h7]
      decide
    · exact h8 10 (by decide)
  · decide

end BPlusTree

namespace BPlusTree

theorem findLeafLoop_page (key : Nat) (leftMost : Bool) :
    ∀ (fuel : Nat) (b : Pool) (page_id : page_id_t) (f : page_id_t × Pool),
      findLeafLoop key leftMost fuel b page_id = some f →
      1 ≤ fuel ∧ ∀ x, Pool.page f.2 x = Pool.page b x := by
  intro fuel
  induction fuel with
  | zero => intro b page_id f h; cases h
  | succ fuel ih =>
    intro b page_id f h
    refine ⟨Nat.succ_le_succ (Nat.zero_le _), ?_⟩
    unfold findLeafLoop at h
    cases hn : Pool.page b page_id with
    | none => rw [hn] at h; cases h
    | some node =>
      rw [hn] at h
      simp only [Option.bind_eq_bind, Option.some_bind] at h
      by_cases hl : node.IsLeafPage = true
      · rw [if_pos hl] at h
        cases h
        intro x
        rfl
      · rw [if_neg hl] at h
        have hstep : ∀ o : Option page_id_t,
            (o.bind fun y => (Pool.FetchPage (Pool.UnpinPage b page_id) y).bind
              fun b1 => findLeafLoop key leftMost fuel b1 y) = some f →
            ∀ x, Pool.page f.2 x = Pool.page b x := by
          intro o ho
          cases o with
          | none => cases ho
          | some next =>
            simp only [Option.some_bind] at ho
            cases hb1 : Pool.FetchPage (Pool.UnpinPage b page_id) next with
            | none => rw [hb1] at ho; cases ho
            | some b1 =>
              rw [hb1] at ho
              simp only [Option.some_bind] at ho
              intro x
              rw [(ih b1 next f ho).2 x, Pool.page_of_FetchPage _ _ _ hb1 x, Pool.page_UnpinPage]
        split at h
        · exact hstep _ h
        · exact hstep _ h

theorem FindLeafPage_page (fuel : Nat) (t : BPlusTree) (key : Nat) (page_id : page_id_t)
    (leftMost : Bool) (f : page_id_t × Pool)
    (h : FindLeafPage fuel t key page_id leftMost = some f) :
    1 ≤ fuel ∧ ∀ x, Pool.page f.2 x = Pool.page t.pool_ x := by
  unfold FindLeafPage at h
  split at h
  · cases h
  · dsimp only at h
    cases hb : Pool.FetchPage t.pool_
        (if page_id = INVALID_PAGE_ID then t.root_page_id_ else page_id) with
    | none => rw [hb] at h; cases h
    | some b =>
      rw [hb] at h
      simp only [Option.bind_eq_bind, Option.some_bind] at h
      have := findLeafLoop_page key leftMost fuel b _ f h
      exact ⟨this.1, fun x => by rw [this.2 x, Pool.page_of_FetchPage _ _ _ hb x]⟩

/-- C32. `BPlusTree::Remove` changes no separator when the leaf keeps at least
its minimal size and less than its maximal size: `Remove` looks at the
separators only in the branch where the new size is not below `GetMaxSize()`,
otherwise it calls `CoalesceOrRedistribute`, which returns at once for a leaf of
at least minimal size.  So the call returns, the leaf is the one page that
changes, and every other page, among them every ancestor with its separator
keys, is as before: a separator equal to the removed key stays in its internal
page also when the key was in slot 0 of the leaf. -/
theorem Remove_keeps_separators (fuel : Nat) (t : BPlusTree) (key : Nat) (leaf_id : page_id_t)
    (leaf : BPlusTreePage) (hne : t.IsEmpty = false)
    (hid : (FindLeafPage fuel t key t.root_page_id_ false).map Prod.fst = some leaf_id)
    (hleaf : (FindLeafPage fuel t key t.root_page_id_ false).bind
      (fun f => Pool.page f.2 f.1) = some leaf)
    (hl : leaf.IsLeafPage = true)
    (hmin : leaf.GetMinSize ≤ (LeafPage.RemoveAndDeleteRecord leaf key).1)
    (hmax : (LeafPage.RemoveAndDeleteRecord leaf key).1 < leaf.max_size_) :
    ∃ t', Remove fuel t key = some t' ∧
      Pool.page t'.pool_ leaf_id = some (LeafPage.RemoveAndDeleteRecord leaf key).2 ∧
      ∀ x, x ≠ leaf_id → Pool.page t'.pool_ x = Pool.page t.pool_ x := by
  cases hf : FindLeafPage fuel t key t.root_page_id_ false with
  | none => rw [hf] at hid; cases hid
  | some f =>
    rw [hf] at hid hleaf
    simp only [Option.map_some', Option.some.injEq] at hid
    simp only [Option.bind_eq_bind, Option.some_bind] at hleaf
    obtain ⟨hfuel, hpage⟩ := FindLeafPage_page fuel t key _ false f hf
    obtain ⟨fuel', rfl⟩ : ∃ n, fuel = n + 1 := ⟨fuel - 1, by omega⟩
    have hr : ∀ q : Int × BPlusTreePage, q = LeafPage.RemoveAndDeleteRecord leaf key →
        q.2.IsLeafPage = true ∧ q.2.GetMinSize = leaf.GetMinSize ∧ q.2.max_size_ = leaf.max_size_ ∧
        q.2.size_ = q.1 := by
      intro q hq
      unfold LeafPage.RemoveAndDeleteRecord at hq
      split at hq
      · subst hq
        exact ⟨hl, rfl, rfl, rfl⟩
      · subst hq
        exact ⟨hl, rfl, rfl, rfl⟩
    obtain ⟨r1, r2, r3, r4⟩ := hr _ rfl
    have hw : Pool.page (Pool.write f.2 f.1 (LeafPage.RemoveAndDeleteRecord leaf key).2) f.1
        = some (LeafPage.RemoveAndDeleteRecord leaf key).2 := Pool.page_write_self _ _ _ _ hleaf
    have hcor : CoalesceOrRedistribute (fuel' + 1) true
        { t with pool_ := Pool.write f.2 f.1 (LeafPage.RemoveAndDeleteRecord leaf key).2 } f.1
        = some (false,
            { t with pool_ := Pool.write f.2 f.1 (LeafPage.RemoveAndDeleteRecord leaf key).2 }) := by
      unfold CoalesceOrRedistribute
      simp only [hw, Option.bind_eq_bind, Option.some_bind, r1, ne_eq, not_true_eq_false, if_false]
      rw [if_pos (by rw [r2, r4]; exact hmin)]
    have hu : ∀ id, Pool.page (Pool.UnpinPage
        (Pool.write f.2 f.1 (LeafPage.RemoveAndDeleteRecord leaf key).2) id) f.1
        = some (LeafPage.RemoveAndDeleteRecord leaf key).2 := by
      intro id
      rw [Pool.page_UnpinPage, hw]
    refine ⟨{ t with pool_ := (Pool.UnpinPage
        (Pool.write f.2 f.1 (LeafPage.RemoveAndDeleteRecord leaf key).2)
        (LeafPage.RemoveAndDeleteRecord leaf key).2.page_id_) }, ?_, ?_, ?_⟩
    · unfold Remove
      rw [if_neg (by rw [hne]; exact Bool.false_ne_true)]
      simp only [hf, Option.bind_eq_bind, Option.some_bind, hleaf, r3, if_pos hmax, hcor, hw, hu]
      rfl
    · rw [← hid]
      exact hu _
    · intro x hx
      show Pool.page (Pool.UnpinPage _ _) x = _
      rw [Pool.page_UnpinPage, Pool.page_write_other _ _ _ _ (hid ▸ hx), hpage x]

/-- Instance of `Remove_keeps_separators`: `fiveKeys` is the tree built by
inserting 10, 20, 30, 40, 50; the key 30 is in slot 0 of the leaf 3 and is the
separator in the root 4.  After `Remove(30)` the leaf holds 40 and 50, its
minimal size, and the root still has the separator 30. -/
theorem Remove_keeps_separators_witness :
    run 10 fresh [.insert 10 ⟨0, 10⟩, .insert 20 ⟨0, 20⟩, .insert 30 ⟨0, 30⟩, .insert 40 ⟨0, 40⟩,
      .insert 50 ⟨0, 50⟩] = some fiveKeys ∧
    LeafPage.KeyIndex
      ⟨.LEAF_PAGE, 3, 4, 8, 4, 3, -1, [], [(30, ⟨0, 30⟩), (40, ⟨0, 40⟩), (50, ⟨0, 50⟩)]⟩ 30 = 0 ∧
    ∃ t', Remove 10 fiveKeys 30 = some t' ∧
      (Pool.page t'.pool_ 3).map (fun q => (q.size_, q.GetMinSize, q.rows_.map Prod.fst))
        = some (2, 2, [40, 50]) ∧
      (Pool.page t'.pool_ 4).map InternalPage.entries = some [(0, 2), (30, 3)] := by
  refine ⟨by decide, by decide, ?_⟩
  obtain ⟨t', h1, h2, h3⟩ := Remove_keeps_separators 10 fiveKeys 30 3
    ⟨.LEAF_PAGE, 3, 4, 8, 4, 3, -1, [], [(30, ⟨0, 30⟩), (40, ⟨0, 40⟩), (50, ⟨0, 50⟩)]⟩
    (by decide) (by decide) (by decide) (by decide) (by decide) (by decide)
  refine ⟨t', h1, ?_, ?_⟩
  · rw [h2]
    decide
  · rw [h3 4 (by decide)]
    decide

end BPlusTree

namespace BufferPoolManager

theorem NewPage_one_frame (cfg : Config) (d : DiskManager) (p : Int)
    (ha : (DiskManager.AllocatePage cfg d).1 = p) (hp : p ≠ INVALID_PAGE_ID) :
    NewPage cfg (BufferPoolManager.new cfg 1 d)
      = (p, some 0,
          ⟨1, [⟨zeroPage cfg, p, 1, true⟩], [(p, 0)], [], ⟨[], []⟩,
            (DiskManager.AllocatePage cfg d).2⟩) := by
  have ht : TryToFindFreePage cfg (BufferPoolManager.new cfg 1 d)
      = (0, ⟨1, [emptyPage cfg], [], [], ⟨[], []⟩, d⟩) := rfl
  rw [NewPage_eq, ht]
  have h0 : ¬ ((0 : Int) = INVALID_FRAME_ID) := by decide
  simp only [h0, if_false, ha, hp]
  rfl

theorem UnpinPage_one_frame (cfg : Config) (d : DiskManager) (p : Int) (x : List Nat)
    (dirty flag : Bool) (hp : p ≠ INVALID_PAGE_ID) :
    UnpinPage cfg ⟨1, [⟨x, p, 1, dirty⟩], [(p, 0)], [], ⟨[], []⟩, d⟩ p flag
      = (true,
          ⟨1, [⟨x, p, 0, if flag then true else dirty⟩], [(p, 0)], [], ⟨[(1, 0)], [(0, 1)]⟩, d⟩) := by
  have hf : UMap.find [((p : Int), (0 : Int))] p = some 0 := by
    simp only [UMap.find, if_true]
  have hpg : page cfg ⟨1, [⟨x, p, 1, dirty⟩], [(p, 0)], [], ⟨[], []⟩, d⟩ 0 = ⟨x, p, 1, dirty⟩ := rfl
  have h1 : ¬ ((1 : Int) ≤ 0) := by decide
  have hw : wrapInt32 (1 - 1) = 0 := by decide
  simp only [UnpinPage, hp, if_false, hf, hpg, h1, hw, if_true]
  rfl

theorem FetchPage_one_frame (cfg : Config) (d : DiskManager) (p q : Int) (x : List Nat)
    (dirty : Bool) (hq : q ≠ INVALID_PAGE_ID) (hpq : p ≠ q) :
    FetchPage cfg ⟨1, [⟨x, p, 0, dirty⟩], [(p, 0)], [], ⟨[(1, 0)], [(0, 1)]⟩, d⟩ q
      = (some 0,
          ⟨1, [⟨(diskRead cfg (if dirty then diskWrite cfg d p x else d) q (zeroPage cfg)).1,
              q, 1, false⟩],
            [(q, 0)], [], ⟨[], []⟩,
            (diskRead cfg (if dirty then diskWrite cfg d p x else d) q (zeroPage cfg)).2⟩) := by
  have hf : UMap.find [((p : Int), (0 : Int))] q = none := by
    simp only [UMap.find, hpq, if_false]
  have ht : TryToFindFreePage cfg ⟨1, [⟨x, p, 0, dirty⟩], [(p, 0)], [], ⟨[(1, 0)], [(0, 1)]⟩, d⟩
      = (0, ⟨1, [⟨zeroPage cfg, INVALID_PAGE_ID, 0, false⟩], [], [], ⟨[], []⟩,
          if dirty then diskWrite cfg d p x else d⟩) := by
    have he : UMap.erase [((p : Int), (0 : Int))] p = [] := by
      simp only [UMap.erase, List.filter, ne_eq, not_true_eq_false, decide_False]
    have hv : LRUReplacer.Victim ⟨[(1, 0)], [(0, 1)]⟩ = (some 0, ⟨[], []⟩) := by decide
    have hpg : page cfg ⟨1, [⟨x, p, 0, dirty⟩], [(p, 0)], [], ⟨[(1, 0)], [(0, 1)]⟩, d⟩ 0
        = ⟨x, p, 0, dirty⟩ := rfl
    simp only [TryToFindFreePage, hv, hpg, he]
    rfl
  rw [FetchPage_miss cfg _ q hq hf, ht]
  have h0 : ¬ ((0 : Int) = INVALID_FRAME_ID) := by decide
  rw [if_neg h0]
  rfl

/-- The eviction scenario on one frame, step by step: the bytes of the frame
that the final `FetchPage(p)` returns are those that `ReadPage(p)` delivers
after `WritePage(p, b)` and `ReadPage(q)`. -/
theorem evictionRun_eq (cfg : Config) (d : DiskManager) (b : List Nat) (p q : Int)
    (ha : (DiskManager.AllocatePage cfg d).1 = p) (hp : p ≠ INVALID_PAGE_ID)
    (hq : q ≠ INVALID_PAGE_ID) (hpq : p ≠ q) :
    (evictionRun cfg d b q).1 = p ∧ (evictionRun cfg d b q).2.1 = some 0 ∧
    (page cfg (evictionRun cfg d b q).2.2 0).data_
      = (diskRead cfg
          (diskRead cfg (diskWrite cfg (DiskManager.AllocatePage cfg d).2 p b) q (zeroPage cfg)).2
          p (zeroPage cfg)).1 := by
  have h1 := NewPage_one_frame cfg d p ha hp
  have h2 : writeData cfg (⟨1, [⟨zeroPage cfg, p, 1, true⟩], [(p, 0)], [], ⟨[], []⟩,
        (DiskManager.AllocatePage cfg d).2⟩ : BufferPoolManager) 0 b
      = ⟨1, [⟨b, p, 1, true⟩], [(p, 0)], [], ⟨[], []⟩, (DiskManager.AllocatePage cfg d).2⟩ := rfl
  have h3 := UnpinPage_one_frame cfg (DiskManager.AllocatePage cfg d).2 p b true true hp
  have h4 := FetchPage_one_frame cfg (DiskManager.AllocatePage cfg d).2 p q b true hq hpq
  simp only [if_true] at h3 h4
  have h5 := UnpinPage_one_frame cfg
    (diskRead cfg (diskWrite cfg (DiskManager.AllocatePage cfg d).2 p b) q (zeroPage cfg)).2 q
    (diskRead cfg (diskWrite cfg (DiskManager.AllocatePage cfg d).2 p b) q (zeroPage cfg)).1
    false false hq
  have h6 := FetchPage_one_frame cfg
    (diskRead cfg (diskWrite cfg (DiskManager.AllocatePage cfg d).2 p b) q (zeroPage cfg)).2 q p
    (diskRead cfg (diskWrite cfg (DiskManager.AllocatePage cfg d).2 p b) q (zeroPage cfg)).1
    false hp (fun h => hpq h.symm)
  simp only [Bool.false_eq_true, if_false] at h5 h6
  unfold evictionRun
  simp only [h1, h2, h3, h4, h5, h6, true_and]
  rfl

end BufferPoolManager

namespace BufferPoolManager

theorem diskWrite_eq (cfg : Config) (d : DiskManager) (p : Int) (b : List Nat) (h : 0 ≤ p) :
    diskWrite cfg d p b
      = { d with db_io_ :=
            DiskManager.WritePhysicalPage cfg d.db_io_ (DiskManager.MapPageId cfg p) b } := by
  have hlt : ¬ p < 0 := by omega
  simp only [diskWrite, DiskManager.WritePage, hlt, if_false, Option.getD_some]

theorem diskRead_pair (cfg : Config) (d : DiskManager) (p : Int) (old x : List Nat) (F : DbFile)
    (h : 0 ≤ p)
    (hr : DiskManager.ReadPhysicalPage cfg d.db_io_ (DiskManager.MapPageId cfg p) = (x, F)) :
    diskRead cfg d p old = (x, { d with db_io_ := F }) := by
  unfold diskRead
  rewrite [ReadPage_of_nonneg cfg d p h, hr]
  exact Eq.refl _

theorem ReadPhysicalPage_failed (cfg : Config) (file : DbFile) (p : page_id_t)
    (h : file.fail = true) :
    DiskManager.ReadPhysicalPage cfg file p = (zeroPage cfg, file) := by
  unfold DiskManager.ReadPhysicalPage
  simp only [h, if_true]
  split <;> rfl

/-- Two reads in a row through `diskRead`, given what the stream delivers. -/
theorem diskRead_twice (cfg : Config) (d : DiskManager) (q p : Int) (old1 old2 x y : List Nat)
    (F1 F2 : DbFile) (hq : 0 ≤ q) (hp : 0 ≤ p)
    (h1 : DiskManager.ReadPhysicalPage cfg d.db_io_ (DiskManager.MapPageId cfg q) = (x, F1))
    (h2 : DiskManager.ReadPhysicalPage cfg F1 (DiskManager.MapPageId cfg p) = (y, F2)) :
    (diskRead cfg (diskRead cfg d q old1).2 p old2).1 = y := by
  rewrite [diskRead_pair cfg d q old1 x F1 hq h1]
  have e2 := diskRead_pair cfg { d with db_io_ := F1 } p old2 y F2 hp h2
  exact congrArg Prod.fst e2

theorem MapPageId_0 : DiskManager.MapPageId Config.default 0 = 2 :=
  DiskManager.MapPageId_4096 _ 0 0 (by omega) (by omega)

theorem MapPageId_6000 : DiskManager.MapPageId Config.default 6000 = 6002 :=
  DiskManager.MapPageId_4096 _ 0 6000 (by omega) (by omega)

theorem MapPageId_600000 : DiskManager.MapPageId Config.default 600000 = 600020 :=
  DiskManager.MapPageId_4096 _ 18 11328 (by omega) (by omega)

theorem MapPageId_555968 : DiskManager.MapPageId Config.default 555968 = 555987 :=
  DiskManager.MapPageId_4096 _ 17 0 (by omega) (by omega)

theorem WritePhysicalPage_eq63 (cfg : Config) (file : DbFile) (P : Nat) (page_data : List Nat)
    (hfail : file.fail = false) (hP : P * cfg.PAGE_SIZE < 2 ^ 63) (hP2 : P < 2 ^ 63) :
    DiskManager.WritePhysicalPage cfg file (P : Int) page_data
      = { size := max file.size (P * cfg.PAGE_SIZE + cfg.PAGE_SIZE),
          data := fun i =>
            if P * cfg.PAGE_SIZE ≤ i ∧ i < P * cfg.PAGE_SIZE + cfg.PAGE_SIZE
            then page_data.getD (i - P * cfg.PAGE_SIZE) 0 else file.data i,
          fail := false } := by
  have hmod : (((P : Int) % 2 ^ 64).toNat * cfg.PAGE_SIZE) % 2 ^ 64 = P * cfg.PAGE_SIZE := by
    have h1 : ((P : Int) % 2 ^ 64).toNat = P := by omega
    rw [h1]
    apply Nat.mod_eq_of_lt
    omega
  have h63 : ¬ P * cfg.PAGE_SIZE ≥ 2 ^ 63 := by omega
  simp only [DiskManager.WritePhysicalPage, hmod, hfail, Bool.false_eq_true, if_false, h63]

/-- A page written back and read again after the read of a page whose `int`
offset is negative while the file is shorter than 2 GiB: that read leaves the
stream failed, and the page comes back as zeros. -/
theorem lost_by_failed_stream (cfg : Config) (d : DiskManager) (b : List Nat) (p q : Int)
    (P Q : Nat) (hp : 0 ≤ p) (hq : 0 ≤ q)
    (hP : DiskManager.MapPageId cfg p = (P : Int)) (hQ : DiskManager.MapPageId cfg q = (Q : Int))
    (hfail : d.db_io_.fail = false) (hsize : d.db_io_.size < 2 ^ 31)
    (hps : 0 < cfg.PAGE_SIZE)
    (hPr : P * cfg.PAGE_SIZE + cfg.PAGE_SIZE < 2 ^ 31)
    (hneg : wrapInt32 ((Q : Int) * (cfg.PAGE_SIZE : Int)) < 0) :
    (diskRead cfg (diskRead cfg (diskWrite cfg d p b) q (zeroPage cfg)).2 p (zeroPage cfg)).1
      = zeroPage cfg := by
  have hPle : P ≤ P * cfg.PAGE_SIZE := Nat.le_mul_of_pos_right _ hps
  have hw := WritePhysicalPage_eq63 cfg d.db_io_ P b hfail (by omega) (by omega)
  have hmax : max d.db_io_.size (P * cfg.PAGE_SIZE + cfg.PAGE_SIZE) < 2 ^ 31 :=
    Nat.max_lt.mpr ⟨hsize, hPr⟩
  have hfs : DiskManager.GetFileSize (DiskManager.WritePhysicalPage cfg d.db_io_ (P : Int) b)
      = ((max d.db_io_.size (P * cfg.PAGE_SIZE + cfg.PAGE_SIZE) : Nat) : Int) := by
    rewrite [hw]
    exact DiskManager.wrapInt32_of_lt _ hmax
  have hf2 : (DiskManager.WritePhysicalPage cfg d.db_io_ (P : Int) b).fail = false := by
    rewrite [hw]
    exact Eq.refl _
  have hr := DiskManager.ReadPhysicalPage_negative cfg
    (DiskManager.WritePhysicalPage cfg d.db_io_ (P : Int) b) (Q : Int)
    (by rewrite [hfs]; exact lt_of_lt_of_le hneg (Int.ofNat_nonneg _)) hf2 hneg
  have hr2 := ReadPhysicalPage_failed cfg
    { DiskManager.WritePhysicalPage cfg d.db_io_ (P : Int) b with fail := true } (P : Int)
    (Eq.refl _)
  rewrite [← hP, ← hQ] at hr
  rewrite [← hP] at hr2
  rewrite [diskWrite_eq cfg d p b hp]
  exact diskRead_twice cfg _ q p _ _ _ _ _ _ hq hp hr hr2

/-- A page written back and read again after the read of a page below the
2 GiB boundary that lies behind the end of the file: the bytes written come
back. -/
theorem kept_below_boundary (cfg : Config) (d : DiskManager) (b : List Nat) (p q : Int)
    (P Q : Nat) (hp : 0 ≤ p) (hq : 0 ≤ q)
    (hP : DiskManager.MapPageId cfg p = (P : Int)) (hQ : DiskManager.MapPageId cfg q = (Q : Int))
    (hfail : d.db_io_.fail = false) (hsize : d.db_io_.size < 2 ^ 31)
    (hps : 0 < cfg.PAGE_SIZE)
    (hPr : P * cfg.PAGE_SIZE + cfg.PAGE_SIZE < 2 ^ 31)
    (hQr : Q * cfg.PAGE_SIZE < 2 ^ 31)
    (hbeyond : max d.db_io_.size (P * cfg.PAGE_SIZE + cfg.PAGE_SIZE) ≤ Q * cfg.PAGE_SIZE)
    (hlen : b.length = cfg.PAGE_SIZE) :
    (diskRead cfg (diskRead cfg (diskWrite cfg d p b) q (zeroPage cfg)).2 p (zeroPage cfg)).1
      = b := by
  have hPle : P ≤ P * cfg.PAGE_SIZE := Nat.le_mul_of_pos_right _ hps
  have hw := WritePhysicalPage_eq63 cfg d.db_io_ P b hfail (by omega) (by omega)
  have hmax : max d.db_io_.size (P * cfg.PAGE_SIZE + cfg.PAGE_SIZE) < 2 ^ 31 :=
    Nat.max_lt.mpr ⟨hsize, hPr⟩
  have hfs : DiskManager.GetFileSize (DiskManager.WritePhysicalPage cfg d.db_io_ (P : Int) b)
      = ((max d.db_io_.size (P * cfg.PAGE_SIZE + cfg.PAGE_SIZE) : Nat) : Int) := by
    rewrite [hw]
    exact DiskManager.wrapInt32_of_lt _ hmax
  have hoff : wrapInt32 ((Q : Int) * (cfg.PAGE_SIZE : Int)) = ((Q * cfg.PAGE_SIZE : Nat) : Int) := by
    rewrite [← Nat.cast_mul]
    exact DiskManager.wrapInt32_of_lt _ hQr
  have hr := DiskManager.ReadPhysicalPage_beyond cfg
    (DiskManager.WritePhysicalPage cfg d.db_io_ (P : Int) b) (Q : Int)
    (by rewrite [hfs, hoff]; exact Int.ofNat_le.mpr hbeyond)
  have hr2 : DiskManager.ReadPhysicalPage cfg
      (DiskManager.WritePhysicalPage cfg d.db_io_ (P : Int) b) (P : Int)
      = (b, DiskManager.WritePhysicalPage cfg d.db_io_ (P : Int) b) :=
    Prod.ext
      (DiskManager.ReadPhysicalPage_WritePhysicalPage cfg d.db_io_ P b hfail hsize hPr hps hlen)
      (DiskManager.ReadPhysicalPage_WritePhysicalPage_stream cfg d.db_io_ P b hfail hsize hPr hps)
  rewrite [← hP, ← hQ] at hr
  rewrite [← hP] at hr2
  rewrite [diskWrite_eq cfg d p b hp]
  exact diskRead_twice cfg _ q p _ _ _ _ _ _ hq hp hr hr2

/-- A page behind the 2 GiB boundary written back and read again: the file is
then longer than 2 GiB, the read of a page in front (`GetFileSize` is negative)
delivers zeros without touching the stream, and the read of the page itself
meets a negative offset. -/
theorem lost_behind_boundary (cfg : Config) (d : DiskManager) (b : List Nat) (p q : Int)
    (P Q : Nat) (hp : 0 ≤ p) (hq : 0 ≤ q)
    (hP : DiskManager.MapPageId cfg p = (P : Int)) (hQ : DiskManager.MapPageId cfg q = (Q : Int))
    (hfail : d.db_io_.fail = false)
    (hPr : P * cfg.PAGE_SIZE < 2 ^ 63) (hP2 : P < 2 ^ 63)
    (hbeyond : wrapInt32 ((max d.db_io_.size (P * cfg.PAGE_SIZE + cfg.PAGE_SIZE) : Nat) : Int)
      ≤ wrapInt32 ((Q : Int) * (cfg.PAGE_SIZE : Int)))
    (hlt : wrapInt32 ((P : Int) * (cfg.PAGE_SIZE : Int))
      < wrapInt32 ((max d.db_io_.size (P * cfg.PAGE_SIZE + cfg.PAGE_SIZE) : Nat) : Int))
    (hneg : wrapInt32 ((P : Int) * (cfg.PAGE_SIZE : Int)) < 0) :
    (diskRead cfg (diskRead cfg (diskWrite cfg d p b) q (zeroPage cfg)).2 p (zeroPage cfg)).1
      = zeroPage cfg := by
  have hw := WritePhysicalPage_eq63 cfg d.db_io_ P b hfail hPr hP2
  have hfs : DiskManager.GetFileSize (DiskManager.WritePhysicalPage cfg d.db_io_ (P : Int) b)
      = wrapInt32 ((max d.db_io_.size (P * cfg.PAGE_SIZE + cfg.PAGE_SIZE) : Nat) : Int) := by
    rewrite [hw]
    exact Eq.refl _
  have hf2 : (DiskManager.WritePhysicalPage cfg d.db_io_ (P : Int) b).fail = false := by
    rewrite [hw]
    exact Eq.refl _
  have hr := DiskManager.ReadPhysicalPage_beyond cfg
    (DiskManager.WritePhysicalPage cfg d.db_io_ (P : Int) b) (Q : Int)
    (by rewrite [hfs]; exact hbeyond)
  have hr2 := DiskManager.ReadPhysicalPage_negative cfg
    (DiskManager.WritePhysicalPage cfg d.db_io_ (P : Int) b) (P : Int)
    (by rewrite [hfs]; exact hlt) hf2 hneg
  rewrite [← hP, ← hQ] at hr
  rewrite [← hP] at hr2
  rewrite [diskWrite_eq cfg d p b hp]
  exact diskRead_twice cfg _ q p _ _ _ _ _ _ hq hp hr hr2

end BufferPoolManager

namespace BufferPoolManager

theorem empty_first_page :
    (DiskManager.AllocatePage Config.default (DiskManager.openEmpty Config.default)).1 = 0 ∧
    (DiskManager.AllocatePage Config.default (DiskManager.openEmpty Config.default)).2.db_io_.fail
      = false ∧
    (DiskManager.AllocatePage Config.default (DiskManager.openEmpty Config.default)).2.db_io_.size
      ≤ 8192 := by
  obtain ⟨h1, h2⟩ := DiskManager.Filled_AllocatePage 0 _ (by omega) DiskManager.Filled_openEmpty
  obtain ⟨_, _, _, _, hfail, hsize, _⟩ := h2
  exact ⟨h1.trans Nat.cast_zero, hfail, hsize⟩

theorem full_next_page (d : DiskManager) (h : DiskManager.Filled 555968 d) :
    (DiskManager.AllocatePage Config.default d).1 = 555968 ∧
    (DiskManager.AllocatePage Config.default d).2.db_io_.fail = false ∧
    (DiskManager.AllocatePage Config.default d).2.db_io_.size = 2277322752 := by
  obtain ⟨hnum, hext, hlen, hused, hfail, hsize, hread⟩ := h
  have hA := DiskManager.AllocatePage_extent_17 d (by rw [hext])
    (fun e he => by rw [hused e (by omega)]; omega) hnum
  have hW := DiskManager.WritePhysicalPage_555986 d.db_io_
    (DiskManager.ofBitmap Config.default
      (BitmapPage.AllocatePage
        (DiskManager.toBitmap Config.default (zeroPage Config.default))).2) hfail (by omega)
  rewrite [hW] at hA
  rewrite [hA]
  exact ⟨Eq.refl _, Eq.refl _, Eq.refl _⟩

/-- The scenario on a database of 555968 pages, for every disk manager state
after the 555968 allocations. -/
theorem big_lost (d : DiskManager) (h : DiskManager.Filled 555968 d) (b : List Nat) :
    (evictionRun Config.default d b 0).1 = 555968 ∧
    (evictionRun Config.default d b 0).2.1 = some 0 ∧
    (page Config.default (evictionRun Config.default d b 0).2.2 0).data_
      = zeroPage Config.default := by
  obtain ⟨h1, h2, h3⟩ := full_next_page d h
  obtain ⟨e1, e2, e3⟩ := evictionRun_eq Config.default d b 555968 0 h1 (by decide) (by decide)
    (by decide)
  refine ⟨e1, e2, e3.trans ?_⟩
  exact lost_behind_boundary Config.default _ b 555968 0 555987 2 (by omega) (le_refl _)
    MapPageId_555968 MapPageId_0 h2
    (by rewrite [DiskManager.default_PAGE_SIZE]; norm_num) (by norm_num)
    (by rewrite [h3, DiskManager.default_PAGE_SIZE]; norm_num [wrapInt32])
    (by rewrite [h3, DiskManager.default_PAGE_SIZE]; norm_num [wrapInt32])
    (by rewrite [DiskManager.default_PAGE_SIZE]; norm_num [wrapInt32])

theorem MapPageId_default (q : Nat) (h : q < 1048542) :
    DiskManager.MapPageId Config.default (q : Int)
      = ((2 + q / 32704 * (1 + 32704) + q % 32704 : Nat) : Int) := by
  have := DiskManager.MapPageId_eq Config.default q
    (by rewrite [DiskManager.default_BITMAP_SIZE]; omega)
  rewrite [DiskManager.default_BITMAP_SIZE] at this
  exact this

/-- The scenario over an empty file with a page `q` between the 2 GiB and the
4 GiB byte offset fetched in between. -/
theorem small_lost (b : List Nat) (q : Nat) (h1 : 524270 ≤ q) (h2 : q < 1048542) :
    (evictionRun Config.default (DiskManager.openEmpty Config.default) b q).1 = 0 ∧
    (evictionRun Config.default (DiskManager.openEmpty Config.default) b q).2.1 = some 0 ∧
    (page Config.default
        (evictionRun Config.default (DiskManager.openEmpty Config.default) b q).2.2 0).data_
      = zeroPage Config.default := by
  obtain ⟨a1, a2, a3⟩ := empty_first_page
  obtain ⟨e1, e2, e3⟩ := evictionRun_eq Config.default (DiskManager.openEmpty Config.default) b
    0 q a1 (by decide) (by unfold INVALID_PAGE_ID; omega) (by omega)
  refine ⟨e1, e2, e3.trans ?_⟩
  have hQ := MapPageId_default q h2
  have hb1 : 524288 ≤ 2 + q / 32704 * (1 + 32704) + q % 32704 := by omega
  have hb2 : 2 + q / 32704 * (1 + 32704) + q % 32704 < 1048576 := by omega
  generalize 2 + q / 32704 * (1 + 32704) + q % 32704 = Q at hQ hb1 hb2
  exact lost_by_failed_stream Config.default _ b 0 q 2 Q (le_refl _) (by omega)
    MapPageId_0 hQ a2 (by omega)
    (by rewrite [DiskManager.default_PAGE_SIZE]; omega)
    (by rewrite [DiskManager.default_PAGE_SIZE]; omega)
    (by rewrite [DiskManager.default_PAGE_SIZE]; unfold wrapInt32; omega)

/-- The scenario over an empty file with a page `q` below the 2 GiB byte offset
fetched in between. -/
theorem small_kept (b : List Nat) (q : Nat) (h1 : 1 ≤ q) (h2 : q < 524270)
    (hlen : b.length = 4096) :
    (evictionRun Config.default (DiskManager.openEmpty Config.default) b q).1 = 0 ∧
    (evictionRun Config.default (DiskManager.openEmpty Config.default) b q).2.1 = some 0 ∧
    (page Config.default
        (evictionRun Config.default (DiskManager.openEmpty Config.default) b q).2.2 0).data_
      = b := by
  obtain ⟨a1, a2, a3⟩ := empty_first_page
  obtain ⟨e1, e2, e3⟩ := evictionRun_eq Config.default (DiskManager.openEmpty Config.default) b
    0 q a1 (by decide) (by unfold INVALID_PAGE_ID; omega) (by omega)
  refine ⟨e1, e2, e3.trans ?_⟩
  have hQ := MapPageId_default q (by omega)
  have hb1 : 3 ≤ 2 + q / 32704 * (1 + 32704) + q % 32704 := by omega
  have hb2 : 2 + q / 32704 * (1 + 32704) + q % 32704 < 524288 := by omega
  generalize 2 + q / 32704 * (1 + 32704) + q % 32704 = Q at hQ hb1 hb2
  have hm : max (DiskManager.AllocatePage Config.default
      (DiskManager.openEmpty Config.default)).2.db_io_.size
      (2 * Config.default.PAGE_SIZE + Config.default.PAGE_SIZE) ≤ Q * Config.default.PAGE_SIZE := by
    rewrite [DiskManager.default_PAGE_SIZE]
    exact Nat.max_le.mpr ⟨by omega, by omega⟩
  exact kept_below_boundary Config.default _ b 0 q 2 Q (le_refl _) (by omega)
    MapPageId_0 hQ a2 (by omega)
    (by rewrite [DiskManager.default_PAGE_SIZE]; omega)
    (by rewrite [DiskManager.default_PAGE_SIZE]; omega)
    (by rewrite [DiskManager.default_PAGE_SIZE]; omega)
    hm
    (by rewrite [DiskManager.default_PAGE_SIZE]; exact hlen)

/-- C36. A page does not always survive its eviction.  On a pool of one frame
with 4 KiB pages: `NewPage` returns page `p`, the holder writes any bytes `b`
into the frame and unpins it dirty, `FetchPage(q)` evicts `p` (writing it
back), `q` is unpinned, and `FetchPage(p)` succeeds.
(a) Over an empty file (`p = 0`) and for every `q` from 524270 up to 1048541,
the pages whose byte offset lies between 2 GiB and 4 GiB: the frame returned
holds zeros, whatever `b` is.  The read of page `q` computes the byte offset as
an `int`, which is negative; the seek fails and leaves the fail bit of the
stream set, so the later read of page 0 delivers nothing.
(b) Over a file on which 555968 pages have been allocated (`p = 555968`) with
`q = 0`: the frame returned holds zeros.  The write-back makes the file longer
than 2 GiB and the `int` offset of page 555968 is negative.
(c) Over an empty file, for every `q` from 1 up to 524269 and `b` of page size:
the frame returned holds `b`. -/
theorem page_lost_after_eviction (b : List Nat) :
    (∀ q : Nat, 524270 ≤ q → q < 1048542 →
      (evictionRun Config.default (DiskManager.openEmpty Config.default) b q).1 = 0 ∧
      (evictionRun Config.default (DiskManager.openEmpty Config.default) b q).2.1 = some 0 ∧
      (page Config.default
          (evictionRun Config.default (DiskManager.openEmpty Config.default) b q).2.2 0).data_
        = zeroPage Config.default) ∧
    ((evictionRun Config.default
          (DiskManager.run Config.default (DiskManager.openEmpty Config.default)
            (List.replicate 555968 .allocate)).2 b 0).1 = 555968 ∧
      (evictionRun Config.default
          (DiskManager.run Config.default (DiskManager.openEmpty Config.default)
            (List.replicate 555968 .allocate)).2 b 0).2.1 = some 0 ∧
      (page Config.default
          (evictionRun Config.default
            (DiskManager.run Config.default (DiskManager.openEmpty Config.default)
              (List.replicate 555968 .allocate)).2 b 0).2.2 0).data_
        = zeroPage Config.default) ∧
    (∀ q : Nat, 1 ≤ q → q < 524270 → b.length = 4096 →
      (evictionRun Config.default (DiskManager.openEmpty Config.default) b q).1 = 0 ∧
      (evictionRun Config.default (DiskManager.openEmpty Config.default) b q).2.1 = some 0 ∧
      (page Config.default
          (evictionRun Config.default (DiskManager.openEmpty Config.default) b q).2.2 0).data_
        = b) := by
  refine ⟨fun q h1 h2 => small_lost b q h1 h2, ?_, fun q h1 h2 hlen => small_kept b q h1 h2 hlen⟩
  have hF := (DiskManager.Filled_run 555968 (le_refl _)).2
  generalize (DiskManager.run Config.default (DiskManager.openEmpty Config.default)
    (List.replicate 555968 .allocate)).2 = d at hF ⊢
  exact big_lost d hF b

/-- Instance of `page_lost_after_eviction` for a page of 4096 bytes of value 7:
with page 6000 fetched in between the page comes back, with page 600000 fetched
in between it comes back as zeros. -/
theorem page_lost_after_eviction_witness :
    (page Config.default
        (evictionRun Config.default (DiskManager.openEmpty Config.default)
          (List.replicate 4096 7) (6000 : Nat)).2.2 0).data_ = List.replicate 4096 7 ∧
    (page Config.default
        (evictionRun Config.default (DiskManager.openEmpty Config.default)
          (List.replicate 4096 7) (600000 : Nat)).2.2 0).data_ = zeroPage Config.default :=
  ⟨((page_lost_after_eviction (List.replicate 4096 7)).2.2 6000 (by decide) (by decide)
      (List.length_replicate _ _)).2.2,
    ((page_lost_after_eviction (List.replicate 4096 7)).1 600000 (by decide) (by decide)).2.2⟩

end BufferPoolManager

namespace BufferPoolManager

/-- A fetch of the page that the single frame of a pool holds. -/
theorem FetchPage_resident_one_frame (cfg : Config) (d : DiskManager) (p : Int) (x : List Nat)
    (n : Int) (dirty : Bool) (hp : p ≠ INVALID_PAGE_ID) :
    FetchPage cfg ⟨1, [⟨x, p, n, dirty⟩], [(p, 0)], [], ⟨[], []⟩, d⟩ p
      = (some 0, ⟨1, [⟨x, p, wrapInt32 (n + 1), dirty⟩], [(p, 0)], [], ⟨[], []⟩, d⟩) := by
  have hf : UMap.find [((p : Int), (0 : Int))] p = some 0 := by
    simp only [UMap.find, if_true]
  rw [FetchPage_hit cfg _ p 0 hp hf]
  rfl

/-- The first fetch on a fresh pool of one frame. -/
theorem FetchPage_new_one_frame (cfg : Config) (d : DiskManager) (p : Int)
    (hp : p ≠ INVALID_PAGE_ID) :
    FetchPage cfg (BufferPoolManager.new cfg 1 d) p
      = (some 0,
          ⟨1, [⟨(diskRead cfg d p (zeroPage cfg)).1, p, 1, false⟩], [(p, 0)], [], ⟨[], []⟩,
            (diskRead cfg d p (zeroPage cfg)).2⟩) := by
  have ht : TryToFindFreePage cfg (BufferPoolManager.new cfg 1 d)
      = (0, ⟨1, [emptyPage cfg], [], [], ⟨[], []⟩, d⟩) := rfl
  have hf : UMap.find (BufferPoolManager.new cfg 1 d).page_table_ p = none := rfl
  rw [FetchPage_miss cfg _ p hp hf, ht]
  have h0 : ¬ ((0 : Int) = INVALID_FRAME_ID) := by decide
  rw [if_neg h0]
  rfl

/-- Fetches of the resident page of a one-frame pool raise its pin count by one
each, as long as the count stays below 2^31. -/
theorem run_fetch_resident (cfg : Config) (d : DiskManager) (p : Int) (x : List Nat)
    (dirty : Bool) (hp : p ≠ INVALID_PAGE_ID) :
    ∀ (k : Nat) (n : Int), 0 ≤ n → n + k < 2 ^ 31 →
      run cfg ⟨1, [⟨x, p, n, dirty⟩], [(p, 0)], [], ⟨[], []⟩, d⟩ (List.replicate k (.fetch p))
        = ⟨1, [⟨x, p, n + k, dirty⟩], [(p, 0)], [], ⟨[], []⟩, d⟩ := by
  intro k
  induction k with
  | zero =>
    intro n _ _
    simp only [List.replicate_zero, run, List.foldl_nil, Nat.cast_zero, add_zero]
  | succ k ih =>
    intro n h0 h1
    have hw : wrapInt32 (n + 1) = n + 1 := by
      unfold wrapInt32
      push_cast at h1
      omega
    have hs : step cfg ⟨1, [⟨x, p, n, dirty⟩], [(p, 0)], [], ⟨[], []⟩, d⟩ (.fetch p)
        = ⟨1, [⟨x, p, n + 1, dirty⟩], [(p, 0)], [], ⟨[], []⟩, d⟩ := by
      show (FetchPage cfg _ p).2 = _
      rw [FetchPage_resident_one_frame cfg d p x n dirty hp, hw]
    have e := ih (n + 1) (by omega) (by push_cast at h1 ⊢; omega)
    rw [List.replicate_succ]
    show run cfg (step cfg _ (.fetch p)) (List.replicate k (.fetch p)) = _
    rw [hs, e]
    have : n + 1 + (k : Int) = n + ((k + 1 : Nat) : Int) := by push_cast; omega
    rw [this]

/-- After `k + 2` fetches of a page on a fresh pool of one frame, with
`k + 2 = 2^31`, the pin count of the frame has wrapped to `INT_MIN`. -/
theorem run_fetch_wraps (cfg : Config) (d : DiskManager) (p : Int) (hp : p ≠ INVALID_PAGE_ID)
    (k : Nat) (hk : k = 2147483646) :
    run cfg (BufferPoolManager.new cfg 1 d) (List.replicate (k + 2) (.fetch p))
      = ⟨1, [⟨(diskRead cfg d p (zeroPage cfg)).1, p, -2147483648, false⟩], [(p, 0)], [],
          ⟨[], []⟩, (diskRead cfg d p (zeroPage cfg)).2⟩ := by
  have e1 : List.replicate (k + 2) (Op.fetch p)
      = Op.fetch p :: (List.replicate k (Op.fetch p) ++ [Op.fetch p]) := by
    rw [List.replicate_succ, List.replicate_succ']
  rw [e1]
  show run cfg (step cfg _ (.fetch p)) _ = _
  have hs : step cfg (BufferPoolManager.new cfg 1 d) (.fetch p)
      = ⟨1, [⟨(diskRead cfg d p (zeroPage cfg)).1, p, 1, false⟩], [(p, 0)], [], ⟨[], []⟩,
          (diskRead cfg d p (zeroPage cfg)).2⟩ := by
    show (FetchPage cfg _ p).2 = _
    rw [FetchPage_new_one_frame cfg d p hp]
  rw [hs]
  unfold run
  rw [List.foldl_append]
  have e2 := run_fetch_resident cfg (diskRead cfg d p (zeroPage cfg)).2 p
    (diskRead cfg d p (zeroPage cfg)).1 false hp k 1 (by omega) (by subst hk; norm_num)
  unfold run at e2
  rw [e2]
  show (FetchPage cfg _ p).2 = _
  rw [FetchPage_resident_one_frame cfg _ p _ _ false hp]
  have hw : wrapInt32 ((1 : Int) + (k : Int) + 1) = -2147483648 := by
    subst hk
    norm_num [wrapInt32]
  rw [hw]

/-- C1 as stated fails, in two ways.  (1) On a pool of two frames over an empty
database file, `FetchPage(0)` followed by `NewPage()` leaves both frames
holding page id 0 (the disk manager hands out page id 0, which is resident
since the fetch), so frame 0 holds page 0 although `page_table_[0]` is frame 1.
(2) On a pool of one frame, 2^31 calls of `FetchPage(0)` (the page is never
unpinned) let the `int` pin count wrap to `INT_MIN`: the frame is neither in
the free list nor in the replacer, and its pin count is not positive. -/
theorem pool_consistency_counterexample :
    ¬ Consistent Config.default
      (run Config.default (new Config.default 2 (DiskManager.openEmpty Config.default))
        [.fetch 0, .newPage]) ∧
    ¬ Consistent Config.default
      (run Config.default (new Config.default 1 (DiskManager.openEmpty Config.default))
        (List.replicate 2147483648 (.fetch 0))) := by
  constructor
  · intro h
    have h1 := (h.2.1 0 0 (by decide)).1 ⟨by decide, by decide!, by decide!⟩
    have h2 : UMap.find (run Config.default
        (new Config.default 2 (DiskManager.openEmpty Config.default))
        [.fetch 0, .newPage]).page_table_ 0 = some 1 := by decide!
    rw [h2] at h1
    exact absurd h1 (by decide)
  · intro h
    have e := run_fetch_wraps Config.default (DiskManager.openEmpty Config.default) 0
      (by decide) 2147483646 rfl
    have e' : run Config.default (new Config.default 1 (DiskManager.openEmpty Config.default))
        (List.replicate 2147483648 (.fetch 0)) = _ := e
    rw [e'] at h
    generalize (diskRead Config.default (DiskManager.openEmpty Config.default) 0
      (zeroPage Config.default)).1 = x at h
    generalize (diskRead Config.default (DiskManager.openEmpty Config.default) 0
      (zeroPage Config.default)).2 = d at h
    have hlt : (0 : Int) < ((1 : Nat) : Int) := by decide
    rcases (h.2.2 0 (le_refl _) hlt).1 with h1 | h1 | h1
    · cases h1
    · cases h1
    · have h2 : (-2147483648 : Int) > 0 := h1
      omega

end BufferPoolManager

namespace DiskManager

/-- A read whose `int` offset is negative delivers a zero page, whatever the
file holds. -/
theorem ReadPhysicalPage_zero_of_negative (cfg : Config) (file : DbFile) (p : page_id_t)
    (h : wrapInt32 (p * cfg.PAGE_SIZE) < 0) :
    (ReadPhysicalPage cfg file p).1 = zeroPage cfg := by
  unfold ReadPhysicalPage
  simp only [h, if_true]
  split
  · rfl
  · split <;> rfl

/-- A read never changes the bytes or the length of the file. -/
theorem ReadPhysicalPage_file (cfg : Config) (file : DbFile) (p : page_id_t) :
    (ReadPhysicalPage cfg file p).2.data = file.data ∧
    (ReadPhysicalPage cfg file p).2.size = file.size := by
  unfold ReadPhysicalPage
  simp only []
  split
  · exact ⟨rfl, rfl⟩
  · split
    · exact ⟨rfl, rfl⟩
    · split <;> exact ⟨rfl, rfl⟩

/-- A read of a page that lies inside a file shorter than 2 GiB, on a healthy
stream, delivers the bytes of the file. -/
theorem ReadPhysicalPage_inside (cfg : Config) (file : DbFile) (P : Nat)
    (hfail : file.fail = false) (hsize : file.size < 2 ^ 31)
    (hin : P * cfg.PAGE_SIZE + cfg.PAGE_SIZE ≤ file.size) (hps : 0 < cfg.PAGE_SIZE) :
    (ReadPhysicalPage cfg file (P : Int)).1
      = (List.range cfg.PAGE_SIZE).map (fun i => file.data (P * cfg.PAGE_SIZE + i)) := by
  have hoff : wrapInt32 ((P : Int) * (cfg.PAGE_SIZE : Int)) = ((P * cfg.PAGE_SIZE : Nat) : Int) := by
    rw [← Nat.cast_mul]
    exact wrapInt32_of_lt _ (by omega)
  have hfs : GetFileSize file = ((file.size : Nat) : Int) := by
    unfold GetFileSize
    exact wrapInt32_of_lt _ hsize
  have hge : ¬ ((P * cfg.PAGE_SIZE : Nat) : Int) ≥ ((file.size : Nat) : Int) := by omega
  have hneg : ¬ ((P * cfg.PAGE_SIZE : Nat) : Int) < 0 := by omega
  have hcount : min cfg.PAGE_SIZE (file.size - P * cfg.PAGE_SIZE) = cfg.PAGE_SIZE := by omega
  simp only [ReadPhysicalPage, hoff, hfs, hge, if_false, hfail, Bool.false_eq_true, hneg,
    Int.toNat_ofNat, hcount]
  apply List.map_congr_left
  intro i hi
  have hi' : i < cfg.PAGE_SIZE := List.mem_range.1 hi
  simp only [hi', if_true]

end DiskManager

namespace BufferPoolManager

/-- On a miss with a frame at hand, `FetchPage` returns a frame that holds what
`ReadPhysicalPage` delivers for the physical page of the page id, on the disk
manager as `TryToFindFreePage` left it. -/
theorem FetchPage_miss_data (cfg : Config) (s : BufferPoolManager) (hs : Inv cfg s none)
    (p : Int) (hp : 0 ≤ p) (hfind : UMap.find s.page_table_ p = none)
    (havail : ¬ (s.free_list_ = [] ∧ LRUReplacer.frames s.replacer_ = [])) :
    ∃ f, (FetchPage cfg s p).1 = some f ∧
      (page cfg (FetchPage cfg s p).2 f).data_
        = (DiskManager.ReadPhysicalPage cfg (TryToFindFreePage cfg s).2.disk_manager_.db_io_
            (DiskManager.MapPageId cfg p)).1 := by
  have hne : p ≠ INVALID_PAGE_ID := by unfold INVALID_PAGE_ID; omega
  obtain ⟨hiff, _, hsome⟩ := (FetchPage_contract cfg s hs p hne).2 hfind
  cases h : (FetchPage cfg s p).1 with
  | none => exact absurd (hiff.1 h) havail
  | some f =>
    refine ⟨f, rfl, ?_⟩
    have hR := (hsome f h).2.2.2.2.2.2 hp
    have h3 := (ReadPage_of_nonneg cfg (TryToFindFreePage cfg s).2.disk_manager_ p hp).symm.trans hR
    exact (Prod.mk.inj (Option.some.inj h3)).1.symm

/-- The bytes that `WritePage` puts into an empty file are the content of the
page in the file. -/
theorem pageOnDisk_diskWrite (b : List Nat) (q : Nat) (h : q < 1048542)
    (hlen : b.length = 4096) :
    DiskManager.pageOnDisk Config.default
      (diskWrite Config.default (DiskManager.openEmpty Config.default) (q : Int) b) (q : Int)
      = b := by
  have hQ := MapPageId_default q h
  have hb2 : 2 + q / 32704 * (1 + 32704) + q % 32704 < 1048576 := by omega
  generalize 2 + q / 32704 * (1 + 32704) + q % 32704 = Q at hQ hb2
  rewrite [diskWrite_eq Config.default _ (q : Int) b (by omega)]
  unfold DiskManager.pageOnDisk
  rewrite [hQ]
  have hw := WritePhysicalPage_eq63 Config.default (DiskManager.openEmpty Config.default).db_io_ Q b
    rfl (by rewrite [DiskManager.default_PAGE_SIZE]; omega) (by omega)
  simp only [hw, Int.toNat_ofNat]
  have e := DiskManager.range_map_getD b Config.default.PAGE_SIZE hlen
  refine Eq.trans (List.map_congr_left ?_) e
  intro i hi
  have hi' : i < Config.default.PAGE_SIZE := List.mem_range.1 hi
  rw [if_pos ⟨by omega, by omega⟩, Nat.add_sub_cancel_left]

/-- C13 (failing input).  With 4 KiB pages, on every state of the pool that
satisfies the representation invariant, for a page `p` that is not resident
while a frame is at hand (free list not empty, or a victim in the replacer):
`FetchPage(p)` returns a frame, and
(a) if `p` lies between 524270 and 1048541 (byte offset of the page between
2 GiB and 4 GiB) the frame holds `PAGE_SIZE` zero bytes, whatever the file
holds at the page: `ReadPhysicalPage` computes the offset as an `int`, which is
negative there;
(b) if `p` is below 524270, the stream is healthy and the page lies inside a
file shorter than 2 GiB (the state of the disk manager being the one after the
write-back of the victim, if any), the frame holds the content of the page in
the file;
(c) the content of such a page in the file need not be zero: after
`WritePage(p, b)` on an empty file, the content of page `p` in the file is
`b`. -/
theorem FetchPage_reads_zeros (s : BufferPoolManager) (hs : Inv Config.default s none)
    (p : Nat) (hfind : UMap.find s.page_table_ (p : Int) = none)
    (havail : ¬ (s.free_list_ = [] ∧ LRUReplacer.frames s.replacer_ = [])) :
    (∃ f, (FetchPage Config.default s (p : Int)).1 = some f ∧
      (524270 ≤ p → p < 1048542 →
        (page Config.default (FetchPage Config.default s (p : Int)).2 f).data_
          = zeroPage Config.default) ∧
      (p < 524270 →
        (TryToFindFreePage Config.default s).2.disk_manager_.db_io_.fail = false →
        (TryToFindFreePage Config.default s).2.disk_manager_.db_io_.size < 2 ^ 31 →
        (DiskManager.MapPageId Config.default (p : Int)).toNat * 4096 + 4096
          ≤ (TryToFindFreePage Config.default s).2.disk_manager_.db_io_.size →
        (page Config.default (FetchPage Config.default s (p : Int)).2 f).data_
          = DiskManager.pageOnDisk Config.default
              (TryToFindFreePage Config.default s).2.disk_manager_ (p : Int))) ∧
    (∀ b : List Nat, b.length = 4096 → p < 1048542 →
      DiskManager.pageOnDisk Config.default
        (diskWrite Config.default (DiskManager.openEmpty Config.default) (p : Int) b) (p : Int)
        = b) := by
  refine ⟨?_, fun b hlen h => pageOnDisk_diskWrite b p h hlen⟩
  obtain ⟨f, hf, hdata⟩ := FetchPage_miss_data Config.default s hs (p : Int) (by omega) hfind havail
  refine ⟨f, hf, ?_, ?_⟩
  · intro h1 h2
    rewrite [hdata]
    have hQ := MapPageId_default p h2
    have hb1 : 524288 ≤ 2 + p / 32704 * (1 + 32704) + p % 32704 := by omega
    have hb2 : 2 + p / 32704 * (1 + 32704) + p % 32704 < 1048576 := by omega
    generalize 2 + p / 32704 * (1 + 32704) + p % 32704 = Q at hQ hb1 hb2
    rewrite [hQ]
    exact DiskManager.ReadPhysicalPage_zero_of_negative Config.default _ (Q : Int)
      (by rewrite [DiskManager.default_PAGE_SIZE]; unfold wrapInt32; omega)
  · intro h1 hfail hsize hin
    rewrite [hdata]
    unfold DiskManager.pageOnDisk
    have hQ := MapPageId_default p (by omega)
    generalize 2 + p / 32704 * (1 + 32704) + p % 32704 = Q at hQ
    rewrite [hQ] at hin ⊢
    simp only [Int.toNat_ofNat] at hin ⊢
    exact DiskManager.ReadPhysicalPage_inside Config.default _ Q hfail hsize
      (by rewrite [DiskManager.default_PAGE_SIZE]; exact hin)
      (by rewrite [DiskManager.default_PAGE_SIZE]; omega)

end BufferPoolManager

namespace BufferPoolManager

/-- The file after `WritePage(q, b)` on an empty file. -/
theorem diskWrite_openEmpty (b : List Nat) (q : Int) (Q : Nat) (hq : 0 ≤ q)
    (hQ : DiskManager.MapPageId Config.default q = (Q : Int)) (h : Q < 2 ^ 40) :
    (diskWrite Config.default (DiskManager.openEmpty Config.default) q b).db_io_
      = { size := max 0 (Q * 4096 + 4096),
          data := fun i =>
            if Q * 4096 ≤ i ∧ i < Q * 4096 + 4096 then b.getD (i - Q * 4096) 0 else 0,
          fail := false } := by
  rewrite [diskWrite_eq Config.default _ q b hq, hQ]
  exact WritePhysicalPage_eq63 Config.default (DiskManager.openEmpty Config.default).db_io_ Q b
    rfl (by rewrite [DiskManager.default_PAGE_SIZE]; omega) (by omega)

/-- Instance of `FetchPage_reads_zeros` for a page of 4096 bytes of value 7 and
a fresh pool of one frame.  Written to page 600000 of an empty file, the page
is in the file, and `FetchPage(600000)` returns a frame of zeros; written to
page 6000, `FetchPage(6000)` returns a frame holding it. -/
theorem FetchPage_reads_zeros_witness :
    (DiskManager.pageOnDisk Config.default
        (diskWrite Config.default (DiskManager.openEmpty Config.default) ((600000 : Nat) : Int)
          (List.replicate 4096 7)) ((600000 : Nat) : Int) = List.replicate 4096 7 ∧
      ∃ f,
        (FetchPage Config.default
          (BufferPoolManager.new Config.default 1
            (diskWrite Config.default (DiskManager.openEmpty Config.default)
              ((600000 : Nat) : Int) (List.replicate 4096 7)))
          ((600000 : Nat) : Int)).1 = some f ∧
        (page Config.default
          (FetchPage Config.default
            (BufferPoolManager.new Config.default 1
              (diskWrite Config.default (DiskManager.openEmpty Config.default)
                ((600000 : Nat) : Int) (List.replicate 4096 7)))
            ((600000 : Nat) : Int)).2 f).data_ = zeroPage Config.default) ∧
    ∃ f,
      (FetchPage Config.default
        (BufferPoolManager.new Config.default 1
          (diskWrite Config.default (DiskManager.openEmpty Config.default)
            ((6000 : Nat) : Int) (List.replicate 4096 7)))
        ((6000 : Nat) : Int)).1 = some f ∧
      (page Config.default
        (FetchPage Config.default
          (BufferPoolManager.new Config.default 1
            (diskWrite Config.default (DiskManager.openEmpty Config.default)
              ((6000 : Nat) : Int) (List.replicate 4096 7)))
          ((6000 : Nat) : Int)).2 f).data_ = List.replicate 4096 7 := by
  have h1 := FetchPage_reads_zeros
    (BufferPoolManager.new Config.default 1
      (diskWrite Config.default (DiskManager.openEmpty Config.default)
        ((600000 : Nat) : Int) (List.replicate 4096 7)))
    (Inv_new_pool Config.default 1 _) 600000 rfl (fun h => absurd h.1 (by decide))
  have h2 := FetchPage_reads_zeros
    (BufferPoolManager.new Config.default 1
      (diskWrite Config.default (DiskManager.openEmpty Config.default)
        ((6000 : Nat) : Int) (List.replicate 4096 7)))
    (Inv_new_pool Config.default 1 _) 6000 rfl (fun h => absurd h.1 (by decide))
  obtain ⟨⟨f1, hf1, hz, _⟩, hc1⟩ := h1
  obtain ⟨⟨f2, hf2, _, hk⟩, hc2⟩ := h2
  refine ⟨⟨hc1 _ (List.length_replicate _ _) (by decide), f1, hf1, hz (by decide) (by decide)⟩,
    f2, hf2, ?_⟩
  have hfile := diskWrite_openEmpty (List.replicate 4096 7) ((6000 : Nat) : Int) 6002 (by decide)
    MapPageId_6000 (by decide)
  have ht : (TryToFindFreePage Config.default
      (BufferPoolManager.new Config.default 1
        (diskWrite Config.default (DiskManager.openEmpty Config.default)
          ((6000 : Nat) : Int) (List.replicate 4096 7)))).2.disk_manager_
      = diskWrite Config.default (DiskManager.openEmpty Config.default)
          ((6000 : Nat) : Int) (List.replicate 4096 7) := rfl
  rewrite [ht] at hk
  have hM : DiskManager.MapPageId Config.default ((6000 : Nat) : Int) = ((6002 : Nat) : Int) :=
    MapPageId_6000
  have e := hk (by decide) (by rewrite [hfile]; exact Eq.refl _)
    (by rewrite [hfile]; decide)
    (by rewrite [hfile, hM]; decide)
  rewrite [hc2 _ (List.length_replicate _ _) (by decide)] at e
  exact e

end BufferPoolManager

namespace DiskManager

/-- A read whose `int` offset is negative delivers a zero page and leaves the
bytes and the length of the file as they are. -/
theorem ReadPhysicalPage_of_negative (cfg : Config) (file : DbFile) (p : page_id_t)
    (h : wrapInt32 (p * cfg.PAGE_SIZE) < 0) :
    ∃ F : DbFile, ReadPhysicalPage cfg file p = (zeroPage cfg, F) ∧ F.data = file.data ∧
      F.size = file.size := by
  unfold ReadPhysicalPage
  simp only [h, if_true]
  split
  · exact ⟨file, rfl, rfl, rfl⟩
  · split
    · exact ⟨file, rfl, rfl, rfl⟩
    · exact ⟨{ file with fail := true }, rfl, rfl, rfl⟩

/-- On a zero bitmap page `DeAllocatePage` returns `false`. -/
theorem zero_bitmap_DeAllocatePage (o : Nat) :
    (BitmapPage.DeAllocatePage (toBitmap Config.default (zeroPage Config.default)) o).1
      = false := by
  rw [toBitmap_zeroPage]
  unfold BitmapPage.DeAllocatePage
  split
  · rfl
  · have hfree : BitmapPage.IsPageFree (BitmapPage.zero Config.default.PAGE_SIZE) o = true := by
      have hb : (List.replicate (BitmapPage.MAX_CHARS Config.default.PAGE_SIZE) 0).getD (o / 8) 0
          = 0 := by
        rw [List.getD_eq_getElem?_getD, List.getElem?_replicate]
        split <;> rfl
      have h8 : ¬ o % 8 ≥ 8 := by omega
      simp only [BitmapPage.IsPageFree, BitmapPage.IsPageFreeLow, BitmapPage.zero, hb, h8, if_false,
        Nat.zero_and, decide_True]
      split
      · omega
      · rfl
    rw [if_pos hfree]

/-- `DeAllocatePage` when the bitmap page of the extent is read as `page` and
the bitmap refuses: only the stream changes. -/
theorem DeAllocatePage_of_read (cfg : Config) (d : DiskManager) (p : Int) (page : List Nat)
    (F : DbFile) (hp : 0 ≤ p)
    (hlt : ¬ u32 (p.toNat / cfg.BITMAP_SIZE) ≥ d.meta_data_.num_extents_)
    (hr : ReadPhysicalPage cfg d.db_io_
      (bitmapPhysicalPageId cfg (u32 (p.toNat / cfg.BITMAP_SIZE))) = (page, F))
    (hb : (BitmapPage.DeAllocatePage (toBitmap cfg page) (u32 (p.toNat % cfg.BITMAP_SIZE))).1
      = false) :
    DeAllocatePage cfg d p = { d with db_io_ := F } := by
  have h0 : ¬ p < 0 := by omega
  unfold DeAllocatePage
  simp only [h0, if_false, hlt]
  rewrite [hr]
  revert hb
  cases BitmapPage.DeAllocatePage (toBitmap cfg page) (u32 (p.toNat % cfg.BITMAP_SIZE)) with
  | mk fl bm =>
    intro hb
    simp only at hb
    subst hb
    rfl

/-- With 4 KiB pages, `DeAllocatePage` of a page in one of the extents 17 to 32
(the bitmap page of these lies between the byte offsets 2 GiB and 4 GiB)
changes neither the counters nor a byte of the file. -/
theorem DeAllocatePage_unreadable (d : DiskManager) (p : Nat) (h1 : 555968 ≤ p)
    (h2 : p < 1079232) :
    (DeAllocatePage Config.default d (p : Int)).meta_data_ = d.meta_data_ ∧
    (DeAllocatePage Config.default d (p : Int)).db_io_.data = d.db_io_.data ∧
    (DeAllocatePage Config.default d (p : Int)).db_io_.size = d.db_io_.size := by
  by_cases hlt : u32 (((p : Int)).toNat / Config.default.BITMAP_SIZE) ≥ d.meta_data_.num_extents_
  · have h0 : ¬ (p : Int) < 0 := by omega
    have e : DeAllocatePage Config.default d (p : Int) = d := by
      unfold DeAllocatePage
      simp only [h0, if_false, hlt, if_true]
    rw [e]
    exact ⟨rfl, rfl, rfl⟩
  · have he : u32 (((p : Int)).toNat / Config.default.BITMAP_SIZE) = p / 32704 := by
      rw [default_BITMAP_SIZE, Int.toNat_ofNat]
      unfold u32
      omega
    have hid : bitmapPhysicalPageId Config.default (p / 32704)
        = ((1 + p / 32704 * 32705 : Nat) : Int) := by
      simp only [bitmapPhysicalPageId, default_BITMAP_SIZE]
      exact wrapInt32_of_lt _ (by omega)
    have hneg : wrapInt32 (((1 + p / 32704 * 32705 : Nat) : Int) * (Config.default.PAGE_SIZE : Int))
        < 0 := by
      have hb1 : 524288 ≤ 1 + p / 32704 * 32705 := by omega
      have hb2 : 1 + p / 32704 * 32705 < 1048576 := by omega
      generalize 1 + p / 32704 * 32705 = Q at hb1 hb2
      rewrite [default_PAGE_SIZE]
      unfold wrapInt32
      omega
    obtain ⟨F, hr, hdata, hsize⟩ :=
      ReadPhysicalPage_of_negative Config.default d.db_io_ _ hneg
    rewrite [← hid, ← he] at hr
    rw [DeAllocatePage_of_read Config.default d (p : Int) _ F (by omega) hlt hr
      (zero_bitmap_DeAllocatePage _)]
    exact ⟨rfl, hdata, hsize⟩

/-- The state after one more `AllocatePage` on the state after 555968 calls on
an empty file: page 555968 is counted, extent 17 holds one page, and the bitmap
page of extent 17 in the file has its first offset allocated. -/
theorem one_more_allocation (s : DiskManager) (hF : Filled 555968 s) :
    (AllocatePage Config.default s).1 = 555968 ∧
    (AllocatePage Config.default s).2.meta_data_.num_allocated_pages_ = 555969 ∧
    (AllocatePage Config.default s).2.meta_data_.num_extents_ = 18 ∧
    (AllocatePage Config.default s).2.meta_data_.extent_used_page_.getD 17 0 = 1 ∧
    (bitmapOnDisk Config.default (AllocatePage Config.default s).2 17).page_allocated_ = 1 ∧
    BitmapPage.bit (bitmapOnDisk Config.default (AllocatePage Config.default s).2 17) 0
      = true := by
  obtain ⟨hnum, hext, hlen, hused, hfail, hsize, _⟩ := hF
  have h17 : (555968 + 32703) / 32704 = 17 := by norm_num
  rw [h17] at hext hused hsize
  have hfull : ∀ e, e < 17 → s.meta_data_.extent_used_page_.getD e 0 = 32704 := by
    intro e he
    rw [hused e he]
    omega
  have hsize' : s.db_io_.size ≤ 2277322752 := by omega
  rw [AllocatePage_extent_17 s hext hfull hnum, WritePhysicalPage_555986 _ _ hfail hsize']
  have hsz : BitmapPage.GetMaxSupportedSize Config.default.PAGE_SIZE < 2 ^ 32 := by
    rw [default_Max]; omega
  have hP := (BitmapPage.AllocatePage_PrefixFull hsz _ 0
    (BitmapPage.PrefixFull_zero Config.default.PAGE_SIZE) (by rw [default_Max]; omega)).2
  rw [← toBitmap_zeroPage] at hP
  obtain ⟨hblen, hbcount, hbnext, hbits⟩ := hP
  have hbuf : (ofBitmap Config.default (BitmapPage.AllocatePage
      (toBitmap Config.default (zeroPage Config.default))).2).length
      = Config.default.PAGE_SIZE :=
    ofBitmap_length Config.default _ hblen (by decide)
  have hback := toBitmap_ofBitmap Config.default _ hblen (by rw [hbcount]; omega)
    (by rw [hbnext]; omega)
  have hbit := hbits 0 (by rw [default_Max]; omega)
  generalize (BitmapPage.AllocatePage (toBitmap Config.default (zeroPage Config.default))).2
    = bm at hbuf hback hbcount hbit ⊢
  have hmap : (List.range Config.default.PAGE_SIZE).map
      (fun i => (fun j : Nat => if 2277318656 ≤ j ∧ j < 2277318656 + 4096 then
          (ofBitmap Config.default bm).getD (j - 2277318656) 0 else s.db_io_.data j)
        ((1 + 17 * (1 + Config.default.BITMAP_SIZE)) * Config.default.PAGE_SIZE + i))
      = ofBitmap Config.default bm := by
    have e : (List.range Config.default.PAGE_SIZE).map
        (fun i => (ofBitmap Config.default bm).getD i 0) = ofBitmap Config.default bm :=
      range_map_getD _ _ hbuf
    refine Eq.trans (List.map_congr_left ?_) e
    intro i hi
    have hi' : i < 4096 := List.mem_range.1 hi
    have hoff : (1 + 17 * (1 + Config.default.BITMAP_SIZE)) * Config.default.PAGE_SIZE + i
        = 2277318656 + i := by
      rw [default_BITMAP_SIZE, default_PAGE_SIZE]
    simp only [hoff]
    rw [if_pos ⟨by omega, by omega⟩, Nat.add_sub_cancel_left]
  have hbm : bitmapOnDisk Config.default
      ⟨⟨555969, 18, s.meta_data_.extent_used_page_.set 17 1⟩,
        ⟨2277322752,
          fun i => if 2277318656 ≤ i ∧ i < 2277318656 + 4096 then
              (ofBitmap Config.default bm).getD (i - 2277318656) 0
            else s.db_io_.data i,
          false⟩⟩ 17 = bm := by
    show toBitmap Config.default ((List.range Config.default.PAGE_SIZE).map
      (fun i => (fun j : Nat => if 2277318656 ≤ j ∧ j < 2277318656 + 4096 then
          (ofBitmap Config.default bm).getD (j - 2277318656) 0 else s.db_io_.data j)
        ((1 + 17 * (1 + Config.default.BITMAP_SIZE)) * Config.default.PAGE_SIZE + i))) = bm
    rw [hmap, hback]
  refine ⟨rfl, rfl, rfl, ?_, ?_, ?_⟩
  · show (s.meta_data_.extent_used_page_.set 17 1).getD 17 0 = 1
    exact getD_set_self _ 17 1 (by omega)
  · rw [hbm, hbcount]
  · rw [hbm, hbit]
    rfl

end DiskManager

namespace BufferPoolManager

/-- C12 (failing input).  On every state of the pool that satisfies the
representation invariant, `DeletePage(p)` of a page that is not pinned (not
resident, or resident with pin count 0) returns `true` and leaves `p` out of
the page table.  But with 4 KiB pages and `p` from 555968 up to 1079231 (the
extents 17 to 32) nothing is deallocated on disk: the counters of the disk
manager (`num_allocated_pages`, `extent_used_page`) and every byte of the
file, the bitmap pages included, are as before the call.
`DiskManager::DeAllocatePage` reads the bitmap page of the extent through
`ReadPhysicalPage`, whose `int` byte offset is negative there, gets a zero page,
takes `p` for already free and gives up.
The state after 555969 calls of `AllocatePage` on an empty file is such a
disk: page 555968 is counted in `num_allocated_pages` and in
`extent_used_page[17]`, and its bit is set in the bitmap page of extent 17 in
the file.
On a small file the page is deallocated: after one `AllocatePage` on an empty
file (it returns page 0), `DeletePage(0)` on a fresh pool returns `true`,
`num_allocated_pages` is 0 again and `IsPageFree(0)` holds. -/
theorem DeletePage_keeps_page_allocated (s : BufferPoolManager)
    (hs : Inv Config.default s none) (p : Nat)
    (hpin : ∀ f : Int, UMap.find s.page_table_ (p : Int) = some f →
      (page Config.default s f).pin_count_ = 0) :
    ((DeletePage Config.default s (p : Int)).1 = true ∧
      UMap.find (DeletePage Config.default s (p : Int)).2.page_table_ (p : Int) = none ∧
      (555968 ≤ p → p < 1079232 →
        (DeletePage Config.default s (p : Int)).2.disk_manager_.meta_data_
          = s.disk_manager_.meta_data_ ∧
        (DeletePage Config.default s (p : Int)).2.disk_manager_.db_io_.data
          = s.disk_manager_.db_io_.data ∧
        (DeletePage Config.default s (p : Int)).2.disk_manager_.db_io_.size
          = s.disk_manager_.db_io_.size)) ∧
    ((DiskManager.AllocatePage Config.default
        (DiskManager.run Config.default (DiskManager.openEmpty Config.default)
          (List.replicate 555968 .allocate)).2).1 = 555968 ∧
      (DiskManager.AllocatePage Config.default
        (DiskManager.run Config.default (DiskManager.openEmpty Config.default)
          (List.replicate 555968 .allocate)).2).2.meta_data_.num_allocated_pages_ = 555969 ∧
      (DiskManager.AllocatePage Config.default
        (DiskManager.run Config.default (DiskManager.openEmpty Config.default)
          (List.replicate 555968 .allocate)).2).2.meta_data_.num_extents_ = 18 ∧
      (DiskManager.AllocatePage Config.default
        (DiskManager.run Config.default (DiskManager.openEmpty Config.default)
          (List.replicate 555968 .allocate)).2).2.meta_data_.extent_used_page_.getD 17 0 = 1 ∧
      (DiskManager.bitmapOnDisk Config.default
        (DiskManager.AllocatePage Config.default
          (DiskManager.run Config.default (DiskManager.openEmpty Config.default)
            (List.replicate 555968 .allocate)).2).2 17).page_allocated_ = 1 ∧
      BitmapPage.bit (DiskManager.bitmapOnDisk Config.default
        (DiskManager.AllocatePage Config.default
          (DiskManager.run Config.default (DiskManager.openEmpty Config.default)
            (List.replicate 555968 .allocate)).2).2 17) 0 = true) ∧
    ((DeletePage Config.default
        (BufferPoolManager.new Config.default 1
          (DiskManager.AllocatePage Config.default
            (DiskManager.openEmpty Config.default)).2) 0).1 = true ∧
      (DiskManager.AllocatePage Config.default
        (DiskManager.openEmpty Config.default)).2.meta_data_.num_allocated_pages_ = 1 ∧
      (DeletePage Config.default
        (BufferPoolManager.new Config.default 1
          (DiskManager.AllocatePage Config.default
            (DiskManager.openEmpty Config.default)).2) 0).2.disk_manager_.meta_data_.num_allocated_pages_
        = 0 ∧
      (DiskManager.IsPageFree Config.default
        (DeletePage Config.default
          (BufferPoolManager.new Config.default 1
            (DiskManager.AllocatePage Config.default
              (DiskManager.openEmpty Config.default)).2) 0).2.disk_manager_ 0).1 = true) := by
  refine ⟨?_, ?_, ?_⟩
  · obtain ⟨_, hres, hnot⟩ := DeletePage_contract Config.default s hs (p : Int)
    have hdisk : (DeletePage Config.default s (p : Int)).1 = true ∧
        UMap.find (DeletePage Config.default s (p : Int)).2.page_table_ (p : Int) = none ∧
        (DeletePage Config.default s (p : Int)).2.disk_manager_
          = DiskManager.DeAllocatePage Config.default s.disk_manager_ (p : Int) := by
      cases hfind : UMap.find s.page_table_ (p : Int) with
      | none =>
        rw [hnot hfind]
        exact ⟨rfl, hfind, rfl⟩
      | some f =>
        obtain ⟨a, b, _, _, _, _, _, _, c⟩ := hres f hfind (hpin f hfind)
        exact ⟨a, b, c⟩
    refine ⟨hdisk.1, hdisk.2.1, fun h1 h2 => ?_⟩
    rw [hdisk.2.2]
    exact DiskManager.DeAllocatePage_unreadable s.disk_manager_ p h1 h2
  · have hF := (DiskManager.Filled_run 555968 (le_refl _)).2
    generalize (DiskManager.run Config.default (DiskManager.openEmpty Config.default)
      (List.replicate 555968 .allocate)).2 = d at hF ⊢
    exact DiskManager.one_more_allocation d hF
  · have e : DeletePage Config.default
        (BufferPoolManager.new Config.default 1
          (DiskManager.AllocatePage Config.default
            (DiskManager.openEmpty Config.default)).2) 0
        = (true,
            { BufferPoolManager.new Config.default 1
                (DiskManager.AllocatePage Config.default
                  (DiskManager.openEmpty Config.default)).2 with
              disk_manager_ :=
                DiskManager.DeAllocatePage Config.default
                  (DiskManager.AllocatePage Config.default
                    (DiskManager.openEmpty Config.default)).2 0 }) := rfl
    rw [e]
    refine ⟨rfl, ?_, ?_, ?_⟩
    · decide!
    · show (DiskManager.DeAllocatePage Config.default
        (DiskManager.AllocatePage Config.default
          (DiskManager.openEmpty Config.default)).2 0).meta_data_.num_allocated_pages_ = 0
      decide!
    · show (DiskManager.IsPageFree Config.default
        (DiskManager.DeAllocatePage Config.default
          (DiskManager.AllocatePage Config.default
            (DiskManager.openEmpty Config.default)).2 0) 0).1 = true
      decide!

end BufferPoolManager

namespace BufferPoolManager

theorem new_disk_manager (cfg : Config) (pool_size : Nat) (d : DiskManager) :
    (BufferPoolManager.new cfg pool_size d).disk_manager_ = d := rfl

/-- Instance of `DeletePage_keeps_page_allocated`: a fresh pool of one frame
over the file after 555969 calls of `AllocatePage` (the last one returned page
555968).  `DeletePage(555968)` returns `true`, and afterwards 555969 pages are
still counted as allocated and the bit of page 555968 is still set in the
bitmap page of extent 17 in the file. -/
theorem DeletePage_keeps_page_allocated_witness :
    (DeletePage Config.default
      (BufferPoolManager.new Config.default 1
        (DiskManager.AllocatePage Config.default
          (DiskManager.run Config.default (DiskManager.openEmpty Config.default)
            (List.replicate 555968 .allocate)).2).2) ((555968 : Nat) : Int)).1 = true ∧
    (DeletePage Config.default
      (BufferPoolManager.new Config.default 1
        (DiskManager.AllocatePage Config.default
          (DiskManager.run Config.default (DiskManager.openEmpty Config.default)
            (List.replicate 555968 .allocate)).2).2)
      ((555968 : Nat) : Int)).2.disk_manager_.meta_data_.num_allocated_pages_ = 555969 ∧
    BitmapPage.bit (DiskManager.bitmapOnDisk Config.default
      (DeletePage Config.default
        (BufferPoolManager.new Config.default 1
          (DiskManager.AllocatePage Config.default
            (DiskManager.run Config.default (DiskManager.openEmpty Config.default)
              (List.replicate 555968 .allocate)).2).2)
        ((555968 : Nat) : Int)).2.disk_manager_ 17) 0 = true := by
  have hF := (DiskManager.Filled_run 555968 (le_refl _)).2
  generalize (DiskManager.run Config.default (DiskManager.openEmpty Config.default)
    (List.replicate 555968 .allocate)).2 = d0 at hF ⊢
  obtain ⟨_, hnum, _, _, _, hbit⟩ := DiskManager.one_more_allocation d0 hF
  generalize (DiskManager.AllocatePage Config.default d0).2 = d at hnum hbit ⊢
  have h := (DeletePage_keeps_page_allocated (BufferPoolManager.new Config.default 1 d)
    (Inv_new_pool Config.default 1 d) 555968 (fun f hf => by cases hf)).1
  obtain ⟨h1, _, h3⟩ := h
  obtain ⟨hmeta, hdata, _⟩ := h3 (by decide) (by decide)
  rw [new_disk_manager] at hmeta hdata
  refine ⟨h1, ?_, ?_⟩
  · rw [hmeta]
    exact hnum
  · have e : DiskManager.bitmapOnDisk Config.default
        (DeletePage Config.default (BufferPoolManager.new Config.default 1 d)
          ((555968 : Nat) : Int)).2.disk_manager_ 17
        = DiskManager.bitmapOnDisk Config.default d 17 := by
      unfold DiskManager.bitmapOnDisk
      rw [hdata]
    rw [e]
    exact hbit

end BufferPoolManager

namespace CatalogManager

/-- C19 as stated fails, in two ways.
(1) On the catalog `fullCatalog` (510 tables, 4 KiB pages) the name `[116]` is
fresh and `NewPage` yields a page, but `CreateTable` does not return
`DB_SUCCESS`: the catalog metadata with 511 entries take 4100 bytes, the
`ASSERT` of `CatalogMeta::SerializeTo` in `FlushCatalogMetaPage` fails and the
call does not return.
(2) On the catalog `twoTables` with `next_table_id_` back at 0 (the 32-bit
counter after a wrap-around) the name `[118]` is fresh and `NewPage` yields a
page; `CreateTable` returns `DB_SUCCESS` with a `TableInfo` named `[118]`, but
`tables_.emplace` does not replace the entry of id 0, and `GetTable` with the
name `[118]` returns the `TableInfo` of the table `[116]`. -/
theorem CreateTable_contract_counterexample :
    (UMap.count fullCatalog.table_names_ [116] = 0 ∧
      (BufferPoolManager.NewPage Config.default fullCatalog.buffer_pool_manager_).2.1 ≠ none ∧
      CreateTable Config.default Collab.simple fullCatalog [116]
        ⟨[⟨[97], .kTypeInt, 4, 0, false, false⟩], true⟩ = none) ∧
    (UMap.count twoTables.table_names_ [118] = 0 ∧
      (BufferPoolManager.NewPage Config.default twoTables.buffer_pool_manager_).2.1 ≠ none ∧
      (CreateTable Config.default Collab.simple { twoTables with next_table_id_ := 0 } [118]
          ⟨[⟨[97], .kTypeInt, 4, 0, false, false⟩], true⟩).map
        (fun r => (r.1, r.2.1.map TableInfo.GetTableName,
          (GetTable r.2.2 [118]).1, (GetTable r.2.2 [118]).2.map TableInfo.GetTableName))
        = some (.DB_SUCCESS, some [118], .DB_SUCCESS, some [116])) := by
  refine ⟨⟨by decide, by decide!, ?_⟩, by decide, by decide!, by decide!⟩
  have h : (CreateTable Config.default Collab.simple fullCatalog [116]
      ⟨[⟨[97], .kTypeInt, 4, 0, false, false⟩], true⟩).isNone = true := by decide!
  exact Option.isNone_iff_eq_none.1 h

end CatalogManager

namespace CatalogMeta

/-- An entry whose key is above every key of the map is put at the end. -/
theorem emplace_append (m : List (Nat × page_id_t)) (k : Nat) (v : page_id_t)
    (h : ∀ a ∈ m, a.1 < k) : emplace m k v = m ++ [(k, v)] := by
  induction m with
  | nil => rfl
  | cons e rest ih =>
    obtain ⟨k', v'⟩ := e
    have hk : k' < k := h (k', v') (List.mem_cons_self _ _)
    simp only [emplace]
    rw [if_neg (by omega), if_neg (by omega), ih (fun a ha => h a (List.mem_cons_of_mem _ ha))]
    rfl

theorem entryBytes_cons (e : Nat × page_id_t) (l : List (Nat × page_id_t)) :
    entryBytes (e :: l) = MACH_WRITE_UINT32 e.1 ++ (MACH_WRITE_INT32 e.2 ++ entryBytes l) := by
  simp only [entryBytes, List.map_cons, List.flatten_cons, List.append_assoc]

theorem entryBytes_length (l : List (Nat × page_id_t)) : (entryBytes l).length = 8 * l.length := by
  induction l with
  | nil => rfl
  | cons e rest ih =>
    rw [entryBytes_cons]
    simp only [List.length_append, ih, List.length_cons]
    have h1 : (MACH_WRITE_UINT32 e.1).length = 4 := rfl
    have h2 : (MACH_WRITE_INT32 e.2).length = 4 := rfl
    omega

/-- The loop of `DeserializeFrom` reads back what the loop of `SerializeTo`
wrote for a well-formed map. -/
theorem readEntries_entryBytes (buf : List Nat) (l : List (Nat × page_id_t)) :
    ∀ (off : Nat) (m : List (Nat × page_id_t)) (rest : List Nat),
      buf.drop off = entryBytes l ++ rest → WellFormed (m ++ l) →
      readEntries buf l.length off m = m ++ l := by
  induction l with
  | nil =>
    intro off m rest _ _
    simp [readEntries]
  | cons e l ih =>
    intro off m rest hd hw
    obtain ⟨k, v⟩ := e
    have he : (k, v) ∈ m ++ (k, v) :: l := by simp
    obtain ⟨hk, hv1, hv2⟩ := hw.2 (k, v) he
    rw [entryBytes_cons] at hd
    have h1 : MACH_READ_UINT32 (buf.drop off) = k := by
      rw [hd]
      simp only [List.append_assoc]
      exact MACH_READ_WRITE_UINT32 k hk _
    have h4 : buf.drop (off + 4) = MACH_WRITE_INT32 v ++ entryBytes l ++ rest := by
      rw [← List.drop_drop, hd]
      simp only [List.append_assoc]
      rfl
    have h2 : toInt32 (MACH_READ_UINT32 (buf.drop (off + 4))) = v := by
      rw [h4]
      simp only [List.append_assoc, MACH_WRITE_INT32]
      rw [MACH_READ_WRITE_UINT32 _ _ _]
      · exact Field.toInt32_toNat v hv1 hv2
      · have := Int.emod_lt_of_pos v (show (0 : Int) < 2 ^ 32 by norm_num)
        have := Int.emod_nonneg v (show (2 ^ 32 : Int) ≠ 0 by norm_num)
        omega
    have h8 : buf.drop (off + 8) = entryBytes l ++ rest := by
      have e8 : off + 8 = (off + 4) + 4 := by omega
      rw [e8, ← List.drop_drop, h4]
      simp only [List.append_assoc, MACH_WRITE_INT32]
      rfl
    have hm : ∀ a ∈ m, a.1 < k := by
      intro a ha
      have := List.pairwise_append.1 hw.1
      exact this.2.2 a ha (k, v) (List.mem_cons_self _ _)
    simp only [List.length_cons, readEntries]
    rw [h1, h2, emplace_append m k v hm]
    have hw' : WellFormed ((m ++ [(k, v)]) ++ l) := by
      simpa [List.append_assoc] using hw
    rw [ih (off + 8) (m ++ [(k, v)]) rest h8 hw']
    simp

/-- What `SerializeTo` writes for well-formed maps that fit into a page is read
back by `DeserializeFrom`. -/
theorem DeserializeFrom_reads_back (cfg : Config) (x : Collab) (m : CatalogMeta)
    (old data : List Nat) (hmagic : x.CATALOG_METADATA_MAGIC_NUM < 2 ^ 32)
    (ht : WellFormed m.table_meta_pages_) (hi : WellFormed m.index_meta_pages_)
    (hfit : 12 + 8 * (m.table_meta_pages_.length + m.index_meta_pages_.length) < 2 ^ 32)
    (h : SerializeTo cfg x m old = some data) : DeserializeFrom x data = some m := by
  unfold SerializeTo at h
  split at h
  case isFalse => cases h
  simp only [Option.some.injEq] at h
  subst h
  obtain ⟨tl, il⟩ := m
  simp only at ht hi hfit ⊢
  have hT : u32 tl.length = tl.length := Nat.mod_eq_of_lt (by omega)
  have hI : u32 il.length = il.length := Nat.mod_eq_of_lt (by omega)
  generalize hrest : List.drop _ old = rest
  have hbuf : MACH_WRITE_UINT32 x.CATALOG_METADATA_MAGIC_NUM ++ MACH_WRITE_UINT32 (u32 tl.length) ++
      MACH_WRITE_UINT32 (u32 il.length) ++ entryBytes tl ++ entryBytes il ++ rest
      = MACH_WRITE_UINT32 x.CATALOG_METADATA_MAGIC_NUM ++ (MACH_WRITE_UINT32 tl.length ++
        (MACH_WRITE_UINT32 il.length ++ (entryBytes tl ++ (entryBytes il ++ rest)))) := by
    rw [hT, hI]
    simp only [List.append_assoc]
  rw [hbuf]
  generalize hb : MACH_WRITE_UINT32 x.CATALOG_METADATA_MAGIC_NUM ++ (MACH_WRITE_UINT32 tl.length ++
        (MACH_WRITE_UINT32 il.length ++ (entryBytes tl ++ (entryBytes il ++ rest)))) = buf
  have r0 : MACH_READ_UINT32 buf = x.CATALOG_METADATA_MAGIC_NUM := by
    rw [← hb]; exact MACH_READ_WRITE_UINT32 _ hmagic _
  have d4 : buf.drop 4 = MACH_WRITE_UINT32 tl.length ++
        (MACH_WRITE_UINT32 il.length ++ (entryBytes tl ++ (entryBytes il ++ rest))) := by
    rw [← hb]; rfl
  have d8 : buf.drop 8 = MACH_WRITE_UINT32 il.length ++ (entryBytes tl ++ (entryBytes il ++ rest)) := by
    rw [← hb]; rfl
  have d12 : buf.drop 12 = entryBytes tl ++ (entryBytes il ++ rest) := by
    rw [← hb]; rfl
  have r4 : MACH_READ_UINT32 (buf.drop 4) = tl.length := by
    rw [d4]; exact MACH_READ_WRITE_UINT32 _ (by omega) _
  have r8 : MACH_READ_UINT32 (buf.drop 8) = il.length := by
    rw [d8]; exact MACH_READ_WRITE_UINT32 _ (by omega) _
  have dI : buf.drop (12 + 8 * tl.length) = entryBytes il ++ rest := by
    rw [← List.drop_drop, d12, ← entryBytes_length tl]
    simp
  unfold DeserializeFrom
  rw [if_pos r0]
  simp only [r4, r8]
  rw [readEntries_entryBytes buf tl 12 [] _ d12 (by simpa using ht),
    readEntries_entryBytes buf il _ [] _ dI (by simpa using hi)]
  simp

end CatalogMeta
theorem wrapInt32_bounds (x : Int) : -(2 ^ 31) ≤ wrapInt32 x ∧ wrapInt32 x < 2 ^ 31 := by
  unfold wrapInt32
  have h1 := Int.emod_nonneg (x + 2 ^ 31) (show (2 ^ 32 : Int) ≠ 0 by norm_num)
  have h2 := Int.emod_lt_of_pos (x + 2 ^ 31) (show (0 : Int) < 2 ^ 32 by norm_num)
  omega

namespace DiskManager

/-- A page id returned from inside the first loop of `AllocatePage` is an
`int`. -/
theorem allocateInExtents_range (cfg : Config) : ∀ (l : List Nat) (s s' : DiskManager)
    (p : page_id_t), allocateInExtents cfg l s = (some p, s') →
    -(2 ^ 31) ≤ p ∧ p < 2 ^ 31 := by
  intro l
  induction l with
  | nil =>
    intro s s' p h
    simp only [allocateInExtents, Prod.mk.injEq] at h
    exact absurd h.1 (fun e => Option.noConfusion e)
  | cons e rest ih =>
    intro s s' p h
    unfold allocateInExtents at h
    dsimp only at h
    split at h
    · split at h
      · simp only [Prod.mk.injEq, Option.some.injEq] at h
        rw [← h.1]
        exact wrapInt32_bounds _
      · exact ih _ _ _ h
    · exact ih _ _ _ h

/-- The page id that `AllocatePage` returns is an `int`. -/
theorem AllocatePage_range (cfg : Config) (s : DiskManager) :
    -(2 ^ 31) ≤ (AllocatePage cfg s).1 ∧ (AllocatePage cfg s).1 < 2 ^ 31 := by
  have hinv : -(2 ^ 31) ≤ INVALID_PAGE_ID ∧ INVALID_PAGE_ID < 2 ^ 31 := by
    unfold INVALID_PAGE_ID; constructor <;> norm_num
  unfold AllocatePage
  by_cases h1 : s.meta_data_.num_allocated_pages_ ≥ cfg.MAX_VALID_PAGE_ID
  · rw [if_pos h1]; exact hinv
  · rw [if_neg h1]
    rcases ha : allocateInExtents cfg (List.range s.meta_data_.num_extents_) s with ⟨o, s'⟩
    cases o with
    | some p => exact allocateInExtents_range cfg _ _ _ _ ha
    | none =>
      show -(2 ^ 31) ≤ (if s'.meta_data_.num_extents_ < u32 ((cfg.PAGE_SIZE - 8) / 4) then _
          else (INVALID_PAGE_ID, s')).1 ∧
        (if s'.meta_data_.num_extents_ < u32 ((cfg.PAGE_SIZE - 8) / 4) then _
          else (INVALID_PAGE_ID, s')).1 < 2 ^ 31
      by_cases h2 : s'.meta_data_.num_extents_ < u32 ((cfg.PAGE_SIZE - 8) / 4)
      · rw [if_pos h2]
        rcases hb : BitmapPage.AllocatePage (toBitmap cfg (zeroPage cfg)) with ⟨o2, bm⟩
        cases o2 with
        | some q => exact wrapInt32_bounds _
        | none => exact hinv
      · rw [if_neg h2]; exact hinv

end DiskManager

namespace BufferPoolManager

/-- The page id that `NewPage` writes to `page_id_out` is an `int`. -/
theorem NewPage_range (cfg : Config) (s : BufferPoolManager) :
    -(2 ^ 31) ≤ (NewPage cfg s).1 ∧ (NewPage cfg s).1 < 2 ^ 31 := by
  have hinv : -(2 ^ 31) ≤ INVALID_PAGE_ID ∧ INVALID_PAGE_ID < 2 ^ 31 := by
    unfold INVALID_PAGE_ID; constructor <;> norm_num
  unfold NewPage
  simp only
  split
  · exact hinv
  · split
    · exact hinv
    · exact DiskManager.AllocatePage_range cfg _

end BufferPoolManager

namespace CatalogMeta

theorem mem_emplace (m : List (Nat × page_id_t)) (k : Nat) (v : page_id_t) (a : Nat × page_id_t)
    (h : a ∈ emplace m k v) : a ∈ m ∨ a = (k, v) := by
  induction m with
  | nil =>
    simp only [emplace, List.mem_singleton] at h
    exact Or.inr h
  | cons e rest ih =>
    obtain ⟨k', v'⟩ := e
    simp only [emplace] at h
    split at h
    · rcases List.mem_cons.1 h with h | h
      · exact Or.inr h
      · exact Or.inl h
    · split at h
      · exact Or.inl h
      · rcases List.mem_cons.1 h with h | h
        · exact Or.inl (h ▸ List.mem_cons_self _ _)
        · rcases ih h with h | h
          · exact Or.inl (List.mem_cons_of_mem _ h)
          · exact Or.inr h

/-- The emplace of `std::map` keeps the keys in ascending order. -/
theorem emplace_pairwise (m : List (Nat × page_id_t)) (k : Nat) (v : page_id_t)
    (h : m.Pairwise (fun a b => a.1 < b.1)) :
    (emplace m k v).Pairwise (fun a b => a.1 < b.1) := by
  induction m with
  | nil => simp [emplace]
  | cons e rest ih =>
    obtain ⟨k', v'⟩ := e
    have hr := List.pairwise_cons.1 h
    simp only [emplace]
    split
    · next hlt =>
      refine List.pairwise_cons.2 ⟨?_, h⟩
      intro a ha
      rcases List.mem_cons.1 ha with ha | ha
      · rw [ha]; exact hlt
      · exact lt_trans hlt (hr.1 a ha)
    · split
      · exact h
      · next h1 h2 =>
        refine List.pairwise_cons.2 ⟨?_, ih hr.2⟩
        intro a ha
        rcases mem_emplace rest k v a ha with ha | ha
        · exact hr.1 a ha
        · rw [ha]
          show k' < k
          omega

theorem WellFormed_emplace (m : List (Nat × page_id_t)) (k : Nat) (v : page_id_t)
    (h : WellFormed m) (hk : k < 2 ^ 32) (hv : -(2 ^ 31) ≤ v ∧ v < 2 ^ 31) :
    WellFormed (emplace m k v) := by
  refine ⟨emplace_pairwise m k v h.1, ?_⟩
  intro a ha
  rcases mem_emplace m k v a ha with ha | ha
  · exact h.2 a ha
  · rw [ha]; exact ⟨hk, hv.1, hv.2⟩

theorem WellFormed_erase (m : List (Nat × page_id_t)) (k : Nat) (h : WellFormed m) :
    WellFormed (UMap.erase m k) := by
  refine ⟨List.Pairwise.sublist (List.filter_sublist _) h.1, ?_⟩
  intro a ha
  exact h.2 a (List.mem_of_mem_filter ha)

theorem WellFormed_nil : WellFormed [] :=
  ⟨List.Pairwise.nil, fun _ h => absurd h (List.not_mem_nil _)⟩

end CatalogMeta
namespace CatalogManager

/-- When `SerializeTo` has written well-formed metadata that fit into a page,
`DeserializeFrom` reads them back from the catalog meta page. -/
theorem MetaReadable_of_written (cfg : Config) (x : Collab) (s : CatalogManager)
    (hmagic : x.CATALOG_METADATA_MAGIC_NUM < 2 ^ 32) (hcfg : cfg.PAGE_SIZE + 8 < 2 ^ 32)
    (hM : MetaFits cfg s) (hw : MetaWritten cfg x s) : MetaReadable cfg x s := by
  obtain ⟨f, old, hf, hser⟩ := hw
  exact ⟨f, hf, CatalogMeta.DeserializeFrom_reads_back cfg x s.catalog_meta_ old _ hmagic
    hM.1 hM.2.1 (by have := hM.2.2.1; omega) hser⟩

/-- Metadata that `SerializeTo` accepts and that have at most one entry more
than metadata that fit into a page fit into a page. -/
theorem fits_of_written (cfg : Config) (x : Collab) (s : CatalogManager) (n : Nat)
    (hcfg : cfg.PAGE_SIZE + 8 < 2 ^ 32) (hn : 12 + 8 * n ≤ cfg.PAGE_SIZE)
    (hlen : s.catalog_meta_.table_meta_pages_.length + s.catalog_meta_.index_meta_pages_.length
      ≤ n + 1)
    (hw : MetaWritten cfg x s) :
    12 + 8 * (s.catalog_meta_.table_meta_pages_.length
      + s.catalog_meta_.index_meta_pages_.length) ≤ cfg.PAGE_SIZE := by
  obtain ⟨f, old, _, hser⟩ := hw
  unfold CatalogMeta.SerializeTo at hser
  split at hser
  case isFalse => cases hser
  next hsize =>
  unfold CatalogMeta.GetSerializedSize u32 at hsize
  rw [Nat.mod_eq_of_lt (by omega)] at hsize
  omega

/-- The catalog metadata and the counters after a successful `CreateTable`. -/
theorem CreateTable_meta (cfg : Config) (x : Collab) (s : CatalogManager)
    (table_name : List Nat) (schema : Schema) (info : Option TableInfo) (s' : CatalogManager)
    (h : CreateTable cfg x s table_name schema = some (.DB_SUCCESS, info, s')) :
    s'.catalog_meta_ =
      ⟨CatalogMeta.emplace s.catalog_meta_.table_meta_pages_ s.next_table_id_
        (BufferPoolManager.NewPage cfg s.buffer_pool_manager_).1,
        s.catalog_meta_.index_meta_pages_⟩ ∧
    s'.next_table_id_ = u32 (s.next_table_id_ + 1) ∧ s'.next_index_id_ = s.next_index_id_ := by
  obtain ⟨hc, frame, hframe⟩ := CreateTable_success_inv cfg x s table_name schema info s' h
  rw [CreateTable_found cfg x s table_name schema frame hc hframe] at h
  simp only [] at h
  split at h
  · cases h
  next f hf =>
  simp only [Option.some.injEq, Prod.mk.injEq, true_and] at h
  obtain ⟨_, hs'⟩ := h
  subst hs'
  exact ⟨rfl, rfl, rfl⟩

/-- The maps of the names and of the tables after a successful `CreateTable`. -/
theorem CreateTable_maps (cfg : Config) (x : Collab) (s : CatalogManager)
    (table_name : List Nat) (schema : Schema) (info : Option TableInfo) (s' : CatalogManager)
    (h : CreateTable cfg x s table_name schema = some (.DB_SUCCESS, info, s')) :
    s'.table_names_ = UMap.emplace s.table_names_ table_name s.next_table_id_ ∧
    (∃ t, s'.tables_ = UMap.emplace s.tables_ s.next_table_id_ t) ∧
    s'.index_names_ = s.index_names_ := by
  obtain ⟨hc, frame, hframe⟩ := CreateTable_success_inv cfg x s table_name schema info s' h
  rw [CreateTable_found cfg x s table_name schema frame hc hframe] at h
  simp only [] at h
  split at h
  · cases h
  next f hf =>
  simp only [Option.some.injEq, Prod.mk.injEq, true_and] at h
  obtain ⟨_, hs'⟩ := h
  subst hs'
  exact ⟨rfl, ⟨_, rfl⟩, rfl⟩

/-- A successful `CreateTable` keeps the catalog metadata well-formed and
within a page. -/
theorem CreateTable_fits (cfg : Config) (x : Collab) (s : CatalogManager)
    (table_name : List Nat) (schema : Schema) (info : Option TableInfo) (s' : CatalogManager)
    (hcfg : cfg.PAGE_SIZE + 8 < 2 ^ 32) (hM : MetaFits cfg s) (hw : MetaWritten cfg x s')
    (h : CreateTable cfg x s table_name schema = some (.DB_SUCCESS, info, s')) :
    MetaFits cfg s' := by
  obtain ⟨h1, h2, h3⟩ := CreateTable_meta cfg x s table_name schema info s' h
  obtain ⟨ht, hi, hfit, hn1, hn2⟩ := hM
  have hlen := CatalogMeta.emplace_length_le s.catalog_meta_.table_meta_pages_ s.next_table_id_
    (BufferPoolManager.NewPage cfg s.buffer_pool_manager_).1
  have hfit' := fits_of_written cfg x s'
    (s.catalog_meta_.table_meta_pages_.length + s.catalog_meta_.index_meta_pages_.length)
    hcfg hfit (by rw [h1]; simp only; omega) hw
  refine ⟨?_, ?_, hfit', ?_, ?_⟩
  · rw [h1]
    exact CatalogMeta.WellFormed_emplace _ _ _ ht hn1 (BufferPoolManager.NewPage_range cfg _)
  · rw [h1]; exact hi
  · rw [h2]; unfold u32; exact Nat.mod_lt _ (by norm_num)
  · rw [h3]; exact hn2

/-- The `FlushCatalogMetaPage` at the end of a successful `CreateTable` on a
pool in order returns `DB_SUCCESS`: the buffer pool after the call is the one
that this flush leaves. -/
theorem CreateTable_flushed (cfg : Config) (x : Collab) (s : CatalogManager)
    (table_name : List Nat) (schema : Schema) (info : Option TableInfo) (s' : CatalogManager)
    (hp : PoolOK cfg x s.buffer_pool_manager_) (hx : Friendly cfg x)
    (hadm : BufferPoolManager.Admissible cfg s.buffer_pool_manager_ .newPage)
    (hne : (BufferPoolManager.NewPage cfg s.buffer_pool_manager_).1 ≠ x.CATALOG_META_PAGE_ID)
    (h : CreateTable cfg x s table_name schema = some (.DB_SUCCESS, info, s')) :
    ∃ b : BufferPoolManager,
      FlushCatalogMetaPage cfg x { s' with buffer_pool_manager_ := b }
        = some (.DB_SUCCESS, s'.buffer_pool_manager_) := by
  obtain ⟨hc, frame, hframe⟩ := CreateTable_success_inv cfg x s table_name schema info s' h
  rw [CreateTable_found cfg x s table_name schema frame hc hframe] at h
  simp only [] at h
  split at h
  · cases h
  next f hf =>
  simp only [Option.some.injEq, Prod.mk.injEq, true_and] at h
  obtain ⟨_, hs'⟩ := h
  subst hs'
  have hN := BufferPoolManager.NewPage_frame hp.1 hadm frame hframe
  have hp1 := NewPage_pool cfg x _ hp hadm frame hframe hne
  have hH := hx.heap_create _ (x.DeepCopySchema schema) hp1
  have hH2 := hH.2 _ frame hN.1 (by rw [hN.2.1]; decide)
  have hR := register_pool cfg x _ _ frame
    (x.TableMetadata_SerializeTo
      ⟨s.next_table_id_, table_name, (BufferPoolManager.NewPage cfg s.buffer_pool_manager_).1,
        x.DeepCopySchema schema⟩
      (BufferPoolManager.page cfg
        (x.TableHeap_Create (BufferPoolManager.NewPage cfg s.buffer_pool_manager_).2.2
          (x.DeepCopySchema schema)).2 frame).data_)
    hH.1 hH2.1 (by rw [hH2.2]; exact hN.2.1) hne
  have hF := FlushCatalogMetaPage_pool cfg x _ hR.1 f hf
  have hs : f.1 = .DB_SUCCESS := hF.2.2 ⟨_, frame, hR.2.1, hR.2.2⟩
  have hf' : f = (.DB_SUCCESS, f.2) := Prod.ext hs rfl
  rw [hf'] at hf
  exact ⟨_, hf⟩

end CatalogManager
namespace CatalogManager

/-- The catalog metadata and the counters after a successful `CreateIndex`. -/
theorem CreateIndex_meta (cfg : Config) (x : Collab) (s : CatalogManager)
    (table_name index_name : List Nat) (index_keys : List (List Nat))
    (info : Option IndexInfo) (s' : CatalogManager)
    (h : CreateIndex cfg x s table_name index_name index_keys = some (.DB_SUCCESS, info, s')) :
    s'.catalog_meta_ =
      ⟨s.catalog_meta_.table_meta_pages_,
        CatalogMeta.emplace s.catalog_meta_.index_meta_pages_ s.next_index_id_
          (BufferPoolManager.NewPage cfg s.buffer_pool_manager_).1⟩ ∧
    s'.next_table_id_ = s.next_table_id_ ∧ s'.next_index_id_ = u32 (s.next_index_id_ + 1) := by
  obtain ⟨table_id, table_info, key_map, frame, ht, hi, hidx, hr, hk, hframe⟩ :=
    CreateIndex_success_inv cfg x s table_name index_name index_keys info s' h
  rw [CreateIndex_found cfg x s table_name index_name index_keys table_id table_info ht hi
    hidx] at h
  simp only [hr, if_neg hk, hframe] at h
  split at h
  · cases h
  next f hf =>
  simp only [Option.some.injEq, Prod.mk.injEq, true_and] at h
  obtain ⟨_, hs'⟩ := h
  subst hs'
  exact ⟨rfl, rfl, rfl⟩

/-- A successful `CreateIndex` keeps the catalog metadata well-formed and
within a page. -/
theorem CreateIndex_fits (cfg : Config) (x : Collab) (s : CatalogManager)
    (table_name index_name : List Nat) (index_keys : List (List Nat))
    (info : Option IndexInfo) (s' : CatalogManager)
    (hcfg : cfg.PAGE_SIZE + 8 < 2 ^ 32) (hM : MetaFits cfg s) (hw : MetaWritten cfg x s')
    (h : CreateIndex cfg x s table_name index_name index_keys = some (.DB_SUCCESS, info, s')) :
    MetaFits cfg s' := by
  obtain ⟨h1, h2, h3⟩ := CreateIndex_meta cfg x s table_name index_name index_keys info s' h
  obtain ⟨ht, hi, hfit, hn1, hn2⟩ := hM
  have hlen := CatalogMeta.emplace_length_le s.catalog_meta_.index_meta_pages_ s.next_index_id_
    (BufferPoolManager.NewPage cfg s.buffer_pool_manager_).1
  have hfit' := fits_of_written cfg x s'
    (s.catalog_meta_.table_meta_pages_.length + s.catalog_meta_.index_meta_pages_.length)
    hcfg hfit (by rw [h1]; simp only; omega) hw
  refine ⟨?_, ?_, hfit', ?_, ?_⟩
  · rw [h1]; exact ht
  · rw [h1]
    exact CatalogMeta.WellFormed_emplace _ _ _ hi hn2 (BufferPoolManager.NewPage_range cfg _)
  · rw [h2]; exact hn1
  · rw [h3]; unfold u32; exact Nat.mod_lt _ (by norm_num)

/-- The `FlushCatalogMetaPage` at the end of a successful `CreateIndex` on a
pool in order returns `DB_SUCCESS`: the buffer pool after the call is the one
that this flush leaves. -/
theorem CreateIndex_flushed (cfg : Config) (x : Collab) (s : CatalogManager)
    (table_name index_name : List Nat) (index_keys : List (List Nat))
    (info : Option IndexInfo) (s' : CatalogManager)
    (hp : PoolOK cfg x s.buffer_pool_manager_) (hx : Friendly cfg x)
    (hadm : BufferPoolManager.Admissible cfg s.buffer_pool_manager_ .newPage)
    (hne : (BufferPoolManager.NewPage cfg s.buffer_pool_manager_).1 ≠ x.CATALOG_META_PAGE_ID)
    (h : CreateIndex cfg x s table_name index_name index_keys = some (.DB_SUCCESS, info, s')) :
    ∃ b : BufferPoolManager,
      FlushCatalogMetaPage cfg x { s' with buffer_pool_manager_ := b }
        = some (.DB_SUCCESS, s'.buffer_pool_manager_) := by
  obtain ⟨table_id, table_info, key_map, frame, ht, hi, hidx, hr, hk, hframe⟩ :=
    CreateIndex_success_inv cfg x s table_name index_name index_keys info s' h
  rw [CreateIndex_found cfg x s table_name index_name index_keys table_id table_info ht hi
    hidx] at h
  simp only [hr, if_neg hk, hframe] at h
  split at h
  · cases h
  next f hf =>
  simp only [Option.some.injEq, Prod.mk.injEq, true_and] at h
  obtain ⟨_, hs'⟩ := h
  subst hs'
  have hN := BufferPoolManager.NewPage_frame hp.1 hadm frame hframe
  have hp1 := NewPage_pool cfg x _ hp hadm frame hframe hne
  have hH := hx.index_init _ ⟨s.next_index_id_, index_name, table_info.GetTableId, key_map⟩
    table_info hp1
  have hH2 := hH.2 _ frame hN.1 (by rw [hN.2.1]; decide)
  have hR := register_pool cfg x _ _ frame
    (x.IndexMetadata_SerializeTo
      ⟨s.next_index_id_, index_name, table_info.GetTableId, key_map⟩
      (BufferPoolManager.page cfg
        (x.IndexInfo_Init (BufferPoolManager.NewPage cfg s.buffer_pool_manager_).2.2
          ⟨s.next_index_id_, index_name, table_info.GetTableId, key_map⟩ table_info)
        frame).data_)
    hH.1 hH2.1 (by rw [hH2.2]; exact hN.2.1) hne
  have hF := FlushCatalogMetaPage_pool cfg x _ hR.1 f hf
  have hs : f.1 = .DB_SUCCESS := hF.2.2 ⟨_, frame, hR.2.1, hR.2.2⟩
  have hf' : f = (.DB_SUCCESS, f.2) := Prod.ext hs rfl
  rw [hf'] at hf
  exact ⟨_, hf⟩

/-- `DropIndex` keeps the catalog metadata well-formed and within a page, and
when the index is found its result is the result of the
`FlushCatalogMetaPage` at its end, which leaves the buffer pool of the state
after the call. -/
theorem DropIndex_fits (cfg : Config) (x : Collab) (s : CatalogManager)
    (table_name index_name : List Nat) (r : dberr_t × CatalogManager)
    (hM : MetaFits cfg s) (h : DropIndex cfg x s table_name index_name = some r) :
    MetaFits cfg r.2 ∧
    (r = (.DB_INDEX_NOT_FOUND, s) ∨
      ∃ b : BufferPoolManager,
        FlushCatalogMetaPage cfg x { r.2 with buffer_pool_manager_ := b }
          = some (r.1, r.2.buffer_pool_manager_)) := by
  cases h1 : UMap.find s.index_names_ table_name with
  | none =>
    simp only [DropIndex, h1, Option.some.injEq] at h
    subst h
    exact ⟨hM, Or.inl rfl⟩
  | some names =>
    cases h2 : UMap.find names index_name with
    | none =>
      simp only [DropIndex, h1, h2, Option.some.injEq] at h
      subst h
      exact ⟨hM, Or.inl rfl⟩
    | some index_id =>
      rw [DropIndex_found cfg x s table_name index_name names index_id h1 h2] at h
      obtain ⟨f, hf, hres⟩ := Option.map_eq_some'.1 h
      subst hres
      obtain ⟨ht, hi, hfit, hn1, hn2⟩ := hM
      have hlen := CatalogMeta.erase_length_le s.catalog_meta_.index_meta_pages_ index_id
      refine ⟨⟨ht, CatalogMeta.WellFormed_erase _ _ hi, ?_, hn1, hn2⟩, Or.inr ⟨_, hf⟩⟩
      show 12 + 8 * (s.catalog_meta_.table_meta_pages_.length
        + (UMap.erase s.catalog_meta_.index_meta_pages_ index_id).length) ≤ cfg.PAGE_SIZE
      omega

theorem dropIndexes_fits (cfg : Config) (x : Collab) (table_name : List Nat)
    (infos : List IndexInfo) : ∀ (s s' : CatalogManager),
    dropIndexes cfg x table_name infos s = some s' → MetaFits cfg s → MetaFits cfg s' := by
  induction infos with
  | nil =>
    intro s s' h hM
    simp only [dropIndexes, Option.some.injEq] at h
    rw [← h]; exact hM
  | cons info rest ih =>
    intro s s' h hM
    simp only [dropIndexes] at h
    cases hd : DropIndex cfg x s table_name info.GetIndexName with
    | none => simp [hd] at h
    | some r =>
      simp only [hd] at h
      exact ih r.2 s' h (DropIndex_fits cfg x s table_name _ r hM hd).1

/-- `DropTable` keeps the catalog metadata well-formed and within a page, and
when the table is found its result is the result of the
`FlushCatalogMetaPage` at its end, which leaves the buffer pool of the state
after the call. -/
theorem DropTable_fits (cfg : Config) (x : Collab) (s : CatalogManager)
    (table_name : List Nat) (res : dberr_t × CatalogManager)
    (hM : MetaFits cfg s) (h : DropTable cfg x s table_name = some res) :
    MetaFits cfg res.2 ∧
    (res = (.DB_TABLE_NOT_EXIST, s) ∨
      ∃ b : BufferPoolManager,
        FlushCatalogMetaPage cfg x { res.2 with buffer_pool_manager_ := b }
          = some (res.1, res.2.buffer_pool_manager_)) := by
  rcases DropTable_cases cfg x s table_name res h with ⟨_, rfl⟩ |
    ⟨table_id, out, s1, t, f, hn, hs1, _, hf, rfl⟩
  · exact ⟨hM, Or.inl rfl⟩
  · obtain ⟨ht, hi, hfit, hn1, hn2⟩ := dropIndexes_fits cfg x table_name out.2 s s1 hs1 hM
    have hlen := CatalogMeta.erase_length_le s1.catalog_meta_.table_meta_pages_ table_id
    refine ⟨⟨CatalogMeta.WellFormed_erase _ _ ht, hi, ?_, hn1, hn2⟩, Or.inr ⟨_, hf⟩⟩
    show 12 + 8 * ((UMap.erase s1.catalog_meta_.table_meta_pages_ table_id).length
      + s1.catalog_meta_.index_meta_pages_.length) ≤ cfg.PAGE_SIZE
    omega

end CatalogManager

namespace CatalogManager

/-- C24. The catalog that the constructor builds for a new database has its
views in agreement (first part).  From a catalog whose views agree (`tables_`,
`catalog_meta_.table_meta_pages_` and the ids in `table_names_` are the same
set, and so are `indexes_`, `catalog_meta_.index_meta_pages_` and the ids in
`index_names_`), in which no id is registered under two names and the ids are
below the counters, whose metadata are well-formed maps that fit into a page,
over a buffer pool in order in which the catalog meta page is not pinned, and
with collaborators that keep the pool in order: after a `CreateTable` or
`CreateIndex` that returns `DB_SUCCESS` (the counter not wrapping, `NewPage`
handing out a page that was not resident and is not the catalog meta page),
and after a `DropTable` or `DropIndex` that returns, the views agree again and
the other conditions hold again.  If the result is `DB_SUCCESS`, the catalog
meta page is resident, its bytes are those that `SerializeTo` writes for
`catalog_meta_`, and `DeserializeFrom` reads exactly `catalog_meta_` from
them.  The result goes with the write of the catalog meta page: the buffer
pool after a successful `CreateTable` or `CreateIndex` is the one left by a
`FlushCatalogMetaPage` of the new catalog that returned `DB_SUCCESS` (under
these conditions the flush at their end, whose result they discard, cannot
fail), and a `DropTable` or `DropIndex` that found its object returns the
result of the `FlushCatalogMetaPage` at its end, so it returns `DB_FAILED`
when that flush could not fetch the page. -/
theorem views_and_meta_page_after_ddl (cfg : Config) (x : Collab) (s : CatalogManager)
    (hT : TableViews s) (hI : IndexViews s) (hD : Distinct s) (hM : MetaFits cfg s)
    (hp : PoolOK cfg x s.buffer_pool_manager_) (hx : Friendly cfg x)
    (hmagic : x.CATALOG_METADATA_MAGIC_NUM < 2 ^ 32) (hcfg : cfg.PAGE_SIZE + 8 < 2 ^ 32) :
    (∀ (b : BufferPoolManager) (s0 : CatalogManager), CatalogManager.new cfg x b true = some s0 →
      TableViews s0 ∧ IndexViews s0 ∧ Distinct s0) ∧
    (∀ (table_name : List Nat) (schema : Schema) (info : Option TableInfo) (s' : CatalogManager),
      CreateTable cfg x s table_name schema = some (.DB_SUCCESS, info, s') →
      s.next_table_id_ + 1 < 2 ^ 32 →
      BufferPoolManager.Admissible cfg s.buffer_pool_manager_ .newPage →
      (BufferPoolManager.NewPage cfg s.buffer_pool_manager_).1 ≠ x.CATALOG_META_PAGE_ID →
      TableViews s' ∧ IndexViews s' ∧ Distinct s' ∧ MetaFits cfg s' ∧
      PoolOK cfg x s'.buffer_pool_manager_ ∧
      MetaWritten cfg x s' ∧ MetaReadable cfg x s' ∧
      ∃ b : BufferPoolManager,
        FlushCatalogMetaPage cfg x { s' with buffer_pool_manager_ := b }
          = some (.DB_SUCCESS, s'.buffer_pool_manager_)) ∧
    (∀ (table_name index_name : List Nat) (index_keys : List (List Nat))
        (info : Option IndexInfo) (s' : CatalogManager),
      CreateIndex cfg x s table_name index_name index_keys = some (.DB_SUCCESS, info, s') →
      s.next_index_id_ + 1 < 2 ^ 32 →
      BufferPoolManager.Admissible cfg s.buffer_pool_manager_ .newPage →
      (BufferPoolManager.NewPage cfg s.buffer_pool_manager_).1 ≠ x.CATALOG_META_PAGE_ID →
      TableViews s' ∧ IndexViews s' ∧ Distinct s' ∧ MetaFits cfg s' ∧
      PoolOK cfg x s'.buffer_pool_manager_ ∧
      MetaWritten cfg x s' ∧ MetaReadable cfg x s' ∧
      ∃ b : BufferPoolManager,
        FlushCatalogMetaPage cfg x { s' with buffer_pool_manager_ := b }
          = some (.DB_SUCCESS, s'.buffer_pool_manager_)) ∧
    (∀ (table_name : List Nat) (r : dberr_t) (s' : CatalogManager),
      DropTable cfg x s table_name = some (r, s') →
      TableViews s' ∧ IndexViews s' ∧ Distinct s' ∧ MetaFits cfg s' ∧
      PoolOK cfg x s'.buffer_pool_manager_ ∧
      (r = .DB_SUCCESS → MetaWritten cfg x s' ∧ MetaReadable cfg x s') ∧
      ((r, s') = (.DB_TABLE_NOT_EXIST, s) ∨
        ∃ b : BufferPoolManager,
          FlushCatalogMetaPage cfg x { s' with buffer_pool_manager_ := b }
            = some (r, s'.buffer_pool_manager_))) ∧
    (∀ (table_name index_name : List Nat) (r : dberr_t) (s' : CatalogManager),
      DropIndex cfg x s table_name index_name = some (r, s') →
      TableViews s' ∧ IndexViews s' ∧ Distinct s' ∧ MetaFits cfg s' ∧
      PoolOK cfg x s'.buffer_pool_manager_ ∧
      (r = .DB_SUCCESS → MetaWritten cfg x s' ∧ MetaReadable cfg x s') ∧
      ((r, s') = (.DB_INDEX_NOT_FOUND, s) ∨
        ∃ b : BufferPoolManager,
          FlushCatalogMetaPage cfg x { s' with buffer_pool_manager_ := b }
            = some (r, s'.buffer_pool_manager_))) := by
  refine ⟨new_views cfg x, ?_, ?_, ?_, ?_⟩
  · intro table_name schema info s' h hwrap hadm hne
    obtain ⟨a, b, c⟩ := CreateTable_views cfg x s table_name schema info s' h hwrap ⟨hT, hI, hD⟩
    obtain ⟨d, e⟩ := CreateTable_pool cfg x s table_name schema info s' hp hx hadm hne h
    have m := CreateTable_fits cfg x s table_name schema info s' hcfg hM e h
    exact ⟨a, b, c, m, d, e, MetaReadable_of_written cfg x s' hmagic hcfg m e,
      CreateTable_flushed cfg x s table_name schema info s' hp hx hadm hne h⟩
  · intro table_name index_name index_keys info s' h hwrap hadm hne
    obtain ⟨a, b, c⟩ :=
      CreateIndex_views cfg x s table_name index_name index_keys info s' h hwrap ⟨hT, hI, hD⟩
    obtain ⟨d, e⟩ :=
      CreateIndex_pool cfg x s table_name index_name index_keys info s' hp hx hadm hne h
    have m := CreateIndex_fits cfg x s table_name index_name index_keys info s' hcfg hM e h
    exact ⟨a, b, c, m, d, e, MetaReadable_of_written cfg x s' hmagic hcfg m e,
      CreateIndex_flushed cfg x s table_name index_name index_keys info s' hp hx hadm hne h⟩
  · intro table_name r s' h
    obtain ⟨a, b, c⟩ := DropTable_views cfg x s table_name (r, s') h ⟨hT, hI, hD⟩
    obtain ⟨d, e⟩ := DropTable_pool cfg x s table_name (r, s') hp hx h
    obtain ⟨m, fl⟩ := DropTable_fits cfg x s table_name (r, s') hM h
    exact ⟨a, b, c, m, d,
      fun hr => ⟨e hr, MetaReadable_of_written cfg x s' hmagic hcfg m (e hr)⟩, fl⟩
  · intro table_name index_name r s' h
    obtain ⟨a, b, c⟩ := DropIndex_views cfg x s table_name index_name (r, s') h ⟨hT, hI, hD⟩
    obtain ⟨d, e⟩ := DropIndex_pool cfg x s table_name index_name (r, s') hp h
    obtain ⟨m, fl⟩ := DropIndex_fits cfg x s table_name index_name (r, s') hM h
    exact ⟨a, b, c, m, d,
      fun hr => ⟨e hr, MetaReadable_of_written cfg x s' hmagic hcfg m (e hr)⟩, fl⟩

theorem emptyCatalog_fits : MetaFits Config.default emptyCatalog :=
  ⟨CatalogMeta.WellFormed_nil, CatalogMeta.WellFormed_nil, by decide, by decide, by decide⟩

end CatalogManager
namespace CatalogManager

/-- Instance of `views_and_meta_page_after_ddl`: on the catalog `emptyCatalog`,
`CreateTable` of the table `t` with one `int` column returns `DB_SUCCESS`;
afterwards the catalog metadata hold the one entry (table 0, meta page 2), the
views agree and `DeserializeFrom` reads the metadata back from the catalog
meta page.  `DropTable` of `t` on the state reached returns, the table has
left the catalog metadata, the views agree, and after the result `DB_SUCCESS`
the metadata can again be read back from the catalog meta page. -/
theorem views_and_meta_page_after_ddl_witness :
    ∃ (info : Option TableInfo) (s' : CatalogManager) (r : dberr_t) (s'' : CatalogManager),
      CreateTable Config.default Collab.simple emptyCatalog [116]
        ⟨[⟨[97], .kTypeInt, 4, 0, false, false⟩], true⟩ = some (.DB_SUCCESS, info, s') ∧
      s'.catalog_meta_ = ⟨[(0, 2)], []⟩ ∧
      TableViews s' ∧ IndexViews s' ∧ MetaReadable Config.default Collab.simple s' ∧
      DropTable Config.default Collab.simple s' [116] = some (r, s'') ∧
      s''.catalog_meta_.table_meta_pages_ = [] ∧
      TableViews s'' ∧ IndexViews s'' ∧
      (r = .DB_SUCCESS → MetaReadable Config.default Collab.simple s'') := by
  have hrun := CreateTable_found Config.default Collab.simple emptyCatalog [116]
    ⟨[⟨[97], .kTypeInt, 4, 0, false, false⟩], true⟩ 2 (by decide) (by decide!)
  simp only [] at hrun
  obtain ⟨f, hf⟩ := FlushCatalogMetaPage_some Config.default Collab.simple
    { emptyCatalog with
      buffer_pool_manager_ :=
        (BufferPoolManager.UnpinPage Config.default
          (BufferPoolManager.writeData Config.default
            (Collab.simple.TableHeap_Create
              (BufferPoolManager.NewPage Config.default emptyCatalog.buffer_pool_manager_).2.2
              (Collab.simple.DeepCopySchema
                ⟨[⟨[97], .kTypeInt, 4, 0, false, false⟩], true⟩)).2 2
            (Collab.simple.TableMetadata_SerializeTo
              ⟨emptyCatalog.next_table_id_, [116],
                (BufferPoolManager.NewPage Config.default emptyCatalog.buffer_pool_manager_).1,
                Collab.simple.DeepCopySchema
                  ⟨[⟨[97], .kTypeInt, 4, 0, false, false⟩], true⟩⟩
              (BufferPoolManager.page Config.default
                (Collab.simple.TableHeap_Create
                  (BufferPoolManager.NewPage Config.default
                    emptyCatalog.buffer_pool_manager_).2.2
                  (Collab.simple.DeepCopySchema
                    ⟨[⟨[97], .kTypeInt, 4, 0, false, false⟩], true⟩)).2 2).data_))
          (BufferPoolManager.NewPage Config.default emptyCatalog.buffer_pool_manager_).1
          true).2,
      next_table_id_ := u32 (emptyCatalog.next_table_id_ + 1),
      tables_ := UMap.emplace emptyCatalog.tables_ emptyCatalog.next_table_id_
        ⟨⟨emptyCatalog.next_table_id_, [116],
            (BufferPoolManager.NewPage Config.default emptyCatalog.buffer_pool_manager_).1,
            Collab.simple.DeepCopySchema ⟨[⟨[97], .kTypeInt, 4, 0, false, false⟩], true⟩⟩,
          (Collab.simple.TableHeap_Create
            (BufferPoolManager.NewPage Config.default emptyCatalog.buffer_pool_manager_).2.2
            (Collab.simple.DeepCopySchema
              ⟨[⟨[97], .kTypeInt, 4, 0, false, false⟩], true⟩)).1⟩,
      table_names_ := UMap.emplace emptyCatalog.table_names_ [116] emptyCatalog.next_table_id_,
      catalog_meta_ :=
        { emptyCatalog.catalog_meta_ with
          table_meta_pages_ :=
            CatalogMeta.emplace emptyCatalog.catalog_meta_.table_meta_pages_
              emptyCatalog.next_table_id_
              (BufferPoolManager.NewPage Config.default
                emptyCatalog.buffer_pool_manager_).1 } }
    (le_trans (GetSerializedSize_le _) (by decide))
  rw [hf] at hrun
  have hrun' : ∃ info s', CreateTable Config.default Collab.simple emptyCatalog [116]
      ⟨[⟨[97], .kTypeInt, 4, 0, false, false⟩], true⟩ = some (.DB_SUCCESS, info, s') :=
    ⟨_, _, hrun⟩
  clear hrun hf
  obtain ⟨info, s', hrun⟩ := hrun'
  have hnp : (BufferPoolManager.NewPage Config.default emptyCatalog.buffer_pool_manager_).1
      = 2 := by decide!
  have h := (views_and_meta_page_after_ddl Config.default Collab.simple emptyCatalog
    emptyCatalog_views.1 emptyCatalog_views.2.1 emptyCatalog_views.2.2 emptyCatalog_fits
    emptyCatalog_pool (Friendly_simple Config.default) (by decide) (by decide)).2.1 [116]
    ⟨[⟨[97], .kTypeInt, 4, 0, false, false⟩], true⟩ info s' hrun (by decide)
    (by intro _; decide!) (by decide!)
  obtain ⟨hT', hI', hD', hM', hP', _, hR', _⟩ := h
  have hmeta := (CreateTable_meta Config.default Collab.simple emptyCatalog [116]
    ⟨[⟨[97], .kTypeInt, 4, 0, false, false⟩], true⟩ info s' hrun).1
  rw [hnp] at hmeta
  have hmeta' : s'.catalog_meta_ = ⟨[(0, 2)], []⟩ := hmeta
  obtain ⟨hnames, ⟨t, htables⟩, hinames⟩ := CreateTable_maps Config.default Collab.simple
    emptyCatalog [116] ⟨[⟨[97], .kTypeInt, 4, 0, false, false⟩], true⟩ info s' hrun
  have hn : UMap.find s'.table_names_ [116] = some 0 := by rw [hnames]; rfl
  have ht : UMap.find s'.tables_ 0 = some t := by
    rw [htables]
    show UMap.find [((0 : Nat), t)] 0 = some t
    simp [UMap.find]
  have hidx : indexNames s' [116] = [] := by unfold indexNames; rw [hinames]; rfl
  obtain ⟨names, s1, g, _, hd, hdrop⟩ := DropTable_found Config.default Collab.simple s' [116] 0 t
    hn ht (by intro e he; rw [hidx] at he; exact absurd he (List.not_mem_nil _)) hM'.2.2.1
  have h2 := (views_and_meta_page_after_ddl Config.default Collab.simple s'
    hT' hI' hD' hM' hP' (Friendly_simple Config.default) (by decide) (by decide)).2.2.2.1 [116]
    _ _ hdrop
  refine ⟨info, s', _, _, hrun, hmeta', hT', hI', hR', hdrop, ?_, h2.1, h2.2.1, ?_⟩
  · show UMap.erase s1.catalog_meta_.table_meta_pages_ 0 = []
    rw [hd.table_meta, hmeta']
    rfl
  · exact fun hr => (h2.2.2.2.2.2.1 hr).2

end CatalogManager

namespace BufferPoolManager

end BufferPoolManager
namespace TableHeap

end TableHeap
namespace TableHeap

end TableHeap

namespace TableHeap

end TableHeap
namespace TableHeap

end TableHeap

end MiniSQL
